import Mathlib

/-!
# clox: a shallow embedding of the bytecode interpreter

The definitions follow the C sources file by file: `value.h` / `value.c`
(NaN-boxed values), `scanner.c`, `chunk.c`, `hash_table.c`, `compiler.c`
and `vm.c`.  Machine words are natural numbers; a `double` is represented
by its 64-bit IEEE-754 pattern, which is what `numToValue` / `valueToNum`
copy with `memcpy`.
-/

namespace Clox

/-! ## value.h (the `NAN_BOXING` variant, enabled in `common.h`) -/

/-! The C type `Value` is `uint64_t`: a value is a natural number below
`2 ^ 64`. -/

def SIGN_BIT : Nat := 0x8000000000000000
def QNAN : Nat := 0x7ffc000000000000
def TAG_NIL : Nat := 1
def TAG_FALSE : Nat := 2
def TAG_TRUE : Nat := 3

/-- The 64-bit complement `~(SIGN_BIT | QNAN)`. -/
def PTR_MASK : Nat := 0x0003ffffffffffff

def FALSE_VAL : Nat := QNAN ||| TAG_FALSE
def TRUE_VAL : Nat := QNAN ||| TAG_TRUE
def NIL_VAL : Nat := QNAN ||| TAG_NIL
def BOOL_VAL (b : Bool) : Nat := if b then TRUE_VAL else FALSE_VAL

/-- The macro `OBJ_VAL(obj)`: the pointer is or-ed into the tagged word. -/
def OBJ_VAL (obj : Nat) : Nat := (SIGN_BIT ||| QNAN ||| obj) % 2 ^ 64

/-- The function `numToValue`: the bits of the double, unchanged. -/
def numToValue (num : Nat) : Nat := num
/-- The function `valueToNum`: the bits of the word read as a double. -/
def valueToNum (value : Nat) : Nat := value

def NUMBER_VAL (num : Nat) : Nat := numToValue num
def AS_NUMBER (value : Nat) : Nat := valueToNum value
def AS_BOOL (value : Nat) : Bool := value == TRUE_VAL
def AS_OBJ (value : Nat) : Nat := value &&& PTR_MASK

def IS_NIL (value : Nat) : Bool := value == NIL_VAL
def IS_NUMBER (value : Nat) : Bool := (value &&& QNAN) != QNAN
def IS_BOOL (value : Nat) : Bool := (value ||| 1) == TRUE_VAL
def IS_OBJ (value : Nat) : Bool := (value &&& (QNAN ||| SIGN_BIT)) == (QNAN ||| SIGN_BIT)

/-! ## IEEE-754 doubles, on their bit patterns

Only what the C operators used by the sources need: `==`, the ordering
comparisons, unary minus and the implicit conversion of a `double` to
`uint64_t`.  Arithmetic with rounding (`+ - * /`) and `strtod` belong to
the C library and are taken as parameters (`Host`). -/

def dblSign (d : Nat) : Nat := (d / 2 ^ 63) % 2
def dblExp (d : Nat) : Nat := (d / 2 ^ 52) % 2 ^ 11
def dblFrac (d : Nat) : Nat := d % 2 ^ 52

def dblIsNaN (d : Nat) : Bool := dblExp d == 2047 && dblFrac d != 0
def dblIsZero (d : Nat) : Bool := dblExp d == 0 && dblFrac d == 0

/-- C `a == b` on doubles: false when either is a NaN, `+0 == -0`. -/
def dblEq (a b : Nat) : Bool :=
  !dblIsNaN a && !dblIsNaN b && ((dblIsZero a && dblIsZero b) || a % 2 ^ 64 == b % 2 ^ 64)

/-- C `a < b` on doubles: false when either is a NaN. -/
def dblLt (a b : Nat) : Bool :=
  !dblIsNaN a && !dblIsNaN b && !(dblIsZero a && dblIsZero b) &&
    (if dblSign a == 1 then
       (if dblSign b == 1 then b % 2 ^ 63 < a % 2 ^ 63 else true)
     else
       (if dblSign b == 1 then false else a % 2 ^ 63 < b % 2 ^ 63))

def dblLe (a b : Nat) : Bool := dblLt a b || dblEq a b
def dblGt (a b : Nat) : Bool := dblLt b a
def dblGe (a b : Nat) : Bool := dblLe b a

/-- C unary minus on a double: the sign bit is flipped. -/
def dblNeg (d : Nat) : Nat := (d % 2 ^ 64) ^^^ SIGN_BIT

/-- The magnitude of a finite double, truncated toward zero. -/
def dblTrunc (d : Nat) : Nat :=
  let e := dblExp d
  let m := if e == 0 then dblFrac d else 2 ^ 52 + dblFrac d
  let e1 := if e == 0 then 1 else e
  if 1075 ≤ e1 then m * 2 ^ (e1 - 1075) else m / 2 ^ (1075 - e1)

/-- The implicit C conversion from `double` to `uint64_t` (C11 6.3.1.4):
the value is truncated toward zero; the behaviour is undefined (`none`)
when the truncated value is not representable. -/
def dblToU64 (d : Nat) : Option Nat :=
  if dblExp d == 2047 then none
  else if dblTrunc d == 0 then some 0
  else if dblSign d == 1 then none
  else if dblTrunc d < 2 ^ 64 then some (dblTrunc d) else none

/-- The host services the sources call and that are not part of the
repository: the double arithmetic `a + b`, `a - b`, `a * b`, `a / b`,
`strtod` on the characters at a pointer, the reading of `clock()` already
divided by `CLOCKS_PER_SEC`, and `residue i`, the byte found at index `i` of
a block the memory pool hands out before the program has written it. -/
structure Host where
  add : Nat → Nat → Nat
  sub : Nat → Nat → Nat
  mul : Nat → Nat → Nat
  div : Nat → Nat → Nat
  strtod : List Nat → Nat
  clock : Nat
  residue : Nat → Nat

/-! ## value.c -/

/-- The function `valuesEqual` (NAN_BOXING branch). -/
def valuesEqual (a b : Nat) : Bool :=
  if IS_NUMBER a && IS_NUMBER b then dblEq (AS_NUMBER a) (AS_NUMBER b)
  else a == b

/-- The function `isFalsey` of `vm.c`. -/
def isFalsey (value : Nat) : Bool :=
  IS_NIL value || (IS_BOOL value && !AS_BOOL value)

/-! ## scanner.h / scanner.c

The header under `scanner.h` does not list the token kinds `TOKEN_BREAK`,
`TOKEN_CONTINUE`, `TOKEN_INCREASE`, `TOKEN_DECREASE`, `TOKEN_COLON`,
`TOKEN_CASE`, `TOKEN_DEFAULT` and `TOKEN_SWITCH` that `scanner.c` and
`compiler.c` use; they are added here as further members of the
enumeration. -/

inductive TokenType where
  | TOKEN_LEFT_PAREN | TOKEN_RIGHT_PAREN
  | TOKEN_LEFT_BRACE | TOKEN_RIGHT_BRACE
  | TOKEN_COMMA | TOKEN_DOT | TOKEN_MINUS | TOKEN_PLUS
  | TOKEN_SEMICOLON | TOKEN_SLASH | TOKEN_STAR
  | TOKEN_BANG | TOKEN_BANG_EQUAL
  | TOKEN_EQUAL | TOKEN_EQUAL_EQUAL
  | TOKEN_GREATER | TOKEN_GREATER_EQUAL
  | TOKEN_LESS | TOKEN_LESS_EQUAL
  | TOKEN_IDENTIFIER | TOKEN_STRING | TOKEN_NUMBER
  | TOKEN_AND | TOKEN_CLASS | TOKEN_ELSE | TOKEN_FALSE
  | TOKEN_FOR | TOKEN_FUN | TOKEN_IF | TOKEN_NIL | TOKEN_OR
  | TOKEN_PRINT | TOKEN_RETURN | TOKEN_SUPER | TOKEN_THIS
  | TOKEN_TRUE | TOKEN_VAR | TOKEN_WHILE
  | TOKEN_ERROR | TOKEN_EOF
  | TOKEN_BREAK | TOKEN_CONTINUE | TOKEN_INCREASE | TOKEN_DECREASE
  | TOKEN_COLON | TOKEN_CASE | TOKEN_DEFAULT | TOKEN_SWITCH
  deriving DecidableEq, Repr

open TokenType

/-- The code of a character. -/
def ch (c : Char) : Nat := c.toNat

/-- The bytes of a C string literal. -/
def cstr (s : String) : List Nat := s.toList.map Char.toNat

/-- A token.  The pointer `start` is represented by the characters it
points at (up to the terminating NUL of the string it points into); the
lexeme is the first `length` of them. -/
structure Token where
  type : TokenType
  start : List Nat
  length : Nat
  line : Nat
  column : Nat
  deriving DecidableEq, Repr

/-- The lexeme of a token: `length` characters at `start`. -/
def Token.lexeme (t : Token) : List Nat := t.start.take t.length

/-- The scanner.  `start` and `current` are offsets into `source`; the
character at and after the end of `source` is the NUL terminator. -/
structure Scanner where
  source : List Nat
  start : Nat
  current : Nat
  line : Nat
  column : Nat
  deriving DecidableEq, Repr

def TABLE_GAP : Nat := 4
/-- The mask `~(TABLE_GAP - 1)` as a 32-bit pattern. -/
def TABLE_GAP_MASK : Nat := 0xfffffffc
def UP_ALIGN_TABLE (x : Nat) : Nat := (x + TABLE_GAP - 1) &&& TABLE_GAP_MASK

def initScanner (source : List Nat) : Scanner :=
  { source := source, start := 0, current := 0, line := 1, column := 1 }

namespace Scanner

/-- The character `scanner.current[i]`. -/
def charAt (s : Scanner) (i : Nat) : Nat := s.source.getD (s.current + i) 0

def isAtEnd (s : Scanner) : Bool := s.charAt 0 == 0

def makeToken (s : Scanner) (type : TokenType) : Token × Scanner :=
  let length := s.current - s.start
  ({ type := type, start := s.source.drop s.start, length := length,
     line := s.line, column := s.column },
   { s with column := s.column + length })

def errorToken (s : Scanner) (message : String) : Token :=
  { type := TOKEN_ERROR, start := cstr message, length := (cstr message).length,
    line := s.line, column := s.column }

def advance (s : Scanner) : Nat × Scanner :=
  (s.source.getD s.current 0, { s with current := s.current + 1 })

/-- The scanner's `match(expected)`. -/
def matchChar (s : Scanner) (expected : Nat) : Bool × Scanner :=
  if s.isAtEnd then (false, s)
  else if s.charAt 0 != expected then (false, s)
  else (true, { s with current := s.current + 1 })

def peek (s : Scanner) : Nat := s.charAt 0

def peekNext (s : Scanner) : Nat := if s.isAtEnd then 0 else s.charAt 1

/-- The inner loop of `skipWhitespace` that runs to the end of a comment. -/
def skipComment : Nat → Scanner → Scanner
  | 0, s => s
  | fuel + 1, s =>
    if s.peek != ch '\n' && !s.isAtEnd then skipComment fuel (s.advance).2 else s

/-- The loop of `skipWhitespace`; every iteration that continues consumes a
character, so `source.length + 1` iterations always suffice. -/
def skipWhitespaceLoop : Nat → Scanner → Scanner
  | 0, s => s
  | fuel + 1, s =>
    let c := s.peek
    if c == ch ' ' then
      let column := s.column + 1
      let s := { s with column := if column != 0 then column else UP_ALIGN_TABLE s.column }
      skipWhitespaceLoop fuel (s.advance).2
    else if c == ch '\r' || c == ch '\t' then
      let s := { s with column := UP_ALIGN_TABLE s.column }
      skipWhitespaceLoop fuel (s.advance).2
    else if c == ch '\n' then
      let s := { s with line := s.line + 1, column := 1 }
      skipWhitespaceLoop fuel (s.advance).2
    else if c == ch '/' then
      if s.peekNext == ch '/' then
        skipWhitespaceLoop fuel (skipComment (s.source.length + 1) s)
      else s
    else s

def skipWhitespace (s : Scanner) : Scanner :=
  skipWhitespaceLoop (s.source.length + 1) s

/-- The loop of `string`. -/
def stringLoop : Nat → Scanner → Scanner
  | 0, s => s
  | fuel + 1, s =>
    if s.peek != ch '"' && !s.isAtEnd then
      let s := if s.peek == ch '\n' then { s with line := s.line + 1 } else s
      stringLoop fuel (s.advance).2
    else s

def string (s : Scanner) : Token × Scanner :=
  let s := stringLoop (s.source.length + 1) s
  if s.isAtEnd then (s.errorToken "Unterminated string.", s)
  else (s.advance).2.makeToken TOKEN_STRING

def isDigit (c : Nat) : Bool := ch '0' ≤ c && c ≤ ch '9'

def digits : Nat → Scanner → Scanner
  | 0, s => s
  | fuel + 1, s => if isDigit s.peek then digits fuel (s.advance).2 else s

def number (s : Scanner) : Token × Scanner :=
  let s := digits (s.source.length + 1) s
  let s :=
    if s.peek == ch '.' && isDigit s.peekNext then
      digits (s.source.length + 1) (s.advance).2
    else s
  s.makeToken TOKEN_NUMBER

def isAlpha (c : Nat) : Bool :=
  (ch 'a' ≤ c && c ≤ ch 'z') || (ch 'A' ≤ c && c ≤ ch 'Z') || c == ch '_'

def checkKeyword (s : Scanner) (start length : Nat) (rest : String)
    (type : TokenType) : TokenType :=
  if s.current - s.start == start + length &&
      (s.source.drop (s.start + start)).take length == (cstr rest).take length then type
  else TOKEN_IDENTIFIER

def identifierType (s : Scanner) : TokenType :=
  let c0 := s.source.getD s.start 0
  let c1 := s.source.getD (s.start + 1) 0
  if c0 == ch 'a' then s.checkKeyword 1 2 "nd" TOKEN_AND
  else if c0 == ch 'b' then s.checkKeyword 1 4 "reak" TOKEN_BREAK
  else if c0 == ch 'c' then
    if s.current - s.start > 1 then
      if c1 == ch 'l' then s.checkKeyword 2 3 "ass" TOKEN_CLASS
      else if c1 == ch 'a' then s.checkKeyword 2 2 "se" TOKEN_CASE
      else if c1 == ch 'o' then s.checkKeyword 2 6 "ntinue" TOKEN_CONTINUE
      else TOKEN_IDENTIFIER
    else TOKEN_IDENTIFIER
  else if c0 == ch 'd' then s.checkKeyword 1 4 "efault" TOKEN_DEFAULT
  else if c0 == ch 'e' then s.checkKeyword 1 3 "lse" TOKEN_ELSE
  else if c0 == ch 'f' then
    if s.current - s.start > 1 then
      if c1 == ch 'a' then s.checkKeyword 2 3 "lse" TOKEN_FALSE
      else if c1 == ch 'o' then s.checkKeyword 2 1 "r" TOKEN_FOR
      else if c1 == ch 'u' then s.checkKeyword 2 1 "n" TOKEN_FUN
      else TOKEN_IDENTIFIER
    else TOKEN_IDENTIFIER
  else if c0 == ch 'i' then s.checkKeyword 1 1 "f" TOKEN_IF
  else if c0 == ch 'n' then s.checkKeyword 1 2 "il" TOKEN_NIL
  else if c0 == ch 'o' then s.checkKeyword 1 1 "r" TOKEN_OR
  else if c0 == ch 'p' then s.checkKeyword 1 4 "rint" TOKEN_PRINT
  else if c0 == ch 'r' then s.checkKeyword 1 5 "eturn" TOKEN_RETURN
  else if c0 == ch 's' then
    if s.current - s.start > 1 then
      if c1 == ch 'u' then s.checkKeyword 2 4 "uper" TOKEN_SUPER
      else if c1 == ch 'w' then s.checkKeyword 2 4 "itch" TOKEN_SWITCH
      else TOKEN_IDENTIFIER
    else TOKEN_IDENTIFIER
  else if c0 == ch 't' then
    if s.current - s.start > 1 then
      if c1 == ch 'h' then s.checkKeyword 2 2 "is" TOKEN_THIS
      else if c1 == ch 'r' then s.checkKeyword 2 2 "ue" TOKEN_TRUE
      else TOKEN_IDENTIFIER
    else TOKEN_IDENTIFIER
  else if c0 == ch 'v' then s.checkKeyword 1 2 "ar" TOKEN_VAR
  else if c0 == ch 'w' then s.checkKeyword 1 4 "hile" TOKEN_WHILE
  else TOKEN_IDENTIFIER

def identifierLoop : Nat → Scanner → Scanner
  | 0, s => s
  | fuel + 1, s =>
    if isAlpha s.peek || isDigit s.peek then identifierLoop fuel (s.advance).2 else s

def identifier (s : Scanner) : Token × Scanner :=
  let s := identifierLoop (s.source.length + 1) s
  s.makeToken (identifierType s)

/-- Pick one of two token kinds after trying to match a second character. -/
def makeToken2 (s : Scanner) (expected : Nat) (yes no : TokenType) : Token × Scanner :=
  let r := s.matchChar expected
  r.2.makeToken (if r.1 then yes else no)

def scanToken (s : Scanner) : Token × Scanner :=
  let s := s.skipWhitespace
  let s := { s with start := s.current }
  if s.isAtEnd then s.makeToken TOKEN_EOF
  else
    let (c, s) := s.advance
    if isAlpha c then s.identifier
    else if isDigit c then s.number
    else if c == ch '(' then s.makeToken TOKEN_LEFT_PAREN
    else if c == ch ')' then s.makeToken TOKEN_RIGHT_PAREN
    else if c == ch '\x7b' then s.makeToken TOKEN_LEFT_BRACE
    else if c == ch '\x7d' then s.makeToken TOKEN_RIGHT_BRACE
    else if c == ch ';' then s.makeToken TOKEN_SEMICOLON
    else if c == ch ',' then s.makeToken TOKEN_COMMA
    else if c == ch '.' then s.makeToken TOKEN_DOT
    else if c == ch '-' then s.makeToken2 (ch '-') TOKEN_DECREASE TOKEN_MINUS
    else if c == ch '+' then s.makeToken2 (ch '+') TOKEN_INCREASE TOKEN_PLUS
    else if c == ch '/' then s.makeToken TOKEN_SLASH
    else if c == ch '*' then s.makeToken TOKEN_STAR
    else if c == ch ':' then s.makeToken TOKEN_COLON
    else if c == ch '!' then s.makeToken2 (ch '=') TOKEN_BANG_EQUAL TOKEN_BANG
    else if c == ch '=' then s.makeToken2 (ch '=') TOKEN_EQUAL_EQUAL TOKEN_EQUAL
    else if c == ch '<' then s.makeToken2 (ch '=') TOKEN_LESS_EQUAL TOKEN_LESS
    else if c == ch '>' then s.makeToken2 (ch '=') TOKEN_GREATER_EQUAL TOKEN_GREATER
    else if c == ch '"' then s.string
    else (s.errorToken "Unexpected character.", s)

end Scanner

/-! ## memory.h -/

def GROW_CAPACITY (capacity : Nat) : Nat := if capacity < 8 then 8 else capacity * 2

/-- The macro `GROW_ARRAY` on an array of bytes: the first `oldCount` cells
are kept, the cells up to `newCount` hold whatever the pool left there. -/
def growBytes (h : Host) (cells : List Nat) (oldCount newCount : Nat) : List Nat :=
  cells.take oldCount ++ (List.range (newCount - oldCount)).map (fun i => h.residue (oldCount + i) % 256)

/-! ## value.c, chunk.h, chunk.c -/

/-- A `ValueArray`; `values` holds the `count` cells written so far. -/
structure ValueArray where
  capacity : Nat
  count : Nat
  values : List Nat
  deriving DecidableEq, Repr

def initValueArray : ValueArray := { capacity := 0, count := 0, values := [] }

def writeValueArray (array : ValueArray) (value : Nat) : ValueArray :=
  let capacity := if array.capacity < array.count + 1 then GROW_CAPACITY array.capacity
                  else array.capacity
  { capacity := capacity, count := array.count + 1,
    values := array.values.take array.count ++ [value] }

def OP_CONSTANT : Nat := 0
def OP_NIL : Nat := 1
def OP_TRUE : Nat := 2
def OP_FALSE : Nat := 3
def OP_POP : Nat := 4
def OP_GET_LOCAL : Nat := 5
def OP_SET_LOCAL : Nat := 6
def OP_GET_GLOBAL : Nat := 7
def OP_DEFINE_GLOBAL : Nat := 8
def OP_SET_GLOBAL : Nat := 9
def OP_GET_UPVALUE : Nat := 10
def OP_SET_UPVALUE : Nat := 11
def OP_GET_PROPERTY : Nat := 12
def OP_SET_PROPERTY : Nat := 13
def OP_GET_SUPER : Nat := 14
def OP_EQUAL : Nat := 15
def OP_NOT_EQUAL : Nat := 16
def OP_GREATER : Nat := 17
def OP_GREATER_EQUAL : Nat := 18
def OP_LESS : Nat := 19
def OP_LESS_EQUAL : Nat := 20
def OP_ADD : Nat := 21
def OP_SUBTRACT : Nat := 22
def OP_MULTIPLY : Nat := 23
def OP_DIVIDE : Nat := 24
def OP_NOT : Nat := 25
def OP_NEGATE : Nat := 26
def OP_PRINT : Nat := 27
def OP_JUMP : Nat := 28
def OP_JUMP_IF_FALSE : Nat := 29
def OP_LOOP : Nat := 30
def OP_CALL : Nat := 31
def OP_INVOKE : Nat := 32
def OP_SUPER_INVOKE : Nat := 33
def OP_CLOSURE : Nat := 34
def OP_CLOSE_UPVALUE : Nat := 35
def OP_RETURN : Nat := 36
def OP_CLASS : Nat := 37
def OP_INHERIT : Nat := 38
def OP_METHOD : Nat := 39

/-- A `Chunk`.  `code` holds the `count` bytes written so far; `rle` holds
all `rleCapacity` cells of the line map, written or not. -/
structure Chunk where
  count : Nat
  capacity : Nat
  code : List Nat
  constants : ValueArray
  rle : List Nat
  rleIndex : Nat
  rleCapacity : Nat
  deriving DecidableEq, Repr

def initChunk : Chunk :=
  { count := 0, capacity := 0, code := [], constants := initValueArray,
    rle := [], rleIndex := 0, rleCapacity := 0 }

/-- The function `addLine`; `none` when a cell outside the `rle` array is
read or written. -/
def addLine (h : Host) (chunk : Chunk) (line : Nat) : Option Chunk :=
  let chunk :=
    if chunk.rleIndex + 2 > chunk.rleCapacity then
      let oldCapacity := chunk.rleCapacity
      { chunk with rleCapacity := GROW_CAPACITY oldCapacity,
                   rle := growBytes h chunk.rle oldCapacity (GROW_CAPACITY oldCapacity) }
    else chunk
  let i := chunk.rleIndex
  if i + 1 < chunk.rle.length then
    if chunk.rle.getD i 0 == 0 then
      some { chunk with rle := (chunk.rle.set i 1).set (i + 1) (line % 256) }
    else if chunk.rle.getD (i + 1) 0 == line then
      some { chunk with rle := chunk.rle.set i ((chunk.rle.getD i 0 + 1) % 256) }
    else if i + 3 < chunk.rle.length then
      some { chunk with rleIndex := i + 2,
                        rle := (chunk.rle.set (i + 2) 1).set (i + 3) (line % 256) }
    else none
  else none

def writeChunk (h : Host) (chunk : Chunk) (byte : Nat) (line : Nat) : Option Chunk :=
  let capacity := if chunk.capacity < chunk.count + 1 then GROW_CAPACITY chunk.capacity
                  else chunk.capacity
  let chunk := { chunk with capacity := capacity,
                            code := chunk.code.take chunk.count ++ [byte % 256],
                            count := chunk.count + 1 }
  addLine h chunk line

/-- The loop of `getLine`, from pair index `i` with running total `pro`. -/
def getLineLoop (chunk : Chunk) (offset : Int) : Nat → Nat → Nat → Int
  | 0, _, _ => -1
  | fuel + 1, i, pro =>
    if i ≤ chunk.rleIndex then
      let pro := pro + chunk.rle.getD i 0
      if (pro : Int) > offset then (chunk.rle.getD (i + 1) 0 : Int)
      else getLineLoop chunk offset fuel (i + 2) pro
    else -1

def getLine (chunk : Chunk) (offset : Int) : Int :=
  getLineLoop chunk offset (chunk.rleIndex + 1) 0 0

/-! ## hash_table.c

The header `hash_table.h` (the declarations of `Entry` and `Table`) is not
among the sources; the two records follow the uses in `hash_table.c`.  A
key is a pointer to a string object, `0` is `NULL`; the field `key->hash`
is read through the function `hashOf`. -/

structure Entry where
  key : Nat
  value : Nat
  deriving DecidableEq, Repr

structure Table where
  count : Nat
  capacity : Nat
  entries : List Entry
  deriving DecidableEq, Repr

def initTable : Table := { count := 0, capacity := 0, entries := [] }

/-- The probe loop of `findEntry`: the index of the entry returned, `none`
when the loop does not return within `fuel` probes. -/
def findEntryLoop (entries : List Entry) (capacity : Nat) (key : Nat) :
    Nat → Nat → Option Nat → Option Nat
  | 0, _, _ => none
  | fuel + 1, index, tombstone =>
    let entry := entries.getD index { key := 0, value := NIL_VAL }
    if entry.key == 0 then
      if IS_NIL entry.value then
        some (match tombstone with | some t => t | none => index)
      else
        findEntryLoop entries capacity key fuel ((index + 1) &&& (capacity - 1))
          (match tombstone with | some t => some t | none => some index)
    else if entry.key == key then some index
    else findEntryLoop entries capacity key fuel ((index + 1) &&& (capacity - 1)) tombstone

/-- The function `findEntry`.  A probe sequence visits at most `capacity`
distinct slots, so a loop that has not returned after `capacity` probes
never returns. -/
def findEntry (hashOf : Nat → Nat) (entries : List Entry) (capacity : Nat) (key : Nat) :
    Option Nat :=
  if capacity == 0 then none
  else findEntryLoop entries capacity key capacity (hashOf key &&& (capacity - 1)) none

/-- The second loop of `adjustCapacity`: re-insert the live entries. -/
def adjustCapacityLoop (hashOf : Nat → Nat) (capacity : Nat) :
    List Entry → List Entry → Nat → Option (List Entry × Nat)
  | [], entries, count => some (entries, count)
  | entry :: rest, entries, count =>
    if entry.key == 0 then adjustCapacityLoop hashOf capacity rest entries count
    else
      match findEntry hashOf entries capacity entry.key with
      | none => none
      | some dest =>
        adjustCapacityLoop hashOf capacity rest
          (entries.set dest { key := entry.key, value := entry.value }) (count + 1)

def adjustCapacity (hashOf : Nat → Nat) (table : Table) (capacity : Nat) : Option Table :=
  let entries := List.replicate capacity { key := 0, value := NIL_VAL : Entry }
  match adjustCapacityLoop hashOf capacity (table.entries.take table.capacity) entries 0 with
  | none => none
  | some (entries, count) => some { count := count, capacity := capacity, entries := entries }

/-- The function `tableSet`.  The test `count + 1 > capacity * 0.75` is
written on integers. -/
def tableSet (hashOf : Nat → Nat) (table : Table) (key : Nat) (value : Nat) :
    Option (Bool × Table) :=
  let grown :=
    if 4 * (table.count + 1) > 3 * table.capacity then
      adjustCapacity hashOf table (GROW_CAPACITY table.capacity)
    else some table
  match grown with
  | none => none
  | some table =>
    match findEntry hashOf table.entries table.capacity key with
    | none => none
    | some i =>
      let entry := table.entries.getD i { key := 0, value := NIL_VAL }
      let isNewKey := entry.key == 0
      let count := if isNewKey && IS_NIL entry.value then table.count + 1 else table.count
      some (isNewKey, { table with count := count,
                                   entries := table.entries.set i { key := key, value := value } })

/-- The loop of `tableAddAll`. -/
def tableAddAllLoop (hashOf : Nat → Nat) : List Entry → Table → Option Table
  | [], toT => some toT
  | entry :: rest, toT =>
    if entry.key != 0 then
      match tableSet hashOf toT entry.key entry.value with
      | none => none
      | some (_, toT) => tableAddAllLoop hashOf rest toT
    else tableAddAllLoop hashOf rest toT

/-- The function `tableAddAll(from, to)`. -/
def tableAddAll (hashOf : Nat → Nat) (fromT toT : Table) : Option Table :=
  tableAddAllLoop hashOf (fromT.entries.take fromT.capacity) toT

/-- The function `tableGet`: `some none` for `false`, `some (some v)` for
`true` with `*value = v`, `none` when the probe loop does not return. -/
def tableGet (hashOf : Nat → Nat) (table : Table) (key : Nat) : Option (Option Nat) :=
  if table.count == 0 then some none
  else
    match findEntry hashOf table.entries table.capacity key with
    | none => none
    | some i =>
      let entry := table.entries.getD i { key := 0, value := NIL_VAL }
      if entry.key == 0 then some none else some (some entry.value)

def tableDelete (hashOf : Nat → Nat) (table : Table) (key : Nat) : Option (Bool × Table) :=
  if table.count == 0 then some (false, table)
  else
    match findEntry hashOf table.entries table.capacity key with
    | none => none
    | some i =>
      let entry := table.entries.getD i { key := 0, value := NIL_VAL }
      if entry.key == 0 then some (false, table)
      else some (true, { table with entries := table.entries.set i { key := 0, value := BOOL_VAL true } })

/-- The loop of `tableFindString`; `keyIs k` tells whether the key `k` has
the length, hash and bytes looked for. -/
def tableFindStringLoop (keyIs : Nat → Bool) (table : Table) : Nat → Nat → Option Nat
  | 0, _ => none
  | fuel + 1, index =>
    let entry := table.entries.getD index { key := 0, value := NIL_VAL }
    if entry.key == 0 then
      if IS_NIL entry.value then some 0
      else tableFindStringLoop keyIs table fuel ((index + 1) &&& (table.capacity - 1))
    else if keyIs entry.key then some entry.key
    else tableFindStringLoop keyIs table fuel ((index + 1) &&& (table.capacity - 1))

/-- The function `tableFindString`: the key found, `0` for `NULL`; `none`
when the loop does not return. -/
def tableFindString (keyIs : Nat → Bool) (table : Table) (hash : Nat) : Option Nat :=
  if table.count == 0 then some 0
  else tableFindStringLoop keyIs table table.capacity (hash &&& (table.capacity - 1))

/-! ## object.h

`object.c` is not among the sources.  Heap objects live in `VM.heap`; the
pointer to the `i`-th object allocated is `i + 1`, and `0` is `NULL`. -/

inductive ObjType where
  | OBJ_BOUND_METHOD | OBJ_INSTANCE | OBJ_CLASS | OBJ_CLOSURE
  | OBJ_UPVALUE | OBJ_FUNCTION | OBJ_NATIVE | OBJ_STRING
  deriving DecidableEq, Repr

open ObjType

/-- Where `ObjUpvalue.location` points: at a slot of the VM stack or at the
upvalue's own `closed` field. -/
inductive Location where
  | slot (i : Nat)
  | closed
  deriving DecidableEq, Repr

/-- The fields that follow the `Obj` header, by kind of object. -/
inductive ObjBody where
  | string (length : Nat) (chars : List Nat) (hash : Nat)
  | function (arity : Nat) (chunk : Chunk) (name : Nat) (upvalueCount : Nat)
  | native (function : Nat)
  | upvalue (location : Location) (closed : Nat) (next : Nat)
  | closure (function : Nat) (upvalues : List Nat) (upvalueCount : Nat)
  | class (name : Nat) (methods : Table)
  | instance (klass : Nat) (fields : Table)
  | boundMethod (receiver : Nat) (method : Nat)
  deriving DecidableEq, Repr

def ObjBody.type : ObjBody → ObjType
  | .string .. => OBJ_STRING
  | .function .. => OBJ_FUNCTION
  | .native .. => OBJ_NATIVE
  | .upvalue .. => OBJ_UPVALUE
  | .closure .. => OBJ_CLOSURE
  | .class .. => OBJ_CLASS
  | .instance .. => OBJ_INSTANCE
  | .boundMethod .. => OBJ_BOUND_METHOD

/-- A heap object: the header `struct Obj` and the fields of its kind.  The
header field `type` is the kind of the fields. -/
structure Obj where
  isMarked : Bool
  next : Nat
  body : ObjBody

/-- The header field `type`. -/
def Obj.type (o : Obj) : ObjType := o.body.type

/-! ## vm.h -/

def FRAMES_MAX : Nat := 64

/-- A `CallFrame`: `ip` is an offset into the code of the closure's
function, `slots` an index into the VM stack. -/
structure CallFrame where
  closure : Nat
  ip : Nat
  slots : Nat
  deriving DecidableEq, Repr

inductive InterpretResult where
  | INTERPRET_OK | INTERPRET_COMPILE_ERROR | INTERPRET_RUNTIME_ERROR
  deriving DecidableEq, Repr

open InterpretResult

/-- One line of the stack trace that `runtimeError` prints:
`[line L] in script` when `name` is `NULL`, else `[line L] in name()`. -/
structure TraceLine where
  line : Int
  name : Nat
  deriving DecidableEq, Repr

/-- What `runtimeError` writes to `stderr`: the formatted message and the
stack trace. -/
structure RuntimeReport where
  message : String
  trace : List TraceLine
  deriving DecidableEq, Repr

/-- The global `vm`.  `stack` holds the cells below `stackTop`, bottom
first, so that `stackTop - stack` is its length; `frames` is the whole
array of `FRAMES_MAX` frames.  The fields `chunk` and `ip` are never used
and `grayStack`, `bytesAllocated`, `nextGC` belong to the collector, which
this model does not run.  `out` and `err` record what was printed. -/
structure VM where
  frames : List CallFrame
  frameCount : Nat
  stack : List Nat
  stackCapacity : Nat
  objects : Nat
  strings : Table
  globals : Table
  initString : Nat
  openUpvalues : Nat
  heap : List Obj
  out : List Nat
  err : List RuntimeReport

namespace VM

/-- The offset `vm.stackTop - vm.stack`. -/
def stackTop (vm : VM) : Nat := vm.stack.length

/-- The object a pointer refers to. -/
def deref (vm : VM) (p : Nat) : Option Obj :=
  if p == 0 then none else vm.heap.get? (p - 1)

/-- Overwrite the fields of the object at `p`. -/
def store (vm : VM) (p : Nat) (body : ObjBody) : VM :=
  match vm.deref p with
  | some o => { vm with heap := vm.heap.set (p - 1) { o with body := body } }
  | none => vm

/-- The read `key->hash`. -/
def hashOf (vm : VM) (key : Nat) : Nat :=
  match vm.deref key with
  | some { body := .string _ _ hash, .. } => hash
  | _ => 0

/-- The function `isObjType`. -/
def isObjType (vm : VM) (value : Nat) (type : ObjType) : Bool :=
  IS_OBJ value &&
    (match vm.deref (AS_OBJ value) with
     | some o => o.type == type
     | none => false)

def IS_STRING (vm : VM) (value : Nat) : Bool := vm.isObjType value OBJ_STRING
def IS_INSTANCE (vm : VM) (value : Nat) : Bool := vm.isObjType value OBJ_INSTANCE
def IS_CLASS (vm : VM) (value : Nat) : Bool := vm.isObjType value OBJ_CLASS

/-- The function `push`, with the growth of the stack array. -/
def push (vm : VM) (value : Nat) : VM :=
  let capacity := if vm.stackTop == vm.stackCapacity then GROW_CAPACITY vm.stackCapacity
                  else vm.stackCapacity
  { vm with stackCapacity := capacity, stack := vm.stack ++ [value] }

/-- The function `pop`; `none` when `stackTop` would move below the stack. -/
def pop (vm : VM) : Option (Nat × VM) :=
  match vm.stack.getLast? with
  | some v => some (v, { vm with stack := vm.stack.dropLast })
  | none => none

/-- The function `peek`; `none` when the cell lies below the stack. -/
def peek (vm : VM) (distance : Nat) : Option Nat :=
  if distance < vm.stackTop then vm.stack.get? (vm.stackTop - 1 - distance) else none

/-- The assignment `vm.stackTop[-1 - distance] = value`. -/
def poke (vm : VM) (distance : Nat) (value : Nat) : Option VM :=
  if distance < vm.stackTop then
    some { vm with stack := vm.stack.set (vm.stackTop - 1 - distance) value }
  else none

def resetStack (vm : VM) : VM :=
  { vm with stack := [], frameCount := 0, openUpvalues := 0 }

end VM

/-! ## object.c (not among the sources)

The allocators are declared in `object.h`; their bodies are modelled from
the specification. -/

namespace VM

/-- Modelled from the spec: the allocator helper behind every `new...`
function of `object.c` (section 3, "Lifecycles": allocate via the heap,
prepend to the object list, clear `marked`).  Returns the new pointer. -/
def allocateObject (vm : VM) (body : ObjBody) : Nat × VM :=
  let p := vm.heap.length + 1
  (p, { vm with heap := vm.heap ++ [{ isMarked := false, next := vm.objects, body := body }],
                objects := p })

/-- Modelled from the spec: `newFunction` of `object.c`, a function with
arity 0, no upvalues, no name and an empty chunk. -/
def newFunction (vm : VM) : Nat × VM :=
  vm.allocateObject (.function 0 initChunk 0 0)

/-- The field `function->upvalueCount`. -/
def upvalueCountOf (vm : VM) (function : Nat) : Option Nat :=
  match vm.deref function with
  | some { body := .function _ _ _ n, .. } => some n
  | _ => none

/-- Modelled from the spec: `newClosure` of `object.c`, a closure over
`function` with a vector of `upvalueCount` upvalue references, all `NULL`. -/
def newClosure (vm : VM) (function : Nat) : Option (Nat × VM) :=
  match vm.upvalueCountOf function with
  | some n => some (vm.allocateObject (.closure function (List.replicate n 0) n))
  | none => none

/-- Modelled from the spec: `newUpvalue` of `object.c`, an open upvalue
that points at a stack slot. -/
def newUpvalue (vm : VM) (slot : Nat) : Nat × VM :=
  vm.allocateObject (.upvalue (.slot slot) NIL_VAL 0)

/-- Modelled from the spec: `newNative` of `object.c`. -/
def newNative (vm : VM) (function : Nat) : Nat × VM :=
  vm.allocateObject (.native function)

/-- Modelled from the spec: `newClass` of `object.c`, a class with an
empty method table. -/
def newClass (vm : VM) (name : Nat) : Nat × VM :=
  vm.allocateObject (.class name initTable)

/-- Modelled from the spec: `newInstance` of `object.c`, an instance with
an empty field table. -/
def newInstance (vm : VM) (klass : Nat) : Nat × VM :=
  vm.allocateObject (.instance klass initTable)

/-- Modelled from the spec: `newBoundMethod` of `object.c`. -/
def newBoundMethod (vm : VM) (receiver : Nat) (method : Nat) : Nat × VM :=
  vm.allocateObject (.boundMethod receiver method)

/-- Modelled from the spec: the 32-bit FNV-1a hash of a string. -/
def hashString (chars : List Nat) : Nat :=
  chars.foldl (fun hash c => ((hash ^^^ (c % 256)) * 16777619) % 2 ^ 32) 2166136261

/-- The test of `tableFindString` on a key: same length, hash and bytes. -/
def keyIs (vm : VM) (chars : List Nat) (hash : Nat) (key : Nat) : Bool :=
  match vm.deref key with
  | some { body := .string length cs h, .. } =>
    length == chars.length && h == hash && cs == chars
  | _ => false

/-- Modelled from the spec: `copyString` and `takeString` of `object.c`
return the canonical string object with the given bytes: the interned one
when the table `vm.strings` has it, else a new object, kept on the VM stack
while it is stored in the table. -/
def internString (vm : VM) (chars : List Nat) : Option (Nat × VM) :=
  let hash := hashString chars
  match tableFindString (vm.keyIs chars hash) vm.strings hash with
  | none => none
  | some interned =>
    if interned != 0 then some (interned, vm)
    else
      let (p, vm) := vm.allocateObject (.string chars.length chars hash)
      let vm := vm.push (OBJ_VAL p)
      match tableSet vm.hashOf vm.strings p NIL_VAL with
      | none => none
      | some (_, strings) =>
        match ({ vm with strings := strings } : VM).pop with
        | none => none
        | some (_, vm) => some (p, vm)

/-- Modelled from the spec: `copyString(chars, length)`. -/
def copyString (vm : VM) (chars : List Nat) (length : Nat) : Option (Nat × VM) :=
  vm.internString (chars.take length)

/-- Modelled from the spec: `takeString(chars, length)`. -/
def takeString (vm : VM) (chars : List Nat) (length : Nat) : Option (Nat × VM) :=
  vm.internString (chars.take length)

end VM

/-- The function `addConstant` of `chunk.c`: the value is on the VM stack
while it is appended. -/
def addConstant (vm : VM) (chunk : Chunk) (value : Nat) : Option (Nat × Chunk × VM) :=
  let vm := vm.push value
  let chunk := { chunk with constants := writeValueArray chunk.constants value }
  match vm.pop with
  | none => none
  | some (_, vm) => some (chunk.constants.count - 1, chunk, vm)

/-! ## compiler.c: types and global state -/

inductive FunctionType where
  | TYPE_FUNCTION | TYPE_INITIALIZER | TYPE_METHOD | TYPE_SCRIPT
  deriving DecidableEq, Repr

open FunctionType

structure Local where
  name : Token
  depth : Int
  isCaptured : Bool
  deriving DecidableEq, Repr

structure Parser where
  current : Token
  previous : Token
  hadError : Bool
  panicMode : Bool
  deriving DecidableEq, Repr

/-- The enumeration `Precedence`, by its integer values. -/
abbrev Precedence := Nat

def PREC_NONE : Precedence := 0
def PREC_ASSIGNMENT : Precedence := 1
def PREC_OR : Precedence := 2
def PREC_AND : Precedence := 3
def PREC_EQUALITY : Precedence := 4
def PREC_COMPARISON : Precedence := 5
def PREC_TERM : Precedence := 6
def PREC_FACTOR : Precedence := 7
def PREC_UNARY : Precedence := 8
def PREC_CALL : Precedence := 9
def PREC_PRIMARY : Precedence := 10

/-- The parse functions a `ParseRule` can point to. -/
inductive ParseFn where
  | grouping | call | dot | unary | binary | variable_ | string | number
  | and_ | or_ | literal | super_ | this_
  deriving DecidableEq, Repr

/-- A `ParseRule`; `none` is the `NULL` function pointer. -/
structure ParseRule where
  prefixFn : Option ParseFn
  infixFn : Option ParseFn
  precedence : Precedence
  deriving DecidableEq, Repr

structure Upvalue where
  index : Nat
  isLocal : Bool
  deriving DecidableEq, Repr

/-- A `Circulation` (a loop being compiled); `breaks` holds the
`_break_count` entries of the array `_break` written so far, and the field
`enclosing` is the rest of the list `State.currentCirculation`. -/
structure Circulation where
  loopStart : Nat
  breaks : List Nat
  deriving DecidableEq, Repr

/-- A `Compiler`; `locals` holds the `localCount` entries in use and
`upvalues` the `function->upvalueCount` entries in use; the field
`enclosing` is the rest of the list `State.current`. -/
structure Compiler where
  function : Nat
  type : FunctionType
  locals : List Local
  scopeDepth : Int
  upvalues : List Upvalue
  deriving DecidableEq, Repr

def Compiler.localCount (c : Compiler) : Nat := c.locals.length

structure ClassCompiler where
  hasSuperclass : Bool
  deriving DecidableEq, Repr

/-- Where `errorAt` says the error is: ` at end`, nothing, or ` at 'lexeme'`. -/
inductive ErrorPlace where
  | atEnd
  | nowhere
  | atLexeme (lexeme : List Nat)
  deriving DecidableEq, Repr

/-- One diagnostic written by `errorAt`:
`[line L column C] Error<place>: <message>`. -/
structure Diagnostic where
  line : Nat
  column : Nat
  place : ErrorPlace
  message : List Nat
  deriving DecidableEq, Repr

/-- The globals of `compiler.c` (`parser`, `current`, `currentClass`,
`currentCirculation`), the global `scanner`, the global `vm`, and the
diagnostics written to `stderr` so far.  The linked lists are lists, the
head being the innermost element and `[]` the `NULL` pointer. -/
structure State where
  vm : VM
  scanner : Scanner
  parser : Parser
  current : List Compiler
  currentClass : List ClassCompiler
  currentCirculation : List Circulation
  diagnostics : List Diagnostic

/-- The table `rules`.  The entries of the token kinds that the table does
not name are those of a zero-filled array element. -/
def getRule (type : TokenType) : ParseRule :=
  match type with
  | TOKEN_LEFT_PAREN    => ⟨some .grouping, some .call, PREC_CALL⟩
  | TOKEN_RIGHT_PAREN   => ⟨none, none, PREC_NONE⟩
  | TOKEN_LEFT_BRACE    => ⟨none, none, PREC_NONE⟩
  | TOKEN_RIGHT_BRACE   => ⟨none, none, PREC_NONE⟩
  | TOKEN_COMMA         => ⟨none, none, PREC_NONE⟩
  | TOKEN_DOT           => ⟨none, some .dot, PREC_CALL⟩
  | TOKEN_MINUS         => ⟨some .unary, some .binary, PREC_TERM⟩
  | TOKEN_PLUS          => ⟨none, some .binary, PREC_TERM⟩
  | TOKEN_SEMICOLON     => ⟨none, none, PREC_NONE⟩
  | TOKEN_SLASH         => ⟨none, some .binary, PREC_FACTOR⟩
  | TOKEN_STAR          => ⟨none, some .binary, PREC_FACTOR⟩
  | TOKEN_BANG          => ⟨some .unary, none, PREC_NONE⟩
  | TOKEN_BANG_EQUAL    => ⟨none, some .binary, PREC_EQUALITY⟩
  | TOKEN_EQUAL         => ⟨none, none, PREC_NONE⟩
  | TOKEN_EQUAL_EQUAL   => ⟨none, some .binary, PREC_EQUALITY⟩
  | TOKEN_GREATER       => ⟨none, some .binary, PREC_EQUALITY⟩
  | TOKEN_GREATER_EQUAL => ⟨none, some .binary, PREC_EQUALITY⟩
  | TOKEN_LESS          => ⟨none, some .binary, PREC_EQUALITY⟩
  | TOKEN_LESS_EQUAL    => ⟨none, some .binary, PREC_EQUALITY⟩
  | TOKEN_IDENTIFIER    => ⟨some .variable_, none, PREC_NONE⟩
  | TOKEN_STRING        => ⟨some .string, none, PREC_NONE⟩
  | TOKEN_NUMBER        => ⟨some .number, none, PREC_NONE⟩
  | TOKEN_AND           => ⟨none, some .and_, PREC_AND⟩
  | TOKEN_CLASS         => ⟨none, none, PREC_NONE⟩
  | TOKEN_ELSE          => ⟨none, none, PREC_NONE⟩
  | TOKEN_FALSE         => ⟨some .literal, none, PREC_NONE⟩
  | TOKEN_FOR           => ⟨none, none, PREC_NONE⟩
  | TOKEN_FUN           => ⟨none, none, PREC_NONE⟩
  | TOKEN_IF            => ⟨none, none, PREC_NONE⟩
  | TOKEN_NIL           => ⟨some .literal, none, PREC_NONE⟩
  | TOKEN_OR            => ⟨none, some .or_, PREC_OR⟩
  | TOKEN_PRINT         => ⟨none, none, PREC_NONE⟩
  | TOKEN_RETURN        => ⟨none, none, PREC_NONE⟩
  | TOKEN_SUPER         => ⟨some .super_, none, PREC_NONE⟩
  | TOKEN_THIS          => ⟨some .this_, none, PREC_NONE⟩
  | TOKEN_TRUE          => ⟨some .literal, none, PREC_NONE⟩
  | TOKEN_VAR           => ⟨none, none, PREC_NONE⟩
  | TOKEN_WHILE         => ⟨none, none, PREC_NONE⟩
  | TOKEN_ERROR         => ⟨none, none, PREC_NONE⟩
  | TOKEN_EOF           => ⟨none, none, PREC_NONE⟩
  | _                   => ⟨none, none, PREC_NONE⟩

/-! ## compiler.c: functions without recursion -/

def UINT8_MAX : Nat := 255
def UINT8_COUNT : Nat := 256
def UINT16_MAX : Nat := 65535

/-- A token whose fields are all zero, the content of the global `parser`
before the first `advance`. -/
def zeroToken : Token :=
  { type := TOKEN_LEFT_PAREN, start := [], length := 0, line := 0, column := 0 }

def errorAt (st : State) (token : Token) (message : List Nat) : State :=
  if st.parser.panicMode then st
  else
    let place :=
      if token.type == TOKEN_EOF then ErrorPlace.atEnd
      else if token.type == TOKEN_ERROR then ErrorPlace.nowhere
      else ErrorPlace.atLexeme token.lexeme
    { st with parser := { st.parser with panicMode := true, hadError := true },
              diagnostics := st.diagnostics ++
                [{ line := token.line, column := token.column, place := place,
                   message := message }] }

def errorAtCurrent (st : State) (message : List Nat) : State :=
  errorAt st st.parser.current message

def errorAtPrevious (st : State) (message : List Nat) : State :=
  errorAt st st.parser.previous message

/-- The chunk of the function object at `function`. -/
def VM.chunkOf (vm : VM) (function : Nat) : Option Chunk :=
  match vm.deref function with
  | some { body := .function _ chunk _ _, .. } => some chunk
  | _ => none

/-- Assign the chunk of the function object at `function`. -/
def VM.setChunk (vm : VM) (function : Nat) (chunk : Chunk) : VM :=
  match vm.deref function with
  | some { body := .function arity _ name n, .. } => vm.store function (.function arity chunk name n)
  | _ => vm

/-- The function `currentChunk`: `&current->function->chunk`. -/
def currentChunk (st : State) : Option Chunk :=
  match st.current with
  | [] => none
  | c :: _ => st.vm.chunkOf c.function

/-- A write through the pointer that `currentChunk` returns. -/
def setCurrentChunk (st : State) (chunk : Chunk) : State :=
  match st.current with
  | [] => st
  | c :: _ => { st with vm := st.vm.setChunk c.function chunk }

/-- The loop of `advance`.  Every error token but "Unterminated string."
consumes a character and the latter leaves the scanner at the end, so
`source.length + 2` iterations always suffice. -/
def advanceLoop : Nat → State → State
  | 0, st => st
  | fuel + 1, st =>
    let (token, scanner) := st.scanner.scanToken
    let st := { st with scanner := scanner, parser := { st.parser with current := token } }
    if token.type != TOKEN_ERROR then st
    else advanceLoop fuel (errorAtCurrent st token.start)

def advance (st : State) : State :=
  advanceLoop (st.scanner.source.length + 2)
    { st with parser := { st.parser with previous := st.parser.current } }

def check (st : State) (type : TokenType) : Bool := st.parser.current.type == type

/-- The compiler's `match(type)`. -/
def matchToken (st : State) (type : TokenType) : Bool × State :=
  if !check st type then (false, st) else (true, advance st)

/-- The C expression `cond && match(type)`: `match` is called only when
`cond` holds. -/
def matchIf (cond : Bool) (st : State) (type : TokenType) : Bool × State :=
  if cond then matchToken st type else (false, st)

def consume (st : State) (type : TokenType) (message : String) : State :=
  if st.parser.current.type == type then advance st
  else errorAtCurrent st (cstr message)

def emitByte (h : Host) (st : State) (byte : Nat) : Option State := do
  let chunk ← currentChunk st
  let chunk ← writeChunk h chunk byte st.parser.previous.line
  pure (setCurrentChunk st chunk)

def emitBytes (h : Host) (st : State) (byte1 byte2 : Nat) : Option State := do
  let st ← emitByte h st byte1
  emitByte h st byte2

def makeConstant (st : State) (value : Nat) : Option (Nat × State) := do
  let chunk ← currentChunk st
  let (constant, chunk, vm) ← addConstant st.vm chunk value
  let st := setCurrentChunk { st with vm := vm } chunk
  if constant > UINT8_MAX then
    pure (0, errorAtPrevious st (cstr "Too many constants in one chunk."))
  else pure (constant % 256, st)

def emitConstant (h : Host) (st : State) (value : Nat) : Option State := do
  let (constant, st) ← makeConstant st value
  emitBytes h st OP_CONSTANT constant

def identifierConstant (st : State) (name : Token) : Option (Nat × State) := do
  let (p, vm) ← st.vm.copyString name.start name.length
  makeConstant { st with vm := vm } (OBJ_VAL p)

def identifiersEqual (a b : Token) : Bool :=
  if a.length != b.length then false
  else a.start.take a.length == b.start.take a.length

def emitReturn (h : Host) (st : State) : Option State := do
  let c ← st.current.head?
  let st ←
    if c.type == TYPE_INITIALIZER then emitBytes h st OP_GET_LOCAL 0
    else emitByte h st OP_NIL
  emitByte h st OP_RETURN

def emitJump (h : Host) (st : State) (instruction : Nat) : Option (Nat × State) := do
  let st ← emitByte h st instruction
  let st ← emitByte h st 0xff
  let st ← emitByte h st 0xff
  let chunk ← currentChunk st
  if chunk.count < 2 then none else pure (chunk.count - 2, st)

def patchJump (st : State) (offset : Nat) : Option State := do
  let chunk ← currentChunk st
  let jump : Int := (chunk.count : Int) - offset - 2
  let st := if jump > UINT16_MAX then errorAtPrevious st (cstr "Too much code to jump over.") else st
  let chunk ← currentChunk st
  if offset + 1 < chunk.count then
    let code := (chunk.code.set offset ((jump / 256) % 256).toNat).set (offset + 1) (jump % 256).toNat
    pure (setCurrentChunk st { chunk with code := code })
  else none

def emitLoop (h : Host) (st : State) (loopStart : Nat) : Option State := do
  let st ← emitByte h st OP_LOOP
  let chunk ← currentChunk st
  let offset : Int := (chunk.count : Int) - loopStart + 2
  let st := if offset > UINT16_MAX then errorAtPrevious st (cstr "Loop body too large.") else st
  let st ← emitByte h st ((offset / 256) % 256).toNat
  emitByte h st (offset % 256).toNat

/-- The loop of `synchronize`; each iteration consumes a token. -/
def synchronizeLoop : Nat → State → State
  | 0, st => st
  | fuel + 1, st =>
    if st.parser.current.type != TOKEN_EOF then
      if st.parser.previous.type == TOKEN_SEMICOLON then st
      else
        match st.parser.current.type with
        | TOKEN_CLASS | TOKEN_FUN | TOKEN_VAR | TOKEN_FOR | TOKEN_IF | TOKEN_WHILE
        | TOKEN_PRINT | TOKEN_RETURN => st
        | _ => synchronizeLoop fuel (advance st)
    else st

def synchronize (st : State) : State :=
  synchronizeLoop (st.scanner.source.length + 2)
    { st with parser := { st.parser with panicMode := false } }

/-- Replace the innermost compiler, the one `current` points to. -/
def setCurrent (st : State) (c : Compiler) : State :=
  { st with current := c :: st.current.tail }

def addLocal (st : State) (name : Token) : Option State := do
  let c ← st.current.head?
  if c.localCount == UINT8_COUNT then
    pure (errorAtPrevious st (cstr "Too many local variables in function."))
  else
    pure (setCurrent st { c with locals := c.locals ++ [{ name := name, depth := -1, isCaptured := false }] })

/-- The loop of `declareVariable` over the locals from the last one down. -/
def declareVariableLoop (scopeDepth : Int) (name : Token) : List Local → State → State
  | [], st => st
  | l :: rest, st =>
    if l.depth != -1 && l.depth < scopeDepth then st
    else
      let st := if identifiersEqual name l.name then
          errorAtPrevious st (cstr "Already a variable with this name in this scope.")
        else st
      declareVariableLoop scopeDepth name rest st

def declareVariable (st : State) : Option State := do
  let c ← st.current.head?
  if c.scopeDepth == 0 then pure st
  else
    let name := st.parser.previous
    let st := declareVariableLoop c.scopeDepth name c.locals.reverse st
    addLocal st name

def parseVariable (st : State) (errorMessage : String) : Option (Nat × State) := do
  let st := consume st TOKEN_IDENTIFIER errorMessage
  let st ← declareVariable st
  let c ← st.current.head?
  if c.scopeDepth > 0 then pure (0, st)
  else identifierConstant st st.parser.previous

def markInitialized (st : State) : Option State := do
  let c ← st.current.head?
  if c.scopeDepth == 0 then pure st
  else
    if c.localCount == 0 then none
    else
      let i := c.localCount - 1
      let l ← c.locals.get? i
      pure (setCurrent st { c with locals := c.locals.set i { l with depth := c.scopeDepth } })

def defineVariable (h : Host) (st : State) (global : Nat) : Option State := do
  let c ← st.current.head?
  if c.scopeDepth > 0 then markInitialized st
  else emitBytes h st OP_DEFINE_GLOBAL (global % 256)

/-- The loop of `resolveLocal`, over the locals `i, i-1, ..., 0` given with
their indices, last one first. -/
def resolveLocalLoop (name : Token) : List (Nat × Local) → State → Int × State
  | [], st => (-1, st)
  | (i, l) :: rest, st =>
    if identifiersEqual name l.name then
      let st := if l.depth == -1 then
          errorAtPrevious st (cstr "Can't read local variable in its own initializer.")
        else st
      ((i : Int), st)
    else resolveLocalLoop name rest st

def resolveLocal (st : State) (compiler : Compiler) (name : Token) : Int × State :=
  resolveLocalLoop name ((List.range compiler.localCount).zip compiler.locals).reverse st

/-- The search loop of `addUpvalue`. -/
def findUpvalue (index : Nat) (isLocal : Bool) : List Upvalue → Nat → Option Nat
  | [], _ => none
  | u :: rest, i =>
    if u.index == index && u.isLocal == isLocal then some i
    else findUpvalue index isLocal rest (i + 1)

/-- The function `addUpvalue`, on the compiler at depth `k` of the chain
(`0` is `current`). -/
def addUpvalue (st : State) (k : Nat) (index : Nat) (isLocal : Bool) : Option (Int × State) := do
  let c ← st.current.get? k
  let upvalueCount ← st.vm.upvalueCountOf c.function
  match findUpvalue index isLocal (c.upvalues.take upvalueCount) 0 with
  | some i => pure ((i : Int), st)
  | none =>
    if upvalueCount == UINT8_COUNT then
      pure (0, errorAtPrevious st (cstr "Too many closure variables in function."))
    else
      let c := { c with upvalues := c.upvalues.take upvalueCount ++ [{ index := index, isLocal := isLocal }] }
      match st.vm.deref c.function with
      | some { body := .function arity chunk name n, .. } =>
        pure ((n : Int), { st with current := st.current.set k c,
                                   vm := st.vm.store c.function (.function arity chunk name (n + 1)) })
      | _ => none

/-- The function `resolveUpvalue`, on the compiler at depth `k` of the
chain; the recursion follows `enclosing`, so the length of the chain bounds
it. -/
def resolveUpvalueAt : Nat → State → Nat → Token → Option (Int × State)
  | 0, _, _, _ => none
  | fuel + 1, st, k, name => do
    let _ ← st.current.get? k
    match st.current.get? (k + 1) with
    | none => pure (-1, st)
    | some enclosing =>
      let (loc, st) := resolveLocal st enclosing name
      if loc != -1 then
        let enclosing ← st.current.get? (k + 1)
        let l ← enclosing.locals.get? loc.toNat
        let enclosing := { enclosing with locals := enclosing.locals.set loc.toNat { l with isCaptured := true } }
        addUpvalue { st with current := st.current.set (k + 1) enclosing } k (loc.toNat % 256) true
      else
        let (upvalue, st) ← resolveUpvalueAt fuel st (k + 1) name
        if upvalue != -1 then addUpvalue st k (upvalue.toNat % 256) false
        else pure (-1, st)

def resolveUpvalue (st : State) (k : Nat) (name : Token) : Option (Int × State) :=
  resolveUpvalueAt (st.current.length + 1) st k name

def syntheticToken (text : String) : Token :=
  { zeroToken with start := cstr text, length := (cstr text).length }

def beginScope (st : State) : Option State := do
  let c ← st.current.head?
  pure (setCurrent st { c with scopeDepth := c.scopeDepth + 1 })

/-- The loop of `endScope`. -/
def endScopeLoop (h : Host) : Nat → State → Option State
  | 0, _ => none
  | fuel + 1, st => do
    let c ← st.current.head?
    match c.locals.getLast? with
    | none => pure st
    | some l =>
      if l.depth > c.scopeDepth then
        let st ← if l.isCaptured then emitByte h st OP_CLOSE_UPVALUE else emitByte h st OP_POP
        let c ← st.current.head?
        endScopeLoop h fuel (setCurrent st { c with locals := c.locals.dropLast })
      else pure st

def endScope (h : Host) (st : State) : Option State := do
  let c ← st.current.head?
  let st := setCurrent st { c with scopeDepth := c.scopeDepth - 1 }
  endScopeLoop h (c.localCount + 1) st

def initCompiler (st : State) (type : FunctionType) : Option State := do
  let (function, vm) := st.vm.newFunction
  let compiler : Compiler :=
    { function := function, type := type, locals := [], scopeDepth := 0, upvalues := [] }
  let st := { st with vm := vm, current := compiler :: st.current }
  let st ←
    if type != TYPE_SCRIPT then
      match st.vm.copyString st.parser.previous.start st.parser.previous.length with
      | none => none
      | some (name, vm) =>
        match vm.deref function with
        | some { body := .function arity chunk _ n, .. } =>
          some { st with vm := vm.store function (.function arity chunk name n) }
        | _ => none
    else some st
  let name := if type != TYPE_FUNCTION then syntheticToken "this" else syntheticToken ""
  let c ← st.current.head?
  pure (setCurrent st { c with locals := c.locals ++ [{ name := name, depth := 0, isCaptured := false }] })

/-- The function `endCompiler`: returns the function and, for the caller
that still holds the `Compiler` struct, the compiler that was current. -/
def endCompiler (h : Host) (st : State) : Option ((Nat × Compiler) × State) := do
  let st ← emitReturn h st
  let c ← st.current.head?
  pure ((c.function, c), { st with current := st.current.tail })

/-! ## compiler.c: the recursive descent

The functions below call each other recursively; `fuel` bounds the depth
of the calls and the number of loop iterations, and `none` is returned
when it runs out (or when the C code would execute an operation without
defined behaviour). -/

def number (h : Host) (st : State) (_canAssign : Bool) : Option State :=
  emitConstant h st (NUMBER_VAL (h.strtod st.parser.previous.start))

def literal (h : Host) (st : State) (_canAssign : Bool) : Option State :=
  match st.parser.previous.type with
  | TOKEN_FALSE => emitByte h st OP_FALSE
  | TOKEN_NIL => emitByte h st OP_NIL
  | TOKEN_TRUE => emitByte h st OP_TRUE
  | _ => none

/-- The compiler's `string(canAssign)`. -/
def stringLiteral (h : Host) (st : State) (_canAssign : Bool) : Option State := do
  if st.parser.previous.length < 2 then none
  else
    let (p, vm) ← st.vm.copyString (st.parser.previous.start.drop 1) (st.parser.previous.length - 2)
    emitConstant h { st with vm := vm } (OBJ_VAL p)

def breakStatement (h : Host) (st : State) : Option State :=
  match st.currentCirculation with
  | [] => some (errorAtPrevious st (cstr "Can't use 'break' outside of a Circulation."))
  | _ :: _ => do
    let (breakJump, st) ← emitJump h st OP_JUMP
    match st.currentCirculation with
    | [] => none
    | loop :: enclosing =>
      if loop.breaks.length ≥ UINT8_COUNT then none
      else
        let st := { st with currentCirculation := { loop with breaks := loop.breaks ++ [breakJump] } :: enclosing }
        pure (consume st TOKEN_SEMICOLON "Expect ';' after break.")

def continueStatement (h : Host) (st : State) : Option State :=
  match st.currentCirculation with
  | [] => some (errorAtPrevious st (cstr "Can't use 'continue' outside of a Circulation."))
  | loop :: _ => do
    let st ← emitLoop h st loop.loopStart
    pure (consume st TOKEN_SEMICOLON "Expect ';' after break.")

/-- The two tests at the start of `super_`: whether a class is being
compiled and whether it has a superclass. -/
def superclassCheck (st : State) : State :=
  match st.currentClass with
  | [] => errorAtPrevious st (cstr "Can't use 'super' outside of a class.")
  | cc :: _ =>
    if !cc.hasSuperclass then
      errorAtPrevious st (cstr "Can't use 'super' in a class with no superclass.")
    else st

/-- The loop that patches the pending `break` jumps of a loop statement. -/
def patchBreaks : List Nat → State → Option State
  | [], st => some st
  | b :: rest, st => do
    let st ← patchJump st b
    patchBreaks rest st

/-- The loop at the end of `function` that emits the upvalue operands. -/
def emitUpvalues (h : Host) : List Upvalue → State → Option State
  | [], st => some st
  | u :: rest, st => do
    let st ← emitByte h st (if u.isLocal then 1 else 0)
    let st ← emitByte h st u.index
    emitUpvalues h rest st

set_option maxHeartbeats 4000000 in
mutual

def parsePrecedence (h : Host) : Nat → State → Precedence → Option State
  | 0, _, _ => none
  | fuel + 1, st, precedence => do
    let st := advance st
    match (getRule st.parser.previous.type).prefixFn with
    | none => pure (errorAtPrevious st (cstr "Expect expression."))
    | some prefixRule =>
      let canAssign := decide (precedence ≤ PREC_ASSIGNMENT)
      let st ← parseFn h fuel st prefixRule canAssign
      let st ← parsePrecedenceLoop h fuel st precedence canAssign
      let (m, st) := matchIf canAssign st TOKEN_EQUAL
      if m then pure (errorAtPrevious st (cstr "Invalid assignment target.")) else pure st

/-- The `while` loop of `parsePrecedence` over the infix operators. -/
def parsePrecedenceLoop (h : Host) : Nat → State → Precedence → Bool → Option State
  | 0, _, _, _ => none
  | fuel + 1, st, precedence, canAssign =>
    if precedence ≤ (getRule st.parser.current.type).precedence then do
      let st := advance st
      match (getRule st.parser.previous.type).infixFn with
      | none => none
      | some infixRule =>
        let st ← parseFn h fuel st infixRule canAssign
        parsePrecedenceLoop h fuel st precedence canAssign
    else some st

/-- The call through a `ParseFn` pointer. -/
def parseFn (h : Host) : Nat → State → ParseFn → Bool → Option State
  | 0, _, _, _ => none
  | fuel + 1, st, fn, canAssign =>
    match fn with
    | .grouping => grouping h fuel st canAssign
    | .call => call h fuel st canAssign
    | .dot => dot h fuel st canAssign
    | .unary => unary h fuel st canAssign
    | .binary => binary h fuel st canAssign
    | .variable_ => variable_ h fuel st canAssign
    | .string => stringLiteral h st canAssign
    | .number => number h st canAssign
    | .and_ => and_ h fuel st canAssign
    | .or_ => or_ h fuel st canAssign
    | .literal => literal h st canAssign
    | .super_ => super_ h fuel st canAssign
    | .this_ => this_ h fuel st canAssign

def expression (h : Host) : Nat → State → Option State
  | 0, _ => none
  | fuel + 1, st => parsePrecedence h fuel st PREC_ASSIGNMENT

def grouping (h : Host) : Nat → State → Bool → Option State
  | 0, _, _ => none
  | fuel + 1, st, _ => do
    let st ← expression h fuel st
    pure (consume st TOKEN_RIGHT_PAREN "Expect ')' after expression.")

def unary (h : Host) : Nat → State → Bool → Option State
  | 0, _, _ => none
  | fuel + 1, st, _ => do
    let operatorType := st.parser.previous.type
    let st ← parsePrecedence h fuel st PREC_ASSIGNMENT
    match operatorType with
    | TOKEN_BANG => emitByte h st OP_NOT
    | TOKEN_MINUS => emitByte h st OP_NEGATE
    | _ => none

def binary (h : Host) : Nat → State → Bool → Option State
  | 0, _, _ => none
  | fuel + 1, st, _ => do
    let operatorType := st.parser.previous.type
    let rule := getRule operatorType
    let st ← parsePrecedence h fuel st (rule.precedence + 1)
    match operatorType with
    | TOKEN_PLUS => emitByte h st OP_ADD
    | TOKEN_MINUS => emitByte h st OP_SUBTRACT
    | TOKEN_STAR => emitByte h st OP_MULTIPLY
    | TOKEN_SLASH => emitByte h st OP_DIVIDE
    | TOKEN_BANG_EQUAL => emitByte h st OP_NOT_EQUAL
    | TOKEN_EQUAL_EQUAL => emitByte h st OP_EQUAL
    | TOKEN_GREATER => emitByte h st OP_GREATER
    | TOKEN_GREATER_EQUAL => emitByte h st OP_GREATER_EQUAL
    | TOKEN_LESS => emitByte h st OP_LESS
    | TOKEN_LESS_EQUAL => emitByte h st OP_LESS_EQUAL
    | _ => none

/-- The end of `namedVariable`, once `getOp`, `setOp` and `arg` are set. -/
def namedVariableEmit (h : Host) : Nat → State → Nat → Nat → Int → Bool → Option State
  | 0, _, _, _, _, _ => none
  | fuel + 1, st, getOp, setOp, arg, canAssign => do
    let (m, st) := matchIf canAssign st TOKEN_EQUAL
    if m then
      let st ← expression h fuel st
      emitBytes h st setOp (arg % 256).toNat
    else emitBytes h st getOp (arg % 256).toNat

def namedVariable (h : Host) : Nat → State → Token → Bool → Option State
  | 0, _, _, _ => none
  | fuel + 1, st, name, canAssign => do
    let c ← st.current.head?
    let (arg, st) := resolveLocal st c name
    if arg != -1 then namedVariableEmit h fuel st OP_GET_LOCAL OP_SET_LOCAL arg canAssign
    else
      let (arg, st) ← resolveUpvalue st 0 name
      if arg != -1 then namedVariableEmit h fuel st OP_GET_UPVALUE OP_SET_UPVALUE arg canAssign
      else
        let (arg, st) ← identifierConstant st name
        namedVariableEmit h fuel st OP_GET_GLOBAL OP_SET_GLOBAL (arg : Int) canAssign

/-- The compiler's `variable(canAssign)`. -/
def variable_ (h : Host) : Nat → State → Bool → Option State
  | 0, _, _ => none
  | fuel + 1, st, canAssign => namedVariable h fuel st st.parser.previous canAssign

def and_ (h : Host) : Nat → State → Bool → Option State
  | 0, _, _ => none
  | fuel + 1, st, _ => do
    let (endJump, st) ← emitJump h st OP_JUMP_IF_FALSE
    let st ← emitByte h st OP_POP
    let st ← parsePrecedence h fuel st PREC_AND
    patchJump st endJump

def or_ (h : Host) : Nat → State → Bool → Option State
  | 0, _, _ => none
  | fuel + 1, st, _ => do
    let (elseJump, st) ← emitJump h st OP_JUMP_IF_FALSE
    let (endJump, st) ← emitJump h st OP_JUMP
    let st ← patchJump st elseJump
    let st ← emitByte h st OP_POP
    let st ← parsePrecedence h fuel st PREC_OR
    patchJump st endJump

/-- The `do ... while (match(TOKEN_COMMA))` loop of `argumentList`. -/
def argumentListLoop (h : Host) : Nat → State → Nat → Option (Nat × State)
  | 0, _, _ => none
  | fuel + 1, st, argCount => do
    let st ← expression h fuel st
    let st := if argCount == 255 then
        errorAtPrevious st (cstr "Can't have more than 255 arguments.")
      else st
    let argCount := (argCount + 1) % 256
    let (m, st) := matchToken st TOKEN_COMMA
    if m then argumentListLoop h fuel st argCount else pure (argCount, st)

def argumentList (h : Host) : Nat → State → Option (Nat × State)
  | 0, _ => none
  | fuel + 1, st => do
    let (argCount, st) ←
      if !check st TOKEN_RIGHT_PAREN then argumentListLoop h fuel st 0 else some (0, st)
    pure (argCount, consume st TOKEN_RIGHT_PAREN "Expect ')' after arguments.")

def dot (h : Host) : Nat → State → Bool → Option State
  | 0, _, _ => none
  | fuel + 1, st, canAssign => do
    let st := consume st TOKEN_IDENTIFIER "Expect property name after '.'."
    let (name, st) ← identifierConstant st st.parser.previous
    let (m, st) := matchIf canAssign st TOKEN_EQUAL
    if m then
      let st ← expression h fuel st
      emitBytes h st OP_SET_PROPERTY name
    else
      let (m, st) := matchToken st TOKEN_LEFT_PAREN
      if m then
        let (argCount, st) ← argumentList h fuel st
        let st ← emitBytes h st OP_INVOKE name
        emitByte h st argCount
      else emitBytes h st OP_GET_PROPERTY name

def this_ (h : Host) : Nat → State → Bool → Option State
  | 0, _, _ => none
  | fuel + 1, st, _ =>
    match st.currentClass with
    | [] => some (errorAtPrevious st (cstr "Can't use 'this' outside of a class."))
    | _ :: _ => variable_ h fuel st false

def super_ (h : Host) : Nat → State → Bool → Option State
  | 0, _, _ => none
  | fuel + 1, st, _ => do
    let st := superclassCheck st
    let st := consume st TOKEN_DOT "Expect '.' after 'super'."
    let st := consume st TOKEN_IDENTIFIER "Expect superclass method name."
    let (name, st) ← identifierConstant st st.parser.previous
    let st ← namedVariable h fuel st (syntheticToken "this") false
    let (m, st) := matchToken st TOKEN_LEFT_PAREN
    if m then
      let (argCount, st) ← argumentList h fuel st
      let st ← namedVariable h fuel st (syntheticToken "super") false
      let st ← emitBytes h st OP_SUPER_INVOKE name
      emitByte h st argCount
    else
      let st ← namedVariable h fuel st (syntheticToken "super") false
      emitBytes h st OP_GET_SUPER name

/-- The compiler's `call(canAssign)`. -/
def call (h : Host) : Nat → State → Bool → Option State
  | 0, _, _ => none
  | fuel + 1, st, _ => do
    let (argCount, st) ← argumentList h fuel st
    emitBytes h st OP_CALL argCount

def declaration (h : Host) : Nat → State → Option State
  | 0, _ => none
  | fuel + 1, st => do
    let r := matchToken st TOKEN_CLASS
    let st ←
      if r.1 then classDeclaration h fuel r.2
      else
        let r := matchToken r.2 TOKEN_FUN
        if r.1 then funDeclaration h fuel r.2
        else
          let r := matchToken r.2 TOKEN_VAR
          if r.1 then varDeclaration h fuel r.2
          else statement h fuel r.2
    if st.parser.panicMode then pure (synchronize st) else pure st

def varDeclaration (h : Host) : Nat → State → Option State
  | 0, _ => none
  | fuel + 1, st => do
    let (global, st) ← parseVariable st "Expect variable name."
    let (m, st) := matchToken st TOKEN_EQUAL
    let st ← if m then expression h fuel st else emitByte h st OP_NIL
    let st := consume st TOKEN_SEMICOLON "Expect ';' after variable declaration."
    defineVariable h st global

/-- The `do ... while (match(TOKEN_COMMA))` loop of `function` over the
parameters. -/
def parameters (h : Host) : Nat → State → Option State
  | 0, _ => none
  | fuel + 1, st => do
    let c ← st.current.head?
    let arity ←
      match st.vm.deref c.function with
      | some { body := .function arity _ _ _, .. } => some (arity + 1)
      | _ => none
    let st ←
      match st.vm.deref c.function with
      | some { body := .function _ chunk name n, .. } =>
        some { st with vm := st.vm.store c.function (.function arity chunk name n) }
      | _ => none
    let st := if arity > 255 then
        errorAtCurrent st (cstr "Can't have more than 255 parameters.")
      else st
    let (constant, st) ← parseVariable st "Expect parameter name."
    let st ← defineVariable h st constant
    let (m, st) := matchToken st TOKEN_COMMA
    if m then parameters h fuel st else pure st

/-- The compiler's `function(type)`. -/
def function (h : Host) : Nat → State → FunctionType → Option State
  | 0, _, _ => none
  | fuel + 1, st, type => do
    let st ← initCompiler st type
    let st ← beginScope st
    let st := consume st TOKEN_LEFT_PAREN "Expect '(' after function name."
    let st ← if !check st TOKEN_RIGHT_PAREN then parameters h fuel st else some st
    let st := consume st TOKEN_RIGHT_PAREN "Expect ')' after parameters."
    let st := consume st TOKEN_LEFT_BRACE "Expect '\x7b' before function body."
    let st ← block h fuel st
    let ((function, compiler), st) ← endCompiler h st
    let (constant, st) ← makeConstant st (OBJ_VAL function)
    let st ← emitBytes h st OP_CLOSURE constant
    let upvalueCount ← st.vm.upvalueCountOf function
    if compiler.upvalues.length < upvalueCount then none
    else emitUpvalues h (compiler.upvalues.take upvalueCount) st

def funDeclaration (h : Host) : Nat → State → Option State
  | 0, _ => none
  | fuel + 1, st => do
    let (global, st) ← parseVariable st "Expect function name."
    let st ← markInitialized st
    let st ← function h fuel st TYPE_FUNCTION
    defineVariable h st global

def method (h : Host) : Nat → State → Option State
  | 0, _ => none
  | fuel + 1, st => do
    let st := consume st TOKEN_IDENTIFIER "Expect method name."
    let (constant, st) ← identifierConstant st st.parser.previous
    let type :=
      if st.parser.previous.length == 4 && st.parser.previous.start.take 4 == cstr "init" then
        TYPE_INITIALIZER
      else TYPE_METHOD
    let st ← function h fuel st type
    emitBytes h st OP_METHOD constant

/-- The loop of `classDeclaration` over the methods. -/
def methods (h : Host) : Nat → State → Option State
  | 0, _ => none
  | fuel + 1, st =>
    if !check st TOKEN_RIGHT_BRACE && !check st TOKEN_EOF then do
      let st ← method h fuel st
      methods h fuel st
    else some st

def classDeclaration (h : Host) : Nat → State → Option State
  | 0, _ => none
  | fuel + 1, st => do
    let st := consume st TOKEN_IDENTIFIER "Expect class name."
    let className := st.parser.previous
    let (nameConstant, st) ← identifierConstant st st.parser.previous
    let st ← declareVariable st
    let st ← emitBytes h st OP_CLASS nameConstant
    let st ← defineVariable h st nameConstant
    let st := { st with currentClass := { hasSuperclass := false } :: st.currentClass }
    let (m, st) := matchToken st TOKEN_LESS
    let st ←
      if m then do
        let st := consume st TOKEN_IDENTIFIER "Expect superclass name."
        let st ← variable_ h fuel st false
        let st := if identifiersEqual className st.parser.previous then
            errorAtPrevious st (cstr "A class can't inherit from itself.")
          else st
        let st ← beginScope st
        let st ← addLocal st (syntheticToken "super")
        let st ← defineVariable h st 0
        let st ← namedVariable h fuel st className false
        let st ← emitByte h st OP_INHERIT
        pure { st with currentClass := { hasSuperclass := true } :: st.currentClass.tail }
      else some st
    let st ← namedVariable h fuel st className false
    let st := consume st TOKEN_LEFT_BRACE "Expect '\x7b' before class body."
    let st ← methods h fuel st
    let st := consume st TOKEN_RIGHT_BRACE "Expect '\x7d' after class body."
    let st ← emitByte h st OP_POP
    let classCompiler ← st.currentClass.head?
    let st ← if classCompiler.hasSuperclass then endScope h st else some st
    pure { st with currentClass := st.currentClass.tail }

def statement (h : Host) : Nat → State → Option State
  | 0, _ => none
  | fuel + 1, st =>
    let r := matchToken st TOKEN_PRINT
    if r.1 then printStatement h fuel r.2 else
    let r := matchToken r.2 TOKEN_BREAK
    if r.1 then breakStatement h r.2 else
    let r := matchToken r.2 TOKEN_CONTINUE
    if r.1 then continueStatement h r.2 else
    let r := matchToken r.2 TOKEN_FOR
    if r.1 then forStatement h fuel r.2 else
    let r := matchToken r.2 TOKEN_RETURN
    if r.1 then returnStatement h fuel r.2 else
    let r := matchToken r.2 TOKEN_IF
    if r.1 then ifStatement h fuel r.2 else
    let r := matchToken r.2 TOKEN_WHILE
    if r.1 then whileStatement h fuel r.2 else
    let r := matchToken r.2 TOKEN_LEFT_BRACE
    if r.1 then do
      let st ← beginScope r.2
      let st ← block h fuel st
      endScope h st
    else expressionStatement h fuel r.2

def printStatement (h : Host) : Nat → State → Option State
  | 0, _ => none
  | fuel + 1, st => do
    let st ← expression h fuel st
    let st := consume st TOKEN_SEMICOLON "Expect ';' after value."
    emitByte h st OP_PRINT

def expressionStatement (h : Host) : Nat → State → Option State
  | 0, _ => none
  | fuel + 1, st => do
    let st ← expression h fuel st
    let st := consume st TOKEN_SEMICOLON "Expect ';' after expression."
    emitByte h st OP_POP

/-- The loop of `block` over the declarations. -/
def blockLoop (h : Host) : Nat → State → Option State
  | 0, _ => none
  | fuel + 1, st =>
    if !check st TOKEN_RIGHT_BRACE && !check st TOKEN_EOF then do
      let st ← declaration h fuel st
      blockLoop h fuel st
    else some st

def block (h : Host) : Nat → State → Option State
  | 0, _ => none
  | fuel + 1, st => do
    let st ← blockLoop h fuel st
    pure (consume st TOKEN_RIGHT_BRACE "Expect '\x7d' after block.")

def ifStatement (h : Host) : Nat → State → Option State
  | 0, _ => none
  | fuel + 1, st => do
    let st := consume st TOKEN_LEFT_PAREN "Expect '(' after 'if'."
    let st ← expression h fuel st
    let st := consume st TOKEN_RIGHT_PAREN "Expect ')' after condition."
    let (thenJump, st) ← emitJump h st OP_JUMP_IF_FALSE
    let st ← emitByte h st OP_POP
    let st ← statement h fuel st
    let (elseJump, st) ← emitJump h st OP_JUMP
    let st ← patchJump st thenJump
    let st ← emitByte h st OP_POP
    let (m, st) := matchToken st TOKEN_ELSE
    let st ← if m then statement h fuel st else some st
    patchJump st elseJump

def whileStatement (h : Host) : Nat → State → Option State
  | 0, _ => none
  | fuel + 1, st => do
    let chunk ← currentChunk st
    let loopStart := chunk.count
    let st := { st with currentCirculation :=
                  { loopStart := loopStart, breaks := [] } :: st.currentCirculation }
    let st := consume st TOKEN_LEFT_PAREN "Expect '(' after 'while'."
    let st ← expression h fuel st
    let st := consume st TOKEN_RIGHT_PAREN "Expect ')' after condition."
    let (exitJump, st) ← emitJump h st OP_JUMP_IF_FALSE
    let st ← emitByte h st OP_POP
    let st ← statement h fuel st
    let st ← emitLoop h st loopStart
    let loop ← st.currentCirculation.head?
    let st ← patchBreaks loop.breaks st
    let st ← patchJump st exitJump
    let st ← emitByte h st OP_POP
    pure { st with currentCirculation := st.currentCirculation.tail }

def forStatement (h : Host) : Nat → State → Option State
  | 0, _ => none
  | fuel + 1, st => do
    let st ← beginScope st
    let st := consume st TOKEN_LEFT_PAREN "Expect '(' after 'for'."
    let (m, st) := matchToken st TOKEN_SEMICOLON
    let st ←
      if m then some st
      else
        let (m, st) := matchToken st TOKEN_VAR
        if m then varDeclaration h fuel st else expressionStatement h fuel st
    let chunk ← currentChunk st
    let loopStart := chunk.count
    let st := { st with currentCirculation :=
                  { loopStart := loopStart, breaks := [] } :: st.currentCirculation }
    let (m, st) := matchToken st TOKEN_SEMICOLON
    let (exitJump, st) ←
      if !m then do
        let st ← expression h fuel st
        let st := consume st TOKEN_SEMICOLON "Expect ';' after loop condition."
        let (exitJump, st) ← emitJump h st OP_JUMP_IF_FALSE
        let st ← emitByte h st OP_POP
        pure (some exitJump, st)
      else some (none, st)
    let (m, st) := matchToken st TOKEN_RIGHT_PAREN
    let (loopStart, st) ←
      if !m then do
        let (bodyJump, st) ← emitJump h st OP_JUMP
        let chunk ← currentChunk st
        let incrementStart := chunk.count
        let st ← expression h fuel st
        let st ← emitByte h st OP_POP
        let st := consume st TOKEN_RIGHT_PAREN "Expect ')' after for clauses."
        let st ← emitLoop h st loopStart
        let loop ← st.currentCirculation.head?
        let st := { st with currentCirculation :=
                      { loop with loopStart := incrementStart } :: st.currentCirculation.tail }
        let st ← patchJump st bodyJump
        pure (incrementStart, st)
      else some (loopStart, st)
    let st ← statement h fuel st
    let st ← emitLoop h st loopStart
    let loop ← st.currentCirculation.head?
    let st ← patchBreaks loop.breaks st
    let st ←
      match exitJump with
      | some exitJump => do
        let st ← patchJump st exitJump
        emitByte h st OP_POP
      | none => some st
    let st ← beginScope st
    pure { st with currentCirculation := st.currentCirculation.tail }

def returnStatement (h : Host) : Nat → State → Option State
  | 0, _ => none
  | fuel + 1, st => do
    let c ← st.current.head?
    let st := if c.type == TYPE_SCRIPT then
        errorAtPrevious st (cstr "Can't return from top-level code.")
      else st
    let (m, st) := matchToken st TOKEN_SEMICOLON
    if m then emitReturn h st
    else
      let st := if c.type == TYPE_INITIALIZER then
          errorAtPrevious st (cstr "Can't return a value from an initializer.")
        else st
      let st ← expression h fuel st
      let st := consume st TOKEN_SEMICOLON "Expect ';' after return value."
      emitByte h st OP_RETURN

end

/-- The loop `while (!match(TOKEN_EOF)) declaration();` of `compile`. -/
def compileLoop (h : Host) : Nat → State → Option State
  | 0, _ => none
  | fuel + 1, st =>
    let (m, st) := matchToken st TOKEN_EOF
    if m then some st
    else do
      let st ← declaration h fuel st
      compileLoop h fuel st

/-- The state in which `compile` starts on `source`: the scanner is
initialised, the parser flags are cleared, and the other globals of
`compiler.c` are as a previous `compile` leaves them (`NULL`). -/
def compileStart (vm : VM) (source : List Nat) : State :=
  { vm := vm, scanner := initScanner source,
    parser := { current := zeroToken, previous := zeroToken,
                hadError := false, panicMode := false },
    current := [], currentClass := [], currentCirculation := [], diagnostics := [] }

/-- The body of `compile` up to the final test: the function compiled and
the state reached. -/
def compileRun (h : Host) (fuel : Nat) (vm : VM) (source : List Nat) : Option (Nat × State) := do
  let st ← initCompiler (compileStart vm source) TYPE_SCRIPT
  let st := advance st
  let st ← compileLoop h fuel st
  let st := consume st TOKEN_EOF "Expect end of expression."
  let ((function, _), st) ← endCompiler h st
  pure (function, st)

/-- The function `compile`: the pointer returned (`0` is `NULL`) and the
state reached. -/
def compile (h : Host) (fuel : Nat) (vm : VM) (source : List Nat) : Option (Nat × State) := do
  let (function, st) ← compileRun h fuel vm source
  pure (if st.parser.hadError then 0 else function, st)

/-! ## vm.c -/

namespace VM

/-- The closure fields `function`, `upvalues`, `upvalueCount`. -/
def closureOf (vm : VM) (closure : Nat) : Option (Nat × List Nat × Nat) :=
  match vm.deref closure with
  | some { body := .closure function upvalues n, .. } => some (function, upvalues, n)
  | _ => none

/-- The field `function->arity`. -/
def arityOf (vm : VM) (function : Nat) : Option Nat :=
  match vm.deref function with
  | some { body := .function arity _ _ _, .. } => some arity
  | _ => none

/-- The field `function->name`. -/
def nameOf (vm : VM) (function : Nat) : Option Nat :=
  match vm.deref function with
  | some { body := .function _ _ name _, .. } => some name
  | _ => none

/-- The characters `string->chars`, as text. -/
def charsOf (vm : VM) (string : Nat) : String :=
  match vm.deref string with
  | some { body := .string _ chars _, .. } => String.mk (chars.map Char.ofNat)
  | _ => ""

/-- The line that `runtimeError` prints for frame `i`; `none` when the
frame does not refer to a closure of a function. -/
def traceLine (vm : VM) (i : Nat) : Option TraceLine := do
  let frame ← vm.frames.get? i
  let (function, _, _) ← vm.closureOf frame.closure
  let chunk ← vm.chunkOf function
  let name ← vm.nameOf function
  pure { line := getLine chunk ((frame.ip : Int) - 1), name := name }

end VM

namespace VM

/-- The function `runtimeError`, given the formatted message: the message
and the stack trace are reported and the stack is reset. -/
def runtimeError (vm : VM) (message : String) : VM :=
  let trace := (List.range vm.frameCount).reverse.filterMap (fun i => vm.traceLine i)
  ({ vm with err := vm.err ++ [{ message := message, trace := trace }] } : VM).resetStack

/-- The body of `call` once `closure->function->arity` has been read. -/
def callWith (vm : VM) (closure : Nat) (arity : Nat) (argCount : Nat) : Option (Bool × VM) :=
  if argCount != arity then
    some (false, vm.runtimeError
      ("Expected " ++ toString arity ++ " arguments but got " ++ toString argCount ++ "."))
  else if vm.frameCount == FRAMES_MAX then
    some (false, vm.runtimeError "Stack overflow.")
  else if vm.stackTop < argCount + 1 then none
  else
    some (true, { vm with frames := vm.frames.set vm.frameCount
                            { closure := closure, ip := 0, slots := vm.stackTop - argCount - 1 },
                          frameCount := vm.frameCount + 1 })

/-- The function `call`. -/
def call (vm : VM) (closure : Nat) (argCount : Nat) : Option (Bool × VM) := do
  let (function, _, _) ← vm.closureOf closure
  let arity ← vm.arityOf function
  vm.callWith closure arity argCount

/-- The method table of a class object. -/
def methodsOf (vm : VM) (klass : Nat) : Option Table :=
  match vm.deref klass with
  | some { body := .class _ methods, .. } => some methods
  | _ => none

/-- The function pointer `clockNative`, the one native that `initVM`
defines; its result is `NUMBER_VAL` of the clock reading of the host. -/
def clockNative : Nat := 1

/-- The function `callValue`.  In the `OBJ_CLASS` case the code that
follows the test of `argCount` is the `OBJ_CLOSURE` case, into which
control falls. -/
def callValue (h : Host) (vm : VM) (callee : Nat) (argCount : Nat) : Option (Bool × VM) :=
  if IS_OBJ callee then
    match vm.deref (AS_OBJ callee) with
    | none => none
    | some o =>
      match o.body with
      | .boundMethod receiver method => do
        let vm ← vm.poke argCount receiver
        vm.call method argCount
      | .class _ _ => do
        let klass := AS_OBJ callee
        let (inst, vm) := vm.newInstance klass
        let vm ← vm.poke argCount (OBJ_VAL inst)
        let methods ← vm.methodsOf klass
        match ← tableGet vm.hashOf methods vm.initString with
        | some initMethod => vm.call (AS_OBJ initMethod) argCount
        | none =>
          if argCount != 0 then
            some (false, vm.runtimeError
              ("Expected 0 arguments but got " ++ toString argCount ++ "."))
          else vm.call (AS_OBJ callee) argCount
      | .closure _ _ _ => vm.call (AS_OBJ callee) argCount
      | .native function => do
        if vm.stackTop < argCount + 1 then none
        else if function != clockNative then none
        else
          let result := NUMBER_VAL h.clock
          let vm := { vm with stack := vm.stack.take (vm.stackTop - (argCount + 1)) }
          some (true, vm.push result)
      | _ => some (false, vm.runtimeError "Can only call functions and classes.")
  else some (false, vm.runtimeError "Can only call functions and classes.")

/-- The fields of an upvalue object. -/
def upvalueOf (vm : VM) (upvalue : Nat) : Option (Location × Nat × Nat) :=
  match vm.deref upvalue with
  | some { body := .upvalue location closed next, .. } => some (location, closed, next)
  | _ => none

/-- The search loop of `captureUpvalue`: the last upvalue passed
(`prevUpvalue`) and the one the loop stops at. -/
def captureUpvalueLoop (vm : VM) (loc : Nat) : Nat → Nat → Nat → Option (Nat × Nat)
  | 0, _, _ => none
  | fuel + 1, prevUpvalue, upvalue =>
    if upvalue == 0 then some (prevUpvalue, upvalue)
    else
      match vm.upvalueOf upvalue with
      | some (.slot i, _, next) =>
        if i > loc then captureUpvalueLoop vm loc fuel upvalue next
        else some (prevUpvalue, upvalue)
      | _ => none

def captureUpvalue (vm : VM) (loc : Nat) : Option (Nat × VM) := do
  let (prevUpvalue, upvalue) ← captureUpvalueLoop vm loc (vm.heap.length + 1) 0 vm.openUpvalues
  let found :=
    if upvalue != 0 then
      match vm.upvalueOf upvalue with
      | some (.slot i, _, _) => i == loc
      | _ => false
    else false
  if found then pure (upvalue, vm)
  else
    let (createdUpvalue, vm) := vm.newUpvalue loc
    let vm := vm.store createdUpvalue (.upvalue (.slot loc) NIL_VAL upvalue)
    if prevUpvalue == 0 then pure (createdUpvalue, { vm with openUpvalues := createdUpvalue })
    else
      let (location, closed, _) ← vm.upvalueOf prevUpvalue
      pure (createdUpvalue, vm.store prevUpvalue (.upvalue location closed createdUpvalue))

/-- The loop of `closeUpvalues`. -/
def closeUpvaluesLoop (last : Nat) : Nat → VM → Option VM
  | 0, _ => none
  | fuel + 1, vm =>
    if vm.openUpvalues == 0 then some vm
    else
      match vm.upvalueOf vm.openUpvalues with
      | some (.slot i, _, next) =>
        if i ≥ last then
          match vm.stack.get? i with
          | none => none
          | some v =>
            closeUpvaluesLoop last fuel
              { vm.store vm.openUpvalues (.upvalue .closed v next) with openUpvalues := next }
        else some vm
      | _ => none

def closeUpvalues (vm : VM) (last : Nat) : Option VM :=
  closeUpvaluesLoop last (vm.heap.length + 1) vm

def defineMethod (vm : VM) (name : Nat) : Option VM := do
  let method ← vm.peek 0
  let klass := AS_OBJ (← vm.peek 1)
  match vm.deref klass with
  | some { body := .class cname methods, .. } =>
    let (_, methods) ← tableSet vm.hashOf methods name method
    let (_, vm) ← (vm.store klass (.class cname methods)).pop
    pure vm
  | _ => none

def bindMethod (vm : VM) (klass : Nat) (name : Nat) : Option (Bool × VM) := do
  let methods ← vm.methodsOf klass
  match ← tableGet vm.hashOf methods name with
  | none =>
    pure (false, vm.runtimeError ("Undefined property '" ++ vm.charsOf name ++ "'."))
  | some method =>
    let receiver ← vm.peek 0
    let (bound, vm) := vm.newBoundMethod receiver (AS_OBJ method)
    let (_, vm) ← vm.pop
    pure (true, vm.push (OBJ_VAL bound))

def invokeFromClass (vm : VM) (klass : Nat) (name : Nat) (argCount : Nat) :
    Option (Bool × VM) := do
  let methods ← vm.methodsOf klass
  match ← tableGet vm.hashOf methods name with
  | none =>
    pure (false, vm.runtimeError ("Undefined property '" ++ vm.charsOf name ++ "'."))
  | some method => vm.call (AS_OBJ method) argCount

/-- The fields of an instance object. -/
def instanceOf (vm : VM) (p : Nat) : Option (Nat × Table) :=
  match vm.deref p with
  | some { body := .instance klass fields, .. } => some (klass, fields)
  | _ => none

def invoke (h : Host) (vm : VM) (name : Nat) (argCount : Nat) : Option (Bool × VM) := do
  let receiver ← vm.peek argCount
  if !vm.IS_INSTANCE receiver then
    pure (false, vm.runtimeError "Only instances have methods.")
  else
    let (klass, fields) ← vm.instanceOf (AS_OBJ receiver)
    match ← tableGet vm.hashOf fields name with
    | some value =>
      let vm ← vm.poke argCount value
      vm.callValue h value argCount
    | none => vm.invokeFromClass klass name argCount

/-- The function `concatenate` when `ALLOCATE(char, length + 1)` starts no
collection; `Memory.concatenate` is the function with the call of
`reallocate`. -/
def concatenate (vm : VM) : Option VM := do
  let b := AS_OBJ (← vm.peek 0)
  let a := AS_OBJ (← vm.peek 1)
  match vm.deref a, vm.deref b with
  | some { body := .string alength achars _, .. }, some { body := .string blength bchars _, .. } =>
    let length := alength + blength
    let chars := achars.take alength ++ bchars.take blength
    let (result, vm) ← vm.takeString chars length
    let (_, vm) ← vm.pop
    let (_, vm) ← vm.pop
    pure (vm.push (OBJ_VAL result))
  | _, _ => none

/-- The code that `frame->ip` points into. -/
def frameChunk (vm : VM) (frame : Nat) : Option Chunk := do
  let f ← vm.frames.get? frame
  let (function, _, _) ← vm.closureOf f.closure
  vm.chunkOf function

/-- The macro `READ_BYTE`. -/
def readByte (vm : VM) (frame : Nat) : Option (Nat × VM) := do
  let f ← vm.frames.get? frame
  let chunk ← vm.frameChunk frame
  if f.ip < chunk.count then
    let byte ← chunk.code.get? f.ip
    pure (byte, { vm with frames := vm.frames.set frame { f with ip := f.ip + 1 } })
  else none

/-- The macro `READ_SHORT`. -/
def readShort (vm : VM) (frame : Nat) : Option (Nat × VM) := do
  let (hi, vm) ← vm.readByte frame
  let (lo, vm) ← vm.readByte frame
  pure ((hi * 256 + lo) % 65536, vm)

/-- The macro `READ_CONSTANT`. -/
def readConstant (vm : VM) (frame : Nat) : Option (Nat × VM) := do
  let (i, vm) ← vm.readByte frame
  let chunk ← vm.frameChunk frame
  if i < chunk.constants.count then
    let v ← chunk.constants.values.get? i
    pure (v, vm)
  else none

/-- The macro `READ_STRING`. -/
def readString (vm : VM) (frame : Nat) : Option (Nat × VM) := do
  let (v, vm) ← vm.readConstant frame
  pure (AS_OBJ v, vm)

end VM

/-- What one turn of the loop of `run` does: go on, with the local `frame`
(an index into `vm.frames`), or return. -/
inductive Step where
  | next (frame : Nat) (vm : VM)
  | ret (result : InterpretResult) (vm : VM)

open Step

namespace VM

/-- The macro `BINARY_OP(valueType, op)`. -/
def binaryOp (vm : VM) (frame : Nat) (op : Nat → Nat → Nat) : Option Step := do
  let b ← vm.peek 0
  let a ← vm.peek 1
  if !IS_NUMBER b || !IS_NUMBER a then
    pure (ret INTERPRET_RUNTIME_ERROR (vm.runtimeError "Operands must be numbers."))
  else
    let (b, vm) ← vm.pop
    let (a, vm) ← vm.pop
    pure (next frame (vm.push (op (AS_NUMBER a) (AS_NUMBER b))))

/-- The case `OP_ADD` of `run`. -/
def opAdd (h : Host) (vm : VM) (frame : Nat) : Option Step := do
  let v0 ← vm.peek 0
  let v1 ← vm.peek 1
  if vm.IS_STRING v0 && vm.IS_STRING v1 then
    let vm ← vm.concatenate
    pure (next frame vm)
  else if IS_NUMBER v0 && IS_NUMBER v1 then
    let (b, vm) ← vm.pop
    let (a, vm) ← vm.pop
    pure (next frame (vm.push (NUMBER_VAL (h.add (AS_NUMBER a) (AS_NUMBER b)))))
  else
    pure (ret INTERPRET_RUNTIME_ERROR
      (vm.runtimeError "Operands must be two numbers or two strings."))

/-- The macro `NEGATE(offset)` of the `NAN_BOXING` variant with
`offset = -1`: the double `-AS_NUMBER(...)` is assigned to the stack cell,
a `uint64_t`, which converts it to an integer. -/
def opNegate (vm : VM) (frame : Nat) : Option Step := do
  let v ← vm.peek 0
  if !IS_NUMBER v then
    pure (ret INTERPRET_RUNTIME_ERROR (vm.runtimeError "Operand must be a number."))
  else
    let converted ← dblToU64 (dblNeg (AS_NUMBER v))
    let vm ← vm.poke 0 converted
    pure (next frame vm)

/-- The loop of `OP_CLOSURE` over the upvalue operands. -/
def closureUpvalues (frame : Nat) (closure : Nat) : Nat → Nat → VM → Option VM
  | 0, _, vm => some vm
  | n + 1, i, vm => do
    let (isLocal, vm) ← vm.readByte frame
    let (index, vm) ← vm.readByte frame
    let f ← vm.frames.get? frame
    let (captured, vm) ←
      if isLocal != 0 then vm.captureUpvalue (f.slots + index)
      else do
        let (_, upvalues, _) ← vm.closureOf f.closure
        let u ← upvalues.get? index
        pure (u, vm)
    let (function, upvalues, count) ← vm.closureOf closure
    if i < upvalues.length then
      closureUpvalues frame closure n (i + 1)
        (vm.store closure (.closure function (upvalues.set i captured) count))
    else none

/-- The case `OP_RETURN` of `run`. -/
def opReturn (vm : VM) (frame : Nat) : Option Step := do
  let (result, vm) ← vm.pop
  if vm.frameCount == 0 then none
  else
    let vm := { vm with frameCount := vm.frameCount - 1 }
    let f ← vm.frames.get? frame
    let vm ← vm.closeUpvalues f.slots
    if vm.frameCount == 0 then
      let (_, vm) ← vm.pop
      pure (ret INTERPRET_OK vm)
    else
      if vm.stackTop < f.slots then none
      else
        let vm := { vm with stack := vm.stack.take f.slots }
        pure (next (vm.frameCount - 1) (vm.push result))

/-- One turn of the `for (;;)` loop of `run`: the instruction at
`frame->ip` is read and executed.  Every allocation is taken to return a
fresh block without a call of `collectGarbage`; the cases `OP_ADD`,
`OP_SET_GLOBAL` and `OP_INHERIT` with the calls of `reallocate` are
`Memory.opAdd`, `Memory.opSetGlobal` and `Memory.opInherit`. -/
def step (h : Host) (vm : VM) (frame : Nat) : Option Step := do
  let (instruction, vm) ← vm.readByte frame
  if instruction == OP_CONSTANT then
    let (constant, vm) ← vm.readConstant frame
    pure (next frame (vm.push constant))
  else if instruction == OP_NIL then pure (next frame (vm.push NIL_VAL))
  else if instruction == OP_TRUE then pure (next frame (vm.push (BOOL_VAL true)))
  else if instruction == OP_FALSE then pure (next frame (vm.push (BOOL_VAL false)))
  else if instruction == OP_POP then
    let (_, vm) ← vm.pop
    pure (next frame vm)
  else if instruction == OP_GET_LOCAL then
    let (slot, vm) ← vm.readByte frame
    let f ← vm.frames.get? frame
    let v ← vm.stack.get? (f.slots + slot)
    pure (next frame (vm.push v))
  else if instruction == OP_SET_LOCAL then
    let (slot, vm) ← vm.readByte frame
    let f ← vm.frames.get? frame
    let v ← vm.peek 0
    if f.slots + slot < vm.stackTop then
      pure (next frame { vm with stack := vm.stack.set (f.slots + slot) v })
    else none
  else if instruction == OP_GET_GLOBAL then
    let (name, vm) ← vm.readString frame
    match ← tableGet vm.hashOf vm.globals name with
    | none =>
      pure (ret INTERPRET_RUNTIME_ERROR
        (vm.runtimeError ("Undefined variable '" ++ vm.charsOf name ++ "'.")))
    | some value => pure (next frame (vm.push value))
  else if instruction == OP_DEFINE_GLOBAL then
    let (name, vm) ← vm.readString frame
    let v ← vm.peek 0
    let (_, globals) ← tableSet vm.hashOf vm.globals name v
    let (_, vm) ← ({ vm with globals := globals } : VM).pop
    pure (next frame vm)
  else if instruction == OP_SET_GLOBAL then
    let (name, vm) ← vm.readString frame
    let v ← vm.peek 0
    let (isNew, globals) ← tableSet vm.hashOf vm.globals name v
    let vm := { vm with globals := globals }
    if isNew then
      let (_, globals) ← tableDelete vm.hashOf vm.globals name
      let vm := { vm with globals := globals }
      pure (ret INTERPRET_RUNTIME_ERROR
        (vm.runtimeError ("Undefined variable '" ++ vm.charsOf name ++ "'.")))
    else pure (next frame vm)
  else if instruction == OP_GET_UPVALUE then
    let (slot, vm) ← vm.readByte frame
    let f ← vm.frames.get? frame
    let (_, upvalues, _) ← vm.closureOf f.closure
    let u ← upvalues.get? slot
    let (location, closed, _) ← vm.upvalueOf u
    let v ← match location with
      | .slot i => vm.stack.get? i
      | .closed => some closed
    pure (next frame (vm.push v))
  else if instruction == OP_SET_UPVALUE then
    let (slot, vm) ← vm.readByte frame
    let f ← vm.frames.get? frame
    let (_, upvalues, _) ← vm.closureOf f.closure
    let u ← upvalues.get? slot
    let (location, _, nxt) ← vm.upvalueOf u
    let v ← vm.peek 0
    match location with
    | .slot i =>
      if i < vm.stackTop then pure (next frame { vm with stack := vm.stack.set i v })
      else none
    | .closed => pure (next frame (vm.store u (.upvalue .closed v nxt)))
  else if instruction == OP_GET_PROPERTY then
    let v ← vm.peek 0
    if !vm.IS_INSTANCE v then
      pure (ret INTERPRET_RUNTIME_ERROR (vm.runtimeError "Only instances have properties."))
    else
      let (klass, fields) ← vm.instanceOf (AS_OBJ v)
      let (name, vm) ← vm.readString frame
      match ← tableGet vm.hashOf fields name with
      | some value =>
        let (_, vm) ← vm.pop
        pure (next frame (vm.push value))
      | none =>
        let (ok, vm) ← vm.bindMethod klass name
        if !ok then pure (ret INTERPRET_RUNTIME_ERROR vm) else pure (next frame vm)
  else if instruction == OP_SET_PROPERTY then
    let v1 ← vm.peek 1
    if !vm.IS_INSTANCE v1 then
      pure (ret INTERPRET_RUNTIME_ERROR (vm.runtimeError "Only instances have fields."))
    else
      let inst := AS_OBJ v1
      let (klass, fields) ← vm.instanceOf inst
      let (name, vm) ← vm.readString frame
      let v0 ← vm.peek 0
      let (_, fields) ← tableSet vm.hashOf fields name v0
      let vm := vm.store inst (.instance klass fields)
      let (value, vm) ← vm.pop
      let (_, vm) ← vm.pop
      pure (next frame (vm.push value))
  else if instruction == OP_GET_SUPER then
    let (name, vm) ← vm.readString frame
    let (superclass, vm) ← vm.pop
    let (ok, vm) ← vm.bindMethod (AS_OBJ superclass) name
    if !ok then pure (ret INTERPRET_RUNTIME_ERROR vm) else pure (next frame vm)
  else if instruction == OP_EQUAL then
    let (b, vm) ← vm.pop
    let (a, vm) ← vm.pop
    pure (next frame (vm.push (BOOL_VAL (valuesEqual a b))))
  else if instruction == OP_NOT_EQUAL then
    let (b, vm) ← vm.pop
    let (a, vm) ← vm.pop
    pure (next frame (vm.push (BOOL_VAL (!valuesEqual a b))))
  else if instruction == OP_GREATER then vm.binaryOp frame (fun a b => BOOL_VAL (dblGt a b))
  else if instruction == OP_GREATER_EQUAL then vm.binaryOp frame (fun a b => BOOL_VAL (dblGe a b))
  else if instruction == OP_LESS then vm.binaryOp frame (fun a b => BOOL_VAL (dblLt a b))
  else if instruction == OP_LESS_EQUAL then vm.binaryOp frame (fun a b => BOOL_VAL (dblLe a b))
  else if instruction == OP_ADD then vm.opAdd h frame
  else if instruction == OP_SUBTRACT then vm.binaryOp frame (fun a b => NUMBER_VAL (h.sub a b))
  else if instruction == OP_MULTIPLY then vm.binaryOp frame (fun a b => NUMBER_VAL (h.mul a b))
  else if instruction == OP_DIVIDE then vm.binaryOp frame (fun a b => NUMBER_VAL (h.div a b))
  else if instruction == OP_NOT then
    let (v, vm) ← vm.pop
    pure (next frame (vm.push (BOOL_VAL (isFalsey v))))
  else if instruction == OP_NEGATE then vm.opNegate frame
  else if instruction == OP_PRINT then
    let (v, vm) ← vm.pop
    pure (next frame { vm with out := vm.out ++ [v] })
  else if instruction == OP_JUMP then
    let (offset, vm) ← vm.readShort frame
    let f ← vm.frames.get? frame
    pure (next frame { vm with frames := vm.frames.set frame { f with ip := f.ip + offset } })
  else if instruction == OP_JUMP_IF_FALSE then
    let (offset, vm) ← vm.readShort frame
    let f ← vm.frames.get? frame
    let v ← vm.peek 0
    if isFalsey v then
      pure (next frame { vm with frames := vm.frames.set frame { f with ip := f.ip + offset } })
    else pure (next frame vm)
  else if instruction == OP_LOOP then
    let (offset, vm) ← vm.readShort frame
    let f ← vm.frames.get? frame
    if f.ip < offset then none
    else pure (next frame { vm with frames := vm.frames.set frame { f with ip := f.ip - offset } })
  else if instruction == OP_CALL then
    let (argCount, vm) ← vm.readByte frame
    let callee ← vm.peek argCount
    let (ok, vm) ← vm.callValue h callee argCount
    if !ok then pure (ret INTERPRET_RUNTIME_ERROR vm)
    else if vm.frameCount == 0 then none
    else pure (next (vm.frameCount - 1) vm)
  else if instruction == OP_INVOKE then
    let (method, vm) ← vm.readString frame
    let (argCount, vm) ← vm.readByte frame
    let (ok, vm) ← vm.invoke h method argCount
    if !ok then pure (ret INTERPRET_RUNTIME_ERROR vm)
    else if vm.frameCount == 0 then none
    else pure (next (vm.frameCount - 1) vm)
  else if instruction == OP_SUPER_INVOKE then
    let (method, vm) ← vm.readString frame
    let (argCount, vm) ← vm.readByte frame
    let (superclass, vm) ← vm.pop
    let (ok, vm) ← vm.invokeFromClass (AS_OBJ superclass) method argCount
    if !ok then pure (ret INTERPRET_RUNTIME_ERROR vm)
    else if vm.frameCount == 0 then none
    else pure (next (vm.frameCount - 1) vm)
  else if instruction == OP_CLOSURE then
    let (constant, vm) ← vm.readConstant frame
    let (closure, vm) ← vm.newClosure (AS_OBJ constant)
    let vm := vm.push (OBJ_VAL closure)
    let (_, _, upvalueCount) ← vm.closureOf closure
    let vm ← closureUpvalues frame closure upvalueCount 0 vm
    pure (next frame vm)
  else if instruction == OP_CLOSE_UPVALUE then
    if vm.stackTop == 0 then none
    else
      let vm ← vm.closeUpvalues (vm.stackTop - 1)
      let (_, vm) ← vm.pop
      pure (next frame vm)
  else if instruction == OP_RETURN then vm.opReturn frame
  else if instruction == OP_CLASS then
    let (name, vm) ← vm.readString frame
    let (klass, vm) := vm.newClass name
    pure (next frame (vm.push (OBJ_VAL klass)))
  else if instruction == OP_INHERIT then
    let superclass ← vm.peek 1
    if !vm.IS_CLASS superclass then
      pure (ret INTERPRET_RUNTIME_ERROR (vm.runtimeError "Superclass must be a class."))
    else
      let subclass := AS_OBJ (← vm.peek 0)
      let superMethods ← vm.methodsOf (AS_OBJ superclass)
      match vm.deref subclass with
      | some { body := .class name methods, .. } =>
        let methods ← tableAddAll vm.hashOf superMethods methods
        let (_, vm) ← (vm.store subclass (.class name methods)).pop
        pure (next frame vm)
      | _ => none
  else if instruction == OP_METHOD then
    let (name, vm) ← vm.readString frame
    let vm ← vm.defineMethod name
    pure (next frame vm)
  else pure (next frame vm)

/-- The `for (;;)` loop of `run`; `none` when `fuel` turns do not reach a
`return` or when a turn has no defined behaviour. -/
def runLoop (h : Host) : Nat → Nat → VM → Option (InterpretResult × VM)
  | 0, _, _ => none
  | fuel + 1, frame, vm =>
    match vm.step h frame with
    | none => none
    | some (next frame vm) => runLoop h fuel frame vm
    | some (ret result vm) => some (result, vm)

/-- The function `run`. -/
def run (h : Host) (fuel : Nat) (vm : VM) : Option (InterpretResult × VM) :=
  if vm.frameCount == 0 then none else runLoop h fuel (vm.frameCount - 1) vm

/-- The function `defineNative`. -/
def defineNative (vm : VM) (name : String) (function : Nat) : Option VM := do
  let (s, vm) ← vm.copyString (cstr name) (cstr name).length
  let vm := vm.push (OBJ_VAL s)
  let (native, vm) := vm.newNative function
  let vm := vm.push (OBJ_VAL native)
  let k ← vm.stack.get? 0
  let v ← vm.stack.get? 1
  let (_, globals) ← tableSet vm.hashOf vm.globals (AS_OBJ k) v
  let (_, vm) ← ({ vm with globals := globals } : VM).pop
  let (_, vm) ← vm.pop
  pure vm

end VM

/-- The function `initVM`: the state of the global `vm` it produces. -/
def initVM : Option VM := do
  let vm : VM :=
    { frames := List.replicate FRAMES_MAX { closure := 0, ip := 0, slots := 0 },
      frameCount := 0, stack := [], stackCapacity := 256, objects := 0,
      strings := initTable, globals := initTable, initString := 0, openUpvalues := 0,
      heap := [], out := [], err := [] }
  let vm := vm.resetStack
  let (initString, vm) ← vm.copyString (cstr "init") 4
  let vm := { vm with initString := initString }
  vm.defineNative "clock" VM.clockNative

/-- The function `interpret`; `fuel` bounds both the compiler's recursion
and the number of instructions run. -/
def interpret (h : Host) (fuel : Nat) (vm : VM) (source : List Nat) :
    Option (InterpretResult × VM) := do
  let (function, st) ← compile h fuel vm source
  let vm := st.vm
  if function == 0 then pure (INTERPRET_COMPILE_ERROR, vm)
  else
    let vm := vm.push (OBJ_VAL function)
    let (closure, vm) ← vm.newClosure function
    let (_, vm) ← vm.pop
    let vm := vm.push (OBJ_VAL closure)
    let (_, vm) ← vm.call closure 0
    vm.run h fuel

/-! ## Concrete runs -/

/-- A host for the concrete runs: the pool hands out zero-filled blocks and
the clock reads zero.  The sources run on it hold no number literal and no
arithmetic operator whose operands are numbers, so the arithmetic fields
are not called; they return zero. -/
def quietHost : Host :=
  { add := fun _ _ => 0, sub := fun _ _ => 0, mul := fun _ _ => 0, div := fun _ _ => 0,
    strtod := fun _ => 0, clock := 0, residue := fun _ => 0 }

/-- The bytecode of the top-level function after `compile`, with the flag
`parser.hadError`. -/
def compiledCode (h : Host) (fuel : Nat) (vm : VM) (source : List Nat) :
    Option (List Nat × Bool) :=
  match compileRun h fuel vm source with
  | some (function, st) => (st.vm.chunkOf function).map (fun c => (c.code, st.parser.hadError))
  | none => none

/-- The bytecode that a VM fresh from `initVM` compiles a source to. -/
def bootAndCompile (h : Host) (fuel : Nat) (source : String) : Option (List Nat × Bool) :=
  initVM.bind (fun vm => compiledCode h fuel vm (cstr source))

/-- The call `interpret(source)` on a VM fresh from `initVM`. -/
def bootAndInterpret (h : Host) (fuel : Nat) (source : String) : Option (InterpretResult × VM) :=
  initVM.bind (fun vm => interpret h fuel vm (cstr source))

/-! ## The claims on values, in the specification's words -/

/-- How a value is built: by `NIL_VAL`, `BOOL_VAL(b)`, `NUMBER_VAL(num)` or
`OBJ_VAL(pointer)`. -/
inductive Built where
  | nil
  | bool (b : Bool)
  | number (num : Nat)
  | obj (pointer : Nat)
  deriving DecidableEq, Repr

/-- The value that the constructor macro yields. -/
def Built.value : Built → Nat
  | .nil => NIL_VAL
  | .bool b => BOOL_VAL b
  | .number num => NUMBER_VAL num
  | .obj pointer => OBJ_VAL pointer

/-- Follows the spec's words (section 3, "Value"): nil equals only nil,
booleans equal only equal booleans, two numbers are equal when they are
numerically equal, two object references when they are the same object,
and values of different kinds are never equal. -/
def specEqual : Built → Built → Bool
  | .nil, .nil => true
  | .bool a, .bool b => a == b
  | .number a, .number b => dblEq a b
  | .obj p, .obj q => p == q
  | _, _ => false

/-- The operands for which the NaN-boxing is faithful: a double (64 bits)
whose pattern keeps one of the bits 50 to 62 clear, which every double that
is not a NaN does, and a pointer that fits in the low 50 bits. -/
def Built.plain : Built → Bool
  | .number num => decide (num < 2 ^ 64) && IS_NUMBER (NUMBER_VAL num)
  | .obj pointer => decide (pointer < 2 ^ 50)
  | _ => true

/-! ## States for the concrete runs -/

/-- A VM with an empty heap and an empty stack, as `initVM` sets the fields
before it interns `init`. -/
def blankVM : VM :=
  { frames := List.replicate FRAMES_MAX { closure := 0, ip := 0, slots := 0 },
    frameCount := 0, stack := [], stackCapacity := 256, objects := 0,
    strings := initTable, globals := initTable, initString := 0, openUpvalues := 0,
    heap := [], out := [], err := [] }

/-- A VM whose heap holds a function of arity 1 (pointer 1) and a closure
over it (pointer 2), with the closure and one argument on the stack. -/
def arityVM : VM :=
  let (function, vm) := blankVM.allocateObject (.function 1 initChunk 0 0)
  let (closure, vm) := vm.allocateObject (.closure function [] 0)
  (vm.push (OBJ_VAL closure)).push NIL_VAL

/-- The state in which `callValue` is entered for the call `A()` of a class
`A` that has no methods: a VM fresh from `initVM` in which the class was
created, with the class on top of the stack; and the pointer to the class. -/
def classCallVM : Option (VM × Nat) := do
  let vm ← initVM
  let (name, vm) ← vm.copyString (cstr "A") 1
  let (klass, vm) := vm.newClass name
  pure (vm.push (OBJ_VAL klass), klass)

/-- A VM whose stack holds the number `-2.0` (bits `0xC000000000000000`). -/
def negateVM : VM := blankVM.push (NUMBER_VAL 0xC000000000000000)

/-- The stack after a turn of the loop of `run`, when it goes on. -/
def Step.stack : Step → Option (List Nat)
  | .next _ vm => some vm.stack
  | .ret _ _ => none

/-- What a call reports: the flag returned, the number of frames, the
height of the stack and the last message written by `runtimeError`. -/
def callReport (r : Option (Bool × VM)) : Option (Bool × Nat × Nat × Option String) :=
  r.map (fun p => (p.1, p.2.frameCount, p.2.stackTop, p.2.err.getLast?.map (fun e => e.message)))

/-- A VM fresh from `initVM` in which the strings "a" and "b" were created
and pushed, "a" below "b". -/
def stringsVM : VM :=
  match (do
    let vm ← initVM
    let (a, vm) ← vm.copyString (cstr "a") 1
    let (b, vm) ← vm.copyString (cstr "b") 1
    pure ((vm.push (OBJ_VAL a)).push (OBJ_VAL b)) : Option VM) with
  | some vm => vm
  | none => blankVM

/-- The bytecode of every function object on the heap after `compile`, in
the order of allocation, with the pointer returned and the flag
`parser.hadError`. -/
def functionCodes (h : Host) (fuel : Nat) (source : String) :
    Option (Nat × Bool × List (List Nat)) :=
  initVM.bind (fun vm => (compile h fuel vm (cstr source)).map (fun p =>
    (p.1, p.2.parser.hadError, p.2.vm.heap.filterMap (fun o =>
      match o.body with
      | .function _ chunk _ _ => some chunk.code
      | _ => none))))

/-- The messages of the compile errors reported for a source. -/
def compileMessages (h : Host) (fuel : Nat) (source : String) : Option (Nat × List (List Nat)) :=
  initVM.bind (fun vm => (compile h fuel vm (cstr source)).map (fun p =>
    (p.1, p.2.diagnostics.map (fun d => d.message))))

/-- What a run shows: the result of `interpret`, the values printed, the
messages of the run-time errors and the height of the stack at the end. -/
def runReport (h : Host) (fuel : Nat) (source : String) :
    Option (InterpretResult × List Nat × List String × Nat) :=
  (bootAndInterpret h fuel source).map (fun p =>
    (p.1, p.2.out, p.2.err.map (fun r => r.message), p.2.stack.length))

/-- A sequence of calls `writeChunk(chunk, byte, line)`. -/
def writeChunks (h : Host) : List (Nat × Nat) → Chunk → Option Chunk
  | [], chunk => some chunk
  | (byte, line) :: rest, chunk => (writeChunk h chunk byte line).bind (writeChunks h rest)

/-! ## memory.c

The pool behind `reallocate` (`tlsf`) is not among the sources: a block
handed back to it is recorded in `freed`, a read or a write through a
pointer to such a block has no defined result, and the pool is taken to
serve every request. -/

/-- The values of `sizeof` that the collector passes to `reallocate`. -/
structure Sizes where
  objBoundMethod : Nat
  objInstance : Nat
  objClass : Nat
  objClosure : Nat
  objUpvalue : Nat
  objFunction : Nat
  objNative : Nat
  objString : Nat
  entry : Nat
  value : Nat
  pointer : Nat

/-- The sizes on a machine with 8-byte pointers and 4-byte `int`. -/
def lp64 : Sizes :=
  { objBoundMethod := 32, objInstance := 40, objClass := 40, objClosure := 40,
    objUpvalue := 40, objFunction := 88, objNative := 24, objString := 40,
    entry := 16, value := 8, pointer := 8 }

/-- The global `vm` as the collector sees it: the fields of `VM`, the fields
of the collector that `VM` leaves out (`grayStack` holds the `grayCount`
cells in use), the functions of the chain `current` of `compiler.c`, the
innermost first, and the objects handed back to the pool.  The field
`collections` counts the calls of `collectGarbage`; it is not a field of the
C record. -/
structure Memory where
  vm : VM
  grayCapacity : Nat
  grayStack : List Nat
  bytesAllocated : Nat
  nextGC : Nat
  compilers : List Nat
  freed : List Nat
  collections : Nat

namespace Memory

/-- The count `vm.grayCount`. -/
def grayCount (m : Memory) : Nat := m.grayStack.length

/-- The object a pointer refers to; none once the object was freed. -/
def obj (m : Memory) (p : Nat) : Option Obj :=
  if m.freed.contains p then none else m.vm.deref p

/-- The assignment `object->isMarked = b`. -/
def setMarked (m : Memory) (p : Nat) (b : Bool) : Memory :=
  match m.vm.deref p with
  | some o => { m with vm := { m.vm with heap := m.vm.heap.set (p - 1) { o with isMarked := b } } }
  | none => m

/-- The assignment `object->next = next`. -/
def setNext (m : Memory) (p : Nat) (next : Nat) : Memory :=
  match m.vm.deref p with
  | some o => { m with vm := { m.vm with heap := m.vm.heap.set (p - 1) { o with next := next } } }
  | none => m

/-- The flag `object->isMarked`; false for a pointer to no object. -/
def marked (m : Memory) (p : Nat) : Bool :=
  match m.obj p with
  | some o => o.isMarked
  | none => false

/-- The function `markObject`. -/
def markObject (m : Memory) (object : Nat) : Option Memory :=
  if object == 0 then some m
  else
    match m.obj object with
    | none => none
    | some o =>
      if o.isMarked then some m
      else
        let m := m.setMarked object true
        let capacity := if m.grayCapacity < m.grayCount + 1 then GROW_CAPACITY m.grayCapacity
                        else m.grayCapacity
        some { m with grayCapacity := capacity, grayStack := m.grayStack ++ [object] }

/-- The pointer that `markValue` passes on: `AS_OBJ(value)` for an object,
`NULL` for another value. -/
def pointerOf (value : Nat) : Nat := if IS_OBJ value then AS_OBJ value else 0

/-- The function `markValue`. -/
def markValue (m : Memory) (value : Nat) : Option Memory :=
  if IS_OBJ value then m.markObject (AS_OBJ value) else some m

/-- A loop that calls `markObject` on each pointer of a list in turn. -/
def markObjects : List Nat → Memory → Option Memory
  | [], m => some m
  | p :: rest, m => (m.markObject p).bind (markObjects rest)

/-- A loop that calls `markValue` on each value of a list in turn. -/
def markValues : List Nat → Memory → Option Memory
  | [], m => some m
  | v :: rest, m => (m.markValue v).bind (markValues rest)

/-- The function `markArray`. -/
def markArray (m : Memory) (array : ValueArray) : Option Memory :=
  if array.values.length < array.count then none
  else markValues (array.values.take array.count) m

/-- The loop of `markTable` over the entries. -/
def markEntries : List Entry → Memory → Option Memory
  | [], m => some m
  | e :: rest, m => ((m.markObject e.key).bind (fun m => m.markValue e.value)).bind (markEntries rest)

/-- The function `markTable`. -/
def markTable (m : Memory) (table : Table) : Option Memory :=
  if table.entries.length < table.capacity then none
  else markEntries (table.entries.take table.capacity) m

/-- The function `blackenObject`. -/
def blackenObject (m : Memory) (object : Nat) : Option Memory :=
  match m.obj object with
  | none => none
  | some o =>
    match o.body with
    | .boundMethod receiver method => (m.markValue receiver).bind (fun m => m.markObject method)
    | .instance klass fields => (m.markObject klass).bind (fun m => m.markTable fields)
    | .class name methods => (m.markObject name).bind (fun m => m.markTable methods)
    | .closure function upvalues upvalueCount =>
      (m.markObject function).bind (fun m =>
        if upvalues.length < upvalueCount then none
        else markObjects (upvalues.take upvalueCount) m)
    | .function _ chunk name _ => (m.markObject name).bind (fun m => m.markArray chunk.constants)
    | .upvalue _ closed _ => m.markValue closed
    | .native _ => some m
    | .string _ _ _ => some m

/-- The loop of `traceReferences`. -/
def traceReferencesLoop : Nat → Memory → Option Memory
  | 0, _ => none
  | fuel + 1, m =>
    match m.grayStack.getLast? with
    | none => some m
    | some object =>
      ({ m with grayStack := m.grayStack.dropLast } : Memory).blackenObject object |>.bind
        (traceReferencesLoop fuel)

/-- The function `traceReferences`.  An object enters the gray stack when
its mark is set, so the loop runs at most once for each cell on the stack and
once for each object of the heap. -/
def traceReferences (m : Memory) : Option Memory :=
  traceReferencesLoop (m.grayStack.length + m.vm.heap.length + 1) m

/-- The loop of `markRoots` over the list of open upvalues. -/
def markOpenUpvalues : Nat → Memory → Nat → Option Memory
  | 0, _, _ => none
  | fuel + 1, m, upvalue =>
    if upvalue == 0 then some m
    else
      (m.markObject upvalue).bind (fun m =>
        match m.obj upvalue with
        | some { body := .upvalue _ _ following, .. } => markOpenUpvalues fuel m following
        | _ => none)

/-- The function `markCompilerRoots` of `compiler.c`. -/
def markCompilerRoots (m : Memory) : Option Memory := markObjects m.compilers m

/-- The function `markRoots`. -/
def markRoots (m : Memory) : Option Memory := do
  let m ← markValues m.vm.stack m
  let m ← markObjects ((m.vm.frames.take m.vm.frameCount).map (fun f => f.closure)) m
  let m ← markOpenUpvalues (m.vm.heap.length + 1) m m.vm.openUpvalues
  let m ← m.markTable m.vm.globals
  let m ← m.markCompilerRoots
  m.markObject m.vm.initString

/-- The loop of `tableRemoveWhite` on the table `vm.strings`. -/
def tableRemoveWhiteLoop : List Nat → Memory → Option Memory
  | [], m => some m
  | i :: rest, m =>
    match m.vm.strings.entries.get? i with
    | none => none
    | some entry =>
      if entry.key != 0 then
        match m.obj entry.key with
        | none => none
        | some o =>
          if !o.isMarked then
            match tableDelete m.vm.hashOf m.vm.strings entry.key with
            | none => none
            | some (_, strings) =>
              tableRemoveWhiteLoop rest { m with vm := { m.vm with strings := strings } }
          else tableRemoveWhiteLoop rest m
      else tableRemoveWhiteLoop rest m

/-- The call `tableRemoveWhite(&vm.strings)`. -/
def tableRemoveWhite (m : Memory) : Option Memory :=
  tableRemoveWhiteLoop (List.range m.vm.strings.capacity) m

/-- The assignment `vm.bytesAllocated += newSize - oldSize` on `size_t`. -/
def account (m : Memory) (oldSize newSize : Nat) : Memory :=
  { m with bytesAllocated :=
      (m.bytesAllocated + newSize % 2 ^ 64 + (2 ^ 64 - oldSize % 2 ^ 64)) % 2 ^ 64 }

end Memory


mutual

/-- The function `reallocate`, up to the call of the pool: the accounting
and the call of `collectGarbage`. -/
def reallocate (sz : Sizes) : Nat → Memory → Nat → Nat → Option Memory
  | 0, _, _, _ => none
  | fuel + 1, m, oldSize, newSize =>
    let m := m.account oldSize newSize
    if m.bytesAllocated > m.nextGC then collectGarbage sz fuel m else some m

/-- The function `collectGarbage`. -/
def collectGarbage (sz : Sizes) : Nat → Memory → Option Memory
  | 0, _ => none
  | fuel + 1, m => do
    let m := { m with collections := m.collections + 1 }
    let m ← m.markRoots
    let m ← m.traceReferences
    let m ← m.tableRemoveWhite
    let m ← sweepLoop sz fuel m 0 m.vm.objects
    pure { m with nextGC := (m.bytesAllocated * 2) % 2 ^ 64 }

/-- The loop of `sweep`, with the locals `previous` and `object`. -/
def sweepLoop (sz : Sizes) : Nat → Memory → Nat → Nat → Option Memory
  | 0, _, _, _ => none
  | fuel + 1, m, previous, object =>
    if object == 0 then some m
    else
      match m.obj object with
      | none => none
      | some o =>
        if o.isMarked then sweepLoop sz fuel (m.setMarked object false) object o.next
        else
          let unreached := object
          let object := o.next
          let unlinked :=
            if previous != 0 then
              match m.obj previous with
              | none => none
              | some _ => some (m.setNext previous object)
            else some { m with vm := { m.vm with objects := object } }
          match unlinked with
          | none => none
          | some m =>
            match freeObject sz fuel m unreached with
            | none => none
            | some m => sweepLoop sz fuel m previous object

/-- The function `freeObject`.  The tables and the chunk of the object are
reset by `initTable` and `initChunk` before the object itself is handed
back. -/
def freeObject (sz : Sizes) : Nat → Memory → Nat → Option Memory
  | 0, _, _ => none
  | fuel + 1, m, object =>
    match m.obj object with
    | none => none
    | some o =>
      let freed :=
        match o.body with
        | .boundMethod _ _ => reallocate sz fuel m sz.objBoundMethod 0
        | .instance klass fields =>
          (reallocate sz fuel m (sz.entry * fields.capacity) 0).bind (fun m =>
            reallocate sz fuel { m with vm := m.vm.store object (.instance klass initTable) }
              sz.objInstance 0)
        | .class name methods =>
          (reallocate sz fuel m (sz.entry * methods.capacity) 0).bind (fun m =>
            reallocate sz fuel { m with vm := m.vm.store object (.class name initTable) }
              sz.objClass 0)
        | .closure _ _ upvalueCount =>
          (reallocate sz fuel m (sz.pointer * upvalueCount) 0).bind (fun m =>
            reallocate sz fuel m sz.objClosure 0)
        | .upvalue _ _ _ => reallocate sz fuel m sz.objUpvalue 0
        | .function arity chunk name upvalueCount =>
          (reallocate sz fuel m chunk.capacity 0).bind (fun m =>
            (reallocate sz fuel m chunk.rleCapacity 0).bind (fun m =>
              (reallocate sz fuel m (sz.value * chunk.constants.capacity) 0).bind (fun m =>
                reallocate sz fuel
                  { m with vm := m.vm.store object (.function arity initChunk name upvalueCount) }
                  sz.objFunction 0)))
        | .native _ => reallocate sz fuel m sz.objNative 0
        | .string length _ _ =>
          (reallocate sz fuel m (length + 1) 0).bind (fun m =>
            reallocate sz fuel m sz.objString 0)
      freed.map (fun m => { m with freed := m.freed ++ [object] })

end

/-- The function `sweep`. -/
def sweep (sz : Sizes) (fuel : Nat) (m : Memory) : Option Memory :=
  sweepLoop sz fuel m 0 m.vm.objects

namespace Memory

/-- The walk along `next` from `object`: the pointers met, in order. -/
def listFrom (m : Memory) : Nat → Nat → Option (List Nat)
  | 0, _ => none
  | fuel + 1, object =>
    if object == 0 then some []
    else
      match m.obj object with
      | none => none
      | some o => (listFrom m fuel o.next).map (fun l => object :: l)

/-- The list `vm.objects`. -/
def objectList (m : Memory) : Option (List Nat) := m.listFrom (m.vm.heap.length + 1) m.vm.objects

end Memory

/-- A memory with no object, for the given `bytesAllocated` and `nextGC`. -/
def blankMemory (bytesAllocated nextGC : Nat) : Memory :=
  { vm := blankVM, grayCapacity := 0, grayStack := [], bytesAllocated := bytesAllocated,
    nextGC := nextGC, compilers := [], freed := [], collections := 0 }

/-- A memory with five objects, allocated in this order: a function (pointer
1), a closure over it (2) with one upvalue, a string that nothing refers to
(3), a string (4) and the upvalue of the closure (5), closed.  The closure
and the string 4 are on the stack.  `mark` is the flag `isMarked` of the
objects that can be reached from the stack: 1, 2, 4 and 5. -/
def sweepMemory (mark : Bool) (bytesAllocated nextGC : Nat) : Memory :=
  { vm :=
      { blankVM with
        heap :=
          [{ isMarked := mark, next := 0, body := .function 0 initChunk 0 1 },
           { isMarked := mark, next := 1, body := .closure 1 [5] 1 },
           { isMarked := false, next := 2, body := .string 0 [] (VM.hashString []) },
           { isMarked := mark, next := 3, body := .string 1 (cstr "d") (VM.hashString (cstr "d")) },
           { isMarked := mark, next := 4, body := .upvalue .closed NIL_VAL 0 }],
        objects := 5,
        stack := [OBJ_VAL 2, OBJ_VAL 4] },
    grayCapacity := 8, grayStack := [], bytesAllocated := bytesAllocated, nextGC := nextGC,
    compilers := [], freed := [], collections := 0 }

/-- What a run of the collector shows: the list `vm.objects`, the flags
`isMarked` of its objects, the objects freed, in order, and the number of
calls of `collectGarbage`. -/
def sweepReport (r : Option Memory) : Option (List Nat × List Bool × List Nat × Nat) :=
  r.bind (fun m => m.objectList.map (fun l => (l, l.map m.marked, m.freed, m.collections)))

/-! ## The claim on marking, in the specification's words -/

namespace Memory

/-- The pointers in the cells of a table: for each entry the key and the
object of the value, `NULL` for a value that is no object. -/
def tablePointers (table : Table) : List Nat :=
  (table.entries.take table.capacity).flatMap (fun e => [e.key, pointerOf e.value])

/-- Follows the spec's words: the references of an object that
`blackenObject` follows: function name and constants, closure function and
upvalues, upvalue closed value, class name and methods, instance class and
fields, bound-method receiver and method. -/
def references : ObjBody → List Nat
  | .function _ chunk name _ =>
    name :: (chunk.constants.values.take chunk.constants.count).map pointerOf
  | .closure function upvalues upvalueCount => function :: upvalues.take upvalueCount
  | .upvalue _ closed _ => [pointerOf closed]
  | .class name methods => name :: tablePointers methods
  | .instance klass fields => klass :: tablePointers fields
  | .boundMethod receiver method => [pointerOf receiver, method]
  | .native _ => []
  | .string _ _ _ => []

/-- The arrays of an object have the cells that their counts announce. -/
def shapely : ObjBody → Bool
  | .function _ chunk _ _ => decide (chunk.constants.count ≤ chunk.constants.values.length)
  | .closure _ upvalues upvalueCount => decide (upvalueCount ≤ upvalues.length)
  | .class _ methods => decide (methods.capacity ≤ methods.entries.length)
  | .instance _ fields => decide (fields.capacity ≤ fields.entries.length)
  | _ => true

/-- The list of open upvalues from `upvalue` on, along the field `next`. -/
def openFrom (m : Memory) : Nat → Nat → Option (List Nat)
  | 0, _ => none
  | fuel + 1, upvalue =>
    if upvalue == 0 then some []
    else
      match m.obj upvalue with
      | some { body := .upvalue _ _ following, .. } =>
        (openFrom m fuel following).map (fun l => upvalue :: l)
      | _ => none

/-- The list `vm.openUpvalues`. -/
def openList (m : Memory) : Option (List Nat) := m.openFrom (m.vm.heap.length + 1) m.vm.openUpvalues

/-- Follows the spec's words: the roots: a value on the VM stack, an active
frame's closure, an open upvalue, a key or value of the globals table, a
function of the active compiler chain, or `initString`. -/
def roots (m : Memory) : List Nat :=
  m.vm.stack.map pointerOf ++ (m.vm.frames.take m.vm.frameCount).map (fun f => f.closure) ++
    (m.openList.getD []) ++ tablePointers m.vm.globals ++ m.compilers ++ [m.vm.initString]

/-- A pointer is `NULL` or refers to an object. -/
def valid (m : Memory) (p : Nat) : Bool := p == 0 || (m.obj p).isSome

/-- No root and no reference of an object dangles: the list of open upvalues
ends, the tables and arrays have their cells, and every root and every
reference of an object is `NULL` or an object. -/
def closed (m : Memory) : Bool :=
  m.openList.isSome && decide (m.vm.globals.capacity ≤ m.vm.globals.entries.length) &&
    m.roots.all m.valid &&
    (List.range m.vm.heap.length).all (fun i =>
      match m.obj (i + 1) with
      | some o => shapely o.body && (references o.body).all m.valid
      | none => true)

/-- No object is marked. -/
def allWhite (m : Memory) : Bool :=
  (List.range m.vm.heap.length).all (fun i => !m.marked (i + 1))

/-- Follows the spec's words: an object is reachable from a root through
the references. -/
inductive Reachable (m : Memory) : Nat → Prop where
  | root (r : Nat) : r ∈ m.roots → r ≠ 0 → Reachable m r
  | step (p c : Nat) (o : Obj) : Reachable m p → m.obj p = some o → c ∈ references o.body →
      c ≠ 0 → Reachable m c

end Memory

namespace Memory

/-- An object with its mark cleared. -/
def unmark (o : Obj) : Obj := { o with isMarked := false }

/-- A memory with the marks and the gray stack cleared: what marking leaves
alone. -/
def erase (m : Memory) : Memory :=
  { m with vm := { m.vm with heap := m.vm.heap.map unmark }, grayStack := [], grayCapacity := 0 }

/-- The objects that are not marked, by their index in the heap. -/
def white (m : Memory) : Finset Nat :=
  (Finset.range m.vm.heap.length).filter (fun i => (m.obj (i + 1)).isSome && !m.marked (i + 1))

/-- The number of turns that `traceReferences` can still take: the cells on
the gray stack and the objects not marked. -/
def work (m : Memory) : Nat := m.grayStack.length + m.white.card

/-- The state of a trace that started on `m0`: the objects and the roots
are those of `m0`, an object that is marked can be reached, the roots are
marked, the gray objects are marked, and the references of an object that is
marked and not gray are marked. -/
structure Tracing (m0 m : Memory) : Prop where
  same : m.erase = m0.erase
  sound : ∀ q, m.marked q = true → Reachable m0 q
  rootsMarked : ∀ r ∈ m0.roots, r ≠ 0 → m.marked r = true
  grayMarked : ∀ g ∈ m.grayStack, m.marked g = true
  blackClosed : ∀ q o, m.marked q = true → q ∉ m.grayStack → m.obj q = some o →
    ∀ c ∈ references o.body, c ≠ 0 → m.marked c = true

end Memory

/-- A memory with a cycle: a function (pointer 1), a closure over it (2)
whose upvalue (3) is closed over the closure itself, and a string that
nothing refers to (4).  The closure is on the stack; no object is marked. -/
def cycleMemory : Memory :=
  { vm :=
      { blankVM with
        heap :=
          [{ isMarked := false, next := 0, body := .function 0 initChunk 0 1 },
           { isMarked := false, next := 1, body := .closure 1 [3] 1 },
           { isMarked := false, next := 2, body := .upvalue .closed (OBJ_VAL 2) 0 },
           { isMarked := false, next := 3, body := .string 0 [] (VM.hashString []) }],
        objects := 4,
        stack := [OBJ_VAL 2] },
    grayCapacity := 0, grayStack := [], bytesAllocated := 0, nextGC := 0,
    compilers := [], freed := [], collections := 0 }

/-! ## The hash table: its invariant, and the tables the claims speak of -/

/-- An entry with no key and the value nil: a slot never used. -/
def Entry.isEmpty (e : Entry) : Bool := e.key == 0 && IS_NIL e.value

namespace Table

/-- The entry in the slot `i` of a table. -/
def slot (t : Table) (i : Nat) : Entry := t.entries.getD i { key := 0, value := NIL_VAL }

/-- Follows the spec's words: the key `k` is present in the table with the
value `v`. -/
def Has (t : Table) (k v : Nat) : Prop :=
  ∃ i, i < t.capacity ∧ t.slot i = { key := k, value := v }

/-- The invariant of the tables: the capacity is zero or a power of two, the
array has `capacity` entries, `count` is the number of slots in use (keys and
tombstones) and is at most three quarters of the capacity, no key is in two
slots, and from the slot that a key hashes to up to the slot that holds it
every slot is in use. -/
structure WF (hashOf : Nat → Nat) (t : Table) : Prop where
  cap : t.capacity = 0 ∨ ∃ n, t.capacity = 2 ^ n
  len : t.entries.length = t.capacity
  count : t.count = t.entries.countP (fun e => !e.isEmpty)
  load : 4 * t.count ≤ 3 * t.capacity
  distinct : ∀ i j, i < t.capacity → j < t.capacity → (t.slot i).key ≠ 0 →
    (t.slot i).key = (t.slot j).key → i = j
  chain : ∀ i, i < t.capacity → (t.slot i).key ≠ 0 →
    ∃ d, d < t.capacity ∧ (hashOf (t.slot i).key + d) % t.capacity = i ∧
      ∀ d', d' < d → (t.slot ((hashOf (t.slot i).key + d') % t.capacity)).isEmpty = false

/-- Follows the spec's words: a table reached from `initTable` by table
operations, with keys that are not `NULL`. -/
inductive Reached (hashOf : Nat → Nat) : Table → Prop where
  | init : Reached hashOf initTable
  | set (t t' : Table) (k v : Nat) (b : Bool) : Reached hashOf t → k ≠ 0 →
      tableSet hashOf t k v = some (b, t') → Reached hashOf t'
  | delete (t t' : Table) (k : Nat) (b : Bool) : Reached hashOf t → k ≠ 0 →
      tableDelete hashOf t k = some (b, t') → Reached hashOf t'
  | addAll (src dst t' : Table) : Reached hashOf src → Reached hashOf dst →
      tableAddAll hashOf src dst = some t' → Reached hashOf t'

end Table

/-- A sequence of calls `tableSet(table, key, value)`. -/
def tableSets (hashOf : Nat → Nat) : List (Nat × Nat) → Table → Option Table
  | [], table => some table
  | (key, value) :: rest, table =>
    (tableSet hashOf table key value).bind (fun p => tableSets hashOf rest p.2)

/-- A VM in which `run` is about to execute `OP_SET_GLOBAL 0` with `nil` on
top of the stack: the heap holds the strings `a` (pointer 1) and `b`
(pointer 2), a function whose chunk holds the instruction and the constant
`a` (pointer 3), and a closure over it (pointer 4); the global `b` is
defined with the value `true`, the global `a` is not defined. -/
def setGlobalVM : VM :=
  let (_, vm) := blankVM.allocateObject (.string 1 (cstr "a") 97)
  let (b, vm) := vm.allocateObject (.string 1 (cstr "b") 98)
  let chunk : Chunk :=
    { initChunk with count := 2, capacity := 8, code := [OP_SET_GLOBAL, 0],
                     constants := writeValueArray initValueArray (OBJ_VAL 1) }
  let (function, vm) := vm.allocateObject (.function 0 chunk 0 0)
  let (closure, vm) := vm.allocateObject (.closure function [] 0)
  let globals :=
    match tableSet vm.hashOf initTable b (BOOL_VAL true) with
    | some (_, table) => table
    | none => initTable
  let vm := (vm.push (OBJ_VAL closure)).push NIL_VAL
  { vm with globals := globals, frameCount := 1,
            frames := vm.frames.set 0 { closure := closure, ip := 0, slots := 0 } }

/-! ## Concrete scans and statements -/

/-- The kinds and the lengths of the tokens that `scanToken` returns from
the scanner `s` on, up to `TOKEN_EOF`. -/
def scanKinds : Nat → Scanner → List (TokenType × Nat)
  | 0, _ => []
  | fuel + 1, s =>
    let r := s.scanToken
    if r.1.type == TOKEN_EOF then [] else (r.1.type, r.1.length) :: scanKinds fuel r.2

/-- The kinds and the lengths of the tokens of a source. -/
def tokenKinds (source : String) : List (TokenType × Nat) :=
  scanKinds ((cstr source).length + 1) (initScanner (cstr source))

/-- What `statement` does to the compiler of the script on a source that is
one statement: `scopeDepth` and `localCount` before and after, and the code
emitted. -/
def statementReport (h : Host) (fuel : Nat) (source : String) :
    Option ((Int × Nat) × (Int × Nat) × List Nat) := do
  let vm ← initVM
  let st ← initCompiler (compileStart vm (cstr source)) TYPE_SCRIPT
  let st := advance st
  let c0 ← st.current.head?
  let st ← statement h fuel st
  let c1 ← st.current.head?
  let chunk ← currentChunk st
  pure ((c0.scopeDepth, c0.localCount), (c1.scopeDepth, c1.localCount), chunk.code)

/-- The table after `tableSet(table, 1, true)` and `tableSet(table, 9,
false)` on a new table, with keys that hash to themselves: both keys hash to
slot 1, and the key 9 is stored in slot 2. -/
def collisionTable : Table :=
  { count := 2, capacity := 8,
    entries := [{ key := 0, value := NIL_VAL }, { key := 1, value := BOOL_VAL true },
      { key := 9, value := BOOL_VAL false }] ++ List.replicate 5 { key := 0, value := NIL_VAL } }

/-- A VM whose heap holds the strings `a` (pointer 1, hash field 1) and `b`
(pointer 2, hash field 9). -/
def twoStringVM : VM :=
  { blankVM with
    heap := [{ isMarked := false, next := 0, body := .string 1 (cstr "a") 1 },
             { isMarked := true, next := 1, body := .string 1 (cstr "b") 9 }],
    objects := 2 }

/-- The table after `tableSet` of the strings 1 and 2 of `twoStringVM` and
`tableDelete` of the string 1: a tombstone in slot 1, where both strings
hash to, and the string 2 in slot 2. -/
def tombstonePathTable : Table :=
  { count := 2, capacity := 8,
    entries := [{ key := 0, value := NIL_VAL }, { key := 0, value := BOOL_VAL true },
      { key := 2, value := NIL_VAL }] ++ List.replicate 5 { key := 0, value := NIL_VAL } }

/-- The table after `tableSet` of the strings 1 and 2 of `twoStringVM`. -/
def twoStringTable : Table :=
  { count := 2, capacity := 8,
    entries := [{ key := 0, value := NIL_VAL }, { key := 1, value := NIL_VAL },
      { key := 2, value := NIL_VAL }] ++ List.replicate 5 { key := 0, value := NIL_VAL } }

/-- A memory whose table `vm.strings` holds the strings 1 (not marked) and 2
(marked) of `twoStringVM`, the string 1 on the probe path of the string 2. -/
def removeWhiteMemory : Memory :=
  { vm := { twoStringVM with strings := twoStringTable },
    grayCapacity := 0, grayStack := [], bytesAllocated := 0, nextGC := 0,
    compilers := [], freed := [], collections := 0 }

/-- A sequence of `n` calls `makeConstant(NIL_VAL)`: the index that the
last call returns and the state reached. -/
def makeConstants : Nat → State → Option (Nat × State)
  | 0, st => some (0, st)
  | n + 1, st => (makeConstants n st).bind (fun p => makeConstant p.2 NIL_VAL)

/-- What `n` calls `makeConstant(NIL_VAL)` on the empty chunk of a script
show: the index that the last call returns, the number of constants of the
chunk and the messages of the compile errors. -/
def constantsReport (n : Nat) : Option (Nat × Nat × List (List Nat)) := do
  let vm ← initVM
  let st ← initCompiler (compileStart vm []) TYPE_SCRIPT
  let (index, st) ← makeConstants n st
  let chunk ← currentChunk st
  pure (index, chunk.constants.count, st.diagnostics.map (fun d => d.message))

/-- The state of the compiler at the start of a script, before the first
token is read. -/
def scriptState : Option State :=
  initVM.bind (fun vm => initCompiler (compileStart vm []) TYPE_SCRIPT)

/-- The state of the compiler of a script after `emitJump(OP_JUMP)` on the
empty chunk, with the offset returned. -/
def jumpState : Option (Nat × State) :=
  scriptState.bind (fun s => emitJump quietHost s OP_JUMP)

/-! ## The claim on the call frames, in the specification's words -/

/-- The VM that a turn of `run` leaves. -/
def Step.vm : Step → VM
  | .next _ vm => vm
  | .ret _ vm => vm

/-- Follows the spec's words: a VM state reachable from `initVM`, by the
steps that `interpret` is made of: `compile`, the pushes and pops and the
closure that prepare the call of the script, `call`, and the turns of
`run`. -/
inductive VM.Reached (h : Host) : VM → Prop where
  | init (vm : VM) : initVM = some vm → VM.Reached h vm
  | compile (vm : VM) (fuel : Nat) (source : List Nat) (function : Nat) (st : State) :
      VM.Reached h vm → compile h fuel vm source = some (function, st) → VM.Reached h st.vm
  | push (vm : VM) (v : Nat) : VM.Reached h vm → VM.Reached h (vm.push v)
  | pop (vm : VM) (v : Nat) (vm' : VM) : VM.Reached h vm → vm.pop = some (v, vm') →
      VM.Reached h vm'
  | newClosure (vm : VM) (function closure : Nat) (vm' : VM) : VM.Reached h vm →
      vm.newClosure function = some (closure, vm') → VM.Reached h vm'
  | call (vm : VM) (closure argCount : Nat) (ok : Bool) (vm' : VM) : VM.Reached h vm →
      vm.call closure argCount = some (ok, vm') → VM.Reached h vm'
  | step (vm : VM) (frame : Nat) (s : Step) : VM.Reached h vm → vm.step h frame = some s →
      VM.Reached h s.vm

/-- At most `FRAMES_MAX` frames are active, for a step that may have no
result. -/
structure BoundedO (o : Option VM) : Prop where
  le : ∀ vm, o = some vm → vm.frameCount ≤ FRAMES_MAX

/-- At most `FRAMES_MAX` frames are active, for a step that returns a value
with the VM. -/
structure BoundedP {α : Type} (o : Option (α × VM)) : Prop where
  le : ∀ a vm, o = some (a, vm) → vm.frameCount ≤ FRAMES_MAX

/-- At most `FRAMES_MAX` frames are active after a turn of `run`. -/
structure BoundedS (o : Option Step) : Prop where
  le : ∀ s, o = some s → s.vm.frameCount ≤ FRAMES_MAX

/-! ## The claim on the open upvalues, in the specification's words -/

/-- The upvalue objects from `p` up to `q` along the field `next`, each with
the pointer to it and the stack slot that it points at. -/
inductive VM.OpenSegment (vm : VM) : Nat → List (Nat × Nat) → Nat → Prop where
  | nil (q : Nat) : VM.OpenSegment vm q [] q
  | cons (p i closed following q : Nat) (rest : List (Nat × Nat)) : p ≠ 0 →
      vm.upvalueOf p = some (.slot i, closed, following) →
      VM.OpenSegment vm following rest q → VM.OpenSegment vm p ((p, i) :: rest) q

/-- Follows the spec's words: the list of open upvalues, from
`vm.openUpvalues` to `NULL`. -/
def VM.OpenList (vm : VM) (l : List (Nat × Nat)) : Prop :=
  VM.OpenSegment vm vm.openUpvalues l 0

/-- Follows the spec's words: strictly descending by stack location. -/
def Descending (l : List (Nat × Nat)) : Prop := l.Pairwise (fun a b => b.2 < a.2)

/-- The turns of a run, observed: the offset of the instruction that each
turn executes and the height of the stack before it. -/
def traceLoop (h : Host) : Nat → Nat → VM → List (Nat × Nat)
  | 0, _, _ => []
  | fuel + 1, frame, vm =>
    (((vm.frames.get? frame).map (fun f => f.ip)).getD 0, vm.stack.length) ::
      match vm.step h frame with
      | some (Step.next frame vm) => traceLoop h fuel frame vm
      | _ => []

/-- The call `interpret(source)` on a VM fresh from `initVM`, with the turns
of `run` observed by `traceLoop`. -/
def runTrace (h : Host) (fuel : Nat) (source : String) : Option (List (Nat × Nat)) := do
  let vm ← initVM
  let (function, st) ← compile h fuel vm (cstr source)
  let vm := st.vm
  if function == 0 then none
  else
    let vm := vm.push (OBJ_VAL function)
    let (closure, vm) ← vm.newClosure function
    let (_, vm) ← vm.pop
    let vm := vm.push (OBJ_VAL closure)
    let (_, vm) ← vm.call closure 0
    pure (traceLoop h fuel (vm.frameCount - 1) vm)

/-- The cells of `rle` that a call of `addLine` reads or writes, in the
order of the accesses, with the capacity of the array at the time of the
accesses (after the growth that the call may make). -/
def addLineCells (h : Host) (chunk : Chunk) (line : Nat) : Nat × List Nat :=
  let chunk :=
    if chunk.rleIndex + 2 > chunk.rleCapacity then
      let oldCapacity := chunk.rleCapacity
      { chunk with rleCapacity := GROW_CAPACITY oldCapacity,
                   rle := growBytes h chunk.rle oldCapacity (GROW_CAPACITY oldCapacity) }
    else chunk
  let i := chunk.rleIndex
  (chunk.rleCapacity,
    if chunk.rle.getD i 0 == 0 then [i, i, i + 1]
    else if chunk.rle.getD (i + 1) 0 == line then [i, i + 1, i, i]
    else [i, i + 1, i + 2, i + 3])

/-- The chunk after bytes on the lines 1, 2, 3 and 4, from `initChunk`. -/
def fourRuns : Option Chunk :=
  writeChunks quietHost [(OP_NIL, 1), (OP_NIL, 2), (OP_NIL, 3), (OP_NIL, 4)] initChunk

/-- A compiler whose locals are `a`, `b` and, declared last and not yet
initialised, `a` again. -/
def shadowCompiler : Compiler :=
  { function := 0, type := TYPE_SCRIPT, scopeDepth := 1, upvalues := [],
    locals := [{ name := syntheticToken "a", depth := 1, isCaptured := false },
               { name := syntheticToken "b", depth := 1, isCaptured := false },
               { name := syntheticToken "a", depth := -1, isCaptured := false }] }

/-- The names of the locals of the compiler at depth `j` of the chain. -/
def localNames (st : State) (j : Nat) : Option (List Token) :=
  (st.current.get? j).map (fun c => c.locals.map (fun l => l.name))

/-- The upvalue entries of the compiler at depth `j` of the chain: the count
`function->upvalueCount` and the cells `upvalues[0..upvalueCount)`. -/
def upvalueEntries (st : State) (j : Nat) : Option (Nat × List Upvalue) :=
  (st.current.get? j).bind (fun c =>
    (st.vm.upvalueCountOf c.function).map (fun n => (n, c.upvalues.take n)))

/-- The states reached from one in which the function of the compiler at
depth `k` has no upvalue by calls of `addUpvalue` on that compiler. -/
inductive UpvaluesReached (k : Nat) : State → Prop where
  | start (st : State) : upvalueEntries st k = some (0, []) → UpvaluesReached k st
  | add (st : State) (index : Nat) (isLocal : Bool) (i : Int) (st' : State) :
      UpvaluesReached k st → addUpvalue st k index isLocal = some (i, st') →
      UpvaluesReached k st'

/-- A compiler state whose current function has 256 upvalues, the locals 0
to 255 of the enclosing function. -/
def fullUpvaluesState : State :=
  { compileStart
      { blankVM with
        heap := [{ isMarked := false, next := 0, body := .function 0 initChunk 0 256 }],
        objects := 1 } [] with
    current := [{ function := 1, type := TYPE_FUNCTION, locals := [], scopeDepth := 1,
                  upvalues := (List.range 256).map (fun i => { index := i, isLocal := true }) }] }

/-- What `resolveUpvalue` reads of a compiler: its function, its upvalue
array and the names of its locals. -/
def compilerShape (c : Compiler) : Nat × List Upvalue × List Token :=
  (c.function, c.upvalues, c.locals.map (fun l => l.name))

/-- The state `t2` differs from `t` at most in the parser, the diagnostics
and the flags `isCaptured` and depths of locals. -/
def Quiet (t t2 : State) : Prop :=
  t2.vm = t.vm ∧ t2.current.map compilerShape = t.current.map compilerShape

/-- The states `s` and `t` have chains of the same length whose compilers
from depth `k` on have the same local names and the same upvalue entries. -/
def Agree (k : Nat) (s t : State) : Prop :=
  s.current.length = t.current.length ∧
    ∀ j, k ≤ j → localNames s j = localNames t j ∧ upvalueEntries s j = upvalueEntries t j

/-- The compilers of the chain have distinct functions, and the upvalue
array of each holds the `upvalueCount` cells of its function. -/
def GoodChain (st : State) : Prop :=
  (st.current.map (fun c => c.function)).Nodup ∧
    ∀ j n es, upvalueEntries st j = some (n, es) → es.length = n

/-- The assignment `compiler->enclosing->locals[local].isCaptured = true`
of `resolveUpvalue`, on the compiler `e` at depth `j`. -/
def captureLocal (st : State) (j : Nat) (e : Compiler) (loc : Nat) (l : Local) : State :=
  { st with current := st.current.set j { e with locals := e.locals.set loc { l with isCaptured := true } } }

/-- A chain of two compilers: a function being compiled, without upvalues,
inside a script whose local at index 1 is `a`. -/
def closureState : State :=
  { compileStart
      { blankVM with
        heap := [{ isMarked := false, next := 0, body := .function 0 initChunk 0 0 },
                 { isMarked := false, next := 1, body := .function 0 initChunk 0 0 }],
        objects := 2 } [] with
    current := [{ function := 2, type := TYPE_FUNCTION, scopeDepth := 1, upvalues := [],
                  locals := [{ name := syntheticToken "", depth := 0, isCaptured := false }] },
                { function := 1, type := TYPE_SCRIPT, scopeDepth := 1, upvalues := [],
                  locals := [{ name := syntheticToken "", depth := 0, isCaptured := false },
                             { name := syntheticToken "a", depth := 1, isCaptured := false }] }] }

/-- The read `*upvalue->location` of `OP_GET_UPVALUE`. -/
def VM.readUpvalue (vm : VM) (upvalue : Nat) : Option Nat :=
  match vm.upvalueOf upvalue with
  | some (.slot i, _, _) => vm.stack.get? i
  | some (.closed, closed, _) => some closed
  | none => none

/-- Captures of the slots 1 and 2 on a VM whose stack holds nil, true and
false. -/
def twoOpenVM : Option VM :=
  (({ blankVM with stack := [NIL_VAL, TRUE_VAL, FALSE_VAL] } : VM).captureUpvalue 1).bind
    fun r => (r.2.captureUpvalue 2).map fun r => r.2

/-- Follows the spec's words: a table reached from `initTable` by
`tableSet`, `tableDelete`, `tableAddAll` and `tableRemoveWhite`, with keys
that are not `NULL`; `tableRemoveWhite` runs on the table `vm.strings` of a
memory state whose objects carry the marks. -/
inductive Table.ReachedAll (hashOf : Nat → Nat) : Table → Prop where
  | init : Table.ReachedAll hashOf initTable
  | set (t t2 : Table) (k v : Nat) (b : Bool) : Table.ReachedAll hashOf t → k ≠ 0 →
      tableSet hashOf t k v = some (b, t2) → Table.ReachedAll hashOf t2
  | delete (t t2 : Table) (k : Nat) (b : Bool) : Table.ReachedAll hashOf t → k ≠ 0 →
      tableDelete hashOf t k = some (b, t2) → Table.ReachedAll hashOf t2
  | addAll (src dst t2 : Table) : Table.ReachedAll hashOf src → Table.ReachedAll hashOf dst →
      tableAddAll hashOf src dst = some t2 → Table.ReachedAll hashOf t2
  | removeWhite (m m2 : Memory) : Table.ReachedAll hashOf m.vm.strings →
      m.vm.hashOf = hashOf → m.tableRemoveWhite = some m2 →
      Table.ReachedAll hashOf m2.vm.strings

/-- The method table of the class `S` of `inheritVM`: the name 1 is bound to
the closure 3. -/
def inheritMethods : Table :=
  match tableSet (fun key => if key == 1 then 109 else 0) initTable 1 (OBJ_VAL 3) with
  | some (_, table) => table
  | none => initTable

/-- A VM in which `run` is about to execute `OP_INHERIT`: the heap holds the
string `m` (pointer 1), a function whose chunk holds the instruction
(pointer 2), a closure over it (pointer 3), the class `S` with the method
`m`, the closure 3 (pointer 4), and the class `C` without methods (pointer
5); the stack holds the closure, `S` and `C`. -/
def inheritVM : VM :=
  let (name, vm) := blankVM.allocateObject (.string 1 (cstr "m") 109)
  let chunk : Chunk := { initChunk with count := 1, capacity := 8, code := [OP_INHERIT] }
  let (function, vm) := vm.allocateObject (.function 0 chunk 0 0)
  let (closure, vm) := vm.allocateObject (.closure function [] 0)
  let (superclass, vm) := vm.allocateObject (.class name inheritMethods)
  let (subclass, vm) := vm.allocateObject (.class name initTable)
  let vm := ((vm.push (OBJ_VAL closure)).push (OBJ_VAL superclass)).push (OBJ_VAL subclass)
  { vm with frameCount := 1,
            frames := vm.frames.set 0 { closure := closure, ip := 0, slots := 0 } }

/-- The scanner `t` reads the source of `s`, from a position that is not
before that of `s` and not after the terminating NUL. -/
def Scanner.Advanced (s t : Scanner) : Prop :=
  t.source = s.source ∧ s.current ≤ t.current ∧ t.current ≤ s.source.length

/-- The scanner after `k` calls of `scanToken`. -/
def scanTokens : Nat → Scanner → Scanner
  | 0, s => s
  | k + 1, s => scanTokens k (s.scanToken).2

/-- What a call of `scanToken` from the scanner `s` that returns `r` has
done: the position has not moved back nor past the terminating NUL, it has
moved on unless the token is `TOKEN_EOF`, and a `TOKEN_EOF` has length 0
and leaves the scanner at the terminating NUL. -/
def Scanner.Progress (s : Scanner) (r : Token × Scanner) : Prop :=
  Scanner.Advanced s r.2 ∧ (r.1.type ≠ TOKEN_EOF → s.current < r.2.current) ∧
    (r.1.type = TOKEN_EOF → r.1.length = 0 ∧ r.2.isAtEnd = true)

/-- Follows the spec's words: the slow path of a method call.  With the
receiver on top of the stack, `OP_GET_PROPERTY` binds the method of the
class of the receiver with `bindMethod`, which pops the receiver and pushes
the bound method; the `argCount` arguments are pushed; `OP_CALL` calls the
value below the arguments with `callValue`.  The stack of `vm` holds the
receiver and, above it, the arguments. -/
def VM.invokeSlow (h : Host) (vm : VM) (name : Nat) (argCount : Nat) : Option (Bool × VM) := do
  let args := vm.stack.drop (vm.stackTop - argCount)
  let vm : VM := { vm with stack := vm.stack.take (vm.stackTop - argCount) }
  let receiver ← vm.peek 0
  let (klass, _) ← vm.instanceOf (AS_OBJ receiver)
  let (bound, vm) ← vm.bindMethod klass name
  if !bound then pure (false, vm)
  else
    let vm := args.foldl VM.push vm
    let callee ← vm.peek argCount
    vm.callValue h callee argCount

/-- A VM about to call the method `m` of an instance without arguments: the
heap holds the string `m` (pointer 1), a function (pointer 2), a closure
over it (pointer 3), the class `S` with the method `m`, the closure 3
(pointer 4), and an instance of `S` without fields (pointer 5); the stack
holds the closure and the instance. -/
def invokeVM : VM :=
  let (name, vm) := blankVM.allocateObject (.string 1 (cstr "m") 109)
  let (function, vm) := vm.allocateObject (.function 0 initChunk 0 0)
  let (closure, vm) := vm.allocateObject (.closure function [] 0)
  let (klass, vm) := vm.allocateObject (.class name inheritMethods)
  let (inst, vm) := vm.newInstance klass
  let vm := (vm.push (OBJ_VAL closure)).push (OBJ_VAL inst)
  { vm with frameCount := 1,
            frames := vm.frames.set 0 { closure := closure, ip := 0, slots := 0 } }

/-- The punctuation characters `( ) { } , . ; * / + -`. -/
def Scanner.punctuationChars : List Nat :=
  [ch '(', ch ')', ch '\x7b', ch '\x7d', ch ',', ch '.', ch ';', ch '*', ch '/', ch '+', ch '-']

/-- What holds of a token whose lexeme starts with the character `c`, for a
punctuation character `c`: the token has length 1 and the kind of the
character, except that a `+` followed by a `+` and a `-` followed by a `-`
are the first character of a token of length 2.  The character that follows
the first one in the source is `t.start[1]`. -/
def Scanner.Punctuation (t : Token) (c : Nat) : Prop :=
  (c = ch '(' → t.type = TOKEN_LEFT_PAREN ∧ t.length = 1) ∧
  (c = ch ')' → t.type = TOKEN_RIGHT_PAREN ∧ t.length = 1) ∧
  (c = ch '\x7b' → t.type = TOKEN_LEFT_BRACE ∧ t.length = 1) ∧
  (c = ch '\x7d' → t.type = TOKEN_RIGHT_BRACE ∧ t.length = 1) ∧
  (c = ch ',' → t.type = TOKEN_COMMA ∧ t.length = 1) ∧
  (c = ch '.' → t.type = TOKEN_DOT ∧ t.length = 1) ∧
  (c = ch ';' → t.type = TOKEN_SEMICOLON ∧ t.length = 1) ∧
  (c = ch '*' → t.type = TOKEN_STAR ∧ t.length = 1) ∧
  (c = ch '/' → t.type = TOKEN_SLASH ∧ t.length = 1) ∧
  (c = ch '+' →
    (t.type = TOKEN_PLUS ∧ t.length = 1 ∧ t.start.getD 1 0 ≠ ch '+') ∨
    (t.type = TOKEN_INCREASE ∧ t.length = 2 ∧ t.start.getD 1 0 = ch '+')) ∧
  (c = ch '-' →
    (t.type = TOKEN_MINUS ∧ t.length = 1 ∧ t.start.getD 1 0 ≠ ch '-') ∨
    (t.type = TOKEN_DECREASE ∧ t.length = 2 ∧ t.start.getD 1 0 = ch '-'))

/-- The rule `Punctuation` for the token of a result of `scanToken`, by the
first character of its lexeme. -/
def Scanner.PunctuationOk (r : Token × Scanner) : Prop :=
  ∀ c, r.1.lexeme.head? = some c → Scanner.Punctuation r.1 c

/-- The chunk of the function that `compile` returns for a source on a VM
fresh from `initVM`. -/
def scriptChunk (h : Host) (fuel : Nat) (source : String) : Option Chunk :=
  initVM.bind (fun vm => (compile h fuel vm (cstr source)).bind (fun p => p.2.vm.chunkOf p.1))

/-- Whether `compile` has a result for a source on a VM fresh from
`initVM`. -/
def compileReturns (h : Host) (fuel : Nat) (source : String) : Bool :=
  (initVM.bind (fun vm => compile h fuel vm (cstr source))).isSome

/-! ## The cases of `run` that allocate, with the collector

`VM.step` takes every allocation to return a fresh block and leaves out the
call of `collectGarbage` that `reallocate` can make.  The definitions below
are the cases `OP_ADD`, `OP_SET_GLOBAL` and `OP_INHERIT` on a `Memory`, where
`ALLOCATE` and `FREE_ARRAY` go through `reallocate` and a read or a write
through a pointer to an object that was freed has no defined result. -/

/-- A pointer `Table*` of the VM: `&vm.globals`, or `&klass->methods` for a
class object. -/
inductive TableRef where
  | globals
  | methods (klass : Nat)
  deriving DecidableEq, Repr

namespace Memory

/-- The record behind a `Table*`; none when it is a field of an object that
was freed. -/
def tableAt (m : Memory) : TableRef → Option Table
  | .globals => some m.vm.globals
  | .methods klass =>
    match m.obj klass with
    | some { body := .class _ methods, .. } => some methods
    | _ => none

/-- An assignment to the fields of the record behind a `Table*`. -/
def setTableAt (m : Memory) : TableRef → Table → Option Memory
  | .globals, table => some { m with vm := { m.vm with globals := table } }
  | .methods klass, table =>
    match m.obj klass with
    | some { body := .class name _, .. } =>
      some { m with vm := m.vm.store klass (.class name table) }
    | _ => none

/-- The read `key->hash`; none for a key that was freed. -/
def keyHash (m : Memory) (key : Nat) : Option Nat :=
  match m.obj key with
  | some { body := .string _ _ hash, .. } => some hash
  | _ => none

/-- The function `isObjType`, which reads the header of the object. -/
def isObjTypeAt (m : Memory) (value : Nat) (type : ObjType) : Option Bool :=
  if IS_OBJ value then (m.obj (AS_OBJ value)).map (fun o => o.type == type) else some false

/-- The function `adjustCapacity` on the table behind `table`:
`ALLOCATE(Entry, capacity)`, the loop that re-inserts the entries, which
reads `entry->key->hash` of every key, `FREE_ARRAY` of the old array, and the
assignments to `table->entries` and `table->capacity`. -/
def adjustCapacityAt (sz : Sizes) (fuel : Nat) (m : Memory) (table : TableRef)
    (capacity : Nat) : Option Memory := do
  let m ← reallocate sz fuel m 0 (sz.entry * capacity)
  let old ← m.tableAt table
  if (old.entries.take old.capacity).all (fun e => e.key == 0 || (m.keyHash e.key).isSome) then
    let (entries, count) ← adjustCapacityLoop m.vm.hashOf capacity
      (old.entries.take old.capacity)
      (List.replicate capacity { key := 0, value := NIL_VAL }) 0
    let m ← m.setTableAt table { old with count := count }
    let m ← reallocate sz fuel m (sz.entry * old.capacity) 0
    let old ← m.tableAt table
    m.setTableAt table { old with entries := entries, capacity := capacity }
  else none

/-- The function `tableSet` on the table behind `table`. -/
def tableSetAt (sz : Sizes) (fuel : Nat) (m : Memory) (table : TableRef) (key value : Nat) :
    Option (Bool × Memory) := do
  let t ← m.tableAt table
  let m ←
    if 4 * (t.count + 1) > 3 * t.capacity then
      m.adjustCapacityAt sz fuel table (GROW_CAPACITY t.capacity)
    else some m
  let t ← m.tableAt table
  let _ ← m.keyHash key
  let i ← findEntry m.vm.hashOf t.entries t.capacity key
  let entry := t.entries.getD i { key := 0, value := NIL_VAL }
  let isNewKey := entry.key == 0
  let count := if isNewKey && IS_NIL entry.value then t.count + 1 else t.count
  let m ← m.setTableAt table
    { t with count := count, entries := t.entries.set i { key := key, value := value } }
  pure (isNewKey, m)

/-- The function `tableDelete` on the table behind `table`. -/
def tableDeleteAt (m : Memory) (table : TableRef) (key : Nat) : Option (Bool × Memory) := do
  let t ← m.tableAt table
  if t.count == 0 then pure (false, m)
  else
    let _ ← m.keyHash key
    let (deleted, t) ← Clox.tableDelete m.vm.hashOf t key
    let m ← m.setTableAt table t
    pure (deleted, m)

/-- The loop of `tableAddAll(source, target)` over the indices below
`source->capacity`. -/
def tableAddAllLoopAt (sz : Sizes) (fuel : Nat) (source target : TableRef) :
    List Nat → Memory → Option Memory
  | [], m => some m
  | i :: rest, m => do
    let t ← m.tableAt source
    if i < t.capacity then
      let entry ← t.entries.get? i
      if entry.key != 0 then
        let (_, m) ← m.tableSetAt sz fuel target entry.key entry.value
        tableAddAllLoopAt sz fuel source target rest m
      else tableAddAllLoopAt sz fuel source target rest m
    else some m

/-- The function `tableAddAll(source, target)`. -/
def tableAddAllAt (sz : Sizes) (fuel : Nat) (m : Memory) (source target : TableRef) :
    Option Memory := do
  let t ← m.tableAt source
  tableAddAllLoopAt sz fuel source target (List.range t.capacity) m

/-- The function `runtimeError`, which reads the closure, the function and
the name of the function of every active frame. -/
def runtimeErrorAt (m : Memory) (message : String) : Option Memory :=
  if (m.vm.frames.take m.vm.frameCount).all (fun f =>
      match m.obj f.closure with
      | some { body := .closure function _ _, .. } =>
        (match m.obj function with
         | some { body := .function _ _ name _, .. } => name == 0 || (m.keyHash name).isSome
         | _ => false)
      | _ => false) then
    some { m with vm := m.vm.runtimeError message }
  else none

/-- The function `concatenate`: the lengths are read, `ALLOCATE(char,
length + 1)` is called, and only then `memcpy` reads `a->chars` and
`b->chars`.  `takeString` is `VM.takeString`, modelled from the spec. -/
def concatenate (sz : Sizes) (fuel : Nat) (m : Memory) : Option Memory := do
  let b := AS_OBJ (← m.vm.peek 0)
  let a := AS_OBJ (← m.vm.peek 1)
  match m.obj a, m.obj b with
  | some { body := .string alength _ _, .. }, some { body := .string blength _ _, .. } =>
    let length := alength + blength
    let m ← reallocate sz fuel m 0 (length + 1)
    match m.obj a, m.obj b with
    | some { body := .string _ achars _, .. }, some { body := .string _ bchars _, .. } =>
      let chars := achars.take alength ++ bchars.take blength
      let (result, vm) ← m.vm.takeString chars length
      let (_, vm) ← vm.pop
      let (_, vm) ← vm.pop
      pure { m with vm := vm.push (OBJ_VAL result) }
    | _, _ => none
  | _, _ => none

/-- The case `OP_ADD` of `run`; the result `none` of the pair stands for
`break`. -/
def opAdd (sz : Sizes) (fuel : Nat) (h : Host) (m : Memory) :
    Option (Option InterpretResult × Memory) := do
  let v0 ← m.vm.peek 0
  let v1 ← m.vm.peek 1
  let s0 ← m.isObjTypeAt v0 OBJ_STRING
  let s1 ← if s0 then m.isObjTypeAt v1 OBJ_STRING else some false
  if s0 && s1 then
    let m ← m.concatenate sz fuel
    pure (none, m)
  else if IS_NUMBER v0 && IS_NUMBER v1 then
    let (b, vm) ← m.vm.pop
    let (a, vm) ← vm.pop
    pure (none, { m with vm := vm.push (NUMBER_VAL (h.add (AS_NUMBER a) (AS_NUMBER b))) })
  else
    let m ← m.runtimeErrorAt "Operands must be two numbers or two strings."
    pure (some INTERPRET_RUNTIME_ERROR, m)

/-- The case `OP_SET_GLOBAL` of `run`. -/
def opSetGlobal (sz : Sizes) (fuel : Nat) (m : Memory) (frame : Nat) :
    Option (Option InterpretResult × Memory) := do
  let (name, vm) ← m.vm.readString frame
  let m := { m with vm := vm }
  let value ← m.vm.peek 0
  let (isNew, m) ← m.tableSetAt sz fuel .globals name value
  if isNew then
    let (_, m) ← m.tableDeleteAt .globals name
    let _ ← m.keyHash name
    let m ← m.runtimeErrorAt ("Undefined variable '" ++ m.vm.charsOf name ++ "'.")
    pure (some INTERPRET_RUNTIME_ERROR, m)
  else pure (none, m)

/-- The case `OP_INHERIT` of `run`. -/
def opInherit (sz : Sizes) (fuel : Nat) (m : Memory) :
    Option (Option InterpretResult × Memory) := do
  let superclass ← m.vm.peek 1
  let isClass ← m.isObjTypeAt superclass OBJ_CLASS
  if !isClass then
    let m ← m.runtimeErrorAt "Superclass must be a class."
    pure (some INTERPRET_RUNTIME_ERROR, m)
  else
    let subclass := AS_OBJ (← m.vm.peek 0)
    let m ← m.tableAddAllAt sz fuel (.methods (AS_OBJ superclass)) (.methods subclass)
    let (_, vm) ← m.vm.pop
    pure (none, { m with vm := vm })

end Memory

/-- The turns of `run`, counted: the frame and the VM after `k` turns that
go on. -/
def VM.turns (h : Host) : Nat → Nat → VM → Option (Nat × VM)
  | 0, frame, vm => some (frame, vm)
  | k + 1, frame, vm =>
    match vm.step h frame with
    | some (Step.next frame vm) => VM.turns h k frame vm
    | _ => none

/-- The call `interpret(source)` on a VM fresh from `initVM`, stopped in
turn `k + 1` of `run` after the instruction was read: the instruction, the
frame, and the `vm` as the collector sees it, with the given values of
`bytesAllocated` and `nextGC`. -/
def dispatchAt (h : Host) (fuel : Nat) (source : String) (k bytesAllocated nextGC : Nat) :
    Option (Nat × Nat × Memory) := do
  let vm ← initVM
  let (function, st) ← compile h fuel vm (cstr source)
  let vm := st.vm
  if function == 0 then none
  else
    let vm := vm.push (OBJ_VAL function)
    let (closure, vm) ← vm.newClosure function
    let (_, vm) ← vm.pop
    let vm := vm.push (OBJ_VAL closure)
    let (_, vm) ← vm.call closure 0
    let (frame, vm) ← VM.turns h k (vm.frameCount - 1) vm
    let (instruction, vm) ← vm.readByte frame
    pure (instruction, frame,
      { vm := vm, grayCapacity := 0, grayStack := [], bytesAllocated := bytesAllocated,
        nextGC := nextGC, compilers := [], freed := [], collections := 0 })

/-- The characters of the string object at `p`; none for an object that was
freed. -/
def Memory.charsAt (m : Memory) (p : Nat) : Option (List Nat) :=
  match m.obj p with
  | some { body := .string length chars _, .. } => some (chars.take length)
  | _ => none

/-- The source `"g" + "h"; "aa" + "bb";` stopped at its second `OP_ADD`,
with `vm.nextGC` as `initVM` sets it. -/
def addDispatch (bytesAllocated : Nat) : Option (Nat × Nat × Memory) :=
  dispatchAt quietHost 100 "\"g\" + \"h\"; \"aa\" + \"bb\";" 6 bytesAllocated (1024 * 1024)

/-- The source `var a; var b; var c; var d; var e; "g" + "h"; f = nil;`
stopped at its `OP_SET_GLOBAL`, with `vm.nextGC` as `initVM` sets it. -/
def setGlobalDispatch (bytesAllocated : Nat) : Option (Nat × Nat × Memory) :=
  dispatchAt quietHost 100 "var a; var b; var c; var d; var e; \"g\" + \"h\"; f = nil;" 15
    bytesAllocated (1024 * 1024)

/-- The source `class S { m() {} } "g" + "h"; class C < S {}` stopped at its
`OP_INHERIT`, with `vm.nextGC` as `initVM` sets it. -/
def inheritDispatch (bytesAllocated : Nat) : Option (Nat × Nat × Memory) :=
  dispatchAt quietHost 100
    "class S \x7b m() \x7b\x7d \x7d \"g\" + \"h\"; class C < S \x7b\x7d" 14
    bytesAllocated (1024 * 1024)

/-! ## What compiling leaves alone -/

/-- The function pointers of the compilers in the chain `current`, the
innermost first. -/
def State.chain (st : State) : List Nat := st.current.map (fun c => c.function)

/-- The parts of the VM that compiling does not touch: the stack, the call
frames, what was printed and what was reported at run time. -/
def VM.base (vm : VM) : List Nat × List CallFrame × Nat × List Nat × List RuntimeReport :=
  (vm.stack, vm.frames, vm.frameCount, vm.out, vm.err)

/-- The flag `parser.hadError` is set exactly when a diagnostic was
written. -/
def State.errorsAgree (st : State) : Prop :=
  st.parser.hadError = true ↔ st.diagnostics ≠ []

/-- The relation between the state `st0` in which a piece of the compiler
starts and a later state `st`: the chain of compilers is the one of `st0`
with the compilers `k` opened since on top, the VM stack and frames are
those of `st0`, and the error flag still agrees with the diagnostics if it
did. -/
structure Kept (k : List Nat) (st0 st : State) : Prop where
  chain : st.chain = k ++ st0.chain
  base : st.vm.base = st0.vm.base
  errors : st0.errorsAgree → st.errorsAgree

/-- The relation `Kept` for a step that may have no result. -/
structure KeptO (k : List Nat) (st0 : State) (o : Option State) : Prop where
  kept : ∀ s, o = some s → Kept k st0 s

/-- The relation `Kept` for a step that returns a value with the state. -/
structure KeptP {α : Type} (k : List Nat) (st0 : State) (o : Option (α × State)) : Prop where
  kept : ∀ a s, o = some (a, s) → Kept k st0 s

/-- The functions of the recursive descent, run with `fuel`, keep the relation
`Kept`: one field for each function of the mutual recursion. -/
structure DescentKept (h : Host) (fuel : Nat) : Prop where
  parsePrecedence : ∀ (k : List Nat) (st0 s : State) (p : Precedence), Kept k st0 s →
    KeptO k st0 (parsePrecedence h fuel s p)
  parsePrecedenceLoop : ∀ (k : List Nat) (st0 s : State) (p : Precedence) (b : Bool), Kept k st0 s →
    KeptO k st0 (parsePrecedenceLoop h fuel s p b)
  parseFn : ∀ (k : List Nat) (st0 s : State) (fn : ParseFn) (b : Bool), Kept k st0 s →
    KeptO k st0 (parseFn h fuel s fn b)
  expression : ∀ (k : List Nat) (st0 s : State), Kept k st0 s →
    KeptO k st0 (expression h fuel s)
  grouping : ∀ (k : List Nat) (st0 s : State) (b : Bool), Kept k st0 s →
    KeptO k st0 (grouping h fuel s b)
  unary : ∀ (k : List Nat) (st0 s : State) (b : Bool), Kept k st0 s →
    KeptO k st0 (unary h fuel s b)
  binary : ∀ (k : List Nat) (st0 s : State) (b : Bool), Kept k st0 s →
    KeptO k st0 (binary h fuel s b)
  namedVariableEmit : ∀ (k : List Nat) (st0 s : State) (getOp : Nat) (setOp : Nat) (arg : Int) (b : Bool), Kept k st0 s →
    KeptO k st0 (namedVariableEmit h fuel s getOp setOp arg b)
  namedVariable : ∀ (k : List Nat) (st0 s : State) (name : Token) (b : Bool), Kept k st0 s →
    KeptO k st0 (namedVariable h fuel s name b)
  variable_ : ∀ (k : List Nat) (st0 s : State) (b : Bool), Kept k st0 s →
    KeptO k st0 (variable_ h fuel s b)
  and_ : ∀ (k : List Nat) (st0 s : State) (b : Bool), Kept k st0 s →
    KeptO k st0 (and_ h fuel s b)
  or_ : ∀ (k : List Nat) (st0 s : State) (b : Bool), Kept k st0 s →
    KeptO k st0 (or_ h fuel s b)
  argumentListLoop : ∀ (k : List Nat) (st0 s : State) (argCount : Nat), Kept k st0 s →
    KeptP k st0 (argumentListLoop h fuel s argCount)
  argumentList : ∀ (k : List Nat) (st0 s : State), Kept k st0 s →
    KeptP k st0 (argumentList h fuel s)
  dot : ∀ (k : List Nat) (st0 s : State) (b : Bool), Kept k st0 s →
    KeptO k st0 (dot h fuel s b)
  this_ : ∀ (k : List Nat) (st0 s : State) (b : Bool), Kept k st0 s →
    KeptO k st0 (this_ h fuel s b)
  super_ : ∀ (k : List Nat) (st0 s : State) (b : Bool), Kept k st0 s →
    KeptO k st0 (super_ h fuel s b)
  call : ∀ (k : List Nat) (st0 s : State) (b : Bool), Kept k st0 s →
    KeptO k st0 (call h fuel s b)
  declaration : ∀ (k : List Nat) (st0 s : State), Kept k st0 s →
    KeptO k st0 (declaration h fuel s)
  varDeclaration : ∀ (k : List Nat) (st0 s : State), Kept k st0 s →
    KeptO k st0 (varDeclaration h fuel s)
  parameters : ∀ (k : List Nat) (st0 s : State), Kept k st0 s →
    KeptO k st0 (parameters h fuel s)
  function : ∀ (k : List Nat) (st0 s : State) (type : FunctionType), Kept k st0 s →
    KeptO k st0 (function h fuel s type)
  funDeclaration : ∀ (k : List Nat) (st0 s : State), Kept k st0 s →
    KeptO k st0 (funDeclaration h fuel s)
  method : ∀ (k : List Nat) (st0 s : State), Kept k st0 s →
    KeptO k st0 (method h fuel s)
  methods : ∀ (k : List Nat) (st0 s : State), Kept k st0 s →
    KeptO k st0 (methods h fuel s)
  classDeclaration : ∀ (k : List Nat) (st0 s : State), Kept k st0 s →
    KeptO k st0 (classDeclaration h fuel s)
  statement : ∀ (k : List Nat) (st0 s : State), Kept k st0 s →
    KeptO k st0 (statement h fuel s)
  printStatement : ∀ (k : List Nat) (st0 s : State), Kept k st0 s →
    KeptO k st0 (printStatement h fuel s)
  expressionStatement : ∀ (k : List Nat) (st0 s : State), Kept k st0 s →
    KeptO k st0 (expressionStatement h fuel s)
  blockLoop : ∀ (k : List Nat) (st0 s : State), Kept k st0 s →
    KeptO k st0 (blockLoop h fuel s)
  block : ∀ (k : List Nat) (st0 s : State), Kept k st0 s →
    KeptO k st0 (block h fuel s)
  ifStatement : ∀ (k : List Nat) (st0 s : State), Kept k st0 s →
    KeptO k st0 (ifStatement h fuel s)
  whileStatement : ∀ (k : List Nat) (st0 s : State), Kept k st0 s →
    KeptO k st0 (whileStatement h fuel s)
  forStatement : ∀ (k : List Nat) (st0 s : State), Kept k st0 s →
    KeptO k st0 (forStatement h fuel s)
  returnStatement : ∀ (k : List Nat) (st0 s : State), Kept k st0 s →
    KeptO k st0 (returnStatement h fuel s)

/-! # Theorems -/

open Step

set_option linter.unusedTactic false
set_option linter.unreachableTactic false

/-! ## Lemmas on the NaN-boxed encoding -/

theorem lor_one (v : Nat) : v ||| 1 = 2 * (v / 2) + 1 := by
  apply Nat.eq_of_testBit_eq
  intro i
  rw [Nat.testBit_or]
  have h2 : (2 * (v / 2) + 1) = 2 ^ 1 * (v / 2) + 1 := by ring
  rw [h2, Nat.testBit_mul_pow_two_add _ (by norm_num : 1 < 2 ^ 1)]
  cases i with
  | zero => simp
  | succ n => simp [Nat.testBit_succ]

theorem TRUE_VAL_eq : TRUE_VAL = 9222246136947933187 := by decide
theorem FALSE_VAL_eq : FALSE_VAL = 9222246136947933186 := by decide
theorem NIL_VAL_eq : NIL_VAL = 9222246136947933185 := by decide

theorem isBool_iff (v : Nat) : IS_BOOL v = true ↔ (v = TRUE_VAL ∨ v = FALSE_VAL) := by
  unfold IS_BOOL
  rw [beq_iff_eq, lor_one, TRUE_VAL_eq, FALSE_VAL_eq]
  constructor
  · intro h; omega
  · intro h; omega

theorem isFalsey_iff (v : Nat) : isFalsey v = true ↔ (v = NIL_VAL ∨ v = FALSE_VAL) := by
  unfold isFalsey
  rw [Bool.or_eq_true, Bool.and_eq_true, isBool_iff]
  unfold IS_NIL AS_BOOL
  simp only [beq_iff_eq, Bool.not_eq_true', beq_eq_false_iff_ne, ne_eq]
  rw [TRUE_VAL_eq, FALSE_VAL_eq, NIL_VAL_eq]
  constructor
  · intro h; omega
  · intro h; omega

/-- A mask of `k` ones shifted by `s` selects a field of the word. -/
theorem land_field (v s k : Nat) :
    v &&& (2 ^ s * (2 ^ k - 1)) = 2 ^ s * ((v / 2 ^ s) % 2 ^ k) := by
  apply Nat.eq_of_testBit_eq
  intro i
  rw [Nat.testBit_and, Nat.testBit_mul_pow_two, Nat.testBit_mul_pow_two,
    Nat.testBit_two_pow_sub_one, Nat.testBit_mod_two_pow, ← Nat.shiftRight_eq_div_pow,
    Nat.testBit_shiftRight]
  by_cases h : i ≥ s
  · have : s + (i - s) = i := by omega
    simp [h, this, Bool.and_comm]
  · simp [h]

theorem QNAN_eq : QNAN = 2 ^ 50 * (2 ^ 13 - 1) := by decide
theorem OBJ_TAG_eq : QNAN ||| SIGN_BIT = 2 ^ 50 * (2 ^ 14 - 1) := by decide

theorem isNumber_iff (v : Nat) : IS_NUMBER v = true ↔ (v / 2 ^ 50) % 2 ^ 13 ≠ 2 ^ 13 - 1 := by
  unfold IS_NUMBER
  rw [bne_iff_ne, QNAN_eq, land_field]
  constructor
  · intro h h2; apply h; rw [h2]
  · intro h h2; apply h; omega

theorem isNumber_false_iff (v : Nat) :
    IS_NUMBER v = false ↔ (v / 2 ^ 50) % 2 ^ 13 = 2 ^ 13 - 1 := by
  rw [← Bool.not_eq_true, isNumber_iff, not_not]

theorem isObj_iff (v : Nat) : IS_OBJ v = true ↔ (v / 2 ^ 50) % 2 ^ 14 = 2 ^ 14 - 1 := by
  unfold IS_OBJ
  rw [beq_iff_eq, OBJ_TAG_eq, land_field]
  constructor
  · intro h; omega
  · intro h; rw [h]

theorem OBJ_VAL_eq (p : Nat) (hp : p < 2 ^ 50) : OBJ_VAL p = 2 ^ 50 * (2 ^ 14 - 1) + p := by
  unfold OBJ_VAL
  have h1 : SIGN_BIT ||| QNAN = 2 ^ 50 * (2 ^ 14 - 1) := by decide
  rw [h1, ← Nat.mul_add_lt_is_or hp]
  omega

theorem AS_OBJ_eq (v : Nat) : AS_OBJ v = v % 2 ^ 50 := by
  unfold AS_OBJ
  have : PTR_MASK = 2 ^ 50 - 1 := by decide
  rw [this, Nat.and_pow_two_sub_one_eq_mod]

/-- An object reference is not a number. -/
theorem isNumber_of_isObj (v : Nat) (h : IS_OBJ v = true) : IS_NUMBER v = false := by
  rw [isObj_iff] at h
  rw [isNumber_false_iff]
  omega

theorem isNumber_OBJ_VAL (p : Nat) (hp : p < 2 ^ 50) : IS_NUMBER (OBJ_VAL p) = false := by
  rw [isNumber_false_iff, OBJ_VAL_eq p hp]
  omega

theorem beq_false_of_isNumber (a b : Nat) (ha : IS_NUMBER a = true) (hb : IS_NUMBER b = false) :
    (a == b) = false := by
  rw [beq_eq_false_iff_ne]
  intro h
  rw [h, hb] at ha
  exact Bool.noConfusion ha

/-- The function `valuesEqual` on two values, one of which is not a number. -/
theorem valuesEqual_of_not_number (a b : Nat) (h : IS_NUMBER a = false ∨ IS_NUMBER b = false) :
    valuesEqual a b = (a == b) := by
  unfold valuesEqual
  rcases h with h | h <;> simp [h]

/-! ## C7, C8: equality and falsiness -/

/-- C7, counterexample: the double with the bits `0x7ffc000000000001` is a
NaN, `NUMBER_VAL` of it is the word `NIL_VAL`, so `valuesEqual` finds this
number equal to nil and equal to itself, against the rule of the spec. -/
theorem valuesEqual_reserved_nan :
    dblIsNaN 0x7ffc000000000001 = true ∧
    valuesEqual (Built.number 0x7ffc000000000001).value Built.nil.value = true ∧
    specEqual (Built.number 0x7ffc000000000001) Built.nil = false ∧
    valuesEqual (Built.number 0x7ffc000000000001).value (Built.number 0x7ffc000000000001).value
      = true ∧
    specEqual (Built.number 0x7ffc000000000001) (Built.number 0x7ffc000000000001) = false := by
  decide

/-- C7, amended: for values built by `NIL_VAL`, `BOOL_VAL`, `NUMBER_VAL` of
a double whose bits 50 to 62 are not all set, or `OBJ_VAL` of a pointer that
fits in 50 bits, `valuesEqual` is true exactly when both are nil, both are
the same boolean, both are numerically equal numbers or both are the same
pointer; in particular a NaN among these numbers differs from itself, `+0`
equals `-0`, and values of different kinds are never equal. -/
theorem valuesEqual_spec (x y : Built) (hx : x.plain = true) (hy : y.plain = true) :
    valuesEqual x.value y.value = specEqual x y ∧
    (∀ d, dblIsNaN d = true → specEqual (.number d) (.number d) = false) ∧
    specEqual (.number 0) (.number SIGN_BIT) = true := by
  refine ⟨?_, ?_, by decide⟩
  · cases x with
    | nil =>
      cases y with
      | nil => decide
      | bool b => cases b <;> decide
      | number d =>
        simp only [Built.plain, Bool.and_eq_true, decide_eq_true_eq] at hy
        rw [valuesEqual_of_not_number _ _ (Or.inl (by decide))]
        simp only [Built.value, specEqual]
        have := beq_false_of_isNumber _ NIL_VAL hy.2 (by decide)
        rw [Bool.beq_comm]; exact this
      | obj p =>
        simp only [Built.plain, decide_eq_true_eq] at hy
        rw [valuesEqual_of_not_number _ _ (Or.inl (by decide))]
        simp only [Built.value, specEqual, beq_eq_false_iff_ne, ne_eq]
        rw [OBJ_VAL_eq p hy, NIL_VAL_eq]
        omega
    | bool a =>
      cases y with
      | nil => cases a <;> decide
      | bool b => cases a <;> cases b <;> decide
      | number d =>
        simp only [Built.plain, Bool.and_eq_true, decide_eq_true_eq] at hy
        rw [valuesEqual_of_not_number _ _ (Or.inl (by cases a <;> decide))]
        simp only [Built.value, specEqual]
        have := beq_false_of_isNumber _ (BOOL_VAL a) hy.2 (by cases a <;> decide)
        rw [Bool.beq_comm]; exact this
      | obj p =>
        simp only [Built.plain, decide_eq_true_eq] at hy
        rw [valuesEqual_of_not_number _ _ (Or.inl (by cases a <;> decide))]
        simp only [Built.value, specEqual, beq_eq_false_iff_ne, ne_eq]
        rw [OBJ_VAL_eq p hy]
        cases a
        · rw [show BOOL_VAL false = FALSE_VAL from rfl, FALSE_VAL_eq]; omega
        · rw [show BOOL_VAL true = TRUE_VAL from rfl, TRUE_VAL_eq]; omega
    | number c =>
      simp only [Built.plain, Bool.and_eq_true, decide_eq_true_eq] at hx
      cases y with
      | nil =>
        rw [valuesEqual_of_not_number _ _ (Or.inr (by decide))]
        exact beq_false_of_isNumber _ NIL_VAL hx.2 (by decide)
      | bool b =>
        rw [valuesEqual_of_not_number _ _ (Or.inr (by cases b <;> decide))]
        exact beq_false_of_isNumber _ (BOOL_VAL b) hx.2 (by cases b <;> decide)
      | number d =>
        simp only [Built.plain, Bool.and_eq_true, decide_eq_true_eq] at hy
        simp only [Built.value, specEqual, valuesEqual, hx.2, hy.2, Bool.and_self, if_true]
        rfl
      | obj p =>
        simp only [Built.plain, decide_eq_true_eq] at hy
        simp only [Built.value, specEqual]
        rw [valuesEqual_of_not_number _ _ (Or.inr (isNumber_OBJ_VAL p hy))]
        exact beq_false_of_isNumber _ (OBJ_VAL p) hx.2 (isNumber_OBJ_VAL p hy)
    | obj p =>
      simp only [Built.plain, decide_eq_true_eq] at hx
      have hv : ∀ b, valuesEqual (Built.obj p).value b = ((Built.obj p).value == b) :=
        fun b => valuesEqual_of_not_number _ _ (Or.inl (isNumber_OBJ_VAL p hx))
      rw [hv]
      cases y with
      | nil =>
        simp only [Built.value, specEqual, beq_eq_false_iff_ne, ne_eq]
        rw [OBJ_VAL_eq p hx, NIL_VAL_eq]
        omega
      | bool b =>
        simp only [Built.value, specEqual, beq_eq_false_iff_ne, ne_eq]
        rw [OBJ_VAL_eq p hx]
        cases b
        · rw [show BOOL_VAL false = FALSE_VAL from rfl, FALSE_VAL_eq]; omega
        · rw [show BOOL_VAL true = TRUE_VAL from rfl, TRUE_VAL_eq]; omega
      | number d =>
        simp only [Built.plain, Bool.and_eq_true, decide_eq_true_eq] at hy
        simp only [Built.value, specEqual]
        have := beq_false_of_isNumber _ (OBJ_VAL p) hy.2 (isNumber_OBJ_VAL p hx)
        rw [Bool.beq_comm]; exact this
      | obj q =>
        simp only [Built.plain, decide_eq_true_eq] at hy
        simp only [Built.value, specEqual]
        rw [OBJ_VAL_eq p hx, OBJ_VAL_eq q hy]
        by_cases hpq : p = q
        · subst hpq; simp
        · have h1 : (p == q) = false := by rw [beq_eq_false_iff_ne]; exact hpq
          rw [h1, beq_eq_false_iff_ne]
          omega
  · intro d hd
    simp [specEqual, dblEq, hd]

/-- C7, witness: the amended statement at the canonical quiet NaN
`0x7ff8000000000000`, which is plain and differs from itself. -/
theorem valuesEqual_spec_witness :
    (Built.number 0x7ff8000000000000).plain = true ∧
    valuesEqual (Built.number 0x7ff8000000000000).value (Built.number 0x7ff8000000000000).value
      = specEqual (Built.number 0x7ff8000000000000) (Built.number 0x7ff8000000000000) :=
  ⟨by decide, (valuesEqual_spec (.number 0x7ff8000000000000) (.number 0x7ff8000000000000)
    (by decide) (by decide)).1⟩

/-- C8: `isFalsey(v)` holds exactly for nil and for the boolean false; it is
false for true, for every number (zero and the NaNs among them) and for
every object reference. -/
theorem isFalsey_spec (v : Nat) :
    isFalsey v = (v == NIL_VAL || v == BOOL_VAL false) ∧
    isFalsey (BOOL_VAL true) = false ∧
    (IS_NUMBER v && isFalsey v) = false ∧
    (IS_OBJ v && isFalsey v) = false ∧
    isFalsey (NUMBER_VAL 0) = false ∧
    isFalsey (NUMBER_VAL 0x7ff8000000000000) = false := by
  have key : isFalsey v = (v == NIL_VAL || v == BOOL_VAL false) := by
    rw [Bool.eq_iff_iff, isFalsey_iff]
    simp [BOOL_VAL]
  refine ⟨key, by decide, ?_, ?_, by decide, by decide⟩
  · cases hn : IS_NUMBER v
    · rfl
    · cases hf : isFalsey v
      · rfl
      · exfalso
        rcases (isFalsey_iff v).1 hf with h | h <;> rw [h] at hn <;> revert hn <;> decide
  · cases ho : IS_OBJ v
    · rfl
    · cases hf : isFalsey v
      · rfl
      · exfalso
        rcases (isFalsey_iff v).1 hf with h | h <;> rw [h] at ho <;> revert ho <;> decide

/-! ## C1: the stack after `interpret` -/

/-- C1, at the failing input `for (var i; false;) {}`: `initVM` leaves the
stack and the open-upvalue list empty, `interpret` returns `INTERPRET_OK`,
and one value is left on the VM stack (the local `i` of the initialiser is
never popped, so the final `pop()` of `OP_RETURN` removes it instead of the
script closure). -/
theorem interpret_for_leaves_value :
    initVM.map (fun vm => (vm.stackTop, vm.openUpvalues)) = some (0, 0) ∧
    (bootAndInterpret quietHost 100 "for (var i; false;) \x7b\x7d").map
      (fun r => (r.1, r.2.stackTop, r.2.openUpvalues)) = some (INTERPRET_OK, 1, 0) ∧
    bootAndCompile quietHost 100 "for (var i; false;) \x7b\x7d" =
      some ([OP_NIL, OP_FALSE, OP_JUMP_IF_FALSE, 0, 4, OP_POP, OP_LOOP, 0, 8, OP_POP,
             OP_NIL, OP_RETURN], false) := by
  decide!

/-- A block with the same local and no `for` statement, `{ var i; }`, leaves
the stack empty: the value left above is the local of the initialiser of
the `for` statement. -/
theorem interpret_block_leaves_nothing :
    (bootAndInterpret quietHost 100 "\x7b var i; \x7d").map
      (fun r => (r.1, r.2.stackTop, r.2.openUpvalues)) = some (INTERPRET_OK, 0, 0) := by
  decide!

/-! ## Lemmas on the stack and on the table of strings -/

theorem peek_top (vm : VM) (rest : List Nat) (a b : Nat) (hs : vm.stack = rest ++ [a, b]) :
    vm.peek 0 = some b ∧ vm.peek 1 = some a := by
  unfold VM.peek VM.stackTop
  rw [hs]
  simp only [List.length_append, List.length_cons, List.length_nil]
  constructor
  · rw [if_pos (by omega)]
    rw [show rest.length + (0 + 1 + 1) - 1 - 0 = rest.length + 1 by omega]
    rw [List.get?_eq_getElem?, List.getElem?_append_right (by omega)]
    simp
  · rw [if_pos (by omega)]
    rw [show rest.length + (0 + 1 + 1) - 1 - 1 = rest.length by omega]
    rw [List.get?_eq_getElem?, List.getElem?_append_right (by omega)]
    simp

theorem pop_snoc (vm : VM) (rest : List Nat) (b : Nat) (hs : vm.stack = rest ++ [b]) :
    vm.pop = some (b, { vm with stack := rest }) := by
  unfold VM.pop
  rw [hs]
  simp

theorem pop_push (vm : VM) (v : Nat) :
    ∃ vm', (vm.push v).pop = some (v, vm') ∧ vm'.stack = vm.stack ∧ vm'.heap = vm.heap ∧
      vm'.strings = vm.strings := by
  refine ⟨_, pop_snoc (vm.push v) vm.stack v rfl, rfl, rfl, rfl⟩

/-- The loop of `tableFindString` returns `NULL` or a key that passes the
test on length, hash and bytes. -/
theorem tableFindStringLoop_key (keyIs : Nat → Bool) (table : Table) (fuel index k : Nat)
    (h : tableFindStringLoop keyIs table fuel index = some k) : k = 0 ∨ keyIs k = true := by
  induction fuel generalizing index with
  | zero => exact Option.noConfusion h
  | succ n ih =>
    unfold tableFindStringLoop at h
    simp only at h
    split at h
    · split at h
      · left; exact (Option.some.inj h).symm
      · exact ih _ h
    · split at h
      · rename_i hk
        right; rw [← Option.some.inj h]; exact hk
      · exact ih _ h

theorem tableFindString_key (keyIs : Nat → Bool) (table : Table) (hash k : Nat)
    (h : tableFindString keyIs table hash = some k) : k = 0 ∨ keyIs k = true := by
  unfold tableFindString at h
  split at h
  · left; exact (Option.some.inj h).symm
  · exact tableFindStringLoop_key _ _ _ _ _ h

/-- The string that `internString` returns has the bytes asked for, and
the VM stack is as before. -/
theorem internString_spec (vm : VM) (chars : List Nat) (r : Nat) (vm2 : VM)
    (h : vm.internString chars = some (r, vm2)) :
    vm2.stack = vm.stack ∧
    ∃ o hash, vm2.deref r = some o ∧ o.body = .string chars.length chars hash := by
  unfold VM.internString at h
  simp only at h
  split at h
  · exact Option.noConfusion h
  · rename_i interned hfind
    split at h
    · rename_i hne
      simp only [Option.some.injEq, Prod.mk.injEq] at h
      obtain ⟨h1, h2⟩ := h
      subst h1; subst h2
      refine ⟨rfl, ?_⟩
      rcases tableFindString_key _ _ _ _ hfind with h0 | hk
      · simp [h0] at hne
      · unfold VM.keyIs at hk
        split at hk
        · rename_i o isMarked nxt length cs hh hd
          simp only [Bool.and_eq_true, beq_iff_eq] at hk
          obtain ⟨⟨hl, _⟩, hcs⟩ := hk
          refine ⟨_, hh, hd, ?_⟩
          rw [hl, hcs]
        · exact Bool.noConfusion hk
    · split at h
      · exact Option.noConfusion h
      · rename_i isNew strings hset
        split at h
        · exact Option.noConfusion h
        · rename_i v vm3 hpop
          simp only [Option.some.injEq, Prod.mk.injEq] at h
          obtain ⟨h1, h2⟩ := h
          subst h1; subst h2
          have hp := pop_snoc
            ({ (vm.allocateObject (.string chars.length chars (VM.hashString chars))).2.push
                (OBJ_VAL (vm.allocateObject (.string chars.length chars (VM.hashString chars))).1)
                with strings := strings } : VM)
            vm.stack _ rfl
          rw [hp] at hpop
          simp only [Option.some.injEq, Prod.mk.injEq] at hpop
          obtain ⟨_, h3⟩ := hpop
          subst h3
          refine ⟨rfl, ⟨⟨false, vm.objects, .string chars.length chars (VM.hashString chars)⟩,
            VM.hashString chars, ?_, rfl⟩⟩
          simp [VM.deref, VM.allocateObject, VM.push]

/-! ## What `compile` returns, when it returns

Every function of the compiler keeps the chain of compilers, the VM stack
and frames, and the agreement between `parser.hadError` and the diagnostics
written. -/

theorem Kept.refl (st : State) : Kept [] st st :=
  ⟨rfl, rfl, id⟩

/-- A state that differs from a kept one in fields that do not matter. -/
theorem Kept.step {k : List Nat} {st0 s s' : State} (hk : Kept k st0 s)
    (hc : s'.chain = s.chain) (hb : s'.vm.base = s.vm.base)
    (hp : s'.parser.hadError = s.parser.hadError) (hd : s'.diagnostics = s.diagnostics) :
    Kept k st0 s' :=
  ⟨hc.trans hk.chain, hb.trans hk.base, fun h0 => by
    have := hk.errors h0
    unfold State.errorsAgree at this ⊢
    rw [hp, hd]; exact this⟩

theorem keptO_none {k : List Nat} {st0 : State} : KeptO k st0 none :=
  ⟨fun _ h => Option.noConfusion h⟩

theorem keptO_some {k : List Nat} {st0 s : State} (hk : Kept k st0 s) :
    KeptO k st0 (Option.some s) :=
  ⟨fun _ h => Option.some.inj h ▸ hk⟩

theorem keptO_pure {k : List Nat} {st0 s : State} (hk : Kept k st0 s) :
    KeptO k st0 (Pure.pure s) :=
  keptO_some hk

theorem keptP_none {α : Type} {k : List Nat} {st0 : State} :
    KeptP k st0 (Option.none : Option (α × State)) :=
  ⟨fun _ _ h => Option.noConfusion h⟩

theorem keptP_some {α : Type} {k : List Nat} {st0 s : State} {a : α} (hk : Kept k st0 s) :
    KeptP k st0 (Option.some (a, s)) :=
  ⟨fun _ _ h => by
    have := Option.some.inj h
    rw [Prod.mk.injEq] at this
    exact this.2 ▸ hk⟩

theorem keptP_pure {α : Type} {k : List Nat} {st0 s : State} {a : α} (hk : Kept k st0 s) :
    KeptP k st0 (Pure.pure (a, s)) :=
  keptP_some hk

/-- A step on a state, then the rest. -/
theorem keptO_bind {k k1 : List Nat} {st0 : State} {x : Option State}
    {f : State → Option State} (hx : KeptO k1 st0 x)
    (hf : ∀ s, Kept k1 st0 s → KeptO k st0 (f s)) : KeptO k st0 (x >>= f) := by
  constructor
  intro s' h
  cases x with
  | none => exact Option.noConfusion h
  | some s => exact (hf s (hx.kept s rfl)).kept s' h

theorem keptO_bindP {α : Type} {k k1 : List Nat} {st0 : State} {x : Option (α × State)}
    {f : α × State → Option State} (hx : KeptP k1 st0 x)
    (hf : ∀ a s, Kept k1 st0 s → KeptO k st0 (f (a, s))) : KeptO k st0 (x >>= f) := by
  constructor
  intro s' h
  cases x with
  | none => exact Option.noConfusion h
  | some p => exact (hf p.1 p.2 (hx.kept p.1 p.2 rfl)).kept s' h

theorem keptP_bind {β : Type} {k k1 : List Nat} {st0 : State} {x : Option State}
    {f : State → Option (β × State)} (hx : KeptO k1 st0 x)
    (hf : ∀ s, Kept k1 st0 s → KeptP k st0 (f s)) : KeptP k st0 (x >>= f) := by
  constructor
  intro b s' h
  cases x with
  | none => exact Option.noConfusion h
  | some s => exact (hf s (hx.kept s rfl)).kept b s' h

theorem keptP_bindP {α β : Type} {k k1 : List Nat} {st0 : State} {x : Option (α × State)}
    {f : α × State → Option (β × State)} (hx : KeptP k1 st0 x)
    (hf : ∀ a s, Kept k1 st0 s → KeptP k st0 (f (a, s))) : KeptP k st0 (x >>= f) := by
  constructor
  intro b s' h
  cases x with
  | none => exact Option.noConfusion h
  | some p => exact (hf p.1 p.2 (hx.kept p.1 p.2 rfl)).kept b s' h

/-- A step that reads a value and no state, then the rest. -/
theorem keptO_bindV {α : Type} {k : List Nat} {st0 : State} {x : Option α}
    {f : α → Option State} (hf : ∀ a, x = Option.some a → KeptO k st0 (f a)) :
    KeptO k st0 (x >>= f) := by
  constructor
  intro s' h
  cases x with
  | none => exact Option.noConfusion h
  | some a => exact (hf a rfl).kept s' h

theorem keptP_bindV {α β : Type} {k : List Nat} {st0 : State} {x : Option α}
    {f : α → Option (β × State)} (hf : ∀ a, x = Option.some a → KeptP k st0 (f a)) :
    KeptP k st0 (x >>= f) := by
  constructor
  intro b s' h
  cases x with
  | none => exact Option.noConfusion h
  | some a => exact (hf a rfl).kept b s' h

/-! ### The VM functions the compiler calls -/

theorem base_store (vm : VM) (p : Nat) (body : ObjBody) : (vm.store p body).base = vm.base := by
  unfold VM.store
  split <;> rfl

theorem base_setChunk (vm : VM) (f : Nat) (chunk : Chunk) : (vm.setChunk f chunk).base = vm.base := by
  unfold VM.setChunk
  split
  · exact base_store _ _ _
  · rfl

theorem base_allocateObject (vm : VM) (body : ObjBody) :
    (vm.allocateObject body).2.base = vm.base := rfl

theorem base_internString (vm : VM) (chars : List Nat) (r : Nat) (vm2 : VM)
    (h : vm.internString chars = some (r, vm2)) : vm2.base = vm.base := by
  unfold VM.internString at h
  simp only at h
  split at h
  · exact Option.noConfusion h
  · split at h
    · simp only [Option.some.injEq, Prod.mk.injEq] at h
      rw [← h.2]
    · split at h
      · exact Option.noConfusion h
      · rename_i isNew strings hset
        split at h
        · exact Option.noConfusion h
        · rename_i v vm3 hpop
          simp only [Option.some.injEq, Prod.mk.injEq] at h
          rw [← h.2]
          have hp := pop_snoc
            ({ (vm.allocateObject (.string chars.length chars (VM.hashString chars))).2.push
                (OBJ_VAL (vm.allocateObject (.string chars.length chars (VM.hashString chars))).1)
                with strings := strings } : VM)
            vm.stack _ rfl
          rw [hp] at hpop
          simp only [Option.some.injEq, Prod.mk.injEq] at hpop
          rw [← hpop.2]
          rfl

theorem base_copyString (vm : VM) (chars : List Nat) (n r : Nat) (vm2 : VM)
    (h : vm.copyString chars n = some (r, vm2)) : vm2.base = vm.base :=
  base_internString vm _ r vm2 h

theorem base_addConstant (vm : VM) (chunk : Chunk) (value i : Nat) (chunk2 : Chunk) (vm2 : VM)
    (h : addConstant vm chunk value = some (i, chunk2, vm2)) : vm2.base = vm.base := by
  unfold addConstant at h
  simp only at h
  rw [pop_snoc (vm.push value) vm.stack value rfl] at h
  simp only [Option.some.injEq, Prod.mk.injEq] at h
  rw [← h.2.2]
  rfl

/-! ### The functions of the compiler without recursion -/

theorem kept_errorAt {k : List Nat} {st0 s : State} (token : Token) (message : List Nat)
    (hk : Kept k st0 s) : Kept k st0 (errorAt s token message) := by
  unfold errorAt
  split
  · exact hk
  · refine ⟨hk.chain, hk.base, fun _ => ?_⟩
    unfold State.errorsAgree
    simp

theorem kept_errorAtCurrent {k : List Nat} {st0 s : State} (message : List Nat)
    (hk : Kept k st0 s) : Kept k st0 (errorAtCurrent s message) :=
  kept_errorAt _ _ hk

theorem kept_errorAtPrevious {k : List Nat} {st0 s : State} (message : List Nat)
    (hk : Kept k st0 s) : Kept k st0 (errorAtPrevious s message) :=
  kept_errorAt _ _ hk

theorem kept_advanceLoop {k : List Nat} {st0 : State} (fuel : Nat) :
    ∀ s, Kept k st0 s → Kept k st0 (advanceLoop fuel s) := by
  induction fuel with
  | zero => intro s hk; exact hk
  | succ n ih =>
    intro s hk
    unfold advanceLoop
    dsimp only
    split
    · exact hk.step rfl rfl rfl rfl
    · exact ih _ (kept_errorAtCurrent _ (hk.step rfl rfl rfl rfl))

theorem kept_advance {k : List Nat} {st0 s : State} (hk : Kept k st0 s) :
    Kept k st0 (advance s) :=
  kept_advanceLoop _ _ (hk.step rfl rfl rfl rfl)

theorem kept_matchToken {k : List Nat} {st0 s : State} (type : TokenType)
    (hk : Kept k st0 s) : Kept k st0 (matchToken s type).2 := by
  unfold matchToken
  split
  · exact hk
  · exact kept_advance hk

theorem kept_matchIf {k : List Nat} {st0 s : State} (cond : Bool) (type : TokenType)
    (hk : Kept k st0 s) : Kept k st0 (matchIf cond s type).2 := by
  unfold matchIf
  split
  · exact kept_matchToken _ hk
  · exact hk

/-- The state that `match` returns, once the pair it returns is named. -/
theorem kept_of_matchToken {k : List Nat} {st0 s s' : State} {type : TokenType} {m : Bool}
    (he : matchToken s type = (m, s')) (hk : Kept k st0 s) : Kept k st0 s' := by
  have := kept_matchToken type hk
  rw [he] at this
  exact this

theorem kept_of_matchIf {k : List Nat} {st0 s s' : State} {cond : Bool} {type : TokenType}
    {m : Bool} (he : matchIf cond s type = (m, s')) (hk : Kept k st0 s) : Kept k st0 s' := by
  have := kept_matchIf cond type hk
  rw [he] at this
  exact this

theorem kept_consume {k : List Nat} {st0 s : State} (type : TokenType) (message : String)
    (hk : Kept k st0 s) : Kept k st0 (consume s type message) := by
  unfold consume
  split
  · exact kept_advance hk
  · exact kept_errorAtCurrent _ hk

theorem kept_synchronizeLoop {k : List Nat} {st0 : State} (fuel : Nat) :
    ∀ s, Kept k st0 s → Kept k st0 (synchronizeLoop fuel s) := by
  induction fuel with
  | zero => intro s hk; exact hk
  | succ n ih =>
    intro s hk
    unfold synchronizeLoop
    split
    · split
      · exact hk
      · split <;> first | exact hk | exact ih _ (kept_advance hk)
    · exact hk

theorem kept_synchronize {k : List Nat} {st0 s : State} (hk : Kept k st0 s) :
    Kept k st0 (synchronize s) :=
  kept_synchronizeLoop _ _ (hk.step rfl rfl rfl rfl)

theorem kept_setCurrentChunk {k : List Nat} {st0 s : State} (chunk : Chunk)
    (hk : Kept k st0 s) : Kept k st0 (setCurrentChunk s chunk) := by
  unfold setCurrentChunk
  split
  · exact hk
  · exact hk.step rfl (base_setChunk _ _ _) rfl rfl

theorem kept_setCurrent {k : List Nat} {st0 s : State} {c : Compiler} (c' : Compiler)
    (hk : Kept k st0 s) (hh : s.current.head? = Option.some c) (hf : c'.function = c.function) :
    Kept k st0 (setCurrent s c') := by
  refine hk.step ?_ rfl rfl rfl
  unfold setCurrent State.chain
  cases hc : s.current with
  | nil => rw [hc] at hh; exact Option.noConfusion hh
  | cons a t =>
    rw [hc] at hh
    simp only [List.head?_cons, Option.some.injEq] at hh
    simp [hf, hh]

/-- A new VM that agrees on the parts that compiling keeps. -/
theorem kept_setVM {k : List Nat} {st0 s : State} (vm : VM) (hk : Kept k st0 s)
    (hb : vm.base = s.vm.base) : Kept k st0 { s with vm := vm } :=
  hk.step rfl hb rfl rfl

theorem kept_setClass {k : List Nat} {st0 s : State} (cc : List ClassCompiler)
    (hk : Kept k st0 s) : Kept k st0 { s with currentClass := cc } :=
  hk.step rfl rfl rfl rfl

theorem kept_setCirculation {k : List Nat} {st0 s : State} (cc : List Circulation)
    (hk : Kept k st0 s) : Kept k st0 { s with currentCirculation := cc } :=
  hk.step rfl rfl rfl rfl


/-- A compiler of a list replaced by one for the same function leaves the
functions of the list as they were. -/
theorem chain_set (l : List Compiler) : ∀ (i : Nat) (c c' : Compiler),
    l.get? i = Option.some c → c'.function = c.function →
    (l.set i c').map (fun c => c.function) = l.map (fun c => c.function) := by
  induction l with
  | nil => intro i c c' hg _; rfl
  | cons a t ih =>
    intro i c c' hg hf
    cases i with
    | zero =>
      simp only [List.get?_cons_zero, Option.some.injEq] at hg
      simp [hg, hf]
    | succ j =>
      simp only [List.get?_cons_succ] at hg
      simp [ih j c c' hg hf]

/-- A compiler of the chain replaced by one for the same function. -/
theorem kept_setAt {k : List Nat} {st0 s : State} {c : Compiler} (i : Nat) (c' : Compiler)
    (hk : Kept k st0 s) (hg : s.current.get? i = Option.some c) (hf : c'.function = c.function) :
    Kept k st0 { s with current := s.current.set i c' } :=
  hk.step (chain_set _ i c c' hg hf) rfl rfl rfl

theorem kept_setAtVM {k : List Nat} {st0 s : State} {c : Compiler} (i : Nat) (c' : Compiler)
    (vm : VM) (hk : Kept k st0 s) (hg : s.current.get? i = Option.some c)
    (hf : c'.function = c.function) (hb : vm.base = s.vm.base) :
    Kept k st0 { s with current := s.current.set i c', vm := vm } :=
  kept_setVM _ (kept_setAt i c' hk hg hf) hb

theorem kept_superclassCheck {k : List Nat} {st0 s : State}
    (hk : Kept k st0 s) : Kept k st0 (superclassCheck s) := by
  unfold superclassCheck
  split
  · exact kept_errorAtPrevious _ hk
  · split
    · exact kept_errorAtPrevious _ hk
    · exact hk

theorem kept_emitByte {k : List Nat} {st0 s : State} (h : Host) (byte : Nat)
    (hk : Kept k st0 s) : KeptO k st0 (emitByte h s byte) := by
  unfold emitByte
  repeat' (first
    | with_reducible assumption
    | intro _
    | with_reducible apply kept_errorAt
    | with_reducible apply kept_errorAtCurrent
    | with_reducible apply kept_errorAtPrevious
    | with_reducible apply kept_advance
    | with_reducible apply kept_consume
    | with_reducible apply kept_synchronize
    | with_reducible apply kept_setCurrentChunk
    | with_reducible apply kept_setCurrent
    | with_reducible apply kept_matchToken
    | with_reducible apply kept_matchIf
    | with_reducible apply kept_superclassCheck
    | (with_reducible refine kept_of_matchToken (by assumption) ?_)
    | (with_reducible refine kept_of_matchIf (by assumption) ?_)
    | with_reducible apply keptO_none
    | with_reducible apply keptP_none
    | with_reducible apply keptO_some
    | with_reducible apply keptO_pure
    | with_reducible apply keptP_some
    | with_reducible apply keptP_pure
    | with_reducible apply keptO_bind
    | with_reducible apply keptO_bindP
    | with_reducible apply keptP_bind
    | with_reducible apply keptP_bindP
    | with_reducible apply keptO_bindV
    | with_reducible apply keptP_bindV
    | dsimp only
    | split
    | apply kept_setClass
    | apply kept_setCirculation
    | apply kept_setVM
    | apply kept_setAt
    | apply kept_setAtVM
    | exact base_addConstant _ _ _ _ _ _ (by assumption)
    | exact base_copyString _ _ _ _ _ (by assumption)
    | exact base_store _ _ _
    | rfl)

theorem kept_emitBytes {k : List Nat} {st0 s : State} (h : Host) (byte1 byte2 : Nat)
    (hk : Kept k st0 s) : KeptO k st0 (emitBytes h s byte1 byte2) := by
  unfold emitBytes
  repeat' (first
    | with_reducible assumption
    | intro _
    | with_reducible apply kept_emitByte
    | with_reducible apply kept_errorAt
    | with_reducible apply kept_errorAtCurrent
    | with_reducible apply kept_errorAtPrevious
    | with_reducible apply kept_advance
    | with_reducible apply kept_consume
    | with_reducible apply kept_synchronize
    | with_reducible apply kept_setCurrentChunk
    | with_reducible apply kept_setCurrent
    | with_reducible apply kept_matchToken
    | with_reducible apply kept_matchIf
    | with_reducible apply kept_superclassCheck
    | (with_reducible refine kept_of_matchToken (by assumption) ?_)
    | (with_reducible refine kept_of_matchIf (by assumption) ?_)
    | with_reducible apply keptO_none
    | with_reducible apply keptP_none
    | with_reducible apply keptO_some
    | with_reducible apply keptO_pure
    | with_reducible apply keptP_some
    | with_reducible apply keptP_pure
    | with_reducible apply keptO_bind
    | with_reducible apply keptO_bindP
    | with_reducible apply keptP_bind
    | with_reducible apply keptP_bindP
    | with_reducible apply keptO_bindV
    | with_reducible apply keptP_bindV
    | dsimp only
    | split
    | apply kept_setClass
    | apply kept_setCirculation
    | apply kept_setVM
    | apply kept_setAt
    | apply kept_setAtVM
    | exact base_addConstant _ _ _ _ _ _ (by assumption)
    | exact base_copyString _ _ _ _ _ (by assumption)
    | exact base_store _ _ _
    | rfl)

theorem kept_makeConstant {k : List Nat} {st0 s : State} (value : Nat)
    (hk : Kept k st0 s) : KeptP k st0 (makeConstant s value) := by
  unfold makeConstant
  repeat' (first
    | with_reducible assumption
    | intro _
    | with_reducible apply kept_errorAt
    | with_reducible apply kept_errorAtCurrent
    | with_reducible apply kept_errorAtPrevious
    | with_reducible apply kept_advance
    | with_reducible apply kept_consume
    | with_reducible apply kept_synchronize
    | with_reducible apply kept_setCurrentChunk
    | with_reducible apply kept_setCurrent
    | with_reducible apply kept_matchToken
    | with_reducible apply kept_matchIf
    | with_reducible apply kept_superclassCheck
    | (with_reducible refine kept_of_matchToken (by assumption) ?_)
    | (with_reducible refine kept_of_matchIf (by assumption) ?_)
    | with_reducible apply keptO_none
    | with_reducible apply keptP_none
    | with_reducible apply keptO_some
    | with_reducible apply keptO_pure
    | with_reducible apply keptP_some
    | with_reducible apply keptP_pure
    | with_reducible apply keptO_bind
    | with_reducible apply keptO_bindP
    | with_reducible apply keptP_bind
    | with_reducible apply keptP_bindP
    | with_reducible apply keptO_bindV
    | with_reducible apply keptP_bindV
    | dsimp only
    | split
    | apply kept_setClass
    | apply kept_setCirculation
    | apply kept_setVM
    | apply kept_setAt
    | apply kept_setAtVM
    | exact base_addConstant _ _ _ _ _ _ (by assumption)
    | exact base_copyString _ _ _ _ _ (by assumption)
    | exact base_store _ _ _
    | rfl)

theorem kept_emitConstant {k : List Nat} {st0 s : State} (h : Host) (value : Nat)
    (hk : Kept k st0 s) : KeptO k st0 (emitConstant h s value) := by
  unfold emitConstant
  repeat' (first
    | with_reducible assumption
    | intro _
    | with_reducible apply kept_makeConstant
    | with_reducible apply kept_emitBytes
    | with_reducible apply kept_errorAt
    | with_reducible apply kept_errorAtCurrent
    | with_reducible apply kept_errorAtPrevious
    | with_reducible apply kept_advance
    | with_reducible apply kept_consume
    | with_reducible apply kept_synchronize
    | with_reducible apply kept_setCurrentChunk
    | with_reducible apply kept_setCurrent
    | with_reducible apply kept_matchToken
    | with_reducible apply kept_matchIf
    | with_reducible apply kept_superclassCheck
    | (with_reducible refine kept_of_matchToken (by assumption) ?_)
    | (with_reducible refine kept_of_matchIf (by assumption) ?_)
    | with_reducible apply keptO_none
    | with_reducible apply keptP_none
    | with_reducible apply keptO_some
    | with_reducible apply keptO_pure
    | with_reducible apply keptP_some
    | with_reducible apply keptP_pure
    | with_reducible apply keptO_bind
    | with_reducible apply keptO_bindP
    | with_reducible apply keptP_bind
    | with_reducible apply keptP_bindP
    | with_reducible apply keptO_bindV
    | with_reducible apply keptP_bindV
    | dsimp only
    | split
    | apply kept_setClass
    | apply kept_setCirculation
    | apply kept_setVM
    | apply kept_setAt
    | apply kept_setAtVM
    | exact base_addConstant _ _ _ _ _ _ (by assumption)
    | exact base_copyString _ _ _ _ _ (by assumption)
    | exact base_store _ _ _
    | rfl)

theorem kept_identifierConstant {k : List Nat} {st0 s : State} (name : Token)
    (hk : Kept k st0 s) : KeptP k st0 (identifierConstant s name) := by
  unfold identifierConstant
  repeat' (first
    | with_reducible assumption
    | intro _
    | with_reducible apply kept_makeConstant
    | with_reducible apply kept_errorAt
    | with_reducible apply kept_errorAtCurrent
    | with_reducible apply kept_errorAtPrevious
    | with_reducible apply kept_advance
    | with_reducible apply kept_consume
    | with_reducible apply kept_synchronize
    | with_reducible apply kept_setCurrentChunk
    | with_reducible apply kept_setCurrent
    | with_reducible apply kept_matchToken
    | with_reducible apply kept_matchIf
    | with_reducible apply kept_superclassCheck
    | (with_reducible refine kept_of_matchToken (by assumption) ?_)
    | (with_reducible refine kept_of_matchIf (by assumption) ?_)
    | with_reducible apply keptO_none
    | with_reducible apply keptP_none
    | with_reducible apply keptO_some
    | with_reducible apply keptO_pure
    | with_reducible apply keptP_some
    | with_reducible apply keptP_pure
    | with_reducible apply keptO_bind
    | with_reducible apply keptO_bindP
    | with_reducible apply keptP_bind
    | with_reducible apply keptP_bindP
    | with_reducible apply keptO_bindV
    | with_reducible apply keptP_bindV
    | dsimp only
    | split
    | apply kept_setClass
    | apply kept_setCirculation
    | apply kept_setVM
    | apply kept_setAt
    | apply kept_setAtVM
    | exact base_addConstant _ _ _ _ _ _ (by assumption)
    | exact base_copyString _ _ _ _ _ (by assumption)
    | exact base_store _ _ _
    | rfl)

theorem kept_emitReturn {k : List Nat} {st0 s : State} (h : Host)
    (hk : Kept k st0 s) : KeptO k st0 (emitReturn h s) := by
  unfold emitReturn
  repeat' (first
    | with_reducible assumption
    | intro _
    | with_reducible apply kept_emitByte
    | with_reducible apply kept_emitBytes
    | with_reducible apply kept_errorAt
    | with_reducible apply kept_errorAtCurrent
    | with_reducible apply kept_errorAtPrevious
    | with_reducible apply kept_advance
    | with_reducible apply kept_consume
    | with_reducible apply kept_synchronize
    | with_reducible apply kept_setCurrentChunk
    | with_reducible apply kept_setCurrent
    | with_reducible apply kept_matchToken
    | with_reducible apply kept_matchIf
    | with_reducible apply kept_superclassCheck
    | (with_reducible refine kept_of_matchToken (by assumption) ?_)
    | (with_reducible refine kept_of_matchIf (by assumption) ?_)
    | with_reducible apply keptO_none
    | with_reducible apply keptP_none
    | with_reducible apply keptO_some
    | with_reducible apply keptO_pure
    | with_reducible apply keptP_some
    | with_reducible apply keptP_pure
    | with_reducible apply keptO_bind
    | with_reducible apply keptO_bindP
    | with_reducible apply keptP_bind
    | with_reducible apply keptP_bindP
    | with_reducible apply keptO_bindV
    | with_reducible apply keptP_bindV
    | dsimp only
    | split
    | apply kept_setClass
    | apply kept_setCirculation
    | apply kept_setVM
    | apply kept_setAt
    | apply kept_setAtVM
    | exact base_addConstant _ _ _ _ _ _ (by assumption)
    | exact base_copyString _ _ _ _ _ (by assumption)
    | exact base_store _ _ _
    | rfl)

theorem kept_emitJump {k : List Nat} {st0 s : State} (h : Host) (instruction : Nat)
    (hk : Kept k st0 s) : KeptP k st0 (emitJump h s instruction) := by
  unfold emitJump
  repeat' (first
    | with_reducible assumption
    | intro _
    | with_reducible apply kept_emitByte
    | with_reducible apply kept_errorAt
    | with_reducible apply kept_errorAtCurrent
    | with_reducible apply kept_errorAtPrevious
    | with_reducible apply kept_advance
    | with_reducible apply kept_consume
    | with_reducible apply kept_synchronize
    | with_reducible apply kept_setCurrentChunk
    | with_reducible apply kept_setCurrent
    | with_reducible apply kept_matchToken
    | with_reducible apply kept_matchIf
    | with_reducible apply kept_superclassCheck
    | (with_reducible refine kept_of_matchToken (by assumption) ?_)
    | (with_reducible refine kept_of_matchIf (by assumption) ?_)
    | with_reducible apply keptO_none
    | with_reducible apply keptP_none
    | with_reducible apply keptO_some
    | with_reducible apply keptO_pure
    | with_reducible apply keptP_some
    | with_reducible apply keptP_pure
    | with_reducible apply keptO_bind
    | with_reducible apply keptO_bindP
    | with_reducible apply keptP_bind
    | with_reducible apply keptP_bindP
    | with_reducible apply keptO_bindV
    | with_reducible apply keptP_bindV
    | dsimp only
    | split
    | apply kept_setClass
    | apply kept_setCirculation
    | apply kept_setVM
    | apply kept_setAt
    | apply kept_setAtVM
    | exact base_addConstant _ _ _ _ _ _ (by assumption)
    | exact base_copyString _ _ _ _ _ (by assumption)
    | exact base_store _ _ _
    | rfl)

theorem kept_patchJump {k : List Nat} {st0 s : State} (offset : Nat)
    (hk : Kept k st0 s) : KeptO k st0 (patchJump s offset) := by
  unfold patchJump
  repeat' (first
    | with_reducible assumption
    | intro _
    | with_reducible apply kept_errorAt
    | with_reducible apply kept_errorAtCurrent
    | with_reducible apply kept_errorAtPrevious
    | with_reducible apply kept_advance
    | with_reducible apply kept_consume
    | with_reducible apply kept_synchronize
    | with_reducible apply kept_setCurrentChunk
    | with_reducible apply kept_setCurrent
    | with_reducible apply kept_matchToken
    | with_reducible apply kept_matchIf
    | with_reducible apply kept_superclassCheck
    | (with_reducible refine kept_of_matchToken (by assumption) ?_)
    | (with_reducible refine kept_of_matchIf (by assumption) ?_)
    | with_reducible apply keptO_none
    | with_reducible apply keptP_none
    | with_reducible apply keptO_some
    | with_reducible apply keptO_pure
    | with_reducible apply keptP_some
    | with_reducible apply keptP_pure
    | with_reducible apply keptO_bind
    | with_reducible apply keptO_bindP
    | with_reducible apply keptP_bind
    | with_reducible apply keptP_bindP
    | with_reducible apply keptO_bindV
    | with_reducible apply keptP_bindV
    | dsimp only
    | split
    | apply kept_setClass
    | apply kept_setCirculation
    | apply kept_setVM
    | apply kept_setAt
    | apply kept_setAtVM
    | exact base_addConstant _ _ _ _ _ _ (by assumption)
    | exact base_copyString _ _ _ _ _ (by assumption)
    | exact base_store _ _ _
    | rfl)

theorem kept_emitLoop {k : List Nat} {st0 s : State} (h : Host) (loopStart : Nat)
    (hk : Kept k st0 s) : KeptO k st0 (emitLoop h s loopStart) := by
  unfold emitLoop
  repeat' (first
    | with_reducible assumption
    | intro _
    | with_reducible apply kept_emitByte
    | with_reducible apply kept_errorAt
    | with_reducible apply kept_errorAtCurrent
    | with_reducible apply kept_errorAtPrevious
    | with_reducible apply kept_advance
    | with_reducible apply kept_consume
    | with_reducible apply kept_synchronize
    | with_reducible apply kept_setCurrentChunk
    | with_reducible apply kept_setCurrent
    | with_reducible apply kept_matchToken
    | with_reducible apply kept_matchIf
    | with_reducible apply kept_superclassCheck
    | (with_reducible refine kept_of_matchToken (by assumption) ?_)
    | (with_reducible refine kept_of_matchIf (by assumption) ?_)
    | with_reducible apply keptO_none
    | with_reducible apply keptP_none
    | with_reducible apply keptO_some
    | with_reducible apply keptO_pure
    | with_reducible apply keptP_some
    | with_reducible apply keptP_pure
    | with_reducible apply keptO_bind
    | with_reducible apply keptO_bindP
    | with_reducible apply keptP_bind
    | with_reducible apply keptP_bindP
    | with_reducible apply keptO_bindV
    | with_reducible apply keptP_bindV
    | dsimp only
    | split
    | apply kept_setClass
    | apply kept_setCirculation
    | apply kept_setVM
    | apply kept_setAt
    | apply kept_setAtVM
    | exact base_addConstant _ _ _ _ _ _ (by assumption)
    | exact base_copyString _ _ _ _ _ (by assumption)
    | exact base_store _ _ _
    | rfl)

theorem kept_addLocal {k : List Nat} {st0 s : State} (name : Token)
    (hk : Kept k st0 s) : KeptO k st0 (addLocal s name) := by
  unfold addLocal
  repeat' (first
    | with_reducible assumption
    | intro _
    | with_reducible apply kept_errorAt
    | with_reducible apply kept_errorAtCurrent
    | with_reducible apply kept_errorAtPrevious
    | with_reducible apply kept_advance
    | with_reducible apply kept_consume
    | with_reducible apply kept_synchronize
    | with_reducible apply kept_setCurrentChunk
    | with_reducible apply kept_setCurrent
    | with_reducible apply kept_matchToken
    | with_reducible apply kept_matchIf
    | with_reducible apply kept_superclassCheck
    | (with_reducible refine kept_of_matchToken (by assumption) ?_)
    | (with_reducible refine kept_of_matchIf (by assumption) ?_)
    | with_reducible apply keptO_none
    | with_reducible apply keptP_none
    | with_reducible apply keptO_some
    | with_reducible apply keptO_pure
    | with_reducible apply keptP_some
    | with_reducible apply keptP_pure
    | with_reducible apply keptO_bind
    | with_reducible apply keptO_bindP
    | with_reducible apply keptP_bind
    | with_reducible apply keptP_bindP
    | with_reducible apply keptO_bindV
    | with_reducible apply keptP_bindV
    | dsimp only
    | split
    | apply kept_setClass
    | apply kept_setCirculation
    | apply kept_setVM
    | apply kept_setAt
    | apply kept_setAtVM
    | exact base_addConstant _ _ _ _ _ _ (by assumption)
    | exact base_copyString _ _ _ _ _ (by assumption)
    | exact base_store _ _ _
    | rfl)

theorem kept_declareVariableLoop {k : List Nat} {st0 : State} (scopeDepth : Int) (name : Token)
    (locals : List Local) : ∀ s, Kept k st0 s →
      Kept k st0 (declareVariableLoop scopeDepth name locals s) := by
  induction locals with
  | nil => intro s hk; exact hk
  | cons l rest ih =>
    intro s hk
    unfold declareVariableLoop
    split
    · exact hk
    · apply ih
      split
      · exact kept_errorAtPrevious _ hk
      · exact hk

theorem kept_declareVariable {k : List Nat} {st0 s : State}
    (hk : Kept k st0 s) : KeptO k st0 (declareVariable s) := by
  unfold declareVariable
  repeat' (first
    | with_reducible assumption
    | intro _
    | with_reducible apply kept_addLocal
    | with_reducible apply kept_declareVariableLoop
    | with_reducible apply kept_errorAt
    | with_reducible apply kept_errorAtCurrent
    | with_reducible apply kept_errorAtPrevious
    | with_reducible apply kept_advance
    | with_reducible apply kept_consume
    | with_reducible apply kept_synchronize
    | with_reducible apply kept_setCurrentChunk
    | with_reducible apply kept_setCurrent
    | with_reducible apply kept_matchToken
    | with_reducible apply kept_matchIf
    | with_reducible apply kept_superclassCheck
    | (with_reducible refine kept_of_matchToken (by assumption) ?_)
    | (with_reducible refine kept_of_matchIf (by assumption) ?_)
    | with_reducible apply keptO_none
    | with_reducible apply keptP_none
    | with_reducible apply keptO_some
    | with_reducible apply keptO_pure
    | with_reducible apply keptP_some
    | with_reducible apply keptP_pure
    | with_reducible apply keptO_bind
    | with_reducible apply keptO_bindP
    | with_reducible apply keptP_bind
    | with_reducible apply keptP_bindP
    | with_reducible apply keptO_bindV
    | with_reducible apply keptP_bindV
    | dsimp only
    | split
    | apply kept_setClass
    | apply kept_setCirculation
    | apply kept_setVM
    | apply kept_setAt
    | apply kept_setAtVM
    | exact base_addConstant _ _ _ _ _ _ (by assumption)
    | exact base_copyString _ _ _ _ _ (by assumption)
    | exact base_store _ _ _
    | rfl)

theorem kept_parseVariable {k : List Nat} {st0 s : State} (errorMessage : String)
    (hk : Kept k st0 s) : KeptP k st0 (parseVariable s errorMessage) := by
  unfold parseVariable
  repeat' (first
    | with_reducible assumption
    | intro _
    | with_reducible apply kept_declareVariable
    | with_reducible apply kept_identifierConstant
    | with_reducible apply kept_errorAt
    | with_reducible apply kept_errorAtCurrent
    | with_reducible apply kept_errorAtPrevious
    | with_reducible apply kept_advance
    | with_reducible apply kept_consume
    | with_reducible apply kept_synchronize
    | with_reducible apply kept_setCurrentChunk
    | with_reducible apply kept_setCurrent
    | with_reducible apply kept_matchToken
    | with_reducible apply kept_matchIf
    | with_reducible apply kept_superclassCheck
    | (with_reducible refine kept_of_matchToken (by assumption) ?_)
    | (with_reducible refine kept_of_matchIf (by assumption) ?_)
    | with_reducible apply keptO_none
    | with_reducible apply keptP_none
    | with_reducible apply keptO_some
    | with_reducible apply keptO_pure
    | with_reducible apply keptP_some
    | with_reducible apply keptP_pure
    | with_reducible apply keptO_bind
    | with_reducible apply keptO_bindP
    | with_reducible apply keptP_bind
    | with_reducible apply keptP_bindP
    | with_reducible apply keptO_bindV
    | with_reducible apply keptP_bindV
    | dsimp only
    | split
    | apply kept_setClass
    | apply kept_setCirculation
    | apply kept_setVM
    | apply kept_setAt
    | apply kept_setAtVM
    | exact base_addConstant _ _ _ _ _ _ (by assumption)
    | exact base_copyString _ _ _ _ _ (by assumption)
    | exact base_store _ _ _
    | rfl)

theorem kept_markInitialized {k : List Nat} {st0 s : State}
    (hk : Kept k st0 s) : KeptO k st0 (markInitialized s) := by
  unfold markInitialized
  repeat' (first
    | with_reducible assumption
    | intro _
    | with_reducible apply kept_errorAt
    | with_reducible apply kept_errorAtCurrent
    | with_reducible apply kept_errorAtPrevious
    | with_reducible apply kept_advance
    | with_reducible apply kept_consume
    | with_reducible apply kept_synchronize
    | with_reducible apply kept_setCurrentChunk
    | with_reducible apply kept_setCurrent
    | with_reducible apply kept_matchToken
    | with_reducible apply kept_matchIf
    | with_reducible apply kept_superclassCheck
    | (with_reducible refine kept_of_matchToken (by assumption) ?_)
    | (with_reducible refine kept_of_matchIf (by assumption) ?_)
    | with_reducible apply keptO_none
    | with_reducible apply keptP_none
    | with_reducible apply keptO_some
    | with_reducible apply keptO_pure
    | with_reducible apply keptP_some
    | with_reducible apply keptP_pure
    | with_reducible apply keptO_bind
    | with_reducible apply keptO_bindP
    | with_reducible apply keptP_bind
    | with_reducible apply keptP_bindP
    | with_reducible apply keptO_bindV
    | with_reducible apply keptP_bindV
    | dsimp only
    | split
    | apply kept_setClass
    | apply kept_setCirculation
    | apply kept_setVM
    | apply kept_setAt
    | apply kept_setAtVM
    | exact base_addConstant _ _ _ _ _ _ (by assumption)
    | exact base_copyString _ _ _ _ _ (by assumption)
    | exact base_store _ _ _
    | rfl)

theorem kept_defineVariable {k : List Nat} {st0 s : State} (h : Host) (global : Nat)
    (hk : Kept k st0 s) : KeptO k st0 (defineVariable h s global) := by
  unfold defineVariable
  repeat' (first
    | with_reducible assumption
    | intro _
    | with_reducible apply kept_markInitialized
    | with_reducible apply kept_emitBytes
    | with_reducible apply kept_errorAt
    | with_reducible apply kept_errorAtCurrent
    | with_reducible apply kept_errorAtPrevious
    | with_reducible apply kept_advance
    | with_reducible apply kept_consume
    | with_reducible apply kept_synchronize
    | with_reducible apply kept_setCurrentChunk
    | with_reducible apply kept_setCurrent
    | with_reducible apply kept_matchToken
    | with_reducible apply kept_matchIf
    | with_reducible apply kept_superclassCheck
    | (with_reducible refine kept_of_matchToken (by assumption) ?_)
    | (with_reducible refine kept_of_matchIf (by assumption) ?_)
    | with_reducible apply keptO_none
    | with_reducible apply keptP_none
    | with_reducible apply keptO_some
    | with_reducible apply keptO_pure
    | with_reducible apply keptP_some
    | with_reducible apply keptP_pure
    | with_reducible apply keptO_bind
    | with_reducible apply keptO_bindP
    | with_reducible apply keptP_bind
    | with_reducible apply keptP_bindP
    | with_reducible apply keptO_bindV
    | with_reducible apply keptP_bindV
    | dsimp only
    | split
    | apply kept_setClass
    | apply kept_setCirculation
    | apply kept_setVM
    | apply kept_setAt
    | apply kept_setAtVM
    | exact base_addConstant _ _ _ _ _ _ (by assumption)
    | exact base_copyString _ _ _ _ _ (by assumption)
    | exact base_store _ _ _
    | rfl)

theorem kept_resolveLocalLoop {k : List Nat} {st0 : State} (name : Token)
    (locals : List (Nat × Local)) : ∀ s, Kept k st0 s →
      Kept k st0 (resolveLocalLoop name locals s).2 := by
  induction locals with
  | nil => intro s hk; exact hk
  | cons l rest ih =>
    intro s hk
    unfold resolveLocalLoop
    split
    · dsimp only
      split
      · exact kept_errorAtPrevious _ hk
      · exact hk
    · exact ih _ hk

theorem kept_of_resolveLocal {k : List Nat} {st0 s s' : State} {c : Compiler} {name : Token}
    {i : Int} (he : resolveLocal s c name = (i, s')) (hk : Kept k st0 s) : Kept k st0 s' := by
  have := kept_resolveLocalLoop name ((List.range c.localCount).zip c.locals).reverse s hk
  unfold resolveLocal at he
  rw [he] at this
  exact this

theorem kept_addUpvalue {k : List Nat} {st0 s : State} (i index : Nat) (isLocal : Bool)
    (hk : Kept k st0 s) : KeptP k st0 (addUpvalue s i index isLocal) := by
  unfold addUpvalue
  repeat' (first
    | with_reducible assumption
    | intro _
    | with_reducible apply kept_errorAt
    | with_reducible apply kept_errorAtCurrent
    | with_reducible apply kept_errorAtPrevious
    | with_reducible apply kept_advance
    | with_reducible apply kept_consume
    | with_reducible apply kept_synchronize
    | with_reducible apply kept_setCurrentChunk
    | with_reducible apply kept_setCurrent
    | with_reducible apply kept_matchToken
    | with_reducible apply kept_matchIf
    | with_reducible apply kept_superclassCheck
    | (with_reducible refine kept_of_matchToken (by assumption) ?_)
    | (with_reducible refine kept_of_matchIf (by assumption) ?_)
    | with_reducible apply keptO_none
    | with_reducible apply keptP_none
    | with_reducible apply keptO_some
    | with_reducible apply keptO_pure
    | with_reducible apply keptP_some
    | with_reducible apply keptP_pure
    | with_reducible apply keptO_bind
    | with_reducible apply keptO_bindP
    | with_reducible apply keptP_bind
    | with_reducible apply keptP_bindP
    | with_reducible apply keptO_bindV
    | with_reducible apply keptP_bindV
    | dsimp only
    | split
    | apply kept_setClass
    | apply kept_setCirculation
    | apply kept_setVM
    | apply kept_setAt
    | apply kept_setAtVM
    | exact base_addConstant _ _ _ _ _ _ (by assumption)
    | exact base_copyString _ _ _ _ _ (by assumption)
    | exact base_store _ _ _
    | rfl)

theorem kept_resolveLocal {k : List Nat} {st0 s : State} (c : Compiler) (name : Token)
    (hk : Kept k st0 s) : Kept k st0 (resolveLocal s c name).2 :=
  kept_resolveLocalLoop name _ s hk

theorem kept_resolveUpvalueAt {k : List Nat} {st0 : State} (fuel : Nat) :
    ∀ (s : State) (i : Nat) (name : Token), Kept k st0 s →
      KeptP k st0 (resolveUpvalueAt fuel s i name) := by
  induction fuel with
  | zero => intro s i name hk; exact keptP_none
  | succ n ih =>
    intro s i name hk
    unfold resolveUpvalueAt
    repeat' (first
    | with_reducible assumption
    | intro _
    | with_reducible apply kept_addUpvalue
    | with_reducible apply ih
    | with_reducible apply kept_resolveLocal
    | (with_reducible refine kept_of_resolveLocal (by assumption) ?_)
    | with_reducible apply kept_errorAt
    | with_reducible apply kept_errorAtCurrent
    | with_reducible apply kept_errorAtPrevious
    | with_reducible apply kept_advance
    | with_reducible apply kept_consume
    | with_reducible apply kept_synchronize
    | with_reducible apply kept_setCurrentChunk
    | with_reducible apply kept_setCurrent
    | with_reducible apply kept_matchToken
    | with_reducible apply kept_matchIf
    | with_reducible apply kept_superclassCheck
    | (with_reducible refine kept_of_matchToken (by assumption) ?_)
    | (with_reducible refine kept_of_matchIf (by assumption) ?_)
    | with_reducible apply keptO_none
    | with_reducible apply keptP_none
    | with_reducible apply keptO_some
    | with_reducible apply keptO_pure
    | with_reducible apply keptP_some
    | with_reducible apply keptP_pure
    | with_reducible apply keptO_bind
    | with_reducible apply keptO_bindP
    | with_reducible apply keptP_bind
    | with_reducible apply keptP_bindP
    | with_reducible apply keptO_bindV
    | with_reducible apply keptP_bindV
    | dsimp only
    | split
    | apply kept_setClass
    | apply kept_setCirculation
    | apply kept_setVM
    | apply kept_setAt
    | apply kept_setAtVM
    | exact base_addConstant _ _ _ _ _ _ (by assumption)
    | exact base_copyString _ _ _ _ _ (by assumption)
    | exact base_store _ _ _
    | rfl)

theorem kept_resolveUpvalue {k : List Nat} {st0 s : State} (i : Nat) (name : Token)
    (hk : Kept k st0 s) : KeptP k st0 (resolveUpvalue s i name) :=
  kept_resolveUpvalueAt _ _ _ _ hk

theorem kept_beginScope {k : List Nat} {st0 s : State}
    (hk : Kept k st0 s) : KeptO k st0 (beginScope s) := by
  unfold beginScope
  repeat' (first
    | with_reducible assumption
    | intro _
    | with_reducible apply kept_errorAt
    | with_reducible apply kept_errorAtCurrent
    | with_reducible apply kept_errorAtPrevious
    | with_reducible apply kept_advance
    | with_reducible apply kept_consume
    | with_reducible apply kept_synchronize
    | with_reducible apply kept_setCurrentChunk
    | with_reducible apply kept_setCurrent
    | with_reducible apply kept_matchToken
    | with_reducible apply kept_matchIf
    | with_reducible apply kept_superclassCheck
    | (with_reducible refine kept_of_matchToken (by assumption) ?_)
    | (with_reducible refine kept_of_matchIf (by assumption) ?_)
    | with_reducible apply keptO_none
    | with_reducible apply keptP_none
    | with_reducible apply keptO_some
    | with_reducible apply keptO_pure
    | with_reducible apply keptP_some
    | with_reducible apply keptP_pure
    | with_reducible apply keptO_bind
    | with_reducible apply keptO_bindP
    | with_reducible apply keptP_bind
    | with_reducible apply keptP_bindP
    | with_reducible apply keptO_bindV
    | with_reducible apply keptP_bindV
    | dsimp only
    | split
    | apply kept_setClass
    | apply kept_setCirculation
    | apply kept_setVM
    | apply kept_setAt
    | apply kept_setAtVM
    | exact base_addConstant _ _ _ _ _ _ (by assumption)
    | exact base_copyString _ _ _ _ _ (by assumption)
    | exact base_store _ _ _
    | rfl)

theorem kept_endScopeLoop {k : List Nat} {st0 : State} (h : Host) (fuel : Nat) :
    ∀ (s : State), Kept k st0 s → KeptO k st0 (endScopeLoop h fuel s) := by
  induction fuel with
  | zero => intro s hk; exact keptO_none
  | succ n ih =>
    intro s hk
    unfold endScopeLoop
    repeat' (first
    | with_reducible assumption
    | intro _
    | with_reducible apply kept_emitByte
    | with_reducible apply ih
    | with_reducible apply kept_errorAt
    | with_reducible apply kept_errorAtCurrent
    | with_reducible apply kept_errorAtPrevious
    | with_reducible apply kept_advance
    | with_reducible apply kept_consume
    | with_reducible apply kept_synchronize
    | with_reducible apply kept_setCurrentChunk
    | with_reducible apply kept_setCurrent
    | with_reducible apply kept_matchToken
    | with_reducible apply kept_matchIf
    | with_reducible apply kept_superclassCheck
    | (with_reducible refine kept_of_matchToken (by assumption) ?_)
    | (with_reducible refine kept_of_matchIf (by assumption) ?_)
    | with_reducible apply keptO_none
    | with_reducible apply keptP_none
    | with_reducible apply keptO_some
    | with_reducible apply keptO_pure
    | with_reducible apply keptP_some
    | with_reducible apply keptP_pure
    | with_reducible apply keptO_bind
    | with_reducible apply keptO_bindP
    | with_reducible apply keptP_bind
    | with_reducible apply keptP_bindP
    | with_reducible apply keptO_bindV
    | with_reducible apply keptP_bindV
    | dsimp only
    | split
    | apply kept_setClass
    | apply kept_setCirculation
    | apply kept_setVM
    | apply kept_setAt
    | apply kept_setAtVM
    | exact base_addConstant _ _ _ _ _ _ (by assumption)
    | exact base_copyString _ _ _ _ _ (by assumption)
    | exact base_store _ _ _
    | rfl)

theorem kept_endScope {k : List Nat} {st0 s : State} (h : Host)
    (hk : Kept k st0 s) : KeptO k st0 (endScope h s) := by
  unfold endScope
  repeat' (first
    | with_reducible assumption
    | intro _
    | with_reducible apply kept_endScopeLoop
    | with_reducible apply kept_errorAt
    | with_reducible apply kept_errorAtCurrent
    | with_reducible apply kept_errorAtPrevious
    | with_reducible apply kept_advance
    | with_reducible apply kept_consume
    | with_reducible apply kept_synchronize
    | with_reducible apply kept_setCurrentChunk
    | with_reducible apply kept_setCurrent
    | with_reducible apply kept_matchToken
    | with_reducible apply kept_matchIf
    | with_reducible apply kept_superclassCheck
    | (with_reducible refine kept_of_matchToken (by assumption) ?_)
    | (with_reducible refine kept_of_matchIf (by assumption) ?_)
    | with_reducible apply keptO_none
    | with_reducible apply keptP_none
    | with_reducible apply keptO_some
    | with_reducible apply keptO_pure
    | with_reducible apply keptP_some
    | with_reducible apply keptP_pure
    | with_reducible apply keptO_bind
    | with_reducible apply keptO_bindP
    | with_reducible apply keptP_bind
    | with_reducible apply keptP_bindP
    | with_reducible apply keptO_bindV
    | with_reducible apply keptP_bindV
    | dsimp only
    | split
    | apply kept_setClass
    | apply kept_setCirculation
    | apply kept_setVM
    | apply kept_setAt
    | apply kept_setAtVM
    | exact base_addConstant _ _ _ _ _ _ (by assumption)
    | exact base_copyString _ _ _ _ _ (by assumption)
    | exact base_store _ _ _
    | rfl)

theorem kept_number {k : List Nat} {st0 s : State} (h : Host) (canAssign : Bool)
    (hk : Kept k st0 s) : KeptO k st0 (number h s canAssign) :=
  kept_emitConstant h _ hk

theorem kept_literal {k : List Nat} {st0 s : State} (h : Host) (canAssign : Bool)
    (hk : Kept k st0 s) : KeptO k st0 (literal h s canAssign) := by
  unfold literal
  repeat' (first
    | with_reducible assumption
    | intro _
    | with_reducible apply kept_emitByte
    | with_reducible apply kept_errorAt
    | with_reducible apply kept_errorAtCurrent
    | with_reducible apply kept_errorAtPrevious
    | with_reducible apply kept_advance
    | with_reducible apply kept_consume
    | with_reducible apply kept_synchronize
    | with_reducible apply kept_setCurrentChunk
    | with_reducible apply kept_setCurrent
    | with_reducible apply kept_matchToken
    | with_reducible apply kept_matchIf
    | with_reducible apply kept_superclassCheck
    | (with_reducible refine kept_of_matchToken (by assumption) ?_)
    | (with_reducible refine kept_of_matchIf (by assumption) ?_)
    | with_reducible apply keptO_none
    | with_reducible apply keptP_none
    | with_reducible apply keptO_some
    | with_reducible apply keptO_pure
    | with_reducible apply keptP_some
    | with_reducible apply keptP_pure
    | with_reducible apply keptO_bind
    | with_reducible apply keptO_bindP
    | with_reducible apply keptP_bind
    | with_reducible apply keptP_bindP
    | with_reducible apply keptO_bindV
    | with_reducible apply keptP_bindV
    | dsimp only
    | split
    | apply kept_setClass
    | apply kept_setCirculation
    | apply kept_setVM
    | apply kept_setAt
    | apply kept_setAtVM
    | exact base_addConstant _ _ _ _ _ _ (by assumption)
    | exact base_copyString _ _ _ _ _ (by assumption)
    | exact base_store _ _ _
    | rfl)

theorem kept_stringLiteral {k : List Nat} {st0 s : State} (h : Host) (canAssign : Bool)
    (hk : Kept k st0 s) : KeptO k st0 (stringLiteral h s canAssign) := by
  unfold stringLiteral
  repeat' (first
    | with_reducible assumption
    | intro _
    | with_reducible apply kept_emitConstant
    | with_reducible apply kept_errorAt
    | with_reducible apply kept_errorAtCurrent
    | with_reducible apply kept_errorAtPrevious
    | with_reducible apply kept_advance
    | with_reducible apply kept_consume
    | with_reducible apply kept_synchronize
    | with_reducible apply kept_setCurrentChunk
    | with_reducible apply kept_setCurrent
    | with_reducible apply kept_matchToken
    | with_reducible apply kept_matchIf
    | with_reducible apply kept_superclassCheck
    | (with_reducible refine kept_of_matchToken (by assumption) ?_)
    | (with_reducible refine kept_of_matchIf (by assumption) ?_)
    | with_reducible apply keptO_none
    | with_reducible apply keptP_none
    | with_reducible apply keptO_some
    | with_reducible apply keptO_pure
    | with_reducible apply keptP_some
    | with_reducible apply keptP_pure
    | with_reducible apply keptO_bind
    | with_reducible apply keptO_bindP
    | with_reducible apply keptP_bind
    | with_reducible apply keptP_bindP
    | with_reducible apply keptO_bindV
    | with_reducible apply keptP_bindV
    | dsimp only
    | split
    | apply kept_setClass
    | apply kept_setCirculation
    | apply kept_setVM
    | apply kept_setAt
    | apply kept_setAtVM
    | exact base_addConstant _ _ _ _ _ _ (by assumption)
    | exact base_copyString _ _ _ _ _ (by assumption)
    | exact base_store _ _ _
    | rfl)

theorem kept_breakStatement {k : List Nat} {st0 s : State} (h : Host)
    (hk : Kept k st0 s) : KeptO k st0 (breakStatement h s) := by
  unfold breakStatement
  repeat' (first
    | with_reducible assumption
    | intro _
    | with_reducible apply kept_emitJump
    | with_reducible apply kept_errorAt
    | with_reducible apply kept_errorAtCurrent
    | with_reducible apply kept_errorAtPrevious
    | with_reducible apply kept_advance
    | with_reducible apply kept_consume
    | with_reducible apply kept_synchronize
    | with_reducible apply kept_setCurrentChunk
    | with_reducible apply kept_setCurrent
    | with_reducible apply kept_matchToken
    | with_reducible apply kept_matchIf
    | with_reducible apply kept_superclassCheck
    | (with_reducible refine kept_of_matchToken (by assumption) ?_)
    | (with_reducible refine kept_of_matchIf (by assumption) ?_)
    | with_reducible apply keptO_none
    | with_reducible apply keptP_none
    | with_reducible apply keptO_some
    | with_reducible apply keptO_pure
    | with_reducible apply keptP_some
    | with_reducible apply keptP_pure
    | with_reducible apply keptO_bind
    | with_reducible apply keptO_bindP
    | with_reducible apply keptP_bind
    | with_reducible apply keptP_bindP
    | with_reducible apply keptO_bindV
    | with_reducible apply keptP_bindV
    | dsimp only
    | split
    | apply kept_setClass
    | apply kept_setCirculation
    | apply kept_setVM
    | apply kept_setAt
    | apply kept_setAtVM
    | exact base_addConstant _ _ _ _ _ _ (by assumption)
    | exact base_copyString _ _ _ _ _ (by assumption)
    | exact base_store _ _ _
    | rfl)

theorem kept_continueStatement {k : List Nat} {st0 s : State} (h : Host)
    (hk : Kept k st0 s) : KeptO k st0 (continueStatement h s) := by
  unfold continueStatement
  repeat' (first
    | with_reducible assumption
    | intro _
    | with_reducible apply kept_emitLoop
    | with_reducible apply kept_errorAt
    | with_reducible apply kept_errorAtCurrent
    | with_reducible apply kept_errorAtPrevious
    | with_reducible apply kept_advance
    | with_reducible apply kept_consume
    | with_reducible apply kept_synchronize
    | with_reducible apply kept_setCurrentChunk
    | with_reducible apply kept_setCurrent
    | with_reducible apply kept_matchToken
    | with_reducible apply kept_matchIf
    | with_reducible apply kept_superclassCheck
    | (with_reducible refine kept_of_matchToken (by assumption) ?_)
    | (with_reducible refine kept_of_matchIf (by assumption) ?_)
    | with_reducible apply keptO_none
    | with_reducible apply keptP_none
    | with_reducible apply keptO_some
    | with_reducible apply keptO_pure
    | with_reducible apply keptP_some
    | with_reducible apply keptP_pure
    | with_reducible apply keptO_bind
    | with_reducible apply keptO_bindP
    | with_reducible apply keptP_bind
    | with_reducible apply keptP_bindP
    | with_reducible apply keptO_bindV
    | with_reducible apply keptP_bindV
    | dsimp only
    | split
    | apply kept_setClass
    | apply kept_setCirculation
    | apply kept_setVM
    | apply kept_setAt
    | apply kept_setAtVM
    | exact base_addConstant _ _ _ _ _ _ (by assumption)
    | exact base_copyString _ _ _ _ _ (by assumption)
    | exact base_store _ _ _
    | rfl)

theorem kept_patchBreaks {k : List Nat} {st0 : State} (breaks : List Nat) :
    ∀ (s : State), Kept k st0 s → KeptO k st0 (patchBreaks breaks s) := by
  induction breaks with
  | nil => intro s hk; exact keptO_some hk
  | cons b rest ih =>
    intro s hk
    unfold patchBreaks
    repeat' (first
    | with_reducible assumption
    | intro _
    | with_reducible apply kept_patchJump
    | with_reducible apply ih
    | with_reducible apply kept_errorAt
    | with_reducible apply kept_errorAtCurrent
    | with_reducible apply kept_errorAtPrevious
    | with_reducible apply kept_advance
    | with_reducible apply kept_consume
    | with_reducible apply kept_synchronize
    | with_reducible apply kept_setCurrentChunk
    | with_reducible apply kept_setCurrent
    | with_reducible apply kept_matchToken
    | with_reducible apply kept_matchIf
    | with_reducible apply kept_superclassCheck
    | (with_reducible refine kept_of_matchToken (by assumption) ?_)
    | (with_reducible refine kept_of_matchIf (by assumption) ?_)
    | with_reducible apply keptO_none
    | with_reducible apply keptP_none
    | with_reducible apply keptO_some
    | with_reducible apply keptO_pure
    | with_reducible apply keptP_some
    | with_reducible apply keptP_pure
    | with_reducible apply keptO_bind
    | with_reducible apply keptO_bindP
    | with_reducible apply keptP_bind
    | with_reducible apply keptP_bindP
    | with_reducible apply keptO_bindV
    | with_reducible apply keptP_bindV
    | dsimp only
    | split
    | apply kept_setClass
    | apply kept_setCirculation
    | apply kept_setVM
    | apply kept_setAt
    | apply kept_setAtVM
    | exact base_addConstant _ _ _ _ _ _ (by assumption)
    | exact base_copyString _ _ _ _ _ (by assumption)
    | exact base_store _ _ _
    | rfl)

theorem kept_emitUpvalues {k : List Nat} {st0 : State} (h : Host) (upvalues : List Upvalue) :
    ∀ (s : State), Kept k st0 s → KeptO k st0 (emitUpvalues h upvalues s) := by
  induction upvalues with
  | nil => intro s hk; exact keptO_some hk
  | cons b rest ih =>
    intro s hk
    unfold emitUpvalues
    repeat' (first
    | with_reducible assumption
    | intro _
    | with_reducible apply kept_emitByte
    | with_reducible apply ih
    | with_reducible apply kept_errorAt
    | with_reducible apply kept_errorAtCurrent
    | with_reducible apply kept_errorAtPrevious
    | with_reducible apply kept_advance
    | with_reducible apply kept_consume
    | with_reducible apply kept_synchronize
    | with_reducible apply kept_setCurrentChunk
    | with_reducible apply kept_setCurrent
    | with_reducible apply kept_matchToken
    | with_reducible apply kept_matchIf
    | with_reducible apply kept_superclassCheck
    | (with_reducible refine kept_of_matchToken (by assumption) ?_)
    | (with_reducible refine kept_of_matchIf (by assumption) ?_)
    | with_reducible apply keptO_none
    | with_reducible apply keptP_none
    | with_reducible apply keptO_some
    | with_reducible apply keptO_pure
    | with_reducible apply keptP_some
    | with_reducible apply keptP_pure
    | with_reducible apply keptO_bind
    | with_reducible apply keptO_bindP
    | with_reducible apply keptP_bind
    | with_reducible apply keptP_bindP
    | with_reducible apply keptO_bindV
    | with_reducible apply keptP_bindV
    | dsimp only
    | split
    | apply kept_setClass
    | apply kept_setCirculation
    | apply kept_setVM
    | apply kept_setAt
    | apply kept_setAtVM
    | exact base_addConstant _ _ _ _ _ _ (by assumption)
    | exact base_copyString _ _ _ _ _ (by assumption)
    | exact base_store _ _ _
    | rfl)
theorem base_store_of (vm : VM) (p : Nat) (body : ObjBody) {x : List Nat × List CallFrame × Nat × List Nat × List RuntimeReport}
    (hb : vm.base = x) : (vm.store p body).base = x :=
  (base_store vm p body).trans hb

theorem base_copyString_of (vm : VM) (chars : List Nat) (n r : Nat) (vm2 : VM)
    {x : List Nat × List CallFrame × Nat × List Nat × List RuntimeReport}
    (h : vm.copyString chars n = some (r, vm2)) (hb : vm.base = x) : vm2.base = x :=
  (base_copyString vm chars n r vm2 h).trans hb

theorem kept_initCompiler {k : List Nat} {st0 s : State} (type : FunctionType)
    (hk : Kept k st0 s) : KeptO ((s.vm.newFunction).1 :: k) st0 (initCompiler s type) := by
  have h1 : Kept ((s.vm.newFunction).1 :: k) st0
      { s with vm := (s.vm.newFunction).2,
               current := { function := (s.vm.newFunction).1, type := type, locals := [],
                            scopeDepth := 0, upvalues := [] } :: s.current } :=
    ⟨by have := hk.chain; unfold State.chain at this ⊢; simp [this], hk.base, hk.errors⟩
  unfold initCompiler
  dsimp only
  repeat' (first
    | with_reducible assumption
    | intro _
    | with_reducible apply kept_errorAt
    | with_reducible apply kept_errorAtCurrent
    | with_reducible apply kept_errorAtPrevious
    | with_reducible apply kept_advance
    | with_reducible apply kept_consume
    | with_reducible apply kept_synchronize
    | with_reducible apply kept_setCurrentChunk
    | with_reducible apply kept_setCurrent
    | with_reducible apply kept_matchToken
    | with_reducible apply kept_matchIf
    | with_reducible apply kept_superclassCheck
    | (with_reducible refine kept_of_matchToken (by assumption) ?_)
    | (with_reducible refine kept_of_matchIf (by assumption) ?_)
    | with_reducible apply keptO_none
    | with_reducible apply keptP_none
    | with_reducible apply keptO_some
    | with_reducible apply keptO_pure
    | with_reducible apply keptP_some
    | with_reducible apply keptP_pure
    | with_reducible apply keptO_bind
    | with_reducible apply keptO_bindP
    | with_reducible apply keptP_bind
    | with_reducible apply keptP_bindP
    | with_reducible apply keptO_bindV
    | with_reducible apply keptP_bindV
    | dsimp only
    | split
    | apply kept_setClass
    | apply kept_setCirculation
    | apply kept_setVM
    | apply kept_setAt
    | apply kept_setAtVM
    | exact base_addConstant _ _ _ _ _ _ (by assumption)
    | exact base_copyString _ _ _ _ _ (by assumption)
    | exact base_store _ _ _
    | rfl)
  exact kept_setVM _ h1 (base_store_of _ _ _ (base_copyString_of _ _ _ _ _ (by assumption) rfl))

/-- The function `endCompiler` returns the function of the compiler that was
current and leaves the enclosing one current. -/
theorem endCompiler_spec {k : List Nat} {st0 s s2 : State} {f fn : Nat} {c : Compiler} (h : Host)
    (hk : Kept (f :: k) st0 s) (he : endCompiler h s = some ((fn, c), s2)) :
    fn = f ∧ Kept k st0 s2 := by
  unfold endCompiler at he
  simp only [Option.bind_eq_bind, Option.bind_eq_some, Option.pure_def, Option.some.injEq,
    Prod.mk.injEq] at he
  obtain ⟨s1, hr, c1, hc, ⟨hf, _⟩, hs⟩ := he
  have h1 := (kept_emitReturn h hk).kept s1 hr
  have hch := h1.chain
  unfold State.chain at hch
  cases hcur : s1.current with
  | nil => rw [hcur] at hc; exact Option.noConfusion hc
  | cons c2 rest =>
    rw [hcur] at hc hch
    simp only [List.head?_cons, Option.some.injEq, List.map_cons, List.cons_append,
      List.cons.injEq] at hc hch
    refine ⟨by rw [← hf, ← hc]; exact hch.1, ?_⟩
    rw [← hs]
    refine ⟨?_, h1.base, h1.errors⟩
    unfold State.chain
    dsimp only
    rw [hcur]
    exact hch.2

theorem kept_endCompiler {k : List Nat} {st0 s : State} {f : Nat} (h : Host)
    (hk : Kept (f :: k) st0 s) : KeptP k st0 (endCompiler h s) :=
  ⟨fun _ _ he => (endCompiler_spec h hk he).2⟩

/-! ### The recursive descent -/

theorem kept_parsePrecedence_step (h : Host) (n : Nat) (ih : DescentKept h n) :
    ∀ (k : List Nat) (st0 s : State) (p : Precedence), Kept k st0 s →
      KeptO k st0 (parsePrecedence h (n + 1) s p) := by
  intro k st0 s p hk
  unfold parsePrecedence
  repeat' (first
    | with_reducible assumption
    | intro _
    | with_reducible apply ih.parsePrecedence
    | with_reducible apply ih.parsePrecedenceLoop
    | with_reducible apply ih.parseFn
    | with_reducible apply ih.expression
    | with_reducible apply kept_errorAt
    | with_reducible apply kept_errorAtCurrent
    | with_reducible apply kept_errorAtPrevious
    | with_reducible apply kept_advance
    | with_reducible apply kept_consume
    | with_reducible apply kept_synchronize
    | with_reducible apply kept_setCurrentChunk
    | with_reducible apply kept_setCurrent
    | with_reducible apply kept_matchToken
    | with_reducible apply kept_matchIf
    | with_reducible apply kept_superclassCheck
    | (with_reducible refine kept_of_matchToken (by assumption) ?_)
    | (with_reducible refine kept_of_matchIf (by assumption) ?_)
    | with_reducible apply keptO_none
    | with_reducible apply keptP_none
    | with_reducible apply keptO_some
    | with_reducible apply keptO_pure
    | with_reducible apply keptP_some
    | with_reducible apply keptP_pure
    | with_reducible apply keptO_bind
    | with_reducible apply keptO_bindP
    | with_reducible apply keptP_bind
    | with_reducible apply keptP_bindP
    | with_reducible apply keptO_bindV
    | with_reducible apply keptP_bindV
    | dsimp only
    | split
    | apply kept_setClass
    | apply kept_setCirculation
    | apply kept_setVM
    | apply kept_setAt
    | apply kept_setAtVM
    | exact base_addConstant _ _ _ _ _ _ (by assumption)
    | exact base_copyString _ _ _ _ _ (by assumption)
    | exact base_store _ _ _
    | rfl)

theorem kept_parsePrecedenceLoop_step (h : Host) (n : Nat) (ih : DescentKept h n) :
    ∀ (k : List Nat) (st0 s : State) (p : Precedence) (b : Bool), Kept k st0 s →
      KeptO k st0 (parsePrecedenceLoop h (n + 1) s p b) := by
  intro k st0 s p b hk
  unfold parsePrecedenceLoop
  repeat' (first
    | with_reducible assumption
    | intro _
    | with_reducible apply ih.parsePrecedenceLoop
    | with_reducible apply ih.parseFn
    | with_reducible apply ih.call
    | with_reducible apply kept_errorAt
    | with_reducible apply kept_errorAtCurrent
    | with_reducible apply kept_errorAtPrevious
    | with_reducible apply kept_advance
    | with_reducible apply kept_consume
    | with_reducible apply kept_synchronize
    | with_reducible apply kept_setCurrentChunk
    | with_reducible apply kept_setCurrent
    | with_reducible apply kept_matchToken
    | with_reducible apply kept_matchIf
    | with_reducible apply kept_superclassCheck
    | (with_reducible refine kept_of_matchToken (by assumption) ?_)
    | (with_reducible refine kept_of_matchIf (by assumption) ?_)
    | with_reducible apply keptO_none
    | with_reducible apply keptP_none
    | with_reducible apply keptO_some
    | with_reducible apply keptO_pure
    | with_reducible apply keptP_some
    | with_reducible apply keptP_pure
    | with_reducible apply keptO_bind
    | with_reducible apply keptO_bindP
    | with_reducible apply keptP_bind
    | with_reducible apply keptP_bindP
    | with_reducible apply keptO_bindV
    | with_reducible apply keptP_bindV
    | dsimp only
    | split
    | apply kept_setClass
    | apply kept_setCirculation
    | apply kept_setVM
    | apply kept_setAt
    | apply kept_setAtVM
    | exact base_addConstant _ _ _ _ _ _ (by assumption)
    | exact base_copyString _ _ _ _ _ (by assumption)
    | exact base_store _ _ _
    | rfl)

theorem kept_parseFn_step (h : Host) (n : Nat) (ih : DescentKept h n) :
    ∀ (k : List Nat) (st0 s : State) (fn : ParseFn) (b : Bool), Kept k st0 s →
      KeptO k st0 (parseFn h (n + 1) s fn b) := by
  intro k st0 s fn b hk
  unfold parseFn
  repeat' (first
    | with_reducible assumption
    | intro _
    | with_reducible apply ih.grouping
    | with_reducible apply ih.unary
    | with_reducible apply ih.binary
    | with_reducible apply ih.variable_
    | with_reducible apply ih.and_
    | with_reducible apply ih.or_
    | with_reducible apply ih.dot
    | with_reducible apply ih.this_
    | with_reducible apply ih.super_
    | with_reducible apply ih.call
    | with_reducible apply kept_number
    | with_reducible apply kept_literal
    | with_reducible apply kept_stringLiteral
    | with_reducible apply kept_errorAt
    | with_reducible apply kept_errorAtCurrent
    | with_reducible apply kept_errorAtPrevious
    | with_reducible apply kept_advance
    | with_reducible apply kept_consume
    | with_reducible apply kept_synchronize
    | with_reducible apply kept_setCurrentChunk
    | with_reducible apply kept_setCurrent
    | with_reducible apply kept_matchToken
    | with_reducible apply kept_matchIf
    | with_reducible apply kept_superclassCheck
    | (with_reducible refine kept_of_matchToken (by assumption) ?_)
    | (with_reducible refine kept_of_matchIf (by assumption) ?_)
    | with_reducible apply keptO_none
    | with_reducible apply keptP_none
    | with_reducible apply keptO_some
    | with_reducible apply keptO_pure
    | with_reducible apply keptP_some
    | with_reducible apply keptP_pure
    | with_reducible apply keptO_bind
    | with_reducible apply keptO_bindP
    | with_reducible apply keptP_bind
    | with_reducible apply keptP_bindP
    | with_reducible apply keptO_bindV
    | with_reducible apply keptP_bindV
    | dsimp only
    | split
    | apply kept_setClass
    | apply kept_setCirculation
    | apply kept_setVM
    | apply kept_setAt
    | apply kept_setAtVM
    | exact base_addConstant _ _ _ _ _ _ (by assumption)
    | exact base_copyString _ _ _ _ _ (by assumption)
    | exact base_store _ _ _
    | rfl)

theorem kept_expression_step (h : Host) (n : Nat) (ih : DescentKept h n) :
    ∀ (k : List Nat) (st0 s : State), Kept k st0 s →
      KeptO k st0 (expression h (n + 1) s) := by
  intro k st0 s  hk
  unfold expression
  repeat' (first
    | with_reducible assumption
    | intro _
    | with_reducible apply ih.parsePrecedence
    | with_reducible apply kept_errorAt
    | with_reducible apply kept_errorAtCurrent
    | with_reducible apply kept_errorAtPrevious
    | with_reducible apply kept_advance
    | with_reducible apply kept_consume
    | with_reducible apply kept_synchronize
    | with_reducible apply kept_setCurrentChunk
    | with_reducible apply kept_setCurrent
    | with_reducible apply kept_matchToken
    | with_reducible apply kept_matchIf
    | with_reducible apply kept_superclassCheck
    | (with_reducible refine kept_of_matchToken (by assumption) ?_)
    | (with_reducible refine kept_of_matchIf (by assumption) ?_)
    | with_reducible apply keptO_none
    | with_reducible apply keptP_none
    | with_reducible apply keptO_some
    | with_reducible apply keptO_pure
    | with_reducible apply keptP_some
    | with_reducible apply keptP_pure
    | with_reducible apply keptO_bind
    | with_reducible apply keptO_bindP
    | with_reducible apply keptP_bind
    | with_reducible apply keptP_bindP
    | with_reducible apply keptO_bindV
    | with_reducible apply keptP_bindV
    | dsimp only
    | split
    | apply kept_setClass
    | apply kept_setCirculation
    | apply kept_setVM
    | apply kept_setAt
    | apply kept_setAtVM
    | exact base_addConstant _ _ _ _ _ _ (by assumption)
    | exact base_copyString _ _ _ _ _ (by assumption)
    | exact base_store _ _ _
    | rfl)

theorem kept_grouping_step (h : Host) (n : Nat) (ih : DescentKept h n) :
    ∀ (k : List Nat) (st0 s : State) (b : Bool), Kept k st0 s →
      KeptO k st0 (grouping h (n + 1) s b) := by
  intro k st0 s b hk
  unfold grouping
  repeat' (first
    | with_reducible assumption
    | intro _
    | with_reducible apply ih.expression
    | with_reducible apply kept_errorAt
    | with_reducible apply kept_errorAtCurrent
    | with_reducible apply kept_errorAtPrevious
    | with_reducible apply kept_advance
    | with_reducible apply kept_consume
    | with_reducible apply kept_synchronize
    | with_reducible apply kept_setCurrentChunk
    | with_reducible apply kept_setCurrent
    | with_reducible apply kept_matchToken
    | with_reducible apply kept_matchIf
    | with_reducible apply kept_superclassCheck
    | (with_reducible refine kept_of_matchToken (by assumption) ?_)
    | (with_reducible refine kept_of_matchIf (by assumption) ?_)
    | with_reducible apply keptO_none
    | with_reducible apply keptP_none
    | with_reducible apply keptO_some
    | with_reducible apply keptO_pure
    | with_reducible apply keptP_some
    | with_reducible apply keptP_pure
    | with_reducible apply keptO_bind
    | with_reducible apply keptO_bindP
    | with_reducible apply keptP_bind
    | with_reducible apply keptP_bindP
    | with_reducible apply keptO_bindV
    | with_reducible apply keptP_bindV
    | dsimp only
    | split
    | apply kept_setClass
    | apply kept_setCirculation
    | apply kept_setVM
    | apply kept_setAt
    | apply kept_setAtVM
    | exact base_addConstant _ _ _ _ _ _ (by assumption)
    | exact base_copyString _ _ _ _ _ (by assumption)
    | exact base_store _ _ _
    | rfl)

theorem kept_unary_step (h : Host) (n : Nat) (ih : DescentKept h n) :
    ∀ (k : List Nat) (st0 s : State) (b : Bool), Kept k st0 s →
      KeptO k st0 (unary h (n + 1) s b) := by
  intro k st0 s b hk
  unfold unary
  repeat' (first
    | with_reducible assumption
    | intro _
    | with_reducible apply ih.parsePrecedence
    | with_reducible apply kept_emitByte
    | with_reducible apply kept_errorAt
    | with_reducible apply kept_errorAtCurrent
    | with_reducible apply kept_errorAtPrevious
    | with_reducible apply kept_advance
    | with_reducible apply kept_consume
    | with_reducible apply kept_synchronize
    | with_reducible apply kept_setCurrentChunk
    | with_reducible apply kept_setCurrent
    | with_reducible apply kept_matchToken
    | with_reducible apply kept_matchIf
    | with_reducible apply kept_superclassCheck
    | (with_reducible refine kept_of_matchToken (by assumption) ?_)
    | (with_reducible refine kept_of_matchIf (by assumption) ?_)
    | with_reducible apply keptO_none
    | with_reducible apply keptP_none
    | with_reducible apply keptO_some
    | with_reducible apply keptO_pure
    | with_reducible apply keptP_some
    | with_reducible apply keptP_pure
    | with_reducible apply keptO_bind
    | with_reducible apply keptO_bindP
    | with_reducible apply keptP_bind
    | with_reducible apply keptP_bindP
    | with_reducible apply keptO_bindV
    | with_reducible apply keptP_bindV
    | dsimp only
    | split
    | apply kept_setClass
    | apply kept_setCirculation
    | apply kept_setVM
    | apply kept_setAt
    | apply kept_setAtVM
    | exact base_addConstant _ _ _ _ _ _ (by assumption)
    | exact base_copyString _ _ _ _ _ (by assumption)
    | exact base_store _ _ _
    | rfl)

theorem kept_binary_step (h : Host) (n : Nat) (ih : DescentKept h n) :
    ∀ (k : List Nat) (st0 s : State) (b : Bool), Kept k st0 s →
      KeptO k st0 (binary h (n + 1) s b) := by
  intro k st0 s b hk
  unfold binary
  repeat' (first
    | with_reducible assumption
    | intro _
    | with_reducible apply ih.parsePrecedence
    | with_reducible apply ih.namedVariable
    | with_reducible apply kept_emitByte
    | with_reducible apply kept_errorAt
    | with_reducible apply kept_errorAtCurrent
    | with_reducible apply kept_errorAtPrevious
    | with_reducible apply kept_advance
    | with_reducible apply kept_consume
    | with_reducible apply kept_synchronize
    | with_reducible apply kept_setCurrentChunk
    | with_reducible apply kept_setCurrent
    | with_reducible apply kept_matchToken
    | with_reducible apply kept_matchIf
    | with_reducible apply kept_superclassCheck
    | (with_reducible refine kept_of_matchToken (by assumption) ?_)
    | (with_reducible refine kept_of_matchIf (by assumption) ?_)
    | with_reducible apply keptO_none
    | with_reducible apply keptP_none
    | with_reducible apply keptO_some
    | with_reducible apply keptO_pure
    | with_reducible apply keptP_some
    | with_reducible apply keptP_pure
    | with_reducible apply keptO_bind
    | with_reducible apply keptO_bindP
    | with_reducible apply keptP_bind
    | with_reducible apply keptP_bindP
    | with_reducible apply keptO_bindV
    | with_reducible apply keptP_bindV
    | dsimp only
    | split
    | apply kept_setClass
    | apply kept_setCirculation
    | apply kept_setVM
    | apply kept_setAt
    | apply kept_setAtVM
    | exact base_addConstant _ _ _ _ _ _ (by assumption)
    | exact base_copyString _ _ _ _ _ (by assumption)
    | exact base_store _ _ _
    | rfl)

theorem kept_namedVariableEmit_step (h : Host) (n : Nat) (ih : DescentKept h n) :
    ∀ (k : List Nat) (st0 s : State) (getOp : Nat) (setOp : Nat) (arg : Int) (b : Bool), Kept k st0 s →
      KeptO k st0 (namedVariableEmit h (n + 1) s getOp setOp arg b) := by
  intro k st0 s getOp setOp arg b hk
  unfold namedVariableEmit
  repeat' (first
    | with_reducible assumption
    | intro _
    | with_reducible apply ih.expression
    | with_reducible apply kept_emitBytes
    | with_reducible apply kept_errorAt
    | with_reducible apply kept_errorAtCurrent
    | with_reducible apply kept_errorAtPrevious
    | with_reducible apply kept_advance
    | with_reducible apply kept_consume
    | with_reducible apply kept_synchronize
    | with_reducible apply kept_setCurrentChunk
    | with_reducible apply kept_setCurrent
    | with_reducible apply kept_matchToken
    | with_reducible apply kept_matchIf
    | with_reducible apply kept_superclassCheck
    | (with_reducible refine kept_of_matchToken (by assumption) ?_)
    | (with_reducible refine kept_of_matchIf (by assumption) ?_)
    | with_reducible apply keptO_none
    | with_reducible apply keptP_none
    | with_reducible apply keptO_some
    | with_reducible apply keptO_pure
    | with_reducible apply keptP_some
    | with_reducible apply keptP_pure
    | with_reducible apply keptO_bind
    | with_reducible apply keptO_bindP
    | with_reducible apply keptP_bind
    | with_reducible apply keptP_bindP
    | with_reducible apply keptO_bindV
    | with_reducible apply keptP_bindV
    | dsimp only
    | split
    | apply kept_setClass
    | apply kept_setCirculation
    | apply kept_setVM
    | apply kept_setAt
    | apply kept_setAtVM
    | exact base_addConstant _ _ _ _ _ _ (by assumption)
    | exact base_copyString _ _ _ _ _ (by assumption)
    | exact base_store _ _ _
    | rfl)

theorem kept_namedVariable_step (h : Host) (n : Nat) (ih : DescentKept h n) :
    ∀ (k : List Nat) (st0 s : State) (name : Token) (b : Bool), Kept k st0 s →
      KeptO k st0 (namedVariable h (n + 1) s name b) := by
  intro k st0 s name b hk
  unfold namedVariable
  repeat' (first
    | with_reducible assumption
    | intro _
    | with_reducible apply ih.namedVariableEmit
    | with_reducible apply kept_identifierConstant
    | with_reducible apply kept_resolveLocal
    | with_reducible apply kept_resolveUpvalue
    | with_reducible apply kept_errorAt
    | with_reducible apply kept_errorAtCurrent
    | with_reducible apply kept_errorAtPrevious
    | with_reducible apply kept_advance
    | with_reducible apply kept_consume
    | with_reducible apply kept_synchronize
    | with_reducible apply kept_setCurrentChunk
    | with_reducible apply kept_setCurrent
    | with_reducible apply kept_matchToken
    | with_reducible apply kept_matchIf
    | with_reducible apply kept_superclassCheck
    | (with_reducible refine kept_of_matchToken (by assumption) ?_)
    | (with_reducible refine kept_of_matchIf (by assumption) ?_)
    | with_reducible apply keptO_none
    | with_reducible apply keptP_none
    | with_reducible apply keptO_some
    | with_reducible apply keptO_pure
    | with_reducible apply keptP_some
    | with_reducible apply keptP_pure
    | with_reducible apply keptO_bind
    | with_reducible apply keptO_bindP
    | with_reducible apply keptP_bind
    | with_reducible apply keptP_bindP
    | with_reducible apply keptO_bindV
    | with_reducible apply keptP_bindV
    | dsimp only
    | split
    | apply kept_setClass
    | apply kept_setCirculation
    | apply kept_setVM
    | apply kept_setAt
    | apply kept_setAtVM
    | exact base_addConstant _ _ _ _ _ _ (by assumption)
    | exact base_copyString _ _ _ _ _ (by assumption)
    | exact base_store _ _ _
    | rfl)

theorem kept_variable__step (h : Host) (n : Nat) (ih : DescentKept h n) :
    ∀ (k : List Nat) (st0 s : State) (b : Bool), Kept k st0 s →
      KeptO k st0 (variable_ h (n + 1) s b) := by
  intro k st0 s b hk
  unfold variable_
  repeat' (first
    | with_reducible assumption
    | intro _
    | with_reducible apply ih.namedVariable
    | with_reducible apply kept_errorAt
    | with_reducible apply kept_errorAtCurrent
    | with_reducible apply kept_errorAtPrevious
    | with_reducible apply kept_advance
    | with_reducible apply kept_consume
    | with_reducible apply kept_synchronize
    | with_reducible apply kept_setCurrentChunk
    | with_reducible apply kept_setCurrent
    | with_reducible apply kept_matchToken
    | with_reducible apply kept_matchIf
    | with_reducible apply kept_superclassCheck
    | (with_reducible refine kept_of_matchToken (by assumption) ?_)
    | (with_reducible refine kept_of_matchIf (by assumption) ?_)
    | with_reducible apply keptO_none
    | with_reducible apply keptP_none
    | with_reducible apply keptO_some
    | with_reducible apply keptO_pure
    | with_reducible apply keptP_some
    | with_reducible apply keptP_pure
    | with_reducible apply keptO_bind
    | with_reducible apply keptO_bindP
    | with_reducible apply keptP_bind
    | with_reducible apply keptP_bindP
    | with_reducible apply keptO_bindV
    | with_reducible apply keptP_bindV
    | dsimp only
    | split
    | apply kept_setClass
    | apply kept_setCirculation
    | apply kept_setVM
    | apply kept_setAt
    | apply kept_setAtVM
    | exact base_addConstant _ _ _ _ _ _ (by assumption)
    | exact base_copyString _ _ _ _ _ (by assumption)
    | exact base_store _ _ _
    | rfl)

theorem kept_and__step (h : Host) (n : Nat) (ih : DescentKept h n) :
    ∀ (k : List Nat) (st0 s : State) (b : Bool), Kept k st0 s →
      KeptO k st0 (and_ h (n + 1) s b) := by
  intro k st0 s b hk
  unfold and_
  repeat' (first
    | with_reducible assumption
    | intro _
    | with_reducible apply ih.parsePrecedence
    | with_reducible apply kept_emitByte
    | with_reducible apply kept_emitJump
    | with_reducible apply kept_patchJump
    | with_reducible apply kept_errorAt
    | with_reducible apply kept_errorAtCurrent
    | with_reducible apply kept_errorAtPrevious
    | with_reducible apply kept_advance
    | with_reducible apply kept_consume
    | with_reducible apply kept_synchronize
    | with_reducible apply kept_setCurrentChunk
    | with_reducible apply kept_setCurrent
    | with_reducible apply kept_matchToken
    | with_reducible apply kept_matchIf
    | with_reducible apply kept_superclassCheck
    | (with_reducible refine kept_of_matchToken (by assumption) ?_)
    | (with_reducible refine kept_of_matchIf (by assumption) ?_)
    | with_reducible apply keptO_none
    | with_reducible apply keptP_none
    | with_reducible apply keptO_some
    | with_reducible apply keptO_pure
    | with_reducible apply keptP_some
    | with_reducible apply keptP_pure
    | with_reducible apply keptO_bind
    | with_reducible apply keptO_bindP
    | with_reducible apply keptP_bind
    | with_reducible apply keptP_bindP
    | with_reducible apply keptO_bindV
    | with_reducible apply keptP_bindV
    | dsimp only
    | split
    | apply kept_setClass
    | apply kept_setCirculation
    | apply kept_setVM
    | apply kept_setAt
    | apply kept_setAtVM
    | exact base_addConstant _ _ _ _ _ _ (by assumption)
    | exact base_copyString _ _ _ _ _ (by assumption)
    | exact base_store _ _ _
    | rfl)

theorem kept_or__step (h : Host) (n : Nat) (ih : DescentKept h n) :
    ∀ (k : List Nat) (st0 s : State) (b : Bool), Kept k st0 s →
      KeptO k st0 (or_ h (n + 1) s b) := by
  intro k st0 s b hk
  unfold or_
  repeat' (first
    | with_reducible assumption
    | intro _
    | with_reducible apply ih.parsePrecedence
    | with_reducible apply ih.argumentList
    | with_reducible apply kept_emitByte
    | with_reducible apply kept_emitJump
    | with_reducible apply kept_patchJump
    | with_reducible apply kept_errorAt
    | with_reducible apply kept_errorAtCurrent
    | with_reducible apply kept_errorAtPrevious
    | with_reducible apply kept_advance
    | with_reducible apply kept_consume
    | with_reducible apply kept_synchronize
    | with_reducible apply kept_setCurrentChunk
    | with_reducible apply kept_setCurrent
    | with_reducible apply kept_matchToken
    | with_reducible apply kept_matchIf
    | with_reducible apply kept_superclassCheck
    | (with_reducible refine kept_of_matchToken (by assumption) ?_)
    | (with_reducible refine kept_of_matchIf (by assumption) ?_)
    | with_reducible apply keptO_none
    | with_reducible apply keptP_none
    | with_reducible apply keptO_some
    | with_reducible apply keptO_pure
    | with_reducible apply keptP_some
    | with_reducible apply keptP_pure
    | with_reducible apply keptO_bind
    | with_reducible apply keptO_bindP
    | with_reducible apply keptP_bind
    | with_reducible apply keptP_bindP
    | with_reducible apply keptO_bindV
    | with_reducible apply keptP_bindV
    | dsimp only
    | split
    | apply kept_setClass
    | apply kept_setCirculation
    | apply kept_setVM
    | apply kept_setAt
    | apply kept_setAtVM
    | exact base_addConstant _ _ _ _ _ _ (by assumption)
    | exact base_copyString _ _ _ _ _ (by assumption)
    | exact base_store _ _ _
    | rfl)

theorem kept_argumentListLoop_step (h : Host) (n : Nat) (ih : DescentKept h n) :
    ∀ (k : List Nat) (st0 s : State) (argCount : Nat), Kept k st0 s →
      KeptP k st0 (argumentListLoop h (n + 1) s argCount) := by
  intro k st0 s argCount hk
  unfold argumentListLoop
  repeat' (first
    | with_reducible assumption
    | intro _
    | with_reducible apply ih.expression
    | with_reducible apply ih.argumentListLoop
    | with_reducible apply kept_errorAt
    | with_reducible apply kept_errorAtCurrent
    | with_reducible apply kept_errorAtPrevious
    | with_reducible apply kept_advance
    | with_reducible apply kept_consume
    | with_reducible apply kept_synchronize
    | with_reducible apply kept_setCurrentChunk
    | with_reducible apply kept_setCurrent
    | with_reducible apply kept_matchToken
    | with_reducible apply kept_matchIf
    | with_reducible apply kept_superclassCheck
    | (with_reducible refine kept_of_matchToken (by assumption) ?_)
    | (with_reducible refine kept_of_matchIf (by assumption) ?_)
    | with_reducible apply keptO_none
    | with_reducible apply keptP_none
    | with_reducible apply keptO_some
    | with_reducible apply keptO_pure
    | with_reducible apply keptP_some
    | with_reducible apply keptP_pure
    | with_reducible apply keptO_bind
    | with_reducible apply keptO_bindP
    | with_reducible apply keptP_bind
    | with_reducible apply keptP_bindP
    | with_reducible apply keptO_bindV
    | with_reducible apply keptP_bindV
    | dsimp only
    | split
    | apply kept_setClass
    | apply kept_setCirculation
    | apply kept_setVM
    | apply kept_setAt
    | apply kept_setAtVM
    | exact base_addConstant _ _ _ _ _ _ (by assumption)
    | exact base_copyString _ _ _ _ _ (by assumption)
    | exact base_store _ _ _
    | rfl)

theorem kept_argumentList_step (h : Host) (n : Nat) (ih : DescentKept h n) :
    ∀ (k : List Nat) (st0 s : State), Kept k st0 s →
      KeptP k st0 (argumentList h (n + 1) s) := by
  intro k st0 s  hk
  unfold argumentList
  repeat' (first
    | with_reducible assumption
    | intro _
    | with_reducible apply ih.argumentListLoop
    | with_reducible apply kept_errorAt
    | with_reducible apply kept_errorAtCurrent
    | with_reducible apply kept_errorAtPrevious
    | with_reducible apply kept_advance
    | with_reducible apply kept_consume
    | with_reducible apply kept_synchronize
    | with_reducible apply kept_setCurrentChunk
    | with_reducible apply kept_setCurrent
    | with_reducible apply kept_matchToken
    | with_reducible apply kept_matchIf
    | with_reducible apply kept_superclassCheck
    | (with_reducible refine kept_of_matchToken (by assumption) ?_)
    | (with_reducible refine kept_of_matchIf (by assumption) ?_)
    | with_reducible apply keptO_none
    | with_reducible apply keptP_none
    | with_reducible apply keptO_some
    | with_reducible apply keptO_pure
    | with_reducible apply keptP_some
    | with_reducible apply keptP_pure
    | with_reducible apply keptO_bind
    | with_reducible apply keptO_bindP
    | with_reducible apply keptP_bind
    | with_reducible apply keptP_bindP
    | with_reducible apply keptO_bindV
    | with_reducible apply keptP_bindV
    | dsimp only
    | split
    | apply kept_setClass
    | apply kept_setCirculation
    | apply kept_setVM
    | apply kept_setAt
    | apply kept_setAtVM
    | exact base_addConstant _ _ _ _ _ _ (by assumption)
    | exact base_copyString _ _ _ _ _ (by assumption)
    | exact base_store _ _ _
    | rfl)

theorem kept_dot_step (h : Host) (n : Nat) (ih : DescentKept h n) :
    ∀ (k : List Nat) (st0 s : State) (b : Bool), Kept k st0 s →
      KeptO k st0 (dot h (n + 1) s b) := by
  intro k st0 s b hk
  unfold dot
  repeat' (first
    | with_reducible assumption
    | intro _
    | with_reducible apply ih.expression
    | with_reducible apply ih.argumentList
    | with_reducible apply kept_emitByte
    | with_reducible apply kept_emitBytes
    | with_reducible apply kept_identifierConstant
    | with_reducible apply kept_errorAt
    | with_reducible apply kept_errorAtCurrent
    | with_reducible apply kept_errorAtPrevious
    | with_reducible apply kept_advance
    | with_reducible apply kept_consume
    | with_reducible apply kept_synchronize
    | with_reducible apply kept_setCurrentChunk
    | with_reducible apply kept_setCurrent
    | with_reducible apply kept_matchToken
    | with_reducible apply kept_matchIf
    | with_reducible apply kept_superclassCheck
    | (with_reducible refine kept_of_matchToken (by assumption) ?_)
    | (with_reducible refine kept_of_matchIf (by assumption) ?_)
    | with_reducible apply keptO_none
    | with_reducible apply keptP_none
    | with_reducible apply keptO_some
    | with_reducible apply keptO_pure
    | with_reducible apply keptP_some
    | with_reducible apply keptP_pure
    | with_reducible apply keptO_bind
    | with_reducible apply keptO_bindP
    | with_reducible apply keptP_bind
    | with_reducible apply keptP_bindP
    | with_reducible apply keptO_bindV
    | with_reducible apply keptP_bindV
    | dsimp only
    | split
    | apply kept_setClass
    | apply kept_setCirculation
    | apply kept_setVM
    | apply kept_setAt
    | apply kept_setAtVM
    | exact base_addConstant _ _ _ _ _ _ (by assumption)
    | exact base_copyString _ _ _ _ _ (by assumption)
    | exact base_store _ _ _
    | rfl)

theorem kept_this__step (h : Host) (n : Nat) (ih : DescentKept h n) :
    ∀ (k : List Nat) (st0 s : State) (b : Bool), Kept k st0 s →
      KeptO k st0 (this_ h (n + 1) s b) := by
  intro k st0 s b hk
  unfold this_
  repeat' (first
    | with_reducible assumption
    | intro _
    | with_reducible apply ih.variable_
    | with_reducible apply kept_errorAt
    | with_reducible apply kept_errorAtCurrent
    | with_reducible apply kept_errorAtPrevious
    | with_reducible apply kept_advance
    | with_reducible apply kept_consume
    | with_reducible apply kept_synchronize
    | with_reducible apply kept_setCurrentChunk
    | with_reducible apply kept_setCurrent
    | with_reducible apply kept_matchToken
    | with_reducible apply kept_matchIf
    | with_reducible apply kept_superclassCheck
    | (with_reducible refine kept_of_matchToken (by assumption) ?_)
    | (with_reducible refine kept_of_matchIf (by assumption) ?_)
    | with_reducible apply keptO_none
    | with_reducible apply keptP_none
    | with_reducible apply keptO_some
    | with_reducible apply keptO_pure
    | with_reducible apply keptP_some
    | with_reducible apply keptP_pure
    | with_reducible apply keptO_bind
    | with_reducible apply keptO_bindP
    | with_reducible apply keptP_bind
    | with_reducible apply keptP_bindP
    | with_reducible apply keptO_bindV
    | with_reducible apply keptP_bindV
    | dsimp only
    | split
    | apply kept_setClass
    | apply kept_setCirculation
    | apply kept_setVM
    | apply kept_setAt
    | apply kept_setAtVM
    | exact base_addConstant _ _ _ _ _ _ (by assumption)
    | exact base_copyString _ _ _ _ _ (by assumption)
    | exact base_store _ _ _
    | rfl)

theorem kept_super__step (h : Host) (n : Nat) (ih : DescentKept h n) :
    ∀ (k : List Nat) (st0 s : State) (b : Bool), Kept k st0 s →
      KeptO k st0 (super_ h (n + 1) s b) := by
  intro k st0 s b hk
  unfold super_
  repeat' (first
    | with_reducible assumption
    | intro _
    | with_reducible apply ih.namedVariable
    | with_reducible apply ih.argumentList
    | with_reducible apply ih.call
    | with_reducible apply ih.method
    | with_reducible apply kept_emitByte
    | with_reducible apply kept_emitBytes
    | with_reducible apply kept_identifierConstant
    | with_reducible apply kept_errorAt
    | with_reducible apply kept_errorAtCurrent
    | with_reducible apply kept_errorAtPrevious
    | with_reducible apply kept_advance
    | with_reducible apply kept_consume
    | with_reducible apply kept_synchronize
    | with_reducible apply kept_setCurrentChunk
    | with_reducible apply kept_setCurrent
    | with_reducible apply kept_matchToken
    | with_reducible apply kept_matchIf
    | with_reducible apply kept_superclassCheck
    | (with_reducible refine kept_of_matchToken (by assumption) ?_)
    | (with_reducible refine kept_of_matchIf (by assumption) ?_)
    | with_reducible apply keptO_none
    | with_reducible apply keptP_none
    | with_reducible apply keptO_some
    | with_reducible apply keptO_pure
    | with_reducible apply keptP_some
    | with_reducible apply keptP_pure
    | with_reducible apply keptO_bind
    | with_reducible apply keptO_bindP
    | with_reducible apply keptP_bind
    | with_reducible apply keptP_bindP
    | with_reducible apply keptO_bindV
    | with_reducible apply keptP_bindV
    | dsimp only
    | split
    | apply kept_setClass
    | apply kept_setCirculation
    | apply kept_setVM
    | apply kept_setAt
    | apply kept_setAtVM
    | exact base_addConstant _ _ _ _ _ _ (by assumption)
    | exact base_copyString _ _ _ _ _ (by assumption)
    | exact base_store _ _ _
    | rfl)

theorem kept_call_step (h : Host) (n : Nat) (ih : DescentKept h n) :
    ∀ (k : List Nat) (st0 s : State) (b : Bool), Kept k st0 s →
      KeptO k st0 (call h (n + 1) s b) := by
  intro k st0 s b hk
  unfold call
  repeat' (first
    | with_reducible assumption
    | intro _
    | with_reducible apply ih.argumentList
    | with_reducible apply kept_emitBytes
    | with_reducible apply kept_errorAt
    | with_reducible apply kept_errorAtCurrent
    | with_reducible apply kept_errorAtPrevious
    | with_reducible apply kept_advance
    | with_reducible apply kept_consume
    | with_reducible apply kept_synchronize
    | with_reducible apply kept_setCurrentChunk
    | with_reducible apply kept_setCurrent
    | with_reducible apply kept_matchToken
    | with_reducible apply kept_matchIf
    | with_reducible apply kept_superclassCheck
    | (with_reducible refine kept_of_matchToken (by assumption) ?_)
    | (with_reducible refine kept_of_matchIf (by assumption) ?_)
    | with_reducible apply keptO_none
    | with_reducible apply keptP_none
    | with_reducible apply keptO_some
    | with_reducible apply keptO_pure
    | with_reducible apply keptP_some
    | with_reducible apply keptP_pure
    | with_reducible apply keptO_bind
    | with_reducible apply keptO_bindP
    | with_reducible apply keptP_bind
    | with_reducible apply keptP_bindP
    | with_reducible apply keptO_bindV
    | with_reducible apply keptP_bindV
    | dsimp only
    | split
    | apply kept_setClass
    | apply kept_setCirculation
    | apply kept_setVM
    | apply kept_setAt
    | apply kept_setAtVM
    | exact base_addConstant _ _ _ _ _ _ (by assumption)
    | exact base_copyString _ _ _ _ _ (by assumption)
    | exact base_store _ _ _
    | rfl)

theorem kept_declaration_step (h : Host) (n : Nat) (ih : DescentKept h n) :
    ∀ (k : List Nat) (st0 s : State), Kept k st0 s →
      KeptO k st0 (declaration h (n + 1) s) := by
  intro k st0 s  hk
  unfold declaration
  repeat' (first
    | with_reducible assumption
    | intro _
    | with_reducible apply ih.varDeclaration
    | with_reducible apply ih.funDeclaration
    | with_reducible apply ih.classDeclaration
    | with_reducible apply ih.statement
    | with_reducible apply kept_errorAt
    | with_reducible apply kept_errorAtCurrent
    | with_reducible apply kept_errorAtPrevious
    | with_reducible apply kept_advance
    | with_reducible apply kept_consume
    | with_reducible apply kept_synchronize
    | with_reducible apply kept_setCurrentChunk
    | with_reducible apply kept_setCurrent
    | with_reducible apply kept_matchToken
    | with_reducible apply kept_matchIf
    | with_reducible apply kept_superclassCheck
    | (with_reducible refine kept_of_matchToken (by assumption) ?_)
    | (with_reducible refine kept_of_matchIf (by assumption) ?_)
    | with_reducible apply keptO_none
    | with_reducible apply keptP_none
    | with_reducible apply keptO_some
    | with_reducible apply keptO_pure
    | with_reducible apply keptP_some
    | with_reducible apply keptP_pure
    | with_reducible apply keptO_bind
    | with_reducible apply keptO_bindP
    | with_reducible apply keptP_bind
    | with_reducible apply keptP_bindP
    | with_reducible apply keptO_bindV
    | with_reducible apply keptP_bindV
    | dsimp only
    | split
    | apply kept_setClass
    | apply kept_setCirculation
    | apply kept_setVM
    | apply kept_setAt
    | apply kept_setAtVM
    | exact base_addConstant _ _ _ _ _ _ (by assumption)
    | exact base_copyString _ _ _ _ _ (by assumption)
    | exact base_store _ _ _
    | rfl)

theorem kept_varDeclaration_step (h : Host) (n : Nat) (ih : DescentKept h n) :
    ∀ (k : List Nat) (st0 s : State), Kept k st0 s →
      KeptO k st0 (varDeclaration h (n + 1) s) := by
  intro k st0 s  hk
  unfold varDeclaration
  repeat' (first
    | with_reducible assumption
    | intro _
    | with_reducible apply ih.expression
    | with_reducible apply ih.declaration
    | with_reducible apply ih.parameters
    | with_reducible apply ih.function
    | with_reducible apply kept_emitByte
    | with_reducible apply kept_parseVariable
    | with_reducible apply kept_defineVariable
    | with_reducible apply kept_errorAt
    | with_reducible apply kept_errorAtCurrent
    | with_reducible apply kept_errorAtPrevious
    | with_reducible apply kept_advance
    | with_reducible apply kept_consume
    | with_reducible apply kept_synchronize
    | with_reducible apply kept_setCurrentChunk
    | with_reducible apply kept_setCurrent
    | with_reducible apply kept_matchToken
    | with_reducible apply kept_matchIf
    | with_reducible apply kept_superclassCheck
    | (with_reducible refine kept_of_matchToken (by assumption) ?_)
    | (with_reducible refine kept_of_matchIf (by assumption) ?_)
    | with_reducible apply keptO_none
    | with_reducible apply keptP_none
    | with_reducible apply keptO_some
    | with_reducible apply keptO_pure
    | with_reducible apply keptP_some
    | with_reducible apply keptP_pure
    | with_reducible apply keptO_bind
    | with_reducible apply keptO_bindP
    | with_reducible apply keptP_bind
    | with_reducible apply keptP_bindP
    | with_reducible apply keptO_bindV
    | with_reducible apply keptP_bindV
    | dsimp only
    | split
    | apply kept_setClass
    | apply kept_setCirculation
    | apply kept_setVM
    | apply kept_setAt
    | apply kept_setAtVM
    | exact base_addConstant _ _ _ _ _ _ (by assumption)
    | exact base_copyString _ _ _ _ _ (by assumption)
    | exact base_store _ _ _
    | rfl)

theorem kept_parameters_step (h : Host) (n : Nat) (ih : DescentKept h n) :
    ∀ (k : List Nat) (st0 s : State), Kept k st0 s →
      KeptO k st0 (parameters h (n + 1) s) := by
  intro k st0 s  hk
  unfold parameters
  repeat' (first
    | with_reducible assumption
    | intro _
    | with_reducible apply ih.parameters
    | with_reducible apply ih.function
    | with_reducible apply kept_parseVariable
    | with_reducible apply kept_defineVariable
    | with_reducible apply kept_errorAt
    | with_reducible apply kept_errorAtCurrent
    | with_reducible apply kept_errorAtPrevious
    | with_reducible apply kept_advance
    | with_reducible apply kept_consume
    | with_reducible apply kept_synchronize
    | with_reducible apply kept_setCurrentChunk
    | with_reducible apply kept_setCurrent
    | with_reducible apply kept_matchToken
    | with_reducible apply kept_matchIf
    | with_reducible apply kept_superclassCheck
    | (with_reducible refine kept_of_matchToken (by assumption) ?_)
    | (with_reducible refine kept_of_matchIf (by assumption) ?_)
    | with_reducible apply keptO_none
    | with_reducible apply keptP_none
    | with_reducible apply keptO_some
    | with_reducible apply keptO_pure
    | with_reducible apply keptP_some
    | with_reducible apply keptP_pure
    | with_reducible apply keptO_bind
    | with_reducible apply keptO_bindP
    | with_reducible apply keptP_bind
    | with_reducible apply keptP_bindP
    | with_reducible apply keptO_bindV
    | with_reducible apply keptP_bindV
    | dsimp only
    | split
    | apply kept_setClass
    | apply kept_setCirculation
    | apply kept_setVM
    | apply kept_setAt
    | apply kept_setAtVM
    | exact base_addConstant _ _ _ _ _ _ (by assumption)
    | exact base_copyString _ _ _ _ _ (by assumption)
    | exact base_store _ _ _
    | rfl)

theorem kept_function_step (h : Host) (n : Nat) (ih : DescentKept h n) :
    ∀ (k : List Nat) (st0 s : State) (type : FunctionType), Kept k st0 s →
      KeptO k st0 (function h (n + 1) s type) := by
  intro k st0 s type hk
  unfold function
  repeat' (first
    | with_reducible assumption
    | intro _
    | with_reducible apply ih.parameters
    | with_reducible apply ih.function
    | with_reducible apply ih.block
    | with_reducible apply kept_emitBytes
    | with_reducible apply kept_makeConstant
    | with_reducible apply kept_beginScope
    | with_reducible apply kept_emitUpvalues
    | with_reducible apply kept_initCompiler
    | with_reducible apply kept_endCompiler
    | with_reducible apply kept_errorAt
    | with_reducible apply kept_errorAtCurrent
    | with_reducible apply kept_errorAtPrevious
    | with_reducible apply kept_advance
    | with_reducible apply kept_consume
    | with_reducible apply kept_synchronize
    | with_reducible apply kept_setCurrentChunk
    | with_reducible apply kept_setCurrent
    | with_reducible apply kept_matchToken
    | with_reducible apply kept_matchIf
    | with_reducible apply kept_superclassCheck
    | (with_reducible refine kept_of_matchToken (by assumption) ?_)
    | (with_reducible refine kept_of_matchIf (by assumption) ?_)
    | with_reducible apply keptO_none
    | with_reducible apply keptP_none
    | with_reducible apply keptO_some
    | with_reducible apply keptO_pure
    | with_reducible apply keptP_some
    | with_reducible apply keptP_pure
    | with_reducible apply keptO_bind
    | with_reducible apply keptO_bindP
    | with_reducible apply keptP_bind
    | with_reducible apply keptP_bindP
    | with_reducible apply keptO_bindV
    | with_reducible apply keptP_bindV
    | dsimp only
    | split
    | apply kept_setClass
    | apply kept_setCirculation
    | apply kept_setVM
    | apply kept_setAt
    | apply kept_setAtVM
    | exact base_addConstant _ _ _ _ _ _ (by assumption)
    | exact base_copyString _ _ _ _ _ (by assumption)
    | exact base_store _ _ _
    | rfl)

theorem kept_funDeclaration_step (h : Host) (n : Nat) (ih : DescentKept h n) :
    ∀ (k : List Nat) (st0 s : State), Kept k st0 s →
      KeptO k st0 (funDeclaration h (n + 1) s) := by
  intro k st0 s  hk
  unfold funDeclaration
  repeat' (first
    | with_reducible assumption
    | intro _
    | with_reducible apply ih.function
    | with_reducible apply kept_parseVariable
    | with_reducible apply kept_markInitialized
    | with_reducible apply kept_defineVariable
    | with_reducible apply kept_errorAt
    | with_reducible apply kept_errorAtCurrent
    | with_reducible apply kept_errorAtPrevious
    | with_reducible apply kept_advance
    | with_reducible apply kept_consume
    | with_reducible apply kept_synchronize
    | with_reducible apply kept_setCurrentChunk
    | with_reducible apply kept_setCurrent
    | with_reducible apply kept_matchToken
    | with_reducible apply kept_matchIf
    | with_reducible apply kept_superclassCheck
    | (with_reducible refine kept_of_matchToken (by assumption) ?_)
    | (with_reducible refine kept_of_matchIf (by assumption) ?_)
    | with_reducible apply keptO_none
    | with_reducible apply keptP_none
    | with_reducible apply keptO_some
    | with_reducible apply keptO_pure
    | with_reducible apply keptP_some
    | with_reducible apply keptP_pure
    | with_reducible apply keptO_bind
    | with_reducible apply keptO_bindP
    | with_reducible apply keptP_bind
    | with_reducible apply keptP_bindP
    | with_reducible apply keptO_bindV
    | with_reducible apply keptP_bindV
    | dsimp only
    | split
    | apply kept_setClass
    | apply kept_setCirculation
    | apply kept_setVM
    | apply kept_setAt
    | apply kept_setAtVM
    | exact base_addConstant _ _ _ _ _ _ (by assumption)
    | exact base_copyString _ _ _ _ _ (by assumption)
    | exact base_store _ _ _
    | rfl)

theorem kept_method_step (h : Host) (n : Nat) (ih : DescentKept h n) :
    ∀ (k : List Nat) (st0 s : State), Kept k st0 s →
      KeptO k st0 (method h (n + 1) s) := by
  intro k st0 s  hk
  unfold method
  repeat' (first
    | with_reducible assumption
    | intro _
    | with_reducible apply ih.function
    | with_reducible apply ih.method
    | with_reducible apply ih.methods
    | with_reducible apply ih.classDeclaration
    | with_reducible apply kept_emitBytes
    | with_reducible apply kept_identifierConstant
    | with_reducible apply kept_errorAt
    | with_reducible apply kept_errorAtCurrent
    | with_reducible apply kept_errorAtPrevious
    | with_reducible apply kept_advance
    | with_reducible apply kept_consume
    | with_reducible apply kept_synchronize
    | with_reducible apply kept_setCurrentChunk
    | with_reducible apply kept_setCurrent
    | with_reducible apply kept_matchToken
    | with_reducible apply kept_matchIf
    | with_reducible apply kept_superclassCheck
    | (with_reducible refine kept_of_matchToken (by assumption) ?_)
    | (with_reducible refine kept_of_matchIf (by assumption) ?_)
    | with_reducible apply keptO_none
    | with_reducible apply keptP_none
    | with_reducible apply keptO_some
    | with_reducible apply keptO_pure
    | with_reducible apply keptP_some
    | with_reducible apply keptP_pure
    | with_reducible apply keptO_bind
    | with_reducible apply keptO_bindP
    | with_reducible apply keptP_bind
    | with_reducible apply keptP_bindP
    | with_reducible apply keptO_bindV
    | with_reducible apply keptP_bindV
    | dsimp only
    | split
    | apply kept_setClass
    | apply kept_setCirculation
    | apply kept_setVM
    | apply kept_setAt
    | apply kept_setAtVM
    | exact base_addConstant _ _ _ _ _ _ (by assumption)
    | exact base_copyString _ _ _ _ _ (by assumption)
    | exact base_store _ _ _
    | rfl)

theorem kept_methods_step (h : Host) (n : Nat) (ih : DescentKept h n) :
    ∀ (k : List Nat) (st0 s : State), Kept k st0 s →
      KeptO k st0 (methods h (n + 1) s) := by
  intro k st0 s  hk
  unfold methods
  repeat' (first
    | with_reducible assumption
    | intro _
    | with_reducible apply ih.method
    | with_reducible apply ih.methods
    | with_reducible apply kept_errorAt
    | with_reducible apply kept_errorAtCurrent
    | with_reducible apply kept_errorAtPrevious
    | with_reducible apply kept_advance
    | with_reducible apply kept_consume
    | with_reducible apply kept_synchronize
    | with_reducible apply kept_setCurrentChunk
    | with_reducible apply kept_setCurrent
    | with_reducible apply kept_matchToken
    | with_reducible apply kept_matchIf
    | with_reducible apply kept_superclassCheck
    | (with_reducible refine kept_of_matchToken (by assumption) ?_)
    | (with_reducible refine kept_of_matchIf (by assumption) ?_)
    | with_reducible apply keptO_none
    | with_reducible apply keptP_none
    | with_reducible apply keptO_some
    | with_reducible apply keptO_pure
    | with_reducible apply keptP_some
    | with_reducible apply keptP_pure
    | with_reducible apply keptO_bind
    | with_reducible apply keptO_bindP
    | with_reducible apply keptP_bind
    | with_reducible apply keptP_bindP
    | with_reducible apply keptO_bindV
    | with_reducible apply keptP_bindV
    | dsimp only
    | split
    | apply kept_setClass
    | apply kept_setCirculation
    | apply kept_setVM
    | apply kept_setAt
    | apply kept_setAtVM
    | exact base_addConstant _ _ _ _ _ _ (by assumption)
    | exact base_copyString _ _ _ _ _ (by assumption)
    | exact base_store _ _ _
    | rfl)

theorem kept_classDeclaration_step (h : Host) (n : Nat) (ih : DescentKept h n) :
    ∀ (k : List Nat) (st0 s : State), Kept k st0 s →
      KeptO k st0 (classDeclaration h (n + 1) s) := by
  intro k st0 s  hk
  unfold classDeclaration
  repeat' (first
    | with_reducible assumption
    | intro _
    | with_reducible apply ih.namedVariable
    | with_reducible apply ih.variable_
    | with_reducible apply ih.methods
    | with_reducible apply kept_emitByte
    | with_reducible apply kept_emitBytes
    | with_reducible apply kept_identifierConstant
    | with_reducible apply kept_addLocal
    | with_reducible apply kept_declareVariable
    | with_reducible apply kept_defineVariable
    | with_reducible apply kept_beginScope
    | with_reducible apply kept_endScope
    | with_reducible apply kept_errorAt
    | with_reducible apply kept_errorAtCurrent
    | with_reducible apply kept_errorAtPrevious
    | with_reducible apply kept_advance
    | with_reducible apply kept_consume
    | with_reducible apply kept_synchronize
    | with_reducible apply kept_setCurrentChunk
    | with_reducible apply kept_setCurrent
    | with_reducible apply kept_matchToken
    | with_reducible apply kept_matchIf
    | with_reducible apply kept_superclassCheck
    | (with_reducible refine kept_of_matchToken (by assumption) ?_)
    | (with_reducible refine kept_of_matchIf (by assumption) ?_)
    | with_reducible apply keptO_none
    | with_reducible apply keptP_none
    | with_reducible apply keptO_some
    | with_reducible apply keptO_pure
    | with_reducible apply keptP_some
    | with_reducible apply keptP_pure
    | with_reducible apply keptO_bind
    | with_reducible apply keptO_bindP
    | with_reducible apply keptP_bind
    | with_reducible apply keptP_bindP
    | with_reducible apply keptO_bindV
    | with_reducible apply keptP_bindV
    | dsimp only
    | split
    | apply kept_setClass
    | apply kept_setCirculation
    | apply kept_setVM
    | apply kept_setAt
    | apply kept_setAtVM
    | exact base_addConstant _ _ _ _ _ _ (by assumption)
    | exact base_copyString _ _ _ _ _ (by assumption)
    | exact base_store _ _ _
    | rfl)

theorem kept_statement_step (h : Host) (n : Nat) (ih : DescentKept h n) :
    ∀ (k : List Nat) (st0 s : State), Kept k st0 s →
      KeptO k st0 (statement h (n + 1) s) := by
  intro k st0 s  hk
  unfold statement
  repeat' (first
    | with_reducible assumption
    | intro _
    | with_reducible apply ih.printStatement
    | with_reducible apply ih.expressionStatement
    | with_reducible apply ih.block
    | with_reducible apply ih.ifStatement
    | with_reducible apply ih.whileStatement
    | with_reducible apply ih.forStatement
    | with_reducible apply ih.returnStatement
    | with_reducible apply kept_beginScope
    | with_reducible apply kept_endScope
    | with_reducible apply kept_breakStatement
    | with_reducible apply kept_continueStatement
    | with_reducible apply kept_errorAt
    | with_reducible apply kept_errorAtCurrent
    | with_reducible apply kept_errorAtPrevious
    | with_reducible apply kept_advance
    | with_reducible apply kept_consume
    | with_reducible apply kept_synchronize
    | with_reducible apply kept_setCurrentChunk
    | with_reducible apply kept_setCurrent
    | with_reducible apply kept_matchToken
    | with_reducible apply kept_matchIf
    | with_reducible apply kept_superclassCheck
    | (with_reducible refine kept_of_matchToken (by assumption) ?_)
    | (with_reducible refine kept_of_matchIf (by assumption) ?_)
    | with_reducible apply keptO_none
    | with_reducible apply keptP_none
    | with_reducible apply keptO_some
    | with_reducible apply keptO_pure
    | with_reducible apply keptP_some
    | with_reducible apply keptP_pure
    | with_reducible apply keptO_bind
    | with_reducible apply keptO_bindP
    | with_reducible apply keptP_bind
    | with_reducible apply keptP_bindP
    | with_reducible apply keptO_bindV
    | with_reducible apply keptP_bindV
    | dsimp only
    | split
    | apply kept_setClass
    | apply kept_setCirculation
    | apply kept_setVM
    | apply kept_setAt
    | apply kept_setAtVM
    | exact base_addConstant _ _ _ _ _ _ (by assumption)
    | exact base_copyString _ _ _ _ _ (by assumption)
    | exact base_store _ _ _
    | rfl)

theorem kept_printStatement_step (h : Host) (n : Nat) (ih : DescentKept h n) :
    ∀ (k : List Nat) (st0 s : State), Kept k st0 s →
      KeptO k st0 (printStatement h (n + 1) s) := by
  intro k st0 s  hk
  unfold printStatement
  repeat' (first
    | with_reducible assumption
    | intro _
    | with_reducible apply ih.expression
    | with_reducible apply kept_emitByte
    | with_reducible apply kept_errorAt
    | with_reducible apply kept_errorAtCurrent
    | with_reducible apply kept_errorAtPrevious
    | with_reducible apply kept_advance
    | with_reducible apply kept_consume
    | with_reducible apply kept_synchronize
    | with_reducible apply kept_setCurrentChunk
    | with_reducible apply kept_setCurrent
    | with_reducible apply kept_matchToken
    | with_reducible apply kept_matchIf
    | with_reducible apply kept_superclassCheck
    | (with_reducible refine kept_of_matchToken (by assumption) ?_)
    | (with_reducible refine kept_of_matchIf (by assumption) ?_)
    | with_reducible apply keptO_none
    | with_reducible apply keptP_none
    | with_reducible apply keptO_some
    | with_reducible apply keptO_pure
    | with_reducible apply keptP_some
    | with_reducible apply keptP_pure
    | with_reducible apply keptO_bind
    | with_reducible apply keptO_bindP
    | with_reducible apply keptP_bind
    | with_reducible apply keptP_bindP
    | with_reducible apply keptO_bindV
    | with_reducible apply keptP_bindV
    | dsimp only
    | split
    | apply kept_setClass
    | apply kept_setCirculation
    | apply kept_setVM
    | apply kept_setAt
    | apply kept_setAtVM
    | exact base_addConstant _ _ _ _ _ _ (by assumption)
    | exact base_copyString _ _ _ _ _ (by assumption)
    | exact base_store _ _ _
    | rfl)

theorem kept_expressionStatement_step (h : Host) (n : Nat) (ih : DescentKept h n) :
    ∀ (k : List Nat) (st0 s : State), Kept k st0 s →
      KeptO k st0 (expressionStatement h (n + 1) s) := by
  intro k st0 s  hk
  unfold expressionStatement
  repeat' (first
    | with_reducible assumption
    | intro _
    | with_reducible apply ih.expression
    | with_reducible apply ih.block
    | with_reducible apply kept_emitByte
    | with_reducible apply kept_errorAt
    | with_reducible apply kept_errorAtCurrent
    | with_reducible apply kept_errorAtPrevious
    | with_reducible apply kept_advance
    | with_reducible apply kept_consume
    | with_reducible apply kept_synchronize
    | with_reducible apply kept_setCurrentChunk
    | with_reducible apply kept_setCurrent
    | with_reducible apply kept_matchToken
    | with_reducible apply kept_matchIf
    | with_reducible apply kept_superclassCheck
    | (with_reducible refine kept_of_matchToken (by assumption) ?_)
    | (with_reducible refine kept_of_matchIf (by assumption) ?_)
    | with_reducible apply keptO_none
    | with_reducible apply keptP_none
    | with_reducible apply keptO_some
    | with_reducible apply keptO_pure
    | with_reducible apply keptP_some
    | with_reducible apply keptP_pure
    | with_reducible apply keptO_bind
    | with_reducible apply keptO_bindP
    | with_reducible apply keptP_bind
    | with_reducible apply keptP_bindP
    | with_reducible apply keptO_bindV
    | with_reducible apply keptP_bindV
    | dsimp only
    | split
    | apply kept_setClass
    | apply kept_setCirculation
    | apply kept_setVM
    | apply kept_setAt
    | apply kept_setAtVM
    | exact base_addConstant _ _ _ _ _ _ (by assumption)
    | exact base_copyString _ _ _ _ _ (by assumption)
    | exact base_store _ _ _
    | rfl)

theorem kept_blockLoop_step (h : Host) (n : Nat) (ih : DescentKept h n) :
    ∀ (k : List Nat) (st0 s : State), Kept k st0 s →
      KeptO k st0 (blockLoop h (n + 1) s) := by
  intro k st0 s  hk
  unfold blockLoop
  repeat' (first
    | with_reducible assumption
    | intro _
    | with_reducible apply ih.declaration
    | with_reducible apply ih.blockLoop
    | with_reducible apply kept_errorAt
    | with_reducible apply kept_errorAtCurrent
    | with_reducible apply kept_errorAtPrevious
    | with_reducible apply kept_advance
    | with_reducible apply kept_consume
    | with_reducible apply kept_synchronize
    | with_reducible apply kept_setCurrentChunk
    | with_reducible apply kept_setCurrent
    | with_reducible apply kept_matchToken
    | with_reducible apply kept_matchIf
    | with_reducible apply kept_superclassCheck
    | (with_reducible refine kept_of_matchToken (by assumption) ?_)
    | (with_reducible refine kept_of_matchIf (by assumption) ?_)
    | with_reducible apply keptO_none
    | with_reducible apply keptP_none
    | with_reducible apply keptO_some
    | with_reducible apply keptO_pure
    | with_reducible apply keptP_some
    | with_reducible apply keptP_pure
    | with_reducible apply keptO_bind
    | with_reducible apply keptO_bindP
    | with_reducible apply keptP_bind
    | with_reducible apply keptP_bindP
    | with_reducible apply keptO_bindV
    | with_reducible apply keptP_bindV
    | dsimp only
    | split
    | apply kept_setClass
    | apply kept_setCirculation
    | apply kept_setVM
    | apply kept_setAt
    | apply kept_setAtVM
    | exact base_addConstant _ _ _ _ _ _ (by assumption)
    | exact base_copyString _ _ _ _ _ (by assumption)
    | exact base_store _ _ _
    | rfl)

theorem kept_block_step (h : Host) (n : Nat) (ih : DescentKept h n) :
    ∀ (k : List Nat) (st0 s : State), Kept k st0 s →
      KeptO k st0 (block h (n + 1) s) := by
  intro k st0 s  hk
  unfold block
  repeat' (first
    | with_reducible assumption
    | intro _
    | with_reducible apply ih.blockLoop
    | with_reducible apply ih.block
    | with_reducible apply kept_errorAt
    | with_reducible apply kept_errorAtCurrent
    | with_reducible apply kept_errorAtPrevious
    | with_reducible apply kept_advance
    | with_reducible apply kept_consume
    | with_reducible apply kept_synchronize
    | with_reducible apply kept_setCurrentChunk
    | with_reducible apply kept_setCurrent
    | with_reducible apply kept_matchToken
    | with_reducible apply kept_matchIf
    | with_reducible apply kept_superclassCheck
    | (with_reducible refine kept_of_matchToken (by assumption) ?_)
    | (with_reducible refine kept_of_matchIf (by assumption) ?_)
    | with_reducible apply keptO_none
    | with_reducible apply keptP_none
    | with_reducible apply keptO_some
    | with_reducible apply keptO_pure
    | with_reducible apply keptP_some
    | with_reducible apply keptP_pure
    | with_reducible apply keptO_bind
    | with_reducible apply keptO_bindP
    | with_reducible apply keptP_bind
    | with_reducible apply keptP_bindP
    | with_reducible apply keptO_bindV
    | with_reducible apply keptP_bindV
    | dsimp only
    | split
    | apply kept_setClass
    | apply kept_setCirculation
    | apply kept_setVM
    | apply kept_setAt
    | apply kept_setAtVM
    | exact base_addConstant _ _ _ _ _ _ (by assumption)
    | exact base_copyString _ _ _ _ _ (by assumption)
    | exact base_store _ _ _
    | rfl)

theorem kept_ifStatement_step (h : Host) (n : Nat) (ih : DescentKept h n) :
    ∀ (k : List Nat) (st0 s : State), Kept k st0 s →
      KeptO k st0 (ifStatement h (n + 1) s) := by
  intro k st0 s  hk
  unfold ifStatement
  repeat' (first
    | with_reducible assumption
    | intro _
    | with_reducible apply ih.expression
    | with_reducible apply ih.statement
    | with_reducible apply kept_emitByte
    | with_reducible apply kept_emitJump
    | with_reducible apply kept_patchJump
    | with_reducible apply kept_errorAt
    | with_reducible apply kept_errorAtCurrent
    | with_reducible apply kept_errorAtPrevious
    | with_reducible apply kept_advance
    | with_reducible apply kept_consume
    | with_reducible apply kept_synchronize
    | with_reducible apply kept_setCurrentChunk
    | with_reducible apply kept_setCurrent
    | with_reducible apply kept_matchToken
    | with_reducible apply kept_matchIf
    | with_reducible apply kept_superclassCheck
    | (with_reducible refine kept_of_matchToken (by assumption) ?_)
    | (with_reducible refine kept_of_matchIf (by assumption) ?_)
    | with_reducible apply keptO_none
    | with_reducible apply keptP_none
    | with_reducible apply keptO_some
    | with_reducible apply keptO_pure
    | with_reducible apply keptP_some
    | with_reducible apply keptP_pure
    | with_reducible apply keptO_bind
    | with_reducible apply keptO_bindP
    | with_reducible apply keptP_bind
    | with_reducible apply keptP_bindP
    | with_reducible apply keptO_bindV
    | with_reducible apply keptP_bindV
    | dsimp only
    | split
    | apply kept_setClass
    | apply kept_setCirculation
    | apply kept_setVM
    | apply kept_setAt
    | apply kept_setAtVM
    | exact base_addConstant _ _ _ _ _ _ (by assumption)
    | exact base_copyString _ _ _ _ _ (by assumption)
    | exact base_store _ _ _
    | rfl)

theorem kept_whileStatement_step (h : Host) (n : Nat) (ih : DescentKept h n) :
    ∀ (k : List Nat) (st0 s : State), Kept k st0 s →
      KeptO k st0 (whileStatement h (n + 1) s) := by
  intro k st0 s  hk
  unfold whileStatement
  repeat' (first
    | with_reducible assumption
    | intro _
    | with_reducible apply ih.expression
    | with_reducible apply ih.statement
    | with_reducible apply kept_emitByte
    | with_reducible apply kept_emitJump
    | with_reducible apply kept_patchJump
    | with_reducible apply kept_emitLoop
    | with_reducible apply kept_patchBreaks
    | with_reducible apply kept_errorAt
    | with_reducible apply kept_errorAtCurrent
    | with_reducible apply kept_errorAtPrevious
    | with_reducible apply kept_advance
    | with_reducible apply kept_consume
    | with_reducible apply kept_synchronize
    | with_reducible apply kept_setCurrentChunk
    | with_reducible apply kept_setCurrent
    | with_reducible apply kept_matchToken
    | with_reducible apply kept_matchIf
    | with_reducible apply kept_superclassCheck
    | (with_reducible refine kept_of_matchToken (by assumption) ?_)
    | (with_reducible refine kept_of_matchIf (by assumption) ?_)
    | with_reducible apply keptO_none
    | with_reducible apply keptP_none
    | with_reducible apply keptO_some
    | with_reducible apply keptO_pure
    | with_reducible apply keptP_some
    | with_reducible apply keptP_pure
    | with_reducible apply keptO_bind
    | with_reducible apply keptO_bindP
    | with_reducible apply keptP_bind
    | with_reducible apply keptP_bindP
    | with_reducible apply keptO_bindV
    | with_reducible apply keptP_bindV
    | dsimp only
    | split
    | apply kept_setClass
    | apply kept_setCirculation
    | apply kept_setVM
    | apply kept_setAt
    | apply kept_setAtVM
    | exact base_addConstant _ _ _ _ _ _ (by assumption)
    | exact base_copyString _ _ _ _ _ (by assumption)
    | exact base_store _ _ _
    | rfl)

theorem kept_forStatement_step (h : Host) (n : Nat) (ih : DescentKept h n) :
    ∀ (k : List Nat) (st0 s : State), Kept k st0 s →
      KeptO k st0 (forStatement h (n + 1) s) := by
  intro k st0 s  hk
  unfold forStatement
  repeat' (first
    | with_reducible assumption
    | intro _
    | with_reducible apply ih.expression
    | with_reducible apply ih.varDeclaration
    | with_reducible apply ih.statement
    | with_reducible apply ih.expressionStatement
    | with_reducible apply kept_emitByte
    | with_reducible apply kept_emitJump
    | with_reducible apply kept_patchJump
    | with_reducible apply kept_emitLoop
    | with_reducible apply kept_beginScope
    | with_reducible apply kept_patchBreaks
    | with_reducible apply kept_errorAt
    | with_reducible apply kept_errorAtCurrent
    | with_reducible apply kept_errorAtPrevious
    | with_reducible apply kept_advance
    | with_reducible apply kept_consume
    | with_reducible apply kept_synchronize
    | with_reducible apply kept_setCurrentChunk
    | with_reducible apply kept_setCurrent
    | with_reducible apply kept_matchToken
    | with_reducible apply kept_matchIf
    | with_reducible apply kept_superclassCheck
    | (with_reducible refine kept_of_matchToken (by assumption) ?_)
    | (with_reducible refine kept_of_matchIf (by assumption) ?_)
    | with_reducible apply keptO_none
    | with_reducible apply keptP_none
    | with_reducible apply keptO_some
    | with_reducible apply keptO_pure
    | with_reducible apply keptP_some
    | with_reducible apply keptP_pure
    | with_reducible apply keptO_bind
    | with_reducible apply keptO_bindP
    | with_reducible apply keptP_bind
    | with_reducible apply keptP_bindP
    | with_reducible apply keptO_bindV
    | with_reducible apply keptP_bindV
    | dsimp only
    | split
    | apply kept_setClass
    | apply kept_setCirculation
    | apply kept_setVM
    | apply kept_setAt
    | apply kept_setAtVM
    | exact base_addConstant _ _ _ _ _ _ (by assumption)
    | exact base_copyString _ _ _ _ _ (by assumption)
    | exact base_store _ _ _
    | rfl)

theorem kept_returnStatement_step (h : Host) (n : Nat) (ih : DescentKept h n) :
    ∀ (k : List Nat) (st0 s : State), Kept k st0 s →
      KeptO k st0 (returnStatement h (n + 1) s) := by
  intro k st0 s  hk
  unfold returnStatement
  repeat' (first
    | with_reducible assumption
    | intro _
    | with_reducible apply ih.expression
    | with_reducible apply kept_emitByte
    | with_reducible apply kept_emitReturn
    | with_reducible apply kept_errorAt
    | with_reducible apply kept_errorAtCurrent
    | with_reducible apply kept_errorAtPrevious
    | with_reducible apply kept_advance
    | with_reducible apply kept_consume
    | with_reducible apply kept_synchronize
    | with_reducible apply kept_setCurrentChunk
    | with_reducible apply kept_setCurrent
    | with_reducible apply kept_matchToken
    | with_reducible apply kept_matchIf
    | with_reducible apply kept_superclassCheck
    | (with_reducible refine kept_of_matchToken (by assumption) ?_)
    | (with_reducible refine kept_of_matchIf (by assumption) ?_)
    | with_reducible apply keptO_none
    | with_reducible apply keptP_none
    | with_reducible apply keptO_some
    | with_reducible apply keptO_pure
    | with_reducible apply keptP_some
    | with_reducible apply keptP_pure
    | with_reducible apply keptO_bind
    | with_reducible apply keptO_bindP
    | with_reducible apply keptP_bind
    | with_reducible apply keptP_bindP
    | with_reducible apply keptO_bindV
    | with_reducible apply keptP_bindV
    | dsimp only
    | split
    | apply kept_setClass
    | apply kept_setCirculation
    | apply kept_setVM
    | apply kept_setAt
    | apply kept_setAtVM
    | exact base_addConstant _ _ _ _ _ _ (by assumption)
    | exact base_copyString _ _ _ _ _ (by assumption)
    | exact base_store _ _ _
    | rfl)

/-- Every function of the recursive descent leaves the chain of compilers as it
found it, leaves the stack and the call frames of the VM alone, and keeps the
error flag in agreement with the diagnostics. -/
theorem kept_descent (h : Host) : ∀ (fuel : Nat), DescentKept h fuel := by
  intro fuel
  induction fuel with
  | zero =>
    constructor
    · intros; unfold parsePrecedence; exact keptO_none
    · intros; unfold parsePrecedenceLoop; exact keptO_none
    · intros; unfold parseFn; exact keptO_none
    · intros; unfold expression; exact keptO_none
    · intros; unfold grouping; exact keptO_none
    · intros; unfold unary; exact keptO_none
    · intros; unfold binary; exact keptO_none
    · intros; unfold namedVariableEmit; exact keptO_none
    · intros; unfold namedVariable; exact keptO_none
    · intros; unfold variable_; exact keptO_none
    · intros; unfold and_; exact keptO_none
    · intros; unfold or_; exact keptO_none
    · intros; unfold argumentListLoop; exact keptP_none
    · intros; unfold argumentList; exact keptP_none
    · intros; unfold dot; exact keptO_none
    · intros; unfold this_; exact keptO_none
    · intros; unfold super_; exact keptO_none
    · intros; unfold call; exact keptO_none
    · intros; unfold declaration; exact keptO_none
    · intros; unfold varDeclaration; exact keptO_none
    · intros; unfold parameters; exact keptO_none
    · intros; unfold function; exact keptO_none
    · intros; unfold funDeclaration; exact keptO_none
    · intros; unfold method; exact keptO_none
    · intros; unfold methods; exact keptO_none
    · intros; unfold classDeclaration; exact keptO_none
    · intros; unfold statement; exact keptO_none
    · intros; unfold printStatement; exact keptO_none
    · intros; unfold expressionStatement; exact keptO_none
    · intros; unfold blockLoop; exact keptO_none
    · intros; unfold block; exact keptO_none
    · intros; unfold ifStatement; exact keptO_none
    · intros; unfold whileStatement; exact keptO_none
    · intros; unfold forStatement; exact keptO_none
    · intros; unfold returnStatement; exact keptO_none
  | succ n ih =>
    exact ⟨kept_parsePrecedence_step h n ih,
      kept_parsePrecedenceLoop_step h n ih,
      kept_parseFn_step h n ih,
      kept_expression_step h n ih,
      kept_grouping_step h n ih,
      kept_unary_step h n ih,
      kept_binary_step h n ih,
      kept_namedVariableEmit_step h n ih,
      kept_namedVariable_step h n ih,
      kept_variable__step h n ih,
      kept_and__step h n ih,
      kept_or__step h n ih,
      kept_argumentListLoop_step h n ih,
      kept_argumentList_step h n ih,
      kept_dot_step h n ih,
      kept_this__step h n ih,
      kept_super__step h n ih,
      kept_call_step h n ih,
      kept_declaration_step h n ih,
      kept_varDeclaration_step h n ih,
      kept_parameters_step h n ih,
      kept_function_step h n ih,
      kept_funDeclaration_step h n ih,
      kept_method_step h n ih,
      kept_methods_step h n ih,
      kept_classDeclaration_step h n ih,
      kept_statement_step h n ih,
      kept_printStatement_step h n ih,
      kept_expressionStatement_step h n ih,
      kept_blockLoop_step h n ih,
      kept_block_step h n ih,
      kept_ifStatement_step h n ih,
      kept_whileStatement_step h n ih,
      kept_forStatement_step h n ih,
      kept_returnStatement_step h n ih⟩

/-! ### `compile` and `interpret` -/

theorem kept_compileLoop (h : Host) (fuel : Nat) :
    ∀ (k : List Nat) (st0 s : State), Kept k st0 s → KeptO k st0 (compileLoop h fuel s) := by
  induction fuel with
  | zero => intro k st0 s _; unfold compileLoop; exact keptO_none
  | succ n ih =>
    intro k st0 s hk
    unfold compileLoop
    dsimp only
    split
    · exact keptO_some (kept_matchToken _ hk)
    · exact keptO_bind ((kept_descent h n).declaration _ _ _ (kept_matchToken _ hk))
        (fun s2 h2 => ih _ _ s2 h2)

/-- The body of `compile`: the function returned is the one that
`initCompiler` made for the script, and the state reached is related to the
starting state by `Kept`. -/
theorem compileRun_spec (h : Host) (fuel : Nat) (vm : VM) (source : List Nat) (fn : Nat)
    (st : State) (hc : compileRun h fuel vm source = some (fn, st)) :
    fn = (vm.newFunction).1 ∧ Kept [] (compileStart vm source) st := by
  unfold compileRun at hc
  simp only [Option.bind_eq_bind, Option.bind_eq_some, Option.pure_def, Option.some.injEq,
    Prod.mk.injEq, Prod.exists] at hc
  obtain ⟨s1, hi, s2, hl, f, c, s3, he, hf, hs⟩ := hc
  have h1 := (kept_initCompiler FunctionType.TYPE_SCRIPT (Kept.refl (compileStart vm source))).kept s1 hi
  have h2 := (kept_compileLoop h fuel _ _ _ (kept_advance h1)).kept s2 hl
  have h3 := endCompiler_spec h (kept_consume TOKEN_EOF "Expect end of expression." h2) he
  subst hf hs
  exact ⟨h3.1, h3.2⟩

/-- For the runs in which `compile(source)` has a result: it returns `NULL` (0) exactly when
`parser.hadError` is set, and that flag is set exactly when a diagnostic was
written; in that case `interpret(source)` returns `INTERPRET_COMPILE_ERROR`
at once, with the stack, the call frames, the output and the run-time
reports of the VM as they were before; with no error the value returned is
the function that `initCompiler` allocated for the script, which is not
`NULL`. -/
theorem compile_null_iff_error (h : Host) (fuel : Nat) (vm : VM) (source : List Nat)
    (function : Nat) (st : State) (hc : compile h fuel vm source = some (function, st)) :
    (function = 0 ↔ st.parser.hadError = true) ∧
    (st.parser.hadError = true ↔ st.diagnostics ≠ []) ∧
    (st.parser.hadError = true →
      interpret h fuel vm source = some (INTERPRET_COMPILE_ERROR, st.vm) ∧
      st.vm.stack = vm.stack ∧ st.vm.frames = vm.frames ∧ st.vm.frameCount = vm.frameCount ∧
      st.vm.out = vm.out ∧ st.vm.err = vm.err) ∧
    (st.parser.hadError = false → function = (vm.newFunction).1 ∧ function ≠ 0) := by
  have hi : interpret h fuel vm source =
      (if function == 0 then some (INTERPRET_COMPILE_ERROR, st.vm)
       else do
        let vm := st.vm.push (OBJ_VAL function)
        let (closure, vm) ← vm.newClosure function
        let (_, vm) ← vm.pop
        let vm := vm.push (OBJ_VAL closure)
        let (_, vm) ← vm.call closure 0
        vm.run h fuel) := by
    unfold interpret
    rw [hc]
    rfl
  unfold compile at hc
  simp only [Option.bind_eq_bind, Option.bind_eq_some, Option.pure_def, Option.some.injEq,
    Prod.mk.injEq, Prod.exists] at hc
  obtain ⟨fn, s1, hr, hf, hs⟩ := hc
  subst hs
  obtain ⟨hfn, hk⟩ := compileRun_spec h fuel vm source fn s1 hr
  have hne : (vm.newFunction).1 ≠ 0 := Nat.succ_ne_zero _
  have hbase : s1.vm.base = vm.base := hk.base
  have hagree : s1.errorsAgree := hk.errors ⟨fun hh => Bool.noConfusion hh, fun hh => absurd rfl hh⟩
  unfold VM.base at hbase
  unfold State.errorsAgree at hagree
  simp only [Prod.mk.injEq] at hbase
  cases he : s1.parser.hadError with
  | true =>
    rw [he] at hf
    simp only [if_true] at hf
    subst hf
    refine ⟨⟨fun _ => rfl, fun _ => rfl⟩, ?_, ?_, ?_⟩
    · rw [he] at hagree; exact hagree
    · intro _
      exact ⟨hi, hbase.1, hbase.2.1, hbase.2.2.1, hbase.2.2.2.1, hbase.2.2.2.2⟩
    · intro hh
      exact Bool.noConfusion hh
  | false =>
    rw [he] at hf
    simp only [Bool.false_eq_true, if_false] at hf
    subst hf
    refine ⟨⟨fun h0 => absurd (hfn ▸ h0) hne, fun hh => Bool.noConfusion hh⟩, ?_, ?_, ?_⟩
    · rw [he] at hagree; exact hagree
    · intro hh
      exact Bool.noConfusion hh
    · intro _
      exact ⟨hfn, hfn ▸ hne⟩

theorem compile_null_iff_error_witness :
    (∃ st, compile quietHost 100 blankVM (cstr "print ;") = some (0, st) ∧
      st.parser.hadError = true ∧
      interpret quietHost 100 blankVM (cstr "print ;") = some (INTERPRET_COMPILE_ERROR, st.vm) ∧
      st.vm.stack = blankVM.stack) ∧
    (∃ st, compile quietHost 100 blankVM (cstr "print nil;") = some (1, st) ∧
      st.parser.hadError = false) := by
  have e1 : (compile quietHost 100 blankVM (cstr "print ;")).map (fun p => p.1) = some 0 := by
    decide!
  have e2 : (compile quietHost 100 blankVM (cstr "print nil;")).map (fun p => p.1) = some 1 := by
    decide!
  rw [Option.map_eq_some'] at e1 e2
  obtain ⟨⟨f1, s1⟩, hc1, hf1⟩ := e1
  obtain ⟨⟨f2, s2⟩, hc2, hf2⟩ := e2
  dsimp only at hf1 hf2
  subst hf1 hf2
  have t1 := compile_null_iff_error quietHost 100 blankVM (cstr "print ;") 0 s1 hc1
  have t2 := compile_null_iff_error quietHost 100 blankVM (cstr "print nil;") 1 s2 hc2
  have he1 : s1.parser.hadError = true := t1.1.mp rfl
  have he2 : s2.parser.hadError = false := by
    cases hb : s2.parser.hadError with
    | false => rfl
    | true => exact absurd (t2.1.mpr hb) (by decide)
  exact ⟨⟨s1, hc1, he1, (t1.2.2.1 he1).1, (t1.2.2.1 he1).2.1⟩, ⟨s2, hc2, he2⟩⟩

/-! ## C3: `call` with a wrong number of arguments -/

/-- C3: for a closure whose function has arity `arity` and every `argCount`
different from it, `call` returns false, reports "Expected `arity` arguments
but got `argCount`.", and pushes no frame: `frameCount` is 0 afterwards and
the array of frames is unchanged. -/
theorem call_wrong_arity (vm : VM) (closure function arity argCount n : Nat)
    (upvalues : List Nat)
    (hc : vm.closureOf closure = some (function, upvalues, n))
    (ha : vm.arityOf function = some arity) (hne : argCount ≠ arity) :
    ∃ vm', vm.call closure argCount = some (false, vm') ∧
      vm'.err.getLast?.map (fun e => e.message) =
        some ("Expected " ++ toString arity ++ " arguments but got " ++ toString argCount ++ ".") ∧
      vm'.frameCount = 0 ∧ vm'.frameCount ≤ vm.frameCount ∧ vm'.frames = vm.frames := by
  refine ⟨vm.runtimeError
    ("Expected " ++ toString arity ++ " arguments but got " ++ toString argCount ++ "."),
    ?_, ?_, ?_, ?_, ?_⟩
  · simp only [VM.call, hc, ha, Option.bind_eq_bind, Option.some_bind, VM.callWith]
    rw [if_pos (by simpa using hne)]
  · simp [VM.runtimeError, VM.resetStack]
  · simp [VM.runtimeError, VM.resetStack]
  · simp [VM.runtimeError, VM.resetStack]
  · simp [VM.runtimeError, VM.resetStack]

/-- C3, witness: a closure of arity 1 called with no argument. -/
theorem call_wrong_arity_witness :
    arityVM.closureOf 2 = some (1, [], 0) ∧ arityVM.arityOf 1 = some 1 ∧ (0 : Nat) ≠ 1 ∧
    ∃ vm', arityVM.call 2 0 = some (false, vm') ∧
      vm'.err.getLast?.map (fun e => e.message) =
        some ("Expected " ++ toString 1 ++ " arguments but got " ++ toString 0 ++ ".") ∧
      vm'.frameCount = 0 ∧ vm'.frameCount ≤ arityVM.frameCount ∧ vm'.frames = arityVM.frames :=
  ⟨by decide!, by decide!, by decide,
    call_wrong_arity arityVM 2 1 1 0 0 [] (by decide!) (by decide!) (by decide)⟩

/-! ## C4: calling a class that has no `init` -/

/-- In `call`, once the arity has been read, every defined outcome either
reports a runtime error and returns false or pushes a frame and returns
true. -/
theorem callWith_outcome (vm : VM) (closure arity argCount : Nat) (r : Bool) (vm' : VM)
    (h : vm.callWith closure arity argCount = some (r, vm')) :
    (r = false ∧ vm'.err.length = vm.err.length + 1) ∨
    (r = true ∧ vm'.frameCount = vm.frameCount + 1) := by
  unfold VM.callWith at h
  split at h
  · simp only [Option.some.injEq, Prod.mk.injEq] at h
    left; refine ⟨h.1.symm, ?_⟩; rw [← h.2]; simp [VM.runtimeError, VM.resetStack]
  · split at h
    · simp only [Option.some.injEq, Prod.mk.injEq] at h
      left; refine ⟨h.1.symm, ?_⟩; rw [← h.2]; simp [VM.runtimeError, VM.resetStack]
    · split at h
      · exact Option.noConfusion h
      · simp only [Option.some.injEq, Prod.mk.injEq] at h
        right; refine ⟨h.1.symm, ?_⟩; rw [← h.2]

/-- C4, at the failing input: `callValue` on a class without methods and
`argCount = 0`.  The class is found to have no `init`, `argCount` is 0, and
control falls into the `OBJ_CLOSURE` case, which calls `call` on the class
object as if it were a closure: `callValue` has no defined result there
(first component), where the claim has it return true.  With one argument
the error "Expected 0 arguments but got 1." is reported, as claimed. -/
theorem callValue_class_without_init :
    classCallVM.map (fun s => (s.1.callValue quietHost (OBJ_VAL s.2) 0).isSome) = some false ∧
    classCallVM.map (fun s => (s.1.deref s.2).map (fun o => o.type)) = some (some OBJ_CLASS) ∧
    classCallVM.map (fun s => (s.1.closureOf s.2).isSome) = some false ∧
    classCallVM.map (fun s =>
        callReport ((s.1.push NIL_VAL).callValue quietHost (OBJ_VAL s.2) 1)) =
      some (some (false, 0, 0, some "Expected 0 arguments but got 1.")) ∧
    (bootAndInterpret quietHost 100 "class A \x7b\x7d A();").isSome = false ∧
    (bootAndInterpret quietHost 100 "class A \x7b\x7d print A;").map (fun r => r.1) =
      some INTERPRET_OK := by
  decide!

/-! ## `OP_ADD` when no collection starts -/

theorem isString_of_body (vm : VM) (v : Nat) (o : Obj) (l h : Nat) (c : List Nat)
    (hv : IS_OBJ v = true) (hd : vm.deref (AS_OBJ v) = some o) (hb : o.body = .string l c h) :
    vm.IS_STRING v = true := by
  simp [VM.IS_STRING, VM.isObjType, hv, hd, Obj.type, hb, ObjBody.type]

theorem isString_not_number (vm : VM) (v : Nat) (hn : IS_NUMBER v = true) :
    vm.IS_STRING v = false := by
  cases ho : IS_OBJ v
  · simp [VM.IS_STRING, VM.isObjType, ho]
  · rw [isNumber_of_isObj v ho] at hn
    exact Bool.noConfusion hn

/-- The case `OP_ADD` is what `step` runs on the opcode `OP_ADD`. -/
theorem step_OP_ADD (h : Host) (vm0 vm : VM) (frame : Nat)
    (hr : vm0.readByte frame = some (OP_ADD, vm)) : vm0.step h frame = vm.opAdd h frame := by
  unfold VM.step
  rw [hr]
  rfl

/-- A turn of `run` that returns ends the loop with that result. -/
theorem runLoop_ret (h : Host) (fuel frame : Nat) (vm0 vm : VM) (r : InterpretResult)
    (hs : vm0.step h frame = some (ret r vm)) :
    VM.runLoop h (fuel + 1) frame vm0 = some (r, vm) := by
  unfold VM.runLoop
  rw [hs]

/-- The case `OP_ADD` of `VM.step`, in which no collection starts, on a
stack that ends with `a` below `b`.  If
both are strings they are replaced by the string that `takeString` returns
for the bytes of `a` followed by the bytes of `b`, whose length is the sum
of the lengths; if both are numbers they are replaced by their sum; in
every other case `run` returns `INTERPRET_RUNTIME_ERROR` after reporting
"Operands must be two numbers or two strings.". -/
theorem opAdd_spec (h : Host) (vm : VM) (frame a b : Nat) (rest : List Nat)
    (hs : vm.stack = rest ++ [a, b]) :
    (∀ la ca ha lb cb hb r,
        IS_OBJ a = true → IS_OBJ b = true →
        (vm.deref (AS_OBJ a)).map (fun o => o.body) = some (.string la ca ha) →
        la = ca.length →
        (vm.deref (AS_OBJ b)).map (fun o => o.body) = some (.string lb cb hb) →
        lb = cb.length →
        (vm.takeString (ca ++ cb) (la + lb)).map (fun p => p.1) = some r →
        ∃ vm' o hash, vm.opAdd h frame = some (next frame vm') ∧
          vm'.stack = rest ++ [OBJ_VAL r] ∧
          vm'.deref r = some o ∧ o.body = .string (la + lb) (ca ++ cb) hash) ∧
    (IS_NUMBER a = true → IS_NUMBER b = true →
        ∃ vm', vm.opAdd h frame = some (next frame vm') ∧
          vm'.stack = rest ++ [NUMBER_VAL (h.add (AS_NUMBER a) (AS_NUMBER b))]) ∧
    ((vm.IS_STRING a && vm.IS_STRING b) = false → (IS_NUMBER a && IS_NUMBER b) = false →
        vm.opAdd h frame = some (ret INTERPRET_RUNTIME_ERROR
          (vm.runtimeError "Operands must be two numbers or two strings.")) ∧
        ∀ vm0 fuel, vm0.readByte frame = some (OP_ADD, vm) →
          VM.runLoop h (fuel + 1) frame vm0 = some (INTERPRET_RUNTIME_ERROR,
            vm.runtimeError "Operands must be two numbers or two strings.")) := by
  obtain ⟨hp0, hp1⟩ := peek_top vm rest a b hs
  refine ⟨?_, ?_, ?_⟩
  · intro la ca ha lb cb hb r0 hoa hob hma hla hmb hlb hmt
    obtain ⟨oa, hda, hba⟩ := Option.map_eq_some'.1 hma
    obtain ⟨ob, hdb, hbb⟩ := Option.map_eq_some'.1 hmb
    obtain ⟨⟨r, vm2⟩, ht, hr'⟩ := Option.map_eq_some'.1 hmt
    simp only at hr'
    subst hr'
    have hsa := isString_of_body vm a oa la ha ca hoa hda hba
    have hsb := isString_of_body vm b ob lb hb cb hob hdb hbb
    obtain ⟨ma, na, ba⟩ := oa
    obtain ⟨mb, nb, bb⟩ := ob
    simp only at hba hbb
    subst hba; subst hbb; subst hla; subst hlb
    have ht' : vm.takeString (List.take ca.length ca ++ List.take cb.length cb)
        (ca.length + cb.length) = some (r, vm2) := by
      rw [List.take_length, List.take_length]; exact ht
    unfold VM.takeString at ht
    rw [← List.length_append, List.take_length] at ht
    obtain ⟨hst, o, hash, hd, hbody⟩ := internString_spec vm _ r vm2 ht
    have hpop1 := pop_snoc vm2 (rest ++ [a]) b (by rw [hst, hs]; simp)
    have hpop2 := pop_snoc ({ vm2 with stack := rest ++ [a] } : VM) rest a rfl
    refine ⟨({ vm2 with stack := rest } : VM).push (OBJ_VAL r), o, hash, ?_, ?_, ?_, ?_⟩
    · simp only [VM.opAdd, hp0, hp1, hsa, hsb, Option.bind_eq_bind, Option.some_bind,
        Bool.and_self, if_true, VM.concatenate, hda, hdb, ht', hpop1, hpop2]
      rfl
    · simp [VM.push]
    · simpa [VM.push, VM.deref] using hd
    · rw [hbody, List.length_append]
  · intro hna hnb
    have hsa := isString_not_number vm a hna
    have hpop1 := pop_snoc vm (rest ++ [a]) b (by rw [hs]; simp)
    have hpop2 := pop_snoc ({ vm with stack := rest ++ [a] } : VM) rest a rfl
    refine ⟨({ vm with stack := rest } : VM).push
      (NUMBER_VAL (h.add (AS_NUMBER a) (AS_NUMBER b))), ?_, ?_⟩
    · simp only [VM.opAdd, hp0, hp1, hsa, hna, hnb, Option.bind_eq_bind, Option.some_bind,
        Bool.and_false, Bool.false_and, Bool.and_self, if_true, hpop1, hpop2]
      rfl
    · simp [VM.push]
  · intro hstr hnum
    have hnum' : (IS_NUMBER b && IS_NUMBER a) = false := by rw [Bool.and_comm]; exact hnum
    have hstr' : (vm.IS_STRING b && vm.IS_STRING a) = false := by rw [Bool.and_comm]; exact hstr
    have hop : vm.opAdd h frame = some (ret INTERPRET_RUNTIME_ERROR
        (vm.runtimeError "Operands must be two numbers or two strings.")) := by
      simp only [VM.opAdd, hp0, hp1, Option.bind_eq_bind, Option.some_bind, hstr', hnum']
      rfl
    refine ⟨hop, ?_⟩
    intro vm0 fuel hr
    exact runLoop_ret h fuel frame vm0 _ _ ((step_OP_ADD h vm0 vm frame hr).trans hop)

/-- An instance of `opAdd_spec`: on a stack that holds the strings "a" and "b" the case
`OP_ADD` leaves the one string "ab", of length 2; on a stack that holds
"a" and nil it reports the error. -/
theorem opAdd_spec_witness :
    stringsVM.stack = [] ++ [OBJ_VAL 4, OBJ_VAL 5] ∧
    (∃ vm' o hash, stringsVM.opAdd quietHost 0 = some (next 0 vm') ∧
      vm'.stack = [] ++ [OBJ_VAL 6] ∧ vm'.deref 6 = some o ∧
      o.body = .string (1 + 1) (cstr "a" ++ cstr "b") hash) ∧
    (stringsVM.push NIL_VAL).opAdd quietHost 0 = some (ret INTERPRET_RUNTIME_ERROR
      ((stringsVM.push NIL_VAL).runtimeError "Operands must be two numbers or two strings.")) :=
  ⟨by decide!,
   (opAdd_spec quietHost stringsVM 0 (OBJ_VAL 4) (OBJ_VAL 5) [] (by decide!)).1
     1 (cstr "a") (VM.hashString (cstr "a")) 1 (cstr "b") (VM.hashString (cstr "b")) 6
     (by decide!) (by decide!) (by decide!) (by decide!) (by decide!) (by decide!) (by decide!),
   ((opAdd_spec quietHost (stringsVM.push NIL_VAL) 0 (OBJ_VAL 5) NIL_VAL [OBJ_VAL 4]
      (by decide!)).2.2 (by decide!) (by decide!)).1⟩

/-! ## C6: `OP_NEGATE` -/

/-- C6, at the failing input: `OP_NEGATE` with the number `-2.0` on top of
the stack.  The slot receives the integer 2, the conversion of the double
`2.0` to `uint64_t`, and not `NUMBER_VAL(2.0)`, whose bits are
`0x4000000000000000`. -/
theorem negate_stores_integer :
    negateVM.stack = [NUMBER_VAL 0xC000000000000000] ∧
    IS_NUMBER (NUMBER_VAL 0xC000000000000000) = true ∧
    (negateVM.opNegate 0).bind Step.stack = some [2] ∧
    NUMBER_VAL (dblNeg 0xC000000000000000) = 0x4000000000000000 ∧
    (2 : Nat) ≠ NUMBER_VAL (dblNeg 0xC000000000000000) := by
  decide!

/-- The case `OP_NEGATE` on a number: the slot receives the conversion of
the negated double to `uint64_t`. -/
theorem opNegate_number (vm : VM) (frame v c : Nat) (hv : vm.peek 0 = some v)
    (hn : IS_NUMBER v = true) (hc : dblToU64 (dblNeg (AS_NUMBER v)) = some c) :
    (vm.opNegate frame).bind Step.stack = some (vm.stack.set (vm.stackTop - 1) c) := by
  have hlt : 0 < vm.stackTop := by
    unfold VM.peek at hv
    by_contra hcon
    rw [if_neg hcon] at hv
    exact Option.noConfusion hv
  simp [VM.opNegate, hv, hn, hc, VM.poke, hlt, Step.stack]

/-! ## C9, C10: precedence of the comparison and of the unary operators -/

/-- C9, at the failing input `a == b < c;`: the table `rules` gives the four
comparison operators the precedence `PREC_EQUALITY`, which is below
`PREC_COMPARISON`, and the code emitted evaluates `a`, `b`, `OP_EQUAL`, `c`,
`OP_LESS`, that is `(a == b) < c`. -/
theorem comparison_has_equality_precedence :
    (getRule TOKEN_LESS).precedence = PREC_EQUALITY ∧
    (getRule TOKEN_LESS_EQUAL).precedence = PREC_EQUALITY ∧
    (getRule TOKEN_GREATER).precedence = PREC_EQUALITY ∧
    (getRule TOKEN_GREATER_EQUAL).precedence = PREC_EQUALITY ∧
    (getRule TOKEN_EQUAL_EQUAL).precedence = PREC_EQUALITY ∧
    PREC_EQUALITY < PREC_COMPARISON ∧
    bootAndCompile quietHost 100 "a == b < c;" =
      some ([OP_GET_GLOBAL, 0, OP_GET_GLOBAL, 1, OP_EQUAL, OP_GET_GLOBAL, 2, OP_LESS,
             OP_POP, OP_NIL, OP_RETURN], false) := by
  decide!

/-- C10, at the failing inputs `-a + b;` and `!a == b;`: the operand of a
prefix operator is parsed at `PREC_ASSIGNMENT`, so the code emitted is `a`,
`b`, `OP_ADD`, `OP_NEGATE` for the first, that is `-(a + b)`, and `a`, `b`,
`OP_EQUAL`, `OP_NOT` for the second, that is `!(a == b)`. -/
theorem unary_operand_takes_whole_expression :
    bootAndCompile quietHost 100 "-a + b;" =
      some ([OP_GET_GLOBAL, 0, OP_GET_GLOBAL, 1, OP_ADD, OP_NEGATE,
             OP_POP, OP_NIL, OP_RETURN], false) ∧
    bootAndCompile quietHost 100 "!a == b;" =
      some ([OP_GET_GLOBAL, 0, OP_GET_GLOBAL, 1, OP_EQUAL, OP_NOT,
             OP_POP, OP_NIL, OP_RETURN], false) := by
  decide!

/-! ## C11: the targets of an assignment -/

/-- C11, at the failing inputs `-a = nil;` and `!a = nil;`: `unary` parses
its operand at `PREC_ASSIGNMENT`, so the variable after the operator is
parsed with `canAssign` true and takes the `=`; no error is reported,
`compile` returns the function, and the code assigns to `a` and then applies
the operator.  After a binary operator (`a + b = nil;`, `a * b = nil;`) the
error "Invalid assignment target." is reported and `compile` returns `NULL`. -/
theorem unary_operand_is_assignment_target :
    bootAndCompile quietHost 100 "-a = nil;" =
      some ([OP_NIL, OP_SET_GLOBAL, 0, OP_NEGATE, OP_POP, OP_NIL, OP_RETURN], false) ∧
    bootAndCompile quietHost 100 "!a = nil;" =
      some ([OP_NIL, OP_SET_GLOBAL, 0, OP_NOT, OP_POP, OP_NIL, OP_RETURN], false) ∧
    (compileMessages quietHost 100 "-a = nil;").map (fun p => (decide (p.1 = 0), p.2)) =
      some (false, []) ∧
    (compileMessages quietHost 100 "!a = nil;").map (fun p => (decide (p.1 = 0), p.2)) =
      some (false, []) ∧
    compileMessages quietHost 100 "a + b = nil;" = some (0, [cstr "Invalid assignment target."]) ∧
    compileMessages quietHost 100 "a * b = nil;" = some (0, [cstr "Invalid assignment target."]) := by
  decide!

/-! ## C12: a condition that is false -/

/-- C12, at a failing input: the body of the `if` holds a `while` whose body
declares a function with a `break`.  The `break` is recorded in the list of
the `while` with its offset in the chunk of the function, 1, and the `while`
patches the chunk of the script at that offset, where the `OP_JUMP_IF_FALSE`
of the `if` stands.  With the condition `false` the run then executes the
body: it prints `nil` three times and leaves a value on the stack.  The same
source without the `break` prints nothing and leaves the stack empty. -/
theorem false_condition_runs_body :
    (functionCodes quietHost 200
      "if (false) { print nil; print nil; print nil; !nil; while (false) { fun f() { break; } } }").map
        (fun p => (p.2.1, (p.2.2.headD []).take 5)) =
      some (false, [OP_FALSE, OP_CONSTANT, 0, OP_NOT, OP_POP]) ∧
    (functionCodes quietHost 200
      "if (false) { print nil; print nil; print nil; !nil; while (false) { fun f() { } } }").map
        (fun p => (p.2.1, (p.2.2.headD []).take 5)) =
      some (false, [OP_FALSE, OP_JUMP_IF_FALSE, 0, 25, OP_POP]) ∧
    runReport quietHost 300
      "if (false) { print nil; print nil; print nil; !nil; while (false) { fun f() { break; } } }" =
      some (INTERPRET_OK, [NIL_VAL, NIL_VAL, NIL_VAL], [], 1) ∧
    runReport quietHost 300
      "if (false) { print nil; print nil; print nil; !nil; while (false) { fun f() { } } }" =
      some (INTERPRET_OK, [], [], 0) := by
  decide!

/-! ## C13: `break` and the innermost loop -/

/-- C13, at a failing input: two nested `while` loops, the inner one with a
function in its body that holds a `break`.  No error is reported.  The
`OP_JUMP` of the `break` is in the chunk of the function and keeps the
operand `0xff 0xff` that `emitJump` wrote; the inner loop patches the chunk
of the script at the recorded offset 1 instead, where it overwrites the
`OP_JUMP_IF_FALSE` of the outer loop.  A `break` in a function outside any
loop is the compile error "Can't use 'break' outside of a Circulation.". -/
theorem break_in_function_patches_other_chunk :
    functionCodes quietHost 200 "while (false) { while (false) { fun f() { break; } } }" =
      some (4, false,
        [[OP_FALSE, 0, 0, 16, OP_POP,
          OP_FALSE, OP_JUMP_IF_FALSE, 0, 7, OP_POP, OP_CLOSURE, 0, OP_POP, OP_LOOP, 0, 11, OP_POP,
          OP_LOOP, 0, 20, OP_POP, OP_NIL, OP_RETURN],
         [OP_JUMP, 255, 255, OP_NIL, OP_RETURN]]) ∧
    functionCodes quietHost 200 "while (false) { while (false) { fun f() { } } }" =
      some (4, false,
        [[OP_FALSE, OP_JUMP_IF_FALSE, 0, 16, OP_POP,
          OP_FALSE, OP_JUMP_IF_FALSE, 0, 7, OP_POP, OP_CLOSURE, 0, OP_POP, OP_LOOP, 0, 11, OP_POP,
          OP_LOOP, 0, 20, OP_POP, OP_NIL, OP_RETURN],
         [OP_NIL, OP_RETURN]]) ∧
    compileMessages quietHost 200 "fun f() { break; }" =
      some (0, [cstr "Can't use 'break' outside of a Circulation."]) := by
  decide!

/-! ## C15: `writeChunk` and `getLine` -/

/-- C15, at two failing inputs.  After 256 bytes written on line 1 the count
of the run, a `uint8_t`, is back at 0 and `getLine` finds no line for any
offset; after bytes on the lines 1, 2, 3 and 4 the array `rle` of 8 cells is
full and a byte on line 5 is recorded in the cells 8 and 9, outside the
array.  With 255 bytes on one line, and with four runs, the lines are those
written. -/
theorem writeChunk_getLine_fails :
    (writeChunks quietHost (List.replicate 256 (OP_NIL, 1)) initChunk).map
        (fun c => (c.count, c.rle.take 2, getLine c 0, getLine c 255)) =
      some (256, [0, 1], -1, -1) ∧
    (writeChunks quietHost (List.replicate 255 (OP_NIL, 1)) initChunk).map
        (fun c => (c.count, c.rle.take 2, getLine c 0, getLine c 254)) =
      some (255, [255, 1], 1, 1) ∧
    (writeChunks quietHost [(OP_NIL, 1), (OP_NIL, 2), (OP_NIL, 3), (OP_NIL, 4)] initChunk).map
        (fun c => (c.rleCapacity, c.rleIndex, getLine c 0, getLine c 3)) =
      some (8, 6, 1, 4) ∧
    writeChunks quietHost [(OP_NIL, 1), (OP_NIL, 2), (OP_NIL, 3), (OP_NIL, 4), (OP_NIL, 5)]
      initChunk = none := by
  decide!

/-! ## C16, C18: `sweep` and the calls of `collectGarbage` -/

/-- C18, at a failing input: in `reallocate` the test
`vm.bytesAllocated > vm.nextGC` stands after the block `if (newSize >
oldSize)`, not in it, so a call that frees 16 bytes while `bytesAllocated`
is above `nextGC` runs `collectGarbage`.  A call that grows a block runs it
exactly when the new `bytesAllocated` is above `nextGC`. -/
theorem reallocate_collects_on_free :
    (reallocate lp64 10 (blankMemory 100 10) 16 0).map
        (fun m => (m.bytesAllocated, m.collections, m.nextGC)) = some (84, 1, 168) ∧
    (reallocate lp64 10 (blankMemory 100 10) 16 16).map
        (fun m => (m.bytesAllocated, m.collections, m.nextGC)) = some (100, 1, 200) ∧
    (reallocate lp64 10 (blankMemory 100 200) 16 0).map
        (fun m => (m.bytesAllocated, m.collections, m.nextGC)) = some (84, 0, 200) ∧
    (reallocate lp64 10 (blankMemory 100 115) 0 16).map
        (fun m => (m.bytesAllocated, m.collections, m.nextGC)) = some (116, 1, 232) ∧
    (reallocate lp64 10 (blankMemory 100 116) 0 16).map
        (fun m => (m.bytesAllocated, m.collections, m.nextGC)) = some (116, 0, 116) := by
  decide!

/-- C16, at a failing input: a list of five objects, 5, 4, 3, 2, 1, of which
all but 3 are marked, with `bytesAllocated` 1002 and `nextGC` 1000.  When
`sweep` frees the object 3, `reallocate` finds `bytesAllocated` above
`nextGC` and runs `collectGarbage` in the middle of the sweep: the objects 5
and 4, whose marks the sweep has cleared, are marked again only if a root
leads to them past the objects still marked, so 5 is freed, and the marks of
2 and 1 are cleared before the outer sweep reaches them, so they are freed
too.  The list is left with the object 4 alone.  With `bytesAllocated` at
1000 no collection starts and the list is 5, 4, 2, 1.  The same happens in a
whole cycle started on the unmarked objects. -/
theorem sweep_frees_marked_objects :
    sweepReport (some (sweepMemory true 1002 1000)) =
      some ([5, 4, 3, 2, 1], [true, true, false, true, true], [], 0) ∧
    sweepReport (sweep lp64 20 (sweepMemory true 1002 1000)) =
      some ([4], [false], [5, 3, 2, 1], 1) ∧
    sweepReport (sweep lp64 20 (sweepMemory true 1000 1000)) =
      some ([5, 4, 2, 1], [false, false, false, false], [3], 0) ∧
    sweepReport (((sweepMemory false 1002 1000).markRoots).bind Memory.traceReferences) =
      some ([5, 4, 3, 2, 1], [true, true, false, true, true], [], 0) ∧
    sweepReport (collectGarbage lp64 20 (sweepMemory false 1002 1000)) =
      some ([4], [false], [5, 3, 2, 1], 2) := by
  refine ⟨?_, ?_, ?_, ?_, ?_⟩ <;> decide!

/-! ## C17: marking -/

namespace Memory

theorem markObject_zero (m : Memory) : m.markObject 0 = some m := by
  simp [markObject]

theorem markValue_eq (m : Memory) (v : Nat) : m.markValue v = m.markObject (pointerOf v) := by
  unfold markValue pointerOf
  split
  · rfl
  · exact (markObject_zero m).symm

theorem markObjects_append (a b : List Nat) (m : Memory) :
    markObjects (a ++ b) m = (markObjects a m).bind (markObjects b) := by
  induction a generalizing m with
  | nil => rfl
  | cons p a ih =>
    simp only [List.cons_append, markObjects]
    cases h : m.markObject p with
    | none => rfl
    | some m1 => exact ih m1

theorem markValues_eq (vs : List Nat) (m : Memory) :
    markValues vs m = markObjects (vs.map pointerOf) m := by
  induction vs generalizing m with
  | nil => rfl
  | cons v vs ih =>
    simp only [markValues, List.map_cons, markObjects, markValue_eq]
    cases h : m.markObject (pointerOf v) with
    | none => rfl
    | some m1 => exact ih m1

theorem markEntries_eq (es : List Entry) (m : Memory) :
    markEntries es m = markObjects (es.flatMap (fun e => [e.key, pointerOf e.value])) m := by
  induction es generalizing m with
  | nil => rfl
  | cons e es ih =>
    simp only [markEntries, List.flatMap_cons, List.cons_append, List.nil_append, markObjects,
      markValue_eq]
    cases h : m.markObject e.key with
    | none => rfl
    | some m1 =>
      simp only [Option.some_bind, Option.bind_eq_bind]
      cases h2 : m1.markObject (pointerOf e.value) with
      | none => rfl
      | some m2 => exact ih m2

theorem markTable_eq (m : Memory) (t : Table) (h : t.capacity ≤ t.entries.length) :
    m.markTable t = markObjects (tablePointers t) m := by
  unfold markTable tablePointers
  rw [if_neg (by omega)]
  exact markEntries_eq _ m

theorem markArray_eq (m : Memory) (a : ValueArray) (h : a.count ≤ a.values.length) :
    m.markArray a = markObjects ((a.values.take a.count).map pointerOf) m := by
  unfold markArray
  rw [if_neg (by omega)]
  exact markValues_eq _ m

/-- The function `blackenObject` marks the references of the object, in
their order. -/
theorem blackenObject_eq (m : Memory) (p : Nat) (o : Obj) (ho : m.obj p = some o)
    (hs : shapely o.body = true) : m.blackenObject p = markObjects (references o.body) m := by
  unfold blackenObject
  rw [ho]
  dsimp only
  cases hb : o.body with
  | string l c h => simp [references, markObjects]
  | native f => simp [references, markObjects]
  | upvalue loc closed nx => simp [references, markObjects, markValue_eq]
  | boundMethod r meth =>
    simp only [references, markObjects, markValue_eq]
    cases m.markObject (pointerOf r) with
    | none => rfl
    | some m1 =>
      simp only [Option.some_bind]
      cases m1.markObject meth <;> rfl
  | function ar chunk name n =>
    rw [hb] at hs
    simp only [shapely, decide_eq_true_eq] at hs
    simp only [references, markObjects]
    cases m.markObject name with
    | none => rfl
    | some m1 => exact markArray_eq m1 _ hs
  | closure f ups n =>
    rw [hb] at hs
    simp only [shapely, decide_eq_true_eq] at hs
    simp only [references, markObjects]
    cases m.markObject f with
    | none => rfl
    | some m1 =>
      simp only [Option.some_bind]
      rw [if_neg (by omega)]
  | «class» name methods =>
    rw [hb] at hs
    simp only [shapely, decide_eq_true_eq] at hs
    simp only [references, markObjects]
    cases m.markObject name with
    | none => rfl
    | some m1 => exact markTable_eq m1 _ hs
  | «instance» k fields =>
    rw [hb] at hs
    simp only [shapely, decide_eq_true_eq] at hs
    simp only [references, markObjects]
    cases m.markObject k with
    | none => rfl
    | some m1 => exact markTable_eq m1 _ hs

end Memory

namespace Memory

theorem obj_erase (m : Memory) (p : Nat) : m.erase.obj p = (m.obj p).map unmark := by
  unfold obj erase VM.deref
  dsimp only
  split
  · rfl
  · split
    · rfl
    · simp [List.getElem?_map]

theorem obj_of_erase_eq {m1 m2 : Memory} (h : m1.erase = m2.erase) (p : Nat) :
    (m1.obj p).map unmark = (m2.obj p).map unmark := by
  rw [← obj_erase, ← obj_erase, h]

/-- An object of a memory with the same objects: the fields but the mark are
the same. -/
theorem obj_of_same {m1 m2 : Memory} (h : m1.erase = m2.erase) (p : Nat) (o1 : Obj)
    (ho : m1.obj p = some o1) : ∃ o2, m2.obj p = some o2 ∧ o2.body = o1.body := by
  have := obj_of_erase_eq h p
  rw [ho] at this
  cases h2 : m2.obj p with
  | none => rw [h2] at this; exact Option.noConfusion this
  | some o2 =>
    rw [h2] at this
    simp only [Option.map_some', Option.some.injEq, unmark] at this
    refine ⟨o2, rfl, ?_⟩
    have := congrArg Obj.body this
    exact this.symm

theorem valid_of_same {m1 m2 : Memory} (h : m1.erase = m2.erase) (p : Nat) :
    m1.valid p = m2.valid p := by
  have := obj_of_erase_eq h p
  unfold valid
  cases h1 : m1.obj p <;> cases h2 : m2.obj p <;> simp [h1, h2] at this ⊢

theorem deref_of_obj {m : Memory} {p : Nat} {o : Obj} (ho : m.obj p = some o) :
    m.vm.deref p = some o ∧ p ≠ 0 ∧ m.vm.heap.get? (p - 1) = some o ∧ m.freed.contains p = false := by
  unfold obj at ho
  split at ho
  · exact Option.noConfusion ho
  · rename_i hf
    refine ⟨ho, ?_, ?_, by simpa using hf⟩
    · intro h0
      subst h0
      simp [VM.deref] at ho
    · unfold VM.deref at ho
      split at ho
      · exact Option.noConfusion ho
      · exact ho

theorem list_map_set_same {α β : Type} (f : α → β) (l : List α) (i : Nat) (a b : α)
    (hl : l.get? i = some a) (hf : f b = f a) : (l.set i b).map f = l.map f := by
  induction l generalizing i with
  | nil => rfl
  | cons x t ih =>
    cases i with
    | zero =>
      simp only [List.get?_cons_zero, Option.some.injEq] at hl
      simp [hl, hf]
    | succ j =>
      simp only [List.get?_cons_succ] at hl
      simp [ih j hl]

theorem erase_setMarked (m : Memory) (p : Nat) (b : Bool) : (m.setMarked p b).erase = m.erase := by
  unfold setMarked
  cases hd : m.vm.deref p with
  | none => rfl
  | some o =>
    dsimp only
    unfold erase
    dsimp only
    have hg : m.vm.heap.get? (p - 1) = some o := by
      unfold VM.deref at hd
      split at hd
      · exact Option.noConfusion hd
      · exact hd
    have := list_map_set_same unmark m.vm.heap (p - 1) o { o with isMarked := b } hg rfl
    rw [this]

theorem obj_setMarked (m : Memory) (p : Nat) (b : Bool) (o : Obj) (ho : m.obj p = some o)
    (q : Nat) :
    (m.setMarked p b).obj q = if q = p then some { o with isMarked := b } else m.obj q := by
  obtain ⟨hd, hp, hg, hf⟩ := deref_of_obj ho
  unfold setMarked
  rw [hd]
  dsimp only
  unfold obj VM.deref
  dsimp only
  by_cases hq : q = p
  · subst hq
    rw [if_pos rfl, hf]
    have hlt : q - 1 < m.vm.heap.length := by
      rw [List.get?_eq_getElem?] at hg
      exact (List.getElem?_eq_some_iff.1 hg).1
    simp [hp, hlt]
  · rw [if_neg hq]
    split
    · rfl
    · split
      · rfl
      · rename_i h0
        have h0' : q ≠ 0 := by simpa using h0
        rw [List.get?_eq_getElem?, List.get?_eq_getElem?, List.getElem?_set_ne (by omega)]

theorem marked_setMarked (m : Memory) (p : Nat) (b : Bool) (o : Obj) (ho : m.obj p = some o)
    (q : Nat) : (m.setMarked p b).marked q = if q = p then b else m.marked q := by
  unfold marked
  rw [obj_setMarked m p b o ho q]
  by_cases hq : q = p
  · rw [if_pos hq, if_pos hq]
  · rw [if_neg hq, if_neg hq]

end Memory

namespace Memory

theorem heap_length_setMarked (m : Memory) (p : Nat) (b : Bool) :
    (m.setMarked p b).vm.heap.length = m.vm.heap.length := by
  unfold setMarked
  split <;> simp

theorem white_setMarked (m : Memory) (p : Nat) (o : Obj) (ho : m.obj p = some o)
    (hw : o.isMarked = false) :
    (m.setMarked p true).white = m.white.erase (p - 1) ∧ (p - 1) ∈ m.white := by
  obtain ⟨hd, hp, hg, hf⟩ := deref_of_obj ho
  have hlt : p - 1 < m.vm.heap.length := by
    rw [List.get?_eq_getElem?] at hg
    exact (List.getElem?_eq_some_iff.1 hg).1
  have hpp : p - 1 + 1 = p := by omega
  constructor
  · ext i
    simp only [white, Finset.mem_filter, Finset.mem_range, Finset.mem_erase,
      heap_length_setMarked, obj_setMarked m p true o ho, marked_setMarked m p true o ho]
    by_cases hi : i + 1 = p
    · have : i = p - 1 := by omega
      subst this
      simp [hpp]
    · have : i ≠ p - 1 := by omega
      simp [hi, this]
  · simp only [white, Finset.mem_filter, Finset.mem_range, hpp]
    refine ⟨hlt, ?_⟩
    simp [ho, marked, hw]

/-- What `markObject` does to a pointer that is `NULL` or an object. -/
theorem markObject_spec (m : Memory) (p : Nat) (hv : m.valid p = true) :
    ∃ m', m.markObject p = some m' ∧ m'.erase = m.erase ∧
      (∀ q, m'.marked q = true ↔ m.marked q = true ∨ (q = p ∧ p ≠ 0)) ∧
      (∀ q, q ∈ m'.grayStack ↔ q ∈ m.grayStack ∨ (q = p ∧ p ≠ 0 ∧ m.marked p = false)) ∧
      m'.work = m.work := by
  by_cases hp : p = 0
  · subst hp
    exact ⟨m, markObject_zero m, rfl, by simp, by simp, rfl⟩
  · unfold valid at hv
    have hsome : (m.obj p).isSome = true := by simpa [hp] using hv
    obtain ⟨o, ho⟩ := Option.isSome_iff_exists.1 hsome
    have hmk : m.marked p = o.isMarked := by simp [marked, ho]
    cases hw : o.isMarked with
    | true =>
      refine ⟨m, ?_, rfl, ?_, ?_, rfl⟩
      · simp [markObject, hp, ho, hw]
      · intro q
        constructor
        · intro h; exact Or.inl h
        · rintro (h | ⟨rfl, _⟩)
          · exact h
          · rw [hmk, hw]
      · intro q
        constructor
        · intro h; exact Or.inl h
        · rintro (h | ⟨_, _, h3⟩)
          · exact h
          · rw [hmk, hw] at h3; exact Bool.noConfusion h3
    | false =>
      obtain ⟨hwhite, hmem⟩ := white_setMarked m p o ho hw
      refine ⟨{ m.setMarked p true with
                grayCapacity :=
                  if (m.setMarked p true).grayCapacity < (m.setMarked p true).grayCount + 1 then
                    GROW_CAPACITY (m.setMarked p true).grayCapacity
                  else (m.setMarked p true).grayCapacity,
                grayStack := (m.setMarked p true).grayStack ++ [p] }, ?_, ?_, ?_, ?_, ?_⟩
      · simp [markObject, hp, ho, hw]
      · exact erase_setMarked m p true
      · intro q
        have : ∀ (x : Memory) (c : Nat) (g : List Nat),
            ({ x with grayCapacity := c, grayStack := g } : Memory).marked q = x.marked q :=
          fun _ _ _ => rfl
        rw [this, marked_setMarked m p true o ho q]
        by_cases hq : q = p
        · simp [hq, hp]
        · simp [hq]
      · intro q
        have hg : (m.setMarked p true).grayStack = m.grayStack := by
          unfold setMarked
          split <;> rfl
        simp only [hg, List.mem_append, List.mem_singleton]
        rw [hmk, hw]
        simp [hp]
      · have hg : (m.setMarked p true).grayStack = m.grayStack := by
          unfold setMarked
          split <;> rfl
        have hwk : ∀ (x : Memory) (c : Nat) (g : List Nat),
            ({ x with grayCapacity := c, grayStack := g } : Memory).white = x.white :=
          fun _ _ _ => rfl
        unfold work
        rw [hwk, hwhite]
        simp only [hg, List.length_append, List.length_singleton]
        have := Finset.card_erase_of_mem hmem
        have hpos : 0 < m.white.card := Finset.card_pos.2 ⟨_, hmem⟩
        omega

end Memory

namespace Memory

theorem markObject_same (m m' : Memory) (p : Nat) (h : m.markObject p = some m') :
    m'.erase = m.erase := by
  unfold markObject at h
  split at h
  · simp only [Option.some.injEq] at h; rw [← h]
  · split at h
    · exact Option.noConfusion h
    · split at h
      · simp only [Option.some.injEq] at h; rw [← h]
      · simp only [Option.some.injEq] at h
        rw [← h]
        exact erase_setMarked m p true

theorem markObjects_same (l : List Nat) : ∀ (m m' : Memory), markObjects l m = some m' →
    m'.erase = m.erase := by
  induction l with
  | nil => intro m m' h; simp only [markObjects, Option.some.injEq] at h; rw [h]
  | cons p l ih =>
    intro m m' h
    simp only [markObjects] at h
    cases h1 : m.markObject p with
    | none => rw [h1] at h; exact Option.noConfusion h
    | some m1 =>
      rw [h1] at h
      exact (ih m1 m' h).trans (markObject_same m m1 p h1)

/-- What the loop `markObjects` does to pointers that are `NULL` or objects. -/
theorem markObjects_spec (l : List Nat) : ∀ (m : Memory), (∀ p ∈ l, m.valid p = true) →
    ∃ m', markObjects l m = some m' ∧ m'.erase = m.erase ∧
      (∀ q, m'.marked q = true ↔ m.marked q = true ∨ (q ∈ l ∧ q ≠ 0)) ∧
      (∀ q, q ∈ m'.grayStack ↔ q ∈ m.grayStack ∨ (q ∈ l ∧ q ≠ 0 ∧ m.marked q = false)) ∧
      m'.work = m.work := by
  induction l with
  | nil => intro m _; exact ⟨m, rfl, rfl, by simp, by simp, rfl⟩
  | cons p l ih =>
    intro m hv
    obtain ⟨m1, h1, he1, hm1, hg1, hw1⟩ := markObject_spec m p (hv p (List.mem_cons_self p l))
    have hv1 : ∀ q ∈ l, m1.valid q = true := fun q hq => by
      rw [valid_of_same he1 q]; exact hv q (List.mem_cons_of_mem p hq)
    obtain ⟨m2, h2, he2, hm2, hg2, hw2⟩ := ih m1 hv1
    refine ⟨m2, ?_, he2.trans he1, ?_, ?_, hw2.trans hw1⟩
    · simp only [markObjects, h1, Option.some_bind]; exact h2
    · intro q
      rw [hm2 q, hm1 q, List.mem_cons]
      constructor
      · rintro ((h | ⟨rfl, h⟩) | ⟨h, h0⟩)
        · exact Or.inl h
        · exact Or.inr ⟨Or.inl rfl, h⟩
        · exact Or.inr ⟨Or.inr h, h0⟩
      · rintro (h | ⟨rfl | h, h0⟩)
        · exact Or.inl (Or.inl h)
        · exact Or.inl (Or.inr ⟨rfl, h0⟩)
        · exact Or.inr ⟨h, h0⟩
    · intro q
      rw [hg2 q, hg1 q, List.mem_cons]
      constructor
      · rintro ((h | ⟨rfl, h0, h⟩) | ⟨h, h0, hf⟩)
        · exact Or.inl h
        · exact Or.inr ⟨Or.inl rfl, h0, h⟩
        · refine Or.inr ⟨Or.inr h, h0, ?_⟩
          cases hq : m.marked q with
          | false => rfl
          | true =>
            have := (hm1 q).2 (Or.inl hq)
            rw [this] at hf
            exact Bool.noConfusion hf
      · rintro (h | ⟨rfl | h, h0, hf⟩)
        · exact Or.inl (Or.inl h)
        · exact Or.inl (Or.inr ⟨rfl, h0, hf⟩)
        · by_cases hqp : q = p
          · subst hqp
            exact Or.inl (Or.inr ⟨rfl, h0, hf⟩)
          · refine Or.inr ⟨h, h0, ?_⟩
            cases hq : m1.marked q with
            | false => rfl
            | true =>
              rcases (hm1 q).1 hq with h' | ⟨h', _⟩
              · rw [h'] at hf; exact Bool.noConfusion hf
              · exact absurd h' hqp

theorem vm_of_same {m1 m2 : Memory} (h : m1.erase = m2.erase) :
    m1.vm.stack = m2.vm.stack ∧ m1.vm.frames = m2.vm.frames ∧
    m1.vm.frameCount = m2.vm.frameCount ∧ m1.vm.openUpvalues = m2.vm.openUpvalues ∧
    m1.vm.globals = m2.vm.globals ∧ m1.vm.initString = m2.vm.initString ∧
    m1.compilers = m2.compilers ∧ m1.vm.heap.length = m2.vm.heap.length := by
  have hvm := congrArg Memory.vm h
  have hc := congrArg Memory.compilers h
  simp only [erase] at hvm hc
  have h1 := congrArg VM.stack hvm
  have h2 := congrArg VM.frames hvm
  have h3 := congrArg VM.frameCount hvm
  have h4 := congrArg VM.openUpvalues hvm
  have h5 := congrArg VM.globals hvm
  have h6 := congrArg VM.initString hvm
  have h7 := congrArg (fun v => v.heap.length) hvm
  simp only [List.length_map] at h7
  exact ⟨h1, h2, h3, h4, h5, h6, hc, h7⟩

theorem openFrom_same {m1 m2 : Memory} (h : m1.erase = m2.erase) (fuel : Nat) :
    ∀ u, m1.openFrom fuel u = m2.openFrom fuel u := by
  induction fuel with
  | zero => intro u; rfl
  | succ n ih =>
    intro u
    unfold openFrom
    split
    · rfl
    · cases h1 : m1.obj u with
      | none =>
        have := obj_of_erase_eq h u
        rw [h1] at this
        cases h2 : m2.obj u with
        | none => rfl
        | some o2 => rw [h2] at this; exact Option.noConfusion this
      | some o1 =>
        obtain ⟨o2, h2, hb⟩ := obj_of_same h u o1 h1
        rw [h2]
        obtain ⟨mk1, nx1, b1⟩ := o1
        obtain ⟨mk2, nx2, b2⟩ := o2
        simp only at hb
        subst hb
        cases b2 <;> simp only [ih]

theorem markOpenUpvalues_eq (fuel : Nat) : ∀ (m : Memory) (u : Nat) (l : List Nat),
    m.openFrom fuel u = some l → markOpenUpvalues fuel m u = markObjects l m := by
  induction fuel with
  | zero => intro m u l h; exact Option.noConfusion h
  | succ n ih =>
    intro m u l h
    unfold openFrom at h
    unfold markOpenUpvalues
    split at h
    · rename_i hu
      simp only [Option.some.injEq] at h
      subst h
      rw [if_pos hu]
      rfl
    · rename_i hu
      rw [if_neg hu]
      cases ho : m.obj u with
      | none => rw [ho] at h; exact Option.noConfusion h
      | some o =>
        rw [ho] at h
        obtain ⟨mk, nx, b⟩ := o
        cases b with
        | upvalue loc closed following =>
          simp only [Option.map_eq_some'] at h
          obtain ⟨l', hl', rfl⟩ := h
          simp only [markObjects]
          cases h1 : m.markObject u with
          | none => rfl
          | some m1 =>
            simp only [Option.some_bind]
            have he := markObject_same m m1 u h1
            obtain ⟨o1, ho1, hb1⟩ := obj_of_same he.symm u _ ho
            rw [ho1]
            obtain ⟨mk1, nx1, b1⟩ := o1
            simp only at hb1
            subst hb1
            exact ih m1 following l' ((openFrom_same he n following).trans hl')
        | _ => exact Option.noConfusion h

end Memory

namespace Memory

theorem closed_spec (m : Memory) (hc : m.closed = true) :
    (∃ l, m.openList = some l) ∧ m.vm.globals.capacity ≤ m.vm.globals.entries.length ∧
    (∀ r ∈ m.roots, m.valid r = true) ∧
    (∀ p o, m.obj p = some o → shapely o.body = true ∧
      ∀ c ∈ references o.body, m.valid c = true) := by
  unfold closed at hc
  simp only [Bool.and_eq_true, List.all_eq_true, decide_eq_true_eq, List.mem_range] at hc
  obtain ⟨⟨⟨h1, h2⟩, h3⟩, h4⟩ := hc
  refine ⟨Option.isSome_iff_exists.1 h1, h2, h3, ?_⟩
  intro p o ho
  obtain ⟨_, hp, hg, _⟩ := deref_of_obj ho
  have hlt : p - 1 < m.vm.heap.length := by
    rw [List.get?_eq_getElem?] at hg
    exact (List.getElem?_eq_some_iff.1 hg).1
  have := h4 (p - 1) hlt
  have hpp : p - 1 + 1 = p := by omega
  rw [hpp, ho] at this
  simp only [Bool.and_eq_true, List.all_eq_true] at this
  exact this

theorem allWhite_spec (m : Memory) (hw : m.allWhite = true) (p : Nat) : m.marked p = false := by
  cases ho : m.obj p with
  | none => simp [marked, ho]
  | some o =>
    obtain ⟨_, hp, hg, _⟩ := deref_of_obj ho
    have hlt : p - 1 < m.vm.heap.length := by
      rw [List.get?_eq_getElem?] at hg
      exact (List.getElem?_eq_some_iff.1 hg).1
    unfold allWhite at hw
    simp only [List.all_eq_true, List.mem_range, Bool.not_eq_true'] at hw
    have := hw (p - 1) hlt
    have hpp : p - 1 + 1 = p := by omega
    rw [hpp] at this
    exact this

/-- The function `markRoots` marks the roots, in their order. -/
theorem markRoots_eq (m : Memory) (hc : m.closed = true) :
    m.markRoots = markObjects m.roots m := by
  obtain ⟨⟨l, hl⟩, hcap, _, _⟩ := closed_spec m hc
  unfold markRoots roots
  rw [hl]
  simp only [Option.getD_some, markObjects_append, Option.bind_eq_bind, markValues_eq]
  cases h1 : markObjects (m.vm.stack.map pointerOf) m with
  | none => rfl
  | some m1 =>
    have e1 := markObjects_same _ _ _ h1
    obtain ⟨_, hf1, hc1, _, _, _, _, _⟩ := vm_of_same e1
    simp only [Option.some_bind, hf1, hc1]
    cases h2 : markObjects ((m.vm.frames.take m.vm.frameCount).map (fun f => f.closure)) m1 with
    | none => rfl
    | some m2 =>
      have e2 := (markObjects_same _ _ _ h2).trans e1
      obtain ⟨_, _, _, ho2, _, _, _, hh2⟩ := vm_of_same e2
      simp only [Option.some_bind]
      have hopen : m2.openFrom (m2.vm.heap.length + 1) m2.vm.openUpvalues = some l := by
        rw [openFrom_same e2, hh2, ho2]; exact hl
      rw [markOpenUpvalues_eq _ m2 _ l hopen]
      cases h3 : markObjects l m2 with
      | none => rfl
      | some m3 =>
        have e3 := (markObjects_same _ _ _ h3).trans e2
        obtain ⟨_, _, _, _, hg3, _, _, _⟩ := vm_of_same e3
        simp only [Option.some_bind, hg3]
        rw [markTable_eq m3 _ hcap]
        cases h4 : markObjects (tablePointers m.vm.globals) m3 with
        | none => rfl
        | some m4 =>
          have e4 := (markObjects_same _ _ _ h4).trans e3
          obtain ⟨_, _, _, _, _, _, hk4, _⟩ := vm_of_same e4
          simp only [Option.some_bind, markCompilerRoots, hk4]
          cases h5 : markObjects m.compilers m4 with
          | none => rfl
          | some m5 =>
            have e5 := (markObjects_same _ _ _ h5).trans e4
            obtain ⟨_, _, _, _, _, hi5, _, _⟩ := vm_of_same e5
            simp only [Option.some_bind, hi5, markObjects]
            cases m5.markObject m.vm.initString <;> rfl

theorem white_card_le (m : Memory) : m.white.card ≤ m.vm.heap.length := by
  unfold white
  calc _ ≤ (Finset.range m.vm.heap.length).card := Finset.card_filter_le _ _
    _ = m.vm.heap.length := Finset.card_range _

/-- The loop of `traceReferences` ends with an empty gray stack, within the
number of turns that `work` gives, and keeps the relation `Tracing`. -/
theorem traceReferencesLoop_spec (m0 : Memory) (hc : m0.closed = true) (fuel : Nat) :
    ∀ m, Tracing m0 m → m.work < fuel →
      ∃ m2, traceReferencesLoop fuel m = some m2 ∧ Tracing m0 m2 ∧ m2.grayStack = [] := by
  obtain ⟨_, _, _, hobj⟩ := closed_spec m0 hc
  induction fuel with
  | zero => intro m _ h; exact absurd h (Nat.not_lt_zero _)
  | succ n ih =>
    intro m ht hwork
    unfold traceReferencesLoop
    cases hlast : m.grayStack.getLast? with
    | none =>
      refine ⟨m, rfl, ht, ?_⟩
      exact List.getLast?_eq_none_iff.1 hlast
    | some p =>
      dsimp only
      obtain ⟨G, hG⟩ := List.getLast?_eq_some_iff.1 hlast
      have hdrop : m.grayStack.dropLast = G := by rw [hG]; exact List.dropLast_concat
      rw [hdrop]
      have hpm : m.marked p = true := ht.grayMarked p (by rw [hG]; simp)
      cases ho : m.obj p with
      | none => simp [marked, ho] at hpm
      | some o =>
        obtain ⟨o0, ho0, hb0⟩ := obj_of_same ht.same p o ho
        obtain ⟨hshape, hrefs⟩ := hobj p o0 ho0
        rw [hb0] at hshape hrefs
        have hpopsame : ({ m with grayStack := G } : Memory).erase = m0.erase := ht.same
        have hvalid : ∀ c ∈ references o.body,
            ({ m with grayStack := G } : Memory).valid c = true := fun c hcm => by
          rw [valid_of_same hpopsame c]; exact hrefs c hcm
        have hbl : ({ m with grayStack := G } : Memory).blackenObject p =
            markObjects (references o.body) { m with grayStack := G } :=
          blackenObject_eq _ p o ho hshape
        obtain ⟨m1, h1, he1, hm1, hg1, hw1⟩ := markObjects_spec (references o.body) _ hvalid
        rw [hbl, h1]
        simp only [Option.some_bind]
        have hmk : ∀ q, ({ m with grayStack := G } : Memory).marked q = m.marked q := fun _ => rfl
        have hwk : ({ m with grayStack := G } : Memory).work + 1 = m.work := by
          unfold work
          have : ({ m with grayStack := G } : Memory).white = m.white := rfl
          rw [this, hG]
          simp only [List.length_append, List.length_singleton]
          omega
        apply ih m1 _ (by omega)
        refine ⟨he1.trans hpopsame, ?_, ?_, ?_, ?_⟩
        · intro q hq
          rcases (hm1 q).1 hq with h | ⟨hmem, hq0⟩
          · exact ht.sound q h
          · exact Reachable.step p q o0 (ht.sound p hpm) ho0 (by rw [hb0]; exact hmem) hq0
        · intro r hr hr0
          exact (hm1 r).2 (Or.inl (ht.rootsMarked r hr hr0))
        · intro g hg
          rcases (hg1 g).1 hg with h | ⟨hmem, hq0, _⟩
          · exact (hm1 g).2 (Or.inl (ht.grayMarked g (by rw [hG]; simp [show g ∈ G from h])))
          · exact (hm1 g).2 (Or.inr ⟨hmem, hq0⟩)
        · intro q oq hq hqg hoq c hcm hc0
          obtain ⟨oq', hoq', hbq⟩ := obj_of_same he1 q oq hoq
          rw [← hbq] at hcm
          have hoqm : m.obj q = some oq' := hoq'
          by_cases hqp : q = p
          · subst hqp
            rw [ho] at hoqm
            simp only [Option.some.injEq] at hoqm
            subst hoqm
            exact (hm1 c).2 (Or.inr ⟨hcm, hc0⟩)
          · rcases (hm1 q).1 hq with h | ⟨hmem, hq0⟩
            · have hqG : q ∉ G := fun hin => hqg ((hg1 q).2 (Or.inl hin))
              have hqm : q ∉ m.grayStack := by
                rw [hG]
                simp [hqG, hqp]
              exact (hm1 c).2 (Or.inl (ht.blackClosed q oq' h hqm hoqm c hcm hc0))
            · cases hqm : m.marked q with
              | true =>
                have hqG : q ∉ G := fun hin => hqg ((hg1 q).2 (Or.inl hin))
                have hqm' : q ∉ m.grayStack := by
                  rw [hG]
                  simp [hqG, hqp]
                exact (hm1 c).2 (Or.inl (ht.blackClosed q oq' hqm hqm' hoqm c hcm hc0))
              | false => exact absurd ((hg1 q).2 (Or.inr ⟨hmem, hq0, hqm⟩)) hqg

end Memory

/-- C17: in a memory in which no root and no reference dangles, no object
is marked and the gray stack is empty, `markRoots` and then
`traceReferences` return, the loop of the latter within the bound that
`traceReferences` sets, whatever cycles the references form; the gray stack
is then empty, the objects are what they were but for the marks, and an
object is marked if and only if it can be reached from a root through the
references. -/
theorem marking_complete_and_exact (m : Memory) (hc : m.closed = true)
    (hw : m.allWhite = true) (hg : m.grayStack = []) :
    ∃ m1 m2, m.markRoots = some m1 ∧ m1.traceReferences = some m2 ∧ m2.grayStack = [] ∧
      m2.erase = m.erase ∧ ∀ p, m2.marked p = true ↔ Memory.Reachable m p := by
  obtain ⟨_, _, hroots, hobj⟩ := Memory.closed_spec m hc
  obtain ⟨m1, h1, he1, hm1, hg1, _⟩ := Memory.markObjects_spec m.roots m hroots
  have hwhite := Memory.allWhite_spec m hw
  have ht1 : Memory.Tracing m m1 := by
    refine ⟨he1, ?_, ?_, ?_, ?_⟩
    · intro q hq
      rcases (hm1 q).1 hq with h | ⟨hmem, hq0⟩
      · rw [hwhite q] at h; exact Bool.noConfusion h
      · exact Memory.Reachable.root q hmem hq0
    · intro r hr hr0
      exact (hm1 r).2 (Or.inr ⟨hr, hr0⟩)
    · intro g hgm
      rcases (hg1 g).1 hgm with h | ⟨hmem, hq0, _⟩
      · rw [hg] at h; exact absurd h (List.not_mem_nil g)
      · exact (hm1 g).2 (Or.inr ⟨hmem, hq0⟩)
    · intro q o hq hqg _ c _ _
      rcases (hm1 q).1 hq with h | ⟨hmem, hq0⟩
      · rw [hwhite q] at h; exact Bool.noConfusion h
      · exact absurd ((hg1 q).2 (Or.inr ⟨hmem, hq0, hwhite q⟩)) hqg
  have hfuel : m1.work < m1.grayStack.length + m1.vm.heap.length + 1 := by
    have := Memory.white_card_le m1
    unfold Memory.work
    omega
  obtain ⟨m2, h2, ht2, hg2⟩ := Memory.traceReferencesLoop_spec m hc _ m1 ht1 hfuel
  refine ⟨m1, m2, (Memory.markRoots_eq m hc).trans h1, h2, hg2, ht2.same, ?_⟩
  intro p
  constructor
  · exact ht2.sound p
  · intro hr
    induction hr with
    | root r hr hr0 => exact ht2.rootsMarked r hr hr0
    | step q c o _ ho hcm hc0 ih =>
      obtain ⟨o2, ho2, hb2⟩ := Memory.obj_of_same ht2.same.symm q o ho
      exact ht2.blackClosed q o2 ih (by rw [hg2]; exact List.not_mem_nil q) ho2 c
        (by rw [hb2]; exact hcm) hc0

theorem marking_complete_and_exact_witness :
    cycleMemory.closed = true ∧ cycleMemory.allWhite = true ∧
    ((cycleMemory.markRoots.bind Memory.traceReferences).map
      (fun m => (m.grayStack, [m.marked 1, m.marked 2, m.marked 3, m.marked 4]))) =
      some ([], [true, true, true, false]) ∧
    ∃ m1 m2, cycleMemory.markRoots = some m1 ∧ m1.traceReferences = some m2 ∧
      m2.grayStack = [] ∧ m2.erase = cycleMemory.erase ∧
      ∀ p, m2.marked p = true ↔ Memory.Reachable cycleMemory p :=
  ⟨by decide!, by decide!, by decide!,
   marking_complete_and_exact cycleMemory (by decide!) (by decide!) rfl⟩

/-! ## C19, C20: the hash table -/

namespace Table

theorem and_mask (c x : Nat) (hc : ∃ n, c = 2 ^ n) : x &&& (c - 1) = x % c := by
  obtain ⟨n, rfl⟩ := hc
  exact Nat.and_pow_two_sub_one_eq_mod x n

theorem step_mod (c h d : Nat) : ((h + d) % c + 1) % c = (h + (d + 1)) % c := by
  rw [Nat.add_mod ((h + d) % c) 1 c, Nat.mod_mod, ← Nat.add_mod, Nat.add_assoc]

/-- The probe loop from the step `d` of the sequence of the key `k`: if `e`
is the first step at which the slot is empty or holds `k`, the loop returns
the slot of `k`, or else the tombstone it carries, or else a slot with no key
between the steps `d` and `e`. -/
theorem findEntryLoop_spec (entries : List Entry) (c k h e : Nat) (hc : ∃ n, c = 2 ^ n)
    (hk : k ≠ 0)
    (hbefore : ∀ d, d < e →
      (entries.getD ((h + d) % c) { key := 0, value := NIL_VAL }).isEmpty = false ∧
      (entries.getD ((h + d) % c) { key := 0, value := NIL_VAL }).key ≠ k)
    (hstop : (entries.getD ((h + e) % c) { key := 0, value := NIL_VAL }).isEmpty = true ∨
      (entries.getD ((h + e) % c) { key := 0, value := NIL_VAL }).key = k) :
    ∀ (fuel d : Nat) (tombstone : Option Nat), d ≤ e → e - d < fuel →
      ∃ r, findEntryLoop entries c k fuel ((h + d) % c) tombstone = some r ∧
        (((entries.getD ((h + e) % c) { key := 0, value := NIL_VAL }).key = k ∧
            r = (h + e) % c) ∨
         ((entries.getD ((h + e) % c) { key := 0, value := NIL_VAL }).key ≠ k ∧
            match tombstone with
            | some t => r = t
            | none => ∃ dr, d ≤ dr ∧ dr ≤ e ∧ r = (h + dr) % c ∧
                (entries.getD r { key := 0, value := NIL_VAL }).key = 0)) := by
  intro fuel
  induction fuel with
  | zero => intro d _ _ h2; exact absurd h2 (Nat.not_lt_zero _)
  | succ n ih =>
    intro d tombstone hde hfuel
    unfold findEntryLoop
    dsimp only
    rw [and_mask c _ hc, step_mod]
    by_cases hd : d = e
    · subst hd
      rcases hstop with hempty | hkey
      · unfold Entry.isEmpty at hempty
        simp only [Bool.and_eq_true, beq_iff_eq] at hempty
        have hne : (entries.getD ((h + d) % c) { key := 0, value := NIL_VAL }).key ≠ k := by
          rw [hempty.1]; exact fun h0 => hk h0.symm
        rw [if_pos (by rw [hempty.1]; rfl), if_pos hempty.2]
        cases tombstone with
        | some t => exact ⟨t, rfl, Or.inr ⟨hne, rfl⟩⟩
        | none => exact ⟨_, rfl, Or.inr ⟨hne, d, le_refl d, le_refl d, rfl, hempty.1⟩⟩
      · rw [if_neg (by rw [hkey]; simpa using hk), if_pos (by rw [hkey]; simp)]
        exact ⟨_, rfl, Or.inl ⟨hkey, rfl⟩⟩
    · have hlt : d < e := Nat.lt_of_le_of_ne hde hd
      obtain ⟨hne, hnk⟩ := hbefore d hlt
      by_cases hz : (entries.getD ((h + d) % c) { key := 0, value := NIL_VAL }).key = 0
      · have hnil : IS_NIL (entries.getD ((h + d) % c) { key := 0, value := NIL_VAL }).value
            = false := by
          unfold Entry.isEmpty at hne
          rw [hz] at hne
          simpa using hne
        rw [if_pos (by rw [hz]; rfl), if_neg (by rw [hnil]; simp)]
        obtain ⟨r, hr, hres⟩ := ih (d + 1)
          (match tombstone with | some t => some t | none => some ((h + d) % c))
          (by omega) (by omega)
        refine ⟨r, hr, ?_⟩
        rcases hres with hl | ⟨hnk', hm⟩
        · exact Or.inl hl
        · refine Or.inr ⟨hnk', ?_⟩
          cases tombstone with
          | some t => exact hm
          | none =>
            dsimp only at hm
            exact ⟨d, le_refl d, hde, hm, by rw [hm]; exact hz⟩
      · rw [if_neg (by simpa using hz), if_neg (by simpa using hnk)]
        obtain ⟨r, hr, hres⟩ := ih (d + 1) tombstone (by omega) (by omega)
        refine ⟨r, hr, ?_⟩
        rcases hres with hl | ⟨hnk', hm⟩
        · exact Or.inl hl
        · refine Or.inr ⟨hnk', ?_⟩
          cases tombstone with
          | some t => exact hm
          | none =>
            obtain ⟨dr, h1, h2, h3, h4⟩ := hm
            exact ⟨dr, by omega, h2, h3, h4⟩

end Table

namespace Table

theorem probe_back (c h j : Nat) (hj : j < c) : (h + (j + c - h % c) % c) % c = j := by
  have hc : 0 < c := Nat.lt_of_le_of_lt (Nat.zero_le _) hj
  have ha : h % c < c := Nat.mod_lt _ hc
  rw [Nat.add_mod_mod, ← Nat.mod_add_mod]
  have e : h % c + (j + c - h % c) = j + c := by omega
  rw [e, Nat.add_mod_right, Nat.mod_eq_of_lt hj]

theorem exists_not_of_countP_lt (p : Entry → Bool) (l : List Entry) (d : Entry)
    (hl : l.countP p < l.length) : ∃ i, i < l.length ∧ p (l.getD i d) = false := by
  induction l with
  | nil => exact absurd hl (Nat.lt_irrefl _)
  | cons a l ih =>
    cases hp : p a with
    | false => exact ⟨0, Nat.succ_pos _, hp⟩
    | true =>
      rw [List.countP_cons_of_pos _ _ hp, List.length_cons] at hl
      obtain ⟨i, hi, hpi⟩ := ih (by omega)
      exact ⟨i + 1, by rw [List.length_cons]; omega, hpi⟩

theorem all_of_countP_zero (p : Entry → Bool) (l : List Entry) (d : Entry)
    (hl : l.countP p = 0) : ∀ i, i < l.length → p (l.getD i d) = false := by
  induction l with
  | nil => intro i hi; exact absurd hi (Nat.not_lt_zero _)
  | cons a l ih =>
    cases hp : p a with
    | true => rw [List.countP_cons_of_pos _ _ hp] at hl; omega
    | false =>
      rw [List.countP_cons_of_neg _ _ (by rw [hp]; simp)] at hl
      intro i hi
      cases i with
      | zero => exact hp
      | succ i => exact ih hl i (by rw [List.length_cons] at hi; omega)

theorem capacity_pow (hashOf : Nat → Nat) (t : Table) (hwf : WF hashOf t)
    (hpos : 0 < t.capacity) : ∃ n, t.capacity = 2 ^ n := by
  rcases hwf.cap with h0 | h
  · omega
  · exact h

theorem exists_empty (hashOf : Nat → Nat) (t : Table) (hwf : WF hashOf t)
    (hroom : t.count < t.capacity) : ∃ j, j < t.capacity ∧ (t.slot j).isEmpty = true := by
  have hl : t.entries.countP (fun e => !e.isEmpty) < t.entries.length := by
    rw [← hwf.count, hwf.len]; exact hroom
  obtain ⟨i, hi, hp⟩ := exists_not_of_countP_lt _ _ { key := 0, value := NIL_VAL } hl
  refine ⟨i, by rw [← hwf.len]; exact hi, ?_⟩
  unfold slot
  simpa using hp

/-- The function `findEntry` on a table with a free slot returns a slot of
the table: the slot that holds the key, or, when no slot holds the key, a
slot with no key that the probe sequence of the key reaches through slots in
use only. -/
theorem findEntry_spec (hashOf : Nat → Nat) (t : Table) (k : Nat) (hwf : WF hashOf t)
    (hk : k ≠ 0) (hroom : t.count < t.capacity) :
    ∃ r, findEntry hashOf t.entries t.capacity k = some r ∧ r < t.capacity ∧
      ((t.slot r).key = k ∨
       ((∀ i, i < t.capacity → (t.slot i).key ≠ k) ∧ (t.slot r).key = 0 ∧
         ∃ dr, dr < t.capacity ∧ (hashOf k + dr) % t.capacity = r ∧
           ∀ d', d' < dr → (t.slot ((hashOf k + d') % t.capacity)).isEmpty = false)) := by
  have hpos : 0 < t.capacity := by omega
  have hpow := capacity_pow hashOf t hwf hpos
  obtain ⟨j, hj, hjempty⟩ := exists_empty hashOf t hwf hroom
  have hex : ∃ d, (t.slot ((hashOf k + d) % t.capacity)).isEmpty = true ∨
      (t.slot ((hashOf k + d) % t.capacity)).key = k :=
    ⟨(j + t.capacity - hashOf k % t.capacity) % t.capacity, Or.inl (by
      rw [probe_back _ _ _ hj]; exact hjempty)⟩
  have hstop := Nat.find_spec hex
  have hmin : ∀ d, d < Nat.find hex →
      (t.slot ((hashOf k + d) % t.capacity)).isEmpty = false ∧
      (t.slot ((hashOf k + d) % t.capacity)).key ≠ k := by
    intro d hd
    have hn := Nat.find_min hex hd
    rw [not_or] at hn
    exact ⟨by simpa using hn.1, hn.2⟩
  have hle : Nat.find hex < t.capacity :=
    Nat.lt_of_le_of_lt (Nat.find_min' hex (Or.inl (by rw [probe_back _ _ _ hj]; exact hjempty)))
      (Nat.mod_lt _ hpos)
  obtain ⟨r, hr, hres⟩ := findEntryLoop_spec t.entries t.capacity k (hashOf k) (Nat.find hex)
    hpow hk hmin hstop t.capacity 0 none (Nat.zero_le _) (by omega)
  refine ⟨r, ?_, ?_, ?_⟩
  · unfold findEntry
    rw [if_neg (by simp; omega), and_mask _ _ hpow]
    exact hr
  · rcases hres with ⟨_, h2⟩ | ⟨_, dr, _, _, h3, _⟩
    · rw [h2]; exact Nat.mod_lt _ hpos
    · rw [h3]; exact Nat.mod_lt _ hpos
  · rcases hres with ⟨h1, h2⟩ | ⟨hnk, dr, _, hdr, h3, h4⟩
    · left; rw [h2]; exact h1
    · right
      have hempty : (t.slot ((hashOf k + Nat.find hex) % t.capacity)).isEmpty = true := by
        rcases hstop with he | he
        · exact he
        · exact absurd he hnk
      refine ⟨?_, h4, dr, by omega, h3.symm, fun d' hd' => (hmin d' (by omega)).1⟩
      intro i hi hik
      obtain ⟨d, hd, hdi, hchain⟩ := hwf.chain i hi (by rw [hik]; exact hk)
      rw [hik] at hdi hchain
      rcases Nat.lt_trichotomy d (Nat.find hex) with hlt | heq | hgt
      · exact (hmin d hlt).2 (by rw [hdi]; exact hik)
      · rw [← heq, hdi] at hnk; exact hnk hik
      · have := hchain _ hgt
        rw [hempty] at this
        exact Bool.noConfusion this

end Table

namespace Table

theorem countP_set_used (p : Entry → Bool) (e d : Entry) (hp : p e = true) :
    ∀ (l : List Entry) (r : Nat), r < l.length →
      (l.set r e).countP p = if p (l.getD r d) = true then l.countP p else l.countP p + 1 := by
  intro l
  induction l with
  | nil => intro r hr; exact absurd hr (Nat.not_lt_zero _)
  | cons a l ih =>
    intro r hr
    cases r with
    | zero =>
      rw [List.set_cons_zero, List.countP_cons_of_pos _ _ hp]
      cases ha : p a with
      | true => rw [List.countP_cons_of_pos _ _ ha]; simp [ha]
      | false => rw [List.countP_cons_of_neg _ _ (by rw [ha]; simp)]; simp [ha]
    | succ r =>
      rw [List.set_cons_succ]
      have hr2 : r < l.length := by rw [List.length_cons] at hr; omega
      have e1 : (a :: l).getD (r + 1) d = l.getD r d := by simp
      rw [e1]
      cases ha : p a with
      | true =>
        rw [List.countP_cons_of_pos _ _ ha, List.countP_cons_of_pos _ _ ha, ih r hr2]
        split <;> rfl
      | false =>
        rw [List.countP_cons_of_neg _ _ (by rw [ha]; simp),
          List.countP_cons_of_neg _ _ (by rw [ha]; simp), ih r hr2]

theorem slot_set (l : List Entry) (cnt c r : Nat) (e : Entry) (i : Nat) (hr : r < l.length) :
    slot { count := cnt, capacity := c, entries := l.set r e } i =
      if i = r then e else slot { count := cnt, capacity := c, entries := l } i := by
  unfold slot
  dsimp only
  by_cases h : i = r
  · subst h
    rw [if_pos rfl]
    simp [List.getD_eq_getElem?_getD, List.getElem?_set, hr]
  · rw [if_neg h]
    simp [List.getD_eq_getElem?_getD, List.getElem?_set, Ne.symm h]

theorem slot_eq (t : Table) (cnt : Nat) (i : Nat) :
    slot { count := cnt, capacity := t.capacity, entries := t.entries } i = t.slot i := rfl

/-- Storing an entry that is in use in a slot keeps the invariant, when the
key stored is in no other slot and its probe sequence reaches the slot
through slots in use. -/
theorem wf_set (hashOf : Nat → Nat) (t : Table) (r k v cnt : Nat) (hwf : WF hashOf t)
    (hr : r < t.capacity)
    (hne : ({ key := k, value := v } : Entry).isEmpty = false)
    (hcnt : cnt = if (t.slot r).isEmpty = true then t.count + 1 else t.count)
    (hload : 4 * cnt ≤ 3 * t.capacity)
    (hdist : k ≠ 0 → ∀ i, i < t.capacity → i ≠ r → (t.slot i).key ≠ k)
    (hchain : k ≠ 0 → ∃ d, d < t.capacity ∧ (hashOf k + d) % t.capacity = r ∧
      ∀ d', d' < d → (t.slot ((hashOf k + d') % t.capacity)).isEmpty = false) :
    WF hashOf { count := cnt, capacity := t.capacity,
                entries := t.entries.set r { key := k, value := v } } := by
  have hrl : r < t.entries.length := by rw [hwf.len]; exact hr
  have hslot : ∀ i, slot
      { count := cnt, capacity := t.capacity, entries := t.entries.set r { key := k, value := v } }
      i = if i = r then { key := k, value := v } else t.slot i := by
    intro i
    rw [slot_set _ _ _ _ _ _ hrl]
    rfl
  have hmono : ∀ i, (t.slot i).isEmpty = false → (slot
      { count := cnt, capacity := t.capacity, entries := t.entries.set r { key := k, value := v } }
      i).isEmpty = false := by
    intro i hi
    rw [hslot]
    split
    · exact hne
    · exact hi
  refine ⟨hwf.cap, ?_, ?_, hload, ?_, ?_⟩
  · dsimp only
    rw [List.length_set]
    exact hwf.len
  · dsimp only
    rw [countP_set_used _ _ { key := 0, value := NIL_VAL } (by rw [hne]; rfl) _ _ hrl, hcnt,
      ← hwf.count]
    unfold slot
    cases (t.entries.getD r { key := 0, value := NIL_VAL }).isEmpty <;> simp
  · intro i j hi hj hki hkij
    dsimp only at hi hj
    rw [hslot] at hki hkij
    rw [hslot] at hkij
    by_cases hir : i = r
    · by_cases hjr : j = r
      · rw [hir, hjr]
      · rw [if_pos hir] at hki hkij
        rw [if_neg hjr] at hkij
        exact absurd hkij.symm (hdist hki j hj hjr)
    · rw [if_neg hir] at hki hkij
      by_cases hjr : j = r
      · rw [if_pos hjr] at hkij
        dsimp only at hkij
        exact absurd hkij (hdist (by rw [← hkij]; exact hki) i hi hir)
      · rw [if_neg hjr] at hkij
        exact hwf.distinct i j hi hj hki hkij
  · intro i hi hki
    dsimp only at hi ⊢
    rw [hslot] at hki ⊢
    by_cases hir : i = r
    · rw [if_pos hir] at hki ⊢
      obtain ⟨d, hd, hdr, hch⟩ := hchain hki
      exact ⟨d, hd, by rw [hir]; exact hdr, fun d' hd' => hmono _ (hch d' hd')⟩
    · rw [if_neg hir] at hki ⊢
      obtain ⟨d, hd, hdr, hch⟩ := hwf.chain i hi hki
      exact ⟨d, hd, hdr, fun d' hd' => hmono _ (hch d' hd')⟩

theorem slot_eta (t : Table) (i : Nat) :
    t.slot i = { key := (t.slot i).key, value := (t.slot i).value } := rfl

theorem has_unique (hashOf : Nat → Nat) (t : Table) (k v w : Nat) (hwf : WF hashOf t)
    (hk : k ≠ 0) (hv : t.Has k v) (hw : t.Has k w) : v = w := by
  obtain ⟨i, hi, hvi⟩ := hv
  obtain ⟨j, hj, hwj⟩ := hw
  have e := hwf.distinct i j hi hj (by rw [hvi]; exact hk) (by rw [hvi, hwj])
  subst e
  rw [hvi] at hwj
  exact (Entry.mk.inj hwj).2

/-- The function `tableGet` on a table that satisfies the invariant: it
finds the value stored with the key, and finds nothing when no slot holds
the key. -/
theorem tableGet_spec (hashOf : Nat → Nat) (t : Table) (k : Nat) (hwf : WF hashOf t)
    (hk : k ≠ 0) :
    (∃ v, t.Has k v ∧ tableGet hashOf t k = some (some v)) ∨
    ((∀ i, i < t.capacity → (t.slot i).key ≠ k) ∧ tableGet hashOf t k = some none) := by
  unfold tableGet
  by_cases hc : t.count = 0
  · right
    rw [if_pos (by rw [hc]; rfl)]
    refine ⟨?_, rfl⟩
    intro i hi hik
    have h0 := all_of_countP_zero _ _ { key := 0, value := NIL_VAL }
      (by rw [← hwf.count]; exact hc) i (by rw [hwf.len]; exact hi)
    have h1 : (t.slot i).isEmpty = true := by unfold slot; simpa using h0
    unfold Entry.isEmpty at h1
    simp only [Bool.and_eq_true, beq_iff_eq] at h1
    rw [hik] at h1
    exact hk h1.1
  · rw [if_neg (by simpa using hc)]
    obtain ⟨r, hfr, hr, hres⟩ := findEntry_spec hashOf t k hwf hk (by have := hwf.load; omega)
    rw [hfr]
    dsimp only
    rcases hres with hkey | ⟨habs, hz, _⟩
    · left
      refine ⟨(t.slot r).value, ⟨r, hr, ?_⟩, ?_⟩
      · rw [← hkey]
      · have : (t.entries.getD r { key := 0, value := NIL_VAL }).key = k := hkey
        rw [if_neg (by rw [this]; simpa using hk)]
        rfl
    · right
      have : (t.entries.getD r { key := 0, value := NIL_VAL }).key = 0 := hz
      rw [if_pos (by rw [this]; rfl)]
      exact ⟨habs, rfl⟩

theorem not_has_of_absent (t : Table) (k : Nat)
    (h : ∀ i, i < t.capacity → (t.slot i).key ≠ k) (v : Nat) : ¬ t.Has k v := by
  rintro ⟨i, hi, hv⟩
  exact h i hi (by rw [hv])

/-- Two tables that hold the same values for a key answer `tableGet` for
that key alike. -/
theorem tableGet_congr (hashOf : Nat → Nat) (t u : Table) (k : Nat) (ht : WF hashOf t)
    (hu : WF hashOf u) (hk : k ≠ 0) (h : ∀ v, u.Has k v ↔ t.Has k v) :
    tableGet hashOf u k = tableGet hashOf t k := by
  rcases tableGet_spec hashOf t k ht hk with ⟨v, hv, hg⟩ | ⟨ha, hg⟩
  · rcases tableGet_spec hashOf u k hu hk with ⟨w, hw, hg2⟩ | ⟨ha2, _⟩
    · rw [hg, hg2, has_unique hashOf t k v w ht hk hv ((h w).mp hw)]
    · exact absurd ((h v).mpr hv) (not_has_of_absent u k ha2 v)
  · rcases tableGet_spec hashOf u k hu hk with ⟨w, hw, _⟩ | ⟨_, hg2⟩
    · exact absurd ((h w).mp hw) (not_has_of_absent t k ha w)
    · rw [hg, hg2]

end Table

namespace Table

/-- Storing the key `k` in the slot that `findEntry` returned for it: the
invariant is kept, the key is present with the new value, and the other keys
are as before. -/
theorem insert_spec (hashOf : Nat → Nat) (t : Table) (k v r cnt : Nat) (hwf : WF hashOf t)
    (hk : k ≠ 0) (hroom : 4 * (t.count + 1) ≤ 3 * t.capacity) (hr : r < t.capacity)
    (hcnt : cnt = if (t.slot r).isEmpty = true then t.count + 1 else t.count)
    (hres : (t.slot r).key = k ∨
       ((∀ i, i < t.capacity → (t.slot i).key ≠ k) ∧ (t.slot r).key = 0 ∧
         ∃ dr, dr < t.capacity ∧ (hashOf k + dr) % t.capacity = r ∧
           ∀ d', d' < dr → (t.slot ((hashOf k + d') % t.capacity)).isEmpty = false)) :
    WF hashOf { count := cnt, capacity := t.capacity,
                entries := t.entries.set r { key := k, value := v } } ∧
    Has { count := cnt, capacity := t.capacity,
          entries := t.entries.set r { key := k, value := v } } k v ∧
    ∀ k' v', k' ≠ k → k' ≠ 0 →
      (Has { count := cnt, capacity := t.capacity,
             entries := t.entries.set r { key := k, value := v } } k' v' ↔ t.Has k' v') := by
  have hrl : r < t.entries.length := by rw [hwf.len]; exact hr
  have hslot : ∀ i, slot
      { count := cnt, capacity := t.capacity, entries := t.entries.set r { key := k, value := v } }
      i = if i = r then { key := k, value := v } else t.slot i := by
    intro i
    rw [slot_set _ _ _ _ _ _ hrl]
    rfl
  have hne : ({ key := k, value := v } : Entry).isEmpty = false := by
    unfold Entry.isEmpty
    simp [hk]
  refine ⟨?_, ?_, ?_⟩
  · apply wf_set hashOf t r k v cnt hwf hr hne hcnt
    · rw [hcnt]; split <;> omega
    · intro _ i hi hir
      rcases hres with hkey | ⟨habs, _, _⟩
      · intro hik
        exact hir (hwf.distinct i r hi hr (by rw [hik]; exact hk) (by rw [hik, hkey]))
      · exact habs i hi
    · intro _
      rcases hres with hkey | ⟨_, _, hch⟩
      · have := hwf.chain r hr (by rw [hkey]; exact hk)
        rw [hkey] at this
        exact this
      · exact hch
  · exact ⟨r, hr, by rw [hslot, if_pos rfl]⟩
  · intro k' v' hkk hk0
    constructor
    · rintro ⟨i, hi, hv⟩
      rw [hslot] at hv
      by_cases hir : i = r
      · rw [if_pos hir] at hv
        exact absurd (Entry.mk.inj hv).1.symm hkk
      · rw [if_neg hir] at hv
        exact ⟨i, hi, hv⟩
    · rintro ⟨i, hi, hv⟩
      refine ⟨i, hi, ?_⟩
      rw [hslot]
      by_cases hir : i = r
      · subst hir
        rcases hres with hkey | ⟨_, hz, _⟩
        · rw [hv] at hkey; exact absurd hkey hkk
        · rw [hv] at hz; exact absurd hz hk0
      · rw [if_neg hir]
        exact hv

/-- The function `tableDelete` on a table that satisfies the invariant
returns, keeps the invariant, removes the key and leaves the other keys as
they were. -/
theorem tableDelete_spec (hashOf : Nat → Nat) (t : Table) (k : Nat) (hwf : WF hashOf t)
    (hk : k ≠ 0) :
    ∃ b t', tableDelete hashOf t k = some (b, t') ∧ WF hashOf t' ∧
      (∀ i, i < t'.capacity → (t'.slot i).key ≠ k) ∧
      ∀ k' v', k' ≠ k → k' ≠ 0 → (t'.Has k' v' ↔ t.Has k' v') := by
  unfold tableDelete
  by_cases hc : t.count = 0
  · rw [if_pos (by rw [hc]; rfl)]
    refine ⟨false, t, rfl, hwf, ?_, fun _ _ _ _ => Iff.rfl⟩
    rcases tableGet_spec hashOf t k hwf hk with ⟨v, _, hg⟩ | ⟨ha, _⟩
    · unfold tableGet at hg
      rw [if_pos (by rw [hc]; rfl)] at hg
      exact Option.noConfusion (Option.some.inj hg)
    · exact ha
  · rw [if_neg (by simpa using hc)]
    obtain ⟨r, hfr, hr, hres⟩ := findEntry_spec hashOf t k hwf hk (by have := hwf.load; omega)
    rw [hfr]
    dsimp only
    have hrl : r < t.entries.length := by rw [hwf.len]; exact hr
    rcases hres with hkey | ⟨habs, hz, _⟩
    · have hkey2 : (t.entries.getD r { key := 0, value := NIL_VAL }).key = k := hkey
      rw [if_neg (by rw [hkey2]; simpa using hk)]
      have hslot : ∀ i, slot
          { count := t.count, capacity := t.capacity,
            entries := t.entries.set r { key := 0, value := BOOL_VAL true } }
          i = if i = r then { key := 0, value := BOOL_VAL true } else t.slot i := by
        intro i
        rw [slot_set _ _ _ _ _ _ hrl]
      have hused : (t.slot r).isEmpty = false := by
        unfold Entry.isEmpty
        rw [hkey]
        simp [hk]
      refine ⟨true, _, rfl, ?_, ?_, ?_⟩
      · apply wf_set hashOf t r 0 (BOOL_VAL true) t.count hwf hr (by decide)
        · rw [hused]; rfl
        · exact hwf.load
        · intro h0; exact absurd rfl h0
        · intro h0; exact absurd rfl h0
      · intro i hi hik
        dsimp only at hi
        rw [hslot] at hik
        by_cases hir : i = r
        · rw [if_pos hir] at hik
          exact hk hik.symm
        · rw [if_neg hir] at hik
          exact hir (hwf.distinct i r hi hr (by rw [hik]; exact hk) (by rw [hik, hkey]))
      · intro k' v' hkk hk0
        constructor
        · rintro ⟨i, hi, hv⟩
          rw [hslot] at hv
          by_cases hir : i = r
          · rw [if_pos hir] at hv
            exact absurd (Entry.mk.inj hv).1.symm hk0
          · rw [if_neg hir] at hv
            exact ⟨i, hi, hv⟩
        · rintro ⟨i, hi, hv⟩
          refine ⟨i, hi, ?_⟩
          rw [hslot]
          by_cases hir : i = r
          · subst hir
            rw [hv] at hkey; exact absurd hkey hkk
          · rw [if_neg hir]
            exact hv
    · have hz2 : (t.entries.getD r { key := 0, value := NIL_VAL }).key = 0 := hz
      rw [if_pos (by rw [hz2]; rfl)]
      exact ⟨false, t, rfl, hwf, habs, fun _ _ _ _ => Iff.rfl⟩

end Table

namespace Table

/-- The second loop of `adjustCapacity`, entered with a new array that
satisfies the invariant, has no tombstone and none of the keys still to
insert: it returns, and the array returned holds what the array held and the
entries with a key of the list. -/
theorem adjustCapacityLoop_spec (hashOf : Nat → Nat) (c : Nat) :
    ∀ (rest entries : List Entry) (cnt : Nat),
      WF hashOf { count := cnt, capacity := c, entries := entries } →
      (∀ i, i < c → (slot { count := cnt, capacity := c, entries := entries } i).key = 0 →
        (slot { count := cnt, capacity := c, entries := entries } i).isEmpty = true) →
      rest.Pairwise (fun a b => a.key ≠ 0 → a.key ≠ b.key) →
      (∀ e, e ∈ rest → e.key ≠ 0 → ∀ i, i < c →
        (slot { count := cnt, capacity := c, entries := entries } i).key ≠ e.key) →
      4 * (cnt + rest.countP (fun e => e.key != 0) + 1) ≤ 3 * c →
      ∃ entries' cnt', adjustCapacityLoop hashOf c rest entries cnt = some (entries', cnt') ∧
        WF hashOf { count := cnt', capacity := c, entries := entries' } ∧
        4 * (cnt' + 1) ≤ 3 * c ∧
        ∀ k v, k ≠ 0 →
          (Has { count := cnt', capacity := c, entries := entries' } k v ↔
            Has { count := cnt, capacity := c, entries := entries } k v ∨
              ({ key := k, value := v } : Entry) ∈ rest) := by
  intro rest
  induction rest with
  | nil =>
    intro entries cnt hwf _ _ _ hload
    refine ⟨entries, cnt, rfl, hwf, by simpa using hload, ?_⟩
    intro k v _
    simp
  | cons e rest ih =>
    intro entries cnt hwf htomb hpair hnotin hload
    rw [List.pairwise_cons] at hpair
    unfold adjustCapacityLoop
    by_cases hk : e.key = 0
    · rw [if_pos (by rw [hk]; rfl)]
      rw [List.countP_cons_of_neg _ _ (by simp [hk])] at hload
      obtain ⟨entries', cnt', hrun, hwf', hload', hhas⟩ := ih entries cnt hwf htomb hpair.2
        (fun e' he' => hnotin e' (List.mem_cons_of_mem _ he')) hload
      refine ⟨entries', cnt', hrun, hwf', hload', ?_⟩
      intro k v hk0
      rw [hhas k v hk0, List.mem_cons]
      constructor
      · rintro (h | h)
        · exact Or.inl h
        · exact Or.inr (Or.inr h)
      · rintro (h | h | h)
        · exact Or.inl h
        · rw [← h] at hk; exact absurd hk hk0
        · exact Or.inr h
    · rw [if_neg (by simpa using hk)]
      rw [List.countP_cons_of_pos _ _ (by simpa using hk)] at hload
      obtain ⟨r, hfr, hr, hres⟩ := findEntry_spec hashOf
        { count := cnt, capacity := c, entries := entries } e.key hwf hk
        (by show cnt < c; omega)
      dsimp only at hfr hr
      rw [hfr]
      dsimp only
      have hrl : r < entries.length := by rw [hwf.len]; exact hr
      have habs : ∀ i, i < c →
          (slot { count := cnt, capacity := c, entries := entries } i).key ≠ e.key :=
        hnotin e (List.mem_cons_self _ _) hk
      have hz : (slot { count := cnt, capacity := c, entries := entries } r).key = 0 := by
        rcases hres with hkey | ⟨_, hz, _⟩
        · exact absurd hkey (habs r hr)
        · exact hz
      have hempty := htomb r hr hz
      obtain ⟨hwf1, hhas1, hother1⟩ := insert_spec hashOf
        { count := cnt, capacity := c, entries := entries } e.key e.value r (cnt + 1) hwf hk
        (by show 4 * (cnt + 1) ≤ 3 * c; omega) hr (by rw [hempty]; rfl) hres
      dsimp only at hwf1 hhas1 hother1
      have hslot : ∀ i, slot
          { count := cnt + 1, capacity := c,
            entries := entries.set r { key := e.key, value := e.value } }
          i = if i = r then { key := e.key, value := e.value }
              else slot { count := cnt, capacity := c, entries := entries } i := by
        intro i
        rw [slot_set _ _ _ _ _ _ hrl]
        rfl
      obtain ⟨entries', cnt', hrun, hwf', hload', hhas⟩ := ih
        (entries.set r { key := e.key, value := e.value }) (cnt + 1) hwf1
        (by
          intro i hi h0
          rw [hslot] at h0 ⊢
          by_cases hir : i = r
          · rw [if_pos hir] at h0; exact absurd h0 hk
          · rw [if_neg hir] at h0 ⊢; exact htomb i hi h0)
        hpair.2
        (by
          intro e' he' hk' i hi
          rw [hslot]
          by_cases hir : i = r
          · rw [if_pos hir]; exact hpair.1 e' he' hk
          · rw [if_neg hir]; exact hnotin e' (List.mem_cons_of_mem _ he') hk' i hi)
        (by omega)
      refine ⟨entries', cnt', hrun, hwf', hload', ?_⟩
      intro k v hk0
      rw [hhas k v hk0, List.mem_cons]
      by_cases hke : k = e.key
      · subst hke
        constructor
        · rintro (h | h)
          · have := has_unique hashOf _ _ _ _ hwf1 hk h hhas1
            subst this
            exact Or.inr (Or.inl rfl)
          · exact Or.inr (Or.inr h)
        · rintro (h | h | h)
          · exact absurd h (not_has_of_absent _ _ habs v)
          · have hv : v = e.value := (Entry.mk.inj h).2
            subst hv
            exact Or.inl hhas1
          · exact Or.inr h
      · rw [hother1 k v hke hk0]
        constructor
        · rintro (h | h)
          · exact Or.inl h
          · exact Or.inr (Or.inr h)
        · rintro (h | h | h)
          · exact Or.inl h
          · rw [← h] at hke; exact absurd rfl hke
          · exact Or.inr h

theorem slot_replicate (cnt c i : Nat) :
    slot { count := cnt, capacity := c,
           entries := List.replicate c { key := 0, value := NIL_VAL } } i =
      { key := 0, value := NIL_VAL } := by
  unfold slot
  dsimp only
  rw [List.getD_eq_getElem?_getD, List.getElem?_replicate]
  split <;> rfl

theorem has_iff_mem (hashOf : Nat → Nat) (t : Table) (hwf : WF hashOf t) (k v : Nat) :
    t.Has k v ↔ ({ key := k, value := v } : Entry) ∈ t.entries := by
  constructor
  · rintro ⟨i, hi, hv⟩
    have hil : i < t.entries.length := by rw [hwf.len]; exact hi
    unfold slot at hv
    rw [List.getD_eq_getElem _ _ hil] at hv
    rw [← hv]
    exact List.getElem_mem hil
  · intro hm
    obtain ⟨i, hil, hv⟩ := List.getElem_of_mem hm
    refine ⟨i, by rw [← hwf.len]; exact hil, ?_⟩
    unfold slot
    rw [List.getD_eq_getElem _ _ hil]
    exact hv

/-- The function `adjustCapacity` with a capacity that is a power of two and
leaves room: it returns a table of that capacity that satisfies the
invariant, has room for one more key and holds the same keys and values. -/
theorem adjustCapacity_spec (hashOf : Nat → Nat) (t : Table) (c : Nat) (hwf : WF hashOf t)
    (hc : ∃ n, c = 2 ^ n) (hroom : 4 * (t.count + 1) ≤ 3 * c) :
    ∃ t', adjustCapacity hashOf t c = some t' ∧ WF hashOf t' ∧ t'.capacity = c ∧
      4 * (t'.count + 1) ≤ 3 * t'.capacity ∧ ∀ k v, k ≠ 0 → (t'.Has k v ↔ t.Has k v) := by
  have hwf0 : WF hashOf
      { count := 0, capacity := c, entries := List.replicate c { key := 0, value := NIL_VAL } } := by
    refine ⟨Or.inr hc, List.length_replicate _ _, ?_, Nat.zero_le _, ?_, ?_⟩
    · dsimp only
      symm
      rw [List.countP_eq_zero]
      intro a ha
      rw [List.eq_of_mem_replicate ha]
      decide
    · intro i j _ _ hki
      rw [slot_replicate] at hki
      exact absurd rfl hki
    · intro i _ hki
      rw [slot_replicate] at hki
      exact absurd rfl hki
  have hpair : t.entries.Pairwise (fun a b => a.key ≠ 0 → a.key ≠ b.key) := by
    rw [List.pairwise_iff_getElem]
    intro i j hi hj hij hki hkij
    have := hwf.distinct i j (by rw [← hwf.len]; exact hi) (by rw [← hwf.len]; exact hj)
      (by unfold slot; rw [List.getD_eq_getElem _ _ hi]; exact hki)
      (by unfold slot; rw [List.getD_eq_getElem _ _ hi, List.getD_eq_getElem _ _ hj]; exact hkij)
    omega
  have hcount : t.entries.countP (fun e => e.key != 0) ≤ t.count := by
    rw [hwf.count]
    apply List.countP_mono_left
    intro e _ he
    unfold Entry.isEmpty
    simp only [bne_iff_ne, ne_eq] at he
    simp [he]
  obtain ⟨entries', cnt', hrun, hwf', hload', hhas⟩ := adjustCapacityLoop_spec hashOf c
    t.entries (List.replicate c { key := 0, value := NIL_VAL }) 0 hwf0
    (by intro i _ _; rw [slot_replicate]; rfl)
    hpair
    (by intro e _ hk i _; rw [slot_replicate]; exact fun h => hk h.symm)
    (by omega)
  refine ⟨{ count := cnt', capacity := c, entries := entries' }, ?_, hwf', rfl, hload', ?_⟩
  · unfold adjustCapacity
    dsimp only
    rw [List.take_of_length_le (by rw [hwf.len]), hrun]
  · intro k v hk
    rw [hhas k v hk, has_iff_mem hashOf t hwf]
    constructor
    · rintro (⟨i, _, h⟩ | h)
      · rw [slot_replicate] at h
        exact absurd (Entry.mk.inj h).1.symm hk
      · exact h
    · exact Or.inr

end Table

namespace Table

theorem grow_pow (c : Nat) (hc : c = 0 ∨ ∃ n, c = 2 ^ n) : ∃ n, GROW_CAPACITY c = 2 ^ n := by
  unfold GROW_CAPACITY
  split
  · exact ⟨3, rfl⟩
  · rcases hc with h0 | ⟨n, hn⟩
    · omega
    · exact ⟨n + 1, by rw [hn, Nat.pow_succ]⟩

/-- The function `tableSet` on a table that satisfies the invariant: it
returns, keeps the invariant, returns true exactly when no slot held the
key, leaves the key with the new value and the other keys as they were. -/
theorem tableSet_spec (hashOf : Nat → Nat) (t : Table) (k v : Nat) (hwf : WF hashOf t)
    (hk : k ≠ 0) :
    ∃ b t', tableSet hashOf t k v = some (b, t') ∧ WF hashOf t' ∧
      (b = true ↔ ∀ i, i < t.capacity → (t.slot i).key ≠ k) ∧
      t'.Has k v ∧ ∀ k' v', k' ≠ k → k' ≠ 0 → (t'.Has k' v' ↔ t.Has k' v') := by
  have hgrown : ∃ t1, (if 4 * (t.count + 1) > 3 * t.capacity then
        adjustCapacity hashOf t (GROW_CAPACITY t.capacity) else some t) = some t1 ∧
      WF hashOf t1 ∧ 4 * (t1.count + 1) ≤ 3 * t1.capacity ∧
      ∀ k v, k ≠ 0 → (t1.Has k v ↔ t.Has k v) := by
    split
    · obtain ⟨t1, h1, h2, _, h4, h5⟩ := adjustCapacity_spec hashOf t (GROW_CAPACITY t.capacity)
        hwf (grow_pow _ hwf.cap) (by
          have := hwf.load
          unfold GROW_CAPACITY
          split <;> omega)
      exact ⟨t1, h1, h2, h4, h5⟩
    · exact ⟨t, rfl, hwf, by omega, fun _ _ _ => Iff.rfl⟩
  obtain ⟨t1, hg, hwf1, hroom1, hsame⟩ := hgrown
  obtain ⟨r, hfr, hr, hres⟩ := findEntry_spec hashOf t1 k hwf1 hk (by omega)
  obtain ⟨hwf2, hhas2, hother2⟩ := insert_spec hashOf t1 k v r
    (if (t1.slot r).isEmpty = true then t1.count + 1 else t1.count) hwf1 hk hroom1 hr rfl hres
  refine ⟨(t1.slot r).key == 0, _, ?_, hwf2, ?_, hhas2, ?_⟩
  · unfold tableSet
    dsimp only
    rw [hg]
    dsimp only
    rw [hfr]
    rfl
  · constructor
    · intro hb i hi hik
      have hz : (t1.slot r).key = 0 := by simpa using hb
      have hin : t.Has k (t.slot i).value := ⟨i, hi, by rw [← hik]⟩
      rcases hres with hkey | ⟨habs, _, _⟩
      · rw [hkey] at hz; exact hk hz
      · exact not_has_of_absent t1 k habs _ ((hsame k _ hk).mpr hin)
    · intro habs
      rcases hres with hkey | ⟨_, hz, _⟩
      · have hin : t1.Has k (t1.slot r).value := ⟨r, hr, by rw [← hkey]⟩
        exact absurd ((hsame k _ hk).mp hin) (not_has_of_absent t k habs _)
      · rw [hz]; rfl
  · intro k' v' hkk hk0
    rw [hother2 k' v' hkk hk0, hsame k' v' hk0]

/-- The loop of `tableAddAll` keeps the invariant of the destination. -/
theorem tableAddAllLoop_wf (hashOf : Nat → Nat) :
    ∀ (l : List Entry) (t t' : Table), WF hashOf t → tableAddAllLoop hashOf l t = some t' →
      WF hashOf t' := by
  intro l
  induction l with
  | nil =>
    intro t t' hwf h
    unfold tableAddAllLoop at h
    rw [← Option.some.inj h]
    exact hwf
  | cons e l ih =>
    intro t t' hwf h
    unfold tableAddAllLoop at h
    split at h
    · rename_i hk
      obtain ⟨b, t1, hs, hwf1, _⟩ := tableSet_spec hashOf t e.key e.value hwf (by simpa using hk)
      rw [hs] at h
      exact ih t1 t' hwf1 h
    · exact ih t t' hwf h

theorem wf_init (hashOf : Nat → Nat) : WF hashOf initTable := by
  refine ⟨Or.inl rfl, rfl, rfl, Nat.le_refl _, ?_, ?_⟩
  · intro i _ hi
    exact absurd hi (Nat.not_lt_zero _)
  · intro i hi
    exact absurd hi (Nat.not_lt_zero _)

/-- Every table reached from `initTable` satisfies the invariant. -/
theorem reached_wf (hashOf : Nat → Nat) (t : Table) (h : Reached hashOf t) : WF hashOf t := by
  induction h with
  | init => exact wf_init hashOf
  | set t t' k v b _ hk hs ih =>
    obtain ⟨b0, t0, hs0, hwf0, _⟩ := tableSet_spec hashOf t k v ih hk
    rw [hs] at hs0
    rw [(Prod.mk.inj (Option.some.inj hs0)).2]
    exact hwf0
  | delete t t' k b _ hk hd ih =>
    obtain ⟨b0, t0, hd0, hwf0, _⟩ := tableDelete_spec hashOf t k ih hk
    rw [hd] at hd0
    rw [(Prod.mk.inj (Option.some.inj hd0)).2]
    exact hwf0
  | addAll src dst t' _ _ ha _ ihd =>
    exact tableAddAllLoop_wf hashOf _ dst t' ihd ha

theorem reached_tableSets (hashOf : Nat → Nat) :
    ∀ (l : List (Nat × Nat)) (t t' : Table), Reached hashOf t → (∀ p, p ∈ l → p.1 ≠ 0) →
      tableSets hashOf l t = some t' → Reached hashOf t' := by
  intro l
  induction l with
  | nil =>
    intro t t' hr _ h
    unfold tableSets at h
    rw [← Option.some.inj h]
    exact hr
  | cons p l ih =>
    intro t t' hr hk h
    obtain ⟨k, v⟩ := p
    unfold tableSets at h
    rw [Option.bind_eq_some] at h
    obtain ⟨⟨b, t1⟩, hs, h1⟩ := h
    exact ih t1 t' (Reached.set t t1 k v b hr (hk (k, v) (List.mem_cons_self _ _)) hs)
      (fun q hq => hk q (List.mem_cons_of_mem _ hq)) h1

end Table

namespace VM

theorem hashOf_of_heap (vm vm' : VM) (h : vm'.heap = vm.heap) : vm'.hashOf = vm.hashOf := by
  funext key
  unfold hashOf deref
  rw [h]

theorem charsOf_of_heap (vm vm' : VM) (h : vm'.heap = vm.heap) (p : Nat) :
    vm'.charsOf p = vm.charsOf p := by
  unfold charsOf deref
  rw [h]

/-- The macro `READ_BYTE` moves `ip` and nothing else. -/
theorem readByte_same (vm vm' : VM) (frame byte : Nat)
    (h : vm.readByte frame = some (byte, vm')) :
    vm'.heap = vm.heap ∧ vm'.globals = vm.globals ∧ vm'.stack = vm.stack ∧ vm'.err = vm.err := by
  unfold readByte at h
  simp only [Option.bind_eq_bind, Option.bind_eq_some] at h
  obtain ⟨f, _, chunk, _, h⟩ := h
  split at h
  · simp only [Option.bind_eq_some, Option.pure_def, Option.some.injEq, Prod.mk.injEq] at h
    obtain ⟨_, _, _, h⟩ := h
    subst h
    exact ⟨rfl, rfl, rfl, rfl⟩
  · exact Option.noConfusion h

/-- The macro `READ_STRING` moves `ip` and nothing else. -/
theorem readString_same (vm vm' : VM) (frame name : Nat)
    (h : vm.readString frame = some (name, vm')) :
    vm'.heap = vm.heap ∧ vm'.globals = vm.globals ∧ vm'.stack = vm.stack ∧ vm'.err = vm.err := by
  unfold readString readConstant at h
  simp only [Option.bind_eq_bind, Option.bind_eq_some, Prod.exists] at h
  obtain ⟨v, vm1, ⟨i, vm2, hr, chunk, _, h⟩, h2⟩ := h
  simp only [Option.pure_def, Option.some.injEq, Prod.mk.injEq] at h2
  split at h
  · simp only [Option.bind_eq_some, Option.pure_def, Option.some.injEq, Prod.mk.injEq] at h
    obtain ⟨_, _, _, h⟩ := h
    rw [← h2.2, ← h]
    exact readByte_same vm vm2 frame i hr
  · exact Option.noConfusion h

/-- The case `OP_SET_GLOBAL` is what `step` runs on the opcode
`OP_SET_GLOBAL`. -/
theorem step_OP_SET_GLOBAL (h : Host) (vm0 vm1 vm2 : VM) (frame name v : Nat)
    (hr : vm0.readByte frame = some (OP_SET_GLOBAL, vm1))
    (hs : vm1.readString frame = some (name, vm2)) (hp : vm2.peek 0 = some v) :
    vm0.step h frame =
      (tableSet vm2.hashOf vm2.globals name v).bind (fun p =>
        if p.1 = true then
          (tableDelete vm2.hashOf p.2 name).bind (fun d =>
            some (ret INTERPRET_RUNTIME_ERROR
              (({ vm2 with globals := d.2 } : VM).runtimeError
                ("Undefined variable '" ++ vm2.charsOf name ++ "'."))))
        else some (next frame { vm2 with globals := p.2 })) := by
  unfold VM.step
  rw [hr]
  show (do
      let (name, vm) ← vm1.readString frame
      let v ← vm.peek 0
      let (isNew, globals) ← tableSet vm.hashOf vm.globals name v
      let vm := { vm with globals := globals }
      if isNew then
        let (_, globals) ← tableDelete vm.hashOf vm.globals name
        let vm := { vm with globals := globals }
        pure (ret INTERPRET_RUNTIME_ERROR
          (vm.runtimeError ("Undefined variable '" ++ vm.charsOf name ++ "'.")))
      else pure (next frame vm)) = _
  rw [hs]
  simp only [Option.bind_eq_bind, Option.some_bind, hp]
  rfl

end VM

/-- The case `OP_SET_GLOBAL` of `VM.step`, in which no collection starts,
for a name for which
`tableGet(&vm.globals, name)` returns false, in a VM whose table of globals
was reached from `initTable`.  The turn of `run` returns
`INTERPRET_RUNTIME_ERROR`, the report "Undefined variable 'name'." is added
to the reports, and afterwards `tableGet` still returns false for the name
and returns for every other key what it returned before. -/
theorem set_global_undefined (h : Host) (vm0 vm1 vm2 : VM) (frame name v : Nat)
    (hg : Table.Reached vm0.hashOf vm0.globals) (hn : name ≠ 0)
    (hundef : tableGet vm0.hashOf vm0.globals name = some none)
    (hr : vm0.readByte frame = some (OP_SET_GLOBAL, vm1))
    (hs : vm1.readString frame = some (name, vm2)) (hp : vm2.peek 0 = some v) :
    ∃ vm', vm0.step h frame = some (ret INTERPRET_RUNTIME_ERROR vm') ∧
      (∀ fuel, VM.runLoop h (fuel + 1) frame vm0 = some (INTERPRET_RUNTIME_ERROR, vm')) ∧
      vm'.err.map (fun r => r.message) =
        vm0.err.map (fun r => r.message) ++ ["Undefined variable '" ++ vm0.charsOf name ++ "'."] ∧
      tableGet vm'.hashOf vm'.globals name = some none ∧
      ∀ k, k ≠ 0 → k ≠ name →
        tableGet vm'.hashOf vm'.globals k = tableGet vm0.hashOf vm0.globals k := by
  obtain ⟨hh1, hg1, _, he1⟩ := VM.readByte_same vm0 vm1 frame _ hr
  obtain ⟨hh2, hg2, _, he2⟩ := VM.readString_same vm1 vm2 frame _ hs
  have hheap : vm2.heap = vm0.heap := by rw [hh2, hh1]
  have hhash : vm2.hashOf = vm0.hashOf := VM.hashOf_of_heap vm0 vm2 hheap
  have hglob : vm2.globals = vm0.globals := by rw [hg2, hg1]
  have hwf := Table.reached_wf _ _ hg
  obtain ⟨b, g1, hset, hwf1, hb, _, hother1⟩ :=
    Table.tableSet_spec vm0.hashOf vm0.globals name v hwf hn
  have habs : ∀ i, i < vm0.globals.capacity → (vm0.globals.slot i).key ≠ name := by
    rcases Table.tableGet_spec vm0.hashOf vm0.globals name hwf hn with ⟨w, _, hgw⟩ | ⟨ha, _⟩
    · rw [hgw] at hundef
      exact Option.noConfusion (Option.some.inj hundef)
    · exact ha
  have hbt : b = true := hb.mpr habs
  subst hbt
  obtain ⟨b2, g2, hdel, hwf2, habs2, hother2⟩ :=
    Table.tableDelete_spec vm0.hashOf g1 name hwf1 hn
  have hstep : vm0.step h frame = some (ret INTERPRET_RUNTIME_ERROR
      (({ vm2 with globals := g2 } : VM).runtimeError
        ("Undefined variable '" ++ vm2.charsOf name ++ "'."))) := by
    rw [VM.step_OP_SET_GLOBAL h vm0 vm1 vm2 frame name v hr hs hp, hhash, hglob, hset]
    simp only [Option.some_bind, if_true, hdel]
  have hhash' : (({ vm2 with globals := g2 } : VM).runtimeError
      ("Undefined variable '" ++ vm2.charsOf name ++ "'.")).hashOf = vm0.hashOf :=
    VM.hashOf_of_heap vm0 _ hheap
  have hglob' : (({ vm2 with globals := g2 } : VM).runtimeError
      ("Undefined variable '" ++ vm2.charsOf name ++ "'.")).globals = g2 := rfl
  have hget : tableGet vm0.hashOf g2 name = some none := by
    rcases Table.tableGet_spec vm0.hashOf g2 name hwf2 hn with ⟨w, hw, _⟩ | ⟨_, hgn⟩
    · exact absurd hw (Table.not_has_of_absent g2 name habs2 w)
    · exact hgn
  refine ⟨_, hstep, fun fuel => runLoop_ret h fuel frame vm0 _ _ hstep, ?_, ?_, ?_⟩
  · have e : (({ vm2 with globals := g2 } : VM).runtimeError
        ("Undefined variable '" ++ vm2.charsOf name ++ "'.")).err =
        vm2.err ++ [{ message := "Undefined variable '" ++ vm2.charsOf name ++ "'.",
                      trace := (List.range vm2.frameCount).reverse.filterMap
                        (fun i => ({ vm2 with globals := g2 } : VM).traceLine i) }] := rfl
    rw [e, he2, he1, VM.charsOf_of_heap vm0 vm2 hheap, List.map_append]
    rfl
  · rw [hhash', hglob']
    exact hget
  · intro k hk0 hkn
    rw [hhash', hglob']
    exact Table.tableGet_congr vm0.hashOf vm0.globals g2 k hwf hwf2 hk0
      (fun w => (hother2 k w hkn hk0).trans (hother1 k w hkn hk0))

/-- An instance of `set_global_undefined`: `OP_SET_GLOBAL` for the name `a` in a VM in which only the
global `b` is defined. -/
theorem set_global_undefined_witness :
    tableGet setGlobalVM.hashOf setGlobalVM.globals 1 = some none ∧
    tableGet setGlobalVM.hashOf setGlobalVM.globals 2 = some (some (BOOL_VAL true)) ∧
    ∃ vm', setGlobalVM.step quietHost 0 = some (ret INTERPRET_RUNTIME_ERROR vm') ∧
      (∀ fuel, VM.runLoop quietHost (fuel + 1) 0 setGlobalVM =
        some (INTERPRET_RUNTIME_ERROR, vm')) ∧
      vm'.err.map (fun r => r.message) =
        setGlobalVM.err.map (fun r => r.message) ++
          ["Undefined variable '" ++ setGlobalVM.charsOf 1 ++ "'."] ∧
      tableGet vm'.hashOf vm'.globals 1 = some none ∧
      ∀ k, k ≠ 0 → k ≠ 1 →
        tableGet vm'.hashOf vm'.globals k = tableGet setGlobalVM.hashOf setGlobalVM.globals k := by
  have e : ((setGlobalVM.readByte 0).bind (fun p =>
      (p.2.readString 0).bind (fun q => (q.2.peek 0).map (fun v => (p.1, q.1, v))))) =
      some (OP_SET_GLOBAL, 1, NIL_VAL) := by decide!
  simp only [Option.bind_eq_some, Option.map_eq_some', Prod.mk.injEq, Prod.exists] at e
  obtain ⟨i, vm1, hr, name, vm2, hs, v, hp, hi, hname, hv⟩ := e
  subst hi hname hv
  exact ⟨by decide!, by decide!,
    set_global_undefined quietHost setGlobalVM vm1 vm2 0 1 NIL_VAL
      (Table.Reached.set initTable _ 2 (BOOL_VAL true) true Table.Reached.init (by decide)
        (by decide!))
      (by decide) (by decide!) hr hs hp⟩

/-! ## C24: keywords -/

/-- C24, at the failing inputs `defau`, `super`, `suuper`, `case` and
`switch`.  `identifierType` tests the lexemes that start with `d` by
`checkKeyword(1, 4, "efault", TOKEN_DEFAULT)`, which compares four
characters of a lexeme of length five, so `defau` is scanned as
`TOKEN_DEFAULT` (and `default` as an identifier); it tests those that start
with `su` by `checkKeyword(2, 4, "uper", TOKEN_SUPER)`, so `super` is
scanned as an identifier and `suuper` as `TOKEN_SUPER`; `case` and `switch`
are scanned as `TOKEN_CASE` and `TOKEN_SWITCH`.  A variable cannot be named
`defau`.  The other seventeen words of the list are scanned as their kinds,
`classes` and `fo` as identifiers. -/
theorem identifierType_wrong_keywords :
    tokenKinds "defau" = [(TOKEN_DEFAULT, 5)] ∧
    tokenKinds "super" = [(TOKEN_IDENTIFIER, 5)] ∧
    tokenKinds "suuper" = [(TOKEN_SUPER, 6)] ∧
    tokenKinds "case" = [(TOKEN_CASE, 4)] ∧
    tokenKinds "switch" = [(TOKEN_SWITCH, 6)] ∧
    tokenKinds "default classes fo" =
      [(TOKEN_IDENTIFIER, 7), (TOKEN_IDENTIFIER, 7), (TOKEN_IDENTIFIER, 2)] ∧
    compileMessages quietHost 100 "var defau;" = some (0, [cstr "Expect variable name."]) ∧
    (tokenKinds
      "and class else false for fun if nil or print return this true var while break continue").map
        (fun p => p.1) =
      [TOKEN_AND, TOKEN_CLASS, TOKEN_ELSE, TOKEN_FALSE, TOKEN_FOR, TOKEN_FUN, TOKEN_IF, TOKEN_NIL,
       TOKEN_OR, TOKEN_PRINT, TOKEN_RETURN, TOKEN_THIS, TOKEN_TRUE, TOKEN_VAR,
       TOKEN_WHILE, TOKEN_BREAK, TOKEN_CONTINUE] := by
  refine ⟨?_, ?_, ?_, ?_, ?_, ?_, ?_, ?_⟩ <;> decide!

/-! ## C29: the scope of a `for` statement -/

/-- C29, at the failing input `for (var i; false;) \x7b\x7d` compiled at the
top level: `forStatement` ends with `beginScope()` where the scope opened
for the initialiser should be closed, so `scopeDepth` is 2 instead of 0
after the statement, the local `i` is still in the array of locals
(`localCount` is 2 instead of 1), and the code ends with the `OP_POP` of the
condition: no `OP_POP` was emitted for `i`.  A block with the same
declaration leaves `scopeDepth` and `localCount` as they were and emits the
`OP_POP`. -/
theorem forStatement_leaves_scope_open :
    statementReport quietHost 100 "for (var i; false;) \x7b\x7d" =
      some ((0, 1), (2, 2),
        [OP_NIL, OP_FALSE, OP_JUMP_IF_FALSE, 0, 4, OP_POP, OP_LOOP, 0, 8, OP_POP]) ∧
    statementReport quietHost 100 "for (; false;) \x7b\x7d" =
      some ((0, 1), (2, 1),
        [OP_FALSE, OP_JUMP_IF_FALSE, 0, 4, OP_POP, OP_LOOP, 0, 8, OP_POP]) ∧
    statementReport quietHost 100 "\x7b var i; \x7d" =
      some ((0, 1), (0, 1), [OP_NIL, OP_POP]) := by
  refine ⟨?_, ?_, ?_⟩ <;> decide!

/-! ## C21, C22, C23: `tableDelete`, `tableFindString`, `tableRemoveWhite` -/

namespace Table

/-- The function `tableDelete` on a key that a slot holds: the slot becomes
a tombstone. -/
theorem tableDelete_present (hashOf : Nat → Nat) (t : Table) (k j : Nat) (hwf : WF hashOf t)
    (hk : k ≠ 0) (hj : j < t.capacity) (hkey : (t.slot j).key = k) :
    tableDelete hashOf t k = some (true,
      { count := t.count, capacity := t.capacity,
        entries := t.entries.set j { key := 0, value := BOOL_VAL true } }) := by
  have hused : (t.slot j).isEmpty = false := by
    unfold Entry.isEmpty
    rw [hkey]
    simp [hk]
  have hpos : 0 < t.count := by
    rw [hwf.count]
    apply List.countP_pos_iff.mpr
    refine ⟨t.slot j, ?_, by rw [hused]; rfl⟩
    unfold slot
    rw [List.getD_eq_getElem _ _ (by rw [hwf.len]; exact hj)]
    exact List.getElem_mem _
  unfold tableDelete
  rw [if_neg (by simp; omega)]
  obtain ⟨r, hfr, hr, hres⟩ := findEntry_spec hashOf t k hwf hk (by have := hwf.load; omega)
  rw [hfr]
  dsimp only
  have hrj : r = j := by
    rcases hres with hkr | ⟨habs, _, _⟩
    · exact hwf.distinct r j hr hj (by rw [hkr]; exact hk) (by rw [hkr, hkey])
    · exact absurd hkey (habs j hj)
  subst hrj
  have hkey2 : (t.entries.getD r { key := 0, value := NIL_VAL }).key = k := hkey
  rw [if_neg (by rw [hkey2]; simpa using hk)]

/-- The function `tableDelete` on a key that no slot holds. -/
theorem tableDelete_absent (hashOf : Nat → Nat) (t : Table) (k : Nat) (hwf : WF hashOf t)
    (hk : k ≠ 0) (habs : ∀ i, i < t.capacity → (t.slot i).key ≠ k) :
    tableDelete hashOf t k = some (false, t) := by
  unfold tableDelete
  by_cases hc : t.count = 0
  · rw [if_pos (by rw [hc]; rfl)]
  · rw [if_neg (by simpa using hc)]
    obtain ⟨r, hfr, hr, hres⟩ := findEntry_spec hashOf t k hwf hk (by have := hwf.load; omega)
    rw [hfr]
    dsimp only
    rcases hres with hkr | ⟨_, hz, _⟩
    · exact absurd hkr (habs r hr)
    · have hz2 : (t.entries.getD r { key := 0, value := NIL_VAL }).key = 0 := hz
      rw [if_pos (by rw [hz2]; rfl)]

theorem tableGet_some_iff (hashOf : Nat → Nat) (t : Table) (k v : Nat) (hwf : WF hashOf t)
    (hk : k ≠ 0) : tableGet hashOf t k = some (some v) ↔ t.Has k v := by
  rcases tableGet_spec hashOf t k hwf hk with ⟨w, hw, hg⟩ | ⟨ha, hg⟩
  · rw [hg]
    constructor
    · intro h
      rw [← Option.some.inj (Option.some.inj h)]
      exact hw
    · intro h
      rw [has_unique hashOf t k w v hwf hk hw h]
  · rw [hg]
    constructor
    · intro h
      exact Option.noConfusion (Option.some.inj h)
    · intro h
      exact absurd h (not_has_of_absent t k ha v)

theorem tableGet_none_iff (hashOf : Nat → Nat) (t : Table) (k : Nat) (hwf : WF hashOf t)
    (hk : k ≠ 0) :
    tableGet hashOf t k = some none ↔ ∀ i, i < t.capacity → (t.slot i).key ≠ k := by
  rcases tableGet_spec hashOf t k hwf hk with ⟨w, hw, hg⟩ | ⟨ha, hg⟩
  · rw [hg]
    constructor
    · intro h
      exact Option.noConfusion (Option.some.inj h)
    · intro h
      exact absurd hw (not_has_of_absent t k h w)
  · rw [hg]
    exact ⟨fun _ => ha, fun _ => rfl⟩

theorem tableGet_total (hashOf : Nat → Nat) (t : Table) (k : Nat) (hwf : WF hashOf t)
    (hk : k ≠ 0) :
    tableGet hashOf t k = some none ∨ ∃ v, tableGet hashOf t k = some (some v) := by
  rcases tableGet_spec hashOf t k hwf hk with ⟨w, _, hg⟩ | ⟨_, hg⟩
  · exact Or.inr ⟨w, hg⟩
  · exact Or.inl hg

theorem reached_collisionTable : Reached id collisionTable :=
  reached_tableSets id [(1, BOOL_VAL true), (9, BOOL_VAL false)]
    initTable collisionTable Reached.init (by decide) (by decide)

end Table

/-- C21: for every table reached from `initTable` by `tableSet`,
`tableDelete` and `tableAddAll` and every key `k` that is not `NULL`, the
call `tableDelete(table, k)` returns, and it returns true if and only if
`tableGet(table, k)` found the key before; afterwards `tableGet(table, k)`
returns false, and for every other key `tableGet` returns what it returned
before, whichever slots the keys are stored in. -/
theorem tableDelete_true_iff_present (hashOf : Nat → Nat) (t : Table) (k : Nat)
    (hr : Table.Reached hashOf t) (hk : k ≠ 0) :
    ∃ b t', tableDelete hashOf t k = some (b, t') ∧
      (b = true ↔ ∃ v, tableGet hashOf t k = some (some v)) ∧
      tableGet hashOf t' k = some none ∧
      ∀ k', k' ≠ 0 → k' ≠ k → tableGet hashOf t' k' = tableGet hashOf t k' := by
  have hwf := Table.reached_wf hashOf t hr
  obtain ⟨b, t', hd, hwf', habs', hother⟩ := Table.tableDelete_spec hashOf t k hwf hk
  refine ⟨b, t', hd, ?_, ?_, ?_⟩
  · rcases Table.tableGet_spec hashOf t k hwf hk with ⟨w, ⟨j, hj, hw⟩, hg⟩ | ⟨ha, hg⟩
    · rw [Table.tableDelete_present hashOf t k j hwf hk hj (by rw [hw])] at hd
      rw [← (Prod.mk.inj (Option.some.inj hd)).1]
      exact ⟨fun _ => ⟨w, hg⟩, fun _ => rfl⟩
    · rw [Table.tableDelete_absent hashOf t k hwf hk ha] at hd
      rw [← (Prod.mk.inj (Option.some.inj hd)).1, hg]
      constructor
      · intro h; exact Bool.noConfusion h
      · rintro ⟨v, h⟩; exact Option.noConfusion (Option.some.inj h)
  · exact (Table.tableGet_none_iff hashOf t' k hwf' hk).mpr habs'
  · intro k' hk0 hkk
    exact Table.tableGet_congr hashOf t t' k' hwf hwf' hk0 (fun w => hother k' w hkk hk0)

/-- C21, witness: the key 1 deleted from a table in which the key 9, which
hashes to the same slot, is stored in the next slot; the key 9 is found
behind the tombstone. -/
theorem tableDelete_true_iff_present_witness :
    (1 : Nat) ≠ 0 ∧
    (tableDelete id collisionTable 1).bind (fun p => tableGet id p.2 9) =
      some (some (BOOL_VAL false)) ∧
    ∃ b t', tableDelete id collisionTable 1 = some (b, t') ∧
      (b = true ↔ ∃ v, tableGet id collisionTable 1 = some (some v)) ∧
      tableGet id t' 1 = some none ∧
      ∀ k', k' ≠ 0 → k' ≠ 1 → tableGet id t' k' = tableGet id collisionTable k' :=
  ⟨by decide, by decide,
    tableDelete_true_iff_present id collisionTable 1 Table.reached_collisionTable (by decide)⟩

namespace Table

theorem key_of_isEmpty (e : Entry) (h : e.isEmpty = true) : e.key = 0 := by
  unfold Entry.isEmpty at h
  simp only [Bool.and_eq_true, beq_iff_eq] at h
  exact h.1

/-- The loop of `tableFindString` from the step `d` of the probe sequence
that starts at `h`: if `e` is the first step at which the slot is empty or
holds a key that passes the test, the loop returns the key of that slot
(`NULL` for the empty slot). -/
theorem tableFindStringLoop_spec (keyIs : Nat → Bool) (t : Table) (h e : Nat)
    (hc : ∃ n, t.capacity = 2 ^ n)
    (hbefore : ∀ d, d < e →
      (t.slot ((h + d) % t.capacity)).isEmpty = false ∧
      ((t.slot ((h + d) % t.capacity)).key = 0 ∨
        keyIs (t.slot ((h + d) % t.capacity)).key = false))
    (hstop : (t.slot ((h + e) % t.capacity)).isEmpty = true ∨
      ((t.slot ((h + e) % t.capacity)).key ≠ 0 ∧
        keyIs (t.slot ((h + e) % t.capacity)).key = true)) :
    ∀ (fuel d : Nat), d ≤ e → e - d < fuel →
      tableFindStringLoop keyIs t fuel ((h + d) % t.capacity) =
        some (t.slot ((h + e) % t.capacity)).key := by
  intro fuel
  induction fuel with
  | zero => intro d _ h2; exact absurd h2 (Nat.not_lt_zero _)
  | succ n ih =>
    intro d hde hfuel
    unfold tableFindStringLoop
    dsimp only
    rw [and_mask t.capacity _ hc, step_mod]
    change (if ((t.slot ((h + d) % t.capacity)).key == 0) = true then
        if IS_NIL (t.slot ((h + d) % t.capacity)).value = true then some 0
        else tableFindStringLoop keyIs t n ((h + (d + 1)) % t.capacity)
      else if keyIs (t.slot ((h + d) % t.capacity)).key = true then
        some (t.slot ((h + d) % t.capacity)).key
      else tableFindStringLoop keyIs t n ((h + (d + 1)) % t.capacity)) = _
    by_cases hd : d = e
    · subst hd
      rcases hstop with hempty | ⟨hkey, hkeyIs⟩
      · unfold Entry.isEmpty at hempty
        simp only [Bool.and_eq_true, beq_iff_eq] at hempty
        rw [if_pos (by rw [hempty.1]; rfl), if_pos hempty.2, hempty.1]
      · rw [if_neg (by simpa using hkey), if_pos hkeyIs]
    · have hlt : d < e := Nat.lt_of_le_of_ne hde hd
      obtain ⟨hne, hno⟩ := hbefore d hlt
      by_cases hz : (t.slot ((h + d) % t.capacity)).key = 0
      · have hnil : IS_NIL (t.slot ((h + d) % t.capacity)).value = false := by
          unfold Entry.isEmpty at hne
          rw [hz] at hne
          simpa using hne
        rw [if_pos (by rw [hz]; rfl), if_neg (by rw [hnil]; simp)]
        exact ih (d + 1) (by omega) (by omega)
      · have hf : keyIs (t.slot ((h + d) % t.capacity)).key = false := by
          rcases hno with h0 | hf
          · exact absurd h0 hz
          · exact hf
        rw [if_neg (by simpa using hz), if_neg (by rw [hf]; simp)]
        exact ih (d + 1) (by omega) (by omega)

/-- The function `tableFindString` on a table that satisfies the invariant,
for a test that only keys with the hash looked for pass: it returns a key of
the table that passes the test when the table holds one, and `NULL` when the
table holds none. -/
theorem tableFindString_spec (hashOf : Nat → Nat) (keyIs : Nat → Bool) (hash : Nat) (t : Table)
    (hwf : WF hashOf t) (hcompat : ∀ k, keyIs k = true → hashOf k = hash) :
    ∃ r, tableFindString keyIs t hash = some r ∧
      (r = 0 ∨ (keyIs r = true ∧ ∃ i, i < t.capacity ∧ (t.slot i).key = r)) ∧
      ((∃ i, i < t.capacity ∧ (t.slot i).key ≠ 0 ∧ keyIs (t.slot i).key = true) → r ≠ 0) := by
  unfold tableFindString
  by_cases hcnt : t.count = 0
  · rw [if_pos (by rw [hcnt]; rfl)]
    refine ⟨0, rfl, Or.inl rfl, ?_⟩
    rintro ⟨i, hi, hk, _⟩
    have h0 := all_of_countP_zero _ _ { key := 0, value := NIL_VAL }
      (by rw [← hwf.count]; exact hcnt) i (by rw [hwf.len]; exact hi)
    have h1 : (t.slot i).isEmpty = true := by unfold slot; simpa using h0
    unfold Entry.isEmpty at h1
    simp only [Bool.and_eq_true, beq_iff_eq] at h1
    exact absurd h1.1 hk
  · rw [if_neg (by simpa using hcnt)]
    have hroom : t.count < t.capacity := by have := hwf.load; omega
    have hpos : 0 < t.capacity := by omega
    have hpow := capacity_pow hashOf t hwf hpos
    obtain ⟨j, hj, hjempty⟩ := exists_empty hashOf t hwf hroom
    have hex : ∃ d, (t.slot ((hash + d) % t.capacity)).isEmpty = true ∨
        ((t.slot ((hash + d) % t.capacity)).key ≠ 0 ∧
          keyIs (t.slot ((hash + d) % t.capacity)).key = true) :=
      ⟨(j + t.capacity - hash % t.capacity) % t.capacity, Or.inl (by
        rw [probe_back _ _ _ hj]; exact hjempty)⟩
    have hstop := Nat.find_spec hex
    have hmin : ∀ d, d < Nat.find hex →
        (t.slot ((hash + d) % t.capacity)).isEmpty = false ∧
        ((t.slot ((hash + d) % t.capacity)).key = 0 ∨
          keyIs (t.slot ((hash + d) % t.capacity)).key = false) := by
      intro d hd
      have hn := Nat.find_min hex hd
      rw [not_or, not_and_or] at hn
      refine ⟨by simpa using hn.1, ?_⟩
      rcases hn.2 with h1 | h1
      · exact Or.inl (by simpa using h1)
      · exact Or.inr (by simpa using h1)
    have hle : Nat.find hex < t.capacity :=
      Nat.lt_of_le_of_lt
        (Nat.find_min' hex (Or.inl (by rw [probe_back _ _ _ hj]; exact hjempty)))
        (Nat.mod_lt _ hpos)
    have hrun := tableFindStringLoop_spec keyIs t hash (Nat.find hex) hpow hmin hstop
      t.capacity 0 (Nat.zero_le _) (by omega)
    rw [Nat.add_zero] at hrun
    rw [and_mask _ _ hpow, hrun]
    refine ⟨_, rfl, ?_, ?_⟩
    · rcases hstop with hempty | ⟨hkey, hkeyIs⟩
      · left
        exact key_of_isEmpty _ hempty
      · right
        exact ⟨hkeyIs, _, Nat.mod_lt _ hpos, rfl⟩
    · rintro ⟨i, hi, hk, hkeyIs⟩
      obtain ⟨d, hd, hdi, hchain⟩ := hwf.chain i hi hk
      rw [hcompat _ hkeyIs] at hdi hchain
      rcases hstop with hempty | ⟨hkey, _⟩
      · exfalso
        rcases Nat.lt_trichotomy d (Nat.find hex) with hlt | heq | hgt
        · have := hmin d hlt
          rw [hdi] at this
          rcases this.2 with h0 | hf
          · exact hk h0
          · rw [hkeyIs] at hf; exact Bool.noConfusion hf
        · have h0 := key_of_isEmpty _ hempty
          rw [← heq, hdi] at h0
          exact hk h0
        · have := hchain _ hgt
          rw [hempty] at this
          exact Bool.noConfusion this
      · exact hkey

end Table

namespace VM

/-- A key that passes the test of `tableFindString` has the hash looked
for in its field `hash`. -/
theorem keyIs_hashOf (vm : VM) (chars : List Nat) (hash k : Nat)
    (h : vm.keyIs chars hash k = true) : vm.hashOf k = hash := by
  unfold keyIs at h
  unfold hashOf
  split at h
  · rename_i o isMarked nxt length cs hh hd
    simp only [Bool.and_eq_true, beq_iff_eq] at h
    exact h.1.2
  · exact Bool.noConfusion h

end VM

theorem reached_tombstonePathTable : Table.Reached twoStringVM.hashOf tombstonePathTable :=
  Table.Reached.delete twoStringTable tombstonePathTable 1 true
    (Table.reached_tableSets twoStringVM.hashOf [(1, NIL_VAL), (2, NIL_VAL)]
      initTable twoStringTable Table.Reached.init (by decide) (by decide!))
    (by decide) (by decide!)

/-- C22: for every table reached from `initTable` by `tableSet`,
`tableDelete` and `tableAddAll` with the keys hashed by their field `hash`,
and every query `chars`, `hash`: `tableFindString` returns; what it returns
is `NULL` or a key of the table whose length, hash and bytes are those of
the query; it is such a key whenever the table holds one, and `NULL`
whenever the table holds none. -/
theorem tableFindString_finds (vm : VM) (t : Table) (chars : List Nat) (hash : Nat)
    (hr : Table.Reached vm.hashOf t) :
    ∃ r, tableFindString (vm.keyIs chars hash) t hash = some r ∧
      (r ≠ 0 → vm.keyIs chars hash r = true ∧ ∃ v, tableGet vm.hashOf t r = some (some v)) ∧
      ((∃ k v, k ≠ 0 ∧ vm.keyIs chars hash k = true ∧ tableGet vm.hashOf t k = some (some v)) →
        r ≠ 0) ∧
      ((∀ k, k ≠ 0 → vm.keyIs chars hash k = true → tableGet vm.hashOf t k = some none) →
        r = 0) := by
  have hwf := Table.reached_wf _ _ hr
  obtain ⟨r, hrun, hres, hfound⟩ := Table.tableFindString_spec vm.hashOf (vm.keyIs chars hash)
    hash t hwf (fun k hk => VM.keyIs_hashOf vm chars hash k hk)
  have hkey : r ≠ 0 → vm.keyIs chars hash r = true ∧
      ∃ v, tableGet vm.hashOf t r = some (some v) := by
    intro hr0
    rcases hres with h0 | ⟨hk, i, hi, hki⟩
    · exact absurd h0 hr0
    · refine ⟨hk, (t.slot i).value, ?_⟩
      rw [Table.tableGet_some_iff vm.hashOf t r _ hwf hr0]
      exact ⟨i, hi, by rw [← hki]⟩
  refine ⟨r, hrun, hkey, ?_, ?_⟩
  · rintro ⟨k, v, hk0, hk, hg⟩
    rw [Table.tableGet_some_iff vm.hashOf t k v hwf hk0] at hg
    obtain ⟨i, hi, hv⟩ := hg
    exact hfound ⟨i, hi, by rw [hv]; exact hk0, by rw [hv]; exact hk⟩
  · intro hnone
    by_cases hr0 : r = 0
    · exact hr0
    · obtain ⟨hk, v, hg⟩ := hkey hr0
      rw [hnone r hr0 hk] at hg
      exact Option.noConfusion (Option.some.inj hg)

/-- C22, witness: the string `b`, with the hash 9, is looked for in a table
in which the slot 1, where the probe starts, holds a tombstone and the slot
2 holds the string; the string `c` is not found. -/
theorem tableFindString_finds_witness :
    tableFindString (twoStringVM.keyIs (cstr "b") 9) tombstonePathTable 9 = some 2 ∧
    tableFindString (twoStringVM.keyIs (cstr "c") 9) tombstonePathTable 9 = some 0 ∧
    ∃ r, tableFindString (twoStringVM.keyIs (cstr "b") 9) tombstonePathTable 9 = some r ∧
      (r ≠ 0 → twoStringVM.keyIs (cstr "b") 9 r = true ∧
        ∃ v, tableGet twoStringVM.hashOf tombstonePathTable r = some (some v)) ∧
      ((∃ k v, k ≠ 0 ∧ twoStringVM.keyIs (cstr "b") 9 k = true ∧
          tableGet twoStringVM.hashOf tombstonePathTable k = some (some v)) → r ≠ 0) ∧
      ((∀ k, k ≠ 0 → twoStringVM.keyIs (cstr "b") 9 k = true →
          tableGet twoStringVM.hashOf tombstonePathTable k = some none) → r = 0) :=
  ⟨by decide!, by decide!,
    tableFindString_finds twoStringVM tombstonePathTable (cstr "b") 9 reached_tombstonePathTable⟩

namespace Table

theorem get_slot (t : Table) (i : Nat) (hi : i < t.entries.length) :
    t.entries.get? i = some (t.slot i) := by
  unfold slot
  rw [List.getD_eq_getElem _ _ hi, List.get?_eq_getElem?, List.getElem?_eq_getElem hi]

end Table

namespace Memory

theorem obj_of_heap (m m0 : Memory) (hh : m.vm.heap = m0.vm.heap) (hf : m.freed = m0.freed)
    (p : Nat) : m.obj p = m0.obj p := by
  unfold obj VM.deref
  rw [hh, hf]

/-- The loop of `tableRemoveWhite` over the indices `rest`: it returns, and
the slots whose index is in `rest` and whose key is not marked hold a
tombstone afterwards; the other slots, the heap and the other fields are as
before. -/
theorem tableRemoveWhiteLoop_spec (m0 : Memory) (c : Nat) :
    ∀ (rest : List Nat) (m : Memory),
      m.vm.heap = m0.vm.heap → m.freed = m0.freed →
      Table.WF m0.vm.hashOf m.vm.strings → m.vm.strings.capacity = c →
      (∀ j, j ∈ rest → j < c) →
      (∀ j, j < c → (m.vm.strings.slot j).key ≠ 0 →
        (m0.obj (m.vm.strings.slot j).key).isSome = true) →
      ∃ m', tableRemoveWhiteLoop rest m = some m' ∧ m'.vm.heap = m0.vm.heap ∧
        m'.freed = m0.freed ∧ Table.WF m0.vm.hashOf m'.vm.strings ∧
        m'.vm.strings.capacity = c ∧
        ∀ j, j < c → m'.vm.strings.slot j =
          if j ∈ rest ∧ (m.vm.strings.slot j).key ≠ 0 ∧
              m0.marked (m.vm.strings.slot j).key = false
          then { key := 0, value := BOOL_VAL true } else m.vm.strings.slot j := by
  intro rest
  induction rest with
  | nil =>
    intro m hh hf hwf hc _ _
    refine ⟨m, rfl, hh, hf, hwf, hc, ?_⟩
    intro j _
    rw [if_neg (by simp)]
  | cons i rest ih =>
    intro m hh hf hwf hc hrest hobj
    have hi : i < c := hrest i (List.mem_cons_self _ _)
    have hil : i < m.vm.strings.entries.length := by rw [hwf.len, hc]; exact hi
    have hhash : m.vm.hashOf = m0.vm.hashOf := VM.hashOf_of_heap m0.vm m.vm hh
    unfold tableRemoveWhiteLoop
    rw [Table.get_slot _ _ hil]
    dsimp only
    by_cases hk : (m.vm.strings.slot i).key = 0
    · rw [if_neg (by rw [hk]; simp)]
      obtain ⟨m', hrun, hh', hf', hwf', hc', hslots⟩ := ih m hh hf hwf hc
        (fun j hj => hrest j (List.mem_cons_of_mem _ hj)) hobj
      refine ⟨m', hrun, hh', hf', hwf', hc', ?_⟩
      intro j hj
      rw [hslots j hj]
      by_cases hji : j = i
      · subst hji
        rw [if_neg (fun h => h.2.1 hk), if_neg (fun h => h.2.1 hk)]
      · simp only [List.mem_cons, hji, false_or]
    · rw [if_pos (by simpa using hk)]
      have ho := hobj i hi hk
      rw [← obj_of_heap m m0 hh hf] at ho
      obtain ⟨o, hoo⟩ := Option.isSome_iff_exists.mp ho
      rw [hoo]
      dsimp only
      have hmark : m0.marked (m.vm.strings.slot i).key = o.isMarked := by
        unfold marked
        rw [← obj_of_heap m m0 hh hf, hoo]
      by_cases hm : o.isMarked = true
      · rw [if_neg (by rw [hm]; simp)]
        obtain ⟨m', hrun, hh', hf', hwf', hc', hslots⟩ := ih m hh hf hwf hc
          (fun j hj => hrest j (List.mem_cons_of_mem _ hj)) hobj
        refine ⟨m', hrun, hh', hf', hwf', hc', ?_⟩
        intro j hj
        rw [hslots j hj]
        by_cases hji : j = i
        · subst hji
          have hne : ¬ m0.marked (m.vm.strings.slot j).key = false := by
            rw [hmark, hm]; simp
          rw [if_neg (fun h => hne h.2.2), if_neg (fun h => hne h.2.2)]
        · simp only [List.mem_cons, hji, false_or]
      · rw [if_pos (by simpa using hm)]
        have hdel := Table.tableDelete_present m0.vm.hashOf m.vm.strings _ i hwf hk
          (by rw [hc]; exact hi) rfl
        rw [hhash, hdel]
        dsimp only
        obtain ⟨b0, t0, hd0, hwf1, _, _⟩ := Table.tableDelete_spec m0.vm.hashOf m.vm.strings
          (m.vm.strings.slot i).key hwf hk
        rw [hdel] at hd0
        have ht0 := (Prod.mk.inj (Option.some.inj hd0)).2
        rw [← ht0] at hwf1
        have hslot1 : ∀ j, Table.slot
            { count := m.vm.strings.count, capacity := m.vm.strings.capacity,
              entries := m.vm.strings.entries.set i { key := 0, value := BOOL_VAL true } }
            j = if j = i then { key := 0, value := BOOL_VAL true }
                else m.vm.strings.slot j := by
          intro j
          rw [Table.slot_set _ _ _ _ _ _ hil]
        obtain ⟨m', hrun, hh', hf', hwf', hc', hslots⟩ := ih
          { m with vm := { m.vm with strings :=
              { count := m.vm.strings.count, capacity := m.vm.strings.capacity,
                entries := m.vm.strings.entries.set i { key := 0, value := BOOL_VAL true } } } }
          hh hf hwf1 hc (fun j hj => hrest j (List.mem_cons_of_mem _ hj))
          (by
            intro j hj hkj
            dsimp only at hkj ⊢
            rw [hslot1] at hkj ⊢
            by_cases hji : j = i
            · rw [if_pos hji] at hkj; exact absurd rfl hkj
            · rw [if_neg hji] at hkj ⊢; exact hobj j hj hkj)
        refine ⟨m', hrun, hh', hf', hwf', hc', ?_⟩
        intro j hj
        rw [hslots j hj]
        dsimp only
        rw [hslot1]
        by_cases hji : j = i
        · subst hji
          have hun : m0.marked (m.vm.strings.slot j).key = false := by
            rw [hmark]; simpa using hm
          rw [if_pos rfl, if_neg (fun h => h.2.1 rfl),
            if_pos ⟨List.mem_cons_self _ _, hk, hun⟩]
        · rw [if_neg hji]
          simp only [List.mem_cons, hji, false_or]

/-- The function `tableRemoveWhite` on a table `vm.strings` that satisfies
the invariant and whose keys are objects: it returns; afterwards the table
satisfies the invariant and holds the keys that are marked, with their
values, and no other key; the heap is as before. -/
theorem tableRemoveWhite_has (m : Memory) (hwf : Table.WF m.vm.hashOf m.vm.strings)
    (hobj : ∀ j, j < m.vm.strings.capacity → (m.vm.strings.slot j).key ≠ 0 →
      (m.obj (m.vm.strings.slot j).key).isSome = true) :
    ∃ m', m.tableRemoveWhite = some m' ∧ m'.vm.heap = m.vm.heap ∧
      Table.WF m.vm.hashOf m'.vm.strings ∧
      ∀ k v, k ≠ 0 → (m'.vm.strings.Has k v ↔ m.vm.strings.Has k v ∧ m.marked k = true) := by
  obtain ⟨m', hrun, hh, _, hwf', hc, hslots⟩ := tableRemoveWhiteLoop_spec m m.vm.strings.capacity
    (List.range m.vm.strings.capacity) m rfl rfl hwf rfl
    (fun j hj => List.mem_range.mp hj) hobj
  refine ⟨m', hrun, hh, hwf', ?_⟩
  intro k v hk
  constructor
  · rintro ⟨j, hj, hv⟩
    rw [hc] at hj
    rw [hslots j hj] at hv
    split at hv
    · exact absurd (Entry.mk.inj hv).1.symm hk
    · rename_i hcond
      refine ⟨⟨j, hj, hv⟩, ?_⟩
      cases hm : m.marked k with
      | true => rfl
      | false =>
        exact absurd ⟨List.mem_range.mpr hj, by rw [hv]; exact hk, by rw [hv]; exact hm⟩ hcond
  · rintro ⟨⟨j, hj, hv⟩, hm⟩
    refine ⟨j, by rw [hc]; exact hj, ?_⟩
    rw [hslots j hj, if_neg ?_]
    · exact hv
    · rintro ⟨_, _, hun⟩
      rw [hv] at hun
      dsimp only at hun
      rw [hm] at hun
      exact Bool.noConfusion hun

end Memory

theorem reached_twoStringTable : Table.Reached twoStringVM.hashOf twoStringTable :=
  Table.reached_tableSets twoStringVM.hashOf [(1, NIL_VAL), (2, NIL_VAL)]
    initTable twoStringTable Table.Reached.init (by decide) (by decide!)

/-- C23: `tableRemoveWhite(&vm.strings)` on a table reached from `initTable`
whose keys are objects.  The call returns and leaves the heap as it was;
afterwards `tableGet` finds no key that was not marked, and finds every key
that was marked with the value it had; `tableFindString` returns, returns
only keys that were marked, and still finds a string with the bytes and the
hash of the query when the table held one that was marked. -/
theorem tableRemoveWhite_spec (m : Memory)
    (hr : Table.Reached m.vm.hashOf m.vm.strings)
    (hobj : ∀ k v, k ≠ 0 → tableGet m.vm.hashOf m.vm.strings k = some (some v) →
      (m.obj k).isSome = true) :
    ∃ m', m.tableRemoveWhite = some m' ∧ m'.vm.heap = m.vm.heap ∧
      (∀ k, k ≠ 0 → m.marked k = false → tableGet m.vm.hashOf m'.vm.strings k = some none) ∧
      (∀ k, k ≠ 0 → m.marked k = true →
        tableGet m.vm.hashOf m'.vm.strings k = tableGet m.vm.hashOf m.vm.strings k) ∧
      ∀ chars hash, ∃ r, tableFindString (m.vm.keyIs chars hash) m'.vm.strings hash = some r ∧
        (r ≠ 0 → m.marked r = true ∧ m.vm.keyIs chars hash r = true) ∧
        ((∃ k v, k ≠ 0 ∧ m.marked k = true ∧ m.vm.keyIs chars hash k = true ∧
            tableGet m.vm.hashOf m.vm.strings k = some (some v)) → r ≠ 0) := by
  have hwf := Table.reached_wf _ _ hr
  obtain ⟨m', hrun, hh, hwf', hhas⟩ := Memory.tableRemoveWhite_has m hwf (by
    intro j hj hk
    exact hobj _ (m.vm.strings.slot j).value hk
      ((Table.tableGet_some_iff _ _ _ _ hwf hk).mpr ⟨j, hj, rfl⟩))
  refine ⟨m', hrun, hh, ?_, ?_, ?_⟩
  · intro k hk hm
    rcases Table.tableGet_total m.vm.hashOf m'.vm.strings k hwf' hk with hn | ⟨v, hv⟩
    · exact hn
    · rw [Table.tableGet_some_iff _ _ _ _ hwf' hk, hhas k v hk, hm] at hv
      exact Bool.noConfusion hv.2
  · intro k hk hm
    apply Table.tableGet_congr m.vm.hashOf m.vm.strings m'.vm.strings k hwf hwf' hk
    intro v
    rw [hhas k v hk]
    exact ⟨fun h => h.1, fun h => ⟨h, hm⟩⟩
  · intro chars hash
    obtain ⟨r, hfind, hres, hfound⟩ := Table.tableFindString_spec m.vm.hashOf
      (m.vm.keyIs chars hash) hash m'.vm.strings hwf'
      (fun k hk => VM.keyIs_hashOf m.vm chars hash k hk)
    refine ⟨r, hfind, ?_, ?_⟩
    · intro hr0
      rcases hres with h0 | ⟨hk, i, hi, hki⟩
      · exact absurd h0 hr0
      · have hin : m'.vm.strings.Has r (m'.vm.strings.slot i).value := ⟨i, hi, by rw [← hki]⟩
        exact ⟨((hhas r _ hr0).mp hin).2, hk⟩
    · rintro ⟨k, v, hk0, hm, hk, hg⟩
      rw [Table.tableGet_some_iff _ _ _ _ hwf hk0] at hg
      obtain ⟨i, hi, hv⟩ := (hhas k v hk0).mpr ⟨hg, hm⟩
      exact hfound ⟨i, hi, by rw [hv]; exact hk0, by rw [hv]; exact hk⟩

/-- C23, witness: the strings 1 (not marked) and 2 (marked) hash to the same
slot and 2 is stored behind 1; after the call 1 is not found and 2 is. -/
theorem tableRemoveWhite_spec_witness :
    removeWhiteMemory.marked 1 = false ∧ removeWhiteMemory.marked 2 = true ∧
    (removeWhiteMemory.tableRemoveWhite).map (fun m => m.vm.strings) =
      some tombstonePathTable ∧
    ∃ m', removeWhiteMemory.tableRemoveWhite = some m' ∧
      m'.vm.heap = removeWhiteMemory.vm.heap ∧
      (∀ k, k ≠ 0 → removeWhiteMemory.marked k = false →
        tableGet removeWhiteMemory.vm.hashOf m'.vm.strings k = some none) ∧
      (∀ k, k ≠ 0 → removeWhiteMemory.marked k = true →
        tableGet removeWhiteMemory.vm.hashOf m'.vm.strings k =
          tableGet removeWhiteMemory.vm.hashOf removeWhiteMemory.vm.strings k) ∧
      ∀ chars hash, ∃ r,
        tableFindString (removeWhiteMemory.vm.keyIs chars hash) m'.vm.strings hash = some r ∧
        (r ≠ 0 → removeWhiteMemory.marked r = true ∧
          removeWhiteMemory.vm.keyIs chars hash r = true) ∧
        ((∃ k v, k ≠ 0 ∧ removeWhiteMemory.marked k = true ∧
            removeWhiteMemory.vm.keyIs chars hash k = true ∧
            tableGet removeWhiteMemory.vm.hashOf removeWhiteMemory.vm.strings k =
              some (some v)) → r ≠ 0) :=
  ⟨by decide!, by decide!, by decide!,
    tableRemoveWhite_spec removeWhiteMemory reached_twoStringTable (by
      intro k v hk hg
      have h1 : k = 1 ∨ k = 2 := by
        have hg2 : tableGet twoStringVM.hashOf twoStringTable k = some (some v) := hg
        rw [Table.tableGet_some_iff _ _ _ _ (Table.reached_wf _ _ reached_twoStringTable) hk]
          at hg2
        obtain ⟨i, hi, hv⟩ := hg2
        have hi8 : i < 8 := hi
        have hkey : (twoStringTable.slot i).key = k := by rw [hv]
        interval_cases i <;> first
          | exact absurd hkey.symm hk
          | exact Or.inl hkey.symm
          | exact Or.inr hkey.symm
      rcases h1 with h | h <;> subst h <;> decide!)⟩

/-! ## C26: the constants of a chunk -/

theorem deref_of_heap (vm vm' : VM) (h : vm'.heap = vm.heap) (p : Nat) :
    vm'.deref p = vm.deref p := by
  unfold VM.deref
  rw [h]

/-- A chunk written through the pointer of `currentChunk` is the chunk that
`currentChunk` returns afterwards. -/
theorem chunkOf_setChunk (vm vm' : VM) (f : Nat) (chunk chunk' : Chunk)
    (h : vm.chunkOf f = some chunk) (hh : vm'.heap = vm.heap) :
    (vm'.setChunk f chunk').chunkOf f = some chunk' := by
  unfold VM.chunkOf at h
  split at h
  · rename_i o isMarked nxt arity c name n hd
    have hd' : vm'.deref f = some
        { isMarked := isMarked, next := nxt, body := .function arity c name n } := by
      rw [deref_of_heap vm vm' hh]; exact hd
    have hf : f ≠ 0 := by
      intro h0
      rw [h0] at hd
      simp [VM.deref] at hd
    have hlt : f - 1 < vm'.heap.length := by
      unfold VM.deref at hd'
      rw [if_neg (by simpa using hf)] at hd'
      rw [List.get?_eq_getElem?] at hd'
      exact (List.getElem?_eq_some_iff.mp hd').1
    unfold VM.setChunk
    rw [hd']
    dsimp only
    unfold VM.store
    rw [hd']
    dsimp only
    unfold VM.chunkOf VM.deref
    rw [if_neg (by simpa using hf)]
    dsimp only
    rw [List.get?_eq_getElem?, List.getElem?_set_self hlt]
  · exact Option.noConfusion h

theorem currentChunk_setCurrentChunk (st : State) (vm' : VM) (chunk chunk' : Chunk)
    (hc : currentChunk st = some chunk) (hh : vm'.heap = st.vm.heap) :
    currentChunk (setCurrentChunk { st with vm := vm' } chunk') = some chunk' := by
  unfold currentChunk at hc
  unfold currentChunk setCurrentChunk
  cases hcur : st.current with
  | nil => rw [hcur] at hc; exact Option.noConfusion hc
  | cons c rest =>
    rw [hcur] at hc
    dsimp only at hc ⊢
    exact chunkOf_setChunk st.vm vm' c.function chunk chunk' hc hh

theorem currentChunk_errorAt (st : State) (token : Token) (message : List Nat) :
    currentChunk (errorAt st token message) = currentChunk st := by
  unfold errorAt
  split <;> rfl

/-- C26, as amended: `makeConstant(value)` on a chunk that holds `count`
constants.  The call returns and appends the value to the constants,
whatever `count` is.  If `count` is below 256, it returns the index `count`,
at most 255, the constant at that index is the value, the earlier constants
are unchanged and nothing is reported.  If `count` is 256 or more it returns
0, and, unless the parser is in panic mode, it reports "Too many constants
in one chunk." and sets `hadError`. -/
theorem makeConstant_spec (st : State) (chunk : Chunk) (value : Nat)
    (hc : currentChunk st = some chunk)
    (hlen : chunk.constants.count = chunk.constants.values.length) :
    ∃ index st' chunk', makeConstant st value = some (index, st') ∧
      currentChunk st' = some chunk' ∧
      chunk'.constants.values = chunk.constants.values ++ [value] ∧
      chunk'.constants.count = chunk.constants.count + 1 ∧
      chunk'.code = chunk.code ∧
      (chunk.constants.count < 256 →
        index = chunk.constants.count ∧ index ≤ 255 ∧
        chunk'.constants.values.get? index = some value ∧
        (∀ i, i < chunk.constants.count →
          chunk'.constants.values.get? i = chunk.constants.values.get? i) ∧
        st'.diagnostics = st.diagnostics ∧ st'.parser = st.parser) ∧
      (256 ≤ chunk.constants.count →
        index = 0 ∧
        (st.parser.panicMode = true → st'.diagnostics = st.diagnostics ∧ st'.parser = st.parser) ∧
        (st.parser.panicMode = false →
          st'.diagnostics.map (fun d => d.message) =
            st.diagnostics.map (fun d => d.message) ++
              [cstr "Too many constants in one chunk."] ∧
          st'.parser.hadError = true)) := by
  have hadd : addConstant st.vm chunk value = some (chunk.constants.count,
      { chunk with constants := writeValueArray chunk.constants value },
      { st.vm.push value with stack := st.vm.stack }) := by
    unfold addConstant
    dsimp only
    rw [pop_snoc (st.vm.push value) st.vm.stack value rfl]
    dsimp only
    rfl
  have hvals : (writeValueArray chunk.constants value).values =
      chunk.constants.values ++ [value] := by
    unfold writeValueArray
    dsimp only
    rw [hlen, List.take_length]
  have hcur := currentChunk_setCurrentChunk st { st.vm.push value with stack := st.vm.stack }
    chunk { chunk with constants := writeValueArray chunk.constants value } hc rfl
  by_cases hsmall : chunk.constants.count < 256
  · refine ⟨chunk.constants.count,
      setCurrentChunk { st with vm := { st.vm.push value with stack := st.vm.stack } }
        { chunk with constants := writeValueArray chunk.constants value },
      { chunk with constants := writeValueArray chunk.constants value },
      ?_, hcur, hvals, rfl, rfl, ?_, ?_⟩
    · unfold makeConstant
      rw [hc]
      simp only [Option.bind_eq_bind, Option.some_bind, hadd]
      rw [if_neg (by unfold UINT8_MAX; omega), Nat.mod_eq_of_lt hsmall]
      rfl
    · intro _
      refine ⟨rfl, by omega, ?_, ?_, ?_, ?_⟩
      · rw [hvals, hlen, List.get?_eq_getElem?, List.getElem?_append_right (Nat.le_refl _)]
        simp
      · intro i hi
        rw [hvals, List.get?_eq_getElem?, List.get?_eq_getElem?,
          List.getElem?_append_left (by rw [← hlen]; exact hi)]
      · unfold setCurrentChunk
        dsimp only
        split <;> rfl
      · unfold setCurrentChunk
        dsimp only
        split <;> rfl
    · intro hbig
      omega
  · refine ⟨0,
      errorAtPrevious
        (setCurrentChunk { st with vm := { st.vm.push value with stack := st.vm.stack } }
          { chunk with constants := writeValueArray chunk.constants value })
        (cstr "Too many constants in one chunk."),
      { chunk with constants := writeValueArray chunk.constants value },
      ?_, ?_, hvals, rfl, rfl, ?_, ?_⟩
    · unfold makeConstant
      rw [hc]
      simp only [Option.bind_eq_bind, Option.some_bind, hadd]
      rw [if_pos (by unfold UINT8_MAX; omega)]
      rfl
    · unfold errorAtPrevious
      rw [currentChunk_errorAt]
      exact hcur
    · intro h
      omega
    · intro _
      have hp : (setCurrentChunk { st with vm := { st.vm.push value with stack := st.vm.stack } }
          { chunk with constants := writeValueArray chunk.constants value }).parser =
          st.parser := by
        unfold setCurrentChunk
        dsimp only
        split <;> rfl
      have hd : (setCurrentChunk { st with vm := { st.vm.push value with stack := st.vm.stack } }
          { chunk with constants := writeValueArray chunk.constants value }).diagnostics =
          st.diagnostics := by
        unfold setCurrentChunk
        dsimp only
        split <;> rfl
      refine ⟨rfl, ?_, ?_⟩
      · intro hpanic
        unfold errorAtPrevious errorAt
        rw [hp, if_pos hpanic]
        exact ⟨hd, hp⟩
      · intro hpanic
        unfold errorAtPrevious errorAt
        rw [hp, if_neg (by rw [hpanic]; simp)]
        dsimp only
        rw [hd, List.map_append]
        exact ⟨rfl, rfl⟩

/-- C26, the counterexample: after 257 calls of `makeConstant` on the chunk
of a script the last call has returned 0 and reported the error, and the
constants array of the chunk holds 257 entries.  After 256 calls it holds
256 entries, the last call has returned 255 and nothing is reported. -/
theorem constants_exceed_256 :
    constantsReport 257 = some (0, 257, [cstr "Too many constants in one chunk."]) ∧
    constantsReport 256 = some (255, 256, []) := by
  constructor <;> decide!

/-- C26, witness: the first constant of the chunk of a script. -/
theorem makeConstant_spec_witness :
    ∃ st, scriptState = some st ∧ currentChunk st = some initChunk ∧
      initChunk.constants.count = initChunk.constants.values.length ∧
      ∃ index st' chunk', makeConstant st NIL_VAL = some (index, st') ∧
        currentChunk st' = some chunk' ∧
        chunk'.constants.values = initChunk.constants.values ++ [NIL_VAL] ∧
        chunk'.constants.count = initChunk.constants.count + 1 ∧
        chunk'.code = initChunk.code ∧
        (initChunk.constants.count < 256 →
          index = initChunk.constants.count ∧ index ≤ 255 ∧
          chunk'.constants.values.get? index = some NIL_VAL ∧
          (∀ i, i < initChunk.constants.count →
            chunk'.constants.values.get? i = initChunk.constants.values.get? i) ∧
          st'.diagnostics = st.diagnostics ∧ st'.parser = st.parser) ∧
        (256 ≤ initChunk.constants.count →
          index = 0 ∧
          (st.parser.panicMode = true →
            st'.diagnostics = st.diagnostics ∧ st'.parser = st.parser) ∧
          (st.parser.panicMode = false →
            st'.diagnostics.map (fun d => d.message) =
              st.diagnostics.map (fun d => d.message) ++
                [cstr "Too many constants in one chunk."] ∧
            st'.parser.hadError = true)) := by
  have e : scriptState.bind currentChunk = some initChunk := by decide!
  rw [Option.bind_eq_some] at e
  obtain ⟨st, hst, hc⟩ := e
  exact ⟨st, hst, hc, rfl, makeConstant_spec st initChunk NIL_VAL hc rfl⟩

/-! ## C28: jump operands -/

theorem addLine_code (h : Host) (chunk chunk' : Chunk) (line : Nat)
    (ha : addLine h chunk line = some chunk') :
    chunk'.code = chunk.code ∧ chunk'.count = chunk.count ∧
      chunk'.constants = chunk.constants := by
  unfold addLine at ha
  dsimp only at ha
  split at ha
  · split at ha
    · split at ha
      · rw [← Option.some.inj ha]; exact ⟨rfl, rfl, rfl⟩
      · split at ha
        · rw [← Option.some.inj ha]; exact ⟨rfl, rfl, rfl⟩
        · split at ha
          · rw [← Option.some.inj ha]; exact ⟨rfl, rfl, rfl⟩
          · exact Option.noConfusion ha
    · exact Option.noConfusion ha
  · split at ha
    · split at ha
      · rw [← Option.some.inj ha]; exact ⟨rfl, rfl, rfl⟩
      · split at ha
        · rw [← Option.some.inj ha]; exact ⟨rfl, rfl, rfl⟩
        · split at ha
          · rw [← Option.some.inj ha]; exact ⟨rfl, rfl, rfl⟩
          · exact Option.noConfusion ha
    · exact Option.noConfusion ha

theorem writeChunk_code (h : Host) (chunk chunk' : Chunk) (byte line : Nat)
    (hw : writeChunk h chunk byte line = some chunk') :
    chunk'.code = chunk.code.take chunk.count ++ [byte % 256] ∧
      chunk'.count = chunk.count + 1 ∧ chunk'.constants = chunk.constants := by
  unfold writeChunk at hw
  dsimp only at hw
  obtain ⟨h1, h2, h3⟩ := addLine_code h _ _ _ hw
  exact ⟨h1, h2, h3⟩

/-- The function `emitByte`, when it returns, appends the byte to the code
of the current chunk and changes neither the parser nor the diagnostics. -/
theorem emitByte_spec (h : Host) (st st' : State) (chunk : Chunk) (byte : Nat)
    (hc : currentChunk st = some chunk) (he : emitByte h st byte = some st') :
    ∃ chunk', currentChunk st' = some chunk' ∧
      chunk'.code = chunk.code.take chunk.count ++ [byte % 256] ∧
      chunk'.count = chunk.count + 1 ∧ chunk'.constants = chunk.constants ∧
      st'.parser = st.parser ∧ st'.diagnostics = st.diagnostics := by
  unfold emitByte at he
  rw [hc] at he
  simp only [Option.bind_eq_bind, Option.some_bind, Option.bind_eq_some, Option.pure_def,
    Option.some.injEq] at he
  obtain ⟨chunk', hw, hst⟩ := he
  obtain ⟨h1, h2, h3⟩ := writeChunk_code h _ _ _ _ hw
  refine ⟨chunk', ?_, h1, h2, h3, ?_, ?_⟩
  · rw [← hst]
    exact currentChunk_setCurrentChunk st st.vm chunk chunk' hc rfl
  · rw [← hst]
    unfold setCurrentChunk
    split <;> rfl
  · rw [← hst]
    unfold setCurrentChunk
    split <;> rfl

namespace VM

/-- The macro `READ_BYTE` returns the byte at `ip`, moves `ip` by one and
leaves the chunk of the frame in place. -/
theorem readByte_spec (vm : VM) (frame : Nat) (f : CallFrame) (chunk : Chunk) (b : Nat)
    (hf : vm.frames.get? frame = some f) (hc : vm.frameChunk frame = some chunk)
    (hip : f.ip < chunk.count) (hb : chunk.code.get? f.ip = some b) :
    ∃ vm', vm.readByte frame = some (b, vm') ∧
      vm'.frames.get? frame = some { f with ip := f.ip + 1 } ∧
      vm'.frameChunk frame = some chunk ∧ vm'.stack = vm.stack := by
  have hlt : frame < vm.frames.length := by
    rw [List.get?_eq_getElem?] at hf
    exact (List.getElem?_eq_some_iff.mp hf).1
  have hget : (vm.frames.set frame { f with ip := f.ip + 1 }).get? frame =
      some { f with ip := f.ip + 1 } := by
    rw [List.get?_eq_getElem?, List.getElem?_set_self hlt]
  refine ⟨{ vm with frames := vm.frames.set frame { f with ip := f.ip + 1 } }, ?_, hget, ?_, rfl⟩
  · unfold readByte
    rw [hf, hc]
    simp only [Option.bind_eq_bind, Option.some_bind]
    rw [if_pos hip, hb]
    rfl
  · unfold frameChunk at hc ⊢
    rw [hf] at hc
    dsimp only
    rw [hget]
    exact hc

/-- The macro `READ_SHORT` returns the two bytes at `ip` as a big-endian
number and moves `ip` by two. -/
theorem readShort_spec (vm : VM) (frame : Nat) (f : CallFrame) (chunk : Chunk) (hi lo : Nat)
    (hf : vm.frames.get? frame = some f) (hc : vm.frameChunk frame = some chunk)
    (hip : f.ip + 1 < chunk.count) (hhi : chunk.code.get? f.ip = some hi)
    (hlo : chunk.code.get? (f.ip + 1) = some lo) :
    ∃ vm', vm.readShort frame = some ((hi * 256 + lo) % 65536, vm') ∧
      vm'.frames.get? frame = some { f with ip := f.ip + 2 } ∧
      vm'.frameChunk frame = some chunk ∧ vm'.stack = vm.stack := by
  obtain ⟨vm1, hr1, hf1, hc1, hs1⟩ := readByte_spec vm frame f chunk hi hf hc (by omega) hhi
  obtain ⟨vm2, hr2, hf2, hc2, hs2⟩ := readByte_spec vm1 frame { f with ip := f.ip + 1 } chunk lo
    hf1 hc1 hip hlo
  refine ⟨vm2, ?_, hf2, hc2, by rw [hs2, hs1]⟩
  unfold readShort
  rw [hr1]
  simp only [Option.bind_eq_bind, Option.some_bind, hr2]
  rfl

/-- The cases `OP_JUMP`, `OP_JUMP_IF_FALSE` and `OP_LOOP` of `run`, once
the instruction has been read. -/
theorem step_jumps (h : Host) (vm0 vm : VM) (frame : Nat) :
    (vm0.readByte frame = some (OP_JUMP, vm) →
      vm0.step h frame = (vm.readShort frame).bind (fun p =>
        (p.2.frames.get? frame).bind (fun f =>
          some (next frame
            { p.2 with frames := p.2.frames.set frame { f with ip := f.ip + p.1 } })))) ∧
    (vm0.readByte frame = some (OP_JUMP_IF_FALSE, vm) →
      vm0.step h frame = (vm.readShort frame).bind (fun p =>
        (p.2.frames.get? frame).bind (fun f =>
          (p.2.peek 0).bind (fun v =>
            if isFalsey v = true then
              some (next frame
                { p.2 with frames := p.2.frames.set frame { f with ip := f.ip + p.1 } })
            else some (next frame p.2))))) ∧
    (vm0.readByte frame = some (OP_LOOP, vm) →
      vm0.step h frame = (vm.readShort frame).bind (fun p =>
        (p.2.frames.get? frame).bind (fun f =>
          if f.ip < p.1 then none
          else some (next frame
            { p.2 with frames := p.2.frames.set frame { f with ip := f.ip - p.1 } })))) := by
  refine ⟨?_, ?_, ?_⟩
  · intro hr
    unfold VM.step
    rw [hr]
    rfl
  · intro hr
    unfold VM.step
    rw [hr]
    rfl
  · intro hr
    unfold VM.step
    rw [hr]
    rfl

end VM

theorem length_growBytes (h : Host) (cells : List Nat) (oldCount newCount : Nat)
    (hlen : cells.length = oldCount) (hle : oldCount ≤ newCount) :
    (growBytes h cells oldCount newCount).length = newCount := by
  unfold growBytes
  rw [List.length_append, List.length_take, List.length_map, List.length_range, hlen]
  omega

/-- The function `addLine` returns when the `rle` array, after the growth
that the call may make, has room for one more pair behind the current one. -/
theorem addLine_returns (h : Host) (chunk : Chunk) (line : Nat)
    (hlen : chunk.rle.length = chunk.rleCapacity)
    (hroom : chunk.rleIndex + 4 ≤
      (if chunk.rleIndex + 2 > chunk.rleCapacity then GROW_CAPACITY chunk.rleCapacity
       else chunk.rleCapacity)) :
    ∃ chunk', addLine h chunk line = some chunk' ∧
      chunk'.rle.length = chunk'.rleCapacity ∧
      chunk'.rleCapacity = (if chunk.rleIndex + 2 > chunk.rleCapacity
        then GROW_CAPACITY chunk.rleCapacity else chunk.rleCapacity) ∧
      chunk.rleIndex ≤ chunk'.rleIndex ∧ chunk'.rleIndex ≤ chunk.rleIndex + 2 := by
  have hgrow : chunk.rleCapacity ≤ GROW_CAPACITY chunk.rleCapacity := by
    unfold GROW_CAPACITY
    split <;> omega
  unfold addLine
  dsimp only
  by_cases hg : chunk.rleIndex + 2 > chunk.rleCapacity
  · rw [if_pos hg] at hroom ⊢
    have hl := length_growBytes h chunk.rle chunk.rleCapacity _ hlen hgrow
    dsimp only
    rw [if_pos (by rw [hl]; omega)]
    split
    · exact ⟨_, rfl, by simp [hl], rfl, Nat.le_refl _, by simp⟩
    · split
      · exact ⟨_, rfl, by simp [hl], rfl, Nat.le_refl _, by simp⟩
      · rw [if_pos (by rw [hl]; omega)]
        exact ⟨_, rfl, by simp [hl], rfl, by simp, by simp⟩
  · rw [if_neg hg] at hroom ⊢
    rw [if_pos (by rw [hlen]; omega)]
    split
    · exact ⟨_, rfl, by simp [hlen], rfl, Nat.le_refl _, by simp⟩
    · split
      · exact ⟨_, rfl, by simp [hlen], rfl, Nat.le_refl _, by simp⟩
      · rw [if_pos (by rw [hlen]; omega)]
        exact ⟨_, rfl, by simp [hlen], rfl, by simp, by simp⟩

/-- The function `emitByte` returns when the `rle` array of the current
chunk has the room that `addLine` needs. -/
theorem emitByte_returns (h : Host) (st : State) (chunk : Chunk) (byte : Nat)
    (hc : currentChunk st = some chunk) (hlen : chunk.rle.length = chunk.rleCapacity)
    (hroom : chunk.rleIndex + 4 ≤
      (if chunk.rleIndex + 2 > chunk.rleCapacity then GROW_CAPACITY chunk.rleCapacity
       else chunk.rleCapacity)) :
    ∃ st' chunk', emitByte h st byte = some st' ∧ currentChunk st' = some chunk' ∧
      chunk'.rle.length = chunk'.rleCapacity ∧
      chunk'.rleCapacity = (if chunk.rleIndex + 2 > chunk.rleCapacity
        then GROW_CAPACITY chunk.rleCapacity else chunk.rleCapacity) ∧
      chunk.rleIndex ≤ chunk'.rleIndex ∧ chunk'.rleIndex ≤ chunk.rleIndex + 2 := by
  obtain ⟨chunk', ha, h1, h2, h3, h4⟩ := addLine_returns h
    { chunk with capacity := if chunk.capacity < chunk.count + 1 then GROW_CAPACITY chunk.capacity
                              else chunk.capacity,
                 code := chunk.code.take chunk.count ++ [byte % 256],
                 count := chunk.count + 1 } st.parser.previous.line hlen hroom
  refine ⟨setCurrentChunk st chunk', chunk', ?_,
    currentChunk_setCurrentChunk st st.vm chunk chunk' hc rfl, h1, h2, h3, h4⟩
  unfold emitByte
  rw [hc]
  simp only [Option.bind_eq_bind, Option.some_bind]
  unfold writeChunk
  dsimp only
  rw [ha]
  rfl

/-- The room in the `rle` array that three calls of `emitByte` need: the
array is the empty one of `initChunk`, or four more pairs fit. -/
theorem room_of_three (chunk : Chunk)
    (hroom : chunk.rleIndex + 8 ≤ chunk.rleCapacity ∨
      (chunk.rleCapacity = 0 ∧ chunk.rleIndex = 0)) :
    chunk.rleIndex + 8 ≤
      (if chunk.rleIndex + 2 > chunk.rleCapacity then GROW_CAPACITY chunk.rleCapacity
       else chunk.rleCapacity) := by
  have hgrow : chunk.rleCapacity ≤ GROW_CAPACITY chunk.rleCapacity := by
    unfold GROW_CAPACITY
    split <;> omega
  rcases hroom with h1 | ⟨h1, h2⟩
  · split <;> omega
  · rw [h1, h2]
    decide

/-- Three calls of `emitByte` in a row return. -/
theorem emitByte_three_returns (h : Host) (st : State) (chunk : Chunk) (b1 : Nat)
    (hc : currentChunk st = some chunk) (hlen : chunk.rle.length = chunk.rleCapacity)
    (hroom : chunk.rleIndex + 8 ≤ chunk.rleCapacity ∨
      (chunk.rleCapacity = 0 ∧ chunk.rleIndex = 0)) :
    ∃ s1 c1, emitByte h st b1 = some s1 ∧ currentChunk s1 = some c1 ∧
      ∀ (s1' : State), currentChunk s1' = some c1 → ∀ b2, ∃ s2 c2,
        emitByte h s1' b2 = some s2 ∧ currentChunk s2 = some c2 ∧
        ∀ b3, ∃ s3, emitByte h s2 b3 = some s3 := by
  have hr := room_of_three chunk hroom
  obtain ⟨s1, c1, he1, hc1, hl1, hcap1, hlo1, hhi1⟩ :=
    emitByte_returns h st chunk b1 hc hlen (by omega)
  have hr1 : c1.rleIndex + 6 ≤ c1.rleCapacity := by omega
  refine ⟨s1, c1, he1, hc1, ?_⟩
  intro s1' hc1' b2
  obtain ⟨s2, c2, he2, hc2, hl2, hcap2, hlo2, hhi2⟩ :=
    emitByte_returns h s1' c1 b2 hc1' hl1 (by split <;> omega)
  rw [if_neg (by omega)] at hcap2
  refine ⟨s2, c2, he2, hc2, ?_⟩
  intro b3
  obtain ⟨s3, c3, he3, _⟩ := emitByte_returns h s2 c2 b3 hc2 hl2 (by split <;> omega)
  exact ⟨s3, he3⟩

theorem toNat_high (n : Nat) (hn : n ≤ 65535) :
    ((((n : Int)) / 256) % 256).toNat = n / 256 := by
  omega

theorem toNat_low (n : Nat) : (((n : Int)) % 256).toNat = n % 256 := by
  omega

/-- The function `patchJump` on an operand inside the chunk, for a distance
that fits 16 bits: the two bytes at `offset` become the distance, high byte
first, and nothing is reported. -/
theorem patchJump_spec (st : State) (chunk : Chunk) (o : Nat)
    (hc : currentChunk st = some chunk) (ho : o + 1 < chunk.count)
    (hj : chunk.count - o - 2 ≤ 65535) :
    patchJump st o = some (setCurrentChunk st
      { chunk with code := (chunk.code.set o ((chunk.count - o - 2) / 256)).set (o + 1)
                             ((chunk.count - o - 2) % 256) }) := by
  have e : ((chunk.count : Int) - (o : Int) - 2) = ((chunk.count - o - 2 : Nat) : Int) := by
    omega
  unfold patchJump
  rw [hc]
  simp only [Option.bind_eq_bind, Option.some_bind]
  rw [if_neg (by rw [e]; unfold UINT16_MAX; omega)]
  rw [hc]
  simp only [Option.some_bind]
  rw [if_pos ho, e, toNat_high _ hj, toNat_low]
  rfl

/-- The function `patchJump` for a distance above 65535 reports "Too much
code to jump over.". -/
theorem patchJump_error (st : State) (chunk : Chunk) (o : Nat)
    (hc : currentChunk st = some chunk) (ho : o + 1 < chunk.count)
    (hj : 65535 < chunk.count - o - 2) (hp : st.parser.panicMode = false) :
    ∃ st', patchJump st o = some st' ∧ st'.parser.hadError = true ∧
      st'.diagnostics.map (fun d => d.message) =
        st.diagnostics.map (fun d => d.message) ++ [cstr "Too much code to jump over."] := by
  have e : ((chunk.count : Int) - (o : Int) - 2) = ((chunk.count - o - 2 : Nat) : Int) := by
    omega
  unfold patchJump
  rw [hc]
  simp only [Option.bind_eq_bind, Option.some_bind]
  rw [if_pos (by rw [e]; unfold UINT16_MAX; omega)]
  unfold errorAtPrevious
  rw [currentChunk_errorAt, hc]
  simp only [Option.some_bind]
  rw [if_pos ho]
  refine ⟨_, rfl, ?_, ?_⟩
  · unfold setCurrentChunk errorAt
    rw [if_neg (by rw [hp]; simp)]
    dsimp only
    split <;> rfl
  · unfold setCurrentChunk errorAt
    rw [if_neg (by rw [hp]; simp)]
    dsimp only
    split
    · dsimp only; rw [List.map_append]; rfl
    · dsimp only; rw [List.map_append]; rfl

/-- The function `emitJump`, when it returns: the instruction and two bytes
`0xff` are appended, and the offset returned is that of the first of the
two bytes. -/
theorem emitJump_spec (h : Host) (st st' : State) (chunk : Chunk) (instruction o : Nat)
    (hc : currentChunk st = some chunk) (hlen : chunk.count = chunk.code.length)
    (he : emitJump h st instruction = some (o, st')) :
    o = chunk.count + 1 ∧ ∃ chunk', currentChunk st' = some chunk' ∧
      chunk'.code = chunk.code ++ [instruction % 256, 255, 255] ∧
      chunk'.count = chunk.count + 3 := by
  unfold emitJump at he
  simp only [Option.bind_eq_bind, Option.bind_eq_some] at he
  obtain ⟨s1, h1, s2, h2, s3, h3, c3, hc3, hres⟩ := he
  obtain ⟨c1, hc1, hcode1, hcount1, _⟩ := emitByte_spec h st s1 chunk _ hc h1
  obtain ⟨c2, hc2, hcode2, hcount2, _⟩ := emitByte_spec h s1 s2 c1 _ hc1 h2
  obtain ⟨c3', hc3', hcode3, hcount3, _⟩ := emitByte_spec h s2 s3 c2 _ hc2 h3
  rw [hc3'] at hc3
  have hcc := Option.some.inj hc3
  subst hcc
  rw [hlen, List.take_length] at hcode1
  have hl1 : c1.count = c1.code.length := by rw [hcount1, hcode1, hlen]; simp
  rw [hl1, List.take_length] at hcode2
  have hl2 : c2.count = c2.code.length := by rw [hcount2, hcode2, hl1]; simp
  rw [hl2, List.take_length] at hcode3
  split at hres
  · exact Option.noConfusion hres
  · simp only [Option.pure_def, Option.some.injEq, Prod.mk.injEq] at hres
    obtain ⟨ho, hs⟩ := hres
    subst hs
    refine ⟨by omega, c3', hc3', ?_, by omega⟩
    rw [hcode3, hcode2, hcode1]
    simp

/-- The function `emitLoop`, when it returns: `OP_LOOP` and the two bytes
of the distance `count + 3 - loopStart`, reduced to 16 bits, are appended. -/
theorem emitLoop_spec (h : Host) (st st' : State) (chunk : Chunk) (loopStart : Nat)
    (hc : currentChunk st = some chunk) (hlen : chunk.count = chunk.code.length)
    (hl : loopStart ≤ chunk.count) (he : emitLoop h st loopStart = some st') :
    ∃ chunk', currentChunk st' = some chunk' ∧
      chunk'.code = chunk.code ++ [OP_LOOP, ((chunk.count + 3 - loopStart) / 256) % 256,
        (chunk.count + 3 - loopStart) % 256] ∧
      chunk'.count = chunk.count + 3 ∧
      (chunk.count + 3 - loopStart ≤ 65535 →
        st'.diagnostics = st.diagnostics ∧ st'.parser = st.parser) ∧
      (65535 < chunk.count + 3 - loopStart → st.parser.panicMode = false →
        st'.parser.hadError = true ∧
        st'.diagnostics.map (fun d => d.message) =
          st.diagnostics.map (fun d => d.message) ++ [cstr "Loop body too large."]) := by
  unfold emitLoop at he
  simp only [Option.bind_eq_bind, Option.bind_eq_some] at he
  obtain ⟨s1, h1, c1x, hc1x, s2, h2, h3⟩ := he
  obtain ⟨c1, hc1, hcode1, hcount1, _, hp1, hd1⟩ := emitByte_spec h st s1 chunk _ hc h1
  rw [hc1] at hc1x
  have hcc := Option.some.inj hc1x
  subst hcc
  rw [hlen, List.take_length] at hcode1
  have hl1 : c1.count = c1.code.length := by rw [hcount1, hcode1, hlen]; simp
  have e : ((c1.count : Int) - (loopStart : Int) + 2) =
      ((chunk.count + 3 - loopStart : Nat) : Int) := by
    rw [hcount1]; omega
  rw [e] at h2 h3
  have hhi : ((((chunk.count + 3 - loopStart : Nat) : Int) / 256) % 256).toNat =
      ((chunk.count + 3 - loopStart) / 256) % 256 := by omega
  rw [hhi] at h2
  rw [toNat_low] at h3
  have hmid : ∃ sm, ((if ((chunk.count + 3 - loopStart : Nat) : Int) > (UINT16_MAX : Int) then
        errorAtPrevious s1 (cstr "Loop body too large.") else s1) = sm) ∧
      currentChunk sm = some c1 ∧
      (chunk.count + 3 - loopStart ≤ 65535 →
        sm.diagnostics = st.diagnostics ∧ sm.parser = st.parser) ∧
      (65535 < chunk.count + 3 - loopStart → st.parser.panicMode = false →
        sm.parser.hadError = true ∧
        sm.diagnostics.map (fun d => d.message) =
          st.diagnostics.map (fun d => d.message) ++ [cstr "Loop body too large."]) := by
    by_cases hbig : 65535 < chunk.count + 3 - loopStart
    · refine ⟨_, rfl, ?_, ?_, ?_⟩
      · rw [if_pos (by unfold UINT16_MAX; omega)]
        unfold errorAtPrevious
        rw [currentChunk_errorAt]
        exact hc1
      · intro hsmall; omega
      · intro _ hpanic
        rw [if_pos (by unfold UINT16_MAX; omega)]
        unfold errorAtPrevious errorAt
        rw [hp1, if_neg (by rw [hpanic]; simp)]
        dsimp only
        rw [hd1, List.map_append]
        exact ⟨rfl, rfl⟩
    · refine ⟨_, rfl, ?_, ?_, ?_⟩
      · rw [if_neg (by unfold UINT16_MAX; omega)]
        exact hc1
      · intro _
        rw [if_neg (by unfold UINT16_MAX; omega)]
        exact ⟨hd1, hp1⟩
      · intro hb; exact absurd hb hbig
  obtain ⟨sm, hsm, hcm, hsmall, hbig⟩ := hmid
  rw [hsm] at h2
  obtain ⟨c2, hc2, hcode2, hcount2, _, hp2, hd2⟩ := emitByte_spec h sm s2 c1 _ hcm h2
  obtain ⟨c3, hc3, hcode3, hcount3, _, hp3, hd3⟩ := emitByte_spec h s2 st' c2 _ hc2 h3
  rw [hl1, List.take_length] at hcode2
  have hl2 : c2.count = c2.code.length := by rw [hcount2, hcode2, hl1]; simp
  rw [hl2, List.take_length] at hcode3
  refine ⟨c3, hc3, ?_, by omega, ?_, ?_⟩
  · rw [hcode3, hcode2, hcode1]
    have e1 : OP_LOOP % 256 = OP_LOOP := by decide
    have e2 : (chunk.count + 3 - loopStart) / 256 % 256 % 256 =
        (chunk.count + 3 - loopStart) / 256 % 256 := by omega
    have e3 : (chunk.count + 3 - loopStart) % 256 % 256 =
        (chunk.count + 3 - loopStart) % 256 := by omega
    rw [e1, e2, e3]
    simp
  · intro hs
    rw [hd3, hd2, hp3, hp2]
    exact hsmall hs
  · intro hb hpanic
    rw [hd3, hd2, hp3, hp2]
    exact hbig hb hpanic

/-- The functions `emitJump` and `emitLoop` return when the `rle` array of
the current chunk is the empty one of `initChunk` or has room for four more
pairs. -/
theorem emitJump_returns (h : Host) (st : State) (chunk : Chunk)
    (hc : currentChunk st = some chunk) (hlen : chunk.rle.length = chunk.rleCapacity)
    (hroom : chunk.rleIndex + 8 ≤ chunk.rleCapacity ∨
      (chunk.rleCapacity = 0 ∧ chunk.rleIndex = 0)) :
    (∀ instruction, ∃ o st', emitJump h st instruction = some (o, st')) ∧
      ∀ loopStart, ∃ st', emitLoop h st loopStart = some st' := by
  constructor
  · intro instruction
    obtain ⟨s1, c1, he1, hc1, hnext⟩ := emitByte_three_returns h st chunk instruction hc hlen hroom
    obtain ⟨s2, c2, he2, hc2, hlast⟩ := hnext s1 hc1 0xff
    obtain ⟨s3, he3⟩ := hlast 0xff
    obtain ⟨d1, hd1, _, hn1, _⟩ := emitByte_spec h st s1 chunk _ hc he1
    obtain ⟨d2, hd2, _, hn2, _⟩ := emitByte_spec h s1 s2 d1 _ hd1 he2
    obtain ⟨d3, hd3, _, hn3, _⟩ := emitByte_spec h s2 s3 d2 _ hd2 he3
    refine ⟨d3.count - 2, s3, ?_⟩
    unfold emitJump
    simp only [Option.bind_eq_bind, he1, Option.some_bind, he2, he3, hd3]
    rw [if_neg (by omega)]
    rfl
  · intro loopStart
    obtain ⟨s1, c1, he1, hc1, hnext⟩ := emitByte_three_returns h st chunk OP_LOOP hc hlen hroom
    unfold emitLoop
    simp only [Option.bind_eq_bind, he1, Option.some_bind, hc1]
    have hcur : ∀ msg, currentChunk (errorAtPrevious s1 msg) = some c1 := by
      intro msg
      unfold errorAtPrevious
      rw [currentChunk_errorAt]
      exact hc1
    split
    · obtain ⟨s2, c2, he2, hc2, hlast⟩ := hnext _ (hcur _)
        (((c1.count : Int) - loopStart + 2) / 256 % 256).toNat
      rw [he2]
      obtain ⟨s3, he3⟩ := hlast (((c1.count : Int) - loopStart + 2) % 256).toNat
      exact ⟨s3, he3⟩
    · obtain ⟨s2, c2, he2, hc2, hlast⟩ := hnext s1 hc1
        (((c1.count : Int) - loopStart + 2) / 256 % 256).toNat
      rw [he2]
      obtain ⟨s3, he3⟩ := hlast (((c1.count : Int) - loopStart + 2) % 256).toNat
      exact ⟨s3, he3⟩

namespace VM

/-- A jump instruction at `ip` whose operand bytes are `hi` and `lo`: the
turn of `run` continues at `ip + 3 + (hi * 256 + lo)` for `OP_JUMP` and for
`OP_JUMP_IF_FALSE` on a false value, and at `ip + 3 - (hi * 256 + lo)` for
`OP_LOOP`. -/
theorem step_jump_at (h : Host) (vm : VM) (frame : Nat) (f : CallFrame) (chunk : Chunk)
    (op hi lo : Nat) (hf : vm.frames.get? frame = some f)
    (hc : vm.frameChunk frame = some chunk) (hip : f.ip + 2 < chunk.count)
    (hop : chunk.code.get? f.ip = some op) (hhi : chunk.code.get? (f.ip + 1) = some hi)
    (hlo : chunk.code.get? (f.ip + 2) = some lo) (hsmall : hi * 256 + lo ≤ 65535) :
    (op = OP_JUMP → ∃ vm', vm.step h frame = some (next frame vm') ∧
      (vm'.frames.get? frame).map (fun g => g.ip) = some (f.ip + 3 + (hi * 256 + lo))) ∧
    (op = OP_JUMP_IF_FALSE → ∀ v, vm.peek 0 = some v → isFalsey v = true →
      ∃ vm', vm.step h frame = some (next frame vm') ∧
        (vm'.frames.get? frame).map (fun g => g.ip) = some (f.ip + 3 + (hi * 256 + lo))) ∧
    (op = OP_LOOP → hi * 256 + lo ≤ f.ip + 3 →
      ∃ vm', vm.step h frame = some (next frame vm') ∧
        (vm'.frames.get? frame).map (fun g => g.ip) = some (f.ip + 3 - (hi * 256 + lo))) := by
  obtain ⟨vm1, hr1, hf1, hc1, hs1⟩ := readByte_spec vm frame f chunk op hf hc (by omega) hop
  obtain ⟨vm2, hr2, hf2, hc2, hs2⟩ := readShort_spec vm1 frame { f with ip := f.ip + 1 } chunk
    hi lo hf1 hc1 (by show f.ip + 1 + 1 < chunk.count; omega) hhi hlo
  rw [Nat.mod_eq_of_lt (by omega)] at hr2
  have hlt : frame < vm2.frames.length := by
    rw [List.get?_eq_getElem?] at hf2
    exact (List.getElem?_eq_some_iff.mp hf2).1
  refine ⟨?_, ?_, ?_⟩
  · intro hop1
    subst hop1
    rw [(step_jumps h vm vm1 frame).1 hr1, hr2]
    simp only [Option.some_bind, hf2]
    refine ⟨_, rfl, ?_⟩
    dsimp only
    rw [List.get?_eq_getElem?, List.getElem?_set_self hlt]
    simp only [Option.map_some', Option.some.injEq]
  · intro hop1 v hv hfalse
    subst hop1
    have hpeek : vm2.peek 0 = some v := by
      unfold peek stackTop at hv ⊢
      rw [hs2, hs1]
      exact hv
    rw [(step_jumps h vm vm1 frame).2.1 hr1, hr2]
    simp only [Option.some_bind, hf2, hpeek]
    rw [if_pos hfalse]
    refine ⟨_, rfl, ?_⟩
    dsimp only
    rw [List.get?_eq_getElem?, List.getElem?_set_self hlt]
    simp only [Option.map_some', Option.some.injEq]
  · intro hop1 hback
    subst hop1
    rw [(step_jumps h vm vm1 frame).2.2 hr1, hr2]
    simp only [Option.some_bind, hf2]
    rw [if_neg (by show ¬ f.ip + 1 + 2 < hi * 256 + lo; omega)]
    refine ⟨_, rfl, ?_⟩
    dsimp only
    rw [List.get?_eq_getElem?, List.getElem?_set_self hlt]
    simp only [Option.map_some', Option.some.injEq]

end VM

/-- C28: on a chunk under compilation that holds `count` bytes.
`emitJump` and `emitLoop` return when the array of line records is the empty
one of `initChunk` or has room for four more pairs (`addLine` writes past
the array otherwise).  `emitJump`, when it returns, has appended the
instruction and two bytes and returns the offset `count + 1` of the first.  `patchJump(o)` for an operand
inside the chunk and a distance `count - o - 2` of at most 65535 returns,
reports nothing, and leaves the high byte of the distance at `o` and the low
byte at `o + 1`, the other bytes as they were; a VM that executes an
`OP_JUMP`, or an `OP_JUMP_IF_FALSE` on a false value, standing before that
operand continues at the offset `count`.  `emitLoop(loopStart)`, when it
returns with a distance `count + 3 - loopStart` of at most 65535, has
appended `OP_LOOP` and the two bytes of the distance and reported nothing,
and a VM that executes that `OP_LOOP` continues at `loopStart`.  A distance
above 65535 is reported: "Too much code to jump over." by `patchJump`, "Loop
body too large." by `emitLoop`. -/
theorem jump_operands_decode (h : Host) (st : State) (chunk : Chunk)
    (hc : currentChunk st = some chunk) (hlen : chunk.count = chunk.code.length) :
    (∀ instruction o st', emitJump h st instruction = some (o, st') →
      o = chunk.count + 1 ∧ ∃ chunk', currentChunk st' = some chunk' ∧
        chunk'.code = chunk.code ++ [instruction % 256, 255, 255] ∧
        chunk'.count = chunk.count + 3) ∧
    (∀ o, o + 1 < chunk.count → chunk.count - o - 2 ≤ 65535 →
      ∃ st' chunk', patchJump st o = some st' ∧ currentChunk st' = some chunk' ∧
        st'.diagnostics = st.diagnostics ∧ chunk'.count = chunk.count ∧
        chunk'.code.get? o = some ((chunk.count - o - 2) / 256) ∧
        chunk'.code.get? (o + 1) = some ((chunk.count - o - 2) % 256) ∧
        (∀ i, i ≠ o → i ≠ o + 1 → chunk'.code.get? i = chunk.code.get? i) ∧
        ∀ (vm : VM) (frame : Nat) (f : CallFrame), vm.frames.get? frame = some f →
          vm.frameChunk frame = some chunk' → f.ip + 1 = o →
          (chunk'.code.get? f.ip = some OP_JUMP →
            ∃ vm', vm.step h frame = some (next frame vm') ∧
              (vm'.frames.get? frame).map (fun g => g.ip) = some chunk.count) ∧
          (chunk'.code.get? f.ip = some OP_JUMP_IF_FALSE →
            ∀ v, vm.peek 0 = some v → isFalsey v = true →
              ∃ vm', vm.step h frame = some (next frame vm') ∧
                (vm'.frames.get? frame).map (fun g => g.ip) = some chunk.count)) ∧
    (∀ o, o + 1 < chunk.count → 65535 < chunk.count - o - 2 → st.parser.panicMode = false →
      ∃ st', patchJump st o = some st' ∧ st'.parser.hadError = true ∧
        st'.diagnostics.map (fun d => d.message) =
          st.diagnostics.map (fun d => d.message) ++ [cstr "Too much code to jump over."]) ∧
    (∀ loopStart st', loopStart ≤ chunk.count → emitLoop h st loopStart = some st' →
      (chunk.count + 3 - loopStart ≤ 65535 →
        st'.diagnostics = st.diagnostics ∧
        ∃ chunk', currentChunk st' = some chunk' ∧ chunk'.count = chunk.count + 3 ∧
          chunk'.code = chunk.code ++ [OP_LOOP, (chunk.count + 3 - loopStart) / 256,
            (chunk.count + 3 - loopStart) % 256] ∧
          ∀ (vm : VM) (frame : Nat) (f : CallFrame), vm.frames.get? frame = some f →
            vm.frameChunk frame = some chunk' → f.ip = chunk.count →
            ∃ vm', vm.step h frame = some (next frame vm') ∧
              (vm'.frames.get? frame).map (fun g => g.ip) = some loopStart) ∧
      (65535 < chunk.count + 3 - loopStart → st.parser.panicMode = false →
        st'.parser.hadError = true ∧
        st'.diagnostics.map (fun d => d.message) =
          st.diagnostics.map (fun d => d.message) ++ [cstr "Loop body too large."])) ∧
    (chunk.rle.length = chunk.rleCapacity →
      (chunk.rleIndex + 8 ≤ chunk.rleCapacity ∨
        (chunk.rleCapacity = 0 ∧ chunk.rleIndex = 0)) →
      (∀ instruction, ∃ o st', emitJump h st instruction = some (o, st')) ∧
        ∀ loopStart, ∃ st', emitLoop h st loopStart = some st') := by
  refine ⟨?_, ?_, ?_, ?_, emitJump_returns h st chunk hc⟩
  · intro instruction o st' he
    exact emitJump_spec h st st' chunk instruction o hc hlen he
  · intro o ho hj
    have hpatch := patchJump_spec st chunk o hc ho hj
    have hcur := currentChunk_setCurrentChunk st st.vm chunk
      { chunk with code := (chunk.code.set o ((chunk.count - o - 2) / 256)).set (o + 1)
                             ((chunk.count - o - 2) % 256) } hc rfl
    have hget0 : ((chunk.code.set o ((chunk.count - o - 2) / 256)).set (o + 1)
        ((chunk.count - o - 2) % 256)).get? o = some ((chunk.count - o - 2) / 256) := by
      rw [List.get?_eq_getElem?, List.getElem?_set_ne (by omega),
        List.getElem?_set_self (by omega)]
    have hget1 : ((chunk.code.set o ((chunk.count - o - 2) / 256)).set (o + 1)
        ((chunk.count - o - 2) % 256)).get? (o + 1) = some ((chunk.count - o - 2) % 256) := by
      rw [List.get?_eq_getElem?, List.getElem?_set_self (by rw [List.length_set]; omega)]
    refine ⟨_, _, hpatch, hcur, ?_, rfl, hget0, hget1, ?_, ?_⟩
    · unfold setCurrentChunk
      split <;> rfl
    · intro i hi0 hi1
      dsimp only
      rw [List.get?_eq_getElem?, List.get?_eq_getElem?,
        List.getElem?_set_ne (fun e => hi1 e.symm), List.getElem?_set_ne (fun e => hi0 e.symm)]
    · intro vm frame f hf hfc hip
      have hjump := fun op => VM.step_jump_at h vm frame f _ op ((chunk.count - o - 2) / 256)
        ((chunk.count - o - 2) % 256) hf hfc (by show f.ip + 2 < chunk.count; omega)
      have hsum : (chunk.count - o - 2) / 256 * 256 + (chunk.count - o - 2) % 256 =
          chunk.count - o - 2 := by omega
      have htarget : f.ip + 3 + (chunk.count - o - 2) = chunk.count := by omega
      constructor
      · intro hop
        have := (hjump _ hop (by rw [hip]; exact hget0)
          (by rw [show f.ip + 2 = o + 1 by omega]; exact hget1) (by omega)).1 rfl
        rw [hsum, htarget] at this
        exact this
      · intro hop v hv hfalse
        have := (hjump _ hop (by rw [hip]; exact hget0)
          (by rw [show f.ip + 2 = o + 1 by omega]; exact hget1) (by omega)).2.1 rfl v hv hfalse
        rw [hsum, htarget] at this
        exact this
  · intro o ho hj hp
    exact patchJump_error st chunk o hc ho hj hp
  · intro loopStart st' hl he
    obtain ⟨chunk', hc', hcode, hcount, hsmall, hbig⟩ :=
      emitLoop_spec h st st' chunk loopStart hc hlen hl he
    refine ⟨?_, hbig⟩
    intro hs
    have hmod : (chunk.count + 3 - loopStart) / 256 % 256 =
        (chunk.count + 3 - loopStart) / 256 := by omega
    rw [hmod] at hcode
    refine ⟨(hsmall hs).1, chunk', hc', hcount, hcode, ?_⟩
    intro vm frame f hf hfc hip
    have hg0 : chunk'.code.get? f.ip = some OP_LOOP := by
      rw [hcode, hip, hlen, List.get?_eq_getElem?, List.getElem?_append_right (Nat.le_refl _)]
      simp
    have hg1 : chunk'.code.get? (f.ip + 1) = some ((chunk.count + 3 - loopStart) / 256) := by
      rw [hcode, hip, hlen, List.get?_eq_getElem?, List.getElem?_append_right (by omega)]
      simp
    have hg2 : chunk'.code.get? (f.ip + 2) = some ((chunk.count + 3 - loopStart) % 256) := by
      rw [hcode, hip, hlen, List.get?_eq_getElem?, List.getElem?_append_right (by omega)]
      simp
    have hsum : (chunk.count + 3 - loopStart) / 256 * 256 + (chunk.count + 3 - loopStart) % 256 =
        chunk.count + 3 - loopStart := by omega
    have := (VM.step_jump_at h vm frame f chunk' OP_LOOP _ _ hf hfc (by omega) hg0 hg1 hg2
      (by omega)).2.2 rfl (by omega)
    rw [hsum, show f.ip + 3 - (chunk.count + 3 - loopStart) = loopStart by omega] at this
    exact this

/-- C28, witness: the chunk of a script after `emitJump(OP_JUMP)`; the
operand at offset 1 is patched to the distance 0, and a loop back to offset
0 is emitted with the distance 6. -/
theorem jump_operands_decode_witness :
    ∃ st chunk, jumpState = some (1, st) ∧
      currentChunk st = some chunk ∧ chunk.code = [OP_JUMP, 255, 255] ∧
      chunk.count = chunk.code.length ∧
      (∃ st' chunk', patchJump st 1 = some st' ∧ currentChunk st' = some chunk' ∧
        st'.diagnostics = st.diagnostics ∧
        chunk'.code.get? 1 = some 0 ∧ chunk'.code.get? 2 = some 0) ∧
      ∃ st' chunk', emitLoop quietHost st 0 = some st' ∧ currentChunk st' = some chunk' ∧
        chunk'.code = [OP_JUMP, 255, 255, OP_LOOP, 0, 6] := by
  have e : (jumpState.bind (fun p => (currentChunk p.2).map (fun c =>
      (p.1, c.code, [c.count, c.rle.length, c.rleCapacity, c.rleIndex])))) =
      some (1, [OP_JUMP, 255, 255], [3, 8, 8, 0]) := by decide!
  simp only [Option.map_eq_some', Option.bind_eq_some, Prod.mk.injEq, Prod.exists,
    List.cons.injEq, and_true] at e
  obtain ⟨o, st, hst, chunk, hc, ho, hcode, hcount, hrle, hcap, hidx⟩ := e
  subst ho
  have hlen : chunk.count = chunk.code.length := by rw [hcount, hcode]; rfl
  have t := jump_operands_decode quietHost st chunk hc hlen
  obtain ⟨stl, hloop2⟩ := (t.2.2.2.2 (by rw [hrle, hcap])
    (Or.inl (by rw [hidx, hcap]))).2 0
  obtain ⟨st', chunk', hp, hc', hd, _, h1, h2, _⟩ := t.2.1 1 (by omega) (by omega)
  obtain ⟨_, chunkl, hcl, _, hcodel, _⟩ := (t.2.2.2.1 0 stl (by omega) hloop2).1 (by omega)
  refine ⟨st, chunk, hst, hc, hcode, hlen, ⟨st', chunk', hp, hc', hd, ?_, ?_⟩,
    ⟨stl, chunkl, hloop2, hcl, ?_⟩⟩
  · rw [h1, hcount]
  · rw [h2, hcount]
  · rw [hcodel, hcode, hcount]
    rfl

/-! ## C27: the number of call frames -/

theorem boundedO_none : BoundedO none := ⟨fun _ h => Option.noConfusion h⟩

theorem boundedO_some {vm : VM} (hb : vm.frameCount ≤ FRAMES_MAX) : BoundedO (Option.some vm) :=
  ⟨fun _ h => Option.some.inj h ▸ hb⟩

theorem boundedO_pure {vm : VM} (hb : vm.frameCount ≤ FRAMES_MAX) : BoundedO (Pure.pure vm) :=
  boundedO_some hb

theorem boundedP_none {α : Type} : BoundedP (Option.none : Option (α × VM)) :=
  ⟨fun _ _ h => Option.noConfusion h⟩

theorem boundedP_some {α : Type} {vm : VM} {a : α} (hb : vm.frameCount ≤ FRAMES_MAX) :
    BoundedP (Option.some (a, vm)) :=
  ⟨fun _ _ h => by
    have := Option.some.inj h
    rw [Prod.mk.injEq] at this
    exact this.2 ▸ hb⟩

theorem boundedP_pure {α : Type} {vm : VM} {a : α} (hb : vm.frameCount ≤ FRAMES_MAX) :
    BoundedP (Pure.pure (a, vm)) :=
  boundedP_some hb

theorem boundedS_none : BoundedS none := ⟨fun _ h => Option.noConfusion h⟩

theorem boundedS_next {vm : VM} {frame : Nat} (hb : vm.frameCount ≤ FRAMES_MAX) :
    BoundedS (Option.some (next frame vm)) :=
  ⟨fun _ h => Option.some.inj h ▸ hb⟩

theorem boundedS_ret {vm : VM} {r : InterpretResult} (hb : vm.frameCount ≤ FRAMES_MAX) :
    BoundedS (Option.some (ret r vm)) :=
  ⟨fun _ h => Option.some.inj h ▸ hb⟩

theorem boundedS_pure_next {vm : VM} {frame : Nat} (hb : vm.frameCount ≤ FRAMES_MAX) :
    BoundedS (Pure.pure (next frame vm)) :=
  boundedS_next hb

theorem boundedS_pure_ret {vm : VM} {r : InterpretResult} (hb : vm.frameCount ≤ FRAMES_MAX) :
    BoundedS (Pure.pure (ret r vm)) :=
  boundedS_ret hb

theorem boundedO_bind {x : Option VM} {f : VM → Option VM} (hx : BoundedO x)
    (hf : ∀ vm, vm.frameCount ≤ FRAMES_MAX → BoundedO (f vm)) : BoundedO (x >>= f) := by
  constructor
  intro vm' h
  cases x with
  | none => exact Option.noConfusion h
  | some vm => exact (hf vm (hx.le vm rfl)).le vm' h

theorem boundedO_bindP {α : Type} {x : Option (α × VM)} {f : α × VM → Option VM}
    (hx : BoundedP x) (hf : ∀ a vm, vm.frameCount ≤ FRAMES_MAX → BoundedO (f (a, vm))) :
    BoundedO (x >>= f) := by
  constructor
  intro vm' h
  cases x with
  | none => exact Option.noConfusion h
  | some p => exact (hf p.1 p.2 (hx.le p.1 p.2 rfl)).le vm' h

theorem boundedO_bindV {α : Type} {x : Option α} {f : α → Option VM}
    (hf : ∀ a, x = Option.some a → BoundedO (f a)) : BoundedO (x >>= f) := by
  constructor
  intro vm' h
  cases x with
  | none => exact Option.noConfusion h
  | some a => exact (hf a rfl).le vm' h

theorem boundedP_bind {β : Type} {x : Option VM} {f : VM → Option (β × VM)} (hx : BoundedO x)
    (hf : ∀ vm, vm.frameCount ≤ FRAMES_MAX → BoundedP (f vm)) : BoundedP (x >>= f) := by
  constructor
  intro b vm' h
  cases x with
  | none => exact Option.noConfusion h
  | some vm => exact (hf vm (hx.le vm rfl)).le b vm' h

theorem boundedP_bindP {α β : Type} {x : Option (α × VM)} {f : α × VM → Option (β × VM)}
    (hx : BoundedP x) (hf : ∀ a vm, vm.frameCount ≤ FRAMES_MAX → BoundedP (f (a, vm))) :
    BoundedP (x >>= f) := by
  constructor
  intro b vm' h
  cases x with
  | none => exact Option.noConfusion h
  | some p => exact (hf p.1 p.2 (hx.le p.1 p.2 rfl)).le b vm' h

theorem boundedP_bindV {α β : Type} {x : Option α} {f : α → Option (β × VM)}
    (hf : ∀ a, x = Option.some a → BoundedP (f a)) : BoundedP (x >>= f) := by
  constructor
  intro b vm' h
  cases x with
  | none => exact Option.noConfusion h
  | some a => exact (hf a rfl).le b vm' h

theorem boundedS_bind {x : Option VM} {f : VM → Option Step} (hx : BoundedO x)
    (hf : ∀ vm, vm.frameCount ≤ FRAMES_MAX → BoundedS (f vm)) : BoundedS (x >>= f) := by
  constructor
  intro s h
  cases x with
  | none => exact Option.noConfusion h
  | some vm => exact (hf vm (hx.le vm rfl)).le s h

theorem boundedS_bindP {α : Type} {x : Option (α × VM)} {f : α × VM → Option Step}
    (hx : BoundedP x) (hf : ∀ a vm, vm.frameCount ≤ FRAMES_MAX → BoundedS (f (a, vm))) :
    BoundedS (x >>= f) := by
  constructor
  intro s h
  cases x with
  | none => exact Option.noConfusion h
  | some p => exact (hf p.1 p.2 (hx.le p.1 p.2 rfl)).le s h

theorem boundedS_bindV {α : Type} {x : Option α} {f : α → Option Step}
    (hf : ∀ a, x = Option.some a → BoundedS (f a)) : BoundedS (x >>= f) := by
  constructor
  intro s h
  cases x with
  | none => exact Option.noConfusion h
  | some a => exact (hf a rfl).le s h

/-! ### The functions of `vm.c` that leave `frameCount` alone -/

theorem frameCount_push (vm : VM) (v : Nat) : (vm.push v).frameCount = vm.frameCount := rfl

theorem frameCount_store (vm : VM) (p : Nat) (body : ObjBody) :
    (vm.store p body).frameCount = vm.frameCount := by
  unfold VM.store
  split <;> rfl

theorem frameCount_allocateObject (vm : VM) (body : ObjBody) :
    (vm.allocateObject body).2.frameCount = vm.frameCount := rfl

theorem le_push {vm : VM} (v : Nat) (hb : vm.frameCount ≤ FRAMES_MAX) :
    (vm.push v).frameCount ≤ FRAMES_MAX := hb

theorem le_store {vm : VM} (p : Nat) (body : ObjBody) (hb : vm.frameCount ≤ FRAMES_MAX) :
    (vm.store p body).frameCount ≤ FRAMES_MAX := by
  rw [frameCount_store]; exact hb

theorem le_allocateObject {vm : VM} (body : ObjBody) (hb : vm.frameCount ≤ FRAMES_MAX) :
    (vm.allocateObject body).2.frameCount ≤ FRAMES_MAX := hb

theorem le_runtimeError (vm : VM) (message : String) :
    (vm.runtimeError message).frameCount ≤ FRAMES_MAX := Nat.zero_le _

theorem bounded_pop {vm : VM} (hb : vm.frameCount ≤ FRAMES_MAX) : BoundedP vm.pop := by
  unfold VM.pop
  split
  · exact boundedP_some hb
  · exact boundedP_none

theorem bounded_poke {vm : VM} (distance value : Nat) (hb : vm.frameCount ≤ FRAMES_MAX) :
    BoundedO (vm.poke distance value) := by
  unfold VM.poke
  split
  · exact boundedO_some hb
  · exact boundedO_none

theorem frameCount_of_base {vm vm' : VM} (h : vm'.base = vm.base) :
    vm'.frameCount = vm.frameCount := by
  unfold VM.base at h
  simp only [Prod.mk.injEq] at h
  exact h.2.2.1

theorem bounded_internString {vm : VM} (chars : List Nat) (hb : vm.frameCount ≤ FRAMES_MAX) :
    BoundedP (vm.internString chars) :=
  ⟨fun r vm2 h => by rw [frameCount_of_base (base_internString vm chars r vm2 h)]; exact hb⟩

theorem bounded_copyString {vm : VM} (chars : List Nat) (n : Nat)
    (hb : vm.frameCount ≤ FRAMES_MAX) : BoundedP (vm.copyString chars n) :=
  bounded_internString _ hb

theorem bounded_takeString {vm : VM} (chars : List Nat) (n : Nat)
    (hb : vm.frameCount ≤ FRAMES_MAX) : BoundedP (vm.takeString chars n) :=
  bounded_internString _ hb

theorem bounded_newClosure {vm : VM} (function : Nat) (hb : vm.frameCount ≤ FRAMES_MAX) :
    BoundedP (vm.newClosure function) := by
  unfold VM.newClosure
  split
  · exact boundedP_some hb
  · exact boundedP_none

theorem bounded_readByte {vm : VM} (frame : Nat) (hb : vm.frameCount ≤ FRAMES_MAX) :
    BoundedP (vm.readByte frame) := by
  constructor
  intro b vm' h
  unfold VM.readByte at h
  simp only [Option.bind_eq_bind, Option.bind_eq_some] at h
  obtain ⟨f, _, chunk, _, h⟩ := h
  split at h
  · simp only [Option.bind_eq_some, Option.pure_def, Option.some.injEq, Prod.mk.injEq] at h
    obtain ⟨_, _, _, h⟩ := h
    rw [← h]
    exact hb
  · exact Option.noConfusion h

theorem le_newUpvalue {vm : VM} (slot : Nat) (hb : vm.frameCount ≤ FRAMES_MAX) :
    (vm.newUpvalue slot).2.frameCount ≤ FRAMES_MAX := hb

theorem le_newClass {vm : VM} (name : Nat) (hb : vm.frameCount ≤ FRAMES_MAX) :
    (vm.newClass name).2.frameCount ≤ FRAMES_MAX := hb

theorem le_newInstance {vm : VM} (klass : Nat) (hb : vm.frameCount ≤ FRAMES_MAX) :
    (vm.newInstance klass).2.frameCount ≤ FRAMES_MAX := hb

theorem le_newBoundMethod {vm : VM} (receiver method : Nat) (hb : vm.frameCount ≤ FRAMES_MAX) :
    (vm.newBoundMethod receiver method).2.frameCount ≤ FRAMES_MAX := hb

theorem le_newNative {vm : VM} (function : Nat) (hb : vm.frameCount ≤ FRAMES_MAX) :
    (vm.newNative function).2.frameCount ≤ FRAMES_MAX := hb

theorem bounded_callWith {vm : VM} (closure arity argCount : Nat)
    (hb : vm.frameCount ≤ FRAMES_MAX) : BoundedP (vm.callWith closure arity argCount) := by
  unfold VM.callWith
  split
  · exact boundedP_some (le_runtimeError _ _)
  · split
    · exact boundedP_some (le_runtimeError _ _)
    · rename_i hne
      split
      · exact boundedP_none
      · apply boundedP_some
        show vm.frameCount + 1 ≤ FRAMES_MAX
        have : vm.frameCount ≠ FRAMES_MAX := by simpa using hne
        omega

theorem bounded_readShort {vm : VM} (frame : Nat) (hb : vm.frameCount ≤ FRAMES_MAX) :
    BoundedP (vm.readShort frame) := by
  unfold VM.readShort
  repeat' (first
    | with_reducible assumption
    | intro _
    | with_reducible apply le_runtimeError
    | with_reducible apply le_push
    | with_reducible apply le_store
    | with_reducible apply le_allocateObject
    | with_reducible apply le_newUpvalue
    | with_reducible apply le_newClass
    | with_reducible apply le_newInstance
    | with_reducible apply le_newBoundMethod
    | with_reducible apply le_newNative
    | with_reducible apply bounded_pop
    | with_reducible apply bounded_poke
    | with_reducible apply bounded_internString
    | with_reducible apply bounded_copyString
    | with_reducible apply bounded_takeString
    | with_reducible apply bounded_newClosure
    | with_reducible apply bounded_readByte
    | with_reducible apply boundedO_none
    | with_reducible apply boundedP_none
    | with_reducible apply boundedS_none
    | with_reducible apply boundedO_some
    | with_reducible apply boundedO_pure
    | with_reducible apply boundedP_some
    | with_reducible apply boundedP_pure
    | with_reducible apply boundedS_next
    | with_reducible apply boundedS_ret
    | with_reducible apply boundedS_pure_next
    | with_reducible apply boundedS_pure_ret
    | with_reducible apply boundedO_bind
    | with_reducible apply boundedO_bindP
    | with_reducible apply boundedP_bind
    | with_reducible apply boundedP_bindP
    | with_reducible apply boundedS_bind
    | with_reducible apply boundedS_bindP
    | with_reducible apply boundedO_bindV
    | with_reducible apply boundedP_bindV
    | with_reducible apply boundedS_bindV
    | dsimp only
    | split)

theorem bounded_readConstant {vm : VM} (frame : Nat) (hb : vm.frameCount ≤ FRAMES_MAX) :
    BoundedP (vm.readConstant frame) := by
  unfold VM.readConstant
  repeat' (first
    | with_reducible assumption
    | intro _
    | with_reducible apply le_runtimeError
    | with_reducible apply le_push
    | with_reducible apply le_store
    | with_reducible apply le_allocateObject
    | with_reducible apply le_newUpvalue
    | with_reducible apply le_newClass
    | with_reducible apply le_newInstance
    | with_reducible apply le_newBoundMethod
    | with_reducible apply le_newNative
    | with_reducible apply bounded_pop
    | with_reducible apply bounded_poke
    | with_reducible apply bounded_internString
    | with_reducible apply bounded_copyString
    | with_reducible apply bounded_takeString
    | with_reducible apply bounded_newClosure
    | with_reducible apply bounded_readByte
    | with_reducible apply bounded_readShort
    | with_reducible apply boundedO_none
    | with_reducible apply boundedP_none
    | with_reducible apply boundedS_none
    | with_reducible apply boundedO_some
    | with_reducible apply boundedO_pure
    | with_reducible apply boundedP_some
    | with_reducible apply boundedP_pure
    | with_reducible apply boundedS_next
    | with_reducible apply boundedS_ret
    | with_reducible apply boundedS_pure_next
    | with_reducible apply boundedS_pure_ret
    | with_reducible apply boundedO_bind
    | with_reducible apply boundedO_bindP
    | with_reducible apply boundedP_bind
    | with_reducible apply boundedP_bindP
    | with_reducible apply boundedS_bind
    | with_reducible apply boundedS_bindP
    | with_reducible apply boundedO_bindV
    | with_reducible apply boundedP_bindV
    | with_reducible apply boundedS_bindV
    | dsimp only
    | split)

theorem bounded_readString {vm : VM} (frame : Nat) (hb : vm.frameCount ≤ FRAMES_MAX) :
    BoundedP (vm.readString frame) := by
  unfold VM.readString
  repeat' (first
    | with_reducible assumption
    | intro _
    | with_reducible apply le_runtimeError
    | with_reducible apply le_push
    | with_reducible apply le_store
    | with_reducible apply le_allocateObject
    | with_reducible apply le_newUpvalue
    | with_reducible apply le_newClass
    | with_reducible apply le_newInstance
    | with_reducible apply le_newBoundMethod
    | with_reducible apply le_newNative
    | with_reducible apply bounded_pop
    | with_reducible apply bounded_poke
    | with_reducible apply bounded_internString
    | with_reducible apply bounded_copyString
    | with_reducible apply bounded_takeString
    | with_reducible apply bounded_newClosure
    | with_reducible apply bounded_readByte
    | with_reducible apply bounded_readShort
    | with_reducible apply bounded_readConstant
    | with_reducible apply boundedO_none
    | with_reducible apply boundedP_none
    | with_reducible apply boundedS_none
    | with_reducible apply boundedO_some
    | with_reducible apply boundedO_pure
    | with_reducible apply boundedP_some
    | with_reducible apply boundedP_pure
    | with_reducible apply boundedS_next
    | with_reducible apply boundedS_ret
    | with_reducible apply boundedS_pure_next
    | with_reducible apply boundedS_pure_ret
    | with_reducible apply boundedO_bind
    | with_reducible apply boundedO_bindP
    | with_reducible apply boundedP_bind
    | with_reducible apply boundedP_bindP
    | with_reducible apply boundedS_bind
    | with_reducible apply boundedS_bindP
    | with_reducible apply boundedO_bindV
    | with_reducible apply boundedP_bindV
    | with_reducible apply boundedS_bindV
    | dsimp only
    | split)

theorem bounded_call {vm : VM} (closure argCount : Nat) (hb : vm.frameCount ≤ FRAMES_MAX) :
    BoundedP (vm.call closure argCount) := by
  unfold VM.call
  repeat' (first
    | with_reducible assumption
    | intro _
    | with_reducible apply le_runtimeError
    | with_reducible apply le_push
    | with_reducible apply le_store
    | with_reducible apply le_allocateObject
    | with_reducible apply le_newUpvalue
    | with_reducible apply le_newClass
    | with_reducible apply le_newInstance
    | with_reducible apply le_newBoundMethod
    | with_reducible apply le_newNative
    | with_reducible apply bounded_pop
    | with_reducible apply bounded_poke
    | with_reducible apply bounded_internString
    | with_reducible apply bounded_copyString
    | with_reducible apply bounded_takeString
    | with_reducible apply bounded_newClosure
    | with_reducible apply bounded_readByte
    | with_reducible apply bounded_callWith
    | with_reducible apply bounded_readShort
    | with_reducible apply bounded_readConstant
    | with_reducible apply bounded_readString
    | with_reducible apply boundedO_none
    | with_reducible apply boundedP_none
    | with_reducible apply boundedS_none
    | with_reducible apply boundedO_some
    | with_reducible apply boundedO_pure
    | with_reducible apply boundedP_some
    | with_reducible apply boundedP_pure
    | with_reducible apply boundedS_next
    | with_reducible apply boundedS_ret
    | with_reducible apply boundedS_pure_next
    | with_reducible apply boundedS_pure_ret
    | with_reducible apply boundedO_bind
    | with_reducible apply boundedO_bindP
    | with_reducible apply boundedP_bind
    | with_reducible apply boundedP_bindP
    | with_reducible apply boundedS_bind
    | with_reducible apply boundedS_bindP
    | with_reducible apply boundedO_bindV
    | with_reducible apply boundedP_bindV
    | with_reducible apply boundedS_bindV
    | dsimp only
    | split)

theorem bounded_callValue {vm : VM} (h : Host) (callee argCount : Nat) (hb : vm.frameCount ≤ FRAMES_MAX) :
    BoundedP (vm.callValue h callee argCount) := by
  unfold VM.callValue
  repeat' (first
    | with_reducible assumption
    | intro _
    | with_reducible apply le_runtimeError
    | with_reducible apply le_push
    | with_reducible apply le_store
    | with_reducible apply le_allocateObject
    | with_reducible apply le_newUpvalue
    | with_reducible apply le_newClass
    | with_reducible apply le_newInstance
    | with_reducible apply le_newBoundMethod
    | with_reducible apply le_newNative
    | with_reducible apply bounded_pop
    | with_reducible apply bounded_poke
    | with_reducible apply bounded_internString
    | with_reducible apply bounded_copyString
    | with_reducible apply bounded_takeString
    | with_reducible apply bounded_newClosure
    | with_reducible apply bounded_readByte
    | with_reducible apply bounded_callWith
    | with_reducible apply bounded_readShort
    | with_reducible apply bounded_readConstant
    | with_reducible apply bounded_readString
    | with_reducible apply bounded_call
    | with_reducible apply boundedO_none
    | with_reducible apply boundedP_none
    | with_reducible apply boundedS_none
    | with_reducible apply boundedO_some
    | with_reducible apply boundedO_pure
    | with_reducible apply boundedP_some
    | with_reducible apply boundedP_pure
    | with_reducible apply boundedS_next
    | with_reducible apply boundedS_ret
    | with_reducible apply boundedS_pure_next
    | with_reducible apply boundedS_pure_ret
    | with_reducible apply boundedO_bind
    | with_reducible apply boundedO_bindP
    | with_reducible apply boundedP_bind
    | with_reducible apply boundedP_bindP
    | with_reducible apply boundedS_bind
    | with_reducible apply boundedS_bindP
    | with_reducible apply boundedO_bindV
    | with_reducible apply boundedP_bindV
    | with_reducible apply boundedS_bindV
    | dsimp only
    | split)

theorem bounded_captureUpvalue {vm : VM} (loc : Nat) (hb : vm.frameCount ≤ FRAMES_MAX) :
    BoundedP (vm.captureUpvalue loc) := by
  unfold VM.captureUpvalue
  repeat' (first
    | with_reducible assumption
    | intro _
    | with_reducible apply le_runtimeError
    | with_reducible apply le_push
    | with_reducible apply le_store
    | with_reducible apply le_allocateObject
    | with_reducible apply le_newUpvalue
    | with_reducible apply le_newClass
    | with_reducible apply le_newInstance
    | with_reducible apply le_newBoundMethod
    | with_reducible apply le_newNative
    | with_reducible apply bounded_pop
    | with_reducible apply bounded_poke
    | with_reducible apply bounded_internString
    | with_reducible apply bounded_copyString
    | with_reducible apply bounded_takeString
    | with_reducible apply bounded_newClosure
    | with_reducible apply bounded_readByte
    | with_reducible apply bounded_callWith
    | with_reducible apply bounded_readShort
    | with_reducible apply bounded_readConstant
    | with_reducible apply bounded_readString
    | with_reducible apply bounded_call
    | with_reducible apply bounded_callValue
    | with_reducible apply boundedO_none
    | with_reducible apply boundedP_none
    | with_reducible apply boundedS_none
    | with_reducible apply boundedO_some
    | with_reducible apply boundedO_pure
    | with_reducible apply boundedP_some
    | with_reducible apply boundedP_pure
    | with_reducible apply boundedS_next
    | with_reducible apply boundedS_ret
    | with_reducible apply boundedS_pure_next
    | with_reducible apply boundedS_pure_ret
    | with_reducible apply boundedO_bind
    | with_reducible apply boundedO_bindP
    | with_reducible apply boundedP_bind
    | with_reducible apply boundedP_bindP
    | with_reducible apply boundedS_bind
    | with_reducible apply boundedS_bindP
    | with_reducible apply boundedO_bindV
    | with_reducible apply boundedP_bindV
    | with_reducible apply boundedS_bindV
    | dsimp only
    | split)

theorem bounded_closeUpvaluesLoop (last : Nat) :
    ∀ (fuel : Nat) (vm : VM), vm.frameCount ≤ FRAMES_MAX →
      BoundedO (VM.closeUpvaluesLoop last fuel vm) := by
  intro fuel
  induction fuel with
  | zero => intro vm _; unfold VM.closeUpvaluesLoop; exact boundedO_none
  | succ n ih =>
    intro vm hb
    unfold VM.closeUpvaluesLoop
    repeat' (first
      | with_reducible assumption
      | intro _
      | with_reducible apply le_runtimeError
      | with_reducible apply le_push
      | with_reducible apply le_store
      | with_reducible apply le_allocateObject
      | with_reducible apply le_newUpvalue
      | with_reducible apply le_newClass
      | with_reducible apply le_newInstance
      | with_reducible apply le_newBoundMethod
      | with_reducible apply le_newNative
      | with_reducible apply bounded_pop
      | with_reducible apply bounded_poke
      | with_reducible apply bounded_internString
      | with_reducible apply bounded_copyString
      | with_reducible apply bounded_takeString
      | with_reducible apply bounded_newClosure
      | with_reducible apply bounded_readByte
      | with_reducible apply ih
      | with_reducible apply boundedO_none
      | with_reducible apply boundedP_none
      | with_reducible apply boundedS_none
      | with_reducible apply boundedO_some
      | with_reducible apply boundedO_pure
      | with_reducible apply boundedP_some
      | with_reducible apply boundedP_pure
      | with_reducible apply boundedS_next
      | with_reducible apply boundedS_ret
      | with_reducible apply boundedS_pure_next
      | with_reducible apply boundedS_pure_ret
      | with_reducible apply boundedO_bind
      | with_reducible apply boundedO_bindP
      | with_reducible apply boundedP_bind
      | with_reducible apply boundedP_bindP
      | with_reducible apply boundedS_bind
      | with_reducible apply boundedS_bindP
      | with_reducible apply boundedO_bindV
      | with_reducible apply boundedP_bindV
      | with_reducible apply boundedS_bindV
      | dsimp only
      | split)

theorem bounded_closeUpvalues {vm : VM} (last : Nat) (hb : vm.frameCount ≤ FRAMES_MAX) :
    BoundedO (vm.closeUpvalues last) :=
  bounded_closeUpvaluesLoop last _ vm hb

theorem bounded_defineMethod {vm : VM} (name : Nat) (hb : vm.frameCount ≤ FRAMES_MAX) :
    BoundedO (vm.defineMethod name) := by
  unfold VM.defineMethod
  repeat' (first
    | with_reducible assumption
    | intro _
    | with_reducible apply le_runtimeError
    | with_reducible apply le_push
    | with_reducible apply le_store
    | with_reducible apply le_allocateObject
    | with_reducible apply le_newUpvalue
    | with_reducible apply le_newClass
    | with_reducible apply le_newInstance
    | with_reducible apply le_newBoundMethod
    | with_reducible apply le_newNative
    | with_reducible apply bounded_pop
    | with_reducible apply bounded_poke
    | with_reducible apply bounded_internString
    | with_reducible apply bounded_copyString
    | with_reducible apply bounded_takeString
    | with_reducible apply bounded_newClosure
    | with_reducible apply bounded_readByte
    | with_reducible apply bounded_callWith
    | with_reducible apply bounded_readShort
    | with_reducible apply bounded_readConstant
    | with_reducible apply bounded_readString
    | with_reducible apply bounded_call
    | with_reducible apply bounded_callValue
    | with_reducible apply bounded_captureUpvalue
    | with_reducible apply bounded_closeUpvalues
    | with_reducible apply boundedO_none
    | with_reducible apply boundedP_none
    | with_reducible apply boundedS_none
    | with_reducible apply boundedO_some
    | with_reducible apply boundedO_pure
    | with_reducible apply boundedP_some
    | with_reducible apply boundedP_pure
    | with_reducible apply boundedS_next
    | with_reducible apply boundedS_ret
    | with_reducible apply boundedS_pure_next
    | with_reducible apply boundedS_pure_ret
    | with_reducible apply boundedO_bind
    | with_reducible apply boundedO_bindP
    | with_reducible apply boundedP_bind
    | with_reducible apply boundedP_bindP
    | with_reducible apply boundedS_bind
    | with_reducible apply boundedS_bindP
    | with_reducible apply boundedO_bindV
    | with_reducible apply boundedP_bindV
    | with_reducible apply boundedS_bindV
    | dsimp only
    | split)

theorem bounded_bindMethod {vm : VM} (klass name : Nat) (hb : vm.frameCount ≤ FRAMES_MAX) :
    BoundedP (vm.bindMethod klass name) := by
  unfold VM.bindMethod
  repeat' (first
    | with_reducible assumption
    | intro _
    | with_reducible apply le_runtimeError
    | with_reducible apply le_push
    | with_reducible apply le_store
    | with_reducible apply le_allocateObject
    | with_reducible apply le_newUpvalue
    | with_reducible apply le_newClass
    | with_reducible apply le_newInstance
    | with_reducible apply le_newBoundMethod
    | with_reducible apply le_newNative
    | with_reducible apply bounded_pop
    | with_reducible apply bounded_poke
    | with_reducible apply bounded_internString
    | with_reducible apply bounded_copyString
    | with_reducible apply bounded_takeString
    | with_reducible apply bounded_newClosure
    | with_reducible apply bounded_readByte
    | with_reducible apply bounded_callWith
    | with_reducible apply bounded_readShort
    | with_reducible apply bounded_readConstant
    | with_reducible apply bounded_readString
    | with_reducible apply bounded_call
    | with_reducible apply bounded_callValue
    | with_reducible apply bounded_captureUpvalue
    | with_reducible apply bounded_closeUpvalues
    | with_reducible apply bounded_defineMethod
    | with_reducible apply boundedO_none
    | with_reducible apply boundedP_none
    | with_reducible apply boundedS_none
    | with_reducible apply boundedO_some
    | with_reducible apply boundedO_pure
    | with_reducible apply boundedP_some
    | with_reducible apply boundedP_pure
    | with_reducible apply boundedS_next
    | with_reducible apply boundedS_ret
    | with_reducible apply boundedS_pure_next
    | with_reducible apply boundedS_pure_ret
    | with_reducible apply boundedO_bind
    | with_reducible apply boundedO_bindP
    | with_reducible apply boundedP_bind
    | with_reducible apply boundedP_bindP
    | with_reducible apply boundedS_bind
    | with_reducible apply boundedS_bindP
    | with_reducible apply boundedO_bindV
    | with_reducible apply boundedP_bindV
    | with_reducible apply boundedS_bindV
    | dsimp only
    | split)

theorem bounded_invokeFromClass {vm : VM} (klass name argCount : Nat) (hb : vm.frameCount ≤ FRAMES_MAX) :
    BoundedP (vm.invokeFromClass klass name argCount) := by
  unfold VM.invokeFromClass
  repeat' (first
    | with_reducible assumption
    | intro _
    | with_reducible apply le_runtimeError
    | with_reducible apply le_push
    | with_reducible apply le_store
    | with_reducible apply le_allocateObject
    | with_reducible apply le_newUpvalue
    | with_reducible apply le_newClass
    | with_reducible apply le_newInstance
    | with_reducible apply le_newBoundMethod
    | with_reducible apply le_newNative
    | with_reducible apply bounded_pop
    | with_reducible apply bounded_poke
    | with_reducible apply bounded_internString
    | with_reducible apply bounded_copyString
    | with_reducible apply bounded_takeString
    | with_reducible apply bounded_newClosure
    | with_reducible apply bounded_readByte
    | with_reducible apply bounded_callWith
    | with_reducible apply bounded_readShort
    | with_reducible apply bounded_readConstant
    | with_reducible apply bounded_readString
    | with_reducible apply bounded_call
    | with_reducible apply bounded_callValue
    | with_reducible apply bounded_captureUpvalue
    | with_reducible apply bounded_closeUpvalues
    | with_reducible apply bounded_defineMethod
    | with_reducible apply bounded_bindMethod
    | with_reducible apply boundedO_none
    | with_reducible apply boundedP_none
    | with_reducible apply boundedS_none
    | with_reducible apply boundedO_some
    | with_reducible apply boundedO_pure
    | with_reducible apply boundedP_some
    | with_reducible apply boundedP_pure
    | with_reducible apply boundedS_next
    | with_reducible apply boundedS_ret
    | with_reducible apply boundedS_pure_next
    | with_reducible apply boundedS_pure_ret
    | with_reducible apply boundedO_bind
    | with_reducible apply boundedO_bindP
    | with_reducible apply boundedP_bind
    | with_reducible apply boundedP_bindP
    | with_reducible apply boundedS_bind
    | with_reducible apply boundedS_bindP
    | with_reducible apply boundedO_bindV
    | with_reducible apply boundedP_bindV
    | with_reducible apply boundedS_bindV
    | dsimp only
    | split)

theorem bounded_invoke {vm : VM} (h : Host) (name argCount : Nat) (hb : vm.frameCount ≤ FRAMES_MAX) :
    BoundedP (vm.invoke h name argCount) := by
  unfold VM.invoke
  repeat' (first
    | with_reducible assumption
    | intro _
    | with_reducible apply le_runtimeError
    | with_reducible apply le_push
    | with_reducible apply le_store
    | with_reducible apply le_allocateObject
    | with_reducible apply le_newUpvalue
    | with_reducible apply le_newClass
    | with_reducible apply le_newInstance
    | with_reducible apply le_newBoundMethod
    | with_reducible apply le_newNative
    | with_reducible apply bounded_pop
    | with_reducible apply bounded_poke
    | with_reducible apply bounded_internString
    | with_reducible apply bounded_copyString
    | with_reducible apply bounded_takeString
    | with_reducible apply bounded_newClosure
    | with_reducible apply bounded_readByte
    | with_reducible apply bounded_callWith
    | with_reducible apply bounded_readShort
    | with_reducible apply bounded_readConstant
    | with_reducible apply bounded_readString
    | with_reducible apply bounded_call
    | with_reducible apply bounded_callValue
    | with_reducible apply bounded_captureUpvalue
    | with_reducible apply bounded_closeUpvalues
    | with_reducible apply bounded_defineMethod
    | with_reducible apply bounded_bindMethod
    | with_reducible apply bounded_invokeFromClass
    | with_reducible apply boundedO_none
    | with_reducible apply boundedP_none
    | with_reducible apply boundedS_none
    | with_reducible apply boundedO_some
    | with_reducible apply boundedO_pure
    | with_reducible apply boundedP_some
    | with_reducible apply boundedP_pure
    | with_reducible apply boundedS_next
    | with_reducible apply boundedS_ret
    | with_reducible apply boundedS_pure_next
    | with_reducible apply boundedS_pure_ret
    | with_reducible apply boundedO_bind
    | with_reducible apply boundedO_bindP
    | with_reducible apply boundedP_bind
    | with_reducible apply boundedP_bindP
    | with_reducible apply boundedS_bind
    | with_reducible apply boundedS_bindP
    | with_reducible apply boundedO_bindV
    | with_reducible apply boundedP_bindV
    | with_reducible apply boundedS_bindV
    | dsimp only
    | split)

theorem bounded_concatenate {vm : VM} (hb : vm.frameCount ≤ FRAMES_MAX) :
    BoundedO (vm.concatenate) := by
  unfold VM.concatenate
  repeat' (first
    | with_reducible assumption
    | intro _
    | with_reducible apply le_runtimeError
    | with_reducible apply le_push
    | with_reducible apply le_store
    | with_reducible apply le_allocateObject
    | with_reducible apply le_newUpvalue
    | with_reducible apply le_newClass
    | with_reducible apply le_newInstance
    | with_reducible apply le_newBoundMethod
    | with_reducible apply le_newNative
    | with_reducible apply bounded_pop
    | with_reducible apply bounded_poke
    | with_reducible apply bounded_internString
    | with_reducible apply bounded_copyString
    | with_reducible apply bounded_takeString
    | with_reducible apply bounded_newClosure
    | with_reducible apply bounded_readByte
    | with_reducible apply bounded_callWith
    | with_reducible apply bounded_readShort
    | with_reducible apply bounded_readConstant
    | with_reducible apply bounded_readString
    | with_reducible apply bounded_call
    | with_reducible apply bounded_callValue
    | with_reducible apply bounded_captureUpvalue
    | with_reducible apply bounded_closeUpvalues
    | with_reducible apply bounded_defineMethod
    | with_reducible apply bounded_bindMethod
    | with_reducible apply bounded_invokeFromClass
    | with_reducible apply bounded_invoke
    | with_reducible apply boundedO_none
    | with_reducible apply boundedP_none
    | with_reducible apply boundedS_none
    | with_reducible apply boundedO_some
    | with_reducible apply boundedO_pure
    | with_reducible apply boundedP_some
    | with_reducible apply boundedP_pure
    | with_reducible apply boundedS_next
    | with_reducible apply boundedS_ret
    | with_reducible apply boundedS_pure_next
    | with_reducible apply boundedS_pure_ret
    | with_reducible apply boundedO_bind
    | with_reducible apply boundedO_bindP
    | with_reducible apply boundedP_bind
    | with_reducible apply boundedP_bindP
    | with_reducible apply boundedS_bind
    | with_reducible apply boundedS_bindP
    | with_reducible apply boundedO_bindV
    | with_reducible apply boundedP_bindV
    | with_reducible apply boundedS_bindV
    | dsimp only
    | split)

theorem bounded_binaryOp {vm : VM} (frame : Nat) (op : Nat → Nat → Nat) (hb : vm.frameCount ≤ FRAMES_MAX) :
    BoundedS (vm.binaryOp frame op) := by
  unfold VM.binaryOp
  repeat' (first
    | with_reducible assumption
    | intro _
    | with_reducible apply le_runtimeError
    | with_reducible apply le_push
    | with_reducible apply le_store
    | with_reducible apply le_allocateObject
    | with_reducible apply le_newUpvalue
    | with_reducible apply le_newClass
    | with_reducible apply le_newInstance
    | with_reducible apply le_newBoundMethod
    | with_reducible apply le_newNative
    | with_reducible apply bounded_pop
    | with_reducible apply bounded_poke
    | with_reducible apply bounded_internString
    | with_reducible apply bounded_copyString
    | with_reducible apply bounded_takeString
    | with_reducible apply bounded_newClosure
    | with_reducible apply bounded_readByte
    | with_reducible apply bounded_callWith
    | with_reducible apply bounded_readShort
    | with_reducible apply bounded_readConstant
    | with_reducible apply bounded_readString
    | with_reducible apply bounded_call
    | with_reducible apply bounded_callValue
    | with_reducible apply bounded_captureUpvalue
    | with_reducible apply bounded_closeUpvalues
    | with_reducible apply bounded_defineMethod
    | with_reducible apply bounded_bindMethod
    | with_reducible apply bounded_invokeFromClass
    | with_reducible apply bounded_invoke
    | with_reducible apply bounded_concatenate
    | with_reducible apply boundedO_none
    | with_reducible apply boundedP_none
    | with_reducible apply boundedS_none
    | with_reducible apply boundedO_some
    | with_reducible apply boundedO_pure
    | with_reducible apply boundedP_some
    | with_reducible apply boundedP_pure
    | with_reducible apply boundedS_next
    | with_reducible apply boundedS_ret
    | with_reducible apply boundedS_pure_next
    | with_reducible apply boundedS_pure_ret
    | with_reducible apply boundedO_bind
    | with_reducible apply boundedO_bindP
    | with_reducible apply boundedP_bind
    | with_reducible apply boundedP_bindP
    | with_reducible apply boundedS_bind
    | with_reducible apply boundedS_bindP
    | with_reducible apply boundedO_bindV
    | with_reducible apply boundedP_bindV
    | with_reducible apply boundedS_bindV
    | dsimp only
    | split)

theorem bounded_opAdd {vm : VM} (h : Host) (frame : Nat) (hb : vm.frameCount ≤ FRAMES_MAX) :
    BoundedS (vm.opAdd h frame) := by
  unfold VM.opAdd
  repeat' (first
    | with_reducible assumption
    | intro _
    | with_reducible apply le_runtimeError
    | with_reducible apply le_push
    | with_reducible apply le_store
    | with_reducible apply le_allocateObject
    | with_reducible apply le_newUpvalue
    | with_reducible apply le_newClass
    | with_reducible apply le_newInstance
    | with_reducible apply le_newBoundMethod
    | with_reducible apply le_newNative
    | with_reducible apply bounded_pop
    | with_reducible apply bounded_poke
    | with_reducible apply bounded_internString
    | with_reducible apply bounded_copyString
    | with_reducible apply bounded_takeString
    | with_reducible apply bounded_newClosure
    | with_reducible apply bounded_readByte
    | with_reducible apply bounded_callWith
    | with_reducible apply bounded_readShort
    | with_reducible apply bounded_readConstant
    | with_reducible apply bounded_readString
    | with_reducible apply bounded_call
    | with_reducible apply bounded_callValue
    | with_reducible apply bounded_captureUpvalue
    | with_reducible apply bounded_closeUpvalues
    | with_reducible apply bounded_defineMethod
    | with_reducible apply bounded_bindMethod
    | with_reducible apply bounded_invokeFromClass
    | with_reducible apply bounded_invoke
    | with_reducible apply bounded_concatenate
    | with_reducible apply bounded_binaryOp
    | with_reducible apply boundedO_none
    | with_reducible apply boundedP_none
    | with_reducible apply boundedS_none
    | with_reducible apply boundedO_some
    | with_reducible apply boundedO_pure
    | with_reducible apply boundedP_some
    | with_reducible apply boundedP_pure
    | with_reducible apply boundedS_next
    | with_reducible apply boundedS_ret
    | with_reducible apply boundedS_pure_next
    | with_reducible apply boundedS_pure_ret
    | with_reducible apply boundedO_bind
    | with_reducible apply boundedO_bindP
    | with_reducible apply boundedP_bind
    | with_reducible apply boundedP_bindP
    | with_reducible apply boundedS_bind
    | with_reducible apply boundedS_bindP
    | with_reducible apply boundedO_bindV
    | with_reducible apply boundedP_bindV
    | with_reducible apply boundedS_bindV
    | dsimp only
    | split)

theorem bounded_opNegate {vm : VM} (frame : Nat) (hb : vm.frameCount ≤ FRAMES_MAX) :
    BoundedS (vm.opNegate frame) := by
  unfold VM.opNegate
  repeat' (first
    | with_reducible assumption
    | intro _
    | with_reducible apply le_runtimeError
    | with_reducible apply le_push
    | with_reducible apply le_store
    | with_reducible apply le_allocateObject
    | with_reducible apply le_newUpvalue
    | with_reducible apply le_newClass
    | with_reducible apply le_newInstance
    | with_reducible apply le_newBoundMethod
    | with_reducible apply le_newNative
    | with_reducible apply bounded_pop
    | with_reducible apply bounded_poke
    | with_reducible apply bounded_internString
    | with_reducible apply bounded_copyString
    | with_reducible apply bounded_takeString
    | with_reducible apply bounded_newClosure
    | with_reducible apply bounded_readByte
    | with_reducible apply bounded_callWith
    | with_reducible apply bounded_readShort
    | with_reducible apply bounded_readConstant
    | with_reducible apply bounded_readString
    | with_reducible apply bounded_call
    | with_reducible apply bounded_callValue
    | with_reducible apply bounded_captureUpvalue
    | with_reducible apply bounded_closeUpvalues
    | with_reducible apply bounded_defineMethod
    | with_reducible apply bounded_bindMethod
    | with_reducible apply bounded_invokeFromClass
    | with_reducible apply bounded_invoke
    | with_reducible apply bounded_concatenate
    | with_reducible apply bounded_binaryOp
    | with_reducible apply bounded_opAdd
    | with_reducible apply boundedO_none
    | with_reducible apply boundedP_none
    | with_reducible apply boundedS_none
    | with_reducible apply boundedO_some
    | with_reducible apply boundedO_pure
    | with_reducible apply boundedP_some
    | with_reducible apply boundedP_pure
    | with_reducible apply boundedS_next
    | with_reducible apply boundedS_ret
    | with_reducible apply boundedS_pure_next
    | with_reducible apply boundedS_pure_ret
    | with_reducible apply boundedO_bind
    | with_reducible apply boundedO_bindP
    | with_reducible apply boundedP_bind
    | with_reducible apply boundedP_bindP
    | with_reducible apply boundedS_bind
    | with_reducible apply boundedS_bindP
    | with_reducible apply boundedO_bindV
    | with_reducible apply boundedP_bindV
    | with_reducible apply boundedS_bindV
    | dsimp only
    | split)

theorem bounded_closureUpvalues (frame closure : Nat) :
    ∀ (n i : Nat) (vm : VM), vm.frameCount ≤ FRAMES_MAX →
      BoundedO (VM.closureUpvalues frame closure n i vm) := by
  intro n
  induction n with
  | zero => intro i vm hb; unfold VM.closureUpvalues; exact boundedO_some hb
  | succ n ih =>
    intro i vm hb
    unfold VM.closureUpvalues
    repeat' (first
      | with_reducible assumption
      | intro _
      | with_reducible apply le_runtimeError
      | with_reducible apply le_push
      | with_reducible apply le_store
      | with_reducible apply le_allocateObject
      | with_reducible apply le_newUpvalue
      | with_reducible apply le_newClass
      | with_reducible apply le_newInstance
      | with_reducible apply le_newBoundMethod
      | with_reducible apply le_newNative
      | with_reducible apply bounded_pop
      | with_reducible apply bounded_poke
      | with_reducible apply bounded_internString
      | with_reducible apply bounded_copyString
      | with_reducible apply bounded_takeString
      | with_reducible apply bounded_newClosure
      | with_reducible apply bounded_readByte
      | with_reducible apply bounded_callWith
      | with_reducible apply bounded_readShort
      | with_reducible apply bounded_readConstant
      | with_reducible apply bounded_readString
      | with_reducible apply bounded_call
      | with_reducible apply bounded_callValue
      | with_reducible apply bounded_captureUpvalue
      | with_reducible apply bounded_closeUpvalues
      | with_reducible apply bounded_defineMethod
      | with_reducible apply bounded_bindMethod
      | with_reducible apply bounded_invokeFromClass
      | with_reducible apply bounded_invoke
      | with_reducible apply bounded_concatenate
      | with_reducible apply bounded_binaryOp
      | with_reducible apply bounded_opAdd
      | with_reducible apply bounded_opNegate
      | with_reducible apply ih
      | with_reducible apply boundedO_none
      | with_reducible apply boundedP_none
      | with_reducible apply boundedS_none
      | with_reducible apply boundedO_some
      | with_reducible apply boundedO_pure
      | with_reducible apply boundedP_some
      | with_reducible apply boundedP_pure
      | with_reducible apply boundedS_next
      | with_reducible apply boundedS_ret
      | with_reducible apply boundedS_pure_next
      | with_reducible apply boundedS_pure_ret
      | with_reducible apply boundedO_bind
      | with_reducible apply boundedO_bindP
      | with_reducible apply boundedP_bind
      | with_reducible apply boundedP_bindP
      | with_reducible apply boundedS_bind
      | with_reducible apply boundedS_bindP
      | with_reducible apply boundedO_bindV
      | with_reducible apply boundedP_bindV
      | with_reducible apply boundedS_bindV
      | dsimp only
      | split)

theorem le_pred_frameCount {vm : VM} (hb : vm.frameCount ≤ FRAMES_MAX) :
    ({ vm with frameCount := vm.frameCount - 1 } : VM).frameCount ≤ FRAMES_MAX :=
  Nat.le_trans (Nat.sub_le _ _) hb

theorem bounded_opReturn {vm : VM} (frame : Nat) (hb : vm.frameCount ≤ FRAMES_MAX) :
    BoundedS (vm.opReturn frame) := by
  unfold VM.opReturn
  repeat' (first
    | with_reducible assumption
    | intro _
    | with_reducible apply le_runtimeError
    | with_reducible apply le_push
    | with_reducible apply le_store
    | with_reducible apply le_allocateObject
    | with_reducible apply le_newUpvalue
    | with_reducible apply le_newClass
    | with_reducible apply le_newInstance
    | with_reducible apply le_newBoundMethod
    | with_reducible apply le_newNative
    | with_reducible apply bounded_pop
    | with_reducible apply bounded_poke
    | with_reducible apply bounded_internString
    | with_reducible apply bounded_copyString
    | with_reducible apply bounded_takeString
    | with_reducible apply bounded_newClosure
    | with_reducible apply bounded_readByte
    | with_reducible apply le_pred_frameCount
    | with_reducible apply bounded_callWith
    | with_reducible apply bounded_readShort
    | with_reducible apply bounded_readConstant
    | with_reducible apply bounded_readString
    | with_reducible apply bounded_call
    | with_reducible apply bounded_callValue
    | with_reducible apply bounded_captureUpvalue
    | with_reducible apply bounded_closeUpvalues
    | with_reducible apply bounded_defineMethod
    | with_reducible apply bounded_bindMethod
    | with_reducible apply bounded_invokeFromClass
    | with_reducible apply bounded_invoke
    | with_reducible apply bounded_concatenate
    | with_reducible apply bounded_binaryOp
    | with_reducible apply bounded_opAdd
    | with_reducible apply bounded_opNegate
    | with_reducible apply bounded_closureUpvalues
    | with_reducible apply boundedO_none
    | with_reducible apply boundedP_none
    | with_reducible apply boundedS_none
    | with_reducible apply boundedO_some
    | with_reducible apply boundedO_pure
    | with_reducible apply boundedP_some
    | with_reducible apply boundedP_pure
    | with_reducible apply boundedS_next
    | with_reducible apply boundedS_ret
    | with_reducible apply boundedS_pure_next
    | with_reducible apply boundedS_pure_ret
    | with_reducible apply boundedO_bind
    | with_reducible apply boundedO_bindP
    | with_reducible apply boundedP_bind
    | with_reducible apply boundedP_bindP
    | with_reducible apply boundedS_bind
    | with_reducible apply boundedS_bindP
    | with_reducible apply boundedO_bindV
    | with_reducible apply boundedP_bindV
    | with_reducible apply boundedS_bindV
    | dsimp only
    | split)

set_option maxHeartbeats 4000000 in
theorem bounded_step {vm : VM} (h : Host) (frame : Nat) (hb : vm.frameCount ≤ FRAMES_MAX) :
    BoundedS (vm.step h frame) := by
  unfold VM.step
  apply boundedS_bindP (bounded_readByte frame hb)
  intro instruction vm1 hb1
  dsimp only
  by_cases h0 : (instruction == OP_CONSTANT) = true
  on_goal 1 => rw [if_pos h0]
  on_goal 2 => rw [if_neg h0]
  rotate_left
  by_cases h1 : (instruction == OP_NIL) = true
  on_goal 1 => rw [if_pos h1]
  on_goal 2 => rw [if_neg h1]
  rotate_left
  by_cases h2 : (instruction == OP_TRUE) = true
  on_goal 1 => rw [if_pos h2]
  on_goal 2 => rw [if_neg h2]
  rotate_left
  by_cases h3 : (instruction == OP_FALSE) = true
  on_goal 1 => rw [if_pos h3]
  on_goal 2 => rw [if_neg h3]
  rotate_left
  by_cases h4 : (instruction == OP_POP) = true
  on_goal 1 => rw [if_pos h4]
  on_goal 2 => rw [if_neg h4]
  rotate_left
  by_cases h5 : (instruction == OP_GET_LOCAL) = true
  on_goal 1 => rw [if_pos h5]
  on_goal 2 => rw [if_neg h5]
  rotate_left
  by_cases h6 : (instruction == OP_SET_LOCAL) = true
  on_goal 1 => rw [if_pos h6]
  on_goal 2 => rw [if_neg h6]
  rotate_left
  by_cases h7 : (instruction == OP_GET_GLOBAL) = true
  on_goal 1 => rw [if_pos h7]
  on_goal 2 => rw [if_neg h7]
  rotate_left
  by_cases h8 : (instruction == OP_DEFINE_GLOBAL) = true
  on_goal 1 => rw [if_pos h8]
  on_goal 2 => rw [if_neg h8]
  rotate_left
  by_cases h9 : (instruction == OP_SET_GLOBAL) = true
  on_goal 1 => rw [if_pos h9]
  on_goal 2 => rw [if_neg h9]
  rotate_left
  by_cases h10 : (instruction == OP_GET_UPVALUE) = true
  on_goal 1 => rw [if_pos h10]
  on_goal 2 => rw [if_neg h10]
  rotate_left
  by_cases h11 : (instruction == OP_SET_UPVALUE) = true
  on_goal 1 => rw [if_pos h11]
  on_goal 2 => rw [if_neg h11]
  rotate_left
  by_cases h12 : (instruction == OP_GET_PROPERTY) = true
  on_goal 1 => rw [if_pos h12]
  on_goal 2 => rw [if_neg h12]
  rotate_left
  by_cases h13 : (instruction == OP_SET_PROPERTY) = true
  on_goal 1 => rw [if_pos h13]
  on_goal 2 => rw [if_neg h13]
  rotate_left
  by_cases h14 : (instruction == OP_GET_SUPER) = true
  on_goal 1 => rw [if_pos h14]
  on_goal 2 => rw [if_neg h14]
  rotate_left
  by_cases h15 : (instruction == OP_EQUAL) = true
  on_goal 1 => rw [if_pos h15]
  on_goal 2 => rw [if_neg h15]
  rotate_left
  by_cases h16 : (instruction == OP_NOT_EQUAL) = true
  on_goal 1 => rw [if_pos h16]
  on_goal 2 => rw [if_neg h16]
  rotate_left
  by_cases h17 : (instruction == OP_GREATER) = true
  on_goal 1 => rw [if_pos h17]
  on_goal 2 => rw [if_neg h17]
  rotate_left
  by_cases h18 : (instruction == OP_GREATER_EQUAL) = true
  on_goal 1 => rw [if_pos h18]
  on_goal 2 => rw [if_neg h18]
  rotate_left
  by_cases h19 : (instruction == OP_LESS) = true
  on_goal 1 => rw [if_pos h19]
  on_goal 2 => rw [if_neg h19]
  rotate_left
  by_cases h20 : (instruction == OP_LESS_EQUAL) = true
  on_goal 1 => rw [if_pos h20]
  on_goal 2 => rw [if_neg h20]
  rotate_left
  by_cases h21 : (instruction == OP_ADD) = true
  on_goal 1 => rw [if_pos h21]
  on_goal 2 => rw [if_neg h21]
  rotate_left
  by_cases h22 : (instruction == OP_SUBTRACT) = true
  on_goal 1 => rw [if_pos h22]
  on_goal 2 => rw [if_neg h22]
  rotate_left
  by_cases h23 : (instruction == OP_MULTIPLY) = true
  on_goal 1 => rw [if_pos h23]
  on_goal 2 => rw [if_neg h23]
  rotate_left
  by_cases h24 : (instruction == OP_DIVIDE) = true
  on_goal 1 => rw [if_pos h24]
  on_goal 2 => rw [if_neg h24]
  rotate_left
  by_cases h25 : (instruction == OP_NOT) = true
  on_goal 1 => rw [if_pos h25]
  on_goal 2 => rw [if_neg h25]
  rotate_left
  by_cases h26 : (instruction == OP_NEGATE) = true
  on_goal 1 => rw [if_pos h26]
  on_goal 2 => rw [if_neg h26]
  rotate_left
  by_cases h27 : (instruction == OP_PRINT) = true
  on_goal 1 => rw [if_pos h27]
  on_goal 2 => rw [if_neg h27]
  rotate_left
  by_cases h28 : (instruction == OP_JUMP) = true
  on_goal 1 => rw [if_pos h28]
  on_goal 2 => rw [if_neg h28]
  rotate_left
  by_cases h29 : (instruction == OP_JUMP_IF_FALSE) = true
  on_goal 1 => rw [if_pos h29]
  on_goal 2 => rw [if_neg h29]
  rotate_left
  by_cases h30 : (instruction == OP_LOOP) = true
  on_goal 1 => rw [if_pos h30]
  on_goal 2 => rw [if_neg h30]
  rotate_left
  by_cases h31 : (instruction == OP_CALL) = true
  on_goal 1 => rw [if_pos h31]
  on_goal 2 => rw [if_neg h31]
  rotate_left
  by_cases h32 : (instruction == OP_INVOKE) = true
  on_goal 1 => rw [if_pos h32]
  on_goal 2 => rw [if_neg h32]
  rotate_left
  by_cases h33 : (instruction == OP_SUPER_INVOKE) = true
  on_goal 1 => rw [if_pos h33]
  on_goal 2 => rw [if_neg h33]
  rotate_left
  by_cases h34 : (instruction == OP_CLOSURE) = true
  on_goal 1 => rw [if_pos h34]
  on_goal 2 => rw [if_neg h34]
  rotate_left
  by_cases h35 : (instruction == OP_CLOSE_UPVALUE) = true
  on_goal 1 => rw [if_pos h35]
  on_goal 2 => rw [if_neg h35]
  rotate_left
  by_cases h36 : (instruction == OP_RETURN) = true
  on_goal 1 => rw [if_pos h36]
  on_goal 2 => rw [if_neg h36]
  rotate_left
  by_cases h37 : (instruction == OP_CLASS) = true
  on_goal 1 => rw [if_pos h37]
  on_goal 2 => rw [if_neg h37]
  rotate_left
  by_cases h38 : (instruction == OP_INHERIT) = true
  on_goal 1 => rw [if_pos h38]
  on_goal 2 => rw [if_neg h38]
  rotate_left
  by_cases h39 : (instruction == OP_METHOD) = true
  on_goal 1 => rw [if_pos h39]
  on_goal 2 => rw [if_neg h39]
  rotate_left
  all_goals (
    repeat' (first
      | with_reducible assumption
      | intro _
      | with_reducible apply le_runtimeError
      | with_reducible apply le_push
      | with_reducible apply le_store
      | with_reducible apply le_allocateObject
      | with_reducible apply le_newUpvalue
      | with_reducible apply le_newClass
      | with_reducible apply le_newInstance
      | with_reducible apply le_newBoundMethod
      | with_reducible apply le_newNative
      | with_reducible apply bounded_pop
      | with_reducible apply bounded_poke
      | with_reducible apply bounded_internString
      | with_reducible apply bounded_copyString
      | with_reducible apply bounded_takeString
      | with_reducible apply bounded_newClosure
      | with_reducible apply bounded_readByte
      | with_reducible apply le_pred_frameCount
      | with_reducible apply bounded_callWith
      | with_reducible apply bounded_readShort
      | with_reducible apply bounded_readConstant
      | with_reducible apply bounded_readString
      | with_reducible apply bounded_call
      | with_reducible apply bounded_callValue
      | with_reducible apply bounded_captureUpvalue
      | with_reducible apply bounded_closeUpvalues
      | with_reducible apply bounded_defineMethod
      | with_reducible apply bounded_bindMethod
      | with_reducible apply bounded_invokeFromClass
      | with_reducible apply bounded_invoke
      | with_reducible apply bounded_concatenate
      | with_reducible apply bounded_binaryOp
      | with_reducible apply bounded_opAdd
      | with_reducible apply bounded_opNegate
      | with_reducible apply bounded_closureUpvalues
      | with_reducible apply bounded_opReturn
      | with_reducible apply boundedO_none
      | with_reducible apply boundedP_none
      | with_reducible apply boundedS_none
      | with_reducible apply boundedO_some
      | with_reducible apply boundedO_pure
      | with_reducible apply boundedP_some
      | with_reducible apply boundedP_pure
      | with_reducible apply boundedS_next
      | with_reducible apply boundedS_ret
      | with_reducible apply boundedS_pure_next
      | with_reducible apply boundedS_pure_ret
      | with_reducible apply boundedO_bind
      | with_reducible apply boundedO_bindP
      | with_reducible apply boundedP_bind
      | with_reducible apply boundedP_bindP
      | with_reducible apply boundedS_bind
      | with_reducible apply boundedS_bindP
      | with_reducible apply boundedO_bindV
      | with_reducible apply boundedP_bindV
      | with_reducible apply boundedS_bindV
      | dsimp only
      | split))

theorem bounded_defineNative {vm : VM} (name : String) (function : Nat)
    (hb : vm.frameCount ≤ FRAMES_MAX) : BoundedO (vm.defineNative name function) := by
  unfold VM.defineNative
  repeat' (first
    | with_reducible assumption
    | intro _
    | with_reducible apply le_push
    | with_reducible apply le_newNative
    | with_reducible apply bounded_pop
    | with_reducible apply bounded_copyString
    | with_reducible apply boundedO_none
    | with_reducible apply boundedO_some
    | with_reducible apply boundedO_pure
    | with_reducible apply boundedO_bind
    | with_reducible apply boundedO_bindP
    | with_reducible apply boundedO_bindV
    | dsimp only
    | split)

theorem bounded_initVM : BoundedO initVM := by
  unfold initVM
  repeat' (first
    | with_reducible assumption
    | intro _
    | with_reducible apply bounded_defineNative
    | with_reducible apply bounded_copyString
    | with_reducible apply boundedO_none
    | with_reducible apply boundedO_some
    | with_reducible apply boundedO_pure
    | with_reducible apply boundedO_bind
    | with_reducible apply boundedO_bindP
    | with_reducible apply boundedO_bindV
    | dsimp only
    | split
    | exact Nat.zero_le _)

/-- The function `compile` leaves `frameCount` as it was. -/
theorem frameCount_compile (h : Host) (fuel : Nat) (vm : VM) (source : List Nat)
    (function : Nat) (st : State) (hc : compile h fuel vm source = some (function, st)) :
    st.vm.frameCount = vm.frameCount := by
  unfold compile at hc
  simp only [Option.bind_eq_bind, Option.bind_eq_some, Option.pure_def, Option.some.injEq,
    Prod.mk.injEq, Prod.exists] at hc
  obtain ⟨fn, s1, hr, _, hs⟩ := hc
  subst hs
  exact frameCount_of_base (compileRun_spec h fuel vm source fn s1 hr).2.base

/-- In every state reachable from `initVM` at most `FRAMES_MAX` frames are
active. -/
theorem reached_bounded (h : Host) (vm : VM) (hr : VM.Reached h vm) :
    vm.frameCount ≤ FRAMES_MAX := by
  induction hr with
  | init vm hi => exact bounded_initVM.le vm hi
  | compile vm fuel source function st _ hc ih =>
    rw [frameCount_compile h fuel vm source function st hc]; exact ih
  | push vm v _ ih => exact ih
  | pop vm v vm' _ hp ih => exact (bounded_pop ih).le v vm' hp
  | newClosure vm function closure vm' _ hn ih =>
    exact (bounded_newClosure function ih).le closure vm' hn
  | call vm closure argCount ok vm' _ hc ih =>
    exact (bounded_call closure argCount ih).le ok vm' hc
  | step vm frame s _ hs ih => exact (bounded_step h frame ih).le s hs

/-- The states that the loop of `run` passes and the one it returns are
reachable. -/
theorem reached_runLoop (h : Host) :
    ∀ (fuel frame : Nat) (vm : VM) (r : InterpretResult) (vm' : VM), VM.Reached h vm →
      VM.runLoop h fuel frame vm = some (r, vm') → VM.Reached h vm' := by
  intro fuel
  induction fuel with
  | zero =>
    intro frame vm r vm' _ hrun
    unfold VM.runLoop at hrun
    exact Option.noConfusion hrun
  | succ n ih =>
    intro frame vm r vm' hr hrun
    unfold VM.runLoop at hrun
    split at hrun
    · exact Option.noConfusion hrun
    · rename_i frame2 vm2 hs
      exact ih frame2 vm2 r vm' (VM.Reached.step vm frame _ hr hs) hrun
    · rename_i r2 vm2 hs
      have := Option.some.inj hrun
      rw [Prod.mk.injEq] at this
      rw [← this.2]
      exact VM.Reached.step vm frame _ hr hs

/-- The state that `interpret` returns is reachable. -/
theorem reached_interpret (h : Host) (fuel : Nat) (vm : VM) (source : List Nat)
    (r : InterpretResult) (vm' : VM) (hr : VM.Reached h vm)
    (hi : interpret h fuel vm source = some (r, vm')) : VM.Reached h vm' := by
  unfold interpret at hi
  simp only [Option.bind_eq_bind, Option.bind_eq_some, Prod.exists] at hi
  obtain ⟨function, st, hc, hi⟩ := hi
  have h1 := VM.Reached.compile vm fuel source function st hr hc
  split at hi
  · simp only [Option.pure_def, Option.some.injEq, Prod.mk.injEq] at hi
    rw [← hi.2]
    exact h1
  · simp only [Option.bind_eq_some, Prod.exists] at hi
    obtain ⟨closure, vm2, hn, v3, vm3, hp, ok, vm4, hcall, hrun⟩ := hi
    have h2 := VM.Reached.newClosure _ function closure vm2 (VM.Reached.push _ _ h1) hn
    have h3 := VM.Reached.pop vm2 v3 vm3 h2 hp
    have h4 := VM.Reached.call _ closure 0 ok vm4 (VM.Reached.push _ _ h3) hcall
    unfold VM.run at hrun
    split at hrun
    · exact Option.noConfusion hrun
    · exact reached_runLoop h fuel _ vm4 r vm' h4 hrun

/-- C27: in every VM state reachable from `initVM` the number of active
frames `frameCount` is at most `FRAMES_MAX`, which is 64; and `call` on a
closure with the number of arguments that its function expects, when
`frameCount` is `FRAMES_MAX`, returns false, reports "Stack overflow." and
leaves the array of frames as it was. -/
theorem frameCount_le_FRAMES_MAX (h : Host) (vm : VM) (hr : VM.Reached h vm) :
    vm.frameCount ≤ FRAMES_MAX ∧ FRAMES_MAX = 64 ∧
    ∀ closure function upvalues n argCount,
      vm.closureOf closure = some (function, upvalues, n) →
      vm.arityOf function = some argCount → vm.frameCount = FRAMES_MAX →
      ∃ vm', vm.call closure argCount = some (false, vm') ∧
        vm'.err.map (fun e => e.message) = vm.err.map (fun e => e.message) ++ ["Stack overflow."] ∧
        vm'.frames = vm.frames := by
  refine ⟨reached_bounded h vm hr, rfl, ?_⟩
  intro closure function upvalues n argCount hc ha hfull
  refine ⟨vm.runtimeError "Stack overflow.", ?_, ?_, ?_⟩
  · simp only [VM.call, hc, ha, Option.bind_eq_bind, Option.some_bind, VM.callWith]
    rw [if_neg (by simp), if_pos (by rw [hfull]; rfl)]
  · simp [VM.runtimeError, VM.resetStack]
  · simp [VM.runtimeError, VM.resetStack]

/-- C27, witness: the run of a function that calls itself without end.  It
ends with the runtime error "Stack overflow."; the state it ends in is
reachable. -/
theorem frameCount_le_FRAMES_MAX_witness :
    ∃ vm0 vm', initVM = some vm0 ∧
      interpret quietHost 200 vm0 (cstr "fun f() \x7b f(); \x7d f();") =
        some (INTERPRET_RUNTIME_ERROR, vm') ∧
      vm'.err.map (fun e => e.message) = ["Stack overflow."] ∧
      vm'.frameCount ≤ FRAMES_MAX ∧ FRAMES_MAX = 64 ∧
      ∀ closure function upvalues n argCount,
        vm'.closureOf closure = some (function, upvalues, n) →
        vm'.arityOf function = some argCount → vm'.frameCount = FRAMES_MAX →
        ∃ vm'', vm'.call closure argCount = some (false, vm'') ∧
          vm''.err.map (fun e => e.message) =
            vm'.err.map (fun e => e.message) ++ ["Stack overflow."] ∧
          vm''.frames = vm'.frames := by
  have e : (bootAndInterpret quietHost 200 "fun f() \x7b f(); \x7d f();").map
      (fun p => (p.1, p.2.err.map (fun e => e.message))) =
      some (INTERPRET_RUNTIME_ERROR, ["Stack overflow."]) := by decide!
  unfold bootAndInterpret at e
  simp only [Option.map_eq_some', Option.bind_eq_some, Prod.mk.injEq, Prod.exists] at e
  obtain ⟨r, vm', ⟨vm0, h0, hi⟩, hr, herr⟩ := e
  subst hr
  exact ⟨vm0, vm', h0, hi, herr,
    frameCount_le_FRAMES_MAX quietHost vm'
      (reached_interpret quietHost 200 vm0 _ _ vm' (VM.Reached.init vm0 h0) hi)⟩

/-! ## C30: the list of open upvalues -/

namespace VM

theorem deref_zero (vm : VM) : vm.deref 0 = none := by
  simp [deref]

theorem deref_lt (vm : VM) (p : Nat) (o : Obj) (h : vm.deref p = some o) :
    p ≠ 0 ∧ p ≤ vm.heap.length := by
  unfold deref at h
  by_cases hp : p = 0
  · subst hp; simp at h
  · rw [if_neg (by simpa using hp), List.get?_eq_getElem?] at h
    have := (List.getElem?_eq_some_iff.mp h).1
    exact ⟨hp, by omega⟩

theorem deref_store_ne (vm : VM) (p q : Nat) (body : ObjBody) (hne : q ≠ p) :
    (vm.store p body).deref q = vm.deref q := by
  unfold store
  split
  · rename_i o ho
    obtain ⟨hp0, _⟩ := deref_lt vm p o ho
    unfold deref
    dsimp only
    by_cases hq : q = 0
    · subst hq; simp
    · rw [if_neg (by simpa using hq), if_neg (by simpa using hq), List.get?_eq_getElem?,
        List.get?_eq_getElem?, List.getElem?_set_ne (by omega)]
  · rfl

theorem deref_store_self (vm : VM) (p : Nat) (body : ObjBody) (o : Obj)
    (ho : vm.deref p = some o) : (vm.store p body).deref p = some { o with body := body } := by
  obtain ⟨hp0, hlt⟩ := deref_lt vm p o ho
  unfold store
  rw [ho]
  unfold deref
  dsimp only
  rw [if_neg (by simpa using hp0), List.get?_eq_getElem?, List.getElem?_set_self (by omega)]

theorem deref_allocateObject_old (vm : VM) (body : ObjBody) (q : Nat)
    (hq : q ≤ vm.heap.length) : (vm.allocateObject body).2.deref q = vm.deref q := by
  unfold allocateObject deref
  dsimp only
  by_cases h0 : q = 0
  · subst h0; simp
  · rw [if_neg (by simpa using h0), if_neg (by simpa using h0), List.get?_eq_getElem?,
      List.get?_eq_getElem?, List.getElem?_append_left (by omega)]

theorem deref_allocateObject_new (vm : VM) (body : ObjBody) :
    (vm.allocateObject body).2.deref (vm.heap.length + 1) =
      some { isMarked := false, next := vm.objects, body := body } := by
  unfold allocateObject deref
  dsimp only
  rw [if_neg (by simp), List.get?_eq_getElem?]
  simp

theorem upvalueOf_of_deref (vm vm' : VM) (q : Nat) (h : vm'.deref q = vm.deref q) :
    vm'.upvalueOf q = vm.upvalueOf q := by
  unfold upvalueOf
  rw [h]

theorem upvalueOf_lt (vm : VM) (p : Nat) (x : Location × Nat × Nat)
    (h : vm.upvalueOf p = some x) : p ≠ 0 ∧ p ≤ vm.heap.length := by
  unfold upvalueOf at h
  split at h
  · rename_i o _ _ _ _ _ hd
    exact deref_lt vm p _ hd
  · exact Option.noConfusion h

theorem upvalueOf_store_self (vm : VM) (p : Nat) (x : Location × Nat × Nat)
    (location : Location) (closed following : Nat) (h : vm.upvalueOf p = some x) :
    (vm.store p (.upvalue location closed following)).upvalueOf p =
      some (location, closed, following) := by
  unfold upvalueOf at h
  split at h
  · rename_i o isMarked nxt l c n hd
    unfold upvalueOf
    rw [deref_store_self vm p _ _ hd]
  · exact Option.noConfusion h

/-- The entries of a segment are upvalue objects with the slots listed. -/
theorem segment_mem (vm : VM) (p q : Nat) (l : List (Nat × Nat))
    (h : vm.OpenSegment p l q) :
    ∀ e, e ∈ l → ∃ closed following, vm.upvalueOf e.1 = some (.slot e.2, closed, following) := by
  induction h with
  | nil q => intro e he; exact absurd he (List.not_mem_nil _)
  | cons p i closed following q rest _ hu _ ih =>
    intro e he
    rcases List.mem_cons.mp he with h1 | h1
    · subst h1; exact ⟨closed, following, hu⟩
    · exact ih e h1

/-- A segment is a segment of every VM in which its entries are the same
objects. -/
theorem segment_congr (vm vm' : VM) (p q : Nat) (l : List (Nat × Nat))
    (h : vm.OpenSegment p l q) (hsame : ∀ e, e ∈ l → vm'.upvalueOf e.1 = vm.upvalueOf e.1) :
    vm'.OpenSegment p l q := by
  induction h with
  | nil q => exact OpenSegment.nil q
  | cons p i closed following q rest hp hu _ ih =>
    refine OpenSegment.cons p i closed following q rest hp ?_ ?_
    · rw [hsame (p, i) (List.mem_cons_self _ _)]; exact hu
    · exact ih (fun e he => hsame e (List.mem_cons_of_mem _ he))

/-- In a descending segment no pointer occurs twice. -/
theorem segment_pointer_unique (vm : VM) (p q : Nat) (l : List (Nat × Nat))
    (h : vm.OpenSegment p l q) (hd : Descending l) :
    l.Pairwise (fun a b => a.1 ≠ b.1) := by
  have hmem := segment_mem vm p q l h
  unfold Descending at hd
  refine List.Pairwise.imp_of_mem ?_ hd
  intro a b ha hb hlt heq
  obtain ⟨c1, n1, h1⟩ := hmem a ha
  obtain ⟨c2, n2, h2⟩ := hmem b hb
  rw [heq, h2] at h1
  have := (Prod.mk.inj (Option.some.inj h1)).1
  have e : b.2 = a.2 := Location.slot.inj this
  omega

end VM

namespace VM

/-- A descending segment has no more entries than the heap has objects. -/
theorem segment_length_le (vm : VM) (p q : Nat) (l : List (Nat × Nat))
    (h : vm.OpenSegment p l q) (hd : Descending l) : l.length ≤ vm.heap.length := by
  have hnodup : (l.map Prod.fst).Nodup := by
    unfold List.Nodup
    rw [List.pairwise_map]
    exact segment_pointer_unique vm p q l h hd
  have hsub : (l.map Prod.fst).toFinset ⊆ Finset.Icc 1 vm.heap.length := by
    intro x hx
    rw [List.mem_toFinset, List.mem_map] at hx
    obtain ⟨e, he, hex⟩ := hx
    obtain ⟨c, n, hu⟩ := segment_mem vm p q l h e he
    obtain ⟨h0, hle⟩ := upvalueOf_lt vm e.1 _ hu
    rw [Finset.mem_Icc]
    omega
  have hcard := Finset.card_le_card hsub
  rw [List.toFinset_card_of_nodup hnodup, List.length_map, Nat.card_Icc] at hcard
  omega

end VM

namespace VM

theorem stack_store (vm : VM) (p : Nat) (body : ObjBody) :
    (vm.store p body).stack = vm.stack := by
  unfold store
  split <;> rfl

theorem segment_nil_eq (vm : VM) (p q : Nat) (h : vm.OpenSegment p [] q) : p = q := by
  cases h
  rfl

end VM

namespace VM

theorem heap_length_store (vm : VM) (p : Nat) (body : ObjBody) :
    (vm.store p body).heap.length = vm.heap.length := by
  unfold store
  split
  · simp
  · rfl

end VM

theorem isNil_iff (v : Nat) : IS_NIL v = true ↔ v = NIL_VAL := by
  unfold IS_NIL
  rw [beq_iff_eq]

theorem isObj_OBJ_VAL (q : Nat) : IS_OBJ (OBJ_VAL q) = true := by
  unfold IS_OBJ OBJ_VAL
  rw [beq_iff_eq]
  have h1 : SIGN_BIT ||| QNAN = 2 ^ 64 - 2 ^ 50 := by decide
  have h2 : QNAN ||| SIGN_BIT = 2 ^ 64 - 2 ^ 50 := by decide
  rw [h1, h2]
  apply Nat.eq_of_testBit_eq
  intro i
  rw [Nat.testBit_and, Nat.testBit_mod_two_pow, Nat.testBit_or]
  by_cases hi : i < 64
  · cases (2 ^ 64 - 2 ^ 50).testBit i <;> simp [hi]
  · have : (2 ^ 64 - 2 ^ 50).testBit i = false :=
      Nat.testBit_eq_false_of_lt (Nat.lt_of_lt_of_le (by norm_num)
        (Nat.pow_le_pow_right (by norm_num) (Nat.le_of_not_lt hi)))
    rw [this]
    simp

/-- The kinds are exclusive on every word. -/
theorem kinds_exclusive (v : Nat) :
    (IS_NIL v = true → IS_BOOL v = false ∧ IS_NUMBER v = false ∧ IS_OBJ v = false) ∧
    (IS_BOOL v = true → IS_NIL v = false ∧ IS_NUMBER v = false ∧ IS_OBJ v = false) ∧
    (IS_NUMBER v = true → IS_NIL v = false ∧ IS_BOOL v = false ∧ IS_OBJ v = false) ∧
    (IS_OBJ v = true → IS_NIL v = false ∧ IS_BOOL v = false ∧ IS_NUMBER v = false) := by
  have hn := isNil_iff v
  have hb := isBool_iff v
  have hnum := isNumber_iff v
  have ho := isObj_iff v
  rw [NIL_VAL_eq] at hn
  rw [TRUE_VAL_eq, FALSE_VAL_eq] at hb
  have nb : IS_NIL v = true → IS_BOOL v = false := by
    intro h
    rw [← Bool.not_eq_true, hb]
    have := hn.1 h
    omega
  have nn : IS_NIL v = true → IS_NUMBER v = false := by
    intro h
    rw [← Bool.not_eq_true, hnum]
    have := hn.1 h
    omega
  have no : IS_NIL v = true → IS_OBJ v = false := by
    intro h
    rw [← Bool.not_eq_true, ho]
    have := hn.1 h
    omega
  have bn : IS_BOOL v = true → IS_NUMBER v = false := by
    intro h
    rw [← Bool.not_eq_true, hnum]
    have := hb.1 h
    omega
  have bo : IS_BOOL v = true → IS_OBJ v = false := by
    intro h
    rw [← Bool.not_eq_true, ho]
    have := hb.1 h
    omega
  have hon : IS_OBJ v = true → IS_NUMBER v = false := isNumber_of_isObj v
  have flip : ∀ {x y : Bool}, (x = true → y = false) → y = true → x = false := by
    intro x y h hy
    cases x
    · rfl
    · rw [h rfl] at hy
      exact Bool.noConfusion hy
  exact ⟨fun h => ⟨nb h, nn h, no h⟩, fun h => ⟨flip nb h, bn h, bo h⟩,
    fun h => ⟨flip nn h, flip bn h, flip hon h⟩, fun h => ⟨flip no h, flip bo h, hon h⟩⟩

/-- C37: on every word at most one of `IS_NIL`, `IS_BOOL`, `IS_NUMBER` and
`IS_OBJ` holds; `NIL_VAL` satisfies `IS_NIL` and none of the others,
`BOOL_VAL(b)` satisfies `IS_BOOL` and none of the others, and `OBJ_VAL(q)`
satisfies `IS_OBJ` and none of the others, for every pointer `q`;
`AS_BOOL(BOOL_VAL(b))` is `b`; and `AS_OBJ(OBJ_VAL(p))` is `p` for a pointer
`p` below `2 ^ 50`. -/
theorem nan_boxed_kinds_disjoint (v : Nat) (b : Bool) (q p : Nat) (hp : p < 2 ^ 50) :
    ((IS_NIL v = true → IS_BOOL v = false ∧ IS_NUMBER v = false ∧ IS_OBJ v = false) ∧
     (IS_BOOL v = true → IS_NIL v = false ∧ IS_NUMBER v = false ∧ IS_OBJ v = false) ∧
     (IS_NUMBER v = true → IS_NIL v = false ∧ IS_BOOL v = false ∧ IS_OBJ v = false) ∧
     (IS_OBJ v = true → IS_NIL v = false ∧ IS_BOOL v = false ∧ IS_NUMBER v = false)) ∧
    (IS_NIL NIL_VAL = true ∧ IS_BOOL NIL_VAL = false ∧ IS_NUMBER NIL_VAL = false ∧
      IS_OBJ NIL_VAL = false) ∧
    (IS_BOOL (BOOL_VAL b) = true ∧ IS_NIL (BOOL_VAL b) = false ∧
      IS_NUMBER (BOOL_VAL b) = false ∧ IS_OBJ (BOOL_VAL b) = false) ∧
    (IS_OBJ (OBJ_VAL q) = true ∧ IS_NIL (OBJ_VAL q) = false ∧
      IS_BOOL (OBJ_VAL q) = false ∧ IS_NUMBER (OBJ_VAL q) = false) ∧
    AS_BOOL (BOOL_VAL b) = b ∧ AS_OBJ (OBJ_VAL p) = p := by
  refine ⟨kinds_exclusive v, by decide, ?_, ?_, ?_, ?_⟩
  · cases b <;> decide
  · exact ⟨isObj_OBJ_VAL q, (kinds_exclusive (OBJ_VAL q)).2.2.2 (isObj_OBJ_VAL q)⟩
  · cases b <;> decide
  · rw [AS_OBJ_eq, OBJ_VAL_eq p hp]
    omega

/-- C37, witness: the word `OBJ_VAL(1)` and the pointer `2 ^ 50 - 1`, the
greatest that fits. -/
theorem nan_boxed_kinds_disjoint_witness :
    IS_OBJ (OBJ_VAL 1) = true ∧ IS_NUMBER (OBJ_VAL 1) = false ∧
      AS_OBJ (OBJ_VAL (2 ^ 50 - 1)) = 2 ^ 50 - 1 :=
  have t := nan_boxed_kinds_disjoint (OBJ_VAL 1) true 1 (2 ^ 50 - 1) (by norm_num)
  ⟨t.2.2.2.1.1, t.2.2.2.1.2.2.2, t.2.2.2.2.2⟩

/-! ## C38: `break` and the height of the stack -/

/-- C38, at the failing input `while (true) { break; }`.  The jump of the
`break` is patched to the offset 11, where the `OP_POP` stands that removes
the condition when the loop ends by its test; the `break` is reached after
the condition has been popped at offset 4, so that `OP_POP` removes the slot
below the loop.  The stack holds 1 value (the closure of the script) before
the loop at offset 0 and none at offset 12, the first instruction after the
loop; the `pop()` of the closing `OP_RETURN` then finds the stack empty and
the run has no result.  A loop left by its test, `while (false) { }`, has
the height 1 before and after. -/
theorem break_pops_slot_below_loop :
    bootAndCompile quietHost 100 "while (true) \x7b break; \x7d" =
      some ([OP_TRUE, OP_JUMP_IF_FALSE, 0, 7, OP_POP, OP_JUMP, 0, 3, OP_LOOP, 0, 11, OP_POP,
             OP_NIL, OP_RETURN], false) ∧
    runTrace quietHost 100 "while (true) \x7b break; \x7d" =
      some [(0, 1), (1, 2), (4, 2), (5, 1), (11, 1), (12, 0), (13, 1)] ∧
    (bootAndInterpret quietHost 100 "while (true) \x7b break; \x7d").isNone = true ∧
    bootAndCompile quietHost 100 "while (false) \x7b \x7d" =
      some ([OP_FALSE, OP_JUMP_IF_FALSE, 0, 4, OP_POP, OP_LOOP, 0, 8, OP_POP,
             OP_NIL, OP_RETURN], false) ∧
    runTrace quietHost 100 "while (false) \x7b \x7d" =
      some [(0, 1), (1, 2), (8, 2), (9, 1), (10, 2)] ∧
    runReport quietHost 100 "while (false) \x7b \x7d" = some (INTERPRET_OK, [], [], 0) := by
  refine ⟨?_, ?_, ?_, ?_, ?_, ?_⟩ <;> decide!

/-! ## C39: the cells of `rle` that `addLine` touches -/

/-- C39, at a failing input: from `initChunk`, bytes on the lines 1, 2, 3
and 4.  The array `rle` then has 8 cells and `rleIndex` is 6, which is
`rleCapacity - 2`; the growth test `rleIndex + 2 > rleCapacity` of the next
call fails, and a byte on line 5 starts a new run: `addLine` reads the cells
6 and 7 and writes the cells 8 and 9 of the 8-cell array, so `writeChunk` has
no defined result.  A byte on line 4 touches the cells 6 and 7 only. -/
theorem addLine_writes_past_rle :
    fourRuns.map (fun c => [c.rleIndex, c.rleCapacity, c.rle.length]) = some [6, 8, 8] ∧
    fourRuns.map (fun c => addLineCells quietHost c 5) = some (8, [6, 7, 8, 9]) ∧
    fourRuns.map (fun c => (writeChunk quietHost c OP_NIL 5).isNone) = some true ∧
    fourRuns.map (fun c => addLineCells quietHost c 4) = some (8, [6, 7, 6, 6]) ∧
    fourRuns.map (fun c => (writeChunk quietHost c OP_NIL 4).isSome) = some true ∧
    addLineCells quietHost initChunk 1 = (8, [0, 0, 1]) ∧
    (writeChunk quietHost initChunk OP_NIL 1).isSome = true := by
  refine ⟨?_, ?_, ?_, ?_, ?_, ?_, ?_⟩ <;> decide!

/-! ## C34: `resolveLocal` -/

theorem identifiersEqual_iff (a b : Token) :
    identifiersEqual a b = true ↔ a.length = b.length ∧ a.lexeme = b.lexeme := by
  unfold identifiersEqual Token.lexeme
  by_cases h : a.length = b.length
  · rw [if_neg (by simpa using h), beq_iff_eq]
    constructor
    · intro e
      refine ⟨h, ?_⟩
      rw [e, h]
    · intro e
      have := e.2
      rw [← h] at this
      exact this
  · rw [if_pos (by simpa using h)]
    exact ⟨fun e => Bool.noConfusion e, fun e => absurd e.1 h⟩

theorem resolveLocalLoop_snoc (name : Token) (init : List Local) (x : Local) (st : State) :
    resolveLocalLoop name
        ((List.range (init ++ [x]).length).zip (init ++ [x])).reverse st =
      if identifiersEqual name x.name then
        ((init.length : Int),
          if x.depth == -1 then
            errorAtPrevious st (cstr "Can't read local variable in its own initializer.")
          else st)
      else resolveLocalLoop name ((List.range init.length).zip init).reverse st := by
  rw [List.length_append, List.length_singleton, List.range_succ,
    List.zip_append (by rw [List.length_range]), List.reverse_append]
  rfl

theorem resolveLocalLoop_spec (name : Token) (st : State) :
    ∀ (locals : List Local),
      (∀ i l, locals.get? i = some l → identifiersEqual name l.name = true →
        (∀ j l2, i < j → locals.get? j = some l2 → identifiersEqual name l2.name = false) →
        resolveLocalLoop name ((List.range locals.length).zip locals).reverse st =
          ((i : Int),
            if l.depth == -1 then
              errorAtPrevious st (cstr "Can't read local variable in its own initializer.")
            else st)) ∧
      ((∀ l, l ∈ locals → identifiersEqual name l.name = false) →
        resolveLocalLoop name ((List.range locals.length).zip locals).reverse st = (-1, st)) := by
  intro locals
  induction locals using List.reverseRecOn with
  | nil =>
    constructor
    · intro i l hl
      exact Option.noConfusion hl
    · intro _
      rfl
  | append_singleton init x ih =>
    rw [resolveLocalLoop_snoc]
    constructor
    · intro i l hl he hlater
      have hi : i < (init ++ [x]).length := by
        rw [List.get?_eq_getElem?] at hl
        exact (List.getElem?_eq_some_iff.mp hl).1
      rw [List.length_append, List.length_singleton] at hi
      by_cases hlast : i = init.length
      · subst hlast
        have hx : l = x := by
          rw [List.get?_eq_getElem?, List.getElem?_append_right (Nat.le_refl _)] at hl
          simpa using hl.symm
        subst hx
        rw [if_pos he]
      · have hlt : i < init.length := by omega
        have hxne : identifiersEqual name x.name = false :=
          hlater init.length x hlt (by
            rw [List.get?_eq_getElem?, List.getElem?_append_right (Nat.le_refl _)]
            simp)
        rw [if_neg (by rw [hxne]; exact Bool.false_ne_true)]
        have hl2 : init.get? i = some l := by
          rw [List.get?_eq_getElem?, List.getElem?_append_left hlt] at hl
          rw [List.get?_eq_getElem?]
          exact hl
        refine ih.1 i l hl2 he ?_
        intro j l2 hij hj
        refine hlater j l2 hij ?_
        have hjlt : j < init.length := by
          rw [List.get?_eq_getElem?] at hj
          exact (List.getElem?_eq_some_iff.mp hj).1
        rw [List.get?_eq_getElem?, List.getElem?_append_left hjlt, ← List.get?_eq_getElem?]
        exact hj
    · intro hall
      have hx := hall x (List.mem_append_right _ (List.mem_singleton_self _))
      rw [if_neg (by rw [hx]; exact Bool.false_ne_true)]
      exact ih.2 (fun l hl => hall l (List.mem_append_left _ hl))

/-- C34: `resolveLocal(compiler, name)`.  If the local at index `i` has the
name `name` (same length and same bytes) and no local above it has, the call
returns `i`; the state is then that left by the error "Can't read local
variable in its own initializer." if the depth of that local is -1, and is
unchanged if not.  If no local has the name, the call returns -1 and changes
nothing.  The error appends its message to the diagnostics and sets
`hadError`, unless the parser is in panic mode, where an error leaves the
state as it is. -/
theorem resolveLocal_innermost (st : State) (compiler : Compiler) (name : Token) :
    (∀ i l, compiler.locals.get? i = some l → identifiersEqual name l.name = true →
      (∀ j l2, i < j → compiler.locals.get? j = some l2 →
        identifiersEqual name l2.name = false) →
      i < compiler.localCount ∧
      resolveLocal st compiler name =
        ((i : Int),
          if l.depth == -1 then
            errorAtPrevious st (cstr "Can't read local variable in its own initializer.")
          else st)) ∧
    ((∀ l, l ∈ compiler.locals → identifiersEqual name l.name = false) →
      resolveLocal st compiler name = (-1, st)) ∧
    (∀ a b, identifiersEqual a b = true ↔ a.length = b.length ∧ a.lexeme = b.lexeme) ∧
    (st.parser.panicMode = false →
      (errorAtPrevious st (cstr "Can't read local variable in its own initializer.")).diagnostics.map
          (fun d => d.message) =
        st.diagnostics.map (fun d => d.message) ++
          [cstr "Can't read local variable in its own initializer."] ∧
      (errorAtPrevious st
        (cstr "Can't read local variable in its own initializer.")).parser.hadError = true) ∧
    (st.parser.panicMode = true →
      errorAtPrevious st (cstr "Can't read local variable in its own initializer.") = st) := by
  have hspec := resolveLocalLoop_spec name st compiler.locals
  refine ⟨?_, hspec.2, identifiersEqual_iff, ?_, ?_⟩
  · intro i l hl he hlater
    refine ⟨?_, hspec.1 i l hl he hlater⟩
    rw [List.get?_eq_getElem?] at hl
    exact (List.getElem?_eq_some_iff.mp hl).1
  · intro hp
    unfold errorAtPrevious errorAt
    rw [if_neg (by rw [hp]; exact Bool.false_ne_true)]
    simp
  · intro hp
    unfold errorAtPrevious errorAt
    rw [if_pos hp]

/-- C34, witness: the locals `a`, `b`, `a`, the last one not yet initialised;
the name `a` resolves to the index 2 with the error, the name `b` to the
index 1 without, and the name `c` to -1. -/
theorem resolveLocal_innermost_witness :
    (resolveLocal (compileStart blankVM []) shadowCompiler (syntheticToken "a")).1 = 2 ∧
    ((resolveLocal (compileStart blankVM []) shadowCompiler (syntheticToken "a")).2.diagnostics.map
      (fun d => d.message)) = [cstr "Can't read local variable in its own initializer."] ∧
    resolveLocal (compileStart blankVM []) shadowCompiler (syntheticToken "b") =
      (1, compileStart blankVM []) ∧
    resolveLocal (compileStart blankVM []) shadowCompiler (syntheticToken "c") =
      (-1, compileStart blankVM []) := by
  have ta := resolveLocal_innermost (compileStart blankVM []) shadowCompiler (syntheticToken "a")
  have tb := resolveLocal_innermost (compileStart blankVM []) shadowCompiler (syntheticToken "b")
  have tc := resolveLocal_innermost (compileStart blankVM []) shadowCompiler (syntheticToken "c")
  have ha := (ta.1 2 { name := syntheticToken "a", depth := -1, isCaptured := false } rfl
    (by decide) (by
      intro j l2 hj hl
      have : j < 3 := by
        rw [List.get?_eq_getElem?] at hl
        exact (List.getElem?_eq_some_iff.mp hl).1
      omega)).2
  have hb := (tb.1 1 { name := syntheticToken "b", depth := 1, isCaptured := false } rfl
    (by decide) (by
      intro j l2 hj hl
      have hj3 : j < 3 := by
        rw [List.get?_eq_getElem?] at hl
        exact (List.getElem?_eq_some_iff.mp hl).1
      have hj2 : j = 2 := by omega
      subst hj2
      have : l2 = { name := syntheticToken "a", depth := -1, isCaptured := false } :=
        (Option.some.inj hl).symm
      rw [this]
      decide)).2
  have hc := tc.2.1 (by
    intro l hl
    simp only [shadowCompiler, List.mem_cons, List.mem_singleton, List.not_mem_nil,
      or_false] at hl
    rcases hl with h | h | h <;> rw [h] <;> decide)
  have hd := (ta.2.2.2.1 rfl).1
  refine ⟨?_, ?_, hb, hc⟩
  · rw [ha]
    rfl
  · rw [ha]
    exact hd

/-! ## C35: `addUpvalue` -/

theorem upvalue_test (u : Upvalue) (index : Nat) (isLocal : Bool) :
    (u.index == index && u.isLocal == isLocal) = true ↔ u = { index := index, isLocal := isLocal } := by
  cases u with
  | mk i b =>
    simp only [Bool.and_eq_true, beq_iff_eq, Upvalue.mk.injEq]

theorem findUpvalue_none (index : Nat) (isLocal : Bool) :
    ∀ (l : List Upvalue) (s : Nat), { index := index, isLocal := isLocal } ∉ l →
      findUpvalue index isLocal l s = none := by
  intro l
  induction l with
  | nil => intro s _; rfl
  | cons u rest ih =>
    intro s hn
    unfold findUpvalue
    rw [if_neg (fun h => hn (by rw [← (upvalue_test u index isLocal).1 h]; exact List.mem_cons_self _ _))]
    exact ih (s + 1) (fun h => hn (List.mem_cons_of_mem _ h))

theorem findUpvalue_some (index : Nat) (isLocal : Bool) :
    ∀ (l : List Upvalue) (s : Nat), { index := index, isLocal := isLocal } ∈ l →
      ∃ j, findUpvalue index isLocal l s = some (s + j) ∧
        l.get? j = some { index := index, isLocal := isLocal } ∧
        ∀ j2, j2 < j → l.get? j2 ≠ some { index := index, isLocal := isLocal } := by
  intro l
  induction l with
  | nil => intro s h; exact absurd h (List.not_mem_nil _)
  | cons u rest ih =>
    intro s hm
    unfold findUpvalue
    by_cases hu : (u.index == index && u.isLocal == isLocal) = true
    · rw [if_pos hu]
      refine ⟨0, rfl, ?_, fun j2 h => absurd h (Nat.not_lt_zero _)⟩
      rw [(upvalue_test u index isLocal).1 hu]
      rfl
    · rw [if_neg hu]
      have hne : u ≠ { index := index, isLocal := isLocal } :=
        fun h => hu ((upvalue_test u index isLocal).2 h)
      rcases List.mem_cons.mp hm with h | h
      · exact absurd h.symm hne
      · obtain ⟨j, hf, hg, hfirst⟩ := ih (s + 1) h
        refine ⟨j + 1, ?_, hg, ?_⟩
        · rw [hf, Nat.add_assoc, Nat.add_comm 1 j]
        · intro j2 hj2
          cases j2 with
          | zero =>
            intro h0
            exact hne (Option.some.inj h0)
          | succ j3 => exact hfirst j3 (by omega)

theorem findUpvalue_snoc (index : Nat) (isLocal : Bool) :
    ∀ (l : List Upvalue) (s : Nat), { index := index, isLocal := isLocal } ∉ l →
      findUpvalue index isLocal (l ++ [{ index := index, isLocal := isLocal }]) s =
        some (s + l.length) := by
  intro l
  induction l with
  | nil =>
    intro s _
    rw [List.nil_append]
    unfold findUpvalue
    rw [if_pos ((upvalue_test _ index isLocal).2 rfl)]
    rfl
  | cons u rest ih =>
    intro s hn
    rw [List.cons_append]
    unfold findUpvalue
    rw [if_neg (fun h => hn (by rw [← (upvalue_test u index isLocal).1 h]; exact List.mem_cons_self _ _)),
      ih (s + 1) (fun h => hn (List.mem_cons_of_mem _ h)), List.length_cons]
    congr 1
    omega

theorem upvalueCountOf_deref (vm : VM) (function n : Nat)
    (h : vm.upvalueCountOf function = some n) :
    ∃ isMarked nxt arity chunk name,
      vm.deref function = some { isMarked := isMarked, next := nxt,
                                 body := .function arity chunk name n } := by
  unfold VM.upvalueCountOf at h
  split at h
  · rename_i isMarked nxt arity chunk name m hd
    rw [← Option.some.inj h]
    exact ⟨isMarked, nxt, arity, chunk, name, hd⟩
  · exact Option.noConfusion h

theorem upvalueEntries_eq (st : State) (k : Nat) (c : Compiler) (n : Nat)
    (hc : st.current.get? k = some c) (hn : st.vm.upvalueCountOf c.function = some n) :
    upvalueEntries st k = some (n, c.upvalues.take n) := by
  unfold upvalueEntries
  rw [hc, Option.some_bind, hn]
  rfl

theorem upvalueEntries_inv (st : State) (k n : Nat) (es : List Upvalue)
    (h : upvalueEntries st k = some (n, es)) :
    ∃ c, st.current.get? k = some c ∧ st.vm.upvalueCountOf c.function = some n ∧
      es = c.upvalues.take n := by
  unfold upvalueEntries at h
  simp only [Option.bind_eq_some, Option.map_eq_some', Prod.mk.injEq] at h
  obtain ⟨c, hc, m, hm, hmn, hes⟩ := h
  subst hmn
  exact ⟨c, hc, hm, hes.symm⟩

/-- The three outcomes of `addUpvalue` on the compiler at depth `k`, whose
function has `n` upvalues with the entries `es`. -/
theorem addUpvalue_cases (st : State) (k n index : Nat) (isLocal : Bool) (es : List Upvalue)
    (he : upvalueEntries st k = some (n, es)) :
    ({ index := index, isLocal := isLocal } ∈ es →
      ∃ i : Nat, addUpvalue st k index isLocal = some ((i : Int), st) ∧ i < n ∧
        es.get? i = some { index := index, isLocal := isLocal } ∧
        ∀ j, j < i → es.get? j ≠ some { index := index, isLocal := isLocal }) ∧
    ({ index := index, isLocal := isLocal } ∉ es → n ≠ UINT8_COUNT →
      ∃ st', addUpvalue st k index isLocal = some ((n : Int), st') ∧
        upvalueEntries st' k = some (n + 1, es ++ [{ index := index, isLocal := isLocal }]) ∧
        st'.parser = st.parser ∧ st'.diagnostics = st.diagnostics ∧
        st'.current.map (fun c => c.function) = st.current.map (fun c => c.function) ∧
        st'.current.map (fun c => c.locals) = st.current.map (fun c => c.locals) ∧
        (∀ j, j ≠ k → st'.current.get? j = st.current.get? j) ∧
        (∀ c, st.current.get? k = some c → ∀ p, p ≠ c.function →
          st'.vm.deref p = st.vm.deref p)) ∧
    ({ index := index, isLocal := isLocal } ∉ es → n = UINT8_COUNT →
      addUpvalue st k index isLocal =
        some (0, errorAtPrevious st (cstr "Too many closure variables in function."))) := by
  obtain ⟨c, hc, hn, hes⟩ := upvalueEntries_inv st k n es he
  obtain ⟨isMarked, nxt, arity, chunk, name, hd⟩ := upvalueCountOf_deref _ _ _ hn
  have hlen : es.length ≤ n := by rw [hes, List.length_take]; omega
  refine ⟨?_, ?_, ?_⟩
  · intro hm
    obtain ⟨j, hf, hg, hfirst⟩ := findUpvalue_some index isLocal es 0 hm
    refine ⟨j, ?_, ?_, hg, hfirst⟩
    · unfold addUpvalue
      simp only [Option.bind_eq_bind, hc, Option.some_bind, hn, ← hes, hf, Nat.zero_add,
        Option.pure_def]
    · have : j < es.length := by
        rw [List.get?_eq_getElem?] at hg
        exact (List.getElem?_eq_some_iff.mp hg).1
      omega
  · intro hm hcount
    have hf := findUpvalue_none index isLocal es 0 hm
    have hk : k < st.current.length := by
      rw [List.get?_eq_getElem?] at hc
      exact (List.getElem?_eq_some_iff.mp hc).1
    refine ⟨{ st with
        current := st.current.set k
          { c with upvalues := c.upvalues.take n ++ [{ index := index, isLocal := isLocal }] },
        vm := st.vm.store c.function (.function arity chunk name (n + 1)) }, ?_, ?_, rfl, rfl, ?_, ?_,
        ?_, ?_⟩
    · unfold addUpvalue
      simp only [Option.bind_eq_bind, hc, Option.some_bind, hn, ← hes, hf, Option.pure_def]
      rw [if_neg (by simpa using hcount)]
      rw [hd]
    · unfold upvalueEntries
      dsimp only
      rw [List.get?_eq_getElem?, List.getElem?_set_self hk, Option.some_bind]
      dsimp only
      have hd2 := VM.deref_store_self st.vm c.function (.function arity chunk name (n + 1)) _ hd
      have hcnt : (st.vm.store c.function (.function arity chunk name (n + 1))).upvalueCountOf
          c.function = some (n + 1) := by
        unfold VM.upvalueCountOf
        rw [hd2]
      rw [hcnt]
      simp only [Option.map_some', Option.some.injEq, Prod.mk.injEq, true_and]
      rw [← hes]
      rw [List.take_of_length_le (by rw [List.length_append, List.length_singleton]; omega)]
    · dsimp only
      rw [List.map_set]
      apply List.ext_get?
      intro i
      by_cases hik : i = k
      · subst hik
        rw [List.get?_eq_getElem?, List.getElem?_set_self (by rw [List.length_map]; exact hk),
          List.get?_eq_getElem?, List.getElem?_map, ← List.get?_eq_getElem?, hc]
        rfl
      · rw [List.get?_eq_getElem?, List.getElem?_set_ne (fun h => hik h.symm),
          List.get?_eq_getElem?]
    · dsimp only
      rw [List.map_set]
      apply List.ext_get?
      intro i
      by_cases hik : i = k
      · subst hik
        rw [List.get?_eq_getElem?, List.getElem?_set_self (by rw [List.length_map]; exact hk),
          List.get?_eq_getElem?, List.getElem?_map, ← List.get?_eq_getElem?, hc]
        rfl
      · rw [List.get?_eq_getElem?, List.getElem?_set_ne (fun h => hik h.symm),
          List.get?_eq_getElem?]
    · intro j hj
      dsimp only
      rw [List.get?_eq_getElem?, List.getElem?_set_ne (fun h => hj h.symm),
        List.get?_eq_getElem?]
    · intro c2 hc2 p hp
      rw [hc] at hc2
      rw [← Option.some.inj hc2] at hp
      exact VM.deref_store_ne st.vm c.function p _ hp
  · intro hm hcount
    have hf := findUpvalue_none index isLocal es 0 hm
    unfold addUpvalue
    simp only [Option.bind_eq_bind, hc, Option.some_bind, hn, ← hes, hf, Option.pure_def]
    rw [if_pos (by simpa using hcount)]

theorem errorAt_vm (st : State) (token : Token) (message : List Nat) :
    (errorAt st token message).vm = st.vm ∧ (errorAt st token message).current = st.current := by
  unfold errorAt
  split <;> exact ⟨rfl, rfl⟩

theorem quiet_refl (t : State) : Quiet t t := ⟨rfl, rfl⟩

theorem quiet_trans {a b c : State} (h1 : Quiet a b) (h2 : Quiet b c) : Quiet a c :=
  ⟨h2.1.trans h1.1, h2.2.trans h1.2⟩

theorem quiet_errorAtPrevious (t : State) (message : List Nat) :
    Quiet t (errorAtPrevious t message) :=
  ⟨(errorAt_vm t _ message).1, by rw [errorAtPrevious, (errorAt_vm t _ message).2]⟩

theorem quiet_get (t t2 : State) (h : Quiet t t2) (j : Nat) :
    (t2.current.get? j).map compilerShape = (t.current.get? j).map compilerShape := by
  have := congrArg (fun l => l.get? j) h.2
  simpa [List.get?_eq_getElem?, List.getElem?_map] using this

theorem quiet_length (t t2 : State) (h : Quiet t t2) : t2.current.length = t.current.length := by
  have := congrArg List.length h.2
  simpa using this

theorem quiet_names (t t2 : State) (h : Quiet t t2) (j : Nat) :
    localNames t2 j = localNames t j := by
  have hg := quiet_get t t2 h j
  unfold localNames
  cases h1 : t2.current.get? j <;> cases h2 : t.current.get? j <;> rw [h1, h2] at hg
  · exact Option.noConfusion hg
  · exact Option.noConfusion hg
  · have := Option.some.inj hg
    unfold compilerShape at this
    simp only [Prod.mk.injEq] at this
    simp only [Option.map_some', this.2.2]

theorem quiet_entries (t t2 : State) (h : Quiet t t2) (j : Nat) :
    upvalueEntries t2 j = upvalueEntries t j := by
  have hg := quiet_get t t2 h j
  unfold upvalueEntries
  rw [h.1]
  cases h1 : t2.current.get? j <;> cases h2 : t.current.get? j <;> rw [h1, h2] at hg
  · exact Option.noConfusion hg
  · exact Option.noConfusion hg
  · have := Option.some.inj hg
    unfold compilerShape at this
    simp only [Prod.mk.injEq] at this
    simp only [Option.some_bind, this.1, this.2.1]

theorem quiet_agree (k : Nat) (t t2 : State) (h : Quiet t t2) : Agree k t t2 :=
  ⟨(quiet_length t t2 h).symm, fun j _ => ⟨(quiet_names t t2 h j).symm, (quiet_entries t t2 h j).symm⟩⟩

theorem agree_trans {k : Nat} {a b c : State} (h1 : Agree k a b) (h2 : Agree k b c) :
    Agree k a c :=
  ⟨h1.1.trans h2.1, fun j hj => ⟨((h1.2 j hj).1).trans (h2.2 j hj).1,
    ((h1.2 j hj).2).trans (h2.2 j hj).2⟩⟩

theorem agree_mono {k k2 : Nat} {a b : State} (h : Agree k a b) (hk : k ≤ k2) : Agree k2 a b :=
  ⟨h.1, fun j hj => h.2 j (Nat.le_trans hk hj)⟩

/-- Marking a local as captured changes nothing that `resolveUpvalue`
reads. -/
theorem quiet_capture (t : State) (j loc : Nat) (c : Compiler) (l : Local)
    (hc : t.current.get? j = some c) (hl : c.locals.get? loc = some l) :
    Quiet t { t with current := t.current.set j { c with locals := c.locals.set loc { l with isCaptured := true } } } := by
  refine ⟨rfl, ?_⟩
  dsimp only
  rw [List.map_set]
  apply List.ext_get?
  intro i
  by_cases hij : i = j
  · subst hij
    have hlt : i < t.current.length := by
      rw [List.get?_eq_getElem?] at hc
      exact (List.getElem?_eq_some_iff.mp hc).1
    rw [List.get?_eq_getElem?, List.getElem?_set_self (by rw [List.length_map]; exact hlt),
      List.get?_eq_getElem?, List.getElem?_map, ← List.get?_eq_getElem?, hc]
    unfold compilerShape
    simp only [Option.map_some', Option.some.injEq, Prod.mk.injEq, true_and]
    apply List.ext_get?
    intro m
    rw [List.get?_eq_getElem?, List.get?_eq_getElem?, List.getElem?_map, List.getElem?_map]
    by_cases hm : m = loc
    · subst hm
      by_cases hlen : m < c.locals.length
      · rw [List.getElem?_set_self hlen, ← List.get?_eq_getElem?, hl]
        rfl
      · rw [List.getElem?_eq_none (by rw [List.length_set]; omega),
          List.getElem?_eq_none (by omega)]
    · rw [List.getElem?_set_ne (fun h => hm h.symm)]
  · rw [List.get?_eq_getElem?, List.getElem?_set_ne (fun h => hij h.symm),
      List.get?_eq_getElem?]

theorem resolveLocalLoop_state (name : Token) (st : State) :
    ∀ (locals : List Local),
      ((resolveLocalLoop name ((List.range locals.length).zip locals).reverse st).2 = st ∨
        (resolveLocalLoop name ((List.range locals.length).zip locals).reverse st).2 =
          errorAtPrevious st (cstr "Can't read local variable in its own initializer.")) ∧
      ((resolveLocalLoop name ((List.range locals.length).zip locals).reverse st).1 = -1 →
        (resolveLocalLoop name ((List.range locals.length).zip locals).reverse st).2 = st) ∧
      ((resolveLocalLoop name ((List.range locals.length).zip locals).reverse st).1 ≠ -1 →
        (resolveLocalLoop name ((List.range locals.length).zip locals).reverse st).1.toNat <
          locals.length) := by
  intro locals
  induction locals using List.reverseRecOn with
  | nil => exact ⟨Or.inl rfl, fun _ => rfl, fun h => absurd rfl h⟩
  | append_singleton init x ih =>
    rw [resolveLocalLoop_snoc]
    by_cases he : identifiersEqual name x.name = true
    · rw [if_pos he]
      refine ⟨?_, ?_, ?_⟩
      · dsimp only
        split
        · exact Or.inr rfl
        · exact Or.inl rfl
      · intro h
        dsimp only at h
        omega
      · intro _
        dsimp only
        rw [List.length_append, List.length_singleton, Int.toNat_ofNat]
        omega
    · rw [if_neg he]
      refine ⟨ih.1, ih.2.1, fun h => ?_⟩
      have := ih.2.2 h
      rw [List.length_append, List.length_singleton]
      omega

theorem resolveLocalLoop_congr (name : Token) (st st2 : State) :
    ∀ (locals locals2 : List Local),
      locals.map (fun l => l.name) = locals2.map (fun l => l.name) →
      (resolveLocalLoop name ((List.range locals.length).zip locals).reverse st).1 =
        (resolveLocalLoop name ((List.range locals2.length).zip locals2).reverse st2).1 := by
  intro locals
  induction locals using List.reverseRecOn with
  | nil =>
    intro locals2 h
    have : locals2 = [] := by
      cases locals2 with
      | nil => rfl
      | cons a b => exact List.noConfusion h
    rw [this]
    rfl
  | append_singleton init x ih =>
    intro locals2 h
    rw [List.map_append, List.map_singleton] at h
    obtain ⟨init2, last2, h2, hinit, hlast⟩ := List.map_eq_append_iff.mp h.symm
    obtain ⟨x2, rest2, hx2, hname, hrest⟩ := List.map_eq_cons_iff.mp hlast
    have hnil : rest2 = [] := by
      cases rest2 with
      | nil => rfl
      | cons a b => exact List.noConfusion hrest
    subst hnil
    subst h2
    subst hx2
    have hlen : init2.length = init.length := by
      have := congrArg List.length hinit
      simpa using this
    rw [resolveLocalLoop_snoc, resolveLocalLoop_snoc, hname, hlen]
    by_cases he : identifiersEqual name x.name = true
    · rw [if_pos he, if_pos he]
    · rw [if_neg he, if_neg he, ← hlen]
      have := ih init2 hinit.symm
      rw [← hlen] at this
      exact this

/-- What `resolveLocal` leaves: the state is the one it was given, or that
after its error; the index is -1, with the state unchanged, or the index of
a local. -/
theorem resolveLocal_state (st : State) (c : Compiler) (name : Token) :
    Quiet st (resolveLocal st c name).2 ∧
    ((resolveLocal st c name).1 = -1 → (resolveLocal st c name).2 = st) ∧
    ((resolveLocal st c name).1 ≠ -1 →
      ∃ l, c.locals.get? (resolveLocal st c name).1.toNat = some l) := by
  have h := resolveLocalLoop_state name st c.locals
  refine ⟨?_, h.2.1, ?_⟩
  · unfold resolveLocal Compiler.localCount
    rcases h.1 with h1 | h1
    · rw [h1]
      exact quiet_refl st
    · rw [h1]
      exact quiet_errorAtPrevious st _
  · intro hne
    have hlt := h.2.2 hne
    exact ⟨c.locals.get ⟨_, hlt⟩, List.get?_eq_get hlt⟩

theorem resolveLocal_congr (st st2 : State) (c c2 : Compiler) (name : Token)
    (h : c.locals.map (fun l => l.name) = c2.locals.map (fun l => l.name)) :
    (resolveLocal st c name).1 = (resolveLocal st2 c2 name).1 :=
  resolveLocalLoop_congr name st st2 c.locals c2.locals h

/-- A second call of `addUpvalue` with the same index and flag returns
what the first returned, on every state whose compiler at depth `k` has the
entries that the first call left; it adds no entry. -/
theorem addUpvalue_again (s : State) (k index : Nat) (isLocal : Bool) (i : Int) (s2 : State)
    (n : Nat) (es : List Upvalue) (he : upvalueEntries s k = some (n, es))
    (hlen : es.length = n) (ha : addUpvalue s k index isLocal = some (i, s2)) :
    ∀ t, upvalueEntries t k = upvalueEntries s2 k →
      ∃ t2, addUpvalue t k index isLocal = some (i, t2) ∧ Quiet t t2 := by
  intro t ht
  obtain ⟨hfound, hnew, hfull⟩ := addUpvalue_cases s k n index isLocal es he
  by_cases hm : { index := index, isLocal := isLocal } ∈ es
  · obtain ⟨j, hj, _, hg, hfirst⟩ := hfound hm
    rw [hj] at ha
    simp only [Option.some.injEq, Prod.mk.injEq] at ha
    rw [← ha.2, he] at ht
    obtain ⟨j2, hj2, _, hg2, hfirst2⟩ := (addUpvalue_cases t k n index isLocal es ht).1 hm
    have : j2 = j := by
      rcases Nat.lt_trichotomy j2 j with h | h | h
      · exact absurd hg2 (hfirst j2 h)
      · exact h
      · exact absurd hg (hfirst2 j h)
    rw [this, ha.1] at hj2
    exact ⟨t, hj2, quiet_refl t⟩
  · by_cases hc : n = UINT8_COUNT
    · have h0 := hfull hm hc
      rw [h0] at ha
      simp only [Option.some.injEq, Prod.mk.injEq] at ha
      rw [← ha.2, quiet_entries s _ (quiet_errorAtPrevious s _) k, he] at ht
      have h1 := (addUpvalue_cases t k n index isLocal es ht).2.2 hm hc
      rw [ha.1] at h1
      exact ⟨_, h1, quiet_errorAtPrevious t _⟩
    · obtain ⟨s3, h0, hent, _⟩ := hnew hm hc
      rw [h0] at ha
      simp only [Option.some.injEq, Prod.mk.injEq] at ha
      rw [← ha.2, hent] at ht
      obtain ⟨j2, hj2, _, hg2, hfirst2⟩ :=
        (addUpvalue_cases t k (n + 1) index isLocal _ ht).1
          (List.mem_append_right _ (List.mem_singleton_self _))
      have : j2 = n := by
        rcases Nat.lt_trichotomy j2 es.length with h | h | h
        · rw [List.get?_eq_getElem?, List.getElem?_append_left h] at hg2
          exact absurd (List.getElem?_mem hg2) hm
        · rw [h, hlen]
        · have hlt : j2 < (es ++ [({ index := index, isLocal := isLocal } : Upvalue)]).length := by
            rw [List.get?_eq_getElem?] at hg2
            exact (List.getElem?_eq_some_iff.mp hg2).1
          rw [List.length_append, List.length_singleton] at hlt
          omega
      rw [this, ha.1] at hj2
      exact ⟨t, hj2, quiet_refl t⟩

theorem functions_distinct (st : State) (j k : Nat) (cj ck : Compiler)
    (hn : (st.current.map (fun c => c.function)).Nodup)
    (hj : st.current.get? j = some cj) (hk : st.current.get? k = some ck) (hjk : j ≠ k) :
    cj.function ≠ ck.function := by
  intro heq
  have hjl : j < st.current.length := by
    rw [List.get?_eq_getElem?] at hj
    exact (List.getElem?_eq_some_iff.mp hj).1
  have hkl : k < st.current.length := by
    rw [List.get?_eq_getElem?] at hk
    exact (List.getElem?_eq_some_iff.mp hk).1
  have h1 : (st.current.map (fun c => c.function)).get? j = some cj.function := by
    rw [List.get?_eq_getElem?, List.getElem?_map, ← List.get?_eq_getElem?, hj]
    rfl
  have h2 : (st.current.map (fun c => c.function)).get? k = some ck.function := by
    rw [List.get?_eq_getElem?, List.getElem?_map, ← List.get?_eq_getElem?, hk]
    rfl
  have hne := List.nodup_iff_get?_ne_get?.mp hn
  rcases Nat.lt_or_gt_of_ne hjk with h | h
  · exact hne j k h (by rw [List.length_map]; exact hkl) (by rw [h1, h2, heq])
  · exact hne k j h (by rw [List.length_map]; exact hjl) (by rw [h1, h2, heq])

theorem addUpvalue_entries (s : State) (k index : Nat) (isLocal : Bool) (r : Int × State)
    (ha : addUpvalue s k index isLocal = some r) :
    ∃ n es, upvalueEntries s k = some (n, es) := by
  unfold addUpvalue at ha
  simp only [Option.bind_eq_bind, Option.bind_eq_some] at ha
  obtain ⟨c, hc, n, hn, _⟩ := ha
  exact ⟨n, _, upvalueEntries_eq s k c n hc hn⟩

theorem localNames_of_locals (s s2 : State)
    (h : s2.current.map (fun c => c.locals) = s.current.map (fun c => c.locals)) (j : Nat) :
    localNames s2 j = localNames s j := by
  have := congrArg (fun l => (l.get? j).map (fun ls => ls.map (fun (l : Local) => l.name))) h
  simpa [localNames, List.get?_eq_getElem?, List.getElem?_map, Option.map_map] using this

/-- What a call of `addUpvalue` on a good chain leaves. -/
theorem addUpvalue_good (s : State) (k index : Nat) (isLocal : Bool) (i : Int) (s2 : State)
    (hg : GoodChain s) (ha : addUpvalue s k index isLocal = some (i, s2)) :
    GoodChain s2 ∧ s2.current.length = s.current.length ∧
      (∀ j, localNames s2 j = localNames s j) ∧
      (∀ j, j ≠ k → upvalueEntries s2 j = upvalueEntries s j) := by
  obtain ⟨n, es, he⟩ := addUpvalue_entries s k index isLocal _ ha
  obtain ⟨hfound, hnew, hfull⟩ := addUpvalue_cases s k n index isLocal es he
  have quiet_case : ∀ t, Quiet s t → GoodChain t ∧ t.current.length = s.current.length ∧
      (∀ j, localNames t j = localNames s j) ∧
      (∀ j, j ≠ k → upvalueEntries t j = upvalueEntries s j) := by
    intro t hq
    refine ⟨⟨?_, ?_⟩, quiet_length s t hq, quiet_names s t hq, fun j _ => quiet_entries s t hq j⟩
    · have := congrArg (fun l => l.map (fun (x : Nat × List Upvalue × List Token) => x.1)) hq.2
      simp only [List.map_map] at this
      have e : ((fun (x : Nat × List Upvalue × List Token) => x.1) ∘ compilerShape) =
          (fun c => c.function) := rfl
      rw [e] at this
      rw [this]
      exact hg.1
    · intro j n2 es2 h2
      rw [quiet_entries s t hq j] at h2
      exact hg.2 j n2 es2 h2
  by_cases hm : { index := index, isLocal := isLocal } ∈ es
  · obtain ⟨j, hj, _⟩ := hfound hm
    rw [hj] at ha
    simp only [Option.some.injEq, Prod.mk.injEq] at ha
    rw [← ha.2]
    exact quiet_case s (quiet_refl s)
  · by_cases hc : n = UINT8_COUNT
    · have h0 := hfull hm hc
      rw [h0] at ha
      simp only [Option.some.injEq, Prod.mk.injEq] at ha
      rw [← ha.2]
      exact quiet_case _ (quiet_errorAtPrevious s _)
    · obtain ⟨s3, h0, hent, _, _, hfun, hloc, hget, hder⟩ := hnew hm hc
      rw [h0] at ha
      simp only [Option.some.injEq, Prod.mk.injEq] at ha
      rw [← ha.2]
      obtain ⟨c, hck, _, _⟩ := upvalueEntries_inv s k n es he
      have hother : ∀ j, j ≠ k → upvalueEntries s3 j = upvalueEntries s j := by
        intro j hj
        unfold upvalueEntries
        rw [hget j hj]
        cases hcj : s.current.get? j with
        | none => rfl
        | some cj =>
          have hne := functions_distinct s j k cj c hg.1 hcj hck hj
          simp only [Option.some_bind]
          unfold VM.upvalueCountOf
          rw [hder c hck cj.function hne]
      refine ⟨⟨by rw [hfun]; exact hg.1, ?_⟩, ?_, localNames_of_locals s s3 hloc, hother⟩
      · intro j n2 es2 h2
        by_cases hj : j = k
        · subst hj
          rw [hent] at h2
          simp only [Option.some.injEq, Prod.mk.injEq] at h2
          rw [← h2.1, ← h2.2, List.length_append, List.length_singleton, hg.2 j n es he]
        · rw [hother j hj] at h2
          exact hg.2 j n2 es2 h2
      · have := congrArg List.length hfun
        simpa using this

theorem resolveUpvalueAt_top (fuel : Nat) (st : State) (k : Nat) (name : Token)
    (hk : st.current.get? k = none) : resolveUpvalueAt (fuel + 1) st k name = none := by
  rw [resolveUpvalueAt, hk]
  rfl

theorem resolveUpvalueAt_outermost (fuel : Nat) (st : State) (k : Nat) (name : Token)
    (c : Compiler) (hk : st.current.get? k = some c) (hk1 : st.current.get? (k + 1) = none) :
    resolveUpvalueAt (fuel + 1) st k name = some (-1, st) := by
  rw [resolveUpvalueAt, hk, hk1]
  rfl

theorem resolveUpvalueAt_local (fuel : Nat) (st : State) (k : Nat) (name : Token)
    (c enc : Compiler) (hk : st.current.get? k = some c)
    (hk1 : st.current.get? (k + 1) = some enc) (hloc : (resolveLocal st enc name).1 ≠ -1) :
    resolveUpvalueAt (fuel + 1) st k name =
      ((resolveLocal st enc name).2.current.get? (k + 1)).bind (fun e =>
        (e.locals.get? (resolveLocal st enc name).1.toNat).bind (fun l =>
          addUpvalue (captureLocal (resolveLocal st enc name).2 (k + 1) e
            (resolveLocal st enc name).1.toNat l) k
            ((resolveLocal st enc name).1.toNat % 256) true)) := by
  rw [resolveUpvalueAt, hk, hk1]
  simp only [Option.bind_eq_bind, Option.some_bind]
  rw [if_pos (by simpa using hloc)]
  rfl

theorem resolveUpvalueAt_outer (fuel : Nat) (st : State) (k : Nat) (name : Token)
    (c enc : Compiler) (hk : st.current.get? k = some c)
    (hk1 : st.current.get? (k + 1) = some enc) (hloc : (resolveLocal st enc name).1 = -1) :
    resolveUpvalueAt (fuel + 1) st k name =
      (resolveUpvalueAt fuel (resolveLocal st enc name).2 (k + 1) name).bind (fun r =>
        if r.1 != -1 then addUpvalue r.2 k (r.1.toNat % 256) false else some (-1, r.2)) := by
  rw [resolveUpvalueAt, hk, hk1]
  simp only [Option.bind_eq_bind, Option.some_bind]
  rw [if_neg (by simp [hloc])]
  rfl

theorem goodChain_of_quiet (s t : State) (hq : Quiet s t) (hg : GoodChain s) : GoodChain t := by
  refine ⟨?_, ?_⟩
  · have := congrArg (fun l => l.map (fun (x : Nat × List Upvalue × List Token) => x.1)) hq.2
    simp only [List.map_map] at this
    have e : ((fun (x : Nat × List Upvalue × List Token) => x.1) ∘ compilerShape) =
        (fun c => c.function) := rfl
    rw [e] at this
    rw [this]
    exact hg.1
  · intro j n2 es2 h2
    rw [quiet_entries s t hq j] at h2
    exact hg.2 j n2 es2 h2

theorem quiet_captureLocal (t : State) (j loc : Nat) (c : Compiler) (l : Local)
    (hc : t.current.get? j = some c) (hl : c.locals.get? loc = some l) :
    Quiet t (captureLocal t j c loc l) :=
  quiet_capture t j loc c l hc hl

/-- A call of `resolveUpvalue` on a good chain leaves a good chain of the
same length with the same local names. -/
theorem resolveUpvalueAt_good (name : Token) :
    ∀ (fuel : Nat) (st : State) (k : Nat) (i : Int) (st2 : State), GoodChain st →
      resolveUpvalueAt fuel st k name = some (i, st2) →
      GoodChain st2 ∧ st2.current.length = st.current.length ∧
        (∀ j, localNames st2 j = localNames st j) ∧
        (∀ j, j < k → upvalueEntries st2 j = upvalueEntries st j) := by
  intro fuel
  induction fuel with
  | zero =>
    intro st k i st2 _ h
    exact Option.noConfusion h
  | succ fuel ih =>
    intro st k i st2 hg h
    cases hk : st.current.get? k with
    | none =>
      rw [resolveUpvalueAt_top fuel st k name hk] at h
      exact Option.noConfusion h
    | some c =>
      cases hk1 : st.current.get? (k + 1) with
      | none =>
        rw [resolveUpvalueAt_outermost fuel st k name c hk hk1] at h
        simp only [Option.some.injEq, Prod.mk.injEq] at h
        rw [← h.2]
        exact ⟨hg, rfl, fun _ => rfl, fun _ _ => rfl⟩
      | some enc =>
        have hrl := resolveLocal_state st enc name
        by_cases hloc : (resolveLocal st enc name).1 = -1
        · rw [resolveUpvalueAt_outer fuel st k name c enc hk hk1 hloc, hrl.2.1 hloc] at h
          simp only [Option.bind_eq_some, Prod.exists] at h
          obtain ⟨u, s3, hrun, h⟩ := h
          obtain ⟨hg3, hl3, hn3, he3⟩ := ih st (k + 1) u s3 hg hrun
          by_cases hu : u = -1
          · rw [if_neg (by simp [hu])] at h
            simp only [Option.some.injEq, Prod.mk.injEq] at h
            rw [← h.2]
            exact ⟨hg3, hl3, hn3, fun j hj => he3 j (by omega)⟩
          · rw [if_pos (by simpa using hu)] at h
            obtain ⟨hg4, hl4, hn4, he4⟩ := addUpvalue_good s3 k _ _ i st2 hg3 h
            exact ⟨hg4, hl4.trans hl3, fun j => (hn4 j).trans (hn3 j),
              fun j hj => (he4 j (by omega)).trans (he3 j (by omega))⟩
        · rw [resolveUpvalueAt_local fuel st k name c enc hk hk1 hloc] at h
          simp only [Option.bind_eq_some] at h
          obtain ⟨e, he, l, hl, ha⟩ := h
          have hq := quiet_trans hrl.1
            (quiet_captureLocal (resolveLocal st enc name).2 (k + 1)
              (resolveLocal st enc name).1.toNat e l he hl)
          obtain ⟨hg4, hl4, hn4, he4⟩ := addUpvalue_good _ k _ _ i st2
            (goodChain_of_quiet st _ hq hg) ha
          exact ⟨hg4, hl4.trans (quiet_length st _ hq),
            fun j => (hn4 j).trans (quiet_names st _ hq j),
            fun j hj => (he4 j (by omega)).trans (quiet_entries st _ hq j)⟩

theorem resolveLocal_current (st : State) (c : Compiler) (name : Token) :
    (resolveLocal st c name).2.current = st.current := by
  rcases (resolveLocalLoop_state name st c.locals).1 with h | h
  · unfold resolveLocal Compiler.localCount
    rw [h]
  · unfold resolveLocal Compiler.localCount
    rw [h, errorAtPrevious, (errorAt_vm st _ _).2]

theorem get_of_length (l l2 : List Compiler) (j : Nat) (c : Compiler)
    (hlen : l2.length = l.length) (h : l.get? j = some c) : ∃ c2, l2.get? j = some c2 := by
  have hj : j < l.length := by
    rw [List.get?_eq_getElem?] at h
    exact (List.getElem?_eq_some_iff.mp h).1
  exact ⟨l2.get ⟨j, by omega⟩, List.get?_eq_get (by omega)⟩

theorem none_of_length (l l2 : List Compiler) (j : Nat)
    (hlen : l2.length = l.length) (h : l.get? j = none) : l2.get? j = none := by
  rw [List.get?_eq_getElem?, List.getElem?_eq_none_iff] at h ⊢
  omega

theorem names_of_localNames (s t : State) (j : Nat) (c ct : Compiler)
    (hs : s.current.get? j = some c) (ht : t.current.get? j = some ct)
    (h : localNames t j = localNames s j) :
    ct.locals.map (fun l => l.name) = c.locals.map (fun l => l.name) := by
  unfold localNames at h
  rw [hs, ht] at h
  exact Option.some.inj h

/-- A second call of `resolveUpvalue` for the same name returns the index
that the first returned, on every state whose compilers from depth `k` on
have the names and the entries that the first call left; the second call
adds no entry. -/
theorem resolveUpvalueAt_again (name : Token) :
    ∀ (fuel : Nat) (st : State) (k : Nat) (i : Int) (st2 : State), GoodChain st →
      resolveUpvalueAt fuel st k name = some (i, st2) →
      ∀ t, Agree k st2 t → ∃ t2, resolveUpvalueAt fuel t k name = some (i, t2) ∧ Quiet t t2 := by
  intro fuel
  induction fuel with
  | zero =>
    intro st k i st2 _ h
    exact Option.noConfusion h
  | succ fuel ih =>
    intro st k i st2 hg h t hag
    obtain ⟨hg2, hlen2, hnames2, _⟩ := resolveUpvalueAt_good name (fuel + 1) st k i st2 hg h
    have htlen : t.current.length = st.current.length := hag.1.symm.trans hlen2
    cases hk : st.current.get? k with
    | none =>
      rw [resolveUpvalueAt_top fuel st k name hk] at h
      exact Option.noConfusion h
    | some c =>
      obtain ⟨ct, hkt⟩ := get_of_length st.current t.current k c htlen hk
      cases hk1 : st.current.get? (k + 1) with
      | none =>
        rw [resolveUpvalueAt_outermost fuel st k name c hk hk1] at h
        simp only [Option.some.injEq, Prod.mk.injEq] at h
        rw [← h.1]
        exact ⟨t, resolveUpvalueAt_outermost fuel t k name ct hkt
          (none_of_length st.current t.current (k + 1) htlen hk1), quiet_refl t⟩
      | some enc =>
        obtain ⟨enct, hk1t⟩ := get_of_length st.current t.current (k + 1) enc htlen hk1
        have hnm : enct.locals.map (fun l => l.name) = enc.locals.map (fun l => l.name) :=
          names_of_localNames st t (k + 1) enc enct hk1 hk1t
            (((hag.2 (k + 1) (by omega)).1).symm.trans (hnames2 (k + 1)))
        have hloceq : (resolveLocal t enct name).1 = (resolveLocal st enc name).1 :=
          resolveLocal_congr t st enct enc name hnm
        have hrl := resolveLocal_state st enc name
        have hrlt := resolveLocal_state t enct name
        by_cases hloc : (resolveLocal st enc name).1 = -1
        · rw [resolveUpvalueAt_outer fuel st k name c enc hk hk1 hloc, hrl.2.1 hloc] at h
          simp only [Option.bind_eq_some, Prod.exists] at h
          obtain ⟨u, s3, hrun, h⟩ := h
          obtain ⟨hg3, hl3, hn3, _⟩ := resolveUpvalueAt_good name fuel st (k + 1) u s3 hg hrun
          have hloct : (resolveLocal t enct name).1 = -1 := by rw [hloceq, hloc]
          rw [resolveUpvalueAt_outer fuel t k name ct enct hkt hk1t hloct, hrlt.2.1 hloct]
          by_cases hu : u = -1
          · rw [if_neg (by simp [hu])] at h
            simp only [Option.some.injEq, Prod.mk.injEq] at h
            have hag3 : Agree (k + 1) s3 t := by
              rw [h.2]
              exact agree_mono hag (by omega)
            obtain ⟨t1, hrunt, hq1⟩ := ih st (k + 1) u s3 hg hrun t hag3
            refine ⟨t1, ?_, hq1⟩
            rw [hrunt, Option.some_bind]
            dsimp only
            rw [if_neg (by simp [hu]), ← h.1]
          · rw [if_pos (by simpa using hu)] at h
            obtain ⟨_, hl4, hn4, he4⟩ := addUpvalue_good s3 k _ _ i st2 hg3 h
            have hag3 : Agree (k + 1) s3 t :=
              agree_trans ⟨hl4.symm, fun j hj => ⟨(hn4 j).symm, (he4 j (by omega)).symm⟩⟩
                (agree_mono hag (by omega))
            obtain ⟨t1, hrunt, hq1⟩ := ih st (k + 1) u s3 hg hrun t hag3
            obtain ⟨n, es, hent⟩ := addUpvalue_entries s3 k _ _ _ h
            obtain ⟨t2, hat, hq2⟩ := addUpvalue_again s3 k _ _ i st2 n es hent
              (hg3.2 k n es hent) h t1
              ((quiet_entries t t1 hq1 k).trans ((hag.2 k (Nat.le_refl k)).2).symm)
            refine ⟨t2, ?_, quiet_trans hq1 hq2⟩
            rw [hrunt, Option.some_bind]
            dsimp only
            rw [if_pos (by simpa using hu)]
            exact hat
        · rw [resolveUpvalueAt_local fuel st k name c enc hk hk1 hloc] at h
          simp only [Option.bind_eq_some] at h
          obtain ⟨e, he, l, hl, ha⟩ := h
          have hloct : (resolveLocal t enct name).1 ≠ -1 := by rw [hloceq]; exact hloc
          obtain ⟨lt, hlt⟩ := hrlt.2.2 hloct
          have het : (resolveLocal t enct name).2.current.get? (k + 1) = some enct := by
            rw [resolveLocal_current]
            exact hk1t
          have hqs := quiet_trans hrl.1
            (quiet_captureLocal (resolveLocal st enc name).2 (k + 1)
              (resolveLocal st enc name).1.toNat e l he hl)
          have hqt := quiet_trans hrlt.1
            (quiet_captureLocal (resolveLocal t enct name).2 (k + 1)
              (resolveLocal t enct name).1.toNat enct lt het hlt)
          obtain ⟨n, es, hent⟩ := addUpvalue_entries _ k _ _ _ ha
          obtain ⟨t2, hat, hq2⟩ := addUpvalue_again _ k _ _ i st2 n es hent
            ((goodChain_of_quiet st _ hqs hg).2 k n es hent) ha
            (captureLocal (resolveLocal t enct name).2 (k + 1) enct
              (resolveLocal t enct name).1.toNat lt)
            ((quiet_entries t _ hqt k).trans ((hag.2 k (Nat.le_refl k)).2).symm)
          refine ⟨t2, ?_, quiet_trans hqt hq2⟩
          rw [resolveUpvalueAt_local fuel t k name ct enct hkt hk1t hloct, het,
            Option.some_bind, hlt, Option.some_bind]
          rw [hloceq] at hat ⊢
          exact hat

theorem addUpvalue_nodup (st : State) (k n index : Nat) (isLocal : Bool) (es : List Upvalue)
    (he : upvalueEntries st k = some (n, es)) (hnd : es.Nodup) (i : Int) (st2 : State)
    (ha : addUpvalue st k index isLocal = some (i, st2)) :
    ∃ n2 es2, upvalueEntries st2 k = some (n2, es2) ∧ es2.Nodup := by
  obtain ⟨hfound, hnew, hfull⟩ := addUpvalue_cases st k n index isLocal es he
  by_cases hm : { index := index, isLocal := isLocal } ∈ es
  · obtain ⟨j, hj, _⟩ := hfound hm
    rw [hj] at ha
    simp only [Option.some.injEq, Prod.mk.injEq] at ha
    rw [← ha.2]
    exact ⟨n, es, he, hnd⟩
  · by_cases hc : n = UINT8_COUNT
    · have h0 := hfull hm hc
      rw [h0] at ha
      simp only [Option.some.injEq, Prod.mk.injEq] at ha
      rw [← ha.2, quiet_entries st _ (quiet_errorAtPrevious st _) k]
      exact ⟨n, es, he, hnd⟩
    · obtain ⟨s3, h0, hent, _⟩ := hnew hm hc
      rw [h0] at ha
      simp only [Option.some.injEq, Prod.mk.injEq] at ha
      rw [← ha.2]
      refine ⟨n + 1, _, hent, ?_⟩
      rw [List.nodup_append]
      refine ⟨hnd, List.nodup_singleton _, ?_⟩
      intro x hx hx2
      rw [List.mem_singleton] at hx2
      rw [hx2] at hx
      exact hm hx

theorem upvaluesReached_nodup (k : Nat) (s : State) (hr : UpvaluesReached k s) :
    ∃ n es, upvalueEntries s k = some (n, es) ∧ es.Nodup := by
  induction hr with
  | start st h => exact ⟨0, [], h, List.nodup_nil⟩
  | add st index isLocal i st2 _ ha ih =>
    obtain ⟨n, es, he, hnd⟩ := ih
    exact addUpvalue_nodup st k n index isLocal es he hnd i st2 ha

/-- C35, as amended: `addUpvalue(compiler, index, isLocal)` on a compiler
whose function has `n` upvalues with the entries `es`.  If an entry has the
same index and flag, the call returns the position of the first such entry
and changes nothing.  If none has and `n` is below 256, the call appends the
entry and returns `n`, and the count is `n + 1`.  If none has and `n` is 256,
the call reports "Too many closure variables in function.", returns 0 and
leaves the entries as they are.  The entries stay pairwise distinct, so they
are in every state reached by calls of `addUpvalue` from a function without
upvalues.  A second call with the same index and flag returns what the
first returned and adds no entry, and so does a second call of
`resolveUpvalue` for the same name. -/
theorem addUpvalue_dedup (st : State) (k n index : Nat) (isLocal : Bool) (es : List Upvalue)
    (he : upvalueEntries st k = some (n, es)) (hlen : es.length = n) :
    ({ index := index, isLocal := isLocal } ∈ es →
      ∃ i : Nat, addUpvalue st k index isLocal = some ((i : Int), st) ∧ i < n ∧
        es.get? i = some { index := index, isLocal := isLocal } ∧
        ∀ j, j < i → es.get? j ≠ some { index := index, isLocal := isLocal }) ∧
    ({ index := index, isLocal := isLocal } ∉ es → n < UINT8_COUNT →
      ∃ st2, addUpvalue st k index isLocal = some ((n : Int), st2) ∧
        upvalueEntries st2 k = some (n + 1, es ++ [{ index := index, isLocal := isLocal }])) ∧
    ({ index := index, isLocal := isLocal } ∉ es → n = UINT8_COUNT →
      addUpvalue st k index isLocal =
        some (0, errorAtPrevious st (cstr "Too many closure variables in function.")) ∧
      upvalueEntries (errorAtPrevious st (cstr "Too many closure variables in function.")) k =
        some (n, es)) ∧
    (es.Nodup → ∀ i st2, addUpvalue st k index isLocal = some (i, st2) →
      ∃ n2 es2, upvalueEntries st2 k = some (n2, es2) ∧ es2.Nodup) ∧
    (∀ s, UpvaluesReached k s → ∃ n2 es2, upvalueEntries s k = some (n2, es2) ∧ es2.Nodup) ∧
    (∀ i st2, addUpvalue st k index isLocal = some (i, st2) →
      ∃ st3, addUpvalue st2 k index isLocal = some (i, st3) ∧
        upvalueEntries st3 k = upvalueEntries st2 k) ∧
    (GoodChain st → ∀ name i st2, resolveUpvalue st k name = some (i, st2) →
      ∃ st3, resolveUpvalue st2 k name = some (i, st3) ∧
        upvalueEntries st3 k = upvalueEntries st2 k) := by
  obtain ⟨hfound, hnew, hfull⟩ := addUpvalue_cases st k n index isLocal es he
  refine ⟨hfound, ?_, ?_, ?_, upvaluesReached_nodup k, ?_, ?_⟩
  · intro hm hn
    obtain ⟨st2, h1, h2, _⟩ := hnew hm (by omega)
    exact ⟨st2, h1, h2⟩
  · intro hm hn
    exact ⟨hfull hm hn, by rw [quiet_entries st _ (quiet_errorAtPrevious st _) k]; exact he⟩
  · intro hnd i st2 ha
    exact addUpvalue_nodup st k n index isLocal es he hnd i st2 ha
  · intro i st2 ha
    obtain ⟨st3, h3, hq⟩ := addUpvalue_again st k index isLocal i st2 n es he hlen ha st2 rfl
    exact ⟨st3, h3, quiet_entries st2 st3 hq k⟩
  · intro hg name i st2 hr
    unfold resolveUpvalue at hr ⊢
    obtain ⟨_, hl2, _⟩ := resolveUpvalueAt_good name _ st k i st2 hg hr
    obtain ⟨st3, h3, hq⟩ := resolveUpvalueAt_again name _ st k i st2 hg hr st2
      ⟨rfl, fun _ _ => ⟨rfl, rfl⟩⟩
    rw [hl2]
    exact ⟨st3, h3, quiet_entries st2 st3 hq k⟩

/-- C35, counterexample: on a function with 256 upvalues, none of which is
the entry asked for, `addUpvalue` returns 0, not the count 256, reports the
error and appends nothing. -/
theorem addUpvalue_full_returns_zero :
    (upvalueEntries fullUpvaluesState 0).map (fun p => (p.1, p.2.length)) = some (256, 256) ∧
    (upvalueEntries fullUpvaluesState 0).map
      (fun p => decide (({ index := 0, isLocal := false } : Upvalue) ∈ p.2)) = some false ∧
    (addUpvalue fullUpvaluesState 0 0 false).map
        (fun r => (r.1, r.2.diagnostics.map (fun d => d.message),
          (upvalueEntries r.2 0).map (fun p => (p.1, p.2.length)))) =
      some (0, [cstr "Too many closure variables in function."], some (256, 256)) := by
  refine ⟨?_, ?_, ?_⟩ <;> decide!

theorem goodChain_closureState : GoodChain closureState := by
  refine ⟨by decide, ?_⟩
  intro j n es h
  have h0 : upvalueEntries closureState 0 = some (0, []) := by decide!
  have h1 : upvalueEntries closureState 1 = some (0, []) := by decide!
  match j, h with
  | 0, h =>
    rw [h0] at h
    simp only [Option.some.injEq, Prod.mk.injEq] at h
    rw [← h.1, ← h.2]
    rfl
  | 1, h =>
    rw [h1] at h
    simp only [Option.some.injEq, Prod.mk.injEq] at h
    rw [← h.1, ← h.2]
    rfl
  | j + 2, h => exact Option.noConfusion h

/-- C35, witness: a function inside a script resolves the local `a` of the
script twice; both calls return the upvalue index 0 and the function has one
entry, the local 1. -/
theorem addUpvalue_dedup_witness :
    ∃ st2 st3, resolveUpvalue closureState 0 (syntheticToken "a") = some (0, st2) ∧
      upvalueEntries st2 0 = some (1, [{ index := 1, isLocal := true }]) ∧
      resolveUpvalue st2 0 (syntheticToken "a") = some (0, st3) ∧
      upvalueEntries st3 0 = upvalueEntries st2 0 := by
  have e : (resolveUpvalue closureState 0 (syntheticToken "a")).map
      (fun r => (r.1, upvalueEntries r.2 0)) =
      some (0, some (1, [{ index := 1, isLocal := true }])) := by decide!
  simp only [Option.map_eq_some', Prod.mk.injEq, Prod.exists] at e
  obtain ⟨i, st2, hr, hi, he2⟩ := e
  subst hi
  have t := addUpvalue_dedup closureState 0 0 0 false [] (by decide!) rfl
  obtain ⟨st3, h3, h4⟩ := t.2.2.2.2.2.2 goodChain_closureState (syntheticToken "a") 0 st2 hr
  exact ⟨st2, st3, hr, he2, h3, h4⟩

/-! ## C31: `closeUpvalues` -/

namespace VM

theorem closeUpvaluesLoop_closes (last : Nat) :
    ∀ (l : List (Nat × Nat)) (fuel : Nat) (vm : VM), vm.OpenList l → Descending l →
      l.length < fuel → (∀ e, e ∈ l → last ≤ e.2 → e.2 < vm.stack.length) →
      ∃ vm2, closeUpvaluesLoop last fuel vm = some vm2 ∧
        vm2.OpenList (l.filter (fun e => e.2 < last)) ∧ vm2.stack = vm.stack ∧
        (∀ p, (∀ e, e ∈ l → last ≤ e.2 → e.1 ≠ p) → vm2.deref p = vm.deref p) ∧
        (∀ e, e ∈ l → last ≤ e.2 → ∃ v following, vm.stack.get? e.2 = some v ∧
          vm2.upvalueOf e.1 = some (.closed, v, following)) := by
  intro l
  induction l with
  | nil =>
    intro fuel vm hl _ hfuel _
    obtain ⟨f, rfl⟩ : ∃ f, fuel = f + 1 := ⟨fuel - 1, by simp at hfuel; omega⟩
    have h0 : vm.openUpvalues = 0 := segment_nil_eq vm _ _ hl
    refine ⟨vm, ?_, hl, rfl, fun _ _ => rfl, fun e he => absurd he (List.not_mem_nil _)⟩
    unfold closeUpvaluesLoop
    rw [if_pos (by simpa using h0)]
  | cons y ys ih =>
    intro fuel vm hl hd hfuel hstack
    obtain ⟨f, rfl⟩ : ∃ f, fuel = f + 1 := ⟨fuel - 1, by simp at hfuel; omega⟩
    have huniq := segment_pointer_unique vm _ _ _ hl hd
    have hdd := hd
    unfold Descending at hdd
    rw [List.pairwise_cons] at hdd huniq
    unfold OpenList at hl
    cases hl with
    | cons _ i closed following _ _ hp hu hrest =>
      unfold closeUpvaluesLoop
      rw [if_neg (by simpa using hp), hu]
      dsimp only
      by_cases hi : i ≥ last
      · rw [if_pos hi]
        have hlt := hstack (vm.openUpvalues, i) (List.mem_cons_self _ _) hi
        obtain ⟨v, hv⟩ : ∃ v, vm.stack.get? i = some v :=
          ⟨vm.stack.get ⟨i, hlt⟩, List.get?_eq_get hlt⟩
        rw [hv]
        dsimp only
        have hlist : VM.OpenList
            { vm.store vm.openUpvalues (.upvalue .closed v following) with
              openUpvalues := following } ys := by
          unfold OpenList
          refine segment_congr vm _ following 0 ys hrest ?_
          intro e he
          exact upvalueOf_of_deref _ _ _
            (deref_store_ne vm _ _ _ (fun h => huniq.1 e he h.symm))
        have hstack2 : ({ vm.store vm.openUpvalues (.upvalue .closed v following) with
            openUpvalues := following } : VM).stack = vm.stack := stack_store _ _ _
        obtain ⟨vm2, hrun, hl2, hs2, hkeep, hclosed⟩ := ih f _ hlist hdd.2
          (by simp at hfuel; omega)
          (fun e he hle => by
            have := hstack e (List.mem_cons_of_mem _ he) hle
            rw [hstack2]
            exact this)
        refine ⟨vm2, hrun, ?_, hs2.trans hstack2, ?_, ?_⟩
        · rw [List.filter_cons_of_neg (by simpa using hi)]
          exact hl2
        · intro p hp2
          rw [hkeep p (fun e he hle => hp2 e (List.mem_cons_of_mem _ he) hle)]
          exact deref_store_ne vm _ p _
            (fun h => hp2 (vm.openUpvalues, i) (List.mem_cons_self _ _) hi h.symm)
        · intro e he hle
          rcases List.mem_cons.mp he with h1 | h1
          · subst h1
            refine ⟨v, following, hv, ?_⟩
            rw [upvalueOf_of_deref _ _ _ (hkeep vm.openUpvalues
              (fun e2 he2 _ => (huniq.1 e2 he2).symm))]
            exact upvalueOf_store_self vm _ _ _ _ _ hu
          · obtain ⟨v2, f2, hv2, hu2⟩ := hclosed e h1 hle
            rw [hstack2] at hv2
            exact ⟨v2, f2, hv2, hu2⟩
      · rw [if_neg hi]
        have hall : ∀ e, e ∈ (vm.openUpvalues, i) :: ys → e.2 < last := by
          intro e he
          rcases List.mem_cons.mp he with h1 | h1
          · subst h1
            dsimp only
            omega
          · have := hdd.1 e h1
            dsimp only at this
            omega
        refine ⟨vm, rfl, ?_, rfl, fun _ _ => rfl, ?_⟩
        · rw [List.filter_eq_self.mpr (fun e he => by simpa using hall e he)]
          exact OpenSegment.cons _ i closed following 0 ys hp hu hrest
        · intro e he hle
          have := hall e he
          omega

end VM

/-- C31: `closeUpvalues(last)` on a VM whose list of open upvalues `l` is
descending, the slots at or above `last` being slots of the stack.  The call
returns; the list is then `l` without the entries at or above `last`, in the
same order, and the upvalues that stay are unchanged; an upvalue that was at
or above `last` is on the list no more, its location is its own cell
`closed`, which holds the value that its stack slot held, and a read through
its location yields that value.  The stack is unchanged. -/
theorem closeUpvalues_closes (vm : VM) (last : Nat) (l : List (Nat × Nat))
    (hl : vm.OpenList l) (hd : Descending l)
    (hstack : ∀ e, e ∈ l → last ≤ e.2 → e.2 < vm.stack.length) :
    ∃ vm2, vm.closeUpvalues last = some vm2 ∧
      vm2.OpenList (l.filter (fun e => e.2 < last)) ∧
      (∀ e, e ∈ l → e.2 < last → vm2.upvalueOf e.1 = vm.upvalueOf e.1) ∧
      (∀ e, e ∈ l → last ≤ e.2 →
        (∀ e2, e2 ∈ l.filter (fun e => e.2 < last) → e2.1 ≠ e.1) ∧
        ∃ v following, vm.stack.get? e.2 = some v ∧
          vm2.upvalueOf e.1 = some (.closed, v, following) ∧
          vm2.readUpvalue e.1 = some v) ∧
      vm2.stack = vm.stack := by
  have hlen := VM.segment_length_le vm _ _ l hl hd
  have huniq := VM.segment_pointer_unique vm _ _ l hl hd
  have hne : ∀ a, a ∈ l → ∀ b, b ∈ l → a.2 ≠ b.2 → a.1 ≠ b.1 := by
    intro a ha b hb hab
    exact List.Pairwise.forall (fun x y h => Ne.symm h) huniq ha hb
      (fun h => hab (by rw [h]))
  obtain ⟨vm2, hrun, hl2, hs2, hkeep, hclosed⟩ :=
    VM.closeUpvaluesLoop_closes last l (vm.heap.length + 1) vm hl hd (by omega) hstack
  refine ⟨vm2, hrun, hl2, ?_, ?_, hs2⟩
  · intro e he hlt
    apply VM.upvalueOf_of_deref
    apply hkeep
    intro e2 he2 hle
    exact hne e2 he2 e he (by omega)
  · intro e he hle
    refine ⟨?_, ?_⟩
    · intro e2 he2
      have hm := List.mem_filter.mp he2
      have : e2.2 < last := by simpa using hm.2
      exact hne e2 hm.1 e he (by omega)
    · obtain ⟨v, following, hv, hu⟩ := hclosed e he hle
      refine ⟨v, following, hv, hu, ?_⟩
      unfold VM.readUpvalue
      rw [hu]

/-- C31, witness: the upvalues 1 (slot 1) and 2 (slot 2) are open on a stack
that holds nil, true and false; `closeUpvalues(2)` leaves the upvalue 1 on
the list and closes the upvalue 2 over the value false. -/
theorem closeUpvalues_closes_witness :
    ∃ vm vm2, twoOpenVM = some vm ∧ vm.OpenList [(2, 2), (1, 1)] ∧
      vm.closeUpvalues 2 = some vm2 ∧ vm2.OpenList [(1, 1)] ∧
      vm2.upvalueOf 1 = vm.upvalueOf 1 ∧
      (∃ following, vm2.upvalueOf 2 = some (.closed, FALSE_VAL, following)) ∧
      vm2.readUpvalue 2 = some FALSE_VAL := by
  have e : twoOpenVM.map (fun vm => (vm.openUpvalues, vm.stack)) =
      some (2, [NIL_VAL, TRUE_VAL, FALSE_VAL]) := by decide!
  have e2 : twoOpenVM.map (fun vm => [vm.upvalueOf 2, vm.upvalueOf 1]) =
      some [some (.slot 2, NIL_VAL, 1), some (.slot 1, NIL_VAL, 0)] := by decide!
  simp only [Option.map_eq_some', Prod.mk.injEq] at e
  obtain ⟨vm, hvm, ho, hs⟩ := e
  rw [hvm] at e2
  simp only [Option.map_some', Option.some.injEq, List.cons.injEq, and_true] at e2
  obtain ⟨hu2, hu1⟩ := e2
  have hl : vm.OpenList [(2, 2), (1, 1)] := by
    unfold VM.OpenList
    rw [ho]
    exact .cons 2 2 _ 1 0 _ (by decide) hu2 (.cons 1 1 _ 0 0 _ (by decide) hu1 (.nil 0))
  have hd : Descending [(2, 2), (1, 1)] := by
    unfold Descending
    decide
  obtain ⟨vm2, hrun, hl2, hkeep, hclosed, _⟩ := closeUpvalues_closes vm 2 [(2, 2), (1, 1)] hl hd
    (by
      intro e he _
      rw [hs]
      simp only [List.mem_cons, List.mem_singleton, List.not_mem_nil, or_false] at he
      rcases he with h | h <;> rw [h] <;> decide)
  obtain ⟨_, v, following, hv, hu, hr⟩ := hclosed (2, 2) (List.mem_cons_self _ _) (Nat.le_refl 2)
  rw [hs] at hv
  have hvv : v = FALSE_VAL := (Option.some.inj hv).symm
  subst hvv
  exact ⟨vm, vm2, hvm, hl, hrun, hl2,
    hkeep (1, 1) (List.mem_cons_of_mem _ (List.mem_cons_self _ _)) (by decide),
    ⟨following, hu⟩, hr⟩

/-! ## C36: the invariant of the tables -/

theorem Memory.tableRemoveWhiteLoop_wf (hashOf : Nat → Nat) :
    ∀ (rest : List Nat) (m m2 : Memory), m.vm.hashOf = hashOf →
      Table.WF hashOf m.vm.strings → Memory.tableRemoveWhiteLoop rest m = some m2 →
      Table.WF hashOf m2.vm.strings := by
  intro rest
  induction rest with
  | nil =>
    intro m m2 _ hwf h
    rw [← Option.some.inj h]
    exact hwf
  | cons i rest ih =>
    intro m m2 hh hwf h
    unfold Memory.tableRemoveWhiteLoop at h
    split at h
    · exact Option.noConfusion h
    · rename_i entry _
      split at h
      · rename_i hkey
        split at h
        · exact Option.noConfusion h
        · split at h
          · split at h
            · exact Option.noConfusion h
            · rename_i b strings hdel
              obtain ⟨b0, t0, hd0, hwf0, _⟩ := Table.tableDelete_spec hashOf m.vm.strings
                entry.key hwf (by simpa using hkey)
              rw [hh, hd0] at hdel
              have e : t0 = strings := (Prod.mk.inj (Option.some.inj hdel)).2
              refine ih { m with vm := { m.vm with strings := strings } } m2 hh ?_ h
              show Table.WF hashOf strings
              rw [← e]
              exact hwf0
          · exact ih m m2 hh hwf h
      · exact ih m m2 hh hwf h

theorem Table.reachedAll_wf (hashOf : Nat → Nat) (t : Table) (h : Table.ReachedAll hashOf t) :
    Table.WF hashOf t := by
  induction h with
  | init => exact Table.wf_init hashOf
  | set t t2 k v b _ hk hs ih =>
    obtain ⟨b0, t0, hs0, hwf0, _⟩ := Table.tableSet_spec hashOf t k v ih hk
    rw [hs] at hs0
    rw [(Prod.mk.inj (Option.some.inj hs0)).2]
    exact hwf0
  | delete t t2 k b _ hk hd ih =>
    obtain ⟨b0, t0, hd0, hwf0, _⟩ := Table.tableDelete_spec hashOf t k ih hk
    rw [hd] at hd0
    rw [(Prod.mk.inj (Option.some.inj hd0)).2]
    exact hwf0
  | addAll src dst t2 _ _ ha _ ihd =>
    exact Table.tableAddAllLoop_wf hashOf _ dst t2 ihd ha
  | removeWhite m m2 _ hh hrun ih =>
    exact Memory.tableRemoveWhiteLoop_wf hashOf _ m m2 hh ih hrun

theorem Table.reachedAll_of_reached (hashOf : Nat → Nat) (t : Table)
    (h : Table.Reached hashOf t) : Table.ReachedAll hashOf t := by
  induction h with
  | init => exact Table.ReachedAll.init
  | set t t2 k v b _ hk hs ih => exact Table.ReachedAll.set t t2 k v b ih hk hs
  | delete t t2 k b _ hk hd ih => exact Table.ReachedAll.delete t t2 k b ih hk hd
  | addAll src dst t2 _ _ ha ihs ihd => exact Table.ReachedAll.addAll src dst t2 ihs ihd ha

theorem countP_in_use (l : List Entry) :
    l.countP (fun e => !e.isEmpty) =
      l.countP (fun e => e.key != 0) + l.countP (fun e => e.key == 0 && !IS_NIL e.value) := by
  induction l with
  | nil => rfl
  | cons e rest ih =>
    rw [List.countP_cons, List.countP_cons, List.countP_cons, ih]
    unfold Entry.isEmpty
    by_cases hk : e.key = 0
    · cases hv : IS_NIL e.value
      · simp [hk, hv]
        omega
      · simp [hk, hv]
    · cases hv : IS_NIL e.value
      · simp [hk, hv]
        omega
      · simp [hk, hv]
        omega

/-- The probe loop of `tableFindString` ends on a table with a free slot,
whatever the string looked for. -/
theorem Table.tableFindString_returns (hashOf : Nat → Nat) (keyIs : Nat → Bool) (hash : Nat)
    (t : Table) (hwf : Table.WF hashOf t) :
    ∃ r, tableFindString keyIs t hash = some r := by
  unfold tableFindString
  by_cases hcnt : t.count = 0
  · rw [if_pos (by rw [hcnt]; rfl)]
    exact ⟨0, rfl⟩
  · rw [if_neg (by simpa using hcnt)]
    have hroom : t.count < t.capacity := by have := hwf.load; omega
    have hpos : 0 < t.capacity := by omega
    have hpow := Table.capacity_pow hashOf t hwf hpos
    obtain ⟨j, hj, hjempty⟩ := Table.exists_empty hashOf t hwf hroom
    have hex : ∃ d, (t.slot ((hash + d) % t.capacity)).isEmpty = true ∨
        ((t.slot ((hash + d) % t.capacity)).key ≠ 0 ∧
          keyIs (t.slot ((hash + d) % t.capacity)).key = true) :=
      ⟨(j + t.capacity - hash % t.capacity) % t.capacity, Or.inl (by
        rw [Table.probe_back _ _ _ hj]; exact hjempty)⟩
    have hstop := Nat.find_spec hex
    have hmin : ∀ d, d < Nat.find hex →
        (t.slot ((hash + d) % t.capacity)).isEmpty = false ∧
        ((t.slot ((hash + d) % t.capacity)).key = 0 ∨
          keyIs (t.slot ((hash + d) % t.capacity)).key = false) := by
      intro d hd
      have hn := Nat.find_min hex hd
      rw [not_or, not_and_or] at hn
      refine ⟨by simpa using hn.1, ?_⟩
      rcases hn.2 with h1 | h1
      · exact Or.inl (by simpa using h1)
      · exact Or.inr (by simpa using h1)
    have hle : Nat.find hex < t.capacity :=
      Nat.lt_of_le_of_lt
        (Nat.find_min' hex (Or.inl (by rw [Table.probe_back _ _ _ hj]; exact hjempty)))
        (Nat.mod_lt _ hpos)
    have hrun := Table.tableFindStringLoop_spec keyIs t hash (Nat.find hex) hpow hmin hstop
      t.capacity 0 (Nat.zero_le _) (by omega)
    rw [Nat.add_zero] at hrun
    rw [Table.and_mask _ _ hpow, hrun]
    exact ⟨_, rfl⟩

/-- C36: a table reached from `initTable` by `tableSet`, `tableDelete`,
`tableAddAll` and `tableRemoveWhite`.  Its capacity is 0 or a power of two,
the array has `capacity` entries, `count` is the number of slots with a key
plus the number of tombstones (no key, a value that is not nil), and
`4 * count <= 3 * capacity`.  So a table with a capacity above 0 has a slot
with no key and the value nil, `findEntry` returns a slot of the table for
every key, and `tableFindString` returns for every string. -/
theorem table_invariant (hashOf : Nat → Nat) (t : Table) (hr : Table.ReachedAll hashOf t) :
    (t.capacity = 0 ∨ ∃ n, t.capacity = 2 ^ n) ∧
    (t.capacity = 0 → t.count = 0) ∧
    t.entries.length = t.capacity ∧
    t.count = t.entries.countP (fun e => e.key != 0) +
      t.entries.countP (fun e => e.key == 0 && !IS_NIL e.value) ∧
    4 * t.count ≤ 3 * t.capacity ∧
    (0 < t.capacity → ∃ j, j < t.capacity ∧ (t.slot j).key = 0 ∧
      IS_NIL (t.slot j).value = true) ∧
    (0 < t.capacity → ∀ k, k ≠ 0 →
      ∃ r, findEntry hashOf t.entries t.capacity k = some r ∧ r < t.capacity) ∧
    (∀ keyIs hash, ∃ r, tableFindString keyIs t hash = some r) := by
  have hwf := Table.reachedAll_wf hashOf t hr
  have hroom : 0 < t.capacity → t.count < t.capacity := by
    intro hpos
    have := hwf.load
    omega
  refine ⟨hwf.cap, ?_, hwf.len, ?_, hwf.load, ?_, ?_, ?_⟩
  · intro h0
    have := hwf.load
    omega
  · rw [hwf.count]
    exact countP_in_use t.entries
  · intro hpos
    obtain ⟨j, hj, he⟩ := Table.exists_empty hashOf t hwf (hroom hpos)
    unfold Entry.isEmpty at he
    simp only [Bool.and_eq_true, beq_iff_eq] at he
    exact ⟨j, hj, he.1, he.2⟩
  · intro hpos k hk
    obtain ⟨r, hr1, hr2, _⟩ := Table.findEntry_spec hashOf t k hwf hk (hroom hpos)
    exact ⟨r, hr1, hr2⟩
  · intro keyIs hash
    exact Table.tableFindString_returns hashOf keyIs hash t hwf

/-- C36, witness: the table that `tableRemoveWhite` leaves of the table with
the strings 1 (not marked) and 2 (marked): capacity 8, count 2, a tombstone
and a key. -/
theorem table_invariant_witness :
    ∃ m2, removeWhiteMemory.tableRemoveWhite = some m2 ∧
      m2.vm.strings = tombstonePathTable ∧
      (tombstonePathTable.capacity = 8 ∧ tombstonePathTable.count = 2) ∧
      (m2.vm.strings.capacity = 0 ∨ ∃ n, m2.vm.strings.capacity = 2 ^ n) ∧
      4 * m2.vm.strings.count ≤ 3 * m2.vm.strings.capacity ∧
      (∀ keyIs hash, ∃ r, tableFindString keyIs m2.vm.strings hash = some r) := by
  have e : (removeWhiteMemory.tableRemoveWhite).map (fun m => m.vm.strings) =
      some tombstonePathTable := by decide!
  simp only [Option.map_eq_some'] at e
  obtain ⟨m2, hrun, hs⟩ := e
  have t := table_invariant twoStringVM.hashOf m2.vm.strings
    (Table.ReachedAll.removeWhite removeWhiteMemory m2
      (Table.reachedAll_of_reached _ _ reached_twoStringTable) rfl hrun)
  exact ⟨m2, hrun, hs, ⟨rfl, rfl⟩, t.1, t.2.2.2.2.1, t.2.2.2.2.2.2.2⟩

/-! ## `OP_INHERIT` when no collection starts -/

namespace Table

theorem tableAddAllLoop_spec (hashOf : Nat → Nat) :
    ∀ (l : List Entry) (t : Table), WF hashOf t →
      l.Pairwise (fun a b => a.key ≠ 0 → a.key ≠ b.key) →
      ∃ t2, tableAddAllLoop hashOf l t = some t2 ∧ WF hashOf t2 ∧
        ∀ k v, k ≠ 0 → (t2.Has k v ↔
          ({ key := k, value := v } : Entry) ∈ l ∨ ((∀ e, e ∈ l → e.key ≠ k) ∧ t.Has k v)) := by
  intro l
  induction l with
  | nil =>
    intro t hwf _
    refine ⟨t, rfl, hwf, ?_⟩
    intro k v _
    constructor
    · intro h
      exact Or.inr ⟨fun e he => absurd he (List.not_mem_nil _), h⟩
    · rintro (h | h)
      · exact absurd h (List.not_mem_nil _)
      · exact h.2
  | cons e rest ih =>
    intro t hwf hpw
    rw [List.pairwise_cons] at hpw
    unfold tableAddAllLoop
    by_cases hk : e.key = 0
    · rw [if_neg (by simp [hk])]
      obtain ⟨t2, hrun, hwf2, hhas⟩ := ih t hwf hpw.2
      refine ⟨t2, hrun, hwf2, ?_⟩
      intro k v hk0
      rw [hhas k v hk0]
      constructor
      · rintro (h | h)
        · exact Or.inl (List.mem_cons_of_mem _ h)
        · refine Or.inr ⟨?_, h.2⟩
          intro e2 he2
          rcases List.mem_cons.mp he2 with h1 | h1
          · rw [h1, hk]
            exact fun h0 => hk0 h0.symm
          · exact h.1 e2 h1
      · rintro (h | h)
        · rcases List.mem_cons.mp h with h1 | h1
          · exfalso
            rw [← h1] at hk
            exact hk0 hk
          · exact Or.inl h1
        · exact Or.inr ⟨fun e2 he2 => h.1 e2 (List.mem_cons_of_mem _ he2), h.2⟩
    · rw [if_pos (by simpa using hk)]
      obtain ⟨b, t1, hs, hwf1, _, hself, hother⟩ := tableSet_spec hashOf t e.key e.value hwf hk
      rw [hs]
      dsimp only
      obtain ⟨t2, hrun, hwf2, hhas⟩ := ih t1 hwf1 hpw.2
      refine ⟨t2, hrun, hwf2, ?_⟩
      intro k v hk0
      rw [hhas k v hk0]
      by_cases hke : k = e.key
      · subst hke
        have hnone : ∀ e2, e2 ∈ rest → e2.key ≠ e.key := fun e2 he2 h =>
          hpw.1 e2 he2 hk h.symm
        constructor
        · rintro (h | h)
          · exact Or.inl (List.mem_cons_of_mem _ h)
          · have := has_unique hashOf t1 e.key v e.value hwf1 hk h.2 hself
            subst this
            exact Or.inl (List.mem_cons_self _ _)
        · rintro (h | h)
          · rcases List.mem_cons.mp h with h1 | h1
            · have hv : v = e.value := by rw [← h1]
              subst hv
              exact Or.inr ⟨hnone, hself⟩
            · exact Or.inl h1
          · exact absurd rfl (h.1 e (List.mem_cons_self _ _))
      · constructor
        · rintro (h | h)
          · exact Or.inl (List.mem_cons_of_mem _ h)
          · refine Or.inr ⟨?_, (hother k v hke hk0).mp h.2⟩
            intro e2 he2
            rcases List.mem_cons.mp he2 with h1 | h1
            · rw [h1]
              exact fun h0 => hke h0.symm
            · exact h.1 e2 h1
        · rintro (h | h)
          · rcases List.mem_cons.mp h with h1 | h1
            · exfalso
              rw [← h1] at hke
              exact hke rfl
            · exact Or.inl h1
          · exact Or.inr ⟨fun e2 he2 => h.1 e2 (List.mem_cons_of_mem _ he2),
              (hother k v hke hk0).mpr h.2⟩

/-- The function `tableAddAll(from, to)` returns; afterwards `to` holds the
keys of `from` with the values they have in `from`, and its other keys with
the values they had. -/
theorem tableAddAll_spec (hashOf : Nat → Nat) (src dst : Table) (hs : WF hashOf src)
    (hd : WF hashOf dst) :
    ∃ t2, tableAddAll hashOf src dst = some t2 ∧ WF hashOf t2 ∧
      ∀ k v, k ≠ 0 → (t2.Has k v ↔ src.Has k v ∨ ((∀ w, ¬ src.Has k w) ∧ dst.Has k v)) := by
  have htake : src.entries.take src.capacity = src.entries := by
    rw [List.take_of_length_le (by rw [hs.len])]
  have hpw : src.entries.Pairwise (fun a b => a.key ≠ 0 → a.key ≠ b.key) := by
    rw [List.pairwise_iff_getElem]
    intro i j hi hj hij hk heq
    have hic : i < src.capacity := by rw [← hs.len]; exact hi
    have hjc : j < src.capacity := by rw [← hs.len]; exact hj
    have e1 : src.slot i = src.entries[i] := by
      unfold slot
      rw [List.getD_eq_getElem _ _ hi]
    have e2 : src.slot j = src.entries[j] := by
      unfold slot
      rw [List.getD_eq_getElem _ _ hj]
    have := hs.distinct i j hic hjc (by rw [e1]; exact hk) (by rw [e1, e2]; exact heq)
    omega
  obtain ⟨t2, hrun, hwf2, hhas⟩ := tableAddAllLoop_spec hashOf src.entries dst hd hpw
  refine ⟨t2, by unfold tableAddAll; rw [htake]; exact hrun, hwf2, ?_⟩
  intro k v hk
  rw [hhas k v hk, has_iff_mem hashOf src hs k v]
  have hiff : (∀ e, e ∈ src.entries → e.key ≠ k) ↔ ∀ w, ¬ src.Has k w := by
    constructor
    · intro h w hw
      rw [has_iff_mem hashOf src hs k w] at hw
      exact h _ hw rfl
    · intro h e he hek
      apply h e.value
      rw [has_iff_mem hashOf src hs k e.value, ← hek]
      exact he
  rw [hiff]

end Table

namespace VM

/-- The case `OP_INHERIT` is what `step` runs on the opcode `OP_INHERIT`. -/
theorem step_OP_INHERIT (h : Host) (vm0 vm1 : VM) (frame : Nat)
    (hr : vm0.readByte frame = some (OP_INHERIT, vm1)) :
    vm0.step h frame =
      (vm1.peek 1).bind (fun superclass =>
        if !vm1.IS_CLASS superclass then
          some (ret INTERPRET_RUNTIME_ERROR (vm1.runtimeError "Superclass must be a class."))
        else
          (vm1.peek 0).bind (fun sub =>
            (vm1.methodsOf (AS_OBJ superclass)).bind (fun superMethods =>
              match vm1.deref (AS_OBJ sub) with
              | some { body := .class name methods, .. } =>
                (tableAddAll vm1.hashOf superMethods methods).bind (fun methods =>
                  ((vm1.store (AS_OBJ sub) (.class name methods)).pop).bind (fun p =>
                    some (next frame p.2)))
              | _ => none))) := by
  unfold VM.step
  rw [hr]
  rfl

theorem methodsOf_deref (vm : VM) (p : Nat) (methods : Table)
    (h : vm.methodsOf p = some methods) :
    ∃ isMarked nxt name,
      vm.deref p = some { isMarked := isMarked, next := nxt, body := .class name methods } := by
  unfold methodsOf at h
  split at h
  · rename_i isMarked nxt name m hd
    rw [← Option.some.inj h]
    exact ⟨isMarked, nxt, name, hd⟩
  · exact Option.noConfusion h

theorem methodsOf_of_deref (vm vm2 : VM) (p : Nat) (h : vm2.deref p = vm.deref p) :
    vm2.methodsOf p = vm.methodsOf p := by
  unfold methodsOf
  rw [h]

theorem hashOf_store_class (vm : VM) (p name name2 : Nat) (methods methods2 : Table)
    (isMarked : Bool) (nxt : Nat)
    (hd : vm.deref p = some { isMarked := isMarked, next := nxt, body := .class name methods }) :
    (vm.store p (.class name2 methods2)).hashOf = vm.hashOf := by
  funext key
  unfold hashOf
  by_cases hk : key = p
  · subst hk
    rw [deref_store_self vm key _ _ hd, hd]
  · rw [deref_store_ne vm p key _ hk]

theorem heap_pop (vm vm2 : VM) (v : Nat) (h : vm.pop = some (v, vm2)) :
    vm2.heap = vm.heap ∧ vm2.stack = vm.stack.dropLast ∧ vm2.err = vm.err := by
  unfold pop at h
  split at h
  · simp only [Option.some.injEq, Prod.mk.injEq] at h
    rw [← h.2]
    exact ⟨rfl, rfl, rfl⟩
  · exact Option.noConfusion h

theorem pop_of_peek (vm : VM) (v : Nat) (h : vm.peek 0 = some v) :
    ∃ vm2, vm.pop = some (v, vm2) := by
  unfold peek stackTop at h
  split at h
  · rename_i hlt
    have hne : vm.stack ≠ [] := by
      intro e
      rw [e] at hlt
      exact absurd hlt (Nat.lt_irrefl _)
    rw [List.get?_eq_getElem?, List.getElem?_eq_getElem (by omega)] at h
    have e : vm.stack.getLast hne = v := by
      rw [List.getLast_eq_getElem]
      simpa using h
    refine ⟨{ vm with stack := vm.stack.dropLast }, ?_⟩
    unfold pop
    rw [List.getLast?_eq_getLast _ hne, e]
  · exact Option.noConfusion h

theorem peek_dropLast (vm vm2 : VM) (v : Nat) (hs : vm2.stack = vm.stack.dropLast)
    (h : vm.peek 1 = some v) : vm2.peek 0 = some v := by
  unfold peek stackTop at h ⊢
  rw [hs, List.length_dropLast]
  split at h
  · rename_i hlt
    rw [if_pos (by omega)]
    rw [List.get?_eq_getElem?] at h ⊢
    rw [List.getElem?_eq_getElem (by omega)] at h
    rw [List.getElem?_eq_getElem (by rw [List.length_dropLast]; omega), List.getElem_dropLast]
    have e : vm.stack.length - 1 - 0 - 1 = vm.stack.length - 1 - 1 := by omega
    simp only [Nat.sub_zero]
    exact h
  · exact Option.noConfusion h

theorem peek_of_stack (vm vm2 : VM) (hs : vm2.stack = vm.stack) (d : Nat) :
    vm2.peek d = vm.peek d := by
  unfold peek stackTop
  rw [hs]

theorem isClass_of_heap (vm vm2 : VM) (hh : vm2.heap = vm.heap) (v : Nat) :
    vm2.IS_CLASS v = vm.IS_CLASS v := by
  unfold IS_CLASS isObjType deref
  rw [hh]

end VM

/-- A turn of `VM.step`, in which no collection starts, at `OP_INHERIT`,
with the value `superclass` at
`peek(1)` and a class at `peek(0)`.  If `superclass` is a class other than
the subclass and the method tables of both were reached from `initTable`,
the turn goes on, the stack has lost its top value and `superclass` is on
top, the method table of the superclass is unchanged, and the method table
of the subclass holds every method of the superclass with its closure and,
under the names that the superclass does not define, what it held before.
If `superclass` is not a class, the turn returns
`INTERPRET_RUNTIME_ERROR` with the report "Superclass must be a class."
and the method table of the subclass is unchanged. -/
theorem inherit_copies_methods (h : Host) (vm0 vm1 : VM) (frame superclass subclass : Nat)
    (cmethods : Table)
    (hr : vm0.readByte frame = some (OP_INHERIT, vm1))
    (hsuper : vm0.peek 1 = some superclass) (hsub : vm0.peek 0 = some subclass)
    (hcm : vm0.methodsOf (AS_OBJ subclass) = some cmethods) :
    (∀ smethods, vm0.IS_CLASS superclass = true →
      vm0.methodsOf (AS_OBJ superclass) = some smethods →
      AS_OBJ superclass ≠ AS_OBJ subclass →
      Table.Reached vm0.hashOf smethods → Table.Reached vm0.hashOf cmethods →
      ∃ vm2 methods2, vm0.step h frame = some (next frame vm2) ∧
        vm2.stack = vm0.stack.dropLast ∧ vm2.peek 0 = some superclass ∧
        vm2.hashOf = vm0.hashOf ∧
        vm2.methodsOf (AS_OBJ superclass) = some smethods ∧
        vm2.methodsOf (AS_OBJ subclass) = some methods2 ∧
        (∀ m f, m ≠ 0 → tableGet vm0.hashOf smethods m = some (some f) →
          tableGet vm0.hashOf methods2 m = some (some f)) ∧
        (∀ m, m ≠ 0 → tableGet vm0.hashOf smethods m = some none →
          tableGet vm0.hashOf methods2 m = tableGet vm0.hashOf cmethods m)) ∧
    (vm0.IS_CLASS superclass = false →
      ∃ vm2, vm0.step h frame = some (ret INTERPRET_RUNTIME_ERROR vm2) ∧
        vm2.err.map (fun r => r.message) =
          vm0.err.map (fun r => r.message) ++ ["Superclass must be a class."] ∧
        vm2.methodsOf (AS_OBJ subclass) = some cmethods) := by
  obtain ⟨hh1, _, hs1, he1⟩ := VM.readByte_same vm0 vm1 frame _ hr
  have hhash : vm1.hashOf = vm0.hashOf := VM.hashOf_of_heap vm0 vm1 hh1
  have hderef : ∀ p, vm1.deref p = vm0.deref p := deref_of_heap vm0 vm1 hh1
  have hstep := VM.step_OP_INHERIT h vm0 vm1 frame hr
  rw [VM.peek_of_stack vm0 vm1 hs1 1, hsuper, Option.some_bind,
    VM.isClass_of_heap vm0 vm1 hh1] at hstep
  constructor
  · intro smethods hclass hsm hne hrs hrc
    rw [hclass] at hstep
    simp only [Bool.not_true, Bool.false_eq_true, if_false] at hstep
    obtain ⟨isMarked, nxt, cname, hdc⟩ := VM.methodsOf_deref vm0 _ cmethods hcm
    have hws := Table.reached_wf _ _ hrs
    have hwc := Table.reached_wf _ _ hrc
    obtain ⟨methods2, hadd, hwf2, hhas⟩ := Table.tableAddAll_spec vm0.hashOf smethods cmethods hws hwc
    rw [VM.peek_of_stack vm0 vm1 hs1 0, hsub, Option.some_bind,
      VM.methodsOf_of_deref vm0 vm1 _ (hderef _), hsm, Option.some_bind, hderef, hdc] at hstep
    dsimp only at hstep
    rw [hhash, hadd, Option.some_bind] at hstep
    have hpk : (vm1.store (AS_OBJ subclass) (.class cname methods2)).peek 0 = some subclass := by
      rw [VM.peek_of_stack vm1 _ (VM.stack_store _ _ _) 0, VM.peek_of_stack vm0 vm1 hs1 0]
      exact hsub
    obtain ⟨vm2, hpop⟩ := VM.pop_of_peek _ _ hpk
    rw [hpop, Option.some_bind] at hstep
    obtain ⟨hh2, hs2, _⟩ := VM.heap_pop _ _ _ hpop
    have hd1 : vm1.deref (AS_OBJ subclass) = some
        { isMarked := isMarked, next := nxt, body := .class cname cmethods } := by
      rw [hderef]
      exact hdc
    have hstack : vm2.stack = vm0.stack.dropLast := by
      rw [hs2, VM.stack_store, hs1]
    refine ⟨vm2, methods2, hstep, hstack, VM.peek_dropLast vm0 vm2 superclass hstack hsuper,
      ?_, ?_, ?_, ?_, ?_⟩
    · rw [VM.hashOf_of_heap _ vm2 hh2, VM.hashOf_store_class vm1 _ cname cname cmethods methods2
        isMarked nxt hd1]
      exact hhash
    · rw [VM.methodsOf_of_deref _ vm2 _ (deref_of_heap _ vm2 hh2 _),
        VM.methodsOf_of_deref vm1 _ _ (VM.deref_store_ne vm1 _ _ _ hne),
        VM.methodsOf_of_deref vm0 vm1 _ (hderef _)]
      exact hsm
    · rw [VM.methodsOf_of_deref _ vm2 _ (deref_of_heap _ vm2 hh2 _)]
      unfold VM.methodsOf
      rw [VM.deref_store_self vm1 _ _ _ hd1]
    · intro m f hm hg
      rw [Table.tableGet_some_iff _ _ _ _ hws hm] at hg
      rw [Table.tableGet_some_iff _ _ _ _ hwf2 hm, hhas m f hm]
      exact Or.inl hg
    · intro m hm hg
      rw [Table.tableGet_none_iff _ _ _ hws hm] at hg
      have hnone : ∀ w, ¬ smethods.Has m w := by
        rintro w ⟨i, hi, hv⟩
        exact hg i hi (by rw [hv])
      apply Table.tableGet_congr vm0.hashOf cmethods methods2 m hwc hwf2 hm
      intro v
      rw [hhas m v hm]
      constructor
      · rintro (h1 | h1)
        · exact absurd h1 (hnone v)
        · exact h1.2
      · intro h1
        exact Or.inr ⟨hnone, h1⟩
  · intro hclass
    rw [hclass] at hstep
    simp only [Bool.not_false, if_true] at hstep
    refine ⟨_, hstep, ?_, ?_⟩
    · unfold VM.runtimeError VM.resetStack
      simp only [List.map_append, List.map_cons, List.map_nil, he1]
    · rw [VM.methodsOf_of_deref vm0 _ _ (by
        unfold VM.runtimeError VM.resetStack VM.deref
        dsimp only
        rw [hh1])]
      exact hcm

/-- An instance of `inherit_copies_methods`: `OP_INHERIT` with the class `S`, whose one method `m` is
the closure 3, below the class `C`, which has no method. -/
theorem inherit_copies_methods_witness :
    inheritVM.peek 1 = some (OBJ_VAL 4) ∧ inheritVM.peek 0 = some (OBJ_VAL 5) ∧
    inheritVM.IS_CLASS (OBJ_VAL 4) = true ∧
    tableGet inheritVM.hashOf initTable 1 = some none ∧
    ∃ vm2 methods2, inheritVM.step quietHost 0 = some (next 0 vm2) ∧
      vm2.stack = inheritVM.stack.dropLast ∧ vm2.peek 0 = some (OBJ_VAL 4) ∧
      vm2.methodsOf 5 = some methods2 ∧
      tableGet inheritVM.hashOf methods2 1 = some (some (OBJ_VAL 3)) := by
  have e : (inheritVM.readByte 0).map (fun p => p.1) = some OP_INHERIT := by decide!
  simp only [Option.map_eq_some', Prod.exists, exists_and_right, exists_eq_right] at e
  obtain ⟨vm1, hr⟩ := e
  have hm : ∃ smethods, inheritVM.methodsOf (AS_OBJ (OBJ_VAL 4)) = some smethods ∧
      tableSet inheritVM.hashOf initTable 1 (OBJ_VAL 3) = some (true, smethods) ∧
      tableGet inheritVM.hashOf smethods 1 = some (some (OBJ_VAL 3)) :=
    ⟨inheritMethods, by decide!, by decide!, by decide!⟩
  obtain ⟨smethods, hsm, hset, hget⟩ := hm
  obtain ⟨vm2, methods2, hstep, hstack, hpeek, _, _, hcm, hcopy, _⟩ :=
    (inherit_copies_methods quietHost inheritVM vm1 0 (OBJ_VAL 4) (OBJ_VAL 5) initTable hr
      (by decide!) (by decide!) (by decide!)).1 smethods (by decide!) hsm (by decide)
      (Table.Reached.set initTable _ 1 (OBJ_VAL 3) true Table.Reached.init (by decide) hset)
      Table.Reached.init
  exact ⟨by decide!, by decide!, by decide!, by decide!, vm2, methods2, hstep, hstack, hpeek,
    hcm, hcopy 1 (OBJ_VAL 3) (by decide) hget⟩

namespace VM

theorem peek_split (vm : VM) (distance value : Nat) (h : vm.peek distance = some value) :
    ∃ base args, vm.stack = base ++ value :: args ∧ args.length = distance := by
  unfold peek stackTop at h
  split at h
  · rename_i hlt
    rw [List.get?_eq_getElem?, List.getElem?_eq_getElem (by omega)] at h
    refine ⟨vm.stack.take (vm.stack.length - 1 - distance),
      vm.stack.drop (vm.stack.length - 1 - distance + 1), ?_, ?_⟩
    · rw [← Option.some.inj h, ← List.drop_eq_getElem_cons, List.take_append_drop]
    · rw [List.length_drop]
      omega
  · exact Option.noConfusion h

theorem peek_append (vm : VM) (base args : List Nat) (value : Nat)
    (h : vm.stack = base ++ value :: args) : vm.peek args.length = some value := by
  unfold peek stackTop
  rw [h]
  simp only [List.length_append, List.length_cons]
  rw [if_pos (by omega), List.get?_eq_getElem?]
  have e : base.length + (args.length + 1) - 1 - args.length = base.length := by omega
  rw [e, List.getElem?_append_right (Nat.le_refl _)]
  simp

theorem poke_append (vm : VM) (base args : List Nat) (old value : Nat)
    (h : vm.stack = base ++ old :: args) :
    vm.poke args.length value = some { vm with stack := base ++ value :: args } := by
  unfold poke stackTop
  rw [h]
  simp only [List.length_append, List.length_cons]
  rw [if_pos (by omega)]
  have e : base.length + (args.length + 1) - 1 - args.length = base.length := by omega
  rw [e]
  simp

/-- Pushing onto a stack that has room below its capacity. -/
theorem foldl_push (args : List Nat) : ∀ (vm : VM),
    vm.stack.length + args.length ≤ vm.stackCapacity →
    args.foldl VM.push vm = { vm with stack := vm.stack ++ args } := by
  induction args with
  | nil =>
    intro vm _
    simp
  | cons a rest ih =>
    intro vm hcap
    simp only [List.length_cons] at hcap
    have hp : vm.push a = { vm with stack := vm.stack ++ [a] } := by
      unfold push stackTop
      have hne : (vm.stack.length == vm.stackCapacity) = false := by
        rw [beq_eq_false_iff_ne]
        omega
      simp only [hne, Bool.false_eq_true, if_false]
    rw [List.foldl_cons, hp, ih _ (by simp only [List.length_append, List.length_singleton]; omega)]
    simp

/-- What an object allocated last leaves of the other pointers. -/
theorem deref_allocateObject_far (vm : VM) (body : ObjBody) (q : Nat)
    (hq : vm.heap.length < q) :
    vm.deref q = none ∧
      ((vm.allocateObject body).2.deref q = none ∨
        (vm.allocateObject body).2.deref q =
          some { isMarked := false, next := vm.objects, body := body }) := by
  constructor
  · unfold deref
    rw [if_neg (by simp; omega), List.get?_eq_getElem?]
    exact List.getElem?_eq_none (by omega)
  · by_cases h1 : q = vm.heap.length + 1
    · right
      rw [h1]
      exact deref_allocateObject_new vm body
    · left
      unfold allocateObject deref
      dsimp only
      rw [if_neg (by simp; omega), List.get?_eq_getElem?]
      exact List.getElem?_eq_none (by simp; omega)

theorem closureOf_bound (vm : VM) (receiver method q : Nat) :
    (vm.allocateObject (.boundMethod receiver method)).2.closureOf q = vm.closureOf q := by
  unfold closureOf
  by_cases hq : q ≤ vm.heap.length
  · rw [deref_allocateObject_old vm _ q hq]
  · obtain ⟨h1, h2 | h2⟩ := deref_allocateObject_far vm (.boundMethod receiver method) q (by omega)
    · rw [h1, h2]
    · rw [h1, h2]

theorem arityOf_bound (vm : VM) (receiver method q : Nat) :
    (vm.allocateObject (.boundMethod receiver method)).2.arityOf q = vm.arityOf q := by
  unfold arityOf
  by_cases hq : q ≤ vm.heap.length
  · rw [deref_allocateObject_old vm _ q hq]
  · obtain ⟨h1, h2 | h2⟩ := deref_allocateObject_far vm (.boundMethod receiver method) q (by omega)
    · rw [h1, h2]
    · rw [h1, h2]

theorem chunkOf_bound (vm : VM) (receiver method q : Nat) :
    (vm.allocateObject (.boundMethod receiver method)).2.chunkOf q = vm.chunkOf q := by
  unfold chunkOf
  by_cases hq : q ≤ vm.heap.length
  · rw [deref_allocateObject_old vm _ q hq]
  · obtain ⟨h1, h2 | h2⟩ := deref_allocateObject_far vm (.boundMethod receiver method) q (by omega)
    · rw [h1, h2]
    · rw [h1, h2]

theorem nameOf_bound (vm : VM) (receiver method q : Nat) :
    (vm.allocateObject (.boundMethod receiver method)).2.nameOf q = vm.nameOf q := by
  unfold nameOf
  by_cases hq : q ≤ vm.heap.length
  · rw [deref_allocateObject_old vm _ q hq]
  · obtain ⟨h1, h2 | h2⟩ := deref_allocateObject_far vm (.boundMethod receiver method) q (by omega)
    · rw [h1, h2]
    · rw [h1, h2]

theorem traceLine_bound (vm : VM) (receiver method i : Nat) :
    (vm.allocateObject (.boundMethod receiver method)).2.traceLine i = vm.traceLine i := by
  unfold traceLine
  simp only [closureOf_bound, chunkOf_bound, nameOf_bound]
  rfl

theorem runtimeError_bound (vm : VM) (receiver method : Nat) (message : String) :
    (vm.allocateObject (.boundMethod receiver method)).2.runtimeError message =
      ((vm.runtimeError message).allocateObject (.boundMethod receiver method)).2 := by
  have ht : ∀ i, (vm.allocateObject (.boundMethod receiver method)).2.traceLine i =
      vm.traceLine i := traceLine_bound vm receiver method
  unfold runtimeError
  simp only [ht]
  rfl

theorem callWith_bound (vm : VM) (receiver method closure arity argCount : Nat) :
    (vm.allocateObject (.boundMethod receiver method)).2.callWith closure arity argCount =
      (vm.callWith closure arity argCount).map
        (fun r => (r.1, (r.2.allocateObject (.boundMethod receiver method)).2)) := by
  unfold callWith
  split
  · rw [runtimeError_bound]
    rfl
  · have e : (vm.allocateObject (.boundMethod receiver method)).2.frameCount = vm.frameCount := rfl
    have e2 : (vm.allocateObject (.boundMethod receiver method)).2.stackTop = vm.stackTop := rfl
    rw [e, e2]
    split
    · rw [runtimeError_bound]
      rfl
    · split
      · rfl
      · rfl

theorem call_bound (vm : VM) (receiver method closure argCount : Nat) :
    (vm.allocateObject (.boundMethod receiver method)).2.call closure argCount =
      (vm.call closure argCount).map
        (fun r => (r.1, (r.2.allocateObject (.boundMethod receiver method)).2)) := by
  unfold call
  simp only [Option.bind_eq_bind, closureOf_bound, arityOf_bound]
  cases vm.closureOf closure with
  | none => rfl
  | some c =>
    simp only [Option.some_bind]
    cases vm.arityOf c.1 with
    | none => rfl
    | some arity =>
      simp only [Option.some_bind]
      exact callWith_bound vm receiver method closure arity argCount

theorem callWith_heap (vm vm2 : VM) (closure arity argCount : Nat) (ok : Bool)
    (h : vm.callWith closure arity argCount = some (ok, vm2)) :
    vm2.heap = vm.heap ∧ vm2.objects = vm.objects := by
  unfold callWith at h
  split at h
  · simp only [Option.some.injEq, Prod.mk.injEq] at h
    rw [← h.2]
    exact ⟨rfl, rfl⟩
  · split at h
    · simp only [Option.some.injEq, Prod.mk.injEq] at h
      rw [← h.2]
      exact ⟨rfl, rfl⟩
    · split at h
      · exact Option.noConfusion h
      · simp only [Option.some.injEq, Prod.mk.injEq] at h
        rw [← h.2]
        exact ⟨rfl, rfl⟩

theorem call_heap (vm vm2 : VM) (closure argCount : Nat) (ok : Bool)
    (h : vm.call closure argCount = some (ok, vm2)) :
    vm2.heap = vm.heap ∧ vm2.objects = vm.objects := by
  unfold call at h
  simp only [Option.bind_eq_bind, Option.bind_eq_some] at h
  obtain ⟨c, _, arity, _, hw⟩ := h
  exact callWith_heap vm vm2 _ _ _ ok hw

end VM

namespace VM

/-- The successful branch of `bindMethod`, with the receiver on top of a
stack that has room below its capacity. -/
theorem bindMethod_bound (vm : VM) (base : List Nat) (klass name receiver method : Nat)
    (methods : Table) (hstack : vm.stack = base ++ [receiver])
    (hmethods : vm.methodsOf klass = some methods)
    (hmethod : tableGet vm.hashOf methods name = some (some method))
    (hcap : base.length < vm.stackCapacity) :
    vm.bindMethod klass name =
      some (true, { (vm.allocateObject (.boundMethod receiver (AS_OBJ method))).2 with
                      stack := base ++ [OBJ_VAL (vm.heap.length + 1)] }) := by
  have hpeek : vm.peek 0 = some receiver := peek_append vm base [] receiver hstack
  have hpop : (vm.newBoundMethod receiver (AS_OBJ method)).2.pop =
      some (receiver, { (vm.allocateObject (.boundMethod receiver (AS_OBJ method))).2 with
                          stack := base }) := by
    unfold pop newBoundMethod allocateObject
    dsimp only
    rw [hstack]
    simp
  unfold bindMethod
  simp only [Option.bind_eq_bind, hmethods, Option.some_bind, hmethod, hpeek, hpop,
    Option.pure_def]
  unfold push stackTop newBoundMethod allocateObject
  dsimp only
  have hne : (base.length == vm.stackCapacity) = false := by
    rw [beq_eq_false_iff_ne]
    omega
  simp only [hne, Bool.false_eq_true, if_false]

/-- The case `OBJ_BOUND_METHOD` of `callValue`. -/
theorem callValue_bound (h : Host) (vm : VM) (base args : List Nat) (bound receiver method : Nat)
    (isMarked : Bool) (nxt : Nat)
    (hstack : vm.stack = base ++ OBJ_VAL bound :: args) (hb : bound < 2 ^ 50)
    (hd : vm.deref bound =
      some { isMarked := isMarked, next := nxt, body := .boundMethod receiver method }) :
    vm.callValue h (OBJ_VAL bound) args.length =
      VM.call { vm with stack := base ++ receiver :: args } method args.length := by
  have hp : AS_OBJ (OBJ_VAL bound) = bound := by
    rw [AS_OBJ_eq, OBJ_VAL_eq bound hb]
    omega
  unfold callValue
  rw [if_pos (isObj_OBJ_VAL bound), hp, hd]
  dsimp only
  rw [poke_append vm base args (OBJ_VAL bound) receiver hstack]
  rfl

end VM

/-- C33: `invoke(name, argCount)` on a stack that holds an instance and,
above it, `argCount` arguments, when the instance has no field `name` and
its class has the method `name`.  `invoke` is the call of the method
closure with the receiver in the slot of the callee; it allocates nothing.
The slow path, `bindMethod` on the receiver, the arguments pushed again and
`callValue` on the bound method, gives the same answer and the same VM
except for the `ObjBoundMethod` it has allocated: the new call frame, the
stack and the error report of a wrong number of arguments or of a stack
overflow are the same.  The stack is within its capacity and the new
pointer fits the 50 bits of a NaN-boxed pointer. -/
theorem invoke_bypasses_bound_method (h : Host) (vm : VM)
    (name argCount receiver klass method : Nat) (fields methods : Table)
    (hrecv : vm.peek argCount = some receiver)
    (hisinst : vm.IS_INSTANCE receiver = true)
    (hinst : vm.instanceOf (AS_OBJ receiver) = some (klass, fields))
    (hfield : tableGet vm.hashOf fields name = some none)
    (hmethods : vm.methodsOf klass = some methods)
    (hmethod : tableGet vm.hashOf methods name = some (some method))
    (hcap : vm.stack.length ≤ vm.stackCapacity)
    (hheap : vm.heap.length + 1 < 2 ^ 50) :
    vm.invoke h name argCount = vm.call (AS_OBJ method) argCount ∧
    vm.invokeSlow h name argCount =
      (vm.invoke h name argCount).map (fun r =>
        (r.1, (r.2.allocateObject (.boundMethod receiver (AS_OBJ method))).2)) ∧
    (∀ ok vm2, vm.invoke h name argCount = some (ok, vm2) →
      vm2.heap = vm.heap ∧ vm2.objects = vm.objects) ∧
    (∀ ok vm2, vm.invokeSlow h name argCount = some (ok, vm2) →
      vm2.heap = vm.heap ++ [{ isMarked := false, next := vm.objects,
                               body := .boundMethod receiver (AS_OBJ method) }] ∧
      vm2.objects = vm.heap.length + 1) := by
  have hfast : vm.invoke h name argCount = vm.call (AS_OBJ method) argCount := by
    unfold VM.invoke
    simp only [Option.bind_eq_bind, hrecv, Option.some_bind, hisinst, Bool.not_true,
      Bool.false_eq_true, if_false, hinst, hfield]
    unfold VM.invokeFromClass
    simp only [Option.bind_eq_bind, hmethods, Option.some_bind, hmethod]
  have hheapOf : ∀ ok vm2, vm.invoke h name argCount = some (ok, vm2) →
      vm2.heap = vm.heap ∧ vm2.objects = vm.objects := by
    intro ok vm2 hi
    rw [hfast] at hi
    exact VM.call_heap vm vm2 _ _ ok hi
  obtain ⟨base, args, hstack, hlen⟩ := VM.peek_split vm argCount receiver hrecv
  subst hlen
  have hlength : vm.stack.length = base.length + (args.length + 1) := by
    rw [hstack]
    simp only [List.length_append, List.length_cons]
  have htake : vm.stack.take (vm.stackTop - args.length) = base ++ [receiver] := by
    unfold VM.stackTop
    have e : vm.stack.length - args.length = (base ++ [receiver]).length := by
      rw [hlength]
      simp only [List.length_append, List.length_cons, List.length_nil]
      omega
    rw [e, hstack, List.append_cons base receiver args]
    exact List.take_left _ _
  have hdrop : vm.stack.drop (vm.stackTop - args.length) = args := by
    unfold VM.stackTop
    have e : vm.stack.length - args.length = (base ++ [receiver]).length := by
      rw [hlength]
      simp only [List.length_append, List.length_cons, List.length_nil]
      omega
    rw [e, hstack, List.append_cons base receiver args]
    exact List.drop_left _ _
  have hpeek : VM.peek { vm with stack := base ++ [receiver] } 0 = some receiver :=
    VM.peek_append _ base [] receiver rfl
  have hinst2 : VM.instanceOf { vm with stack := base ++ [receiver] } (AS_OBJ receiver) =
      some (klass, fields) := hinst
  have hbind : VM.bindMethod { vm with stack := base ++ [receiver] } klass name =
      some (true, { vm with stack := base ++ [OBJ_VAL (vm.heap.length + 1)],
                            heap := vm.heap ++ [⟨false, vm.objects, .boundMethod receiver (AS_OBJ method)⟩],
                            objects := vm.heap.length + 1 }) :=
    VM.bindMethod_bound { vm with stack := base ++ [receiver] } base klass name
      receiver method methods rfl hmethods hmethod (by show base.length < vm.stackCapacity; omega)
  have hpush : args.foldl VM.push
      { vm with stack := base ++ [OBJ_VAL (vm.heap.length + 1)],
                heap := vm.heap ++ [⟨false, vm.objects, .boundMethod receiver (AS_OBJ method)⟩],
                objects := vm.heap.length + 1 } =
      { vm with stack := base ++ OBJ_VAL (vm.heap.length + 1) :: args,
                heap := vm.heap ++ [⟨false, vm.objects, .boundMethod receiver (AS_OBJ method)⟩],
                objects := vm.heap.length + 1 } := by
    rw [VM.foldl_push args _ (by
      show (base ++ [OBJ_VAL (vm.heap.length + 1)]).length + args.length ≤ vm.stackCapacity
      simp only [List.length_append, List.length_cons, List.length_nil]
      omega)]
    simp
  have hcall := VM.callValue_bound h
    { vm with stack := base ++ OBJ_VAL (vm.heap.length + 1) :: args,
              heap := vm.heap ++ [⟨false, vm.objects, .boundMethod receiver (AS_OBJ method)⟩],
              objects := vm.heap.length + 1 }
    base args (vm.heap.length + 1) receiver (AS_OBJ method) false vm.objects rfl (by omega)
    (VM.deref_allocateObject_new vm _)
  have hslow : vm.invokeSlow h name args.length =
      (vm.allocateObject (.boundMethod receiver (AS_OBJ method))).2.call (AS_OBJ method)
        args.length := by
    unfold VM.invokeSlow
    simp only [Option.bind_eq_bind, htake, hdrop, hpeek, Option.some_bind, hinst2]
    rw [hbind]
    simp only [Option.some_bind, Bool.not_true, Bool.false_eq_true, if_false]
    rw [hpush, VM.peek_append _ base args (OBJ_VAL (vm.heap.length + 1)) rfl]
    simp only [Option.some_bind]
    rw [hcall, ← hstack]
    rfl
  have hrel : vm.invokeSlow h name args.length =
      (vm.invoke h name args.length).map (fun r =>
        (r.1, (r.2.allocateObject (.boundMethod receiver (AS_OBJ method))).2)) := by
    rw [hslow, hfast]
    exact VM.call_bound vm receiver (AS_OBJ method) (AS_OBJ method) args.length
  refine ⟨hfast, hrel, hheapOf, ?_⟩
  intro ok vm2 hs
  rw [hrel] at hs
  simp only [Option.map_eq_some', Prod.mk.injEq, Prod.exists] at hs
  obtain ⟨ok2, vm3, hi, _, hvm⟩ := hs
  obtain ⟨hh, ho⟩ := hheapOf ok2 vm3 hi
  rw [← hvm]
  unfold VM.allocateObject
  dsimp only
  rw [hh, ho]
  exact ⟨rfl, rfl⟩

/-- C33, witness: the call of the method `m` of an instance, without
arguments. -/
theorem invoke_bypasses_bound_method_witness :
    invokeVM.peek 0 = some (OBJ_VAL 5) ∧
    (invokeVM.invoke quietHost 1 0).map
      (fun r => (r.1, r.2.frameCount, r.2.stack, r.2.heap.length)) =
        some (true, 2, [OBJ_VAL 3, OBJ_VAL 5], 5) ∧
    (invokeVM.invokeSlow quietHost 1 0).map
      (fun r => (r.1, r.2.frameCount, r.2.stack, r.2.heap.length)) =
        some (true, 2, [OBJ_VAL 3, OBJ_VAL 5], 6) ∧
    invokeVM.invokeSlow quietHost 1 0 =
      (invokeVM.invoke quietHost 1 0).map (fun r =>
        (r.1, (r.2.allocateObject (.boundMethod (OBJ_VAL 5) (AS_OBJ (OBJ_VAL 3)))).2)) :=
  ⟨by decide!, by decide!, by decide!,
    (invoke_bypasses_bound_method quietHost invokeVM 1 0 (OBJ_VAL 5) 4 (OBJ_VAL 3) initTable
      inheritMethods (by decide!) (by decide!) (by decide!) (by decide!) (by decide!)
      (by decide!) (by decide!) (by decide!)).2.1⟩

namespace Scanner

theorem charAt_of_ge (s : Scanner) (h : s.source.length ≤ s.current) : s.charAt 0 = 0 := by
  unfold charAt
  exact List.getD_eq_default _ _ (by omega)

theorem lt_of_peek (s : Scanner) (h : s.peek ≠ 0) : s.current < s.source.length := by
  by_contra hge
  exact h (charAt_of_ge s (by omega))

theorem lt_of_isAtEnd (s : Scanner) (h : s.isAtEnd = false) : s.current < s.source.length := by
  apply lt_of_peek
  intro e
  unfold isAtEnd at h
  unfold peek at e
  rw [e] at h
  exact absurd h (by decide)

theorem advanced_refl (s : Scanner) (hs : s.current ≤ s.source.length) : Advanced s s :=
  ⟨rfl, Nat.le_refl _, hs⟩

theorem advanced_trans (s t u : Scanner) (h1 : Advanced s t) (h2 : Advanced t u) :
    Advanced s u := by
  obtain ⟨a1, a2, a3⟩ := h1
  obtain ⟨b1, b2, b3⟩ := h2
  exact ⟨b1.trans a1, Nat.le_trans a2 b2, by rw [← a1]; exact b3⟩

/-- Moving `current` by one character while a character is left. -/
theorem advanced_step (s t u : Scanner) (_ : s.current < s.source.length)
    (hsrc : t.source = s.source) (hcur : t.current = s.current + 1) (h : Advanced t u) :
    Advanced s u ∧ s.current < u.current := by
  obtain ⟨b1, b2, b3⟩ := h
  exact ⟨⟨b1.trans hsrc, by omega, by rw [← hsrc]; exact b3⟩, by omega⟩

theorem skipComment_advanced : ∀ (fuel : Nat) (s : Scanner), s.current ≤ s.source.length →
    Advanced s (skipComment fuel s)
  | 0, s, hs => advanced_refl s hs
  | fuel + 1, s, hs => by
    unfold skipComment
    split
    · rename_i hc
      simp only [Bool.and_eq_true, Bool.not_eq_true'] at hc
      have hlt := lt_of_isAtEnd s hc.2
      exact (advanced_step s (s.advance).2 _ hlt rfl rfl
        (skipComment_advanced fuel _ (Nat.succ_le_of_lt hlt))).1
    · exact advanced_refl s hs

theorem stringLoop_advanced : ∀ (fuel : Nat) (s : Scanner), s.current ≤ s.source.length →
    Advanced s (stringLoop fuel s)
  | 0, s, hs => advanced_refl s hs
  | fuel + 1, s, hs => by
    unfold stringLoop
    split
    · rename_i hc
      simp only [Bool.and_eq_true, Bool.not_eq_true'] at hc
      have hlt := lt_of_isAtEnd s hc.2
      refine (advanced_step s _ _ hlt ?_ ?_ (stringLoop_advanced fuel _ ?_)).1
      · split <;> rfl
      · split <;> rfl
      · split <;> exact Nat.succ_le_of_lt hlt
    · exact advanced_refl s hs

theorem isDigit_pos (c : Nat) (h : isDigit c = true) : c ≠ 0 := by
  intro e
  rw [e] at h
  exact absurd h (by decide)

theorem isAlpha_pos (c : Nat) (h : isAlpha c = true) : c ≠ 0 := by
  intro e
  rw [e] at h
  exact absurd h (by decide)

theorem digits_advanced : ∀ (fuel : Nat) (s : Scanner), s.current ≤ s.source.length →
    Advanced s (digits fuel s)
  | 0, s, hs => advanced_refl s hs
  | fuel + 1, s, hs => by
    unfold digits
    split
    · rename_i hc
      have hlt := lt_of_peek s (isDigit_pos _ hc)
      exact (advanced_step s (s.advance).2 _ hlt rfl rfl
        (digits_advanced fuel _ (Nat.succ_le_of_lt hlt))).1
    · exact advanced_refl s hs

theorem identifierLoop_advanced : ∀ (fuel : Nat) (s : Scanner), s.current ≤ s.source.length →
    Advanced s (identifierLoop fuel s)
  | 0, s, hs => advanced_refl s hs
  | fuel + 1, s, hs => by
    unfold identifierLoop
    split
    · rename_i hc
      simp only [Bool.or_eq_true] at hc
      have hlt : s.current < s.source.length := by
        rcases hc with hc | hc
        · exact lt_of_peek s (isAlpha_pos _ hc)
        · exact lt_of_peek s (isDigit_pos _ hc)
      exact (advanced_step s (s.advance).2 _ hlt rfl rfl
        (identifierLoop_advanced fuel _ (Nat.succ_le_of_lt hlt))).1
    · exact advanced_refl s hs

theorem peek_of_beq (s : Scanner) (c : Char) (h : (s.peek == ch c) = true) (hc : ch c ≠ 0) :
    s.current < s.source.length := by
  apply lt_of_peek
  rw [beq_iff_eq] at h
  rw [h]
  exact hc

theorem skipWhitespaceLoop_advanced : ∀ (fuel : Nat) (s : Scanner),
    s.current ≤ s.source.length → Advanced s (skipWhitespaceLoop fuel s)
  | 0, s, hs => advanced_refl s hs
  | fuel + 1, s, hs => by
    unfold skipWhitespaceLoop
    dsimp only
    split
    · rename_i hc
      have hlt := peek_of_beq s _ hc (by decide)
      refine (advanced_step s _ _ hlt ?_ ?_ (skipWhitespaceLoop_advanced fuel _ ?_)).1
      · rfl
      · rfl
      · exact Nat.succ_le_of_lt hlt
    · split
      · rename_i hc
        simp only [Bool.or_eq_true] at hc
        have hlt : s.current < s.source.length := by
          rcases hc with hc | hc
          · exact peek_of_beq s _ hc (by decide)
          · exact peek_of_beq s _ hc (by decide)
        refine (advanced_step s _ _ hlt ?_ ?_ (skipWhitespaceLoop_advanced fuel _ ?_)).1
        · rfl
        · rfl
        · exact Nat.succ_le_of_lt hlt
      · split
        · rename_i hc
          have hlt := peek_of_beq s _ hc (by decide)
          refine (advanced_step s _ _ hlt ?_ ?_ (skipWhitespaceLoop_advanced fuel _ ?_)).1
          · rfl
          · rfl
          · exact Nat.succ_le_of_lt hlt
        · split
          · split
            · have h1 := skipComment_advanced (s.source.length + 1) s hs
              exact advanced_trans _ _ _ h1 (skipWhitespaceLoop_advanced fuel _ (by
                rw [h1.1]
                exact h1.2.2))
            · exact advanced_refl s hs
          · exact advanced_refl s hs

end Scanner

namespace Scanner

theorem skipComment_fuel : ∀ (fuel fuel2 : Nat) (s : Scanner),
    s.source.length - s.current < fuel → s.source.length - s.current < fuel2 →
    skipComment fuel s = skipComment fuel2 s
  | 0, _, _, h, _ => absurd h (Nat.not_lt_zero _)
  | _ + 1, 0, _, _, h => absurd h (Nat.not_lt_zero _)
  | fuel + 1, fuel2 + 1, s, h, h2 => by
    unfold skipComment
    split
    · rename_i hc
      simp only [Bool.and_eq_true, Bool.not_eq_true'] at hc
      have hlt := lt_of_isAtEnd s hc.2
      exact skipComment_fuel fuel fuel2 _
        (by show s.source.length - (s.current + 1) < fuel; omega)
        (by show s.source.length - (s.current + 1) < fuel2; omega)
    · rfl

theorem stringLoop_fuel : ∀ (fuel fuel2 : Nat) (s : Scanner),
    s.source.length - s.current < fuel → s.source.length - s.current < fuel2 →
    stringLoop fuel s = stringLoop fuel2 s
  | 0, _, _, h, _ => absurd h (Nat.not_lt_zero _)
  | _ + 1, 0, _, _, h => absurd h (Nat.not_lt_zero _)
  | fuel + 1, fuel2 + 1, s, h, h2 => by
    unfold stringLoop
    split
    · rename_i hc
      simp only [Bool.and_eq_true, Bool.not_eq_true'] at hc
      have hlt := lt_of_isAtEnd s hc.2
      apply stringLoop_fuel fuel fuel2
      · split
        · show s.source.length - (s.current + 1) < fuel
          omega
        · show s.source.length - (s.current + 1) < fuel
          omega
      · split
        · show s.source.length - (s.current + 1) < fuel2
          omega
        · show s.source.length - (s.current + 1) < fuel2
          omega
    · rfl

theorem digits_fuel : ∀ (fuel fuel2 : Nat) (s : Scanner),
    s.source.length - s.current < fuel → s.source.length - s.current < fuel2 →
    digits fuel s = digits fuel2 s
  | 0, _, _, h, _ => absurd h (Nat.not_lt_zero _)
  | _ + 1, 0, _, _, h => absurd h (Nat.not_lt_zero _)
  | fuel + 1, fuel2 + 1, s, h, h2 => by
    unfold digits
    split
    · rename_i hc
      have hlt := lt_of_peek s (isDigit_pos _ hc)
      exact digits_fuel fuel fuel2 _
        (by show s.source.length - (s.current + 1) < fuel; omega)
        (by show s.source.length - (s.current + 1) < fuel2; omega)
    · rfl

theorem identifierLoop_fuel : ∀ (fuel fuel2 : Nat) (s : Scanner),
    s.source.length - s.current < fuel → s.source.length - s.current < fuel2 →
    identifierLoop fuel s = identifierLoop fuel2 s
  | 0, _, _, h, _ => absurd h (Nat.not_lt_zero _)
  | _ + 1, 0, _, _, h => absurd h (Nat.not_lt_zero _)
  | fuel + 1, fuel2 + 1, s, h, h2 => by
    unfold identifierLoop
    split
    · rename_i hc
      simp only [Bool.or_eq_true] at hc
      have hlt : s.current < s.source.length := by
        rcases hc with hc | hc
        · exact lt_of_peek s (isAlpha_pos _ hc)
        · exact lt_of_peek s (isDigit_pos _ hc)
      exact identifierLoop_fuel fuel fuel2 _
        (by show s.source.length - (s.current + 1) < fuel; omega)
        (by show s.source.length - (s.current + 1) < fuel2; omega)
    · rfl

/-- A comment that starts at a character other than the end of the line
and the terminating NUL is left behind by `skipComment`. -/
theorem skipComment_moves (s : Scanner) (fuel : Nat)
    (hc : (s.peek != ch '\n' && !s.isAtEnd) = true) :
    (skipComment (fuel + 1) s).source = s.source ∧
      s.current < (skipComment (fuel + 1) s).current := by
  have hc2 := hc
  simp only [Bool.and_eq_true, Bool.not_eq_true'] at hc2
  have hlt := lt_of_isAtEnd s hc2.2
  unfold skipComment
  rw [if_pos hc]
  have h1 := skipComment_advanced fuel (s.advance).2 (Nat.succ_le_of_lt hlt)
  exact ⟨h1.1, Nat.lt_of_lt_of_le (Nat.lt_succ_self _) h1.2.1⟩

theorem skipWhitespaceLoop_fuel : ∀ (fuel fuel2 : Nat) (s : Scanner),
    s.source.length - s.current < fuel → s.source.length - s.current < fuel2 →
    skipWhitespaceLoop fuel s = skipWhitespaceLoop fuel2 s
  | 0, _, _, h, _ => absurd h (Nat.not_lt_zero _)
  | _ + 1, 0, _, _, h => absurd h (Nat.not_lt_zero _)
  | fuel + 1, fuel2 + 1, s, h, h2 => by
    unfold skipWhitespaceLoop
    dsimp only
    split
    · rename_i hc
      have hlt := peek_of_beq s _ hc (by decide)
      exact skipWhitespaceLoop_fuel fuel fuel2 _
        (by show s.source.length - (s.current + 1) < fuel; omega)
        (by show s.source.length - (s.current + 1) < fuel2; omega)
    · split
      · rename_i hc
        simp only [Bool.or_eq_true] at hc
        have hlt : s.current < s.source.length := by
          rcases hc with hc | hc
          · exact peek_of_beq s _ hc (by decide)
          · exact peek_of_beq s _ hc (by decide)
        exact skipWhitespaceLoop_fuel fuel fuel2 _
          (by show s.source.length - (s.current + 1) < fuel; omega)
          (by show s.source.length - (s.current + 1) < fuel2; omega)
      · split
        · rename_i hc
          have hlt := peek_of_beq s _ hc (by decide)
          exact skipWhitespaceLoop_fuel fuel fuel2 _
            (by show s.source.length - (s.current + 1) < fuel; omega)
            (by show s.source.length - (s.current + 1) < fuel2; omega)
        · split
          · rename_i hslash
            split
            · have hlt := peek_of_beq s _ hslash (by decide)
              have hcond : (s.peek != ch '\n' && !s.isAtEnd) = true := by
                rw [beq_iff_eq] at hslash
                unfold isAtEnd
                unfold peek at hslash ⊢
                rw [hslash]
                decide
              obtain ⟨hsrc, hcur⟩ := skipComment_moves s s.source.length hcond
              apply skipWhitespaceLoop_fuel fuel fuel2
              · rw [hsrc]
                omega
              · rw [hsrc]
                omega
            · rfl
          · rfl

end Scanner

namespace Scanner

theorem checkKeyword_ne (s : Scanner) (start length : Nat) (rest : String) (type : TokenType)
    (h : type ≠ TOKEN_EOF) : s.checkKeyword start length rest type ≠ TOKEN_EOF := by
  unfold checkKeyword
  split
  · exact h
  · decide

theorem ite_ne_eof (c : Prop) [Decidable c] (a b : TokenType) (ha : a ≠ TOKEN_EOF)
    (hb : b ≠ TOKEN_EOF) : (if c then a else b) ≠ TOKEN_EOF := by
  split
  · exact ha
  · exact hb

theorem identifierType_ne (s : Scanner) : s.identifierType ≠ TOKEN_EOF := by
  unfold identifierType
  dsimp only
  repeat first
    | exact checkKeyword_ne _ _ _ _ _ (by decide)
    | apply ite_ne_eof
    | decide

/-- A branch of `scanToken` that is entered after a character was consumed. -/
theorem progress_of (s a : Scanner) (r : Token × Scanner) (h1 : Advanced s a)
    (hlt : s.current < a.current) (h2 : Advanced a r.2) (hty : r.1.type ≠ TOKEN_EOF) :
    Progress s r :=
  ⟨advanced_trans _ _ _ h1 h2, fun _ => Nat.lt_of_lt_of_le hlt h2.2.1, fun e => absurd e hty⟩

theorem progress_ite (s : Scanner) (c : Prop) [Decidable c] (a b : Token × Scanner)
    (ha : Progress s a) (hb : Progress s b) : Progress s (if c then a else b) := by
  split
  · exact ha
  · exact hb

theorem progress_cases (s : Scanner) (c : Prop) [Decidable c] (a b : Token × Scanner)
    (ha : c → Progress s a) (hb : ¬ c → Progress s b) : Progress s (if c then a else b) := by
  split
  · rename_i h
    exact ha h
  · rename_i h
    exact hb h

theorem makeToken_advanced (s : Scanner) (type : TokenType) (hs : s.current ≤ s.source.length) :
    Advanced s (s.makeToken type).2 :=
  ⟨rfl, Nat.le_refl _, hs⟩

theorem matchChar_advanced (s : Scanner) (expected : Nat) (hs : s.current ≤ s.source.length) :
    Advanced s (s.matchChar expected).2 := by
  unfold matchChar
  split
  · exact advanced_refl s hs
  · rename_i he
    split
    · exact advanced_refl s hs
    · exact ⟨rfl, Nat.le_succ _, lt_of_isAtEnd s (by simpa using he)⟩

theorem makeToken2_advanced (s : Scanner) (expected : Nat) (yes no : TokenType)
    (hs : s.current ≤ s.source.length) : Advanced s (s.makeToken2 expected yes no).2 := by
  have h := matchChar_advanced s expected hs
  exact advanced_trans _ _ _ h (makeToken_advanced _ _ (by rw [h.1]; exact h.2.2))

theorem makeToken2_type (s : Scanner) (expected : Nat) (yes no : TokenType)
    (hy : yes ≠ TOKEN_EOF) (hn : no ≠ TOKEN_EOF) :
    (s.makeToken2 expected yes no).1.type ≠ TOKEN_EOF := by
  show (if (s.matchChar expected).1 = true then yes else no) ≠ TOKEN_EOF
  split
  · exact hy
  · exact hn

theorem identifier_advanced (s : Scanner) (hs : s.current ≤ s.source.length) :
    Advanced s s.identifier.2 := by
  have h := identifierLoop_advanced (s.source.length + 1) s hs
  exact advanced_trans _ _ _ h (makeToken_advanced _ _ (by rw [h.1]; exact h.2.2))

theorem number_advanced (s : Scanner) (hs : s.current ≤ s.source.length) :
    Advanced s s.number.2 := by
  have h := digits_advanced (s.source.length + 1) s hs
  have hs1 : (digits (s.source.length + 1) s).current ≤
      (digits (s.source.length + 1) s).source.length := by
    rw [h.1]
    exact h.2.2
  unfold number
  dsimp only
  split
  · rename_i hc
    simp only [Bool.and_eq_true] at hc
    have hlt := peek_of_beq _ _ hc.1 (by decide)
    have h2 := (advanced_step _ ((digits (s.source.length + 1) s).advance).2 _ hlt rfl rfl
      (digits_advanced ((digits (s.source.length + 1) s).source.length + 1) _
        (Nat.succ_le_of_lt hlt))).1
    have h3 := advanced_trans _ _ _ h h2
    exact advanced_trans _ _ _ h3 (makeToken_advanced _ _ (by rw [h3.1]; exact h3.2.2))
  · exact advanced_trans _ _ _ h (makeToken_advanced _ _ hs1)

theorem string_advanced (s : Scanner) (hs : s.current ≤ s.source.length) :
    Advanced s s.string.2 ∧ s.string.1.type ≠ TOKEN_EOF := by
  have h := stringLoop_advanced (s.source.length + 1) s hs
  unfold string
  dsimp only
  split
  · refine ⟨h, ?_⟩
    show TOKEN_ERROR ≠ TOKEN_EOF
    decide
  · rename_i he
    have hlt := lt_of_isAtEnd _ (by simpa using he)
    refine ⟨advanced_trans _ _ _ h ⟨rfl, Nat.le_succ _, hlt⟩, ?_⟩
    show TOKEN_STRING ≠ TOKEN_EOF
    decide

theorem skipWhitespace_advanced (s : Scanner) (hs : s.current ≤ s.source.length) :
    Advanced s s.skipWhitespace :=
  skipWhitespaceLoop_advanced _ s hs

/-- A call of `scanToken` from a position that is not past the terminating
NUL. -/
theorem scanToken_progress_aux (s : Scanner) (hs : s.current ≤ s.source.length) :
    Progress s s.scanToken := by
  have hw := skipWhitespace_advanced s hs
  have hw2 : Advanced s { s.skipWhitespace with start := s.skipWhitespace.current } := hw
  unfold scanToken
  dsimp only
  apply progress_cases
  · intro he
    exact ⟨hw, fun h => absurd rfl h, fun _ => ⟨Nat.sub_self _, he⟩⟩
  · intro he
    have hlt : s.skipWhitespace.current < s.skipWhitespace.source.length :=
      lt_of_isAtEnd { s.skipWhitespace with start := s.skipWhitespace.current }
        (by simpa using he)
    have ha : Advanced s ({ s.skipWhitespace with start := s.skipWhitespace.current }.advance).2 :=
      ⟨hw.1, Nat.le_succ_of_le hw.2.1, by rw [← hw.1]; exact hlt⟩
    have hcur : s.current <
        ({ s.skipWhitespace with start := s.skipWhitespace.current }.advance).2.current :=
      Nat.lt_succ_of_le hw.2.1
    have hs2 : ({ s.skipWhitespace with start := s.skipWhitespace.current }.advance).2.current ≤
        ({ s.skipWhitespace with start := s.skipWhitespace.current }.advance).2.source.length :=
      hlt
    refine progress_ite _ _ _ _
      (progress_of s _ _ ha hcur (identifier_advanced _ hs2) (identifierType_ne _)) ?_
    refine progress_ite _ _ _ _
      (progress_of s _ _ ha hcur (number_advanced _ hs2) (fun e => TokenType.noConfusion e)) ?_
    refine progress_ite _ _ _ _
      (progress_of s _ _ ha hcur (makeToken_advanced _ _ hs2) (fun e => TokenType.noConfusion e)) ?_
    refine progress_ite _ _ _ _
      (progress_of s _ _ ha hcur (makeToken_advanced _ _ hs2) (fun e => TokenType.noConfusion e)) ?_
    refine progress_ite _ _ _ _
      (progress_of s _ _ ha hcur (makeToken_advanced _ _ hs2) (fun e => TokenType.noConfusion e)) ?_
    refine progress_ite _ _ _ _
      (progress_of s _ _ ha hcur (makeToken_advanced _ _ hs2) (fun e => TokenType.noConfusion e)) ?_
    refine progress_ite _ _ _ _
      (progress_of s _ _ ha hcur (makeToken_advanced _ _ hs2) (fun e => TokenType.noConfusion e)) ?_
    refine progress_ite _ _ _ _
      (progress_of s _ _ ha hcur (makeToken_advanced _ _ hs2) (fun e => TokenType.noConfusion e)) ?_
    refine progress_ite _ _ _ _
      (progress_of s _ _ ha hcur (makeToken_advanced _ _ hs2) (fun e => TokenType.noConfusion e)) ?_
    refine progress_ite _ _ _ _
      (progress_of s _ _ ha hcur (makeToken2_advanced _ _ _ _ hs2)
        (makeToken2_type _ _ _ _ (by decide) (by decide))) ?_
    refine progress_ite _ _ _ _
      (progress_of s _ _ ha hcur (makeToken2_advanced _ _ _ _ hs2)
        (makeToken2_type _ _ _ _ (by decide) (by decide))) ?_
    refine progress_ite _ _ _ _
      (progress_of s _ _ ha hcur (makeToken_advanced _ _ hs2) (fun e => TokenType.noConfusion e)) ?_
    refine progress_ite _ _ _ _
      (progress_of s _ _ ha hcur (makeToken_advanced _ _ hs2) (fun e => TokenType.noConfusion e)) ?_
    refine progress_ite _ _ _ _
      (progress_of s _ _ ha hcur (makeToken_advanced _ _ hs2) (fun e => TokenType.noConfusion e)) ?_
    refine progress_ite _ _ _ _
      (progress_of s _ _ ha hcur (makeToken2_advanced _ _ _ _ hs2)
        (makeToken2_type _ _ _ _ (by decide) (by decide))) ?_
    refine progress_ite _ _ _ _
      (progress_of s _ _ ha hcur (makeToken2_advanced _ _ _ _ hs2)
        (makeToken2_type _ _ _ _ (by decide) (by decide))) ?_
    refine progress_ite _ _ _ _
      (progress_of s _ _ ha hcur (makeToken2_advanced _ _ _ _ hs2)
        (makeToken2_type _ _ _ _ (by decide) (by decide))) ?_
    refine progress_ite _ _ _ _
      (progress_of s _ _ ha hcur (makeToken2_advanced _ _ _ _ hs2)
        (makeToken2_type _ _ _ _ (by decide) (by decide))) ?_
    refine progress_ite _ _ _ _
      (progress_of s _ _ ha hcur (string_advanced _ hs2).1 (string_advanced _ hs2).2) ?_
    exact progress_of s _ _ ha hcur (advanced_refl _ hs2) (fun e => TokenType.noConfusion e)

/-- At the terminating NUL `scanToken` returns a `TOKEN_EOF` of length 0 and
only sets `start`. -/
theorem scanToken_atEnd (s : Scanner) (he : s.isAtEnd = true) :
    s.scanToken = ({ type := TOKEN_EOF, start := s.source.drop s.current, length := 0,
                     line := s.line, column := s.column }, { s with start := s.current }) := by
  have h0 : s.peek = 0 := by
    unfold isAtEnd at he
    exact beq_iff_eq.mp he
  have hsw : s.skipWhitespace = s := by
    unfold skipWhitespace skipWhitespaceLoop
    dsimp only
    rw [h0]
    rfl
  unfold scanToken
  dsimp only
  rw [hsw]
  have he2 : ({ s with start := s.current } : Scanner).isAtEnd = true := he
  rw [if_pos he2]
  unfold makeToken
  simp only [Nat.sub_self, Nat.add_zero]

end Scanner

theorem scanTokens_succ (k : Nat) (s : Scanner) :
    scanTokens (k + 1) s = ((scanTokens k s).scanToken).2 := by
  induction k generalizing s with
  | zero => rfl
  | succ k ih =>
    show scanTokens (k + 1) (s.scanToken).2 = _
    rw [ih]
    rfl

theorem scanTokens_advanced (k : Nat) (s : Scanner) (hs : s.current ≤ s.source.length) :
    Scanner.Advanced s (scanTokens k s) := by
  induction k generalizing s with
  | zero => exact Scanner.advanced_refl s hs
  | succ k ih =>
    have h := (Scanner.scanToken_progress_aux s hs).1
    exact Scanner.advanced_trans _ _ _ h (ih _ (by rw [h.1]; exact h.2.2))

/-- Every call after the scanner is at the terminating NUL. -/
theorem scanTokens_atEnd (j : Nat) (s : Scanner) (he : s.isAtEnd = true) :
    (scanTokens j s).isAtEnd = true ∧ (scanTokens j s).current = s.current ∧
      ((scanTokens j s).scanToken).1.type = TOKEN_EOF ∧
      ((scanTokens j s).scanToken).1.length = 0 := by
  induction j generalizing s with
  | zero =>
    show s.isAtEnd = true ∧ s.current = s.current ∧ (s.scanToken).1.type = TOKEN_EOF ∧
      (s.scanToken).1.length = 0
    rw [Scanner.scanToken_atEnd _ he]
    exact ⟨he, rfl, rfl, rfl⟩
  | succ j ih =>
    have e : scanTokens (j + 1) s = scanTokens j { s with start := s.current } := by
      show scanTokens j (s.scanToken).2 = _
      rw [Scanner.scanToken_atEnd _ he]
    rw [e]
    exact ih _ he

/-- The first `TOKEN_EOF` comes after at most as many tokens as characters
are left. -/
theorem scanTokens_first_eof (n : Nat) (s : Scanner) (hs : s.current ≤ s.source.length)
    (hn : s.source.length - s.current ≤ n) :
    ∃ k, k ≤ n ∧ (∀ j, j < k → ((scanTokens j s).scanToken).1.type ≠ TOKEN_EOF) ∧
      ((scanTokens k s).scanToken).1.type = TOKEN_EOF := by
  induction n generalizing s with
  | zero =>
    refine ⟨0, Nat.le_refl _, fun j hj => absurd hj (Nat.not_lt_zero _), ?_⟩
    by_contra hne
    have h := Scanner.scanToken_progress_aux s hs
    have h1 := h.2.1 hne
    have h2 := h.1.2.2
    omega
  | succ n ih =>
    by_cases hty : (s.scanToken).1.type = TOKEN_EOF
    · exact ⟨0, Nat.zero_le _, fun j hj => absurd hj (Nat.not_lt_zero _), hty⟩
    · have h := Scanner.scanToken_progress_aux s hs
      have h1 := h.2.1 hty
      obtain ⟨k, hk, hbefore, hat⟩ := ih (s.scanToken).2 (by rw [h.1.1]; exact h.1.2.2)
        (by rw [h.1.1]; omega)
      refine ⟨k + 1, Nat.succ_le_succ hk, ?_, hat⟩
      intro j hj
      cases j with
      | zero => exact hty
      | succ j => exact hbefore j (Nat.lt_of_succ_lt_succ hj)

theorem scanTokens_add (a b : Nat) (s : Scanner) :
    scanTokens (a + b) s = scanTokens a (scanTokens b s) := by
  induction b generalizing s with
  | zero => rfl
  | succ b ih =>
    show scanTokens (a + b) (s.scanToken).2 = scanTokens a (scanTokens b (s.scanToken).2)
    exact ih _

/-- C40: the scanner on a source that ends at its terminating NUL, from a
position that is not past the NUL.  A call of `scanToken` leaves the source
alone and moves `current` neither back nor past the NUL; if the token is not
`TOKEN_EOF`, `current` has moved by at least one character; a `TOKEN_EOF`
has length 0 and leaves the scanner at the NUL; at the NUL, `scanToken`
returns a `TOKEN_EOF` of length 0 and changes nothing but `start`.  So the
first `TOKEN_EOF` comes after at most as many tokens as characters are left
(`k` of them), and every later call returns a `TOKEN_EOF` of length 0 and
leaves the position where the first one left it.  The loops of
`skipWhitespace`, `string`, `number` and `identifier` end because their
tests fail: with more iterations allowed than `source.length + 1` they
return the same scanner. -/
theorem scanning_terminates (s : Scanner) (hs : s.current ≤ s.source.length) :
    ((s.scanToken).2.source = s.source ∧ s.current ≤ (s.scanToken).2.current ∧
      (s.scanToken).2.current ≤ s.source.length) ∧
    ((s.scanToken).1.type ≠ TOKEN_EOF → s.current + 1 ≤ (s.scanToken).2.current) ∧
    ((s.scanToken).1.type = TOKEN_EOF →
      (s.scanToken).1.length = 0 ∧ (s.scanToken).2.isAtEnd = true) ∧
    (s.isAtEnd = true →
      (s.scanToken).1.type = TOKEN_EOF ∧ (s.scanToken).1.length = 0 ∧
      (s.scanToken).2 = { s with start := s.current }) ∧
    (∃ k, k ≤ s.source.length - s.current ∧
      (∀ j, j < k → ((scanTokens j s).scanToken).1.type ≠ TOKEN_EOF) ∧
      ∀ j, k ≤ j → ((scanTokens j s).scanToken).1.type = TOKEN_EOF ∧
        ((scanTokens j s).scanToken).1.length = 0 ∧
        (scanTokens (j + 1) s).isAtEnd = true ∧
        (scanTokens (j + 1) s).current = (scanTokens (k + 1) s).current) ∧
    (∀ (t : Scanner) (fuel : Nat), t.source.length + 1 ≤ fuel →
      Scanner.skipComment fuel t = Scanner.skipComment (t.source.length + 1) t ∧
      Scanner.skipWhitespaceLoop fuel t = t.skipWhitespace ∧
      Scanner.stringLoop fuel t = Scanner.stringLoop (t.source.length + 1) t ∧
      Scanner.digits fuel t = Scanner.digits (t.source.length + 1) t ∧
      Scanner.identifierLoop fuel t = Scanner.identifierLoop (t.source.length + 1) t) := by
  have hp := Scanner.scanToken_progress_aux s hs
  refine ⟨hp.1, hp.2.1, hp.2.2, ?_, ?_, ?_⟩
  · intro he
    rw [Scanner.scanToken_atEnd s he]
    exact ⟨rfl, rfl, rfl⟩
  · obtain ⟨k, hk, hbefore, hat⟩ := scanTokens_first_eof _ s hs (Nat.le_refl _)
    refine ⟨k, hk, hbefore, ?_⟩
    have hsk := scanTokens_advanced k s hs
    have hpk := Scanner.scanToken_progress_aux (scanTokens k s) (by rw [hsk.1]; exact hsk.2.2)
    have hend : (scanTokens (k + 1) s).isAtEnd = true := by
      rw [scanTokens_succ]
      exact (hpk.2.2 hat).2
    intro j hj
    obtain ⟨d, rfl⟩ := Nat.exists_eq_add_of_le hj
    have hnext : scanTokens (k + d + 1) s = scanTokens d (scanTokens (k + 1) s) := by
      rw [← scanTokens_add]
      congr 1
      omega
    have hd := scanTokens_atEnd d _ hend
    rw [hnext]
    refine ⟨?_, ?_, hd.1, hd.2.1⟩
    · cases d with
      | zero => exact hat
      | succ d =>
        have e : scanTokens (k + (d + 1)) s = scanTokens d (scanTokens (k + 1) s) := by
          rw [← scanTokens_add]
          congr 1
          omega
        rw [e]
        exact (scanTokens_atEnd d _ hend).2.2.1
    · cases d with
      | zero => exact (hpk.2.2 hat).1
      | succ d =>
        have e : scanTokens (k + (d + 1)) s = scanTokens d (scanTokens (k + 1) s) := by
          rw [← scanTokens_add]
          congr 1
          omega
        rw [e]
        exact (scanTokens_atEnd d _ hend).2.2.2
  · intro t fuel hfuel
    exact ⟨Scanner.skipComment_fuel _ _ t (by omega) (by omega),
      Scanner.skipWhitespaceLoop_fuel _ _ t (by omega) (by omega),
      Scanner.stringLoop_fuel _ _ t (by omega) (by omega),
      Scanner.digits_fuel _ _ t (by omega) (by omega),
      Scanner.identifierLoop_fuel _ _ t (by omega) (by omega)⟩

/-- C40, witness: the source `1 +`, from its start; the first call returns
the number and the third returns `TOKEN_EOF`. -/
theorem scanning_terminates_witness :
    (initScanner (cstr "1 +")).current ≤ (initScanner (cstr "1 +")).source.length ∧
    ((initScanner (cstr "1 +")).scanToken).1.type = TOKEN_NUMBER ∧
    (initScanner (cstr "1 +")).current + 1 ≤ ((initScanner (cstr "1 +")).scanToken).2.current ∧
    ((scanTokens 2 (initScanner (cstr "1 +"))).scanToken).1.type = TOKEN_EOF :=
  ⟨by decide, by decide!,
    (scanning_terminates (initScanner (cstr "1 +")) (by decide)).2.1 (by decide!), by decide!⟩

/-! ## C25: punctuation -/

namespace Scanner

theorem identifierLoop_start : ∀ (fuel : Nat) (s : Scanner), (identifierLoop fuel s).start = s.start
  | 0, _ => rfl
  | fuel + 1, s => by
    unfold identifierLoop
    split
    · exact identifierLoop_start fuel _
    · rfl

theorem digits_start : ∀ (fuel : Nat) (s : Scanner), (digits fuel s).start = s.start
  | 0, _ => rfl
  | fuel + 1, s => by
    unfold digits
    split
    · exact digits_start fuel _
    · rfl

theorem stringLoop_start : ∀ (fuel : Nat) (s : Scanner), (stringLoop fuel s).start = s.start
  | 0, _ => rfl
  | fuel + 1, s => by
    unfold stringLoop
    split
    · rw [stringLoop_start fuel _]
      split <;> rfl
    · rfl

/-- The lexeme of a token of at least one character starts with the
character at `start`. -/
theorem head_makeToken (a : Scanner) (type : TokenType) (h1 : a.start < a.current)
    (h2 : a.start < a.source.length) :
    (a.makeToken type).1.lexeme.head? = some (a.source.getD a.start 0) := by
  unfold makeToken Token.lexeme
  dsimp only
  rw [List.head?_take, if_neg (by omega), List.head?_drop, List.getD_eq_getElem?_getD,
    List.getElem?_eq_getElem h2]
  rfl

theorem getD_drop_one (l : List Nat) (n : Nat) : (l.drop n).getD 1 0 = l.getD (n + 1) 0 := by
  rw [List.getD_eq_getElem?_getD, List.getD_eq_getElem?_getD, List.getElem?_drop]

theorem punctuation_of_not_mem (t : Token) (c : Nat) (h : c ∉ punctuationChars) :
    Punctuation t c := by
  unfold Punctuation
  refine ⟨?_, ?_, ?_, ?_, ?_, ?_, ?_, ?_, ?_, ?_, ?_⟩ <;> intro e <;>
    exact absurd (by rw [e]; decide) h

theorem not_mem_of_test (test : Nat → Bool) (c : Nat) (hc : test c = true)
    (hall : punctuationChars.all (fun k => !test k) = true) : c ∉ punctuationChars := by
  intro hm
  have h := List.all_eq_true.mp hall c hm
  rw [hc] at h
  exact absurd h (by decide)

theorem punctuationOk_other (r : Token × Scanner) (c0 : Nat)
    (hhead : r.1.lexeme.head? = some c0) (hnot : c0 ∉ punctuationChars) : PunctuationOk r := by
  intro c hc
  rw [hhead] at hc
  rw [← Option.some.inj hc]
  exact punctuation_of_not_mem _ _ hnot

theorem punctuationOk_cases (c : Prop) [Decidable c] (a b : Token × Scanner)
    (ha : c → PunctuationOk a) (hb : ¬ c → PunctuationOk b) :
    PunctuationOk (if c then a else b) := by
  split
  · rename_i h
    exact ha h
  · rename_i h
    exact hb h

theorem identifier_head (a : Scanner) (h1 : a.start < a.current)
    (h2 : a.start < a.source.length) (hs : a.current ≤ a.source.length) :
    a.identifier.1.lexeme.head? = some (a.source.getD a.start 0) := by
  have hadv := identifierLoop_advanced (a.source.length + 1) a hs
  have hst := identifierLoop_start (a.source.length + 1) a
  unfold identifier
  dsimp only
  rw [head_makeToken _ _ (by rw [hst]; exact Nat.lt_of_lt_of_le h1 hadv.2.1)
    (by rw [hst, hadv.1]; exact h2), hst, hadv.1]

theorem number_head (a : Scanner) (h1 : a.start < a.current)
    (h2 : a.start < a.source.length) (hs : a.current ≤ a.source.length) :
    a.number.1.lexeme.head? = some (a.source.getD a.start 0) := by
  have hadv := number_advanced a hs
  have hst : a.number.2.start = a.start := by
    unfold number
    dsimp only
    split
    · show (digits _ _).start = _
      rw [digits_start]
      show (digits _ a).start = _
      exact digits_start _ a
    · show (digits _ a).start = _
      exact digits_start _ a
  have e : a.number.1.lexeme.head? =
      (a.number.2.source.drop a.number.2.start).head? := by
    unfold number
    dsimp only
    unfold makeToken Token.lexeme
    dsimp only
    rw [List.head?_take, if_neg]
    have h3 := hadv.2.1
    have h4 := hst
    unfold number at h3 h4
    dsimp only at h3 h4
    unfold makeToken at h3 h4
    dsimp only at h3 h4
    omega
  rw [e, hst, hadv.1, List.head?_drop, List.getD_eq_getElem?_getD, List.getElem?_eq_getElem h2]
  rfl

end Scanner

namespace Scanner

theorem string_punctuationOk (a : Scanner) (h1 : a.start < a.current)
    (h2 : a.start < a.source.length) (hs : a.current ≤ a.source.length)
    (hc0 : a.source.getD a.start 0 ∉ punctuationChars) : PunctuationOk a.string := by
  have hadv := stringLoop_advanced (a.source.length + 1) a hs
  have hst := stringLoop_start (a.source.length + 1) a
  unfold string
  dsimp only
  apply punctuationOk_cases
  · intro _
    exact punctuationOk_other _ (ch 'U') rfl (by decide)
  · intro _
    refine punctuationOk_other _ _ (head_makeToken _ _ ?_ ?_) ?_
    · show (stringLoop _ a).start < (stringLoop _ a).current + 1
      rw [hst]
      exact Nat.lt_succ_of_lt (Nat.lt_of_lt_of_le h1 hadv.2.1)
    · show (stringLoop _ a).start < (stringLoop _ a).source.length
      rw [hst, hadv.1]
      exact h2
    · show (stringLoop _ a).source.getD (stringLoop _ a).start 0 ∉ punctuationChars
      rw [hst, hadv.1]
      exact hc0

/-- The two results of `makeToken(match(expected) ? yes : no)` after one
character. -/
theorem makeToken2_cases (a : Scanner) (expected : Nat) (yes no : TokenType)
    (h1 : a.current = a.start + 1) (h2 : a.start < a.source.length) (hexp : expected ≠ 0) :
    (a.makeToken2 expected yes no).1.lexeme.head? = some (a.source.getD a.start 0) ∧
    (((a.makeToken2 expected yes no).1.type = no ∧ (a.makeToken2 expected yes no).1.length = 1 ∧
        (a.makeToken2 expected yes no).1.start.getD 1 0 ≠ expected) ∨
      ((a.makeToken2 expected yes no).1.type = yes ∧
        (a.makeToken2 expected yes no).1.length = 2 ∧
        (a.makeToken2 expected yes no).1.start.getD 1 0 = expected)) := by
  have hfollow : a.charAt 0 = (a.source.drop a.start).getD 1 0 := by
    rw [getD_drop_one]
    unfold charAt
    rw [h1]
  unfold makeToken2 matchChar
  dsimp only
  by_cases he : a.isAtEnd = true
  · rw [if_pos he]
    refine ⟨head_makeToken _ _ (by show a.start < a.current; omega) h2, Or.inl ⟨rfl, ?_, ?_⟩⟩
    · show a.current - a.start = 1
      omega
    · show (a.source.drop a.start).getD 1 0 ≠ expected
      rw [← hfollow]
      unfold isAtEnd at he
      rw [beq_iff_eq.mp he]
      exact Ne.symm hexp
  · rw [if_neg he]
    by_cases hne : (a.charAt 0 != expected) = true
    · rw [if_pos hne]
      refine ⟨head_makeToken _ _ (by show a.start < a.current; omega) h2, Or.inl ⟨rfl, ?_, ?_⟩⟩
      · show a.current - a.start = 1
        omega
      · show (a.source.drop a.start).getD 1 0 ≠ expected
        rw [← hfollow]
        simpa using hne
    · rw [if_neg hne]
      refine ⟨head_makeToken _ _ (by show a.start < a.current + 1; omega) h2,
        Or.inr ⟨rfl, ?_, ?_⟩⟩
      · show a.current + 1 - a.start = 2
        omega
      · show (a.source.drop a.start).getD 1 0 = expected
        rw [← hfollow]
        simpa using hne

theorem makeToken2_other (a : Scanner) (expected : Nat) (yes no : TokenType)
    (h1 : a.current = a.start + 1) (h2 : a.start < a.source.length) (hexp : expected ≠ 0)
    (hc0 : a.source.getD a.start 0 ∉ punctuationChars) :
    PunctuationOk (a.makeToken2 expected yes no) :=
  punctuationOk_other _ _ (makeToken2_cases a expected yes no h1 h2 hexp).1 hc0

theorem test_eq (c k : Nat) (h : (c == k) = true) : c = k := beq_iff_eq.mp h

/-- The rule for the result of `scanToken`, by the if-chain of the
function. -/
theorem scanToken_punctuationOk (s : Scanner) (hs : s.current ≤ s.source.length) :
    PunctuationOk s.scanToken := by
  have hw := skipWhitespace_advanced s hs
  unfold scanToken
  dsimp only
  apply punctuationOk_cases
  · intro _ c hc
    have e : ({ s.skipWhitespace with start := s.skipWhitespace.current }.makeToken
        TOKEN_EOF).1.lexeme = [] := by
      unfold makeToken Token.lexeme
      dsimp only
      rw [Nat.sub_self]
      rfl
    rw [e] at hc
    exact Option.noConfusion hc
  · intro he
    have hlt : s.skipWhitespace.current < s.skipWhitespace.source.length :=
      lt_of_isAtEnd { s.skipWhitespace with start := s.skipWhitespace.current }
        (by simpa using he)
    have h1 : ({ s.skipWhitespace with start := s.skipWhitespace.current }.advance).2.current =
        ({ s.skipWhitespace with start := s.skipWhitespace.current }.advance).2.start + 1 := rfl
    have h2 : ({ s.skipWhitespace with start := s.skipWhitespace.current }.advance).2.start <
        ({ s.skipWhitespace with
            start := s.skipWhitespace.current }.advance).2.source.length := hlt
    have hs2 : ({ s.skipWhitespace with start := s.skipWhitespace.current }.advance).2.current ≤
        ({ s.skipWhitespace with start := s.skipWhitespace.current }.advance).2.source.length :=
      hlt
    have h0 : ({ s.skipWhitespace with start := s.skipWhitespace.current }.advance).2.source.getD
        ({ s.skipWhitespace with start := s.skipWhitespace.current }.advance).2.start 0 =
        ({ s.skipWhitespace with start := s.skipWhitespace.current }.advance).1 := rfl
    generalize ({ s.skipWhitespace with start := s.skipWhitespace.current }.advance).2 = a
      at h1 h2 hs2 h0 ⊢
    generalize ({ s.skipWhitespace with start := s.skipWhitespace.current }.advance).1 = c0
      at h0 ⊢
    have hsingle : ∀ (type : TokenType), Punctuation (a.makeToken type).1 c0 →
        PunctuationOk (a.makeToken type) := by
      intro type hp c hc
      rw [head_makeToken a type (by omega) h2, h0] at hc
      rw [← Option.some.inj hc]
      exact hp
    have hlen : ∀ (type : TokenType), (a.makeToken type).1.length = 1 := by
      intro type
      show a.current - a.start = 1
      omega
    refine punctuationOk_cases _ _ _ (fun h => punctuationOk_other _ _
      (identifier_head a (by omega) h2 hs2)
      (by rw [h0]; exact not_mem_of_test isAlpha c0 h (by decide))) (fun _ => ?_)
    refine punctuationOk_cases _ _ _ (fun h => punctuationOk_other _ _
      (number_head a (by omega) h2 hs2)
      (by rw [h0]; exact not_mem_of_test isDigit c0 h (by decide))) (fun _ => ?_)
    refine punctuationOk_cases _ _ _ (fun h => hsingle _ (by
      rw [test_eq _ _ h]
      unfold Punctuation
      refine ⟨?_, ?_, ?_, ?_, ?_, ?_, ?_, ?_, ?_, ?_, ?_⟩ <;> intro e <;>
        first | exact absurd e (by decide) | exact ⟨rfl, hlen _⟩)) (fun _ => ?_)
    refine punctuationOk_cases _ _ _ (fun h => hsingle _ (by
      rw [test_eq _ _ h]
      unfold Punctuation
      refine ⟨?_, ?_, ?_, ?_, ?_, ?_, ?_, ?_, ?_, ?_, ?_⟩ <;> intro e <;>
        first | exact absurd e (by decide) | exact ⟨rfl, hlen _⟩)) (fun _ => ?_)
    refine punctuationOk_cases _ _ _ (fun h => hsingle _ (by
      rw [test_eq _ _ h]
      unfold Punctuation
      refine ⟨?_, ?_, ?_, ?_, ?_, ?_, ?_, ?_, ?_, ?_, ?_⟩ <;> intro e <;>
        first | exact absurd e (by decide) | exact ⟨rfl, hlen _⟩)) (fun _ => ?_)
    refine punctuationOk_cases _ _ _ (fun h => hsingle _ (by
      rw [test_eq _ _ h]
      unfold Punctuation
      refine ⟨?_, ?_, ?_, ?_, ?_, ?_, ?_, ?_, ?_, ?_, ?_⟩ <;> intro e <;>
        first | exact absurd e (by decide) | exact ⟨rfl, hlen _⟩)) (fun _ => ?_)
    refine punctuationOk_cases _ _ _ (fun h => hsingle _ (by
      rw [test_eq _ _ h]
      unfold Punctuation
      refine ⟨?_, ?_, ?_, ?_, ?_, ?_, ?_, ?_, ?_, ?_, ?_⟩ <;> intro e <;>
        first | exact absurd e (by decide) | exact ⟨rfl, hlen _⟩)) (fun _ => ?_)
    refine punctuationOk_cases _ _ _ (fun h => hsingle _ (by
      rw [test_eq _ _ h]
      unfold Punctuation
      refine ⟨?_, ?_, ?_, ?_, ?_, ?_, ?_, ?_, ?_, ?_, ?_⟩ <;> intro e <;>
        first | exact absurd e (by decide) | exact ⟨rfl, hlen _⟩)) (fun _ => ?_)
    refine punctuationOk_cases _ _ _ (fun h => hsingle _ (by
      rw [test_eq _ _ h]
      unfold Punctuation
      refine ⟨?_, ?_, ?_, ?_, ?_, ?_, ?_, ?_, ?_, ?_, ?_⟩ <;> intro e <;>
        first | exact absurd e (by decide) | exact ⟨rfl, hlen _⟩)) (fun _ => ?_)
    refine punctuationOk_cases _ _ _ (fun h => (by
      intro c hc
      obtain ⟨hh, hcase⟩ := makeToken2_cases a (ch '-') TOKEN_DECREASE TOKEN_MINUS h1 h2 (by decide)
      rw [hh, h0] at hc
      rw [← Option.some.inj hc, test_eq _ _ h]
      unfold Punctuation
      refine ⟨?_, ?_, ?_, ?_, ?_, ?_, ?_, ?_, ?_, ?_, ?_⟩ <;> intro e <;>
        first | exact absurd e (by decide) | exact hcase)) (fun _ => ?_)
    refine punctuationOk_cases _ _ _ (fun h => (by
      intro c hc
      obtain ⟨hh, hcase⟩ := makeToken2_cases a (ch '+') TOKEN_INCREASE TOKEN_PLUS h1 h2 (by decide)
      rw [hh, h0] at hc
      rw [← Option.some.inj hc, test_eq _ _ h]
      unfold Punctuation
      refine ⟨?_, ?_, ?_, ?_, ?_, ?_, ?_, ?_, ?_, ?_, ?_⟩ <;> intro e <;>
        first | exact absurd e (by decide) | exact hcase)) (fun _ => ?_)
    refine punctuationOk_cases _ _ _ (fun h => hsingle _ (by
      rw [test_eq _ _ h]
      unfold Punctuation
      refine ⟨?_, ?_, ?_, ?_, ?_, ?_, ?_, ?_, ?_, ?_, ?_⟩ <;> intro e <;>
        first | exact absurd e (by decide) | exact ⟨rfl, hlen _⟩)) (fun _ => ?_)
    refine punctuationOk_cases _ _ _ (fun h => hsingle _ (by
      rw [test_eq _ _ h]
      unfold Punctuation
      refine ⟨?_, ?_, ?_, ?_, ?_, ?_, ?_, ?_, ?_, ?_, ?_⟩ <;> intro e <;>
        first | exact absurd e (by decide) | exact ⟨rfl, hlen _⟩)) (fun _ => ?_)
    refine punctuationOk_cases _ _ _ (fun h => punctuationOk_other _ _
      (by rw [head_makeToken a _ (by omega) h2, h0])
      (not_mem_of_test (fun k => k == ch ':') c0 h (by decide))) (fun _ => ?_)
    refine punctuationOk_cases _ _ _ (fun h => makeToken2_other a _ _ _ h1 h2 (by decide)
      (by rw [h0]; exact not_mem_of_test (fun k => k == ch '!') c0 h (by decide)))
      (fun _ => ?_)
    refine punctuationOk_cases _ _ _ (fun h => makeToken2_other a _ _ _ h1 h2 (by decide)
      (by rw [h0]; exact not_mem_of_test (fun k => k == ch '=') c0 h (by decide)))
      (fun _ => ?_)
    refine punctuationOk_cases _ _ _ (fun h => makeToken2_other a _ _ _ h1 h2 (by decide)
      (by rw [h0]; exact not_mem_of_test (fun k => k == ch '<') c0 h (by decide)))
      (fun _ => ?_)
    refine punctuationOk_cases _ _ _ (fun h => makeToken2_other a _ _ _ h1 h2 (by decide)
      (by rw [h0]; exact not_mem_of_test (fun k => k == ch '>') c0 h (by decide)))
      (fun _ => ?_)
    refine punctuationOk_cases _ _ _ (fun h => string_punctuationOk a (by omega) h2 hs2
      (by rw [h0]; exact not_mem_of_test (fun k => k == ch '"') c0 h (by decide))) (fun _ => ?_)
    exact punctuationOk_other _ (ch 'U') rfl (by decide)

end Scanner

/-- C25, counterexample: the lexemes of the first tokens of `++` and `--`
start with `+` and `-`, and the tokens have length 2 and the kinds
`TOKEN_INCREASE` and `TOKEN_DECREASE`: each input is one token, not two. -/
theorem doubled_sign_is_one_token :
    ((initScanner (cstr "++")).scanToken).1.lexeme = cstr "++" ∧
    ((initScanner (cstr "++")).scanToken).1.type = TOKEN_INCREASE ∧
    ((initScanner (cstr "++")).scanToken).1.length = 2 ∧
    tokenKinds "++" = [(TOKEN_INCREASE, 2)] ∧
    ((initScanner (cstr "--")).scanToken).1.lexeme = cstr "--" ∧
    ((initScanner (cstr "--")).scanToken).1.type = TOKEN_DECREASE ∧
    ((initScanner (cstr "--")).scanToken).1.length = 2 ∧
    tokenKinds "--" = [(TOKEN_DECREASE, 2)] := by
  refine ⟨?_, ?_, ?_, ?_, ?_, ?_, ?_, ?_⟩ <;> decide!

/-- C25, as amended: a token that `scanToken` returns, from a position not
past the terminating NUL, and whose lexeme starts with the character `c`.
If `c` is one of `( ) \x7b \x7d , . ; * /`, the token has length 1 and the
kind of that character, whatever character follows.  If `c` is `+`, the
token is `TOKEN_PLUS` of length 1 and the character that follows is not `+`,
or it is `TOKEN_INCREASE` of length 2 and the character that follows is `+`;
likewise for `-` with `TOKEN_MINUS` and `TOKEN_DECREASE`.  The character
that follows is `start[1]`, the NUL at the end of the source. -/
theorem punctuation_single_unless_doubled (s : Scanner) (c : Nat)
    (hs : s.current ≤ s.source.length) (hc : (s.scanToken).1.lexeme.head? = some c) :
    (c = ch '(' → (s.scanToken).1.type = TOKEN_LEFT_PAREN ∧ (s.scanToken).1.length = 1) ∧
    (c = ch ')' → (s.scanToken).1.type = TOKEN_RIGHT_PAREN ∧ (s.scanToken).1.length = 1) ∧
    (c = ch '\x7b' → (s.scanToken).1.type = TOKEN_LEFT_BRACE ∧ (s.scanToken).1.length = 1) ∧
    (c = ch '\x7d' → (s.scanToken).1.type = TOKEN_RIGHT_BRACE ∧ (s.scanToken).1.length = 1) ∧
    (c = ch ',' → (s.scanToken).1.type = TOKEN_COMMA ∧ (s.scanToken).1.length = 1) ∧
    (c = ch '.' → (s.scanToken).1.type = TOKEN_DOT ∧ (s.scanToken).1.length = 1) ∧
    (c = ch ';' → (s.scanToken).1.type = TOKEN_SEMICOLON ∧ (s.scanToken).1.length = 1) ∧
    (c = ch '*' → (s.scanToken).1.type = TOKEN_STAR ∧ (s.scanToken).1.length = 1) ∧
    (c = ch '/' → (s.scanToken).1.type = TOKEN_SLASH ∧ (s.scanToken).1.length = 1) ∧
    (c = ch '+' →
      ((s.scanToken).1.type = TOKEN_PLUS ∧ (s.scanToken).1.length = 1 ∧
        (s.scanToken).1.start.getD 1 0 ≠ ch '+') ∨
      ((s.scanToken).1.type = TOKEN_INCREASE ∧ (s.scanToken).1.length = 2 ∧
        (s.scanToken).1.start.getD 1 0 = ch '+')) ∧
    (c = ch '-' →
      ((s.scanToken).1.type = TOKEN_MINUS ∧ (s.scanToken).1.length = 1 ∧
        (s.scanToken).1.start.getD 1 0 ≠ ch '-') ∨
      ((s.scanToken).1.type = TOKEN_DECREASE ∧ (s.scanToken).1.length = 2 ∧
        (s.scanToken).1.start.getD 1 0 = ch '-')) :=
  Scanner.scanToken_punctuationOk s hs c hc

/-- C25, witness: the first tokens of `+ +`, of `+-` and of `(+`. -/
theorem punctuation_single_unless_doubled_witness :
    ((initScanner (cstr "+-")).scanToken).1.lexeme.head? = some (ch '+') ∧
    (initScanner (cstr "+-")).current ≤ (initScanner (cstr "+-")).source.length ∧
    ((((initScanner (cstr "+-")).scanToken).1.type = TOKEN_PLUS ∧
        ((initScanner (cstr "+-")).scanToken).1.length = 1 ∧
        ((initScanner (cstr "+-")).scanToken).1.start.getD 1 0 ≠ ch '+') ∨
      (((initScanner (cstr "+-")).scanToken).1.type = TOKEN_INCREASE ∧
        ((initScanner (cstr "+-")).scanToken).1.length = 2 ∧
        ((initScanner (cstr "+-")).scanToken).1.start.getD 1 0 = ch '+')) ∧
    tokenKinds "+-" = [(TOKEN_PLUS, 1), (TOKEN_MINUS, 1)] ∧
    tokenKinds "+ +" = [(TOKEN_PLUS, 1), (TOKEN_PLUS, 1)] ∧
    tokenKinds "(+" = [(TOKEN_LEFT_PAREN, 1), (TOKEN_PLUS, 1)] :=
  ⟨by decide!, by decide,
    (punctuation_single_unless_doubled (initScanner (cstr "+-")) (ch '+') (by decide)
      (by decide!)).2.2.2.2.2.2.2.2.2.1 rfl,
    by decide!, by decide!, by decide!⟩

/-! ## C2: `compile` on a source of five lines -/

/-- C2, at the failing input: a source with code on five lines.  The code of
four lines compiles: no error is reported and the function 4 is returned;
its chunk has 8 cells in `rle` and `rleIndex` is 6.  A byte on a fifth line
then makes `addLine` write the cells 8 and 9 of that array (the growth test
`rleIndex + 2 > rleCapacity` is made before `rleIndex` is advanced), so
`writeChunk` has no defined result, and neither has `compile` on the source
of five lines, with 100 or 1000 levels of recursion allowed, nor `interpret`:
no error is reported and no function is returned.  The same holds of four
lines that end with a newline, where `OP_NIL` and `OP_RETURN` of
`endCompiler` are on the fifth line.  Five statements on four lines
compile. -/
theorem compile_undefined_on_fifth_line :
    compileMessages quietHost 100 "nil;\nnil;\nnil;\nnil;" = some (4, []) ∧
    (scriptChunk quietHost 100 "nil;\nnil;\nnil;\nnil;").map
      (fun c => ([c.rleIndex, c.rleCapacity], c.rle)) =
        some ([6, 8], [2, 1, 2, 2, 2, 3, 4, 4]) ∧
    (scriptChunk quietHost 100 "nil;\nnil;\nnil;\nnil;").map
      (fun c => (addLineCells quietHost c 5, (writeChunk quietHost c OP_NIL 5).isNone)) =
        some ((8, [6, 7, 8, 9]), true) ∧
    compileReturns quietHost 100 "nil;\nnil;\nnil;\nnil;\nnil;" = false ∧
    compileReturns quietHost 1000 "nil;\nnil;\nnil;\nnil;\nnil;" = false ∧
    (bootAndInterpret quietHost 100 "nil;\nnil;\nnil;\nnil;\nnil;").isNone = true ∧
    compileReturns quietHost 100 "nil;\nnil;\nnil;\nnil;\n" = false ∧
    compileReturns quietHost 100 "nil;\nnil;\nnil;\nnil; nil;" = true := by
  refine ⟨?_, ?_, ?_, ?_, ?_, ?_, ?_, ?_⟩ <;> decide!

/-! ## C5, C14, C32: a collection in the middle of an instruction -/

/-- C5, at the failing input: `"g" + "h"; "aa" + "bb";` stopped at the second
`OP_ADD`, when `vm.bytesAllocated` has reached `vm.nextGC` (the 1 MiB that
`initVM` sets).  The stack holds the closure 9 and the strings 7 (`aa`) and
8 (`bb`); the string 10 (`gh`) of the first statement is garbage.
`concatenate` calls `ALLOCATE(char, 5)`, which starts a collection; the sweep
frees the string 10, and `reallocate`, called to free its characters, finds
`bytesAllocated` above `nextGC` still and starts a second collection, whose
sweep clears the marks of all objects; the first sweep goes on and frees them
all, the operands 7 and 8 among them.  `memcpy` then reads `a->chars` of a
freed object, so the case has no defined result.  When the allocation starts
no collection the two operands are replaced by the string `aabb`. -/
theorem concatenate_reads_freed_operand :
    (addDispatch (1024 * 1024)).map (fun r => (r.1, r.2.2.vm.stack.map AS_OBJ,
        [r.2.2.charsAt 7, r.2.2.charsAt 8, r.2.2.charsAt 10])) =
      some (OP_ADD, [9, 7, 8], [some (cstr "aa"), some (cstr "bb"), some (cstr "gh")]) ∧
    (addDispatch (1024 * 1024)).bind (fun r => (reallocate lp64 50 r.2.2 0 5).map
        (fun m => (m.freed, m.collections, [m.charsAt 7, m.charsAt 8]))) =
      some ([10, 9, 8, 7, 6, 5, 4, 3, 2, 1], 2, [none, none]) ∧
    ((addDispatch (1024 * 1024)).bind
      (fun r => Memory.opAdd lp64 50 quietHost r.2.2)).isNone = true ∧
    ((addDispatch 0).bind (fun r => Memory.opAdd lp64 50 quietHost r.2.2)).bind
      (fun r => (r.2.vm.peek 0).map (fun v =>
        (r.1, r.2.charsAt (AS_OBJ v), r.2.vm.stack.length, r.2.freed, r.2.collections))) =
      some (none, some (cstr "aabb"), 2, [], 0) := by
  refine ⟨?_, ?_, ?_, ?_⟩ <;> decide!

/-- C14, at the failing input:
`var a; var b; var c; var d; var e; "g" + "h"; f = nil;` stopped at
`OP_SET_GLOBAL`, when `vm.bytesAllocated` has reached `vm.nextGC`.  The
globals table holds 6 of 8 entries, so `tableSet` grows it:
`adjustCapacity` calls `ALLOCATE(Entry, 16)`, which starts a collection; the
sweep frees the garbage string 14 (`gh`), the call of `reallocate` that frees
its characters starts a second collection, whose sweep clears all marks, and
the first sweep goes on and frees every object, the name 12 (`f`), the keys
of the table and the running closure 13 among them.  The loop of
`adjustCapacity` then reads `key->hash` of freed keys, and `runtimeError`
would read `name->chars` of the freed name: the case has no defined result.
When the allocation starts no collection the case reports
"Undefined variable 'f'." and `f` stays undefined. -/
theorem set_global_reads_freed_name :
    (setGlobalDispatch (1024 * 1024)).map (fun r => (r.1, r.2.2.vm.stack.map AS_OBJ,
        [r.2.2.vm.globals.count, r.2.2.vm.globals.capacity])) =
      some (OP_SET_GLOBAL, [13, AS_OBJ NIL_VAL], [6, 8]) ∧
    (setGlobalDispatch (1024 * 1024)).bind (fun r =>
        (r.2.2.vm.readString r.2.1).map (fun p => p.1)) = some 12 ∧
    (setGlobalDispatch (1024 * 1024)).map (fun r => [r.2.2.charsAt 12, r.2.2.charsAt 14]) =
      some [some (cstr "f"), some (cstr "gh")] ∧
    (setGlobalDispatch (1024 * 1024)).bind (fun r =>
        (reallocate lp64 50 r.2.2 0 (lp64.entry * 16)).map
          (fun m => (m.freed, m.collections, m.charsAt 12))) =
      some ([14, 13, 12, 11, 10, 9, 8, 7, 6, 5, 4, 3, 2, 1], 2, none) ∧
    ((setGlobalDispatch (1024 * 1024)).bind
      (fun r => Memory.opSetGlobal lp64 50 r.2.2 r.2.1)).isNone = true ∧
    ((setGlobalDispatch 0).bind (fun r => Memory.opSetGlobal lp64 50 r.2.2 r.2.1)).map
      (fun r => (r.1, r.2.vm.err.map (fun e => e.message))) =
      some (some INTERPRET_RUNTIME_ERROR, ["Undefined variable 'f'."]) ∧
    ((setGlobalDispatch 0).bind (fun r => Memory.opSetGlobal lp64 50 r.2.2 r.2.1)).map
      (fun r => (tableGet r.2.vm.hashOf r.2.vm.globals 12, r.2.freed, r.2.collections)) =
      some (some none, [], 0) := by
  refine ⟨?_, ?_, ?_, ?_, ?_, ?_, ?_⟩ <;> decide!

/-- C32, at the failing input:
`class S \x7b m() \x7b\x7d \x7d "g" + "h"; class C < S \x7b\x7d` stopped at
`OP_INHERIT`, when `vm.bytesAllocated` has reached `vm.nextGC`.  The stack
holds the closure 11, the class `S` (12) and the class `C` (15), whose method
table is empty, so the first `tableSet` of `tableAddAll` grows it:
`adjustCapacity` calls `ALLOCATE(Entry, 8)`, which starts a collection; the
sweep clears the mark of `C` and frees the garbage string 14 (`gh`), the call
of `reallocate` that frees its characters starts a second collection, whose
sweep clears all marks, and the first sweep goes on and frees the objects 13
to 1, the superclass 12 and the name of its method among them.  `tableSet`
then reads `key->hash` of the freed name and `tableAddAll` reads the table
of the freed superclass: the case has no defined result.  When the
allocation starts no collection the method is copied and only the subclass
is popped. -/
theorem inherit_reads_freed_superclass :
    (inheritDispatch (1024 * 1024)).map (fun r => (r.1, r.2.2.vm.stack.map AS_OBJ)) =
      some (OP_INHERIT, [11, 12, 15]) ∧
    (inheritDispatch (1024 * 1024)).map (fun r =>
        [(r.2.2.tableAt (.methods 12)).map (fun t => [t.count, t.capacity]),
         (r.2.2.tableAt (.methods 15)).map (fun t => [t.count, t.capacity])]) =
      some [some [1, 8], some [0, 0]] ∧
    (inheritDispatch (1024 * 1024)).map (fun r => r.2.2.charsAt 14) = some (some (cstr "gh")) ∧
    (inheritDispatch (1024 * 1024)).bind (fun r =>
        (reallocate lp64 50 r.2.2 0 (lp64.entry * 8)).map
          (fun m => (m.freed, m.collections, (m.tableAt (.methods 12)).isSome))) =
      some ([14, 13, 12, 11, 10, 9, 8, 7, 6, 5, 4, 3, 2, 1], 2, false) ∧
    ((inheritDispatch (1024 * 1024)).bind (fun r => Memory.opInherit lp64 50 r.2.2)).isNone =
      true ∧
    ((inheritDispatch 0).bind (fun r => Memory.opInherit lp64 50 r.2.2)).map
      (fun r => (r.1, r.2.vm.stack.map AS_OBJ, r.2.freed, r.2.collections)) =
      some (none, [11, 12], [], 0) ∧
    ((inheritDispatch 0).bind (fun r => Memory.opInherit lp64 50 r.2.2)).map
      (fun r =>
        [(r.2.tableAt (.methods 12)).map (fun t => t.entries.filter (fun e => e.key != 0)),
         (r.2.tableAt (.methods 15)).map (fun t => t.entries.filter (fun e => e.key != 0))]) =
      some [some [{ key := 6, value := OBJ_VAL 13 }],
            some [{ key := 6, value := OBJ_VAL 13 }]] := by
  refine ⟨?_, ?_, ?_, ?_, ?_, ?_, ?_⟩ <;> decide!

end Clox
